import Mathlib

/-!
# Protected files (Graphene, `Pal/src/host/Linux-SGX/protected-files/protected_files.c`)

A shallow embedding of the protected-file core: the block layout arithmetic,
the in-memory context with its node cache, the read/write engine, the flush
engine and open/close, followed by theorems about them.

Conventions of the embedding.

* `uint64_t` node numbers are natural numbers reduced `% 2 ^ 64` where the C
  code computes them; byte offsets and sizes are natural numbers.
* A `file_node_t*` is a `NodePtr`: the address of `pf->root_mht`, or the cache
  key (physical node number) of a node owned by the LRU cache.
* The host callbacks are not part of the translation unit.  Their behaviour is
  a value of `Env`; the state they act on is a value of `Host`.
-/

namespace PF

/-! ## Constants -/

/-- Block size (`PF_NODE_SIZE`). -/
def PF_NODE_SIZE : Nat := 4096

/-- Data nodes attached to one MHT node (`ATTACHED_DATA_NODES_COUNT`). -/
def ATTACHED_DATA_NODES_COUNT : Nat := 96

/-- Child MHT nodes of one MHT node (`CHILD_MHT_NODES_COUNT`). -/
def CHILD_MHT_NODES_COUNT : Nat := 32

/-- Modelled from the spec: `MD_USER_DATA_SIZE` is declared in
`protected_files_internal.h`, which is not among the sources.  The inline
region is "the first 3KB of user data" (comment in `ipf_close`). -/
def MD_USER_DATA_SIZE : Nat := 3072

/-- `MAX_MASTER_KEY_USAGES`. -/
def MAX_MASTER_KEY_USAGES : Nat := 65536

/-- `MAX_LABEL_SIZE`. -/
def MAX_LABEL_SIZE : Nat := 64

/-- Range of `uint64_t`. -/
def U64 : Nat := 2 ^ 64

/-! ## Status codes -/

/-- Modelled from the spec: `pf_status_t` is declared in `protected_files.h`;
these are the codes the source file names, plus one code for a failing host
callback.  `SUCCESS` is the value 0.  `BOOL_TRUE` is the value 1, which is no
declared code: it is what a `bool` `true` stored in a `pf_status_t` holds. -/
inductive pf_status_t where
  | SUCCESS
  | BOOL_TRUE
  | UNKNOWN_ERROR
  | UNINITIALIZED
  | INVALID_PARAMETER
  | INVALID_MODE
  | NO_MEMORY
  | INVALID_VERSION
  | INVALID_HEADER
  | INVALID_PATH
  | MAC_MISMATCH
  | NOT_IMPLEMENTED
  | CALLBACK_FAILED
  | PATH_TOO_LONG
  | RECOVERY_NEEDED
  | FLUSH_ERROR
  | CRYPTO_ERROR
  | CORRUPTED
  | WRITE_TO_DISK_FAILED
  | RECOVERY_IMPOSSIBLE
  deriving DecidableEq, Repr, Inhabited

open pf_status_t

/-- `PF_FAILURE(status)`. -/
def PF_FAILURE (s : pf_status_t) : Bool := decide (s ≠ SUCCESS)

/-- `PF_SUCCESS(status)`. -/
def PF_SUCCESS (s : pf_status_t) : Bool := decide (s = SUCCESS)

/-! ## Tree navigator -/

/-- Result of `get_node_numbers` (its four out-parameters). -/
structure NodeNumbers where
  mht_node_number : Nat
  data_node_number : Nat
  physical_mht_node_number : Nat
  physical_data_node_number : Nat
  deriving DecidableEq, Repr

/-- `get_node_numbers`: node numbers of the data node holding byte `offset`
and of the MHT node it is attached to.  All arithmetic is `uint64_t`. -/
def get_node_numbers (offset : Nat) : NodeNumbers :=
  let _data_node_number := ((offset + U64 - MD_USER_DATA_SIZE) % U64) / PF_NODE_SIZE
  let _mht_node_number := _data_node_number / ATTACHED_DATA_NODES_COUNT
  let _physical_data_node_number := (_data_node_number + 1 + 1 + _mht_node_number) % U64
  let _physical_mht_node_number :=
    (_physical_data_node_number + U64
      - _data_node_number % ATTACHED_DATA_NODES_COUNT + U64 - 1) % U64
  { mht_node_number := _mht_node_number
    data_node_number := _data_node_number
    physical_mht_node_number := _physical_mht_node_number
    physical_data_node_number := _physical_data_node_number }

/-- Physical number of MHT node `mht_node_number` as `ipf_read_mht_node` and
`ipf_append_mht_node` compute it: `1 + mht_node_number * (1 + 96)`. -/
def mht_physical_node_number (mht_node_number : Nat) : Nat :=
  (1 + mht_node_number * (1 + ATTACHED_DATA_NODES_COUNT)) % U64

/-! ## Data model -/

/-- One byte. -/
abbrev Byte := Fin 256

/-- A 128-bit key (`pf_key_t`), as an uninterpreted value. -/
abbrev pf_key_t := Nat

/-- A 128-bit GMAC tag (`pf_mac_t`), as an uninterpreted value. -/
abbrev pf_mac_t := Nat

/-- A 128-bit key id / nonce (`pf_keyid_t`), as an uninterpreted value. -/
abbrev pf_keyid_t := Nat

/-- A C string: its characters up to the terminating NUL. -/
abbrev Path := List Char

/-- `pf_file_mode_t`, a bit mask. -/
abbrev pf_file_mode_t := Nat

/-- `PF_FILE_MODE_READ`. -/
def PF_FILE_MODE_READ : pf_file_mode_t := 1

/-- `PF_FILE_MODE_WRITE`. -/
def PF_FILE_MODE_WRITE : pf_file_mode_t := 2

/-- `mode & flag`, as a truth value. -/
def mode_has (mode flag : pf_file_mode_t) : Bool := (mode &&& flag) != 0

/-- `gcm_crypto_data_t`: key and tag of one child node. -/
structure gcm_crypto_data_t where
  key : pf_key_t
  gmac : pf_mac_t
  deriving DecidableEq, Repr, Inhabited

/-- `mht_node_t`: 96 entries for attached data nodes, 32 for child MHT nodes.
Arrays are functions of the index. -/
structure mht_node_t where
  data_nodes_crypto : Nat → gcm_crypto_data_t
  mht_nodes_crypto : Nat → gcm_crypto_data_t

/-- `meta_data_encrypted_t`: the plaintext of the encrypted metadata part. -/
structure meta_data_encrypted_t where
  clean_filename : Path
  size : Nat
  mht_key : pf_key_t
  mht_gmac : pf_mac_t
  data : Nat → Byte

/-- A buffer handed to or returned by the AEAD callbacks, by the layout of
what it holds: raw bytes (a data node, any ciphertext), an MHT node, or the
metadata encrypted part. -/
inductive Buf where
  | data (bytes : Nat → Byte)
  | mht (m : mht_node_t)
  | md (e : meta_data_encrypted_t)

/-- All-zero bytes (`calloc`, `memset 0`). -/
def zero_bytes : Nat → Byte := fun _ => 0

/-- The all-zero MHT node. -/
def zero_mht : mht_node_t :=
  { data_nodes_crypto := fun _ => ⟨0, 0⟩, mht_nodes_crypto := fun _ => ⟨0, 0⟩ }

/-- The all-zero metadata encrypted part. -/
def zero_encrypted_part : meta_data_encrypted_t :=
  { clean_filename := [], size := 0, mht_key := 0, mht_gmac := 0, data := zero_bytes }

/-- Read a buffer as `decrypted.data.data`. -/
def Buf.as_data : Buf → (Nat → Byte)
  | .data d => d
  | _ => zero_bytes

/-- Read a buffer as `decrypted.mht`. -/
def Buf.as_mht : Buf → mht_node_t
  | .mht m => m
  | _ => zero_mht

/-- Read a buffer as `meta_data_encrypted_t`. -/
def Buf.as_md : Buf → meta_data_encrypted_t
  | .md e => e
  | _ => zero_encrypted_part

/-- `meta_data_plain_t`. -/
structure meta_data_plain_t where
  file_id : Nat
  major_version : Nat
  minor_version : Nat
  meta_data_key_id : pf_keyid_t
  meta_data_gmac : pf_mac_t
  update_flag : Nat
  deriving DecidableEq, Repr, Inhabited

/-- `meta_data_node_t`: block 0. -/
structure meta_data_node_t where
  plain_part : meta_data_plain_t
  encrypted_part : Buf

/-- The all-zero metadata node. -/
def zero_meta_data_node : meta_data_node_t :=
  { plain_part := ⟨0, 0, 0, 0, 0, 0⟩, encrypted_part := .data zero_bytes }

/-- One 4096-byte block of the protected file: the metadata node or the
ciphertext of an MHT or data node. -/
inductive Block where
  | meta (m : meta_data_node_t)
  | node (cipher : Buf)

/-- Read a block as `meta_data_node_t`. -/
def Block.as_meta : Block → meta_data_node_t
  | .meta m => m
  | .node _ => zero_meta_data_node

/-- Read a block as a node ciphertext. -/
def Block.as_node : Block → Buf
  | .node c => c
  | .meta _ => .data zero_bytes

/-- `recovery_node_t`: physical number and pre-image of one block
(8 + 4096 bytes). -/
structure recovery_node_t where
  physical_node_number : Nat
  encrypted : Block

/-- `sizeof(recovery_node_t)`. -/
def RECOVERY_NODE_SIZE : Nat := 8 + PF_NODE_SIZE

/-- Node type tag. -/
inductive node_type where
  | FILE_MHT_NODE_TYPE
  | FILE_DATA_NODE_TYPE
  deriving DecidableEq, Repr, Inhabited

open node_type

/-- A `file_node_t*`: `&pf->root_mht`, or a node owned by the cache, named by
its cache key. -/
inductive NodePtr where
  | root
  | cached (key : Nat)
  deriving DecidableEq, Repr, Inhabited

/-- `file_node_t`.  `recovery_node` is the union view of
`physical_node_number` and `encrypted`. -/
structure file_node_t where
  type : node_type
  node_number : Nat
  parent : NodePtr
  need_writing : Bool
  new_node : Bool
  physical_node_number : Nat
  encrypted : Buf
  decrypted : Buf

/-- The recovery record of a node (the union member `recovery_node`). -/
def file_node_t.recovery_node (n : file_node_t) : recovery_node_t :=
  { physical_node_number := n.physical_node_number, encrypted := .node n.encrypted }

/-- A node as `calloc` returns it. -/
def calloc_node : file_node_t :=
  { type := FILE_MHT_NODE_TYPE, node_number := 0, parent := .root, need_writing := false,
    new_node := false, physical_node_number := 0, encrypted := .data zero_bytes,
    decrypted := .data zero_bytes }

/-- A host file handle (`pf_handle_t`): the protected file or its recovery
file. -/
inductive pf_handle_t where
  | source
  | recovery
  deriving DecidableEq, Repr, Inhabited

/-- `pf_context_t`.  `cache` is the LRU cache, most recently used first. -/
structure pf_context_t where
  file_meta_data : meta_data_node_t
  encrypted_part_plain : meta_data_encrypted_t
  root_mht : file_node_t
  cache : List file_node_t
  offset : Nat
  file : Option pf_handle_t
  end_of_file : Bool
  need_writing : Bool
  file_status : pf_status_t
  last_error : pf_status_t
  real_file_size : Nat
  master_key_count : Nat
  mode : pf_file_mode_t
  recovery_path : Path
  user_kdk_key : pf_key_t
  cur_key : pf_key_t
  session_master_key : pf_key_t
  hang : Bool

/-- The metadata recovery record (union member `meta_data_recovery_node`). -/
def pf_context_t.meta_data_recovery_node (pf : pf_context_t) : recovery_node_t :=
  { physical_node_number := 0, encrypted := .meta pf.file_meta_data }

/-- `kdf_input_t`. -/
structure kdf_input_t where
  index : Nat
  label : List Char
  node_number : Nat
  nonce : pf_keyid_t
  output_len : Nat
  deriving DecidableEq, Repr, Inhabited

/-! ## Host -/

/-- One host callback invocation. -/
inductive Event where
  | read (handle : pf_handle_t) (offset size : Nat)
  | write_block (offset : Nat) (b : Block)
  | write_record (offset : Nat) (r : recovery_node_t)
  | open_file (handle : pf_handle_t) (mode : pf_file_mode_t)
  | close (handle : pf_handle_t)
  | delete (handle : pf_handle_t)
  | random

/-- What the callbacks act on: the blocks of the protected file, its size in
bytes, the whole records of the recovery file when it exists and the number of
bytes after its last whole record, the number of callbacks and of allocations
made so far, and the callbacks made so far. -/
structure Host where
  file : Nat → Block
  file_size : Nat
  recovery : Option (List recovery_node_t)
  recovery_tail : Nat
  clock : Nat
  allocs : Nat
  trace : List Event

/-- What the translation unit takes from outside: header constants whose
values the source does not show, whether `pf_set_callbacks` ran, the status
each I/O callback returns (by invocation count), the random source, the AEAD
callbacks (IV is always the zero IV), and which allocations succeed. -/
structure Env where
  PF_FILE_ID : Nat
  PF_MAJOR_VERSION : Nat
  PF_MINOR_VERSION : Nat
  PATH_MAX_SIZE : Nat
  RECOVERY_PATH_MAX_SIZE : Nat
  MAX_PAGES_IN_CACHE : Nat
  g_initialized : Bool
  io_status : Nat → pf_status_t
  random : Nat → pf_status_t × pf_keyid_t
  aes_gcm_encrypt : pf_key_t → Option kdf_input_t → Option Buf → pf_status_t × Buf × pf_mac_t
  aes_gcm_decrypt : pf_key_t → Buf → pf_mac_t → pf_status_t × Buf
  alloc_ok : Nat → Bool

/-- Count one callback. -/
def Host.tick (h : Host) (e : Event) : Host :=
  { h with clock := h.clock + 1, trace := h.trace ++ [e] }

/-- `cb_read` on the protected file: one block at a block-aligned offset. -/
def cb_read (env : Env) (h : Host) (offset size : Nat) : pf_status_t × Block × Host :=
  (env.io_status h.clock, h.file (offset / PF_NODE_SIZE), h.tick (.read .source offset size))

/-- `cb_read` on the recovery file: one record at a record-aligned offset. -/
def cb_read_record (env : Env) (h : Host) (offset size : Nat) :
    pf_status_t × Option recovery_node_t × Host :=
  (env.io_status h.clock,
   (h.recovery.getD [])[offset / RECOVERY_NODE_SIZE]?,
   h.tick (.read .recovery offset size))

/-- `cb_write` on the protected file.  A failed write leaves the file as it
was. -/
def cb_write (env : Env) (h : Host) (buffer : Block) (offset size : Nat) : pf_status_t × Host :=
  let status := env.io_status h.clock
  let h1 := h.tick (.write_block offset buffer)
  if PF_FAILURE status then (status, h1)
  else (status, { h1 with file := Function.update h1.file (offset / PF_NODE_SIZE) buffer,
                          file_size := max h1.file_size (offset + size) })

/-- Store record `r` in slot `i` of a record list. -/
def put_record (l : List recovery_node_t) (i : Nat) (r : recovery_node_t) : List recovery_node_t :=
  if i < l.length then l.set i r else l ++ [r]

/-- `cb_write` on the recovery file. -/
def cb_write_record (env : Env) (h : Host) (buffer : recovery_node_t) (offset : Nat) :
    pf_status_t × Host :=
  let status := env.io_status h.clock
  let h1 := h.tick (.write_record offset buffer)
  if PF_FAILURE status then (status, h1)
  else
    let old := h1.recovery.getD []
    let slot := offset / RECOVERY_NODE_SIZE
    let tail := if slot < old.length then h1.recovery_tail else 0
    (status, { h1 with recovery := some (put_record old slot buffer), recovery_tail := tail })

/-- `cb_open`: returns the handle and the size of the file.  Opening the
recovery file for writing creates it. -/
def cb_open (env : Env) (h : Host) (handle : pf_handle_t) (mode : pf_file_mode_t) :
    pf_status_t × Nat × Host :=
  let status := env.io_status h.clock
  let h1 := h.tick (.open_file handle mode)
  match handle with
  | .source => (status, h1.file_size, h1)
  | .recovery =>
    if PF_FAILURE status then (status, 0, h1)
    else
      let size := (h1.recovery.getD []).length * RECOVERY_NODE_SIZE + h1.recovery_tail
      if mode_has mode PF_FILE_MODE_WRITE then
        (status, size, { h1 with recovery := some (h1.recovery.getD []) })
      else (status, size, h1)

/-- `cb_close`. -/
def cb_close (env : Env) (h : Host) (handle : pf_handle_t) : pf_status_t × Host :=
  (env.io_status h.clock, h.tick (.close handle))

/-- `cb_delete` of the recovery file. -/
def cb_delete (env : Env) (h : Host) : pf_status_t × Host :=
  let status := env.io_status h.clock
  let h1 := h.tick (.delete .recovery)
  if PF_FAILURE status then (status, h1)
  else (status, { h1 with recovery := none, recovery_tail := 0 })

/-- `cb_random`: a fresh 128-bit value. -/
def cb_random (env : Env) (h : Host) : pf_status_t × pf_keyid_t × Host :=
  ((env.random h.clock).1, (env.random h.clock).2, h.tick .random)

/-- `calloc`/`malloc`: whether the next allocation succeeds. -/
def alloc (env : Env) (h : Host) : Bool × Host :=
  (env.alloc_ok h.allocs, { h with allocs := h.allocs + 1 })

/-! ## LRU cache -/

/-- Modelled from the spec: `lruc_add` (lru_cache.c is not among the sources):
the new entry becomes the most recently used one. -/
def lruc_add (cache : List file_node_t) (node : file_node_t) : List file_node_t :=
  node :: cache

/-- Modelled from the spec: `lruc_find`, lookup by key without reordering. -/
def lruc_find (cache : List file_node_t) (key : Nat) : Option file_node_t :=
  cache.find? (fun n => n.physical_node_number == key)

/-- Modelled from the spec: `lruc_get`, lookup by key that marks the entry most
recently used. -/
def lruc_get (cache : List file_node_t) (key : Nat) : Option file_node_t × List file_node_t :=
  match lruc_find cache key with
  | none => (none, cache)
  | some n => (some n, n :: cache.eraseP (fun m => m.physical_node_number == key))

/-- Modelled from the spec: `lruc_get_last`, the least recently used entry. -/
def lruc_get_last (cache : List file_node_t) : Option file_node_t :=
  cache.getLast?

/-- Modelled from the spec: `lruc_remove_last`. -/
def lruc_remove_last (cache : List file_node_t) : List file_node_t :=
  cache.dropLast

/-- Modelled from the spec: `lruc_size`. -/
def lruc_size (cache : List file_node_t) : Nat :=
  cache.length

/-! ## Pointers into the node graph -/

/-- Read through a node pointer.  A pointer to a node that is no longer cached
reads as the zeroed node. -/
def pf_context_t.deref (pf : pf_context_t) : NodePtr → file_node_t
  | .root => pf.root_mht
  | .cached key => (lruc_find pf.cache key).getD calloc_node

/-- Write through a node pointer. -/
def pf_context_t.modify (pf : pf_context_t) (p : NodePtr) (f : file_node_t → file_node_t) :
    pf_context_t :=
  match p with
  | .root => { pf with root_mht := f pf.root_mht }
  | .cached key =>
    { pf with cache := pf.cache.map (fun n => if n.physical_node_number = key then f n else n) }

/-- The pointer to a node: the root MHT is `&pf->root_mht`, every other node
lives in the cache under its physical number. -/
def file_node_t.ptr (n : file_node_t) : NodePtr :=
  if n.type = FILE_MHT_NODE_TYPE ∧ n.node_number = 0 then .root else .cached n.physical_node_number

/-! ## Node I/O -/

/-- `a - b` in `uint64_t`. -/
def u64_sub (a b : Nat) : Nat := (a + U64 - b % U64) % U64

/-- `ipf_read_node` on the protected file: read the block at the `uint64_t`
offset `node_number * node_size`. -/
def ipf_read_node (env : Env) (pf : pf_context_t) (h : Host) (node_number : Nat) :
    Option Block × pf_context_t × Host :=
  let offset := node_number * PF_NODE_SIZE % U64
  match cb_read env h offset PF_NODE_SIZE with
  | (status, buffer, h1) =>
    if PF_FAILURE status then (none, { pf with last_error := status }, h1)
    else (some buffer, pf, h1)

/-- `ipf_read_node` on the recovery file: read record `node_number`. -/
def ipf_read_recovery_node (env : Env) (pf : pf_context_t) (h : Host) (node_number : Nat) :
    Option (Option recovery_node_t) × pf_context_t × Host :=
  let offset := node_number * RECOVERY_NODE_SIZE
  match cb_read_record env h offset RECOVERY_NODE_SIZE with
  | (status, buffer, h1) =>
    if PF_FAILURE status then (none, { pf with last_error := status }, h1)
    else (some buffer, pf, h1)

/-- `ipf_write_file` on the protected file. -/
def ipf_write_file (env : Env) (pf : pf_context_t) (h : Host) (offset : Nat) (buffer : Block)
    (size : Nat) : Bool × pf_context_t × Host :=
  match cb_write env h buffer offset size with
  | (status, h1) =>
    if PF_FAILURE status then (false, { pf with last_error := status }, h1)
    else (true, pf, h1)

/-- `ipf_write_node` on the protected file: write the block at the `uint64_t`
offset `node_number * node_size`. -/
def ipf_write_node (env : Env) (pf : pf_context_t) (h : Host) (node_number : Nat)
    (buffer : Block) : Bool × pf_context_t × Host :=
  ipf_write_file env pf h (node_number * PF_NODE_SIZE % U64) buffer PF_NODE_SIZE

/-- `ipf_write_file` on the recovery file: one record at byte `offset`. -/
def ipf_write_recovery_record (env : Env) (pf : pf_context_t) (h : Host) (offset : Nat)
    (buffer : recovery_node_t) : Bool × pf_context_t × Host :=
  match cb_write_record env h buffer offset with
  | (status, h1) =>
    if PF_FAILURE status then (false, { pf with last_error := status }, h1)
    else (true, pf, h1)

/-! ## Key derivation -/

/-- `MASTER_KEY_NAME`. -/
def MASTER_KEY_NAME : List Char := "SGX-PROTECTED-FS-MASTER-KEY".toList

/-- `RANDOM_KEY_NAME`. -/
def RANDOM_KEY_NAME : List Char := "SGX-PROTECTED-FS-RANDOM-KEY".toList

/-- `METADATA_KEY_NAME`. -/
def METADATA_KEY_NAME : List Char := "SGX-PROTECTED-FS-METADATA-KEY".toList

/-- `ipf_generate_secure_blob`: derive a key from `key`; the derived key is
returned (the C code stores it through `output`). -/
def ipf_generate_secure_blob (env : Env) (pf : pf_context_t) (h : Host) (key : pf_key_t)
    (label : List Char) (physical_node_number : Nat) :
    Option pf_key_t × pf_context_t × Host :=
  if label.length > MAX_LABEL_SIZE - 1 then
    (none, { pf with last_error := INVALID_PARAMETER }, h)
  else
    match cb_random env h with
    | (status, nonce, h1) =>
      if PF_FAILURE status then (none, { pf with last_error := status }, h1)
      else
        let buf : kdf_input_t :=
          { index := 1, label := label, node_number := physical_node_number, nonce := nonce,
            output_len := 0x80 }
        match env.aes_gcm_encrypt key (some buf) none with
        | (status, _, output) =>
          if PF_FAILURE status then (none, { pf with last_error := status }, h1)
          else (some output, pf, h1)

/-- `ipf_generate_secure_blob_from_user_kdk`: derive the metadata key from the
user KDK into `cur_key`, with a fresh nonce or (`restore`) the stored one. -/
def ipf_generate_secure_blob_from_user_kdk (env : Env) (pf : pf_context_t) (h : Host)
    (restore : Bool) : Bool × pf_context_t × Host :=
  let nonce_step : Option pf_keyid_t × pf_context_t × Host :=
    if !restore then
      match cb_random env h with
      | (status, nonce, h1) =>
        if PF_FAILURE status then (none, { pf with last_error := status }, h1)
        else (some nonce, pf, h1)
    else (some pf.file_meta_data.plain_part.meta_data_key_id, pf, h)
  match nonce_step with
  | (none, pf1, h1) => (false, pf1, h1)
  | (some nonce, pf1, h1) =>
    let buf : kdf_input_t :=
      { index := 1, label := METADATA_KEY_NAME, node_number := 0, nonce := nonce,
        output_len := 0x80 }
    match env.aes_gcm_encrypt pf1.user_kdk_key (some buf) none with
    | (status, _, output) =>
      if PF_FAILURE status then (false, { pf1 with last_error := status }, h1)
      else
        let pf2 := { pf1 with cur_key := output }
        if !restore then
          (true,
            { pf2 with file_meta_data :=
                { pf2.file_meta_data with plain_part :=
                    { pf2.file_meta_data.plain_part with meta_data_key_id := nonce } } }, h1)
        else (true, pf2, h1)

/-- `ipf_init_session_master_key`. -/
def ipf_init_session_master_key (env : Env) (pf : pf_context_t) (h : Host) :
    Bool × pf_context_t × Host :=
  match ipf_generate_secure_blob env pf h 0 MASTER_KEY_NAME 0 with
  | (none, pf1, h1) => (false, pf1, h1)
  | (some k, pf1, h1) => (true, { pf1 with session_master_key := k, master_key_count := 0 }, h1)

/-- `ipf_derive_random_node_key`: a fresh node key into `cur_key`. -/
def ipf_derive_random_node_key (env : Env) (pf : pf_context_t) (h : Host)
    (physical_node_number : Nat) : Bool × pf_context_t × Host :=
  let old_count := pf.master_key_count
  let pf0 := { pf with master_key_count := pf.master_key_count + 1 }
  let rekey : Bool × pf_context_t × Host :=
    if old_count ≥ MAX_MASTER_KEY_USAGES then ipf_init_session_master_key env pf0 h
    else (true, pf0, h)
  match rekey with
  | (false, pf1, h1) => (false, pf1, h1)
  | (true, pf1, h1) =>
    match ipf_generate_secure_blob env pf1 h1 pf1.session_master_key RANDOM_KEY_NAME
        physical_node_number with
    | (none, pf2, h2) => (false, pf2, h2)
    | (some k, pf2, h2) => (true, { pf2 with cur_key := k }, h2)

/-- `ipf_generate_random_meta_data_key`. -/
def ipf_generate_random_meta_data_key (env : Env) (pf : pf_context_t) (h : Host) :
    Bool × pf_context_t × Host :=
  ipf_generate_secure_blob_from_user_kdk env pf h false

/-- `ipf_restore_current_meta_data_key`. -/
def ipf_restore_current_meta_data_key (env : Env) (pf : pf_context_t) (h : Host) :
    Bool × pf_context_t × Host :=
  ipf_generate_secure_blob_from_user_kdk env pf h true

/-! ## Flush engine -/

/-- The node pointers in cache iteration order (`lruc_get_first`,
`lruc_get_next`: most recently used first). -/
def cache_ptrs (pf : pf_context_t) : List NodePtr :=
  pf.cache.map (fun n => NodePtr.cached n.physical_node_number)

/-- The first loop of `ipf_write_recovery_file` over the nodes still to visit:
one record per dirty node that is not new, at consecutive slots starting at
`node_number`.  Returns the next free slot on success. -/
def write_recovery_nodes (env : Env) :
    List NodePtr → pf_context_t → Host → Nat → Option Nat × pf_context_t × Host
  | [], pf, h, node_number => (some node_number, pf, h)
  | p :: rest, pf, h, node_number =>
    let file_node := pf.deref p
    if !file_node.need_writing || file_node.new_node then
      write_recovery_nodes env rest pf h node_number
    else
      match ipf_write_recovery_record env pf h (node_number * RECOVERY_NODE_SIZE)
          file_node.recovery_node with
      | (false, pf1, h1) =>
        let h2 := (cb_close env h1 .recovery).2
        let h3 := (cb_delete env h2).2
        (none, pf1, h3)
      | (true, pf1, h1) => write_recovery_nodes env rest pf1 h1 (node_number + 1)

/-- `ipf_write_recovery_file`. -/
def ipf_write_recovery_file (env : Env) (pf : pf_context_t) (h : Host) :
    Bool × pf_context_t × Host :=
  if pf.recovery_path = [] then (false, { pf with last_error := RECOVERY_IMPOSSIBLE }, h)
  else
    match cb_open env h .recovery PF_FILE_MODE_WRITE with
    | (status, _, h1) =>
      if PF_FAILURE status then (false, { pf with last_error := status }, h1)
      else
        match write_recovery_nodes env (cache_ptrs pf) pf h1 0 with
        | (none, pf2, h2) => (false, pf2, h2)
        | (some node_number, pf2, h2) =>
          let offset := node_number * RECOVERY_NODE_SIZE
          let root_step : Option Nat × pf_context_t × Host :=
            if pf2.root_mht.need_writing && !pf2.root_mht.new_node then
              match ipf_write_recovery_record env pf2 h2 offset pf2.root_mht.recovery_node with
              | (false, pf3, h3) =>
                let h4 := (cb_close env h3 .recovery).2
                let h5 := (cb_delete env h4).2
                (none, pf3, h5)
              | (true, pf3, h3) => (some (offset + RECOVERY_NODE_SIZE), pf3, h3)
            else (some offset, pf2, h2)
          match root_step with
          | (none, pf3, h3) => (false, pf3, h3)
          | (some offset1, pf3, h3) =>
            match ipf_write_recovery_record env pf3 h3 offset1 pf3.meta_data_recovery_node with
            | (false, pf4, h4) =>
              let h5 := (cb_close env h4 .recovery).2
              let h6 := (cb_delete env h5).2
              (false, pf4, h6)
            | (true, pf4, h4) =>
              match cb_close env h4 .recovery with
              | (status, h5) =>
                if PF_FAILURE status then (false, { pf4 with last_error := status }, h5)
                else (true, pf4, h5)

/-- Set `plain_part.update_flag`. -/
def pf_context_t.with_update_flag (pf : pf_context_t) (flag : Nat) : pf_context_t :=
  { pf with file_meta_data :=
      { pf.file_meta_data with plain_part :=
          { pf.file_meta_data.plain_part with update_flag := flag } } }

/-- `ipf_set_update_flag`. -/
def ipf_set_update_flag (env : Env) (pf : pf_context_t) (h : Host) :
    Bool × pf_context_t × Host :=
  let pf1 := pf.with_update_flag 1
  match ipf_write_node env pf1 h 0 (.meta pf1.file_meta_data) with
  | (false, pf2, h2) => (false, pf2, h2)
  | (true, pf2, h2) => (true, pf2.with_update_flag 0, h2)

/-- `ipf_clear_update_flag`: rewrite block 0 from memory; the result of the
write is ignored. -/
def ipf_clear_update_flag (env : Env) (pf : pf_context_t) (h : Host) : pf_context_t × Host :=
  (ipf_write_node env pf h 0 (.meta pf.file_meta_data)).2

/-- Assign `decrypted.mht.data_nodes_crypto[index]` of an MHT node. -/
def file_node_t.set_data_node_crypto (m : file_node_t) (index : Nat) (c : gcm_crypto_data_t) :
    file_node_t :=
  let mht := m.decrypted.as_mht
  { m with decrypted :=
      Buf.mht { mht with data_nodes_crypto := Function.update mht.data_nodes_crypto index c } }

/-- Assign `decrypted.mht.mht_nodes_crypto[index]` of an MHT node. -/
def file_node_t.set_mht_node_crypto (m : file_node_t) (index : Nat) (c : gcm_crypto_data_t) :
    file_node_t :=
  let mht := m.decrypted.as_mht
  { m with decrypted :=
      Buf.mht { mht with mht_nodes_crypto := Function.update mht.mht_nodes_crypto index c } }

/-- `mht_sort`: higher node number first. -/
def mht_sort (first second : file_node_t) : Bool :=
  decide (first.node_number > second.node_number)

/-- The inner loop of `LISTP_SORT` for the element at the outer position:
walk the rest of the list, exchanging the outer element with every element it
is not ordered before.  Returns the list from the outer position on. -/
def listp_sort_inner {α : Type} (sort_func : α → α → Bool) : α → List α → List α
  | outer, [] => [outer]
  | outer, inner :: rest =>
    if !sort_func outer inner then
      match listp_sort_inner sort_func inner rest with
      | [] => [inner, outer]
      | o :: rest1 => o :: outer :: rest1
    else
      match listp_sort_inner sort_func outer rest with
      | [] => [outer, inner]
      | o :: rest1 => o :: inner :: rest1

/-- The outer loop of `LISTP_SORT`, `fuel` positions to go. -/
def listp_sort_outer {α : Type} (sort_func : α → α → Bool) : Nat → List α → List α
  | 0, l => l
  | _ + 1, [] => []
  | fuel + 1, outer :: rest =>
    match listp_sort_inner sort_func outer rest with
    | [] => []
    | o :: rest1 => o :: listp_sort_outer sort_func fuel rest1

/-- `LISTP_SORT`: in-place exchange sort of a list. -/
def LISTP_SORT {α : Type} (sort_func : α → α → Bool) (l : List α) : List α :=
  listp_sort_outer sort_func l.length l

/-- The first loop of `ipf_update_all_data_and_mht_nodes` over the nodes still
to visit: encrypt every dirty data node under a fresh key and store key and
tag in the parent MHT node. -/
def update_data_nodes (env : Env) :
    List NodePtr → pf_context_t → Host → Bool × pf_context_t × Host
  | [], pf, h => (true, pf, h)
  | p :: rest, pf, h =>
    let data_node := pf.deref p
    if data_node.type = FILE_DATA_NODE_TYPE && data_node.need_writing then
      match ipf_derive_random_node_key env pf h data_node.physical_node_number with
      | (false, pf1, h1) => (false, pf1, h1)
      | (true, pf1, h1) =>
        let index := data_node.node_number % ATTACHED_DATA_NODES_COUNT
        match env.aes_gcm_encrypt pf1.cur_key none (some (.data data_node.decrypted.as_data)) with
        | (status, cipher, gmac) =>
          if PF_FAILURE status then (false, { pf1 with last_error := status }, h1)
          else
            let pf2 := pf1.modify p (fun n => { n with encrypted := cipher })
            let pf3 := pf2.modify data_node.parent
              (fun m => m.set_data_node_crypto index ⟨pf1.cur_key, gmac⟩)
            update_data_nodes env rest pf3 h1
    else update_data_nodes env rest pf h

/-- The second loop of `ipf_update_all_data_and_mht_nodes`: the dirty MHT
nodes of the cache, each added at the head of `mht_list` (`LISTP_ADD`). -/
def collect_mht_list (pf : pf_context_t) : List NodePtr → List NodePtr → List NodePtr
  | [], mht_list => mht_list
  | p :: rest, mht_list =>
    let file_mht_node := pf.deref p
    if file_mht_node.type = FILE_MHT_NODE_TYPE && file_mht_node.need_writing then
      collect_mht_list pf rest (p :: mht_list)
    else collect_mht_list pf rest mht_list

/-- The third loop of `ipf_update_all_data_and_mht_nodes` over the sorted
`mht_list`: encrypt every MHT node under a fresh key and store key and tag in
its parent MHT node. -/
def update_mht_nodes (env : Env) :
    List NodePtr → pf_context_t → Host → Bool × pf_context_t × Host
  | [], pf, h => (true, pf, h)
  | p :: rest, pf, h =>
    let file_mht_node := pf.deref p
    let index := (u64_sub file_mht_node.node_number 1) % CHILD_MHT_NODES_COUNT
    match ipf_derive_random_node_key env pf h file_mht_node.physical_node_number with
    | (false, pf1, h1) => (false, pf1, h1)
    | (true, pf1, h1) =>
      match env.aes_gcm_encrypt pf1.cur_key none (some (.mht file_mht_node.decrypted.as_mht)) with
      | (status, cipher, gmac) =>
        if PF_FAILURE status then (false, { pf1 with last_error := status }, h1)
        else
          let pf2 := pf1.modify p (fun n => { n with encrypted := cipher })
          let pf3 := pf2.modify file_mht_node.parent
            (fun m => m.set_mht_node_crypto index ⟨pf1.cur_key, gmac⟩)
          update_mht_nodes env rest pf3 h1

/-- `ipf_update_all_data_and_mht_nodes`. -/
def ipf_update_all_data_and_mht_nodes (env : Env) (pf : pf_context_t) (h : Host) :
    Bool × pf_context_t × Host :=
  match update_data_nodes env (cache_ptrs pf) pf h with
  | (false, pf1, h1) => (false, pf1, h1)
  | (true, pf1, h1) =>
    let mht_list := collect_mht_list pf1 (cache_ptrs pf1) []
    let sorted := LISTP_SORT (fun a b => mht_sort (pf1.deref a) (pf1.deref b)) mht_list
    match update_mht_nodes env sorted pf1 h1 with
    | (false, pf2, h2) => (false, pf2, h2)
    | (true, pf2, h2) =>
      match ipf_derive_random_node_key env pf2 h2 pf2.root_mht.physical_node_number with
      | (false, pf3, h3) => (false, pf3, h3)
      | (true, pf3, h3) =>
        match env.aes_gcm_encrypt pf3.cur_key none
            (some (.mht pf3.root_mht.decrypted.as_mht)) with
        | (status, cipher, gmac) =>
          if PF_FAILURE status then (false, { pf3 with last_error := status }, h3)
          else
            (true,
              { pf3 with
                  root_mht := { pf3.root_mht with encrypted := cipher },
                  encrypted_part_plain :=
                    { pf3.encrypted_part_plain with mht_gmac := gmac, mht_key := pf3.cur_key } },
              h3)

/-- `ipf_update_meta_data_node`. -/
def ipf_update_meta_data_node (env : Env) (pf : pf_context_t) (h : Host) :
    Bool × pf_context_t × Host :=
  match ipf_generate_random_meta_data_key env pf h with
  | (false, pf1, h1) => (false, pf1, h1)
  | (true, pf1, h1) =>
    match env.aes_gcm_encrypt pf1.cur_key none (some (.md pf1.encrypted_part_plain)) with
    | (status, cipher, gmac) =>
      if PF_FAILURE status then (false, { pf1 with last_error := status }, h1)
      else
        (true,
          { pf1 with file_meta_data :=
              { plain_part := { pf1.file_meta_data.plain_part with meta_data_gmac := gmac },
                encrypted_part := cipher } }, h1)

/-- The loop of `ipf_write_all_changes_to_disk` over the nodes still to visit:
write every dirty node to its block and clear its flags. -/
def write_dirty_nodes (env : Env) :
    List NodePtr → pf_context_t → Host → Bool × pf_context_t × Host
  | [], pf, h => (true, pf, h)
  | p :: rest, pf, h =>
    let file_node := pf.deref p
    if !file_node.need_writing then write_dirty_nodes env rest pf h
    else
      match ipf_write_node env pf h file_node.physical_node_number (.node file_node.encrypted) with
      | (false, pf1, h1) => (false, pf1, h1)
      | (true, pf1, h1) =>
        write_dirty_nodes env rest
          (pf1.modify p (fun n => { n with need_writing := false, new_node := false })) h1

/-- `ipf_write_all_changes_to_disk`. -/
def ipf_write_all_changes_to_disk (env : Env) (pf : pf_context_t) (h : Host) :
    Bool × pf_context_t × Host :=
  let nodes_step : Bool × pf_context_t × Host :=
    if pf.encrypted_part_plain.size > MD_USER_DATA_SIZE && pf.root_mht.need_writing then
      match write_dirty_nodes env (cache_ptrs pf) pf h with
      | (false, pf1, h1) => (false, pf1, h1)
      | (true, pf1, h1) =>
        match ipf_write_node env pf1 h1 1 (.node pf1.root_mht.encrypted) with
        | (false, pf2, h2) => (false, pf2, h2)
        | (true, pf2, h2) =>
          (true,
            { pf2 with root_mht := { pf2.root_mht with need_writing := false, new_node := false } },
            h2)
    else (true, pf, h)
  match nodes_step with
  | (false, pf1, h1) => (false, pf1, h1)
  | (true, pf1, h1) => ipf_write_node env pf1 h1 0 (.meta pf1.file_meta_data)

/-- `ipf_internal_flush`. -/
def ipf_internal_flush (env : Env) (pf : pf_context_t) (h : Host) :
    Bool × pf_context_t × Host :=
  if !pf.need_writing then (true, pf, h)
  else
    let tree_step : Bool × pf_context_t × Host :=
      if pf.encrypted_part_plain.size > MD_USER_DATA_SIZE && pf.root_mht.need_writing then
        let log_step : Bool × pf_context_t × Host :=
          if pf.recovery_path ≠ [] then
            match ipf_write_recovery_file env pf h with
            | (false, pf1, h1) => (false, { pf1 with file_status := FLUSH_ERROR }, h1)
            | (true, pf1, h1) => (true, pf1, h1)
          else (true, pf, h)
        match log_step with
        | (false, pf1, h1) => (false, pf1, h1)
        | (true, pf1, h1) =>
          match ipf_set_update_flag env pf1 h1 with
          | (false, pf2, h2) => (false, { pf2 with file_status := FLUSH_ERROR }, h2)
          | (true, pf2, h2) =>
            match ipf_update_all_data_and_mht_nodes env pf2 h2 with
            | (false, pf3, h3) =>
              match ipf_clear_update_flag env pf3 h3 with
              | (pf4, h4) => (false, { pf4 with file_status := CRYPTO_ERROR }, h4)
            | (true, pf3, h3) => (true, pf3, h3)
      else (true, pf, h)
    match tree_step with
    | (false, pf1, h1) => (false, pf1, h1)
    | (true, pf1, h1) =>
      match ipf_update_meta_data_node env pf1 h1 with
      | (false, pf2, h2) =>
        match ipf_clear_update_flag env pf2 h2 with
        | (pf3, h3) => (false, { pf3 with file_status := CRYPTO_ERROR }, h3)
      | (true, pf2, h2) =>
        match ipf_write_all_changes_to_disk env pf2 h2 with
        | (false, pf3, h3) => (false, { pf3 with file_status := WRITE_TO_DISK_FAILED }, h3)
        | (true, pf3, h3) => (true, { pf3 with need_writing := false }, h3)

/-- `ipf_erase_recovery_file`. -/
def ipf_erase_recovery_file (env : Env) (pf : pf_context_t) (h : Host) :
    Bool × pf_context_t × Host :=
  if pf.recovery_path = [] then (true, pf, h)
  else
    match cb_delete env h with
    | (status, h1) =>
      if PF_FAILURE status then (false, { pf with last_error := status }, h1)
      else (true, pf, h1)

/-- The `FLUSH_ERROR` block of `ipf_try_clear_error`: retry the flush. -/
def retry_flush (env : Env) (pf : pf_context_t) (h : Host) : pf_context_t × Host :=
  if pf.file_status = FLUSH_ERROR then
    match ipf_internal_flush env pf h with
    | (true, pf1, h1) => ({ pf1 with file_status := SUCCESS }, h1)
    | (false, pf1, h1) => (pf1, h1)
  else (pf, h)

/-- The `WRITE_TO_DISK_FAILED` block of `ipf_try_clear_error`: retry writing
the changes. -/
def retry_write_all (env : Env) (pf : pf_context_t) (h : Host) : pf_context_t × Host :=
  if pf.file_status = WRITE_TO_DISK_FAILED then
    match ipf_write_all_changes_to_disk env pf h with
    | (true, pf2, h2) => ({ pf2 with need_writing := false, file_status := SUCCESS }, h2)
    | (false, pf2, h2) => (pf2, h2)
  else (pf, h)

/-- `ipf_try_clear_error`. -/
def ipf_try_clear_error (env : Env) (pf : pf_context_t) (h : Host) : pf_context_t × Host :=
  if pf.file_status = UNINITIALIZED ∨ pf.file_status = CRYPTO_ERROR ∨
      pf.file_status = CORRUPTED then (pf, h)
  else
    let s1 := retry_flush env pf h
    let s2 := retry_write_all env s1.1 s1.2
    if s2.1.file_status = SUCCESS then
      ({ s2.1 with last_error := SUCCESS, end_of_file := false }, s2.2)
    else s2

/-! ## Node fetch -/

/-- `ipf_read_mht_node`: the MHT node `mht_node_number`, from the cache or
from disk (after its parent, recursively).  `fuel` bounds the recursion depth;
`mht_node_number` itself is always enough. -/
def ipf_read_mht_node (env : Env) :
    Nat → pf_context_t → Host → Nat → Option NodePtr × pf_context_t × Host
  | fuel, pf, h, mht_node_number =>
    if mht_node_number = 0 then (some .root, pf, h)
    else
      let physical_node_number := mht_physical_node_number mht_node_number
      match lruc_find pf.cache physical_node_number with
      | some _ => (some (.cached physical_node_number), pf, h)
      | none =>
        match fuel with
        | 0 => (none, { pf with hang := true }, h)
        | fuel1 + 1 =>
          match ipf_read_mht_node env fuel1 pf h
              ((mht_node_number - 1) / CHILD_MHT_NODES_COUNT) with
          | (none, pf1, h1) => (none, pf1, h1)
          | (some parent_file_mht_node, pf1, h1) =>
            match alloc env h1 with
            | (false, h2) => (none, { pf1 with last_error := NO_MEMORY }, h2)
            | (true, h2) =>
              match ipf_read_node env pf1 h2 physical_node_number with
              | (none, pf3, h3) => (none, pf3, h3)
              | (some block, pf3, h3) =>
                let index := (mht_node_number - 1) % CHILD_MHT_NODES_COUNT
                let gcm_crypto_data :=
                  (pf3.deref parent_file_mht_node).decrypted.as_mht.mht_nodes_crypto index
                match env.aes_gcm_decrypt gcm_crypto_data.key block.as_node
                    gcm_crypto_data.gmac with
                | (status, plain) =>
                  if PF_FAILURE status then
                    (none,
                      { pf3 with
                          last_error := status,
                          file_status :=
                            if status = MAC_MISMATCH then CORRUPTED else pf3.file_status },
                      h3)
                  else
                    match alloc env h3 with
                    | (false, h4) => (none, { pf3 with last_error := NO_MEMORY }, h4)
                    | (true, h4) =>
                      let file_mht_node : file_node_t :=
                        { type := FILE_MHT_NODE_TYPE, node_number := mht_node_number,
                          parent := parent_file_mht_node, need_writing := false,
                          new_node := false, physical_node_number := physical_node_number,
                          encrypted := block.as_node, decrypted := .mht plain.as_mht }
                      (some (.cached physical_node_number),
                        { pf3 with cache := lruc_add pf3.cache file_mht_node }, h4)

/-- `ipf_append_mht_node`. -/
def ipf_append_mht_node (env : Env) (pf : pf_context_t) (h : Host) (mht_node_number : Nat) :
    Option NodePtr × pf_context_t × Host :=
  match ipf_read_mht_node env mht_node_number pf h
      ((mht_node_number - 1) / CHILD_MHT_NODES_COUNT) with
  | (none, pf1, h1) => (none, pf1, h1)
  | (some parent_file_mht_node, pf1, h1) =>
    let physical_node_number := mht_physical_node_number mht_node_number
    match alloc env h1 with
    | (false, h2) => (none, { pf1 with last_error := NO_MEMORY }, h2)
    | (true, h2) =>
      let new_file_mht_node : file_node_t :=
        { type := FILE_MHT_NODE_TYPE, node_number := mht_node_number,
          parent := parent_file_mht_node, need_writing := false, new_node := true,
          physical_node_number := physical_node_number, encrypted := .data zero_bytes,
          decrypted := .data zero_bytes }
      match alloc env h2 with
      | (false, h3) => (none, { pf1 with last_error := NO_MEMORY }, h3)
      | (true, h3) =>
        (some (.cached physical_node_number),
          { pf1 with cache := lruc_add pf1.cache new_file_mht_node }, h3)

/-- `ipf_get_mht_node`: the MHT node of the data node at the current offset. -/
def ipf_get_mht_node (env : Env) (pf : pf_context_t) (h : Host) :
    Option NodePtr × pf_context_t × Host :=
  if pf.offset < MD_USER_DATA_SIZE then (none, { pf with last_error := UNKNOWN_ERROR }, h)
  else
    let mht_node_number := (get_node_numbers pf.offset).mht_node_number
    if mht_node_number = 0 then (some .root, pf, h)
    else if (pf.offset - MD_USER_DATA_SIZE) % (ATTACHED_DATA_NODES_COUNT * PF_NODE_SIZE) = 0
        ∧ pf.offset = pf.encrypted_part_plain.size then
      ipf_append_mht_node env pf h mht_node_number
    else ipf_read_mht_node env mht_node_number pf h mht_node_number

/-- `ipf_append_data_node`. -/
def ipf_append_data_node (env : Env) (pf : pf_context_t) (h : Host) :
    Option NodePtr × pf_context_t × Host :=
  match ipf_get_mht_node env pf h with
  | (none, pf1, h1) => (none, pf1, h1)
  | (some file_mht_node, pf1, h1) =>
    match alloc env h1 with
    | (false, h2) => (none, { pf1 with last_error := NO_MEMORY }, h2)
    | (true, h2) =>
      let numbers := get_node_numbers pf1.offset
      let new_file_data_node : file_node_t :=
        { type := FILE_DATA_NODE_TYPE, node_number := numbers.data_node_number,
          parent := file_mht_node, need_writing := false, new_node := true,
          physical_node_number := numbers.physical_data_node_number,
          encrypted := .data zero_bytes, decrypted := .data zero_bytes }
      match alloc env h2 with
      | (false, h3) => (none, { pf1 with last_error := NO_MEMORY }, h3)
      | (true, h3) =>
        (some (.cached new_file_data_node.physical_node_number),
          { pf1 with cache := lruc_add pf1.cache new_file_data_node }, h3)

/-- `ipf_read_data_node`. -/
def ipf_read_data_node (env : Env) (pf : pf_context_t) (h : Host) :
    Option NodePtr × pf_context_t × Host :=
  let numbers := get_node_numbers pf.offset
  let data_node_number := numbers.data_node_number
  let physical_node_number := numbers.physical_data_node_number
  match lruc_get pf.cache physical_node_number with
  | (some _, cache1) => (some (.cached physical_node_number), { pf with cache := cache1 }, h)
  | (none, _) =>
    match ipf_get_mht_node env pf h with
    | (none, pf1, h1) => (none, pf1, h1)
    | (some file_mht_node, pf1, h1) =>
      match alloc env h1 with
      | (false, h2) => (none, { pf1 with last_error := NO_MEMORY }, h2)
      | (true, h2) =>
        match ipf_read_node env pf1 h2 physical_node_number with
        | (none, pf3, h3) => (none, pf3, h3)
        | (some block, pf3, h3) =>
          let index := data_node_number % ATTACHED_DATA_NODES_COUNT
          let gcm_crypto_data :=
            (pf3.deref file_mht_node).decrypted.as_mht.data_nodes_crypto index
          match env.aes_gcm_decrypt gcm_crypto_data.key block.as_node gcm_crypto_data.gmac with
          | (status, plain) =>
            if PF_FAILURE status then
              (none,
                { pf3 with
                    last_error := status,
                    file_status := if status = MAC_MISMATCH then CORRUPTED else pf3.file_status },
                h3)
            else
              match alloc env h3 with
              | (false, h4) => (none, { pf3 with last_error := NO_MEMORY }, h4)
              | (true, h4) =>
                let file_data_node : file_node_t :=
                  { type := FILE_DATA_NODE_TYPE, node_number := data_node_number,
                    parent := file_mht_node, need_writing := false, new_node := false,
                    physical_node_number := physical_node_number,
                    encrypted := block.as_node, decrypted := .data plain.as_data }
                (some (.cached physical_node_number),
                  { pf3 with cache := lruc_add pf3.cache file_data_node }, h4)

/-- The loop of `ipf_get_data_node` that marks every ancestor MHT node below
the root most recently used, starting at `file_mht_node`. -/
def bump_parents : Nat → pf_context_t → NodePtr → pf_context_t
  | fuel, pf, file_mht_node =>
    let node := pf.deref file_mht_node
    if node.node_number = 0 then pf
    else
      match fuel with
      | 0 => { pf with hang := true }
      | fuel1 + 1 =>
        bump_parents fuel1
          { pf with cache := (lruc_get pf.cache node.physical_node_number).2 } node.parent

/-- The eviction loop of `ipf_get_data_node`: while the cache is over its
capacity drop the least recently used node if it is clean, else flush.
Returns `false` where the C code returns `NULL`. -/
def evict_nodes (env : Env) : Nat → pf_context_t → Host → Bool × pf_context_t × Host
  | fuel, pf, h =>
    if lruc_size pf.cache > env.MAX_PAGES_IN_CACHE then
      match fuel with
      | 0 => (false, { pf with hang := true }, h)
      | fuel1 + 1 =>
        match lruc_get_last pf.cache with
        | none => (false, { pf with last_error := UNKNOWN_ERROR }, h)
        | some data =>
          if !data.need_writing then
            evict_nodes env fuel1 { pf with cache := lruc_remove_last pf.cache } h
          else
            match ipf_internal_flush env pf h with
            | (false, pf1, h1) =>
              (false,
                { pf1 with file_status :=
                    if pf1.file_status = SUCCESS then FLUSH_ERROR else pf1.file_status }, h1)
            | (true, pf1, h1) => evict_nodes env fuel1 pf1 h1
    else (true, pf, h)

/-- `ipf_get_data_node`: the data node holding the current offset. -/
def ipf_get_data_node (env : Env) (pf : pf_context_t) (h : Host) :
    Option NodePtr × pf_context_t × Host :=
  if pf.offset < MD_USER_DATA_SIZE then (none, { pf with last_error := UNKNOWN_ERROR }, h)
  else
    let fetched : Option NodePtr × pf_context_t × Host :=
      if (pf.offset - MD_USER_DATA_SIZE) % PF_NODE_SIZE = 0
          ∧ pf.offset = pf.encrypted_part_plain.size then
        ipf_append_data_node env pf h
      else ipf_read_data_node env pf h
    match fetched with
    | (file_data_node, pf1, h1) =>
      let pf2 :=
        match file_data_node with
        | some p =>
          bump_parents (pf1.deref (pf1.deref p).parent).node_number pf1 (pf1.deref p).parent
        | none => pf1
      match evict_nodes env (2 * lruc_size pf2.cache) pf2 h1 with
      | (false, pf3, h3) => (none, pf3, h3)
      | (true, pf3, h3) => (file_data_node, pf3, h3)

/-! ## Read/write engine -/

/-- `memcpy_or_zero_initialize(&dest[dest_offset], src + src_offset, size)`:
copy from `src` when it is not `NULL`, zero otherwise. -/
def memcpy_or_zero_initialize (dest : Nat → Byte) (dest_offset : Nat)
    (src : Option (Nat → Byte)) (src_offset size : Nat) : Nat → Byte :=
  fun i =>
    if dest_offset ≤ i ∧ i < dest_offset + size then
      match src with
      | some s => s (src_offset + (i - dest_offset))
      | none => 0
    else dest i

/-- The loop of `ipf_write` that marks every ancestor MHT node below the root
as needing writing, starting at `file_mht_node`. -/
def mark_parents : Nat → pf_context_t → NodePtr → pf_context_t
  | fuel, pf, file_mht_node =>
    let node := pf.deref file_mht_node
    if node.node_number = 0 then pf
    else
      match fuel with
      | 0 => { pf with hang := true }
      | fuel1 + 1 =>
        mark_parents fuel1
          (pf.modify file_mht_node (fun n => { n with need_writing := true })) node.parent

/-- The body of the data-node loop of `ipf_write` once the data node is
fetched: copy into the node, advance the offset, grow the size, mark the node
and its ancestors as needing writing.  Returns the context and
`size_to_write`. -/
def write_to_data_node (ptr : Option (Nat → Byte)) (pf1 : pf_context_t)
    (file_data_node : NodePtr) (written data_left_to_write : Nat) : pf_context_t × Nat :=
  let offset_in_node := (pf1.offset - MD_USER_DATA_SIZE) % PF_NODE_SIZE
  let empty_place_left_in_node := PF_NODE_SIZE - offset_in_node
  let size_to_write := min data_left_to_write empty_place_left_in_node
  let pf2 := pf1.modify file_data_node (fun n =>
    { n with decrypted := Buf.data ( memcpy_or_zero_initialize n.decrypted.as_data
        offset_in_node ptr written size_to_write) })
  let pf3 := { pf2 with offset := pf2.offset + size_to_write }
  let pf4 :=
    if pf3.offset > pf3.encrypted_part_plain.size then
      { pf3 with encrypted_part_plain :=
          { pf3.encrypted_part_plain with size := pf3.offset } }
    else pf3
  let pf5 :=
    if !(pf4.deref file_data_node).need_writing then
      let pf6 := pf4.modify file_data_node (fun n => { n with need_writing := true })
      let parent := (pf6.deref file_data_node).parent
      let pf7 := mark_parents (pf6.deref parent).node_number pf6 parent
      { pf7 with
          root_mht := { pf7.root_mht with need_writing := true },
          need_writing := true }
    else pf4
  (pf5, size_to_write)

/-- The data-node loop of `ipf_write`.  `written` is how far `data_to_write`
has advanced; the result is `data_left_to_write` at exit. -/
def write_data_nodes (env : Env) (ptr : Option (Nat → Byte)) :
    Nat → pf_context_t → Host → Nat → Nat → Nat × pf_context_t × Host
  | fuel, pf, h, written, data_left_to_write =>
    if data_left_to_write > 0 then
      match fuel with
      | 0 => (data_left_to_write, { pf with hang := true }, h)
      | fuel1 + 1 =>
        match ipf_get_data_node env pf h with
        | (none, pf1, h1) => (data_left_to_write, pf1, h1)
        | (some file_data_node, pf1, h1) =>
          match write_to_data_node ptr pf1 file_data_node written data_left_to_write with
          | (pf5, size_to_write) =>
            write_data_nodes env ptr fuel1 pf5 h1 (written + size_to_write)
              (data_left_to_write - size_to_write)
    else (0, pf, h)

/-- The inline-region step of `ipf_write` (taken when the offset is below
`MD_USER_DATA_SIZE`): copy into the metadata, advance, grow, mark the context
as needing writing.  Returns `data_left_to_write` and the context. -/
def write_to_md (ptr : Option (Nat → Byte)) (pf : pf_context_t) (size : Nat) :
    Nat × pf_context_t :=
  let empty_place_left_in_md := MD_USER_DATA_SIZE - pf.offset
  let size_to_write := min size empty_place_left_in_md
  let data := memcpy_or_zero_initialize pf.encrypted_part_plain.data pf.offset ptr 0
    size_to_write
  let pf1 := { pf with encrypted_part_plain := { pf.encrypted_part_plain with data := data } }
  let pf2 := { pf1 with offset := pf1.offset + size_to_write }
  let pf3 :=
    if pf2.offset > pf2.encrypted_part_plain.size then
      { pf2 with encrypted_part_plain :=
          { pf2.encrypted_part_plain with size := pf2.offset } }
    else pf2
  (size - size_to_write, { pf3 with need_writing := true })

/-- `ipf_write`: write `size` bytes of `ptr` (zeros when `ptr` is `NULL`) at
the current offset; returns the number of bytes written. -/
def ipf_write (env : Env) (pf : pf_context_t) (h : Host) (ptr : Option (Nat → Byte))
    (size : Nat) : Nat × pf_context_t × Host :=
  if size = 0 then (0, { pf with last_error := INVALID_PARAMETER }, h)
  else if PF_FAILURE pf.file_status then (0, { pf with last_error := pf.file_status }, h)
  else if !mode_has pf.mode PF_FILE_MODE_WRITE then (0, { pf with last_error := INVALID_MODE }, h)
  else
    let md_step : Nat × pf_context_t :=
      if pf.offset < MD_USER_DATA_SIZE then write_to_md ptr pf size
      else (size, pf)
    match md_step with
    | (data_left_to_write, pf1) =>
      match write_data_nodes env ptr data_left_to_write pf1 h (size - data_left_to_write)
          data_left_to_write with
      | (left, pf2, h2) => (size - left, pf2, h2)

/-- `memcpy(&out[out_offset], &src[src_offset], size)`. -/
def memcpy (out : Nat → Byte) (out_offset : Nat) (src : Nat → Byte) (src_offset size : Nat) :
    Nat → Byte :=
  fun i => if out_offset ≤ i ∧ i < out_offset + size then src (src_offset + (i - out_offset))
    else out i

/-- The data-node loop of `ipf_read`.  `done` is how far `out_buffer` has
advanced; the result is `data_left_to_read` at exit and the output buffer. -/
def read_data_nodes (env : Env) :
    Nat → pf_context_t → Host → (Nat → Byte) → Nat → Nat →
      Nat × (Nat → Byte) × pf_context_t × Host
  | fuel, pf, h, out, done, data_left_to_read =>
    if data_left_to_read > 0 then
      match fuel with
      | 0 => (data_left_to_read, out, { pf with hang := true }, h)
      | fuel1 + 1 =>
        match ipf_get_data_node env pf h with
        | (none, pf1, h1) => (data_left_to_read, out, pf1, h1)
        | (some file_data_node, pf1, h1) =>
          let offset_in_node := (pf1.offset - MD_USER_DATA_SIZE) % PF_NODE_SIZE
          let data_left_in_node := PF_NODE_SIZE - offset_in_node
          let size_to_read := min data_left_to_read data_left_in_node
          let out1 := memcpy out done (pf1.deref file_data_node).decrypted.as_data
            offset_in_node size_to_read
          read_data_nodes env fuel1 { pf1 with offset := pf1.offset + size_to_read } h1 out1
            (done + size_to_read) (data_left_to_read - size_to_read)
    else (0, out, pf, h)

/-- `ipf_read`: read up to `size` bytes at the current offset into `ptr`;
returns the number of bytes read and the buffer. -/
def ipf_read (env : Env) (pf : pf_context_t) (h : Host) (ptr : Option (Nat → Byte))
    (size : Nat) : Nat × Option (Nat → Byte) × pf_context_t × Host :=
  match ptr with
  | none => (0, ptr, pf, h)
  | some out =>
    if size = 0 then (0, ptr, pf, h)
    else if PF_FAILURE pf.file_status then (0, ptr, { pf with last_error := pf.file_status }, h)
    else if !mode_has pf.mode PF_FILE_MODE_READ then
      (0, ptr, { pf with last_error := INVALID_MODE }, h)
    else if pf.end_of_file then (0, ptr, pf, h)
    else if pf.offset = pf.encrypted_part_plain.size then
      (0, ptr, { pf with end_of_file := true }, h)
    else
      let data_left_to_read :=
        if size > u64_sub pf.encrypted_part_plain.size pf.offset then
          u64_sub pf.encrypted_part_plain.size pf.offset
        else size
      let data_attempted_to_read := data_left_to_read
      let md_step : Nat × (Nat → Byte) × pf_context_t :=
        if pf.offset < MD_USER_DATA_SIZE then
          let data_left_in_md := MD_USER_DATA_SIZE - pf.offset
          let size_to_read := min data_left_to_read data_left_in_md
          (data_left_to_read - size_to_read,
            memcpy out 0 pf.encrypted_part_plain.data pf.offset size_to_read,
            { pf with offset := pf.offset + size_to_read })
        else (data_left_to_read, out, pf)
      match md_step with
      | (left0, out1, pf1) =>
        match read_data_nodes env left0 pf1 h out1 (data_attempted_to_read - left0) left0 with
        | (left, out2, pf2, h2) =>
          let pf3 :=
            if left = 0 ∧ data_attempted_to_read ≠ size then { pf2 with end_of_file := true }
            else pf2
          (data_attempted_to_read - left, some out2, pf3, h2)

/-! ## Public API: size, seek, read, write, flush -/

/-- `pf_get_size`. -/
def pf_get_size (env : Env) (pf : pf_context_t) : pf_status_t × Nat :=
  if !env.g_initialized then (UNINITIALIZED, 0)
  else (SUCCESS, pf.encrypted_part_plain.size)

/-- `pf_set_size`. -/
def pf_set_size (env : Env) (pf : pf_context_t) (h : Host) (size : Nat) :
    pf_status_t × pf_context_t × Host :=
  if !env.g_initialized then (UNINITIALIZED, pf, h)
  else if !mode_has pf.mode PF_FILE_MODE_WRITE then (INVALID_MODE, pf, h)
  else if size = pf.encrypted_part_plain.size then (SUCCESS, pf, h)
  else if size > pf.encrypted_part_plain.size then
    let pf1 := { pf with offset := pf.encrypted_part_plain.size }
    match ipf_write env pf1 h none (size - pf1.offset) with
    | (written, pf2, h2) =>
      if written ≠ size - pf1.offset then (pf2.last_error, pf2, h2)
      else (SUCCESS, pf2, h2)
  else (NOT_IMPLEMENTED, pf, h)

/-- `ipf_seek`. -/
def ipf_seek (env : Env) (pf : pf_context_t) (h : Host) (new_offset : Nat) :
    Bool × pf_context_t × Host :=
  if PF_FAILURE pf.file_status then (false, { pf with last_error := pf.file_status }, h)
  else
    let step : Bool × pf_context_t × Host :=
      if new_offset ≤ pf.encrypted_part_plain.size then
        (true, { pf with offset := new_offset }, h)
      else if mode_has pf.mode PF_FILE_MODE_WRITE then
        match pf_set_size env pf h new_offset with
        | (status, pf1, h1) => (PF_SUCCESS status, pf1, h1)
      else (false, pf, h)
    match step with
    | (true, pf1, h1) => (true, { pf1 with end_of_file := false }, h1)
    | (false, pf1, h1) => (false, { pf1 with last_error := INVALID_PARAMETER }, h1)

/-- `pf_read`: the status and the output buffer. -/
def pf_read (env : Env) (pf : pf_context_t) (h : Host) (offset size : Nat)
    (output : Option (Nat → Byte)) :
    pf_status_t × Option (Nat → Byte) × pf_context_t × Host :=
  if !env.g_initialized then (UNINITIALIZED, output, pf, h)
  else
    match ipf_seek env pf h offset with
    | (false, pf1, h1) => (pf1.last_error, output, pf1, h1)
    | (true, pf1, h1) =>
      match ipf_read env pf1 h1 output size with
      | (count, out, pf2, h2) =>
        if count ≠ size then (pf2.last_error, out, pf2, h2)
        else (SUCCESS, out, pf2, h2)

/-- `pf_write`. -/
def pf_write (env : Env) (pf : pf_context_t) (h : Host) (offset size : Nat)
    (input : Option (Nat → Byte)) : pf_status_t × pf_context_t × Host :=
  if !env.g_initialized then (UNINITIALIZED, pf, h)
  else
    match ipf_seek env pf h offset with
    | (false, pf1, h1) => (pf1.last_error, pf1, h1)
    | (true, pf1, h1) =>
      match ipf_write env pf1 h1 input size with
      | (count, pf2, h2) =>
        if count ≠ size then (pf2.last_error, pf2, h2)
        else (SUCCESS, pf2, h2)

/-- `pf_flush`. -/
def pf_flush (env : Env) (pf : pf_context_t) (h : Host) : pf_status_t × pf_context_t × Host :=
  if !env.g_initialized then (UNINITIALIZED, pf, h)
  else
    match ipf_internal_flush env pf h with
    | (false, pf1, h1) => (pf1.last_error, pf1, h1)
    | (true, pf1, h1) => (SUCCESS, pf1, h1)

/-! ## Recovery -/

/-- A `bool` stored in a `pf_status_t` variable. -/
def status_of_bool : Bool → pf_status_t
  | false => SUCCESS
  | true => BOOL_TRUE

/-- The replay loop of `ipf_do_file_recovery` from record `i`: read each
record and write its block to the source file.  `recovery_node` is the
record buffer. -/
def replay_records (env : Env) :
    Nat → pf_context_t → Host → Nat → recovery_node_t → Bool × pf_context_t × Host
  | 0, pf, h, _, _ => (true, pf, h)
  | todo + 1, pf, h, i, recovery_node =>
    match ipf_read_recovery_node env pf h i with
    | (none, pf1, h1) => (false, pf1, h1)
    | (some buffer, pf1, h1) =>
      let recovery_node1 := buffer.getD recovery_node
      match ipf_write_node env pf1 h1 recovery_node1.physical_node_number
          recovery_node1.encrypted with
      | (false, pf2, h2) => (false, pf2, h2)
      | (true, pf2, h2) => replay_records env todo pf2 h2 (i + 1) recovery_node1

/-- `ipf_do_file_recovery`. -/
def ipf_do_file_recovery (env : Env) (pf : pf_context_t) (h : Host) (path : Option Path) :
    Bool × pf_context_t × Host :=
  if path = none ∨ path = some [] ∨ pf.recovery_path = [] then
    (false, { pf with last_error := RECOVERY_IMPOSSIBLE }, h)
  else
    match cb_open env h .recovery PF_FILE_MODE_READ with
    | (status, file_size, h1) =>
      if PF_FAILURE status then (false, { pf with last_error := status }, h1)
      else if file_size % RECOVERY_NODE_SIZE ≠ 0 then
        (false, { pf with last_error := CORRUPTED }, (cb_close env h1 .recovery).2)
      else
        let nodes_count := (file_size / RECOVERY_NODE_SIZE) % 2 ^ 32
        match alloc env h1 with
        | (false, h2) =>
          (false, { pf with last_error := NO_MEMORY }, (cb_close env h2 .recovery).2)
        | (true, h2) =>
          match cb_open env h2 .source PF_FILE_MODE_WRITE with
          | (status, _, h3) =>
            if PF_FAILURE status then
              (false, { pf with last_error := status }, (cb_close env h3 .recovery).2)
            else
              match replay_records env nodes_count pf h3 0
                  ⟨0, .node (.data zero_bytes)⟩ with
              | (false, pf4, h4) =>
                let h5 := (cb_close env h4 .source).2
                (false, pf4, (cb_close env h5 .recovery).2)
              | (true, pf4, h4) =>
                let h5 := (cb_close env h4 .source).2
                let h6 := (cb_close env h5 .recovery).2
                (true, pf4, (cb_delete env h6).2)

/-- `ipf_file_recovery`. -/
def ipf_file_recovery (env : Env) (pf : pf_context_t) (h : Host) (path : Option Path) :
    Bool × pf_context_t × Host :=
  if path = none ∨ path = some [] ∨ pf.recovery_path = [] then
    (false, { pf with last_error := RECOVERY_IMPOSSIBLE }, h)
  else
    match cb_close env h .source with
    | (status, h1) =>
      if PF_FAILURE status then (false, { pf with last_error := status }, h1)
      else
        let pf1 := { pf with file := none }
        match ipf_do_file_recovery env pf1 h1 path with
        | (ret, pf2, h2) =>
          let status := status_of_bool ret
          if PF_FAILURE status then (false, { pf2 with last_error := status }, h2)
          else
            match cb_open env h2 .source pf2.mode with
            | (status, new_file_size, h3) =>
              if PF_FAILURE status then (false, { pf2 with last_error := status }, h3)
              else
                let pf3 := { pf2 with file := some .source }
                if new_file_size ≠ pf3.real_file_size then
                  (false, { pf3 with last_error := UNKNOWN_ERROR }, h3)
                else
                  match ipf_read_node env pf3 h3 0 with
                  | (none, pf4, h4) => (false, pf4, h4)
                  | (some block, pf4, h4) =>
                    (true, { pf4 with file_meta_data := block.as_meta }, h4)

/-! ## Open and close -/

/-- The context after `calloc` and `ipf_init_fields`. -/
def ipf_init_fields : pf_context_t :=
  { file_meta_data := zero_meta_data_node
    encrypted_part_plain := zero_encrypted_part
    root_mht :=
      { type := FILE_MHT_NODE_TYPE, node_number := 0, parent := .root, need_writing := false,
        new_node := true, physical_node_number := 1, encrypted := .data zero_bytes,
        decrypted := .data zero_bytes }
    cache := []
    offset := 0
    file := none
    end_of_file := false
    need_writing := false
    file_status := UNINITIALIZED
    last_error := SUCCESS
    real_file_size := 0
    master_key_count := 0
    mode := 0
    recovery_path := []
    user_kdk_key := 0
    cur_key := 0
    session_master_key := 0
    hang := false }

/-- `ipf_init_existing_file`. -/
def ipf_init_existing_file (env : Env) (pf : pf_context_t) (h : Host) (path : Option Path) :
    Bool × pf_context_t × Host :=
  match ipf_read_node env pf h 0 with
  | (none, pf1, h1) => (false, pf1, h1)
  | (some block, pf0, h1) =>
    let pf1 := { pf0 with file_meta_data := block.as_meta }
    if pf1.file_meta_data.plain_part.file_id ≠ env.PF_FILE_ID then
      (false, { pf1 with last_error := INVALID_HEADER }, h1)
    else if pf1.file_meta_data.plain_part.major_version ≠ env.PF_MAJOR_VERSION then
      (false, { pf1 with last_error := INVALID_VERSION }, h1)
    else
      let recovery_step : Bool × pf_context_t × Host :=
        if pf1.file_meta_data.plain_part.update_flag = 1 then
          match ipf_file_recovery env pf1 h1 path with
          | (false, pf2, h2) =>
            if pf2.last_error = RECOVERY_IMPOSSIBLE then (false, pf2, h2)
            else (false, { pf2 with last_error := RECOVERY_NEEDED }, h2)
          | (true, pf2, h2) =>
            if pf2.file_meta_data.plain_part.update_flag = 1 then
              (false, { pf2 with last_error := RECOVERY_NEEDED }, h2)
            else if pf2.file_meta_data.plain_part.major_version ≠ env.PF_MAJOR_VERSION then
              (false, { pf2 with last_error := INVALID_VERSION }, h2)
            else (true, pf2, h2)
        else (true, pf1, h1)
      match recovery_step with
      | (false, pf2, h2) => (false, pf2, h2)
      | (true, pf2, h2) =>
        match ipf_restore_current_meta_data_key env pf2 h2 with
        | (false, pf3, h3) => (false, pf3, h3)
        | (true, pf3, h3) =>
          match env.aes_gcm_decrypt pf3.cur_key pf3.file_meta_data.encrypted_part
              pf3.file_meta_data.plain_part.meta_data_gmac with
          | (status, plain) =>
            if PF_FAILURE status then (false, { pf3 with last_error := status }, h3)
            else
              let pf4 := { pf3 with encrypted_part_plain := plain.as_md }
              let path_ok : Bool :=
                match path with
                | some p => decide (pf4.encrypted_part_plain.clean_filename = p)
                | none => true
              if !path_ok then (false, { pf4 with last_error := INVALID_PATH }, h3)
              else if pf4.encrypted_part_plain.size > MD_USER_DATA_SIZE then
                match ipf_read_node env pf4 h3 1 with
                | (none, pf5, h5) => (false, pf5, h5)
                | (some block1, pf5, h5) =>
                  let pf6 := { pf5 with root_mht :=
                                { pf5.root_mht with encrypted := block1.as_node } }
                  match env.aes_gcm_decrypt pf6.encrypted_part_plain.mht_key
                      pf6.root_mht.encrypted pf6.encrypted_part_plain.mht_gmac with
                  | (status, plain1) =>
                    if PF_FAILURE status then (false, { pf6 with last_error := status }, h5)
                    else
                      (true,
                        { pf6 with root_mht :=
                            { pf6.root_mht with decrypted := Buf.mht plain1.as_mht,
                                                new_node := false } }, h5)
              else (true, pf4, h3)

/-- `ipf_init_new_file`.  The C function hands `path` to `strncpy` without a `NULL`
check, so a call with a `NULL` path reads through a null pointer and has no defined
outcome.  The value given here for `path = none` (the empty name) stands for no run of
the code: statements about what `pf_open` returns when it creates a file assume a path. -/
def ipf_init_new_file (env : Env) (pf : pf_context_t) (path : Option Path) : pf_context_t :=
  let pf1 := { pf with file_meta_data :=
                { pf.file_meta_data with plain_part :=
                    { pf.file_meta_data.plain_part with
                        file_id := env.PF_FILE_ID,
                        major_version := env.PF_MAJOR_VERSION,
                        minor_version := env.PF_MINOR_VERSION } } }
  let name := (path.getD []).take env.PATH_MAX_SIZE
  { pf1 with
      encrypted_part_plain := { pf1.encrypted_part_plain with clean_filename := name },
      need_writing := true }

/-- The label `out:` of `ipf_open`: free the context when it records a
failure; the status is assigned only from a context that is kept. -/
def ipf_open_out (status : pf_status_t) (pf : pf_context_t) (h : Host) :
    Option pf_context_t × pf_status_t × Host :=
  if PF_FAILURE pf.last_error then (none, status, h)
  else (some pf, pf.last_error, h)

/-- `ipf_open`: the context (`NULL` on failure), and `*status`. -/
def ipf_open (env : Env) (h : Host) (path : Option Path) (mode : pf_file_mode_t)
    (create : Bool) (file : Option pf_handle_t) (real_size : Nat) (kdk_key : Option pf_key_t)
    (enable_recovery : Bool) : Option pf_context_t × pf_status_t × Host :=
  let status := NO_MEMORY
  match alloc env h with
  | (false, h0) => (none, status, h0)
  | (true, h0) =>
    let pf := ipf_init_fields
    match kdk_key with
    | none => ipf_open_out status { pf with last_error := INVALID_PARAMETER } h0
    | some kdk =>
      if (match path with
          | some p => decide (p.length > env.PATH_MAX_SIZE - 1)
          | none => false) then
        ipf_open_out status { pf with last_error := PATH_TOO_LONG } h0
      else
        match ipf_init_session_master_key env pf h0 with
        | (false, pf1, h1) => ipf_open_out status pf1 h1
        | (true, pf1, h1) =>
          let pf2 := { pf1 with user_kdk_key := kdk }
          match file with
          | none => ipf_open_out status { pf2 with last_error := INVALID_PARAMETER } h1
          | some handle =>
            if real_size % PF_NODE_SIZE ≠ 0 then
              ipf_open_out status { pf2 with last_error := INVALID_HEADER } h1
            else
              let pf3 := { pf2 with file := some handle, real_file_size := real_size,
                                    mode := mode }
              let pf4 :=
                match path with
                | some p =>
                  if enable_recovery then
                    let recovery_path := p.take (env.RECOVERY_PATH_MAX_SIZE - 1) ++
                      "_recovery".toList
                    { pf3 with recovery_path := recovery_path }
                  else pf3
                | none => pf3
              if !create then
                match ipf_init_existing_file env pf4 h1 path with
                | (false, pf5, h5) => ipf_open_out status pf5 h5
                | (true, pf5, h5) =>
                  ipf_open_out status { pf5 with last_error := SUCCESS, file_status := SUCCESS } h5
              else
                let pf5 := ipf_init_new_file env pf4 path
                ipf_open_out status { pf5 with last_error := SUCCESS, file_status := SUCCESS } h1

/-- `pf_open`: the status and `*context`. -/
def pf_open (env : Env) (h : Host) (handle : Option pf_handle_t) (path : Option Path)
    (underlying_size : Nat) (mode : pf_file_mode_t) (create enable_recovery : Bool)
    (key : Option pf_key_t) : pf_status_t × Option pf_context_t × Host :=
  if !env.g_initialized then (UNINITIALIZED, none, h)
  else
    match ipf_open env h path mode create handle underlying_size key enable_recovery with
    | (context, status, h1) => (status, context, h1)

/-- The context after `erase_memory(pf, sizeof(struct pf_context))`: every
field zero. -/
def erased_context : pf_context_t :=
  { ipf_init_fields with
      root_mht := calloc_node
      file_status := SUCCESS }

/-- `ipf_close`: flush, drop every cached node, scrub and free the context.
The context returned is the scrubbed memory. -/
def ipf_close (env : Env) (pf : pf_context_t) (h : Host) : Bool × pf_context_t × Host :=
  let flush_step : Bool × pf_context_t × Host :=
    if pf.file_status ≠ SUCCESS then
      match ipf_try_clear_error env pf h with
      | (pf1, h1) => (false, pf1, h1)
    else ipf_internal_flush env pf h
  match flush_step with
  | (retval, pf1, h1) =>
    let erase_step : pf_context_t × Host :=
      if pf1.file_status = SUCCESS ∧ pf1.last_error = SUCCESS then
        match ipf_erase_recovery_file env pf1 h1 with
        | (_, pf2, h2) => (pf2, h2)
      else (pf1, h1)
    (retval, erased_context, erase_step.2)

/-- `pf_close`.  On failure the status is read from the context `ipf_close`
has scrubbed and freed. -/
def pf_close (env : Env) (pf : pf_context_t) (h : Host) : pf_status_t × Host :=
  if !env.g_initialized then (UNINITIALIZED, h)
  else
    match ipf_close env pf h with
    | (true, _, h1) => (SUCCESS, h1)
    | (false, pf1, h1) => (pf1.last_error, h1)

/-! ## Fields the fetch and flush code leaves alone -/

/-- The part of a context that neither the node-fetch code nor the flush
engine assigns: plaintext size, inline data, recorded path, mode, offset,
recovery path, user key, file handle, end-of-file flag, real file size. -/
structure Stable where
  size : Nat
  data : Nat → Byte
  clean_filename : Path
  mode : pf_file_mode_t
  offset : Nat
  recovery_path : Path
  user_kdk_key : pf_key_t
  file : Option pf_handle_t
  end_of_file : Bool
  real_file_size : Nat

/-- The stable part of a context. -/
def pf_context_t.stable (pf : pf_context_t) : Stable :=
  { size := pf.encrypted_part_plain.size, data := pf.encrypted_part_plain.data,
    clean_filename := pf.encrypted_part_plain.clean_filename, mode := pf.mode,
    offset := pf.offset, recovery_path := pf.recovery_path, user_kdk_key := pf.user_kdk_key,
    file := pf.file, end_of_file := pf.end_of_file, real_file_size := pf.real_file_size }

/-! ## The inline scenario -/

/-- A call made on an open context in the inline scenario: `pf_write` or
`pf_flush`. -/
inductive InlineCall where
  | write (offset size : Nat) (input : Option (Nat → Byte))
  | flush

/-- The context and host after one call. -/
def InlineCall.run (env : Env) (s : pf_context_t × Host) : InlineCall → pf_context_t × Host
  | .write offset size input => (pf_write env s.1 s.2 offset size input).2
  | .flush => (pf_flush env s.1 s.2).2

/-- The context and host after a sequence of calls. -/
def run_calls (env : Env) : List InlineCall → pf_context_t × Host → pf_context_t × Host
  | [], s => s
  | c :: cs, s => run_calls env cs (c.run env s)

/-- The plaintext size is at most `MD_USER_DATA_SIZE` after every call of the
sequence. -/
def stays_inline (env : Env) : List InlineCall → pf_context_t × Host → Prop
  | [], _ => True
  | c :: cs, s =>
    (c.run env s).1.encrypted_part_plain.size ≤ MD_USER_DATA_SIZE ∧
      stays_inline env cs (c.run env s)

/-- What a callback of the inline scenario may be: a write only to offset 0
of the protected file and with `update_flag` not 1, no write to the recovery
file, no open of the recovery file. -/
def inline_event_ok : Event → Prop
  | .write_block offset b => offset = 0 ∧ b.as_meta.plain_part.update_flag ≠ 1
  | .write_record _ _ => False
  | .open_file handle _ => handle ≠ .recovery
  | _ => True

/-- Every callback made between host states `h` and `h1` is one the inline
scenario allows. -/
def only_inline_events (h h1 : Host) : Prop :=
  ∃ evs, h1.trace = h.trace ++ evs ∧ ∀ e ∈ evs, inline_event_ok e

/-- The inline state: size within the inline region, `update_flag` clear in
memory, no cached node, root MHT numbered 0. -/
def Inline (pf : pf_context_t) : Prop :=
  pf.encrypted_part_plain.size ≤ MD_USER_DATA_SIZE ∧
  pf.file_meta_data.plain_part.update_flag = 0 ∧
  pf.cache = [] ∧
  pf.root_mht.node_number = 0

/-! ## An example environment -/

/-- A checksum over the start of a buffer: the first two bytes of raw data,
the first entries of an MHT node, the size field of the metadata part. -/
def example_checksum : Buf → Nat
  | .data d => (d 0).val + (d 1).val
  | .mht m => (m.data_nodes_crypto 0).key + (m.mht_nodes_crypto 0).key
  | .md e => e.size

/-- An environment in which every host callback succeeds: the random source
counts, the AEAD leaves the data as it is and tags it with the key plus the
checksum of the data (decryption checks the tag), and key derivation mixes
key, node number and nonce. -/
def example_env : Env :=
  { PF_FILE_ID := 0x46505f5346415247
    PF_MAJOR_VERSION := 1
    PF_MINOR_VERSION := 0
    PATH_MAX_SIZE := 772
    RECOVERY_PATH_MAX_SIZE := 782
    MAX_PAGES_IN_CACHE := 48
    g_initialized := true
    io_status := fun _ => SUCCESS
    random := fun t => (SUCCESS, t)
    aes_gcm_encrypt := fun key aad input =>
      match aad with
      | some buf => (SUCCESS, input.getD (.data zero_bytes), key + buf.node_number + buf.nonce + 1)
      | none =>
        (SUCCESS, input.getD (.data zero_bytes),
          key + example_checksum (input.getD (.data zero_bytes)))
    aes_gcm_decrypt := fun key cipher mac =>
      if mac = key + example_checksum cipher then (SUCCESS, cipher) else (MAC_MISMATCH, cipher)
    alloc_ok := fun _ => true }

/-- A host with an empty protected file and no recovery file. -/
def example_host : Host :=
  { file := fun _ => .node (.data zero_bytes)
    file_size := 0
    recovery := none
    recovery_tail := 0
    clock := 0
    allocs := 0
    trace := [] }

/-- A new file `a`, created readable and writable with key 7, recovery off. -/
def example_created : pf_context_t × Host :=
  match pf_open example_env example_host (some .source) (some ['a']) 0
      (PF_FILE_MODE_READ + PF_FILE_MODE_WRITE) true false (some 7) with
  | (_, some pf, h) => (pf, h)
  | (_, none, h) => (ipf_init_fields, h)

/-- The new file after `pf_write` of five bytes `A` at offset 0. -/
def example_five_bytes : pf_context_t × Host :=
  match pf_write example_env example_created.1 example_created.2 0 5 (some (fun _ => 65)) with
  | (_, pf, h) => (pf, h)

/-- The host after `pf_close` of the five-byte file. -/
def example_closed : Host :=
  (pf_close example_env example_five_bytes.1 example_five_bytes.2).2

/-- The five-byte file opened again under its path `a`, read-only. -/
def example_read_only : pf_context_t × Host :=
  match pf_open example_env example_closed (some .source) (some ['a']) example_closed.file_size
      PF_FILE_MODE_READ false false (some 7) with
  | (_, some pf, h) => (pf, h)
  | (_, none, h) => (ipf_init_fields, h)

/-- The new file after `pf_write` of `MD_USER_DATA_SIZE + 10` bytes `Z` at
offset 0: the inline region and 10 bytes of data node 0. -/
def example_one_node : pf_context_t × Host :=
  match pf_write example_env example_created.1 example_created.2 0 (MD_USER_DATA_SIZE + 10)
      (some (fun _ => 90)) with
  | (_, pf, h) => (pf, h)

/-- The host after `pf_close` of the one-node file. -/
def example_one_node_closed : Host :=
  (pf_close example_env example_one_node.1 example_one_node.2).2

/-- Add one to byte `byte` of block `block` of the protected file. -/
def flip_byte (h : Host) (block byte : Nat) : Host :=
  let old := (h.file block).as_node.as_data
  let changed := Function.update old byte (old byte + 1)
  { h with file := Function.update h.file block (Block.node (Buf.data changed)) }

/-- The one-node file with byte 0 of block 2 (data node 0) changed, opened
again readable and writable. -/
def example_bitflip : pf_context_t × Host :=
  match pf_open example_env (flip_byte example_one_node_closed 2 0) (some .source) (some ['a'])
      example_one_node_closed.file_size (PF_FILE_MODE_READ + PF_FILE_MODE_WRITE) false false
      (some 7) with
  | (_, some pf, h) => (pf, h)
  | (_, none, h) => (ipf_init_fields, h)

/-- The context and host after `pf_read` of 10 bytes at `MD_USER_DATA_SIZE`
on the changed file. -/
def example_corrupted : pf_context_t × Host :=
  (pf_read example_env example_bitflip.1 example_bitflip.2 MD_USER_DATA_SIZE 10
    (some zero_bytes)).2.2

/-- A host whose block 0 carries the right `file_id` and major version 2. -/
def example_bad_version_host : Host :=
  { example_host with
      file := fun _ => Block.meta
        { zero_meta_data_node with
            plain_part := ⟨example_env.PF_FILE_ID, 2, 0, 0, 0, 0⟩ }
      file_size := 4096 }

/-- The changed one-node file after a `pf_write` of one byte `Q` at offset 0
(the inline region) followed by the failing `pf_read` of data node 0: the
context is `CORRUPTED` and holds an unwritten change. -/
def example_corrupted_dirty : pf_context_t × Host :=
  let w := pf_write example_env example_bitflip.1 example_bitflip.2 0 1 (some (fun _ => 81))
  (pf_read example_env w.2.1 w.2.2 MD_USER_DATA_SIZE 10 (some zero_bytes)).2.2

/-- The last step of `ipf_derive_random_node_key`: the node key derived from
`key` (`ipf_generate_secure_blob` with `RANDOM_KEY_NAME`), stored in
`cur_key`. -/
def derive_from_master_key (env : Env) (pf : pf_context_t) (h : Host) (key : pf_key_t)
    (physical_node_number : Nat) : Bool × pf_context_t × Host :=
  match ipf_generate_secure_blob env pf h key RANDOM_KEY_NAME physical_node_number with
  | (none, pf2, h2) => (false, pf2, h2)
  | (some k, pf2, h2) => (true, { pf2 with cur_key := k }, h2)

/-- One call of `ipf_derive_random_node_key` per node number, in order. -/
def derive_calls (env : Env) : List Nat → pf_context_t × Host → pf_context_t × Host
  | [], s => s
  | n :: rest, s => derive_calls env rest (ipf_derive_random_node_key env s.1 s.2 n).2

/-- The session master key and its usage count. -/
def pf_context_t.key_state (pf : pf_context_t) : pf_key_t × Nat :=
  (pf.session_master_key, pf.master_key_count)

/-- The regeneration step of `ipf_derive_random_node_key`, taken when the
count has reached the limit: the count is incremented and
`ipf_init_session_master_key` is called. -/
def regenerate_master_key (env : Env) (pf : pf_context_t) (h : Host) :
    Bool × pf_context_t × Host :=
  ipf_init_session_master_key env { pf with master_key_count := pf.master_key_count + 1 } h

/-- The node numbers of 65,536 derivations for node 2. -/
def example_node_numbers : List Nat := List.replicate MAX_MASTER_KEY_USAGES 2

/-- The session on the new file `a` after 65,536 derivations for node 2. -/
def example_worn : pf_context_t × Host :=
  derive_calls example_env example_node_numbers (example_created.1, example_created.2)

/-- The example environment with every host I/O callback failing from
invocation `t0` on. -/
def example_env_failing (t0 : Nat) : Env :=
  { example_env with io_status := fun t => if t < t0 then SUCCESS else CALLBACK_FAILED }

/-- A new file `a` with recovery enabled: `MD_USER_DATA_SIZE + 10` bytes `Z`
written and flushed. -/
def example_logged : pf_context_t × Host :=
  match pf_open example_env example_host (some .source) (some ['a']) 0
      (PF_FILE_MODE_READ + PF_FILE_MODE_WRITE) true true (some 7) with
  | (_, some pf, h) =>
    match pf_write example_env pf h 0 (MD_USER_DATA_SIZE + 10) (some (fun _ => 90)) with
    | (_, pf1, h1) => (pf_flush example_env pf1 h1).2
  | (_, none, h) => (ipf_init_fields, h)

/-- The flushed file after `pf_write` of 10 bytes `Y` over data node 0. -/
def example_rewritten : pf_context_t × Host :=
  (pf_write example_env example_logged.1 example_logged.2 MD_USER_DATA_SIZE 10
    (some (fun _ => 89))).2

/-- The host after a second `pf_flush` that is cut short: the recovery file
and the update flag are written, data node 0 is written to block 2, and every
later callback fails. -/
def example_crash : Host :=
  (pf_flush (example_env_failing (example_rewritten.2.clock + 10)) example_rewritten.1
    example_rewritten.2).2.2

/-- The context and host that `ipf_open` hands to `ipf_init_existing_file`
when the file `a` on host `h` is opened readable and writable with key 7 and
recovery enabled. -/
def example_opening (h : Host) : pf_context_t × Host :=
  match ipf_init_session_master_key example_env ipf_init_fields (alloc example_env h).2 with
  | (_, pf1, h1) =>
    ({ pf1 with user_kdk_key := 7, file := some .source, real_file_size := h.file_size,
                mode := PF_FILE_MODE_READ + PF_FILE_MODE_WRITE,
                recovery_path := "a_recovery".toList }, h1)

/-- The context of `example_opening` once `ipf_init_existing_file` has read
block 0, the state in which it calls `ipf_file_recovery`. -/
def example_recovering (h : Host) : pf_context_t × Host :=
  match ipf_read_node example_env (example_opening h).1 (example_opening h).2 0 with
  | (block, pf0, h1) => ({ pf0 with file_meta_data := (block.getD (h.file 0)).as_meta }, h1)

/-- The crashed host with 5 bytes cut off the end of its recovery file. -/
def example_crash_torn : Host :=
  { example_crash with
      recovery := example_crash.recovery.map List.dropLast
      recovery_tail := RECOVERY_NODE_SIZE - 5 }

/-- The block of the source file at which the replay writes record `r`: the
`uint64_t` offset `physical_node_number * node_size`, in blocks. -/
def record_block (r : recovery_node_t) : Nat :=
  r.physical_node_number * PF_NODE_SIZE % U64 / PF_NODE_SIZE

/-- The blocks of a file after the data of each record of `recs`, in order,
has been stored in the block of the record. -/
def replay_blocks (recs : List recovery_node_t) (file : Nat → Block) : Nat → Block :=
  recs.foldl (fun f r => Function.update f (record_block r) r.encrypted) file

/-- The crashed host with a recovery file of one record that names block
`2 ^ 52` and carries the data `M`. -/
def example_far_record : Host :=
  { example_crash with
      recovery := some [⟨2 ^ 52, .node (.data (fun _ => 77))⟩]
      recovery_tail := 0 }

/-- What a step that reports success or failure does to the status fields of
the context: it leaves `file_status` and the (ghost) `hang` flag alone, keeps
`last_error` when it succeeds and records a failure code when it fails. -/
def Outcome (ok : Bool) (pf pf1 : pf_context_t) : Prop :=
  pf1.file_status = pf.file_status ∧ pf1.hang = pf.hang ∧
  (if ok then pf1.last_error = pf.last_error else pf1.last_error ≠ SUCCESS)

/-- The file statuses a failed flush leaves. -/
def flush_failure (s : pf_status_t) : Prop :=
  s = FLUSH_ERROR ∨ s = CRYPTO_ERROR ∨ s = WRITE_TO_DISK_FAILED

/-- What `ipf_internal_flush` does to the status fields: a successful flush
keeps `file_status` and `last_error`, a failed one leaves a flush failure
status and a failure code. -/
def FlushVerdict (ok : Bool) (pf pf1 : pf_context_t) : Prop :=
  pf1.hang = pf.hang ∧
  (if ok then pf1.file_status = pf.file_status ∧ pf1.last_error = pf.last_error
   else flush_failure pf1.file_status ∧ pf1.last_error ≠ SUCCESS)

/-- What a node fetch does to the status fields: a fetch that finds its node
keeps `file_status` and `last_error`; one that does not has recorded a failure
code (or run out of fuel), and has either kept `file_status` or set it to
`CORRUPTED` together with `last_error = MAC_MISMATCH`.  The (ghost) `hang` flag
is never cleared. -/
def FetchVerdict (found : Bool) (pf pf1 : pf_context_t) : Prop :=
  (pf.hang = true → pf1.hang = true) ∧
  (if found then pf1.file_status = pf.file_status ∧ pf1.last_error = pf.last_error
   else (pf1.last_error ≠ SUCCESS ∨ pf1.hang = true) ∧
        (pf1.file_status = pf.file_status ∨
          (pf1.file_status = CORRUPTED ∧ pf1.last_error = MAC_MISMATCH)))

/-- What the eviction loop does to the status fields: when it succeeds the
cache is within its capacity and `file_status` and `last_error` are kept; when
it fails, either a flush has failed or the loop has run out of fuel. -/
def EvictVerdict (env : Env) (ok : Bool) (pf pf1 : pf_context_t) : Prop :=
  (pf.hang = true → pf1.hang = true) ∧
  (if ok then
     pf1.file_status = pf.file_status ∧ pf1.last_error = pf.last_error ∧
     lruc_size pf1.cache ≤ env.MAX_PAGES_IN_CACHE
   else
     (flush_failure pf1.file_status ∧ pf1.last_error ≠ SUCCESS) ∨
     (pf1.hang = true ∧ pf1.file_status = pf.file_status ∧ pf1.last_error = pf.last_error))

/-- What `ipf_get_data_node` does to the status fields: when it returns a node
the cache is within its capacity and `file_status` and `last_error` are kept;
when it returns none, a failure code is recorded (or fuel ran out), and
`file_status` is a flush failure, or unchanged, or `CORRUPTED` together with
`last_error = MAC_MISMATCH`. -/
def GetVerdict (env : Env) (found : Bool) (pf pf1 : pf_context_t) : Prop :=
  (pf.hang = true → pf1.hang = true) ∧
  (if found then
     pf1.file_status = pf.file_status ∧ pf1.last_error = pf.last_error ∧
     lruc_size pf1.cache ≤ env.MAX_PAGES_IN_CACHE
   else
     (pf1.last_error ≠ SUCCESS ∨ pf1.hang = true) ∧
     (flush_failure pf1.file_status ∨ pf1.file_status = pf.file_status ∨
       (pf1.file_status = CORRUPTED ∧ pf1.last_error = MAC_MISMATCH)))

/-- What a read or write loop does to the status fields: when it completes,
`file_status` and `last_error` are kept and a cache that was within its
capacity is so again; when it stops early, a failure code is recorded (or
fuel ran out), and `file_status` is a flush failure, or unchanged, or
`CORRUPTED` together with `last_error = MAC_MISMATCH`. -/
def OpVerdict (env : Env) (completed : Bool) (pf pf1 : pf_context_t) : Prop :=
  (pf.hang = true → pf1.hang = true) ∧
  (if completed then
     pf1.file_status = pf.file_status ∧ pf1.last_error = pf.last_error ∧
     (lruc_size pf.cache ≤ env.MAX_PAGES_IN_CACHE →
       lruc_size pf1.cache ≤ env.MAX_PAGES_IN_CACHE)
   else
     (pf1.last_error ≠ SUCCESS ∨ pf1.hang = true) ∧
     (flush_failure pf1.file_status ∨ pf1.file_status = pf.file_status ∨
       (pf1.file_status = CORRUPTED ∧ pf1.last_error = MAC_MISMATCH)))

/-- A call of one of the public operations that fetch nodes. -/
inductive NodeCall where
  | read (offset size : Nat) (output : Option (Nat → Byte))
  | write (offset size : Nat) (input : Option (Nat → Byte))
  | set_size (size : Nat)

/-- Run a call: the status it returns, the context and the host after it. -/
def NodeCall.run (env : Env) (pf : pf_context_t) (h : Host) :
    NodeCall → pf_status_t × pf_context_t × Host
  | .read offset size output =>
    ((pf_read env pf h offset size output).1, (pf_read env pf h offset size output).2.2)
  | .write offset size input => pf_write env pf h offset size input
  | .set_size size => pf_set_size env pf h size

/-- A new file `a` on a host whose I/O callbacks all fail, after a `pf_write`
of `MD_USER_DATA_SIZE + 49 * 4096` bytes: the 49th data node is appended, the
forced flush fails, and the write stops. -/
def example_overfull : pf_context_t × Host :=
  match pf_open (example_env_failing 0) example_host (some .source) (some ['a']) 0
      (PF_FILE_MODE_READ + PF_FILE_MODE_WRITE) true false (some 7) with
  | (_, some pf, h) =>
    (pf_write (example_env_failing 0) pf h 0 (MD_USER_DATA_SIZE + 49 * PF_NODE_SIZE)
      (some (fun _ => 90))).2
  | (_, none, h) => (ipf_init_fields, h)

/-- A new file `a` after `pf_write` of `MD_USER_DATA_SIZE + 97 * 4096` bytes
`Z` at offset 0: the inline region and data nodes 0 to 96, the last one
attached to MHT node 1. -/
def example_big : pf_context_t × Host :=
  (pf_write example_env example_created.1 example_created.2 0
    (MD_USER_DATA_SIZE + 97 * PF_NODE_SIZE) (some (fun _ => 90))).2

/-- The host after `pf_close` of the 97-node file. -/
def example_big_closed : Host :=
  (pf_close example_env example_big.1 example_big.2).2

/-- The 97-node file with byte 0 of block 99 (data node 96) changed, opened
again readable and writable. -/
def example_big_bitflip : pf_context_t × Host :=
  match pf_open example_env (flip_byte example_big_closed 99 0) (some .source) (some ['a'])
      example_big_closed.file_size (PF_FILE_MODE_READ + PF_FILE_MODE_WRITE) false false
      (some 7) with
  | (_, some pf, h) => (pf, h)
  | (_, none, h) => (ipf_init_fields, h)

/-- The changed 97-node file after `pf_write` of `48 * 4096` bytes `Y` over
data nodes 0 to 47: the cache is full and every cached node is dirty. -/
def example_big_dirty : pf_context_t × Host :=
  (pf_write example_env example_big_bitflip.1 example_big_bitflip.2 MD_USER_DATA_SIZE
    (48 * PF_NODE_SIZE) (some (fun _ => 89))).2

/-- The 97-node file with byte 0 of block 98 (MHT node 1) changed, opened
again readable and writable. -/
def example_big_mht_bitflip : pf_context_t × Host :=
  match pf_open example_env (flip_byte example_big_closed 98 0) (some .source) (some ['a'])
      example_big_closed.file_size (PF_FILE_MODE_READ + PF_FILE_MODE_WRITE) false false
      (some 7) with
  | (_, some pf, h) => (pf, h)
  | (_, none, h) => (ipf_init_fields, h)

/-- Whether `ipf_internal_flush` writes the tree: the guard
`size > MD_USER_DATA_SIZE && root_mht.need_writing`. -/
def flush_writes_tree (pf : pf_context_t) : Bool :=
  decide (pf.encrypted_part_plain.size > MD_USER_DATA_SIZE) && pf.root_mht.need_writing

/-- The first step of the tree part of `ipf_internal_flush`: the recovery
file is written when a recovery path is set. -/
def flush_log_step (env : Env) (pf : pf_context_t) (h : Host) : Bool × pf_context_t × Host :=
  if pf.recovery_path ≠ [] then ipf_write_recovery_file env pf h else (true, pf, h)

/-- The second step of the tree part: `ipf_set_update_flag` after the log
step. -/
def flush_flag_step (env : Env) (pf : pf_context_t) (h : Host) : Bool × pf_context_t × Host :=
  ipf_set_update_flag env (flush_log_step env pf h).2.1 (flush_log_step env pf h).2.2

/-- The third step of the tree part: `ipf_update_all_data_and_mht_nodes`
after the update flag is set. -/
def flush_tree_step (env : Env) (pf : pf_context_t) (h : Host) : Bool × pf_context_t × Host :=
  ipf_update_all_data_and_mht_nodes env (flush_flag_step env pf h).2.1
    (flush_flag_step env pf h).2.2

/-- The context and host with which `ipf_internal_flush` goes on to the
metadata when no step of the tree part has failed. -/
def flush_tree_done (env : Env) (pf : pf_context_t) (h : Host) : pf_context_t × Host :=
  if flush_writes_tree pf then (flush_tree_step env pf h).2 else (pf, h)

/-- The metadata step of `ipf_internal_flush`: `ipf_update_meta_data_node`. -/
def flush_meta_step (env : Env) (pf : pf_context_t) (h : Host) : Bool × pf_context_t × Host :=
  ipf_update_meta_data_node env (flush_tree_done env pf h).1 (flush_tree_done env pf h).2

/-- The last step of `ipf_internal_flush`: `ipf_write_all_changes_to_disk`. -/
def flush_disk_step (env : Env) (pf : pf_context_t) (h : Host) : Bool × pf_context_t × Host :=
  ipf_write_all_changes_to_disk env (flush_meta_step env pf h).2.1 (flush_meta_step env pf h).2.2

/-- The blocks written to the protected file by a list of callbacks, in
order: byte offset and block. -/
def block_writes : List Event → List (Nat × Block)
  | [] => []
  | .write_block offset b :: rest => (offset, b) :: block_writes rest
  | _ :: rest => block_writes rest

/-- Between host states `h` and `h1` the blocks `ws` were written to the
protected file, in this order. -/
def Wrote (h h1 : Host) (ws : List (Nat × Block)) : Prop :=
  ∃ evs, h1.trace = h.trace ++ evs ∧ block_writes evs = ws

/-- The records written to the recovery file by a list of callbacks, in
order: byte offset and record. -/
def record_writes : List Event → List (Nat × recovery_node_t)
  | [] => []
  | .write_record offset r :: rest => (offset, r) :: record_writes rest
  | _ :: rest => record_writes rest

/-- The records of the recovery log as the specification lists them: one for
each cached node that is dirty and not new, in cache order (most recently used
first); then one for the root MHT if it is dirty and not new; then the
metadata record. -/
def recovery_log (pf : pf_context_t) : List recovery_node_t :=
  (pf.cache.filter (fun n => n.need_writing && !n.new_node)).map file_node_t.recovery_node ++
    (if pf.root_mht.need_writing && !pf.root_mht.new_node then [pf.root_mht.recovery_node]
      else []) ++
    [pf.meta_data_recovery_node]

/-- Records at consecutive slots of `RECOVERY_NODE_SIZE` bytes, the first at
slot `start`. -/
def at_slots : Nat → List recovery_node_t → List (Nat × recovery_node_t)
  | _, [] => []
  | start, r :: rest => (start * RECOVERY_NODE_SIZE, r) :: at_slots (start + 1) rest

/-- The host after `cb_write` of each record of a list to consecutive slots of
the recovery file, the first to slot `start`. -/
def store_records (env : Env) : List recovery_node_t → Nat → Host → Host
  | [], _, h => h
  | r :: rest, start, h =>
    store_records env rest (start + 1) (cb_write_record env h r (start * RECOVERY_NODE_SIZE)).2

/-- The size of the recovery file as `cb_open` reports it. -/
def recovery_file_size (h : Host) : Nat :=
  (h.recovery.getD []).length * RECOVERY_NODE_SIZE + h.recovery_tail

/-- Key and flags of every cached node, in cache order: physical number,
`need_writing`, `new_node`. -/
def pf_context_t.cache_flags (pf : pf_context_t) : List (Nat × Bool × Bool) :=
  pf.cache.map (fun n => (n.physical_node_number, n.need_writing, n.new_node))

/-- What a completed write does to a node: a node that needed writing is no
longer dirty and no longer new; any other node is left alone. -/
def written (n : file_node_t) : file_node_t :=
  if n.need_writing then { n with need_writing := false, new_node := false } else n

/-- The host after `pf_close` of the flushed file of `example_logged`. -/
def example_logged_closed : Host :=
  (pf_close example_env example_logged.1 example_logged.2).2

/-- The closed file opened again with recovery enabled, after `pf_write` of
10 bytes `Y` over data node 0, not yet flushed. -/
def example_relogged : pf_context_t × Host :=
  match pf_open example_env example_logged_closed (some .source) (some ['a'])
      example_logged_closed.file_size (PF_FILE_MODE_READ + PF_FILE_MODE_WRITE) false true
      (some 7) with
  | (_, some pf, h) => (pf_write example_env pf h MD_USER_DATA_SIZE 10 (some (fun _ => 89))).2
  | (_, none, h) => (ipf_init_fields, h)

/-- The example environment with another tag for every AEAD encryption that
has additional authenticated data: calls with no such data, and the ciphertext
of every call, are as in `example_env`. -/
def example_env_other_tag : Env :=
  { example_env with
      aes_gcm_encrypt := fun key aad input =>
        match aad with
        | some _ => (SUCCESS, input.getD (.data zero_bytes), 4242)
        | none => example_env.aes_gcm_encrypt key none input }

/-- The example environment with the host I/O callbacks failing at the
invocations listed in `bad`, and only there. -/
def example_env_failing_at (bad : List Nat) : Env :=
  { example_env with io_status := fun t => if t ∈ bad then CALLBACK_FAILED else SUCCESS }

/-- The one-node file after a `pf_flush` whose first callback, the write of
the update flag (invocation 1), fails: `file_status` is `FLUSH_ERROR`. -/
def example_flush_error : pf_context_t × Host :=
  (pf_flush (example_env_failing_at [1, 6]) example_one_node.1 example_one_node.2).2

/-- The new file `a` after `pf_write` of `MD_USER_DATA_SIZE` bytes `A` at
offset 0: the inline region is full, offset and size stand at the start of
data node 0. -/
def example_md_full : pf_context_t × Host :=
  (pf_write example_env example_created.1 example_created.2 0 MD_USER_DATA_SIZE
    (some (fun _ => 65))).2

/-- A call on an open context: the internal operations `ipf_seek`, `ipf_read`
and `ipf_write`, and the public `pf_set_size`, `pf_flush`, `pf_read` and
`pf_write`. -/
inductive ApiCall where
  | seek (new_offset : Nat)
  | read (ptr : Option (Nat → Byte)) (size : Nat)
  | write (ptr : Option (Nat → Byte)) (size : Nat)
  | set_size (size : Nat)
  | flush
  | pf_read (offset size : Nat) (output : Option (Nat → Byte))
  | pf_write (offset size : Nat) (input : Option (Nat → Byte))

/-- The context and host after one call, whatever it returns. -/
def ApiCall.run (env : Env) (s : pf_context_t × Host) : ApiCall → pf_context_t × Host
  | .seek new_offset => (ipf_seek env s.1 s.2 new_offset).2
  | .read ptr size => (ipf_read env s.1 s.2 ptr size).2.2
  | .write ptr size => (ipf_write env s.1 s.2 ptr size).2
  | .set_size size => (pf_set_size env s.1 s.2 size).2
  | .flush => (pf_flush env s.1 s.2).2
  | .pf_read offset size output => (PF.pf_read env s.1 s.2 offset size output).2.2
  | .pf_write offset size input => (PF.pf_write env s.1 s.2 offset size input).2

/-- The context and host after a sequence of calls. -/
def run_api (env : Env) : List ApiCall → pf_context_t × Host → pf_context_t × Host
  | [], s => s
  | c :: cs, s => run_api env cs (c.run env s)

/-- The offset is within the plaintext size in `pf1`, whose plaintext size is
at least that of `pf`. -/
def Within (pf pf1 : pf_context_t) : Prop :=
  pf1.offset ≤ pf1.encrypted_part_plain.size ∧
  pf.encrypted_part_plain.size ≤ pf1.encrypted_part_plain.size

/-- Host `h` with the `update_flag` byte of block 0 set to `flag`. -/
def with_disk_flag (h : Host) (flag : Nat) : Host :=
  let m := (h.file 0).as_meta
  let m1 : meta_data_node_t := { m with plain_part := { m.plain_part with update_flag := flag } }
  { h with file := Function.update h.file 0 (Block.meta m1) }

/-- The closed five-byte file with `update_flag = 2` in block 0, opened
readable and writable, after `pf_write` of one byte `B` at offset 0. -/
def example_flag_two : pf_context_t × Host :=
  match pf_open example_env (with_disk_flag example_closed 2) (some .source) (some ['a'])
      example_closed.file_size (PF_FILE_MODE_READ + PF_FILE_MODE_WRITE) false false (some 7) with
  | (_, some pf, h) => (pf_write example_env pf h 0 1 (some (fun _ => 66))).2
  | (_, none, h) => (ipf_init_fields, h)

/-- The example environment with a random source that fails. -/
def example_env_no_random : Env :=
  { example_env with random := fun t => (CALLBACK_FAILED, t) }

/-- The example environment with a cache capacity of 0 nodes. -/
def example_env_no_cache : Env :=
  { example_env with MAX_PAGES_IN_CACHE := 0 }

/-- Plaintext size of a file whose last data node, number 3168, hangs under MHT node 33,
    itself a child of MHT node 1. -/
def example_deep_size : Nat := MD_USER_DATA_SIZE + 3169 * PF_NODE_SIZE

/-- Metadata node of the two-level file: written for path `a` under the key the example
    cipher derives, with an all-zero root MHT entry. -/
def example_deep_meta : meta_data_node_t :=
  { plain_part := ⟨example_env.PF_FILE_ID, 1, 0, 0, 8 + example_deep_size, 0⟩,
    encrypted_part := .md { clean_filename := ['a'], size := example_deep_size, mht_key := 0,
                            mht_gmac := 0, data := zero_bytes } }

/-- Host holding the two-level file: the metadata node followed by 3203 all-zero nodes. -/
def example_deep_host : Host :=
  { example_host with
      file := Function.update example_host.file 0 (Block.meta example_deep_meta),
      file_size := 3204 * PF_NODE_SIZE }

/-- The two-level file opened, on a host whose fifth read fails. -/
def example_deep_open : pf_status_t × Option pf_context_t × Host :=
  pf_open (example_env_failing_at [5]) example_deep_host (some .source) (some ['a'])
    example_deep_host.file_size (PF_FILE_MODE_READ + PF_FILE_MODE_WRITE) false false (some 7)

/-- Calls `ipf_get_data_node` for each listed data node in turn, at the offset where the node
    starts, and records which calls returned a node. -/
def fetch_data_nodes (env : Env) :
    List Nat → pf_context_t → Host → List Bool × pf_context_t × Host
  | [], pf, h => ([], pf, h)
  | d :: ds, pf, h =>
    match ipf_get_data_node env { pf with offset := MD_USER_DATA_SIZE + d * PF_NODE_SIZE } h with
    | (r, pf1, h1) =>
      match fetch_data_nodes env ds pf1 h1 with
      | (rs, pf2, h2) => (r.isSome :: rs, pf2, h2)

/-- State of the two-level example after fetching the listed data nodes. -/
def example_deep_fetch (ds : List Nat) : List Bool × pf_context_t × Host :=
  match example_deep_open with
  | (_, some pf, h) => fetch_data_nodes (example_env_failing_at [5]) ds pf h
  | (_, none, h) => ([], ipf_init_fields, h)

/-- Whether a pointer leads to a node: the root MHT, or a node still in the cache. -/
def pf_context_t.resident (pf : pf_context_t) : NodePtr → Bool
  | .root => true
  | .cached key => (lruc_find pf.cache key).isSome

/-- The entry `e` seals a node: its key is a node key derived for the physical number, and
encrypting the plaintext under that key gives the ciphertext and the tag of the entry. -/
def Sealed (env : Env) (physical_node_number : Nat) (plain cipher : Buf)
    (e : gcm_crypto_data_t) : Prop :=
  (∃ pf0 h0, (ipf_derive_random_node_key env pf0 h0 physical_node_number).1 = true ∧
    (ipf_derive_random_node_key env pf0 h0 physical_node_number).2.1.cur_key = e.key) ∧
  PF_FAILURE (env.aes_gcm_encrypt e.key none (some plain)).1 = false ∧
  (env.aes_gcm_encrypt e.key none (some plain)).2.1 = cipher ∧
  (env.aes_gcm_encrypt e.key none (some plain)).2.2 = e.gmac

/-- Two states whose nodes agree in everything but the two buffers. -/
def SameShape (a b : pf_context_t) : Prop :=
  ∀ q, a.resident q = b.resident q ∧ (a.deref q).type = (b.deref q).type ∧
    (a.deref q).node_number = (b.deref q).node_number ∧
    (a.deref q).parent = (b.deref q).parent ∧
    (a.deref q).need_writing = (b.deref q).need_writing ∧
    (a.deref q).physical_node_number = (b.deref q).physical_node_number

/-- The tree shape of the cached nodes, read through pointers: a dirty cached node has its
parent at hand, an MHT node with the number the node's own number asks for, and cached nodes of
one type are told apart by their numbers. -/
def Linked (pf : pf_context_t) : Prop :=
  (∀ q, q ≠ .root → pf.resident q = true → (pf.deref q).need_writing = true →
    pf.resident (pf.deref q).parent = true ∧
    (pf.deref (pf.deref q).parent).type = FILE_MHT_NODE_TYPE ∧
    ((pf.deref q).type = FILE_DATA_NODE_TYPE →
      (pf.deref (pf.deref q).parent).node_number
        = (pf.deref q).node_number / ATTACHED_DATA_NODES_COUNT) ∧
    ((pf.deref q).type = FILE_MHT_NODE_TYPE →
      1 ≤ (pf.deref q).node_number ∧ (pf.deref q).node_number < U64 ∧
      (pf.deref (pf.deref q).parent).node_number
        = ((pf.deref q).node_number - 1) / CHILD_MHT_NODES_COUNT)) ∧
  (∀ q r, q ≠ .root → r ≠ .root → pf.resident q = true → pf.resident r = true →
    (pf.deref q).type = (pf.deref r).type →
    (pf.deref q).node_number = (pf.deref r).node_number → q = r)

/-- The entry of the data node at `q` in its parent seals the node as it is now. -/
def DataSealed (env : Env) (pf : pf_context_t) (q : NodePtr) : Prop :=
  Sealed env (pf.deref q).physical_node_number (.data (pf.deref q).decrypted.as_data)
    (pf.deref q).encrypted
    ((pf.deref (pf.deref q).parent).decrypted.as_mht.data_nodes_crypto
      ((pf.deref q).node_number % ATTACHED_DATA_NODES_COUNT))

/-- The entry of the MHT node at `q` in its parent seals the node as it is now. -/
def MhtSealed (env : Env) (pf : pf_context_t) (q : NodePtr) : Prop :=
  Sealed env (pf.deref q).physical_node_number (.mht (pf.deref q).decrypted.as_mht)
    (pf.deref q).encrypted
    ((pf.deref (pf.deref q).parent).decrypted.as_mht.mht_nodes_crypto
      (((pf.deref q).node_number - 1) % CHILD_MHT_NODES_COUNT))

/-- The two-level file opened with every callback succeeding, after `pf_write` of one byte into
data node 3168: the cache holds MHT 1 (physical 98), MHT 33 (physical 3202) and the data node
(physical 3203), all dirty. -/
def example_deep_written : pf_context_t × Host :=
  match pf_open example_env example_deep_host (some .source) (some ['a'])
      example_deep_host.file_size (PF_FILE_MODE_READ + PF_FILE_MODE_WRITE) false false
      (some 7) with
  | (_, some pf, h) =>
    (pf_write example_env pf h (MD_USER_DATA_SIZE + 3168 * PF_NODE_SIZE) 1
      (some (fun _ => 90))).2
  | (_, none, h) => (ipf_init_fields, h)

/-- The 97-node file after a `pf_flush` during which the host write of data node 96 (block 99)
fails, the write of its parent MHT node 1 (block 98) having succeeded just before. -/
def example_half_flushed : pf_status_t × pf_context_t × Host :=
  pf_flush (example_env_failing_at [209]) example_big.1 example_big.2

/-- The half-flushed 97-node file after a second `pf_flush`, with every callback succeeding. -/
def example_reflushed : pf_status_t × pf_context_t × Host :=
  pf_flush (example_env_failing_at [209]) example_half_flushed.2.1 example_half_flushed.2.2

/-- Offsets up to this bound keep every `uint64_t` computation of the node numbering and of
the block offsets from wrapping. -/
def NO_WRAP : Nat := 2 ^ 62

/-- Physical number of data node `d`: `d + 2 + d / 96`. -/
def data_physical_node_number (d : Nat) : Nat := d + 2 + d / ATTACHED_DATA_NODES_COUNT

/-- The pointer under which MHT node `m` is reached: the root MHT, or the cache entry of its
physical number. -/
def mht_ptr (m : Nat) : NodePtr :=
  if m = 0 then .root else .cached (mht_physical_node_number m)

/-- The plaintext of MHT node `m` as the file holds it: the root MHT of the context, the cached
node, or the block on disk decrypted under the entry that the plaintext of the parent holds. -/
def mht_plain (env : Env) (pf : pf_context_t) (h : Host) (m : Nat) : mht_node_t :=
  if m = 0 then pf.root_mht.decrypted.as_mht
  else
    match lruc_find pf.cache (mht_physical_node_number m) with
    | some n => n.decrypted.as_mht
    | none =>
      (env.aes_gcm_decrypt
        ((mht_plain env pf h ((m - 1) / CHILD_MHT_NODES_COUNT)).mht_nodes_crypto
          ((m - 1) % CHILD_MHT_NODES_COUNT)).key
        (h.file (mht_physical_node_number m)).as_node
        ((mht_plain env pf h ((m - 1) / CHILD_MHT_NODES_COUNT)).mht_nodes_crypto
          ((m - 1) % CHILD_MHT_NODES_COUNT)).gmac).2.as_mht
termination_by m
decreasing_by
  all_goals
    simp_wf
    unfold CHILD_MHT_NODES_COUNT
    omega

/-- The plaintext of data node `d` as the file holds it: the cached node, or the block on disk
decrypted under the entry that the plaintext of its MHT node holds. -/
def data_plain (env : Env) (pf : pf_context_t) (h : Host) (d : Nat) : Nat → Byte :=
  match lruc_find pf.cache (data_physical_node_number d) with
  | some n => n.decrypted.as_data
  | none =>
    (env.aes_gcm_decrypt
      ((mht_plain env pf h (d / ATTACHED_DATA_NODES_COUNT)).data_nodes_crypto
        (d % ATTACHED_DATA_NODES_COUNT)).key
      (h.file (data_physical_node_number d)).as_node
      ((mht_plain env pf h (d / ATTACHED_DATA_NODES_COUNT)).data_nodes_crypto
        (d % ATTACHED_DATA_NODES_COUNT)).gmac).2.as_data

/-- The plaintext byte at logical offset `x`: in the inline region of the metadata, or in the
data node that holds the offset. -/
def plaintext_byte (env : Env) (pf : pf_context_t) (h : Host) (x : Nat) : Byte :=
  if x < MD_USER_DATA_SIZE then pf.encrypted_part_plain.data x
  else
    data_plain env pf h ((x - MD_USER_DATA_SIZE) / PF_NODE_SIZE)
      ((x - MD_USER_DATA_SIZE) % PF_NODE_SIZE)

/-- Whether MHT node `m` is in the cache. -/
def cached_mht (pf : pf_context_t) (m : Nat) : Bool :=
  (lruc_find pf.cache (mht_physical_node_number m)).isSome

/-- Whether data node `d` is in the cache. -/
def cached_data (pf : pf_context_t) (d : Nat) : Bool :=
  (lruc_find pf.cache (data_physical_node_number d)).isSome

/-- MHT node `m >= 1` is part of a file of plaintext size `S`: its first data node starts
below `S`. -/
def live_mht (S m : Nat) : Prop :=
  MD_USER_DATA_SIZE + m * ATTACHED_DATA_NODES_COUNT * PF_NODE_SIZE < S

/-- Data node `d` is part of a file of plaintext size `S`: it starts below `S`. -/
def live_data (S d : Nat) : Prop := MD_USER_DATA_SIZE + d * PF_NODE_SIZE < S

/-- Two plaintexts of MHT node `m` hold the same entry for every child that is not cached in
both of two states. -/
def EntriesAgree (pf pf1 : pf_context_t) (m : Nat) (x x1 : mht_node_t) : Prop :=
  (∀ c, c ≠ 0 → (c - 1) / CHILD_MHT_NODES_COUNT = m →
    ¬ (cached_mht pf c = true ∧ cached_mht pf1 c = true) →
    x1.mht_nodes_crypto ((c - 1) % CHILD_MHT_NODES_COUNT)
      = x.mht_nodes_crypto ((c - 1) % CHILD_MHT_NODES_COUNT)) ∧
  (∀ d, d / ATTACHED_DATA_NODES_COUNT = m →
    ¬ (cached_data pf d = true ∧ cached_data pf1 d = true) →
    x1.data_nodes_crypto (d % ATTACHED_DATA_NODES_COUNT)
      = x.data_nodes_crypto (d % ATTACHED_DATA_NODES_COUNT))

/-- The entry for MHT node `m >= 1` in the plaintext of its parent. -/
def mht_entry (env : Env) (pf : pf_context_t) (h : Host) (m : Nat) : gcm_crypto_data_t :=
  (mht_plain env pf h ((m - 1) / CHILD_MHT_NODES_COUNT)).mht_nodes_crypto
    ((m - 1) % CHILD_MHT_NODES_COUNT)

/-- The entry for data node `d` in the plaintext of its MHT node. -/
def data_entry (env : Env) (pf : pf_context_t) (h : Host) (d : Nat) : gcm_crypto_data_t :=
  (mht_plain env pf h (d / ATTACHED_DATA_NODES_COUNT)).data_nodes_crypto
    (d % ATTACHED_DATA_NODES_COUNT)

/-- The state `(pf1, h1)` holds the same file of size `S` as `(pf, h)`: nodes cached in both
have the same data and the same entries for the children that are not cached in both, nodes
cached in neither have the same block on disk, and a node cached in one only is there what its
block decrypts to under the entry of its parent. -/
structure Agree (env : Env) (pf : pf_context_t) (h : Host) (pf1 : pf_context_t) (h1 : Host)
    (S : Nat) : Prop where
  root : EntriesAgree pf pf1 0 pf.root_mht.decrypted.as_mht pf1.root_mht.decrypted.as_mht
  mht_both : ∀ m n n1, m ≠ 0 → live_mht S m →
    lruc_find pf.cache (mht_physical_node_number m) = some n →
    lruc_find pf1.cache (mht_physical_node_number m) = some n1 →
    EntriesAgree pf pf1 m n.decrypted.as_mht n1.decrypted.as_mht
  mht_none : ∀ m, m ≠ 0 → live_mht S m →
    lruc_find pf.cache (mht_physical_node_number m) = none →
    lruc_find pf1.cache (mht_physical_node_number m) = none →
    (h1.file (mht_physical_node_number m)).as_node = (h.file (mht_physical_node_number m)).as_node
  mht_out : ∀ m n, m ≠ 0 → live_mht S m →
    lruc_find pf.cache (mht_physical_node_number m) = some n →
    lruc_find pf1.cache (mht_physical_node_number m) = none →
    n.decrypted.as_mht = (env.aes_gcm_decrypt (mht_entry env pf h m).key
      (h1.file (mht_physical_node_number m)).as_node (mht_entry env pf h m).gmac).2.as_mht
  mht_in : ∀ m n1, m ≠ 0 → live_mht S m →
    lruc_find pf.cache (mht_physical_node_number m) = none →
    lruc_find pf1.cache (mht_physical_node_number m) = some n1 →
    n1.decrypted.as_mht = (env.aes_gcm_decrypt (mht_entry env pf h m).key
      (h.file (mht_physical_node_number m)).as_node (mht_entry env pf h m).gmac).2.as_mht
  data_both : ∀ d n n1, live_data S d →
    lruc_find pf.cache (data_physical_node_number d) = some n →
    lruc_find pf1.cache (data_physical_node_number d) = some n1 →
    n1.decrypted.as_data = n.decrypted.as_data
  data_none : ∀ d, live_data S d →
    lruc_find pf.cache (data_physical_node_number d) = none →
    lruc_find pf1.cache (data_physical_node_number d) = none →
    (h1.file (data_physical_node_number d)).as_node
      = (h.file (data_physical_node_number d)).as_node
  data_out : ∀ d n, live_data S d →
    lruc_find pf.cache (data_physical_node_number d) = some n →
    lruc_find pf1.cache (data_physical_node_number d) = none →
    n.decrypted.as_data = (env.aes_gcm_decrypt (data_entry env pf h d).key
      (h1.file (data_physical_node_number d)).as_node (data_entry env pf h d).gmac).2.as_data
  data_in : ∀ d n1, live_data S d →
    lruc_find pf.cache (data_physical_node_number d) = none →
    lruc_find pf1.cache (data_physical_node_number d) = some n1 →
    n1.decrypted.as_data = (env.aes_gcm_decrypt (data_entry env pf h d).key
      (h.file (data_physical_node_number d)).as_node (data_entry env pf h d).gmac).2.as_data

/-- The logical offset at which the part of the file under a node starts: a data node covers
4096 bytes, and the data nodes attached to an MHT node start at `96 * 4096` times its number
(the nodes below its child MHT nodes come later). -/
def file_node_t.start (n : file_node_t) : Nat :=
  match n.type with
  | FILE_DATA_NODE_TYPE => MD_USER_DATA_SIZE + n.node_number * PF_NODE_SIZE
  | FILE_MHT_NODE_TYPE =>
    MD_USER_DATA_SIZE + n.node_number * ATTACHED_DATA_NODES_COUNT * PF_NODE_SIZE

/-- The entry for node `n` in the plaintext `x` of its parent. -/
def file_node_t.entry_in (n : file_node_t) (x : mht_node_t) : gcm_crypto_data_t :=
  match n.type with
  | FILE_DATA_NODE_TYPE => x.data_nodes_crypto (n.node_number % ATTACHED_DATA_NODES_COUNT)
  | FILE_MHT_NODE_TYPE => x.mht_nodes_crypto ((n.node_number - 1) % CHILD_MHT_NODES_COUNT)

/-- The part of a node buffer that belongs to the type of node `n`. -/
def file_node_t.payload (n : file_node_t) (b : Buf) : Buf :=
  match n.type with
  | FILE_DATA_NODE_TYPE => .data b.as_data
  | FILE_MHT_NODE_TYPE => .mht b.as_mht

/-- The number that the numbering gives the parent MHT node of node `n`. -/
def file_node_t.parent_number (n : file_node_t) : Nat :=
  match n.type with
  | FILE_DATA_NODE_TYPE => n.node_number / ATTACHED_DATA_NODES_COUNT
  | FILE_MHT_NODE_TYPE => (n.node_number - 1) / CHILD_MHT_NODES_COUNT

/-- The pointer that the numbering gives the parent of node `n`. -/
def file_node_t.parent_ptr (n : file_node_t) : NodePtr := mht_ptr n.parent_number

/-- The physical number that the numbering gives node `n`. -/
def file_node_t.numbered (n : file_node_t) : Nat :=
  match n.type with
  | FILE_DATA_NODE_TYPE => data_physical_node_number n.node_number
  | FILE_MHT_NODE_TYPE => mht_physical_node_number n.node_number

/-- The representation invariant of a context and its file: the plaintext size keeps the
numbering from wrapping; the cache holds each node once; every cached node carries the
physical number and the parent pointer that the numbering gives its logical number (a cached
MHT node is not the root), and starts at or below the plaintext size; the parent of every
cached node is at hand; a dirty node has a dirty parent and a dirty root MHT, and a dirty root
MHT comes with a context that needs writing and a file beyond the inline region; a clean node
that is new starts at the plaintext size; and the block on disk of a clean node that is not new
authenticates and decrypts, under the entry its parent holds, to the plaintext in the
cache. -/
structure Good (env : Env) (pf : pf_context_t) (h : Host) : Prop where
  size_le : pf.encrypted_part_plain.size ≤ NO_WRAP
  keys : (pf.cache.map (fun n => n.physical_node_number)).Nodup
  root_number : pf.root_mht.node_number = 0
  root_type : pf.root_mht.type = FILE_MHT_NODE_TYPE
  shape : ∀ k n, lruc_find pf.cache k = some n →
    n.physical_node_number = n.numbered ∧ n.parent = n.parent_ptr ∧
    (n.type = FILE_MHT_NODE_TYPE → n.node_number ≠ 0) ∧
    n.start ≤ pf.encrypted_part_plain.size
  pinned : ∀ k n, lruc_find pf.cache k = some n → pf.resident n.parent = true
  dirty_up : ∀ k n, lruc_find pf.cache k = some n → n.need_writing = true →
    (pf.deref n.parent).need_writing = true ∧ pf.root_mht.need_writing = true
  root_dirty : pf.root_mht.need_writing = true →
    pf.need_writing = true ∧ MD_USER_DATA_SIZE < pf.encrypted_part_plain.size
  pending : ∀ k n, lruc_find pf.cache k = some n → n.need_writing = false →
    n.new_node = true → n.start = pf.encrypted_part_plain.size
  clean : ∀ k n, lruc_find pf.cache k = some n → n.need_writing = false →
    n.new_node = false →
    (env.aes_gcm_decrypt (n.entry_in (pf.deref n.parent).decrypted.as_mht).key
      (h.file n.physical_node_number).as_node
      (n.entry_in (pf.deref n.parent).decrypted.as_mht).gmac).1 = SUCCESS ∧
    n.payload (env.aes_gcm_decrypt (n.entry_in (pf.deref n.parent).decrypted.as_mht).key
      (h.file n.physical_node_number).as_node
      (n.entry_in (pf.deref n.parent).decrypted.as_mht).gmac).2 = n.payload n.decrypted

/-- Every cached node starts below the plaintext size: no node waits for its first write. -/
def Settled (pf : pf_context_t) : Prop :=
  ∀ k n, lruc_find pf.cache k = some n → n.start < pf.encrypted_part_plain.size

/-- No cached node outside `T` is the parent of a more recently used cached node. -/
def OrdExcept (T : file_node_t → Prop) (cache : List file_node_t) : Prop :=
  cache.Pairwise (fun a b => a.parent = .cached b.physical_node_number → T a)

/-- The state `(pf1, h1)` holds the same plaintext as `(pf, h)`: the same size, and the same
byte at every logical offset below it. -/
def SameBytes (env : Env) (pf : pf_context_t) (h : Host) (pf1 : pf_context_t) (h1 : Host) :
    Prop :=
  pf1.encrypted_part_plain.size = pf.encrypted_part_plain.size ∧
  ∀ x, x < pf.encrypted_part_plain.size →
    plaintext_byte env pf1 h1 x = plaintext_byte env pf h x

/-- The MHT node `j` levels above MHT node `m`. -/
def mht_up : Nat → Nat → Nat
  | 0, m => m
  | j + 1, m => (mht_up j m - 1) / CHILD_MHT_NODES_COUNT

/-- The parent of node `a` is an MHT node below the root on the way from MHT node `m` up to
the root. -/
def ParentOnPath (m : Nat) (a : file_node_t) : Prop :=
  ∃ j, mht_up j m ≠ 0 ∧ a.parent = .cached (mht_physical_node_number (mht_up j m))

/-- The order of the cache: no cached node is the parent of a more recently used one, so that
the least recently used node is never the parent of another cached node. -/
def Ordered (cache : List file_node_t) : Prop := OrdExcept (fun _ => False) cache

/-- MHT node `m` is safe: it is in the cache, or its block on disk authenticates under the
entry that the plaintext of its parent holds for it. -/
def SafeMht (env : Env) (pf : pf_context_t) (h : Host) (m : Nat) : Prop :=
  lruc_find pf.cache (mht_physical_node_number m) = none →
    (env.aes_gcm_decrypt (mht_entry env pf h m).key
      (h.file (mht_physical_node_number m)).as_node (mht_entry env pf h m).gmac).1 = SUCCESS

/-- Data node `d` is safe: it is in the cache, or its block on disk authenticates under the
entry that the plaintext of its MHT node holds for it. -/
def SafeData (env : Env) (pf : pf_context_t) (h : Host) (d : Nat) : Prop :=
  lruc_find pf.cache (data_physical_node_number d) = none →
    (env.aes_gcm_decrypt (data_entry env pf h d).key
      (h.file (data_physical_node_number d)).as_node (data_entry env pf h d).gmac).1 = SUCCESS

/-- What a successful node fetch leaves: the invariant, the same plaintext, the order of the
cache up to the exceptions `T1`, the same blocks on disk and the same context but for the
cache, where every node cached before is still cached and every other cached node is one of
the nodes `N`, clean, and either new or with the block of the disk as its ciphertext; and
every safe node of the file is still safe. -/
structure Fetch (env : Env) (pf : pf_context_t) (h : Host) (pf1 : pf_context_t) (h1 : Host)
    (T1 N : file_node_t → Prop) : Prop where
  good : Good env pf1 h1
  same : SameBytes env pf h pf1 h1
  ord : OrdExcept T1 pf1.cache
  rest : ∃ c, pf1 = { pf with cache := c }
  file : h1.file = h.file
  old : ∀ k n, lruc_find pf.cache k = some n → lruc_find pf1.cache k = some n
  new : ∀ k n, lruc_find pf1.cache k = some n → lruc_find pf.cache k = some n ∨ N n
  fresh : ∀ k n, lruc_find pf1.cache k = some n → lruc_find pf.cache k = none →
    n.need_writing = false
  image : ∀ k n, lruc_find pf1.cache k = some n → lruc_find pf.cache k = none →
    n.new_node = true ∨ n.encrypted = (h.file k).as_node
  safe_mht : ∀ m, m ≠ 0 → live_mht pf.encrypted_part_plain.size m → SafeMht env pf h m →
    SafeMht env pf1 h1 m
  safe_data : ∀ d, live_data pf.encrypted_part_plain.size d → SafeData env pf h d →
    SafeData env pf1 h1 d

/-- An MHT node that the fetch of MHT node `m` may add to the cache of a file of plaintext size
`S`: numbered at most `m`, and starting below `S` unless it is node `m` itself. -/
def FetchedMht (S m : Nat) (n : file_node_t) : Prop :=
  n.type = FILE_MHT_NODE_TYPE ∧ n.node_number ≤ m ∧ (n.start < S ∨ n.node_number = m)

/-- A node that the fetch of data node `d` may add to the cache of a file of plaintext size
`S`: an MHT node on the way to it, or the data node itself. -/
def FetchedNode (S d : Nat) (n : file_node_t) : Prop :=
  FetchedMht S (d / ATTACHED_DATA_NODES_COUNT) n ∨
  (n.type = FILE_DATA_NODE_TYPE ∧ n.node_number = d)

/-- The node under key `k` is among the `j` most recently used nodes of the cache. -/
def InFront (c : List file_node_t) (k j : Nat) : Prop :=
  k ∈ (c.map (fun n => n.physical_node_number)).take j

/-- The host state `h1` holds the same blocks of the protected file as `h`. -/
def SameFile (h h1 : Host) : Prop := h1.file = h.file

/-- In state `pf0` a dirty cached data node has its parent at `q` and its entry there at index
`i`. -/
def DirtyDataChild (pf0 : pf_context_t) (q : NodePtr) (i : Nat) : Prop :=
  ∃ r, r ≠ .root ∧ pf0.resident r = true ∧ (pf0.deref r).need_writing = true ∧
    (pf0.deref r).type = FILE_DATA_NODE_TYPE ∧ (pf0.deref r).parent = q ∧
    (pf0.deref r).node_number % ATTACHED_DATA_NODES_COUNT = i

/-- In state `pf0` a dirty cached MHT node has its parent at `q` and its entry there at index
`i`. -/
def DirtyMhtChild (pf0 : pf_context_t) (q : NodePtr) (i : Nat) : Prop :=
  ∃ r, r ≠ .root ∧ pf0.resident r = true ∧ (pf0.deref r).need_writing = true ∧
    (pf0.deref r).type = FILE_MHT_NODE_TYPE ∧ (pf0.deref r).parent = q ∧
    ((pf0.deref r).node_number - 1) % CHILD_MHT_NODES_COUNT = i

/-- Between the states `pf` and `pf1` of a re-encryption started in `pf0`, every data node has
kept its plaintext and every MHT node the entry of every child that was not a dirty cached node
of `pf0`. -/
def EntriesKept (pf0 pf pf1 : pf_context_t) : Prop :=
  ∀ q,
    ((pf.deref q).type = FILE_DATA_NODE_TYPE →
      (pf1.deref q).decrypted = (pf.deref q).decrypted) ∧
    (∀ i, (pf1.deref q).decrypted.as_mht.data_nodes_crypto i
        = (pf.deref q).decrypted.as_mht.data_nodes_crypto i ∨ DirtyDataChild pf0 q i) ∧
    (∀ i, (pf1.deref q).decrypted.as_mht.mht_nodes_crypto i
        = (pf.deref q).decrypted.as_mht.mht_nodes_crypto i ∨ DirtyMhtChild pf0 q i)

/-- What a successful flush leaves, in terms of the state `pfT` after the re-encryption (the
state before the flush when the tree is not written): `pfT` has the shape and the flags of the
state before, keeps the plaintexts but for the entries of dirty cached nodes, and seals every
dirty cached node and leaves the ciphertext of every clean node; the state after the flush is
`pfT` with every node written; the disk holds, beyond block 0, the ciphertext of every node
that was dirty, the root MHT in block 1, every other block being as before; block 0 holds the
metadata node of the state after the flush when there was something to write, and is as
before, as the metadata node in memory is, when there was not; and the `update_flag` in memory
stays clear. -/
structure Flushed (env : Env) (pf : pf_context_t) (h : Host) (pfT pf1 : pf_context_t)
    (h1 : Host) : Prop where
  shape : SameShape pfT pf
  flags : pfT.cache_flags = pf.cache_flags
  kept : EntriesKept pf pf pfT
  seals : ∀ q, q ≠ .root → pf.resident q = true → (pf.deref q).need_writing = true →
    ((pf.deref q).type = FILE_DATA_NODE_TYPE → DataSealed env pfT q) ∧
    ((pf.deref q).type = FILE_MHT_NODE_TYPE → MhtSealed env pfT q)
  nodes : ∀ q, pf1.deref q = written (pfT.deref q) ∧ pf1.resident q = pfT.resident q
  keys : pf1.cache.map (fun n => n.physical_node_number)
    = pf.cache.map (fun n => n.physical_node_number)
  disk : ∀ k, k ≠ 0 → k ≠ 1 →
    h1.file k = if pf.resident (.cached k) = true ∧ (pf.deref (.cached k)).need_writing = true
      then .node (pfT.deref (.cached k)).encrypted else h.file k
  done : pf1.need_writing = false
  enc : ∀ q, (pf.deref q).need_writing = false →
    (pfT.deref q).encrypted = (pf.deref q).encrypted
  block1 : h1.file 1 = if pf.root_mht.need_writing = true then .node pfT.root_mht.encrypted
    else h.file 1
  block0 : pf.need_writing = true → h1.file 0 = .meta pf1.file_meta_data
  idle : pf.need_writing = false → pf1.file_meta_data = pf.file_meta_data ∧ h1.file 0 = h.file 0
  flag : pf.file_meta_data.plain_part.update_flag = 0 →
    pf1.file_meta_data.plain_part.update_flag = 0
  root_new : pf.root_mht.need_writing = false → pfT.root_mht.new_node = pf.root_mht.new_node

/-- Decryption inverts encryption: what the AEAD callback encrypts without failure, under a
key and with no additional data, it decrypts with success to the same plaintext under that key
and the tag it gave. -/
def AeadInverse (env : Env) : Prop :=
  ∀ (key : pf_key_t) (plain : Buf),
    PF_FAILURE (env.aes_gcm_encrypt key none (some plain)).1 = false →
    env.aes_gcm_decrypt key (env.aes_gcm_encrypt key none (some plain)).2.1
      (env.aes_gcm_encrypt key none (some plain)).2.2 = (SUCCESS, plain)

/-- Every node of the context that is not new holds in `encrypted` the block that the disk
holds under its physical number: every cached node, and the root MHT, whose physical number is
1; the `update_flag` of the metadata in memory is clear; and every block of the disk but
block 0 is a node block. -/
structure Imaged (pf : pf_context_t) (h : Host) : Prop where
  nodes : ∀ k n, lruc_find pf.cache k = some n → n.new_node = false →
    h.file k = .node n.encrypted
  root_key : pf.root_mht.physical_node_number = 1
  root : pf.root_mht.new_node = false → h.file 1 = .node pf.root_mht.encrypted
  flag : pf.file_meta_data.plain_part.update_flag = 0
  typed : ∀ k, k ≠ 0 → h.file k = .node (h.file k).as_node

/-- The context mirrors the disk: every node that is not new holds the block of the disk, and
block 0 is the metadata node of the context. -/
structure Mirror (pf : pf_context_t) (h : Host) : Prop where
  imaged : Imaged pf h
  header : h.file 0 = .meta pf.file_meta_data

/-- The header fields of the metadata node that identify the format of the file: `file_id` and
`major_version`. -/
def pf_context_t.format (pf : pf_context_t) : Nat × Nat :=
  (pf.file_meta_data.plain_part.file_id, pf.file_meta_data.plain_part.major_version)

/-- What a successful eviction leaves of a state in which the nodes under the keys `Keep` are
among the most recently used ones, within the capacity of the cache: the invariant, the order
of the cache and the plaintext, the kept nodes still among the most recently used ones, no new
node that starts at the end of the file, no node dirty that was clean, the nodes in step with
the disk when they were, every safe node of the file still safe, the `update_flag` in memory
clear when it was, and the format fields of the metadata node. -/
structure Evicted (env : Env) (Keep : Nat → Prop) (pf : pf_context_t) (h : Host)
    (pf1 : pf_context_t) (h1 : Host) : Prop where
  good : Good env pf1 h1
  ord : Ordered pf1.cache
  same : SameBytes env pf h pf1 h1
  stable : pf1.stable = pf.stable
  front : ∀ k, Keep k → InFront pf1.cache k env.MAX_PAGES_IN_CACHE
  settled : ∀ k n, lruc_find pf1.cache k = some n →
    n.start < pf1.encrypted_part_plain.size ∨ Keep k
  flags : ∀ k n1, lruc_find pf1.cache k = some n1 →
    ∃ n, lruc_find pf.cache k = some n ∧ (n1.need_writing = true → n.need_writing = true)
  imaged : Imaged pf h → Imaged pf1 h1
  mirror : Mirror pf h → Mirror pf1 h1
  safe_mht : ∀ m, m ≠ 0 → live_mht pf.encrypted_part_plain.size m → SafeMht env pf h m →
    SafeMht env pf1 h1 m
  safe_data : ∀ d, live_data pf.encrypted_part_plain.size d → SafeData env pf h d →
    SafeData env pf1 h1 d
  flag : pf.file_meta_data.plain_part.update_flag = 0 →
    pf1.file_meta_data.plain_part.update_flag = 0
  format : pf1.format = pf.format

/-- What a successful `ipf_get_data_node` for data node `d` leaves: the invariant, the order of
the cache, the plaintext and the stable part of the context; the data node in the cache; no
node that starts at the end of the file but the data node and its MHT node; the nodes in step
with the disk when they were; every safe node of the file still safe; the `update_flag` in
memory clear when it was; and the format fields of the metadata node. -/
structure Got (env : Env) (pf : pf_context_t) (h : Host) (d : Nat) (pf1 : pf_context_t)
    (h1 : Host) : Prop where
  good : Good env pf1 h1
  ord : Ordered pf1.cache
  same : SameBytes env pf h pf1 h1
  stable : pf1.stable = pf.stable
  node : ∃ n, lruc_find pf1.cache (data_physical_node_number d) = some n
  settled : ∀ k n, lruc_find pf1.cache k = some n →
    n.start < pf1.encrypted_part_plain.size ∨ k = data_physical_node_number d ∨
      k = mht_physical_node_number (d / ATTACHED_DATA_NODES_COUNT)
  fresh : lruc_find pf.cache (data_physical_node_number d) = none →
    ∀ n, lruc_find pf1.cache (data_physical_node_number d) = some n → n.need_writing = false
  imaged : Imaged pf h → Imaged pf1 h1
  mirror : Mirror pf h → Mirror pf1 h1
  safe_mht : ∀ m, m ≠ 0 → live_mht pf.encrypted_part_plain.size m → SafeMht env pf h m →
    SafeMht env pf1 h1 m
  safe_data : ∀ d, live_data pf.encrypted_part_plain.size d → SafeData env pf h d →
    SafeData env pf1 h1 d
  flag : pf.file_meta_data.plain_part.update_flag = 0 →
    pf1.file_meta_data.plain_part.update_flag = 0
  format : pf1.format = pf.format

/-- The representation invariant of a context between two operations: the invariant of the
cached tree, the order of the cache, and no cached node waiting for its first write. -/
structure WellFormed (env : Env) (pf : pf_context_t) (h : Host) : Prop where
  good : Good env pf h
  ord : Ordered pf.cache
  settled : Settled pf

/-- Whether every `ipf_get_data_node` that the data-node loop of `ipf_read` makes returns a
node (`read_data_nodes` with the copying left out). -/
def read_fetches (env : Env) : Nat → pf_context_t → Host → Nat → Bool
  | fuel, pf, h, data_left_to_read =>
    if data_left_to_read > 0 then
      match fuel with
      | 0 => true
      | fuel1 + 1 =>
        match ipf_get_data_node env pf h with
        | (none, _, _) => false
        | (some _, pf1, h1) =>
          let offset_in_node := (pf1.offset - MD_USER_DATA_SIZE) % PF_NODE_SIZE
          let data_left_in_node := PF_NODE_SIZE - offset_in_node
          let size_to_read := min data_left_to_read data_left_in_node
          read_fetches env fuel1 { pf1 with offset := pf1.offset + size_to_read } h1
            (data_left_to_read - size_to_read)
    else true

/-- Whether every node fetch that `ipf_read` of `size` bytes makes returns a node: the
data-node loop is entered as in `ipf_read`, after the inline region. -/
def ipf_read_fetches (env : Env) (pf : pf_context_t) (h : Host) (size : Nat) : Bool :=
  let data_left_to_read :=
    if size > u64_sub pf.encrypted_part_plain.size pf.offset then
      u64_sub pf.encrypted_part_plain.size pf.offset
    else size
  let md_step : Nat × pf_context_t :=
    if pf.offset < MD_USER_DATA_SIZE then
      let data_left_in_md := MD_USER_DATA_SIZE - pf.offset
      let size_to_read := min data_left_to_read data_left_in_md
      (data_left_to_read - size_to_read, { pf with offset := pf.offset + size_to_read })
    else (data_left_to_read, pf)
  read_fetches env md_step.1 md_step.2 h md_step.1

/-- The one-node file opened again under its path `a`, readable and writable. -/
def example_one_node_reopened : pf_context_t × Host :=
  match pf_open example_env example_one_node_closed (some .source) (some ['a'])
      example_one_node_closed.file_size (PF_FILE_MODE_READ + PF_FILE_MODE_WRITE) false false
      (some 7) with
  | (_, some pf, h) => (pf, h)
  | (_, none, h) => (ipf_init_fields, h)

/-- The tree shape of the cache, the flags and the buffers of the nodes apart: every cached
node carries the physical number and the parent pointer that the numbering gives its logical
number, a cached MHT node is not the root, and the parent of every cached node is at hand. -/
structure Tree (pf : pf_context_t) : Prop where
  root_number : pf.root_mht.node_number = 0
  shape : ∀ k n, lruc_find pf.cache k = some n →
    n.physical_node_number = n.numbered ∧ n.parent = n.parent_ptr ∧
    (n.type = FILE_MHT_NODE_TYPE → n.node_number ≠ 0) ∧ n.node_number < 2 ^ 50
  pinned : ∀ k n, lruc_find pf.cache k = some n → pf.resident n.parent = true

/-- The key `k` is the physical number of an MHT node below the root on the way from MHT node
`m` up to the root. -/
def OnPath (m k : Nat) : Prop :=
  ∃ j, mht_up j m ≠ 0 ∧ k = mht_physical_node_number (mht_up j m)

/-- The first step of `write_to_data_node`: the copy into the data node. -/
def write_copy_step (ptr : Option (Nat → Byte)) (pf1 : pf_context_t) (file_data_node : NodePtr)
    (written data_left_to_write : Nat) : pf_context_t :=
  pf1.modify file_data_node (fun n =>
    { n with decrypted := Buf.data ( memcpy_or_zero_initialize n.decrypted.as_data
        ((pf1.offset - MD_USER_DATA_SIZE) % PF_NODE_SIZE) ptr written
        (min data_left_to_write
          (PF_NODE_SIZE - (pf1.offset - MD_USER_DATA_SIZE) % PF_NODE_SIZE))) })

/-- The second step of `write_to_data_node`: advance the offset and grow the size. -/
def write_grow_step (pf2 : pf_context_t) (size_to_write : Nat) : pf_context_t :=
  let pf3 := { pf2 with offset := pf2.offset + size_to_write }
  if pf3.offset > pf3.encrypted_part_plain.size then
    { pf3 with encrypted_part_plain :=
        { pf3.encrypted_part_plain with size := pf3.offset } }
  else pf3

/-- The last step of `write_to_data_node`: mark the node, its ancestors, the root MHT and the
context as needing writing, unless the node is marked already. -/
def write_mark_step (pf4 : pf_context_t) (file_data_node : NodePtr) : pf_context_t :=
  if !(pf4.deref file_data_node).need_writing then
    let pf6 := pf4.modify file_data_node (fun n => { n with need_writing := true })
    let parent := (pf6.deref file_data_node).parent
    let pf7 := mark_parents (pf6.deref parent).node_number pf6 parent
    { pf7 with
        root_mht := { pf7.root_mht with need_writing := true },
        need_writing := true }
  else pf4

/-- What `write_to_data_node` leaves of the context `pf1` when it has written `stw` bytes into
data node `d`, the data `x` of the node becoming `f x`: the cache holds the same nodes in the
same order, the data node with its new data, and it, the MHT nodes on the way from its parent to
the root, the root MHT and the context are marked as needing writing; the offset has advanced
and the size has grown to it; nothing else has changed. -/
structure Stored (pf1 : pf_context_t) (d : Nat) (f : (Nat → Byte) → (Nat → Byte)) (stw : Nat)
    (pf5 : pf_context_t) : Prop where
  frame : pf5 =
    { pf1 with cache := pf5.cache, root_mht := { pf1.root_mht with need_writing := true },
               need_writing := true, offset := pf1.offset + stw,
               encrypted_part_plain :=
                 { pf1.encrypted_part_plain with
                     size := max pf1.encrypted_part_plain.size (pf1.offset + stw) } }
  keys : pf5.cache.map (fun n => n.physical_node_number)
    = pf1.cache.map (fun n => n.physical_node_number)
  node : ∀ n, lruc_find pf1.cache (data_physical_node_number d) = some n →
    lruc_find pf5.cache (data_physical_node_number d)
      = some { n with decrypted := Buf.data (f n.decrypted.as_data), need_writing := true }
  other : ∀ k n, k ≠ data_physical_node_number d → lruc_find pf1.cache k = some n →
    (OnPath (d / ATTACHED_DATA_NODES_COUNT) k →
      lruc_find pf5.cache k = some { n with need_writing := true }) ∧
    (¬ OnPath (d / ATTACHED_DATA_NODES_COUNT) k → lruc_find pf5.cache k = some n)

/-- Byte `i` of the input of a write: of the buffer, or zero when the buffer is `NULL`. -/
def input_byte (ptr : Option (Nat → Byte)) (i : Nat) : Byte :=
  match ptr with
  | some s => s i
  | none => 0

/-- Whether every `ipf_get_data_node` that the data-node loop of `ipf_write` makes returns a
node (`write_data_nodes` with the result left out). -/
def write_fetches (env : Env) (ptr : Option (Nat → Byte)) :
    Nat → pf_context_t → Host → Nat → Nat → Bool
  | fuel, pf, h, written, data_left_to_write =>
    if data_left_to_write > 0 then
      match fuel with
      | 0 => true
      | fuel1 + 1 =>
        match ipf_get_data_node env pf h with
        | (none, _, _) => false
        | (some file_data_node, pf1, h1) =>
          match write_to_data_node ptr pf1 file_data_node written data_left_to_write with
          | (pf5, size_to_write) =>
            write_fetches env ptr fuel1 pf5 h1 (written + size_to_write)
              (data_left_to_write - size_to_write)
    else true

/-- Whether every node fetch of `ipf_write` returns a node: `ipf_write` past its guards, with
the data-node loop replaced by `write_fetches`. -/
def ipf_write_fetches (env : Env) (pf : pf_context_t) (h : Host) (ptr : Option (Nat → Byte))
    (size : Nat) : Bool :=
  let md_step : Nat × pf_context_t :=
    if pf.offset < MD_USER_DATA_SIZE then write_to_md ptr pf size
    else (size, pf)
  write_fetches env ptr md_step.1 md_step.2 h (size - md_step.1) md_step.1

/-- The fields of a context that are set when the file is opened and that no read or write
changes. -/
def pf_context_t.settings (pf : pf_context_t) :
    pf_file_mode_t × Path × pf_key_t × Option pf_handle_t × Nat × Path :=
  (pf.mode, pf.recovery_path, pf.user_kdk_key, pf.file, pf.real_file_size,
    pf.encrypted_part_plain.clean_filename)

/-- Every callback succeeds but the decryption, whose outcome depends on the block it is given:
the I/O callbacks, the allocations, the random source and the encryption (which also derives
the keys). -/
structure CallbacksSucceed (env : Env) : Prop where
  io : ∀ t, env.io_status t = SUCCESS
  alloc : ∀ a, env.alloc_ok a = true
  random : ∀ t, (env.random t).1 = SUCCESS
  encrypt : ∀ k a p, (env.aes_gcm_encrypt k a p).1 = SUCCESS

/-- Data node `d` and the MHT nodes below the root on the way from its MHT node up to the
root are safe. -/
def SafeAt (env : Env) (pf : pf_context_t) (h : Host) (d : Nat) : Prop :=
  SafeData env pf h d ∧
  ∀ j, mht_up j (d / ATTACHED_DATA_NODES_COUNT) ≠ 0 →
    SafeMht env pf h (mht_up j (d / ATTACHED_DATA_NODES_COUNT))

/-- Data node `d` is safe as far as it is part of the file: the data node when it starts below
the plaintext size, and every MHT node above it below the root that does. -/
def LiveSafeAt (env : Env) (pf : pf_context_t) (h : Host) (d : Nat) : Prop :=
  (live_data pf.encrypted_part_plain.size d → SafeData env pf h d) ∧
  ∀ j, mht_up j (d / ATTACHED_DATA_NODES_COUNT) ≠ 0 →
    live_mht pf.encrypted_part_plain.size (mht_up j (d / ATTACHED_DATA_NODES_COUNT)) →
    SafeMht env pf h (mht_up j (d / ATTACHED_DATA_NODES_COUNT))

/-- The example environment with a cache of 10 nodes. -/
def example_env_small : Env := { example_env with MAX_PAGES_IN_CACHE := 10 }

/-- Every data node of the file is safe, with the MHT nodes above it: each is in the cache, or
its block on disk authenticates under the entry that its parent holds. -/
def AllSafe (env : Env) (pf : pf_context_t) (h : Host) : Prop :=
  ∀ d, live_data pf.encrypted_part_plain.size d → SafeAt env pf h d

/-- The state of a file between two writes of a session that started with the creation of the
file: the representation invariant, the status `SUCCESS`, every node of the file safe, the
context marked as needing writing, the root MHT marked as needing writing when the file
reaches beyond the inline region, and the `update_flag` in memory clear. -/
structure Session (env : Env) (pf : pf_context_t) (h : Host) : Prop where
  wf : WellFormed env pf h
  status : pf.file_status = SUCCESS
  safe : AllSafe env pf h
  dirty : pf.need_writing = true
  root_dirty : MD_USER_DATA_SIZE < pf.encrypted_part_plain.size →
    pf.root_mht.need_writing = true
  flag : pf.file_meta_data.plain_part.update_flag = 0

/-- A caller that writes chunks of bytes one after the other, each with a `pf_write` at the
offset at which the chunk before it ended: the statuses that the calls return, and the context
and the host after the last call. -/
def write_chunks (env : Env) :
    pf_context_t → Host → Nat → List (List Byte) → List pf_status_t × pf_context_t × Host
  | pf, h, _, [] => ([], pf, h)
  | pf, h, offset, c :: cs =>
    match pf_write env pf h offset c.length (some (fun i => c.getD i 0)) with
    | (status, pf1, h1) =>
      match write_chunks env pf1 h1 (offset + c.length) cs with
      | (statuses, pf2, h2) => (status :: statuses, pf2, h2)

/-- The context with which `ipf_open` turns to the file, after the session key has been drawn
into `pf1`: the user key, the handle, the size and the mode are recorded, and the recovery
path when recovery is enabled. -/
def ipf_open_fields (env : Env) (pf1 : pf_context_t) (p : Path) (mode : pf_file_mode_t)
    (handle : pf_handle_t) (real_size : Nat) (kdk : pf_key_t) (enable_recovery : Bool) :
    pf_context_t :=
  if enable_recovery then
    { pf1 with user_kdk_key := kdk, file := some handle, real_file_size := real_size,
               mode := mode,
               recovery_path := p.take (env.RECOVERY_PATH_MAX_SIZE - 1) ++ "_recovery".toList }
  else
    { pf1 with user_kdk_key := kdk, file := some handle, real_file_size := real_size,
               mode := mode }

/-- The input of the key derivation that gives the metadata key for the nonce `nonce`. -/
def metadata_kdf_input (nonce : pf_keyid_t) : kdf_input_t :=
  { index := 1, label := METADATA_KEY_NAME, node_number := 0, nonce := nonce,
    output_len := 0x80 }

/-- The metadata node of the context is sealed: its encrypted part and its tag are what the
encryption of the plaintext of the encrypted part gives under the key derived from the user
key and the key id that the plain part records. -/
def MetaSealed (env : Env) (pf : pf_context_t) : Prop :=
  (env.aes_gcm_encrypt
    (env.aes_gcm_encrypt pf.user_kdk_key
      (some (metadata_kdf_input pf.file_meta_data.plain_part.meta_data_key_id)) none).2.2
    none (some (.md pf.encrypted_part_plain))).2.1 = pf.file_meta_data.encrypted_part ∧
  (env.aes_gcm_encrypt
    (env.aes_gcm_encrypt pf.user_kdk_key
      (some (metadata_kdf_input pf.file_meta_data.plain_part.meta_data_key_id)) none).2.2
    none (some (.md pf.encrypted_part_plain))).2.2
    = pf.file_meta_data.plain_part.meta_data_gmac

/-- The root MHT of the context is sealed: its ciphertext and the tag in the metadata are what
the encryption of its plaintext gives under the key in the metadata. -/
def RootSealed (env : Env) (pf : pf_context_t) : Prop :=
  (env.aes_gcm_encrypt pf.encrypted_part_plain.mht_key none
    (some (.mht pf.root_mht.decrypted.as_mht))).2.1 = pf.root_mht.encrypted ∧
  (env.aes_gcm_encrypt pf.encrypted_part_plain.mht_key none
    (some (.mht pf.root_mht.decrypted.as_mht))).2.2 = pf.encrypted_part_plain.mht_gmac

/-- The size of the protected file on the host is a whole number of nodes. -/
def Whole (h : Host) : Prop := h.file_size % PF_NODE_SIZE = 0

/-- A step from host `h` to host `h1` keeps the size of the protected file a whole number of
nodes. -/
structure KeepsWhole (h h1 : Host) : Prop where
  keep : Whole h → Whole h1

/-- Two chunks of bytes, 3000 bytes `A` and 200 bytes `B`: together they fill the inline region
and reach into data node 0. -/
def example_chunks : List (List Byte) := [List.replicate 3000 65, List.replicate 200 66]

/-- The host after the new file of the examples has been written with the two chunks, one
after the other from offset 0 on, and closed. -/
def example_chunks_closed : Host :=
  (pf_close example_env
    (write_chunks example_env example_created.1 example_created.2 0 example_chunks).2.1
    (write_chunks example_env example_created.1 example_created.2 0 example_chunks).2.2).2

/-! ## Theorems: tree navigator -/

/-- C3: for every offset at or above `MD_USER_DATA_SIZE` that fits in 64 bits,
`get_node_numbers` returns `d = (offset - MD_USER_DATA_SIZE) / 4096`,
`m = d / 96`, physical data number `d + 2 + m` and physical MHT number
`d + 2 + m - d % 96 - 1`, with no wrap-around. -/
theorem get_node_numbers_spec (offset : Nat) (hlo : MD_USER_DATA_SIZE ≤ offset)
    (hhi : offset < U64) :
    (get_node_numbers offset).data_node_number = (offset - MD_USER_DATA_SIZE) / 4096 ∧
    (get_node_numbers offset).mht_node_number = (offset - MD_USER_DATA_SIZE) / 4096 / 96 ∧
    (get_node_numbers offset).physical_data_node_number =
      (offset - MD_USER_DATA_SIZE) / 4096 + 2 + (offset - MD_USER_DATA_SIZE) / 4096 / 96 ∧
    (get_node_numbers offset).physical_mht_node_number =
      (offset - MD_USER_DATA_SIZE) / 4096 + 2 + (offset - MD_USER_DATA_SIZE) / 4096 / 96
        - (offset - MD_USER_DATA_SIZE) / 4096 % 96 - 1 := by
  simp only [get_node_numbers, U64, MD_USER_DATA_SIZE, PF_NODE_SIZE,
    ATTACHED_DATA_NODES_COUNT] at *
  norm_num at *
  omega

/-- The navigator at offset `MD_USER_DATA_SIZE + 100 * 4096 + 5`: data node
100 under MHT node 1, blocks 103 and 98. -/
theorem get_node_numbers_spec_witness :
    (get_node_numbers 412677).data_node_number = (412677 - MD_USER_DATA_SIZE) / 4096 ∧
    (get_node_numbers 412677).mht_node_number = (412677 - MD_USER_DATA_SIZE) / 4096 / 96 ∧
    (get_node_numbers 412677).physical_data_node_number =
      (412677 - MD_USER_DATA_SIZE) / 4096 + 2 + (412677 - MD_USER_DATA_SIZE) / 4096 / 96 ∧
    (get_node_numbers 412677).physical_mht_node_number =
      (412677 - MD_USER_DATA_SIZE) / 4096 + 2 + (412677 - MD_USER_DATA_SIZE) / 4096 / 96
        - (412677 - MD_USER_DATA_SIZE) / 4096 % 96 - 1 :=
  get_node_numbers_spec 412677 (by decide) (by decide)

/-- C4: the block layout in closed form.  For every MHT index `m`, every
`j < 96` and every byte `i < 4096` of data node `96 * m + j` (offsets that fit
in 64 bits), `get_node_numbers` gives MHT index `m`, data index `96 * m + j`,
physical MHT number `1 + 97 * m` (the number `ipf_read_mht_node` and
`ipf_append_mht_node` compute as `1 + m * (1 + 96)`), and physical data number
`97 * m + 2 + j`: the data nodes of MHT `m` fill blocks `97 m + 2 .. 97 m + 97`
in order. -/
theorem block_layout_closed_form (m j i : Nat) (hj : j < 96) (hi : i < 4096)
    (hfit : MD_USER_DATA_SIZE + (96 * m + j) * 4096 + i < U64) :
    (get_node_numbers (MD_USER_DATA_SIZE + (96 * m + j) * 4096 + i)).mht_node_number = m ∧
    (get_node_numbers (MD_USER_DATA_SIZE + (96 * m + j) * 4096 + i)).data_node_number
      = 96 * m + j ∧
    (get_node_numbers (MD_USER_DATA_SIZE + (96 * m + j) * 4096 + i)).physical_mht_node_number
      = 1 + 97 * m ∧
    mht_physical_node_number m = 1 + 97 * m ∧
    (get_node_numbers (MD_USER_DATA_SIZE + (96 * m + j) * 4096 + i)).physical_data_node_number
      = 97 * m + 2 + j := by
  simp only [get_node_numbers, mht_physical_node_number, U64, MD_USER_DATA_SIZE, PF_NODE_SIZE,
    ATTACHED_DATA_NODES_COUNT] at *
  norm_num at *
  omega

/-- The layout at MHT 1, data node 96 + 95: MHT block 98, data block 194. -/
theorem block_layout_closed_form_witness :
    (get_node_numbers (MD_USER_DATA_SIZE + (96 * 1 + 95) * 4096 + 0)).mht_node_number = 1 ∧
    (get_node_numbers (MD_USER_DATA_SIZE + (96 * 1 + 95) * 4096 + 0)).data_node_number
      = 96 * 1 + 95 ∧
    (get_node_numbers (MD_USER_DATA_SIZE + (96 * 1 + 95) * 4096 + 0)).physical_mht_node_number
      = 1 + 97 * 1 ∧
    mht_physical_node_number 1 = 1 + 97 * 1 ∧
    (get_node_numbers (MD_USER_DATA_SIZE + (96 * 1 + 95) * 4096 + 0)).physical_data_node_number
      = 97 * 1 + 2 + 95 :=
  block_layout_closed_form 1 95 0 (by decide) (by decide) (by decide)

/-! ## Frame lemmas: the stable part of the context -/

theorem modify_stable (pf : pf_context_t) (p : NodePtr) (f : file_node_t → file_node_t) :
    (pf.modify p f).stable = pf.stable := by
  cases p <;> rfl

theorem ipf_read_node_stable (env : Env) (pf : pf_context_t) (h : Host) (n : Nat) :
    (ipf_read_node env pf h n).2.1.stable = pf.stable := by
  unfold ipf_read_node
  repeat' (first | split | dsimp only)
  all_goals rfl

theorem ipf_write_file_stable (env : Env) (pf : pf_context_t) (h : Host) (o : Nat) (b : Block)
    (n : Nat) : (ipf_write_file env pf h o b n).2.1.stable = pf.stable := by
  unfold ipf_write_file
  repeat' (first | split | dsimp only)
  all_goals rfl

theorem ipf_write_node_stable (env : Env) (pf : pf_context_t) (h : Host) (n : Nat) (b : Block) :
    (ipf_write_node env pf h n b).2.1.stable = pf.stable := by
  unfold ipf_write_node
  exact ipf_write_file_stable ..

theorem ipf_write_recovery_record_stable (env : Env) (pf : pf_context_t) (h : Host) (o : Nat)
    (b : recovery_node_t) : (ipf_write_recovery_record env pf h o b).2.1.stable = pf.stable := by
  unfold ipf_write_recovery_record
  repeat' (first | split | dsimp only)
  all_goals rfl

theorem ipf_generate_secure_blob_stable (env : Env) (pf : pf_context_t) (h : Host)
    (k : pf_key_t) (l : List Char) (n : Nat) :
    (ipf_generate_secure_blob env pf h k l n).2.1.stable = pf.stable := by
  unfold ipf_generate_secure_blob
  repeat' (first | split | dsimp only)
  all_goals rfl

theorem ipf_generate_secure_blob_from_user_kdk_stable (env : Env) (pf : pf_context_t) (h : Host)
    (r : Bool) : (ipf_generate_secure_blob_from_user_kdk env pf h r).2.1.stable = pf.stable := by
  unfold ipf_generate_secure_blob_from_user_kdk
  repeat' (first | split | dsimp only)
  all_goals rfl

theorem ipf_init_session_master_key_stable (env : Env) (pf : pf_context_t) (h : Host) :
    (ipf_init_session_master_key env pf h).2.1.stable = pf.stable := by
  unfold ipf_init_session_master_key
  have := ipf_generate_secure_blob_stable env pf h 0 MASTER_KEY_NAME 0
  split <;> simp_all [pf_context_t.stable]

theorem ipf_derive_random_node_key_stable (env : Env) (pf : pf_context_t) (h : Host) (n : Nat) :
    (ipf_derive_random_node_key env pf h n).2.1.stable = pf.stable := by
  unfold ipf_derive_random_node_key
  dsimp only
  have key : ∀ b pf1 h1,
      (if pf.master_key_count ≥ MAX_MASTER_KEY_USAGES then
          ipf_init_session_master_key env { pf with master_key_count := pf.master_key_count + 1 } h
        else (true, { pf with master_key_count := pf.master_key_count + 1 }, h)) = (b, pf1, h1) →
      pf1.stable = pf.stable := by
    intro b pf1 h1 heq
    split at heq
    · have := ipf_init_session_master_key_stable env
        { pf with master_key_count := pf.master_key_count + 1 } h
      rw [heq] at this
      exact this
    · simp only [Prod.mk.injEq] at heq
      obtain ⟨-, rfl, -⟩ := heq
      rfl
  split
  · rename_i heq
    exact key _ _ _ heq
  · rename_i pf1 h1 heq
    have e1 := key _ _ _ heq
    have := ipf_generate_secure_blob_stable env pf1 h1 pf1.session_master_key RANDOM_KEY_NAME n
    split <;> simp_all [pf_context_t.stable]

theorem write_recovery_nodes_stable (env : Env) (l : List NodePtr) (pf : pf_context_t) (h : Host)
    (n : Nat) : (write_recovery_nodes env l pf h n).2.1.stable = pf.stable := by
  induction l generalizing pf h n with
  | nil => rfl
  | cons p rest ih =>
    unfold write_recovery_nodes
    dsimp only
    split
    · exact ih ..
    · have := ipf_write_recovery_record_stable env pf h (n * RECOVERY_NODE_SIZE)
        (pf.deref p).recovery_node
      split
      · simp_all
      · rename_i pf1 h1 heq
        rw [ih]
        simp_all

theorem ipf_write_recovery_file_stable (env : Env) (pf : pf_context_t) (h : Host) :
    (ipf_write_recovery_file env pf h).2.1.stable = pf.stable := by
  unfold ipf_write_recovery_file
  split
  · rfl
  · split
    rename_i status fs h1 heq
    split
    · rfl
    · have e1 := write_recovery_nodes_stable env (cache_ptrs pf) pf h1 0
      split
      · simp_all
      · rename_i n pf2 h2 heq2
        rw [heq2] at e1
        dsimp only at e1 ⊢
        have key : ∀ o pf3 h3,
            (if (pf2.root_mht.need_writing && !pf2.root_mht.new_node) = true then
                match ipf_write_recovery_record env pf2 h2 (n * RECOVERY_NODE_SIZE)
                    pf2.root_mht.recovery_node with
                | (false, pf3, h3) =>
                  let h4 := (cb_close env h3 .recovery).2
                  let h5 := (cb_delete env h4).2
                  (none, pf3, h5)
                | (true, pf3, h3) => (some (n * RECOVERY_NODE_SIZE + RECOVERY_NODE_SIZE), pf3, h3)
              else (some (n * RECOVERY_NODE_SIZE), pf2, h2)) = (o, pf3, h3) →
            pf3.stable = pf2.stable := by
          intro o pf3 h3 heq3
          split at heq3
          · have := ipf_write_recovery_record_stable env pf2 h2 (n * RECOVERY_NODE_SIZE)
              pf2.root_mht.recovery_node
            split at heq3 <;> simp_all
          · simp_all
        split
        · rename_i heq3
          rw [key _ _ _ heq3, e1]
        · rename_i o pf3 h3 heq3
          have e3 := key _ _ _ heq3
          have := ipf_write_recovery_record_stable env pf3 h3 o pf3.meta_data_recovery_node
          split
          · simp_all
          · repeat' (first | split | dsimp only)
            all_goals simp_all [pf_context_t.stable]

theorem with_update_flag_stable (pf : pf_context_t) (f : Nat) :
    (pf.with_update_flag f).stable = pf.stable := rfl

theorem ipf_set_update_flag_stable (env : Env) (pf : pf_context_t) (h : Host) :
    (ipf_set_update_flag env pf h).2.1.stable = pf.stable := by
  unfold ipf_set_update_flag
  dsimp only
  have := ipf_write_node_stable env (pf.with_update_flag 1) h 0
    (.meta (pf.with_update_flag 1).file_meta_data)
  split <;> simp_all [with_update_flag_stable]

theorem ipf_clear_update_flag_stable (env : Env) (pf : pf_context_t) (h : Host) :
    (ipf_clear_update_flag env pf h).1.stable = pf.stable := by
  unfold ipf_clear_update_flag
  exact ipf_write_node_stable ..

theorem update_data_nodes_stable (env : Env) (l : List NodePtr) (pf : pf_context_t) (h : Host) :
    (update_data_nodes env l pf h).2.1.stable = pf.stable := by
  induction l generalizing pf h with
  | nil => rfl
  | cons p rest ih =>
    unfold update_data_nodes
    dsimp only
    split
    · have := ipf_derive_random_node_key_stable env pf h (pf.deref p).physical_node_number
      split
      · simp_all
      · rename_i pf1 h1 heq
        split
        · simp_all [pf_context_t.stable]
        · rw [ih, modify_stable, modify_stable]
          simp_all
    · exact ih ..

theorem update_mht_nodes_stable (env : Env) (l : List NodePtr) (pf : pf_context_t) (h : Host) :
    (update_mht_nodes env l pf h).2.1.stable = pf.stable := by
  induction l generalizing pf h with
  | nil => rfl
  | cons p rest ih =>
    unfold update_mht_nodes
    dsimp only
    have := ipf_derive_random_node_key_stable env pf h (pf.deref p).physical_node_number
    split
    · simp_all
    · rename_i pf1 h1 heq
      split
      · simp_all [pf_context_t.stable]
      · rw [ih, modify_stable, modify_stable]
        simp_all

theorem ipf_update_all_data_and_mht_nodes_stable (env : Env) (pf : pf_context_t) (h : Host) :
    (ipf_update_all_data_and_mht_nodes env pf h).2.1.stable = pf.stable := by
  unfold ipf_update_all_data_and_mht_nodes
  have e1 := update_data_nodes_stable env (cache_ptrs pf) pf h
  split
  · simp_all
  · rename_i pf1 h1 heq1
    dsimp only
    have e2 := update_mht_nodes_stable env
      (LISTP_SORT (fun a b => mht_sort (pf1.deref a) (pf1.deref b))
        (collect_mht_list pf1 (cache_ptrs pf1) [])) pf1 h1
    split
    · simp_all
    · rename_i pf2 h2 heq2
      have e3 := ipf_derive_random_node_key_stable env pf2 h2 pf2.root_mht.physical_node_number
      split
      · simp_all
      · rename_i pf3 h3 heq3
        repeat' (first | split | dsimp only)
        all_goals simp_all [pf_context_t.stable]

theorem ipf_update_meta_data_node_stable (env : Env) (pf : pf_context_t) (h : Host) :
    (ipf_update_meta_data_node env pf h).2.1.stable = pf.stable := by
  unfold ipf_update_meta_data_node
  have e1 := ipf_generate_secure_blob_from_user_kdk_stable env pf h false
  unfold ipf_generate_random_meta_data_key
  split
  · simp_all
  · repeat' (first | split | dsimp only)
    all_goals simp_all [pf_context_t.stable]

theorem write_dirty_nodes_stable (env : Env) (l : List NodePtr) (pf : pf_context_t) (h : Host) :
    (write_dirty_nodes env l pf h).2.1.stable = pf.stable := by
  induction l generalizing pf h with
  | nil => rfl
  | cons p rest ih =>
    unfold write_dirty_nodes
    dsimp only
    split
    · exact ih ..
    · have := ipf_write_node_stable env pf h (pf.deref p).physical_node_number
        (.node (pf.deref p).encrypted)
      split
      · simp_all
      · rw [ih, modify_stable]
        simp_all

theorem ipf_write_all_changes_to_disk_stable (env : Env) (pf : pf_context_t) (h : Host) :
    (ipf_write_all_changes_to_disk env pf h).2.1.stable = pf.stable := by
  unfold ipf_write_all_changes_to_disk
  dsimp only
  split_ifs
  · have e1 := write_dirty_nodes_stable env (cache_ptrs pf) pf h
    rcases hw : write_dirty_nodes env (cache_ptrs pf) pf h with ⟨b, pf2, h2⟩
    rw [hw] at e1
    cases b
    · exact e1
    · dsimp only at e1 ⊢
      have e2 := ipf_write_node_stable env pf2 h2 1 (.node pf2.root_mht.encrypted)
      rcases hn : ipf_write_node env pf2 h2 1 (.node pf2.root_mht.encrypted) with ⟨b, pf3, h3⟩
      rw [hn] at e2
      cases b
      · exact e2.trans e1
      · dsimp only at e2 ⊢
        rw [ipf_write_node_stable]
        exact e2.trans e1
  · exact ipf_write_node_stable ..

theorem ipf_internal_flush_stable (env : Env) (pf : pf_context_t) (h : Host) :
    (ipf_internal_flush env pf h).2.1.stable = pf.stable := by
  unfold ipf_internal_flush
  try dsimp only
  have tail : ∀ (pf1 : pf_context_t) (h1 : Host), pf1.stable = pf.stable →
      (match ipf_update_meta_data_node env pf1 h1 with
        | (false, pf2, h2) =>
          match ipf_clear_update_flag env pf2 h2 with
          | (pf3, h3) => (false, { pf3 with file_status := CRYPTO_ERROR }, h3)
        | (true, pf2, h2) =>
          match ipf_write_all_changes_to_disk env pf2 h2 with
          | (false, pf3, h3) => (false, { pf3 with file_status := WRITE_TO_DISK_FAILED }, h3)
          | (true, pf3, h3) => (true, { pf3 with need_writing := false }, h3)).2.1.stable
        = pf.stable := by
    intro pf1 h1 e1
    have e2 := ipf_update_meta_data_node_stable env pf1 h1
    rcases hu : ipf_update_meta_data_node env pf1 h1 with ⟨b, pf2, h2⟩
    rw [hu] at e2
    cases b
    · dsimp only at e2 ⊢
      have e3 := ipf_clear_update_flag_stable env pf2 h2
      exact (e3.trans e2).trans e1
    · dsimp only at e2 ⊢
      have e3 := ipf_write_all_changes_to_disk_stable env pf2 h2
      rcases hw : ipf_write_all_changes_to_disk env pf2 h2 with ⟨b, pf3, h3⟩
      rw [hw] at e3
      cases b <;> exact (e3.trans e2).trans e1
  split_ifs with hnw hguard hrec
  · rfl
  · -- tree step with recovery log
    have e1 := ipf_write_recovery_file_stable env pf h
    rcases hr : ipf_write_recovery_file env pf h with ⟨b, pf1, h1⟩
    rw [hr] at e1
    cases b
    · exact e1
    · dsimp only at e1 ⊢
      have e2 := ipf_set_update_flag_stable env pf1 h1
      rcases hs : ipf_set_update_flag env pf1 h1 with ⟨b, pf2, h2⟩
      rw [hs] at e2
      cases b
      · exact e2.trans e1
      · dsimp only at e2 ⊢
        have e3 := ipf_update_all_data_and_mht_nodes_stable env pf2 h2
        rcases hu : ipf_update_all_data_and_mht_nodes env pf2 h2 with ⟨b, pf3, h3⟩
        rw [hu] at e3
        cases b
        · dsimp only at e3 ⊢
          have e4 := ipf_clear_update_flag_stable env pf3 h3
          exact ((e4.trans e3).trans e2).trans e1
        · exact tail pf3 h3 ((e3.trans e2).trans e1)
  · try dsimp only
    have e2 := ipf_set_update_flag_stable env pf h
    rcases hs : ipf_set_update_flag env pf h with ⟨b, pf2, h2⟩
    rw [hs] at e2
    cases b
    · exact e2
    · dsimp only at e2 ⊢
      have e3 := ipf_update_all_data_and_mht_nodes_stable env pf2 h2
      rcases hu : ipf_update_all_data_and_mht_nodes env pf2 h2 with ⟨b, pf3, h3⟩
      rw [hu] at e3
      cases b
      · dsimp only at e3 ⊢
        have e4 := ipf_clear_update_flag_stable env pf3 h3
        exact (e4.trans e3).trans e2
      · exact tail pf3 h3 (e3.trans e2)
  · exact tail pf h rfl

theorem ipf_read_mht_node_stable (env : Env) (fuel : Nat) (pf : pf_context_t) (h : Host)
    (n : Nat) : (ipf_read_mht_node env fuel pf h n).2.1.stable = pf.stable := by
  induction fuel generalizing pf h n with
  | zero =>
    unfold ipf_read_mht_node
    repeat' (first | split | dsimp only)
    all_goals first | rfl | simp_all
  | succ fuel ih =>
    unfold ipf_read_mht_node
    try dsimp only
    split_ifs
    · rfl
    · split
      · rfl
      · try dsimp only
        have e1 := ih pf h ((n - 1) / CHILD_MHT_NODES_COUNT)
        rcases hp : ipf_read_mht_node env fuel pf h ((n - 1) / CHILD_MHT_NODES_COUNT)
          with ⟨o, pf1, h1⟩
        rw [hp] at e1
        cases o with
        | none => exact e1
        | some parent =>
          try dsimp only at e1 ⊢
          rcases ha : alloc env h1 with ⟨b, h2⟩
          cases b
          · exact e1
          · try dsimp only
            have e3 := ipf_read_node_stable env pf1 h2 (mht_physical_node_number n)
            rcases hr : ipf_read_node env pf1 h2 (mht_physical_node_number n) with ⟨ob, pf3, h3⟩
            rw [hr] at e3
            cases ob with
            | none => exact e3.trans e1
            | some block =>
              try dsimp only at e3 ⊢
              split_ifs
              all_goals first
                | exact e3.trans e1
                | (rcases ha2 : alloc env h3 with ⟨b, h4⟩
                   cases b <;> exact e3.trans e1)

theorem ipf_append_mht_node_stable (env : Env) (pf : pf_context_t) (h : Host) (n : Nat) :
    (ipf_append_mht_node env pf h n).2.1.stable = pf.stable := by
  unfold ipf_append_mht_node
  have e1 := ipf_read_mht_node_stable env n pf h ((n - 1) / CHILD_MHT_NODES_COUNT)
  rcases hp : ipf_read_mht_node env n pf h ((n - 1) / CHILD_MHT_NODES_COUNT) with ⟨o, pf1, h1⟩
  rw [hp] at e1
  cases o with
  | none => exact e1
  | some parent =>
    try dsimp only at e1 ⊢
    rcases ha : alloc env h1 with ⟨b, h2⟩
    cases b
    · exact e1
    · try dsimp only
      rcases ha2 : alloc env h2 with ⟨b, h3⟩
      cases b <;> exact e1

theorem ipf_get_mht_node_stable (env : Env) (pf : pf_context_t) (h : Host) :
    (ipf_get_mht_node env pf h).2.1.stable = pf.stable := by
  unfold ipf_get_mht_node
  try dsimp only
  split_ifs
  · rfl
  · rfl
  · exact ipf_append_mht_node_stable ..
  · exact ipf_read_mht_node_stable ..

theorem ipf_append_data_node_stable (env : Env) (pf : pf_context_t) (h : Host) :
    (ipf_append_data_node env pf h).2.1.stable = pf.stable := by
  unfold ipf_append_data_node
  have e1 := ipf_get_mht_node_stable env pf h
  rcases hp : ipf_get_mht_node env pf h with ⟨o, pf1, h1⟩
  rw [hp] at e1
  cases o with
  | none => exact e1
  | some parent =>
    try dsimp only at e1 ⊢
    rcases ha : alloc env h1 with ⟨b, h2⟩
    cases b
    · exact e1
    · try dsimp only
      rcases ha2 : alloc env h2 with ⟨b, h3⟩
      cases b <;> exact e1

theorem ipf_read_data_node_stable (env : Env) (pf : pf_context_t) (h : Host) :
    (ipf_read_data_node env pf h).2.1.stable = pf.stable := by
  unfold ipf_read_data_node
  try dsimp only
  rcases hl : lruc_get pf.cache (get_node_numbers pf.offset).physical_data_node_number
    with ⟨o, c1⟩
  cases o with
  | some x => rfl
  | none =>
    try dsimp only
    have e1 := ipf_get_mht_node_stable env pf h
    rcases hp : ipf_get_mht_node env pf h with ⟨o, pf1, h1⟩
    rw [hp] at e1
    cases o with
    | none => exact e1
    | some parent =>
      try dsimp only at e1 ⊢
      rcases ha : alloc env h1 with ⟨b, h2⟩
      cases b
      · exact e1
      · try dsimp only
        have e3 := ipf_read_node_stable env pf1 h2
          (get_node_numbers pf.offset).physical_data_node_number
        rcases hr : ipf_read_node env pf1 h2
          (get_node_numbers pf.offset).physical_data_node_number with ⟨ob, pf3, h3⟩
        rw [hr] at e3
        cases ob with
        | none => exact e3.trans e1
        | some block =>
          try dsimp only at e3 ⊢
          split_ifs
          all_goals first
            | exact e3.trans e1
            | (rcases ha2 : alloc env h3 with ⟨b, h4⟩
               cases b <;> exact e3.trans e1)

theorem bump_parents_stable (fuel : Nat) (pf : pf_context_t) (p : NodePtr) :
    (bump_parents fuel pf p).stable = pf.stable := by
  induction fuel generalizing pf p with
  | zero =>
    unfold bump_parents
    try dsimp only
    split_ifs <;> rfl
  | succ fuel ih =>
    unfold bump_parents
    try dsimp only
    split_ifs
    · rfl
    · rw [ih]; rfl

theorem mark_parents_stable (fuel : Nat) (pf : pf_context_t) (p : NodePtr) :
    (mark_parents fuel pf p).stable = pf.stable := by
  induction fuel generalizing pf p with
  | zero =>
    unfold mark_parents
    try dsimp only
    split_ifs <;> rfl
  | succ fuel ih =>
    unfold mark_parents
    try dsimp only
    split_ifs
    · rfl
    · rw [ih, modify_stable]

theorem evict_nodes_stable (env : Env) (fuel : Nat) (pf : pf_context_t) (h : Host) :
    (evict_nodes env fuel pf h).2.1.stable = pf.stable := by
  induction fuel generalizing pf h with
  | zero =>
    unfold evict_nodes
    try dsimp only
    split_ifs <;> rfl
  | succ fuel ih =>
    unfold evict_nodes
    try dsimp only
    split_ifs
    · split
      · rfl
      · split_ifs
        · rw [ih]; rfl
        · have e1 := ipf_internal_flush_stable env pf h
          rcases hf : ipf_internal_flush env pf h with ⟨b, pf1, h1⟩
          rw [hf] at e1
          cases b
          · exact e1
          · dsimp only at e1 ⊢
            rw [ih]; exact e1
    · rfl

theorem ipf_get_data_node_stable (env : Env) (pf : pf_context_t) (h : Host) :
    (ipf_get_data_node env pf h).2.1.stable = pf.stable := by
  unfold ipf_get_data_node
  try dsimp only
  have tail : ∀ (o : Option NodePtr) (pf1 : pf_context_t) (h1 : Host), pf1.stable = pf.stable →
      (match
          evict_nodes env
            (2 * lruc_size
              (match o with
                | some p =>
                  bump_parents (pf1.deref (pf1.deref p).parent).node_number pf1 (pf1.deref p).parent
                | none => pf1).cache)
            (match o with
              | some p =>
                bump_parents (pf1.deref (pf1.deref p).parent).node_number pf1 (pf1.deref p).parent
              | none => pf1) h1 with
        | (false, pf3, h3) => (none, pf3, h3)
        | (true, pf3, h3) => (o, pf3, h3)).2.1.stable = pf.stable := by
    intro o pf1 h1 e1
    have e2 : (match o with
        | some p =>
          bump_parents (pf1.deref (pf1.deref p).parent).node_number pf1 (pf1.deref p).parent
        | none => pf1).stable = pf.stable := by
      cases o with
      | none => exact e1
      | some p => dsimp only; rw [bump_parents_stable]; exact e1
    generalize (match o with
        | some p =>
          bump_parents (pf1.deref (pf1.deref p).parent).node_number pf1 (pf1.deref p).parent
        | none => pf1) = pf2 at e2 ⊢
    have e3 := evict_nodes_stable env (2 * lruc_size pf2.cache) pf2 h1
    rcases he : evict_nodes env (2 * lruc_size pf2.cache) pf2 h1 with ⟨b, pf3, h3⟩
    rw [he] at e3
    cases b <;> exact e3.trans e2
  split_ifs
  · rfl
  · have e1 := ipf_append_data_node_stable env pf h
    rcases hp : ipf_append_data_node env pf h with ⟨o, pf1, h1⟩
    rw [hp] at e1
    exact tail o pf1 h1 e1
  · have e1 := ipf_read_data_node_stable env pf h
    rcases hp : ipf_read_data_node env pf h with ⟨o, pf1, h1⟩
    rw [hp] at e1
    exact tail o pf1 h1 e1

/-! ## The inline fast path -/

theorem only_inline_events_refl (h : Host) : only_inline_events h h :=
  ⟨[], by simp, by simp⟩

theorem only_inline_events_trans {h1 h2 h3 : Host} (a : only_inline_events h1 h2)
    (b : only_inline_events h2 h3) : only_inline_events h1 h3 := by
  obtain ⟨e1, t1, o1⟩ := a
  obtain ⟨e2, t2, o2⟩ := b
  refine ⟨e1 ++ e2, by rw [t2, t1, List.append_assoc], ?_⟩
  intro e he
  rcases List.mem_append.1 he with he | he
  · exact o1 e he
  · exact o2 e he

theorem only_inline_events_of_trace_eq {h1 h2 : Host} (e : h2.trace = h1.trace) :
    only_inline_events h1 h2 :=
  ⟨[], by simp [e], by simp⟩

theorem only_inline_events_tick {h1 h2 : Host} (e : Event) (ok : inline_event_ok e)
    (t : h2.trace = h1.trace ++ [e]) : only_inline_events h1 h2 :=
  ⟨[e], t, by simpa using ok⟩

theorem cb_write_trace (env : Env) (h : Host) (b : Block) (o n : Nat) :
    (cb_write env h b o n).2.trace = h.trace ++ [.write_block o b] := by
  unfold cb_write
  try dsimp only
  split_ifs <;> rfl

theorem ipf_write_node_trace (env : Env) (pf : pf_context_t) (h : Host) (n : Nat) (b : Block) :
    (ipf_write_node env pf h n b).2.2.trace
      = h.trace ++ [.write_block (n * PF_NODE_SIZE % U64) b] := by
  unfold ipf_write_node ipf_write_file
  have := cb_write_trace env h b (n * PF_NODE_SIZE % U64) PF_NODE_SIZE
  rcases hc : cb_write env h b (n * PF_NODE_SIZE % U64) PF_NODE_SIZE with ⟨s, h1⟩
  rw [hc] at this
  dsimp only at this ⊢
  split_ifs <;> exact this

/-- The parts of a context that only the tree code assigns. -/
theorem ipf_write_node_frame (env : Env) (pf : pf_context_t) (h : Host) (n : Nat) (b : Block) :
    (ipf_write_node env pf h n b).2.1.file_meta_data = pf.file_meta_data ∧
    (ipf_write_node env pf h n b).2.1.cache = pf.cache ∧
    (ipf_write_node env pf h n b).2.1.root_mht = pf.root_mht := by
  unfold ipf_write_node ipf_write_file
  repeat' (first | split | dsimp only)
  all_goals simp

theorem ipf_write_node_inline (env : Env) (pf : pf_context_t) (h : Host) (hi : Inline pf) :
    Inline (ipf_write_node env pf h 0 (.meta pf.file_meta_data)).2.1 ∧
    only_inline_events h (ipf_write_node env pf h 0 (.meta pf.file_meta_data)).2.2 := by
  obtain ⟨f1, f2, f3⟩ := ipf_write_node_frame env pf h 0 (.meta pf.file_meta_data)
  have s := ipf_write_node_stable env pf h 0 (.meta pf.file_meta_data)
  have t := ipf_write_node_trace env pf h 0 (.meta pf.file_meta_data)
  obtain ⟨i1, i2, i3, i4⟩ := hi
  refine ⟨⟨?_, ?_, ?_, ?_⟩, ?_⟩
  · rw [show (ipf_write_node env pf h 0 (.meta pf.file_meta_data)).2.1.encrypted_part_plain.size
        = pf.encrypted_part_plain.size from congrArg Stable.size s]
    exact i1
  · rw [f1]; exact i2
  · rw [f2]; exact i3
  · rw [f3]; exact i4
  · refine only_inline_events_tick _ ?_ t
    simp [inline_event_ok, Block.as_meta, i2]

theorem ipf_update_meta_data_node_inline (env : Env) (pf : pf_context_t) (h : Host)
    (hi : Inline pf) :
    Inline (ipf_update_meta_data_node env pf h).2.1 ∧
    only_inline_events h (ipf_update_meta_data_node env pf h).2.2 := by
  obtain ⟨i1, i2, i3, i4⟩ := hi
  unfold ipf_update_meta_data_node ipf_generate_random_meta_data_key
    ipf_generate_secure_blob_from_user_kdk cb_random
  have ev : only_inline_events h (h.tick .random) :=
    only_inline_events_tick .random (by simp [inline_event_ok]) rfl
  try dsimp only
  by_cases c1 : PF_FAILURE (env.random h.clock).1 = true
  · simp [c1, Inline, i1, i2, i3, i4, ev]
  · by_cases c2 : PF_FAILURE (env.aes_gcm_encrypt pf.user_kdk_key
        (some { index := 1, label := METADATA_KEY_NAME, node_number := 0,
                nonce := (env.random h.clock).2, output_len := 128 }) none).1 = true
    · simp [c1, c2, Inline, i1, i2, i3, i4, ev]
    · simp only [c1, c2, Bool.not_false, if_true, if_false, Bool.false_eq_true]
      split_ifs <;> simp [Inline, i1, i2, i3, i4, ev]

theorem ipf_write_all_changes_to_disk_inline (env : Env) (pf : pf_context_t) (h : Host)
    (hi : Inline pf) :
    Inline (ipf_write_all_changes_to_disk env pf h).2.1 ∧
    only_inline_events h (ipf_write_all_changes_to_disk env pf h).2.2 := by
  unfold ipf_write_all_changes_to_disk
  have hs : ¬ pf.encrypted_part_plain.size > MD_USER_DATA_SIZE := Nat.not_lt.2 hi.1
  simp only [hs, decide_False, Bool.false_and, Bool.false_eq_true, if_false]
  exact ipf_write_node_inline env pf h hi

theorem ipf_clear_update_flag_inline (env : Env) (pf : pf_context_t) (h : Host)
    (hi : Inline pf) :
    Inline (ipf_clear_update_flag env pf h).1 ∧
    only_inline_events h (ipf_clear_update_flag env pf h).2 := by
  unfold ipf_clear_update_flag
  exact ipf_write_node_inline env pf h hi

theorem inline_congr {pf pf1 : pf_context_t} (hi : Inline pf)
    (e1 : pf1.encrypted_part_plain.size = pf.encrypted_part_plain.size)
    (e2 : pf1.file_meta_data = pf.file_meta_data) (e3 : pf1.cache = pf.cache)
    (e4 : pf1.root_mht = pf.root_mht) : Inline pf1 := by
  unfold Inline at *
  rw [e1, e2, e3, e4]
  exact hi

theorem ipf_internal_flush_inline (env : Env) (pf : pf_context_t) (h : Host) (hi : Inline pf) :
    Inline (ipf_internal_flush env pf h).2.1 ∧
    only_inline_events h (ipf_internal_flush env pf h).2.2 := by
  unfold ipf_internal_flush
  have hs : ¬ pf.encrypted_part_plain.size > MD_USER_DATA_SIZE := Nat.not_lt.2 hi.1
  simp only [hs, decide_False, Bool.false_and, Bool.false_eq_true, if_false]
  split_ifs
  · exact ⟨hi, only_inline_events_refl h⟩
  · obtain ⟨a1, a2⟩ := ipf_update_meta_data_node_inline env pf h hi
    rcases hu : ipf_update_meta_data_node env pf h with ⟨b, pf2, h2⟩
    rw [hu] at a1 a2
    cases b
    · dsimp only at a1 a2 ⊢
      obtain ⟨b1, b2⟩ := ipf_clear_update_flag_inline env pf2 h2 a1
      exact ⟨inline_congr b1 rfl rfl rfl rfl, only_inline_events_trans a2 b2⟩
    · dsimp only at a1 a2 ⊢
      obtain ⟨b1, b2⟩ := ipf_write_all_changes_to_disk_inline env pf2 h2 a1
      rcases hw : ipf_write_all_changes_to_disk env pf2 h2 with ⟨b, pf3, h3⟩
      rw [hw] at b1 b2
      cases b
      · exact ⟨inline_congr b1 rfl rfl rfl rfl, only_inline_events_trans a2 b2⟩
      · exact ⟨inline_congr b1 rfl rfl rfl rfl, only_inline_events_trans a2 b2⟩


theorem get_node_numbers_md :
    (get_node_numbers MD_USER_DATA_SIZE).mht_node_number = 0 ∧
    (get_node_numbers MD_USER_DATA_SIZE).data_node_number = 0 ∧
    (get_node_numbers MD_USER_DATA_SIZE).physical_data_node_number = 2 := by
  decide

theorem bump_parents_root (fuel : Nat) (pf : pf_context_t) (p : NodePtr)
    (hp : (pf.deref p).node_number = 0) : bump_parents fuel pf p = pf := by
  cases fuel <;> (unfold bump_parents; simp [hp])

theorem alloc_trace (env : Env) (h : Host) : (alloc env h).2.trace = h.trace := rfl

theorem evict_nodes_of_le (env : Env) (fuel : Nat) (pf : pf_context_t) (h : Host)
    (hle : lruc_size pf.cache ≤ env.MAX_PAGES_IN_CACHE) :
    evict_nodes env fuel pf h = (true, pf, h) := by
  have hn : ¬ lruc_size pf.cache > env.MAX_PAGES_IN_CACHE := Nat.not_lt.2 hle
  cases fuel <;> (unfold evict_nodes; rw [if_neg hn])

theorem evict_nodes_single_clean (env : Env) (fuel : Nat) (pf : pf_context_t) (h : Host)
    (n : file_node_t) (hc : pf.cache = [n]) (hn : n.need_writing = false) :
    (evict_nodes env (fuel + 1) pf h).1 = true := by
  unfold evict_nodes
  split_ifs with hgt
  · dsimp only
    rw [hc]
    simp only [lruc_get_last, List.getLast?_singleton, hn, Bool.not_false, if_true,
      lruc_remove_last, List.dropLast_single]
    rw [evict_nodes_of_le]
    simp [lruc_size]
  · rfl


theorem ipf_get_mht_node_root (env : Env) (pf : pf_context_t) (h : Host)
    (c0 : ¬ pf.offset < MD_USER_DATA_SIZE)
    (g : (get_node_numbers pf.offset).mht_node_number = 0) :
    ipf_get_mht_node env pf h = (some .root, pf, h) := by
  unfold ipf_get_mht_node
  rw [if_neg c0]
  dsimp only
  rw [if_pos g]

theorem ipf_append_data_node_inline (env : Env) (pf : pf_context_t) (h : Host)
    (c0 : ¬ pf.offset < MD_USER_DATA_SIZE)
    (g : (get_node_numbers pf.offset).mht_node_number = 0) (hc : pf.cache = []) :
    ((ipf_append_data_node env pf h).1 = none ∧
      (ipf_append_data_node env pf h).2.1.cache = [] ∧
      (ipf_append_data_node env pf h).2.1.file_meta_data = pf.file_meta_data ∧
      (ipf_append_data_node env pf h).2.1.root_mht = pf.root_mht ∧
      (ipf_append_data_node env pf h).2.2.trace = h.trace) ∨
    (∃ n : file_node_t, (ipf_append_data_node env pf h).1 = some (.cached n.physical_node_number) ∧
      (ipf_append_data_node env pf h).2.1.cache = [n] ∧ n.need_writing = false ∧
      n.parent = .root ∧
      (ipf_append_data_node env pf h).2.1.root_mht = pf.root_mht) := by
  unfold ipf_append_data_node
  rw [ipf_get_mht_node_root env pf h c0 g]
  try dsimp only
  unfold alloc
  try dsimp only
  cases env.alloc_ok h.allocs
  · left
    exact ⟨rfl, hc, rfl, rfl, rfl⟩
  · dsimp only
    cases env.alloc_ok (h.allocs + 1)
    · left
      exact ⟨rfl, hc, rfl, rfl, rfl⟩
    · right
      refine ⟨{ type := FILE_DATA_NODE_TYPE,
                node_number := (get_node_numbers pf.offset).data_node_number,
                parent := .root, need_writing := false, new_node := true,
                physical_node_number := (get_node_numbers pf.offset).physical_data_node_number,
                encrypted := .data zero_bytes, decrypted := .data zero_bytes },
        rfl, ?_, rfl, rfl, rfl⟩
      dsimp only [lruc_add]
      rw [hc]


theorem ipf_get_data_node_inline (env : Env) (pf : pf_context_t) (h : Host) (hi : Inline pf)
    (ho : pf.offset = MD_USER_DATA_SIZE)
    (hs : pf.encrypted_part_plain.size = MD_USER_DATA_SIZE) :
    (ipf_get_data_node env pf h).1 = none →
      Inline (ipf_get_data_node env pf h).2.1 ∧
      (ipf_get_data_node env pf h).2.2.trace = h.trace := by
  obtain ⟨i1, i2, i3, i4⟩ := hi
  obtain ⟨g1, g2, g3⟩ := get_node_numbers_md
  have c0 : ¬ pf.offset < MD_USER_DATA_SIZE := by omega
  have c1 : (pf.offset - MD_USER_DATA_SIZE) % PF_NODE_SIZE = 0
      ∧ pf.offset = pf.encrypted_part_plain.size := by
    refine ⟨?_, by rw [ho, hs]⟩
    rw [ho, Nat.sub_self]
    rfl
  have g1a : (get_node_numbers pf.offset).mht_node_number = 0 := by rw [ho]; exact g1
  have st := ipf_append_data_node_stable env pf h
  unfold ipf_get_data_node
  rw [if_neg c0]
  dsimp only
  rw [if_pos c1]
  rcases ipf_append_data_node_inline env pf h c0 g1a i3 with ⟨r1, r2, r3, r4, r5⟩ | ⟨n, r1, r2, r3, r4, r5⟩
  · rcases ha : ipf_append_data_node env pf h with ⟨o, pf1, h1⟩
    rw [ha] at r1 r2 r3 r4 r5 st
    dsimp only at r1 r2 r3 r4 r5 st
    subst r1
    dsimp only
    rw [evict_nodes_of_le env _ pf1 h1 (by rw [r2]; simp [lruc_size])]
    intro _
    dsimp only
    refine ⟨⟨?_, ?_, r2, ?_⟩, r5⟩
    · rw [show pf1.encrypted_part_plain.size = pf.encrypted_part_plain.size from
        congrArg Stable.size st]
      exact i1
    · rw [r3]; exact i2
    · rw [r4]; exact i4
  · rcases ha : ipf_append_data_node env pf h with ⟨o, pf1, h1⟩
    rw [ha] at r1 r2 r5
    dsimp only at r1 r2 r5
    subst r1
    dsimp only
    have hd : pf1.deref (.cached n.physical_node_number) = n := by
      simp [pf_context_t.deref, lruc_find, r2]
    rw [hd, r4, bump_parents_root _ _ _ (by simp [pf_context_t.deref, r5, i4])]
    have he := evict_nodes_single_clean env (2 * lruc_size pf1.cache - 1) pf1 h1 n r2 r3
    have hf : 2 * lruc_size pf1.cache - 1 + 1 = 2 * lruc_size pf1.cache := by
      simp [lruc_size, r2]
    rw [hf] at he
    rcases hev : evict_nodes env (2 * lruc_size pf1.cache) pf1 h1 with ⟨b, pf3, h3⟩
    rw [hev] at he
    dsimp only at he
    subst he
    intro hn
    simp at hn

theorem size_of_stable {a b : pf_context_t} (e : a.stable = b.stable) :
    a.encrypted_part_plain.size = b.encrypted_part_plain.size :=
  congrArg Stable.size e

theorem offset_of_stable {a b : pf_context_t} (e : a.stable = b.stable) :
    a.offset = b.offset :=
  congrArg Stable.offset e

theorem write_to_data_node_size (ptr : Option (Nat → Byte)) (pf1 : pf_context_t) (p : NodePtr)
    (w left : Nat) :
    (write_to_data_node ptr pf1 p w left).2
      = min left (PF_NODE_SIZE - (pf1.offset - MD_USER_DATA_SIZE) % PF_NODE_SIZE) ∧
    (write_to_data_node ptr pf1 p w left).1.offset
      = pf1.offset + (write_to_data_node ptr pf1 p w left).2 ∧
    (write_to_data_node ptr pf1 p w left).1.encrypted_part_plain.size
      = max pf1.encrypted_part_plain.size
          (pf1.offset + (write_to_data_node ptr pf1 p w left).2) := by
  have m1 := fun f => modify_stable pf1 p f
  unfold write_to_data_node
  dsimp only
  refine ⟨rfl, ?_, ?_⟩
  · split_ifs
    all_goals first
      | (simp only []; rw [offset_of_stable (mark_parents_stable _ _ _),
          offset_of_stable (modify_stable _ _ _)]; dsimp only;
         rw [offset_of_stable (modify_stable _ _ _)])
      | (dsimp only; rw [offset_of_stable (modify_stable _ _ _)])
  · split_ifs
    all_goals first
      | (simp only []; rw [size_of_stable (mark_parents_stable _ _ _),
          size_of_stable (modify_stable _ _ _)]; dsimp only;
         rw [offset_of_stable (modify_stable _ _ _),
           size_of_stable (modify_stable _ _ _)] at *; omega)
      | (dsimp only; rw [offset_of_stable (modify_stable _ _ _),
           size_of_stable (modify_stable _ _ _)] at *; omega)


theorem write_data_nodes_size_mono (env : Env) (ptr : Option (Nat → Byte)) (fuel : Nat)
    (pf : pf_context_t) (h : Host) (w left : Nat) :
    pf.encrypted_part_plain.size
      ≤ (write_data_nodes env ptr fuel pf h w left).2.1.encrypted_part_plain.size := by
  induction fuel generalizing pf h w left with
  | zero =>
    unfold write_data_nodes
    split_ifs <;> exact le_refl _
  | succ fuel ih =>
    unfold write_data_nodes
    split_ifs
    · dsimp only
      have st := size_of_stable (ipf_get_data_node_stable env pf h)
      rcases hg : ipf_get_data_node env pf h with ⟨o, pf1, h1⟩
      rw [hg] at st
      dsimp only at st
      cases o with
      | none => dsimp only; omega
      | some p =>
        dsimp only
        obtain ⟨-, -, z⟩ := write_to_data_node_size ptr pf1 p w left
        refine le_trans ?_ (ih _ _ _ _)
        rw [z, ← st]
        exact le_max_left _ _
    · exact le_refl _

theorem write_data_nodes_inline (env : Env) (ptr : Option (Nat → Byte)) (fuel : Nat)
    (pf : pf_context_t) (h : Host) (w left : Nat) (hi : Inline pf)
    (ho : pf.offset = MD_USER_DATA_SIZE)
    (hs : pf.encrypted_part_plain.size = MD_USER_DATA_SIZE)
    (hle : (write_data_nodes env ptr fuel pf h w left).2.1.encrypted_part_plain.size
      ≤ MD_USER_DATA_SIZE) :
    Inline (write_data_nodes env ptr fuel pf h w left).2.1 ∧
    (write_data_nodes env ptr fuel pf h w left).2.2.trace = h.trace := by
  cases fuel with
  | zero =>
    unfold write_data_nodes
    split_ifs
    · exact ⟨hi, rfl⟩
    · exact ⟨hi, rfl⟩
  | succ fuel =>
    unfold write_data_nodes at hle ⊢
    split_ifs at hle ⊢ with hpos
    · dsimp only at hle ⊢
      have g := ipf_get_data_node_inline env pf h hi ho hs
      have st := ipf_get_data_node_stable env pf h
      rcases hg : ipf_get_data_node env pf h with ⟨o, pf1, h1⟩
      rw [hg] at g st hle
      dsimp only at g st hle
      cases o with
      | none => exact g rfl
      | some p =>
        exfalso
        dsimp only at hle
        obtain ⟨z1, -, z⟩ := write_to_data_node_size ptr pf1 p w left
        have mono := write_data_nodes_size_mono env ptr fuel
          (write_to_data_node ptr pf1 p w left).1 h1
          (w + (write_to_data_node ptr pf1 p w left).2)
          (left - (write_to_data_node ptr pf1 p w left).2)
        rw [z] at mono
        have o1 : pf1.offset = MD_USER_DATA_SIZE := (offset_of_stable st).trans ho
        have h3 := le_trans mono hle
        rw [z1, o1, Nat.sub_self] at h3
        have hmin : 1 ≤ min left (PF_NODE_SIZE - 0 % PF_NODE_SIZE) :=
          Nat.le_min.2 ⟨hpos, by decide⟩
        generalize min left (PF_NODE_SIZE - 0 % PF_NODE_SIZE) = k at h3 hmin
        have h4 := le_trans (le_max_right pf1.encrypted_part_plain.size (MD_USER_DATA_SIZE + k)) h3
        clear mono hle z z1 h3
        omega
    · exact ⟨hi, rfl⟩

theorem write_to_md_spec (ptr : Option (Nat → Byte)) (pf : pf_context_t) (size : Nat) :
    (write_to_md ptr pf size).1 = size - min size (MD_USER_DATA_SIZE - pf.offset) ∧
    (write_to_md ptr pf size).2.offset = pf.offset + min size (MD_USER_DATA_SIZE - pf.offset) ∧
    (write_to_md ptr pf size).2.encrypted_part_plain.size
      = max pf.encrypted_part_plain.size
          (pf.offset + min size (MD_USER_DATA_SIZE - pf.offset)) ∧
    (write_to_md ptr pf size).2.file_meta_data = pf.file_meta_data ∧
    (write_to_md ptr pf size).2.cache = pf.cache ∧
    (write_to_md ptr pf size).2.root_mht = pf.root_mht := by
  unfold write_to_md
  dsimp only
  refine ⟨rfl, ?_, ?_, ?_, ?_, ?_⟩
  · split_ifs <;> rfl
  · split_ifs with c
    · dsimp only at c ⊢
      rw [max_eq_right (le_of_lt c)]
    · dsimp only at c ⊢
      rw [max_eq_left (Nat.not_lt.1 c)]
  · split_ifs <;> rfl
  · split_ifs <;> rfl
  · split_ifs <;> rfl

theorem ipf_write_size_mono (env : Env) (pf : pf_context_t) (h : Host)
    (ptr : Option (Nat → Byte)) (size : Nat) :
    pf.encrypted_part_plain.size ≤ (ipf_write env pf h ptr size).2.1.encrypted_part_plain.size := by
  unfold ipf_write
  split_ifs
  · exact le_refl _
  · exact le_refl _
  · exact le_refl _
  · dsimp only
    obtain ⟨-, -, z, -⟩ := write_to_md_spec ptr pf size
    exact le_trans (by rw [z]; exact le_max_left _ _) (write_data_nodes_size_mono ..)
  · exact write_data_nodes_size_mono ..

theorem ipf_write_inline (env : Env) (pf : pf_context_t) (h : Host)
    (ptr : Option (Nat → Byte)) (size : Nat) (hi : Inline pf)
    (ho : pf.offset ≤ pf.encrypted_part_plain.size)
    (hle : (ipf_write env pf h ptr size).2.1.encrypted_part_plain.size ≤ MD_USER_DATA_SIZE) :
    Inline (ipf_write env pf h ptr size).2.1 ∧
    (ipf_write env pf h ptr size).2.2.trace = h.trace := by
  obtain ⟨i1, i2, i3, i4⟩ := hi
  unfold ipf_write at hle ⊢
  split_ifs at hle ⊢ with c1 c2 c3 c4
  · exact ⟨⟨i1, i2, i3, i4⟩, rfl⟩
  · exact ⟨⟨i1, i2, i3, i4⟩, rfl⟩
  · exact ⟨⟨i1, i2, i3, i4⟩, rfl⟩
  · dsimp only at hle ⊢
    obtain ⟨z1, z2, z3, z4, z5, z6⟩ := write_to_md_spec ptr pf size
    have mono := write_data_nodes_size_mono env ptr (write_to_md ptr pf size).1
      (write_to_md ptr pf size).2 h (size - (write_to_md ptr pf size).1)
      (write_to_md ptr pf size).1
    have hsz : (write_to_md ptr pf size).2.encrypted_part_plain.size ≤ MD_USER_DATA_SIZE :=
      le_trans mono hle
    have hi2 : Inline (write_to_md ptr pf size).2 :=
      ⟨hsz, by rw [z4]; exact i2, by rw [z5]; exact i3, by rw [z6]; exact i4⟩
    by_cases hl : (write_to_md ptr pf size).1 = 0
    · rw [hl]
      unfold write_data_nodes
      cases hq : size - 0 <;> exact ⟨hi2, rfl⟩
    · refine write_data_nodes_inline env ptr _ _ h _ _ hi2 ?_ ?_ hle
      · rw [z2]; rw [z1] at hl; omega
      · rw [z3]; rw [z1] at hl; omega
  · dsimp only at hle ⊢
    have mono := write_data_nodes_size_mono env ptr size pf h (size - size) size
    refine write_data_nodes_inline env ptr _ _ h _ _ ⟨i1, i2, i3, i4⟩ ?_ ?_ hle
    · omega
    · omega

theorem pf_set_size_size_mono (env : Env) (pf : pf_context_t) (h : Host) (n : Nat) :
    pf.encrypted_part_plain.size ≤ (pf_set_size env pf h n).2.1.encrypted_part_plain.size := by
  unfold pf_set_size
  split_ifs
  any_goals exact le_refl _
  dsimp only
  have := ipf_write_size_mono env { pf with offset := pf.encrypted_part_plain.size } h none
    (n - pf.encrypted_part_plain.size)
  split_ifs <;> exact this

theorem pf_set_size_inline (env : Env) (pf : pf_context_t) (h : Host) (n : Nat)
    (hi : Inline pf)
    (hle : (pf_set_size env pf h n).2.1.encrypted_part_plain.size ≤ MD_USER_DATA_SIZE) :
    Inline (pf_set_size env pf h n).2.1 ∧ (pf_set_size env pf h n).2.2.trace = h.trace := by
  unfold pf_set_size at hle ⊢
  by_cases c1 : (!env.g_initialized) = true
  · rw [if_pos c1]; exact ⟨hi, rfl⟩
  · rw [if_neg c1] at hle ⊢
    by_cases c2 : (!mode_has pf.mode PF_FILE_MODE_WRITE) = true
    · rw [if_pos c2]; exact ⟨hi, rfl⟩
    · rw [if_neg c2] at hle ⊢
      by_cases c3 : n = pf.encrypted_part_plain.size
      · rw [if_pos c3]; exact ⟨hi, rfl⟩
      · rw [if_neg c3] at hle ⊢
        by_cases c4 : n > pf.encrypted_part_plain.size
        · rw [if_pos c4] at hle ⊢
          dsimp only at hle ⊢
          have := ipf_write_inline env { pf with offset := pf.encrypted_part_plain.size } h none
            (n - pf.encrypted_part_plain.size) hi (le_refl _)
          split_ifs at hle ⊢ <;> exact this hle
        · rw [if_neg c4]; exact ⟨hi, rfl⟩


theorem write_data_nodes_offset_le (env : Env) (ptr : Option (Nat → Byte)) (fuel : Nat)
    (pf : pf_context_t) (h : Host) (w left : Nat)
    (ho : pf.offset ≤ pf.encrypted_part_plain.size) :
    (write_data_nodes env ptr fuel pf h w left).2.1.offset
      ≤ (write_data_nodes env ptr fuel pf h w left).2.1.encrypted_part_plain.size := by
  induction fuel generalizing pf h w left with
  | zero =>
    unfold write_data_nodes
    split_ifs <;> exact ho
  | succ fuel ih =>
    unfold write_data_nodes
    split_ifs
    · dsimp only
      have st := ipf_get_data_node_stable env pf h
      rcases hg : ipf_get_data_node env pf h with ⟨o, pf1, h1⟩
      rw [hg] at st
      dsimp only at st
      cases o with
      | none =>
        dsimp only
        rw [offset_of_stable st, size_of_stable st]
        exact ho
      | some p =>
        dsimp only
        obtain ⟨-, z2, z3⟩ := write_to_data_node_size ptr pf1 p w left
        apply ih
        rw [z2, z3]
        exact le_max_right _ _
    · exact ho

theorem ipf_write_offset_le (env : Env) (pf : pf_context_t) (h : Host)
    (ptr : Option (Nat → Byte)) (size : Nat) (ho : pf.offset ≤ pf.encrypted_part_plain.size) :
    (ipf_write env pf h ptr size).2.1.offset
      ≤ (ipf_write env pf h ptr size).2.1.encrypted_part_plain.size := by
  unfold ipf_write
  split_ifs
  · exact ho
  · exact ho
  · exact ho
  · dsimp only
    obtain ⟨-, z2, z3, -⟩ := write_to_md_spec ptr pf size
    apply write_data_nodes_offset_le
    rw [z2, z3]
    exact le_max_right _ _
  · exact write_data_nodes_offset_le _ _ _ _ _ _ _ ho

theorem ipf_seek_size_mono (env : Env) (pf : pf_context_t) (h : Host) (n : Nat) :
    pf.encrypted_part_plain.size ≤ (ipf_seek env pf h n).2.1.encrypted_part_plain.size := by
  unfold ipf_seek
  have m := pf_set_size_size_mono env pf h n
  split_ifs
  · exact le_refl _
  · exact le_refl _
  · dsimp only
    rcases hs : pf_set_size env pf h n with ⟨s, pf1, h1⟩
    rw [hs] at m
    cases hp : PF_SUCCESS s <;> exact m
  · exact le_refl _

theorem pf_set_size_grow_offset_le (env : Env) (pf : pf_context_t) (h : Host) (n : Nat)
    (hn : ¬ n ≤ pf.encrypted_part_plain.size)
    (hs : PF_SUCCESS (pf_set_size env pf h n).1 = true) :
    (pf_set_size env pf h n).2.1.offset
      ≤ (pf_set_size env pf h n).2.1.encrypted_part_plain.size := by
  unfold pf_set_size at hs ⊢
  by_cases c1 : (!env.g_initialized) = true
  · rw [if_pos c1] at hs; simp [PF_SUCCESS] at hs
  · rw [if_neg c1] at hs ⊢
    by_cases c2 : (!mode_has pf.mode PF_FILE_MODE_WRITE) = true
    · rw [if_pos c2] at hs; simp [PF_SUCCESS] at hs
    · rw [if_neg c2] at hs ⊢
      have c3 : ¬ n = pf.encrypted_part_plain.size := by omega
      have c4 : n > pf.encrypted_part_plain.size := by omega
      rw [if_neg c3, if_pos c4]
      dsimp only
      have := ipf_write_offset_le env { pf with offset := pf.encrypted_part_plain.size } h
        none (n - pf.encrypted_part_plain.size) (le_refl _)
      split_ifs <;> exact this

theorem ipf_seek_inline (env : Env) (pf : pf_context_t) (h : Host) (n : Nat) (hi : Inline pf)
    (hle : (ipf_seek env pf h n).2.1.encrypted_part_plain.size ≤ MD_USER_DATA_SIZE) :
    Inline (ipf_seek env pf h n).2.1 ∧ (ipf_seek env pf h n).2.2.trace = h.trace ∧
    ((ipf_seek env pf h n).1 = true →
      (ipf_seek env pf h n).2.1.offset ≤ (ipf_seek env pf h n).2.1.encrypted_part_plain.size) := by
  unfold ipf_seek at hle ⊢
  split_ifs at hle ⊢ with c1 c2 c3
  · exact ⟨hi, rfl, by simp⟩
  · exact ⟨hi, rfl, fun _ => c2⟩
  · dsimp only at hle ⊢
    have a := pf_set_size_inline env pf h n hi
    have b := pf_set_size_grow_offset_le env pf h n c2
    rcases hs : pf_set_size env pf h n with ⟨s, pf1, h1⟩
    rw [hs] at a b hle
    cases hp : PF_SUCCESS s
    · rw [hp] at hle
      dsimp only at a b hle ⊢
      obtain ⟨a1, a2⟩ := a hle
      exact ⟨a1, a2, by simp⟩
    · rw [hp] at hle
      dsimp only at a b hle ⊢
      obtain ⟨a1, a2⟩ := a hle
      exact ⟨a1, a2, fun _ => b hp⟩
  · exact ⟨hi, rfl, by simp⟩

theorem pf_write_inline (env : Env) (pf : pf_context_t) (h : Host) (o n : Nat)
    (input : Option (Nat → Byte)) (hi : Inline pf)
    (hle : (pf_write env pf h o n input).2.1.encrypted_part_plain.size ≤ MD_USER_DATA_SIZE) :
    Inline (pf_write env pf h o n input).2.1 ∧
    (pf_write env pf h o n input).2.2.trace = h.trace := by
  unfold pf_write at hle ⊢
  split_ifs at hle ⊢
  · exact ⟨hi, rfl⟩
  · have a := ipf_seek_inline env pf h o hi
    rcases hs : ipf_seek env pf h o with ⟨b, pf1, h1⟩
    rw [hs] at a hle
    cases b
    · dsimp only at a hle ⊢
      obtain ⟨a1, a2, -⟩ := a hle
      exact ⟨a1, a2⟩
    · dsimp only at a hle ⊢
      have m := ipf_write_size_mono env pf1 h1 input n
      have w := ipf_write_inline env pf1 h1 input n
      rcases hw : ipf_write env pf1 h1 input n with ⟨c, pf2, h2⟩
      rw [hw] at m w hle
      dsimp only at m w hle ⊢
      have hle2 : pf2.encrypted_part_plain.size ≤ MD_USER_DATA_SIZE := by
        split_ifs at hle <;> exact hle
      obtain ⟨a1, a2, a3⟩ := a (le_trans m hle2)
      obtain ⟨w1, w2⟩ := w a1 (a3 rfl) hle2
      split_ifs <;> exact ⟨w1, w2.trans a2⟩

theorem pf_flush_inline (env : Env) (pf : pf_context_t) (h : Host) (hi : Inline pf) :
    Inline (pf_flush env pf h).2.1 ∧ only_inline_events h (pf_flush env pf h).2.2 := by
  unfold pf_flush
  split_ifs
  · exact ⟨hi, only_inline_events_refl h⟩
  · have a := ipf_internal_flush_inline env pf h hi
    rcases hf : ipf_internal_flush env pf h with ⟨b, pf1, h1⟩
    rw [hf] at a
    cases b <;> exact a

theorem run_calls_inline (env : Env) (calls : List InlineCall) (s : pf_context_t × Host)
    (hi : Inline s.1) (hst : stays_inline env calls s) :
    Inline (run_calls env calls s).1 ∧ only_inline_events s.2 (run_calls env calls s).2 := by
  induction calls generalizing s with
  | nil => exact ⟨hi, only_inline_events_refl _⟩
  | cons c cs ih =>
    obtain ⟨h1, h2⟩ := hst
    have step : Inline (c.run env s).1 ∧ only_inline_events s.2 (c.run env s).2 := by
      cases c with
      | write o n input =>
        obtain ⟨a, b⟩ := pf_write_inline env s.1 s.2 o n input hi h1
        exact ⟨a, only_inline_events_of_trace_eq b⟩
      | flush => exact pf_flush_inline env s.1 s.2 hi
    obtain ⟨a, b⟩ := ih (c.run env s) step.1 h2
    exact ⟨a, only_inline_events_trans step.2 b⟩

theorem retry_flush_inline (env : Env) (pf : pf_context_t) (h : Host) (hi : Inline pf) :
    Inline (retry_flush env pf h).1 ∧ only_inline_events h (retry_flush env pf h).2 := by
  unfold retry_flush
  by_cases c : pf.file_status = FLUSH_ERROR
  · rw [if_pos c]
    have a := ipf_internal_flush_inline env pf h hi
    rcases hf : ipf_internal_flush env pf h with ⟨b, pf1, h1⟩
    rw [hf] at a
    cases b
    · exact a
    · exact ⟨inline_congr a.1 rfl rfl rfl rfl, a.2⟩
  · rw [if_neg c]
    exact ⟨hi, only_inline_events_refl h⟩

theorem retry_write_all_inline (env : Env) (pf : pf_context_t) (h : Host) (hi : Inline pf) :
    Inline (retry_write_all env pf h).1 ∧ only_inline_events h (retry_write_all env pf h).2 := by
  unfold retry_write_all
  by_cases c : pf.file_status = WRITE_TO_DISK_FAILED
  · rw [if_pos c]
    have a := ipf_write_all_changes_to_disk_inline env pf h hi
    rcases hf : ipf_write_all_changes_to_disk env pf h with ⟨b, pf1, h1⟩
    rw [hf] at a
    cases b
    · exact a
    · exact ⟨inline_congr a.1 rfl rfl rfl rfl, a.2⟩
  · rw [if_neg c]
    exact ⟨hi, only_inline_events_refl h⟩

theorem ipf_try_clear_error_inline (env : Env) (pf : pf_context_t) (h : Host) (hi : Inline pf) :
    Inline (ipf_try_clear_error env pf h).1 ∧
    only_inline_events h (ipf_try_clear_error env pf h).2 := by
  unfold ipf_try_clear_error
  by_cases c : pf.file_status = UNINITIALIZED ∨ pf.file_status = CRYPTO_ERROR ∨
      pf.file_status = CORRUPTED
  · rw [if_pos c]
    exact ⟨hi, only_inline_events_refl h⟩
  · rw [if_neg c]
    dsimp only
    obtain ⟨x1, x2⟩ := retry_flush_inline env pf h hi
    obtain ⟨y1, y2⟩ := retry_write_all_inline env (retry_flush env pf h).1
      (retry_flush env pf h).2 x1
    have y3 := only_inline_events_trans x2 y2
    by_cases c3 : (retry_write_all env (retry_flush env pf h).1
        (retry_flush env pf h).2).1.file_status = SUCCESS
    · rw [if_pos c3]
      exact ⟨inline_congr y1 rfl rfl rfl rfl, y3⟩
    · rw [if_neg c3]
      exact ⟨y1, y3⟩

theorem cb_delete_trace (env : Env) (h : Host) :
    (cb_delete env h).2.trace = h.trace ++ [.delete .recovery] := by
  unfold cb_delete
  dsimp only
  split_ifs <;> rfl

theorem ipf_erase_recovery_file_inline (env : Env) (pf : pf_context_t) (h : Host) :
    only_inline_events h (ipf_erase_recovery_file env pf h).2.2 := by
  unfold ipf_erase_recovery_file
  by_cases c : pf.recovery_path = []
  · rw [if_pos c]
    exact only_inline_events_refl h
  · rw [if_neg c]
    have t := cb_delete_trace env h
    rcases hd : cb_delete env h with ⟨s, h1⟩
    rw [hd] at t
    dsimp only at t ⊢
    have ev : only_inline_events h h1 :=
      only_inline_events_tick _ (by simp [inline_event_ok]) t
    split_ifs <;> exact ev

theorem ipf_close_inline (env : Env) (pf : pf_context_t) (h : Host) (hi : Inline pf) :
    only_inline_events h (ipf_close env pf h).2.2 := by
  unfold ipf_close
  dsimp only
  have tail : ∀ x : Bool × pf_context_t × Host, only_inline_events h x.2.2 →
      only_inline_events h
        (if x.2.1.file_status = SUCCESS ∧ x.2.1.last_error = SUCCESS then
          match ipf_erase_recovery_file env x.2.1 x.2.2 with
          | (_, pf2, h2) => (pf2, h2)
        else (x.2.1, x.2.2)).2 := by
    intro x hx
    by_cases c : x.2.1.file_status = SUCCESS ∧ x.2.1.last_error = SUCCESS
    · rw [if_pos c]
      exact only_inline_events_trans hx (ipf_erase_recovery_file_inline env x.2.1 x.2.2)
    · rw [if_neg c]
      exact hx
  by_cases c : pf.file_status ≠ SUCCESS
  · rw [if_pos c]
    exact tail (false, ipf_try_clear_error env pf h) (ipf_try_clear_error_inline env pf h hi).2
  · rw [if_neg c]
    exact tail (ipf_internal_flush env pf h) (ipf_internal_flush_inline env pf h hi).2

theorem pf_close_inline (env : Env) (pf : pf_context_t) (h : Host) (hi : Inline pf) :
    only_inline_events h (pf_close env pf h).2 := by
  unfold pf_close
  split_ifs
  · exact only_inline_events_refl h
  · have a := ipf_close_inline env pf h hi
    rcases hc : ipf_close env pf h with ⟨b, pf1, h1⟩
    rw [hc] at a
    cases b <;> exact a

theorem ipf_init_session_master_key_inline (env : Env) (pf : pf_context_t) (h : Host)
    (hi : Inline pf) :
    Inline (ipf_init_session_master_key env pf h).2.1 ∧
    only_inline_events h (ipf_init_session_master_key env pf h).2.2 := by
  obtain ⟨i1, i2, i3, i4⟩ := hi
  have ev : only_inline_events h (h.tick .random) :=
    only_inline_events_tick .random (by simp [inline_event_ok]) rfl
  have e0 := only_inline_events_refl h
  unfold ipf_init_session_master_key ipf_generate_secure_blob cb_random
  by_cases c0 : MASTER_KEY_NAME.length > MAX_LABEL_SIZE - 1
  · rw [if_pos c0]
    exact ⟨⟨i1, i2, i3, i4⟩, e0⟩
  · rw [if_neg c0]
    try dsimp only
    by_cases c1 : PF_FAILURE (env.random h.clock).1 = true
    · rw [if_pos c1]
      exact ⟨⟨i1, i2, i3, i4⟩, ev⟩
    · rw [if_neg c1]
      split_ifs <;> exact ⟨⟨i1, i2, i3, i4⟩, ev⟩

theorem ipf_init_fields_inline : Inline ipf_init_fields :=
  ⟨Nat.zero_le _, rfl, rfl, rfl⟩

theorem ipf_init_new_file_inline (env : Env) (pf : pf_context_t) (path : Option Path)
    (hi : Inline pf) : Inline (ipf_init_new_file env pf path) := by
  obtain ⟨i1, i2, i3, i4⟩ := hi
  exact ⟨i1, i2, i3, i4⟩

theorem ipf_open_out_some {status : pf_status_t} {pf : pf_context_t} {h : Host}
    {st : pf_status_t} {pf1 : pf_context_t} {h1 : Host}
    (e : ipf_open_out status pf h = (some pf1, st, h1)) : pf1 = pf ∧ h1 = h := by
  unfold ipf_open_out at e
  split_ifs at e
  · simp at e
  · simp only [Prod.mk.injEq, Option.some.injEq] at e
    exact ⟨e.1.symm, e.2.2.symm⟩

theorem ipf_open_create_inline (env : Env) (h0 : Host) (path : Option Path)
    (mode : pf_file_mode_t) (file : Option pf_handle_t) (real_size : Nat)
    (kdk_key : Option pf_key_t) (enable_recovery : Bool)
    (pf : pf_context_t) (st : pf_status_t) (h1 : Host)
    (e : ipf_open env h0 path mode true file real_size kdk_key enable_recovery
      = (some pf, st, h1)) :
    Inline pf ∧ only_inline_events h0 h1 := by
  unfold ipf_open at e
  try dsimp only at e
  unfold alloc at e
  try dsimp only at e
  have a0 : only_inline_events h0 { h0 with allocs := h0.allocs + 1 } :=
    only_inline_events_of_trace_eq rfl
  cases ha : env.alloc_ok h0.allocs
  · rw [ha] at e
    simp at e
  · rw [ha] at e
    try dsimp only at e
    cases kdk_key with
    | none =>
      try dsimp only at e
      obtain ⟨rfl, rfl⟩ := ipf_open_out_some e
      exact ⟨ipf_init_fields_inline, a0⟩
    | some kdk =>
      try dsimp only at e
      split_ifs at e with c1 c2
      · obtain ⟨rfl, rfl⟩ := ipf_open_out_some e
        exact ⟨ipf_init_fields_inline, a0⟩
      all_goals try (exact absurd ‹(!true) = true› (by decide))
      all_goals
        obtain ⟨k1, k2⟩ := ipf_init_session_master_key_inline env ipf_init_fields
          { h0 with allocs := h0.allocs + 1 } ipf_init_fields_inline
        have k3 := only_inline_events_trans a0 k2
        rcases hk : ipf_init_session_master_key env ipf_init_fields
          { h0 with allocs := h0.allocs + 1 } with ⟨b, pf1, hh1⟩
        rw [hk] at e k1 k3
        try dsimp only at k1 k3
        cases b
        · try dsimp only at e
          obtain ⟨rfl, rfl⟩ := ipf_open_out_some e
          exact ⟨k1, k3⟩
        · try dsimp only at e
          cases file with
          | none =>
            try dsimp only at e
            obtain ⟨rfl, rfl⟩ := ipf_open_out_some e
            exact ⟨inline_congr k1 rfl rfl rfl rfl, k3⟩
          | some handle =>
            try dsimp only at e
            obtain ⟨rfl, rfl⟩ := ipf_open_out_some e
            first
              | exact ⟨inline_congr k1 rfl rfl rfl rfl, k3⟩
              | (refine ⟨inline_congr (ipf_init_new_file_inline env _ path ?_) rfl rfl rfl rfl, k3⟩
                 cases path with
                 | none => exact inline_congr k1 rfl rfl rfl rfl
                 | some p =>
                   try dsimp only
                   exact inline_congr k1 rfl rfl rfl rfl)

/-- C8: for a newly created file and any sequence of `pf_write` and
`pf_flush` calls after which the plaintext size is each time at most
`MD_USER_DATA_SIZE`, followed or not by `pf_close`, every callback made since
before the open is one the inline scenario allows: a write goes only to
offset 0 of the protected file (block 0) and never carries `update_flag = 1`,
and the recovery file is neither opened nor written. -/
theorem inline_fast_path (env : Env) (h0 : Host) (handle : Option pf_handle_t)
    (path : Option Path) (underlying_size : Nat) (mode : pf_file_mode_t)
    (enable_recovery : Bool) (key : Option pf_key_t) (st : pf_status_t) (pf : pf_context_t)
    (h1 : Host) (calls : List InlineCall)
    (hopen : pf_open env h0 handle path underlying_size mode true enable_recovery key
      = (st, some pf, h1))
    (hstay : stays_inline env calls (pf, h1)) :
    only_inline_events h0 (run_calls env calls (pf, h1)).2 ∧
    only_inline_events h0
      (pf_close env (run_calls env calls (pf, h1)).1 (run_calls env calls (pf, h1)).2).2 := by
  have hop : Inline pf ∧ only_inline_events h0 h1 := by
    unfold pf_open at hopen
    split_ifs at hopen
    · simp at hopen
    · rcases ho : ipf_open env h0 path mode true handle underlying_size key enable_recovery
        with ⟨c, s, hh⟩
      rw [ho] at hopen
      simp only [Prod.mk.injEq] at hopen
      obtain ⟨-, rfl, rfl⟩ := hopen
      exact ipf_open_create_inline _ _ _ _ _ _ _ _ _ _ _ ho
  obtain ⟨r1, r2⟩ := run_calls_inline env calls (pf, h1) hop.1 hstay
  have r3 := only_inline_events_trans hop.2 r2
  exact ⟨r3, only_inline_events_trans r3 (pf_close_inline env _ _ r1)⟩


/-- The new file `a`: five bytes written, flushed, then closed. -/
theorem inline_fast_path_witness :
    pf_open example_env example_host (some .source) (some ['a']) 0
        (PF_FILE_MODE_READ + PF_FILE_MODE_WRITE) true false (some 7)
      = (SUCCESS, some example_created.1, example_created.2) ∧
    stays_inline example_env [.write 0 5 (some (fun _ => 65)), .flush] example_created ∧
    only_inline_events example_host
      (run_calls example_env [.write 0 5 (some (fun _ => 65)), .flush] example_created).2 ∧
    only_inline_events example_host
      (pf_close example_env
        (run_calls example_env [.write 0 5 (some (fun _ => 65)), .flush] example_created).1
        (run_calls example_env [.write 0 5 (some (fun _ => 65)), .flush] example_created).2).2 :=
  ⟨rfl, ⟨by decide!, by decide!, trivial⟩,
    inline_fast_path example_env example_host (some .source) (some ['a']) 0
      (PF_FILE_MODE_READ + PF_FILE_MODE_WRITE) false (some 7) SUCCESS example_created.1
      example_created.2 [.write 0 5 (some (fun _ => 65)), .flush] rfl
      ⟨by decide!, by decide!, trivial⟩⟩

/-! ## Theorems: argument and mode checks of `pf_write` -/

theorem ipf_seek_within (env : Env) (pf : pf_context_t) (h : Host) (o : Nat)
    (hst : pf.file_status = SUCCESS) (ho : o ≤ pf.encrypted_part_plain.size) :
    ipf_seek env pf h o = (true, { pf with offset := o, end_of_file := false }, h) := by
  unfold ipf_seek
  simp [hst, PF_FAILURE, ho]

/-- C19: `pf_write` of 0 bytes returns `SUCCESS`.  On the five-byte writable
file a write of 0 bytes at offset 2 records `INVALID_PARAMETER` in
`last_error` (and writes nothing), but `ipf_write` returns 0, which equals the
requested size, so `pf_write` returns `SUCCESS`. -/
theorem pf_write_zero_size_returns_success :
    example_five_bytes.1.file_status = SUCCESS ∧
    (ipf_write example_env
      (ipf_seek example_env example_five_bytes.1 example_five_bytes.2 2).2.1
      example_five_bytes.2 none 0).1 = 0 ∧
    (pf_write example_env example_five_bytes.1 example_five_bytes.2 2 0 none).1 = SUCCESS ∧
    (pf_write example_env example_five_bytes.1 example_five_bytes.2 2 0 none).2.1.last_error
      = INVALID_PARAMETER ∧
    (pf_write example_env example_five_bytes.1 example_five_bytes.2 2 0
      none).2.1.encrypted_part_plain.size = 5 := by
  decide!

/-- C20: with the callbacks set, on every context with file status `SUCCESS`
whose mode lacks `WRITE`, for every offset within the file and every
`n > 0`, `pf_write` returns `INVALID_MODE` and changes nothing but the offset,
the end-of-file flag and `last_error`: plaintext size, inline data, every
cached node and all dirty flags stay as they were, and the host is
untouched. -/
theorem pf_write_not_writable (env : Env) (pf : pf_context_t) (h : Host) (o n : Nat)
    (input : Option (Nat → Byte)) (hinit : env.g_initialized = true)
    (hst : pf.file_status = SUCCESS) (hm : mode_has pf.mode PF_FILE_MODE_WRITE = false)
    (ho : o ≤ pf.encrypted_part_plain.size) (hn : 0 < n) :
    pf_write env pf h o n input =
      (INVALID_MODE, { pf with offset := o, end_of_file := false, last_error := INVALID_MODE },
        h) := by
  unfold pf_write
  rw [ipf_seek_within env pf h o hst ho]
  have hn0 : n ≠ 0 := by omega
  have hn1 : ¬ 0 = n := by omega
  simp [hinit, ipf_write, hn0, hn1, hst, PF_FAILURE, hm]

/-- A write of 3 bytes at offset 1 of the five-byte file opened read-only. -/
theorem pf_write_not_writable_witness :
    example_env.g_initialized = true ∧ example_read_only.1.file_status = SUCCESS ∧
    mode_has example_read_only.1.mode PF_FILE_MODE_WRITE = false ∧
    1 ≤ example_read_only.1.encrypted_part_plain.size ∧ 0 < 3 ∧
    pf_write example_env example_read_only.1 example_read_only.2 1 3 (some (fun _ => 66)) =
      (INVALID_MODE,
        { example_read_only.1 with
            offset := 1, end_of_file := false, last_error := INVALID_MODE },
        example_read_only.2) :=
  ⟨rfl, by decide!, by decide!, by decide!, by decide,
    pf_write_not_writable example_env example_read_only.1 example_read_only.2 1 3
      (some (fun _ => 66)) rfl (by decide!) (by decide!) (by decide!) (by decide)⟩

/-! ## Theorems: status returned by the public API -/

/-- C5: `pf_read` past the end of file returns `SUCCESS`.  On the five-byte
file, whose `last_error` is `SUCCESS`, a read of 10 bytes at offset 0 and a
read of 1 byte at offset 5 (the end of file) both return `SUCCESS`, although
`ipf_read` delivers only 5 and 0 bytes. -/
theorem pf_read_short_returns_success :
    example_five_bytes.1.file_status = SUCCESS ∧
    mode_has example_five_bytes.1.mode PF_FILE_MODE_READ = true ∧
    example_five_bytes.1.encrypted_part_plain.size = 5 ∧
    (ipf_read example_env
      (ipf_seek example_env example_five_bytes.1 example_five_bytes.2 0).2.1
      example_five_bytes.2 (some zero_bytes) 10).1 = 5 ∧
    (pf_read example_env example_five_bytes.1 example_five_bytes.2 0 10 (some zero_bytes)).1
      = SUCCESS ∧
    (pf_read example_env example_five_bytes.1 example_five_bytes.2 5 1 (some zero_bytes)).1
      = SUCCESS := by
  decide!

/-- C7, as stated, fails: on the five-byte file opened read-only,
`pf_set_size` to 3 returns `INVALID_MODE`, not `NOT_IMPLEMENTED`. -/
theorem pf_set_size_shrink_read_only :
    example_read_only.1.encrypted_part_plain.size = 5 ∧
    (pf_set_size example_env example_read_only.1 example_read_only.2 3).1 = INVALID_MODE ∧
    (pf_set_size example_env example_read_only.1 example_read_only.2 3).1
      ≠ NOT_IMPLEMENTED := by
  decide!

/-- C7, amended: for every context and every `n` smaller than the current
plaintext size, `pf_set_size n` leaves the context and the host unchanged; it
returns `NOT_IMPLEMENTED` when the callbacks are set and the file is writable,
`INVALID_MODE` when the file is not writable, and `UNINITIALIZED` before
`pf_set_callbacks`. -/
theorem pf_set_size_shrink (env : Env) (pf : pf_context_t) (h : Host) (n : Nat)
    (hn : n < pf.encrypted_part_plain.size) :
    pf_set_size env pf h n =
      (if !env.g_initialized then UNINITIALIZED
        else if !mode_has pf.mode PF_FILE_MODE_WRITE then INVALID_MODE
        else NOT_IMPLEMENTED, pf, h) := by
  unfold pf_set_size
  have h1 : ¬ n = pf.encrypted_part_plain.size := by omega
  have h2 : ¬ n > pf.encrypted_part_plain.size := by omega
  by_cases hi : env.g_initialized <;> by_cases hm : mode_has pf.mode PF_FILE_MODE_WRITE <;>
    simp [hi, hm, h1, h2]

/-- Shrinking the five-byte file, opened writable, to 3 bytes. -/
theorem pf_set_size_shrink_witness :
    3 < example_five_bytes.1.encrypted_part_plain.size ∧
    pf_set_size example_env example_five_bytes.1 example_five_bytes.2 3 =
      (if !example_env.g_initialized then UNINITIALIZED
        else if !mode_has example_five_bytes.1.mode PF_FILE_MODE_WRITE then INVALID_MODE
        else NOT_IMPLEMENTED, example_five_bytes.1, example_five_bytes.2) :=
  ⟨by decide!, pf_set_size_shrink example_env example_five_bytes.1 example_five_bytes.2 3
    (by decide!)⟩

/-- C9: opening the file created as `a` under the path `b` (same key, metadata
decrypts) yields no context and the status `NO_MEMORY`, not `INVALID_PATH`;
under the path `a` the same open succeeds. -/
theorem pf_open_wrong_path_status :
    (pf_open example_env example_closed (some .source) (some ['a']) example_closed.file_size
      PF_FILE_MODE_READ false false (some 7)).1 = SUCCESS ∧
    (pf_open example_env example_closed (some .source) (some ['b']) example_closed.file_size
      PF_FILE_MODE_READ false false (some 7)).1 = NO_MEMORY ∧
    (pf_open example_env example_closed (some .source) (some ['b']) example_closed.file_size
      PF_FILE_MODE_READ false false (some 7)).2.1.isNone = true := by
  decide!

/-- C10: opening a file whose block 0 has a foreign `file_id`, and one whose
`file_id` matches but whose major version is 2, both yield no context and the
status `NO_MEMORY`, not `INVALID_HEADER` or `INVALID_VERSION`. -/
theorem pf_open_bad_header_status :
    (example_host.file 0).as_meta.plain_part.file_id ≠ example_env.PF_FILE_ID ∧
    (pf_open example_env example_host (some .source) (some ['a']) 4096
      PF_FILE_MODE_READ false false (some 7)).1 = NO_MEMORY ∧
    (pf_open example_env example_host (some .source) (some ['a']) 4096
      PF_FILE_MODE_READ false false (some 7)).2.1.isNone = true ∧
    (example_bad_version_host.file 0).as_meta.plain_part.file_id = example_env.PF_FILE_ID ∧
    (example_bad_version_host.file 0).as_meta.plain_part.major_version
      ≠ example_env.PF_MAJOR_VERSION ∧
    (pf_open example_env example_bad_version_host (some .source) (some ['a']) 4096
      PF_FILE_MODE_READ false false (some 7)).1 = NO_MEMORY ∧
    (pf_open example_env example_bad_version_host (some .source) (some ['a']) 4096
      PF_FILE_MODE_READ false false (some 7)).2.1.isNone = true := by
  decide!

/-! ## Theorems: the file status gate -/

/-- On a context whose file status is a failure, `pf_read`, `pf_write` and a
growing `pf_set_size` return a failure status. -/
theorem failure_status_gates (env : Env) (pf : pf_context_t) (h : Host) (o n : Nat)
    (buf : Option (Nat → Byte)) (hst : pf.file_status ≠ SUCCESS) :
    (pf_read env pf h o n buf).1 ≠ SUCCESS ∧ (pf_write env pf h o n buf).1 ≠ SUCCESS ∧
    (pf.encrypted_part_plain.size < n → (pf_set_size env pf h n).1 ≠ SUCCESS) := by
  refine ⟨?_, ?_, ?_⟩
  · unfold pf_read ipf_seek
    by_cases hi : env.g_initialized <;> simp [hi, PF_FAILURE, hst]
  · unfold pf_write ipf_seek
    by_cases hi : env.g_initialized <;> simp [hi, PF_FAILURE, hst]
  · intro hn
    unfold pf_set_size ipf_write
    have h1 : ¬ n = pf.encrypted_part_plain.size := by omega
    have h2 : ¬ n - pf.encrypted_part_plain.size = 0 := by omega
    have h3 : ¬ 0 = n - pf.encrypted_part_plain.size := by omega
    by_cases hi : env.g_initialized <;> by_cases hm : mode_has pf.mode PF_FILE_MODE_WRITE <;>
      simp [hi, hm, h1, h2, h3, hn, PF_FAILURE, hst]

/-- C12: `pf_flush` on a `CORRUPTED` context returns `SUCCESS`.  After the
failing read of the changed one-node file the context is `CORRUPTED`;
`pf_read`, `pf_write` and a growing `pf_set_size` then return `CORRUPTED`, but
`pf_flush` returns `SUCCESS`.  When the context also holds an unwritten change
(one byte `Q` written before the failing read), `pf_flush` writes it to block 0
and returns `SUCCESS`. -/
theorem pf_flush_on_corrupted_returns_success :
    example_corrupted.1.file_status = CORRUPTED ∧
    (pf_read example_env example_corrupted.1 example_corrupted.2 0 1 (some zero_bytes)).1
      = CORRUPTED ∧
    (pf_write example_env example_corrupted.1 example_corrupted.2 0 1 (some zero_bytes)).1
      = CORRUPTED ∧
    (pf_set_size example_env example_corrupted.1 example_corrupted.2
      (example_corrupted.1.encrypted_part_plain.size + 1)).1 = CORRUPTED ∧
    (pf_flush example_env example_corrupted.1 example_corrupted.2).1 = SUCCESS ∧
    example_corrupted_dirty.1.file_status = CORRUPTED ∧
    example_corrupted_dirty.1.need_writing = true ∧
    ((example_corrupted_dirty.2.file 0).as_meta.encrypted_part.as_md.data 0).val = 90 ∧
    (pf_flush example_env example_corrupted_dirty.1 example_corrupted_dirty.2).1 = SUCCESS ∧
    (((pf_flush example_env example_corrupted_dirty.1 example_corrupted_dirty.2).2.2.file
      0).as_meta.encrypted_part.as_md.data 0).val = 81 := by
  decide!

/-! ## Theorems: session master key rotation -/

theorem ipf_generate_secure_blob_key_state (env : Env) (pf : pf_context_t) (h : Host)
    (k : pf_key_t) (l : List Char) (n : Nat) :
    (ipf_generate_secure_blob env pf h k l n).2.1.key_state = pf.key_state := by
  unfold ipf_generate_secure_blob
  repeat' (first | split | dsimp only)
  all_goals rfl

theorem derive_from_master_key_key_state (env : Env) (pf : pf_context_t) (h : Host)
    (k : pf_key_t) (n : Nat) :
    (derive_from_master_key env pf h k n).2.1.key_state = pf.key_state := by
  unfold derive_from_master_key
  have := ipf_generate_secure_blob_key_state env pf h k RANDOM_KEY_NAME n
  split <;> simp_all [pf_context_t.key_state]

/-- Below the usage limit `ipf_derive_random_node_key` counts the use and
derives from the current session master key. -/
theorem ipf_derive_random_node_key_below (env : Env) (pf : pf_context_t) (h : Host) (n : Nat)
    (hc : pf.master_key_count < MAX_MASTER_KEY_USAGES) :
    ipf_derive_random_node_key env pf h n =
      derive_from_master_key env { pf with master_key_count := pf.master_key_count + 1 } h
        pf.session_master_key n := by
  unfold ipf_derive_random_node_key derive_from_master_key
  have : ¬ pf.master_key_count ≥ MAX_MASTER_KEY_USAGES := by omega
  simp only [this, if_false]

/-- At the usage limit `ipf_derive_random_node_key` first regenerates the
session master key and then derives from the new one. -/
theorem ipf_derive_random_node_key_at_limit (env : Env) (pf : pf_context_t) (h : Host) (n : Nat)
    (hc : MAX_MASTER_KEY_USAGES ≤ pf.master_key_count) :
    ipf_derive_random_node_key env pf h n =
      match ipf_init_session_master_key env
          { pf with master_key_count := pf.master_key_count + 1 } h with
      | (false, pf1, h1) => (false, pf1, h1)
      | (true, pf1, h1) => derive_from_master_key env pf1 h1 pf1.session_master_key n := by
  unfold ipf_derive_random_node_key derive_from_master_key
  have : pf.master_key_count ≥ MAX_MASTER_KEY_USAGES := hc
  simp only [this, if_true]

theorem ipf_init_session_master_key_count (env : Env) (pf pf1 : pf_context_t) (h h1 : Host)
    (e : ipf_init_session_master_key env pf h = (true, pf1, h1)) : pf1.master_key_count = 0 := by
  unfold ipf_init_session_master_key at e
  split at e
  · simp at e
  · simp only [Prod.mk.injEq, true_and] at e
    obtain ⟨rfl, -⟩ := e
    rfl

/-- While the count stays within the limit, a run of derivations keeps the
session master key and adds one to the count per call. -/
theorem derive_calls_below (env : Env) (ns : List Nat) (s : pf_context_t × Host)
    (hc : s.1.master_key_count + ns.length ≤ MAX_MASTER_KEY_USAGES) :
    (derive_calls env ns s).1.session_master_key = s.1.session_master_key ∧
    (derive_calls env ns s).1.master_key_count = s.1.master_key_count + ns.length := by
  induction ns generalizing s with
  | nil => exact ⟨rfl, rfl⟩
  | cons n rest ih =>
    simp only [List.length_cons] at hc
    have hlt : s.1.master_key_count < MAX_MASTER_KEY_USAGES := by omega
    have e := ipf_derive_random_node_key_below env s.1 s.2 n hlt
    have k := derive_from_master_key_key_state env
      { s.1 with master_key_count := s.1.master_key_count + 1 } s.2 s.1.session_master_key n
    rw [← e] at k
    simp only [pf_context_t.key_state, Prod.mk.injEq] at k
    unfold derive_calls
    have hc2 : (ipf_derive_random_node_key env s.1 s.2 n).2.1.master_key_count + rest.length
        ≤ MAX_MASTER_KEY_USAGES := by rw [k.2]; omega
    obtain ⟨a, b⟩ := ih (ipf_derive_random_node_key env s.1 s.2 n).2 hc2
    rw [a, b, k.1, k.2, List.length_cons]
    exact ⟨rfl, by omega⟩


theorem ipf_read_node_key_state (env : Env) (pf : pf_context_t) (h : Host) (n : Nat) :
    (ipf_read_node env pf h n).2.1.key_state = pf.key_state := by
  unfold ipf_read_node
  repeat' (first | split | dsimp only)
  all_goals rfl

theorem ipf_read_recovery_node_key_state (env : Env) (pf : pf_context_t) (h : Host) (n : Nat) :
    (ipf_read_recovery_node env pf h n).2.1.key_state = pf.key_state := by
  unfold ipf_read_recovery_node
  repeat' (first | split | dsimp only)
  all_goals rfl

theorem ipf_write_node_key_state (env : Env) (pf : pf_context_t) (h : Host) (n : Nat)
    (b : Block) : (ipf_write_node env pf h n b).2.1.key_state = pf.key_state := by
  unfold ipf_write_node ipf_write_file
  repeat' (first | split | dsimp only)
  all_goals rfl

theorem replay_records_key_state (env : Env) (todo : Nat) (pf : pf_context_t) (h : Host)
    (i : Nat) (r : recovery_node_t) :
    (replay_records env todo pf h i r).2.1.key_state = pf.key_state := by
  induction todo generalizing pf h i r with
  | zero => rfl
  | succ todo ih =>
    unfold replay_records
    have e1 := ipf_read_recovery_node_key_state env pf h i
    rcases hr : ipf_read_recovery_node env pf h i with ⟨b, pf1, h1⟩
    rw [hr] at e1
    cases b with
    | none => exact e1
    | some buffer =>
      dsimp only
      have e2 := ipf_write_node_key_state env pf1 h1 (buffer.getD r).physical_node_number
        (buffer.getD r).encrypted
      rcases hw : ipf_write_node env pf1 h1 (buffer.getD r).physical_node_number
        (buffer.getD r).encrypted with ⟨b2, pf2, h2⟩
      rw [hw] at e2
      cases b2 with
      | false => exact e2.trans e1
      | true =>
        dsimp only
        rw [ih]
        exact e2.trans e1

theorem ipf_do_file_recovery_key_state (env : Env) (pf : pf_context_t) (h : Host)
    (path : Option Path) : (ipf_do_file_recovery env pf h path).2.1.key_state = pf.key_state := by
  unfold ipf_do_file_recovery
  have key : ∀ todo (pf0 : pf_context_t) (h0 : Host) i r b (pf1 : pf_context_t) (h1 : Host),
      replay_records env todo pf0 h0 i r = (b, pf1, h1) → pf1.key_state = pf0.key_state := by
    intro todo pf0 h0 i r b pf1 h1 e
    have := replay_records_key_state env todo pf0 h0 i r
    rw [e] at this
    exact this
  repeat' (first | split | dsimp only)
  all_goals first | rfl | exact key _ _ _ _ _ _ _ _ ‹_›


theorem ipf_file_recovery_key_state (env : Env) (pf : pf_context_t) (h : Host)
    (path : Option Path) : (ipf_file_recovery env pf h path).2.1.key_state = pf.key_state := by
  unfold ipf_file_recovery
  split
  · rfl
  · rcases hc : cb_close env h .source with ⟨st, h1⟩
    dsimp only
    split
    · rfl
    · have e1 := ipf_do_file_recovery_key_state env { pf with file := none } h1 path
      rcases hd : ipf_do_file_recovery env { pf with file := none } h1 path with ⟨ret, pf2, h2⟩
      rw [hd] at e1
      dsimp only
      split
      · exact e1
      · rcases ho : cb_open env h2 .source pf2.mode with ⟨st2, sz, h3⟩
        dsimp only
        split
        · exact e1
        · split
          · exact e1
          · have e2 := ipf_read_node_key_state env { pf2 with file := some .source } h3 0
            rcases hr : ipf_read_node env { pf2 with file := some .source } h3 0
              with ⟨b, pf4, h4⟩
            rw [hr] at e2
            cases b <;> exact e2.trans e1

theorem ipf_generate_secure_blob_from_user_kdk_key_state (env : Env) (pf : pf_context_t)
    (h : Host) (r : Bool) :
    (ipf_generate_secure_blob_from_user_kdk env pf h r).2.1.key_state = pf.key_state := by
  unfold ipf_generate_secure_blob_from_user_kdk
  repeat' (first | split | dsimp only)
  all_goals rfl


theorem ipf_init_existing_file_key_state (env : Env) (pf : pf_context_t) (h : Host)
    (path : Option Path) :
    (ipf_init_existing_file env pf h path).2.1.key_state = pf.key_state := by
  unfold ipf_init_existing_file
  have e0 := ipf_read_node_key_state env pf h 0
  rcases hr : ipf_read_node env pf h 0 with ⟨b, pf0, h1⟩
  rw [hr] at e0
  cases b with
  | none => exact e0
  | some block =>
    dsimp only
    split
    · exact e0
    · split
      · exact e0
      · have step : ∀ b2 (pf2 : pf_context_t) (h2 : Host),
            (if block.as_meta.plain_part.update_flag = 1 then
              match ipf_file_recovery env { pf0 with file_meta_data := block.as_meta } h1 path with
              | (false, pf2, h2) =>
                if pf2.last_error = RECOVERY_IMPOSSIBLE then (false, pf2, h2)
                else (false, { pf2 with last_error := RECOVERY_NEEDED }, h2)
              | (true, pf2, h2) =>
                if pf2.file_meta_data.plain_part.update_flag = 1 then
                  (false, { pf2 with last_error := RECOVERY_NEEDED }, h2)
                else if pf2.file_meta_data.plain_part.major_version ≠ env.PF_MAJOR_VERSION then
                  (false, { pf2 with last_error := INVALID_VERSION }, h2)
                else (true, pf2, h2)
              else (true, { pf0 with file_meta_data := block.as_meta }, h1)) = (b2, pf2, h2) →
            pf2.key_state = pf.key_state := by
          intro b2 pf2 h2 hrs
          split at hrs
          · have e1 := ipf_file_recovery_key_state env
              { pf0 with file_meta_data := block.as_meta } h1 path
            rcases hf : ipf_file_recovery env { pf0 with file_meta_data := block.as_meta } h1 path
              with ⟨b1, pf2a, h2a⟩
            rw [hf] at e1 hrs
            cases b1 <;> dsimp only at hrs <;> split_ifs at hrs <;>
              simp only [Prod.mk.injEq] at hrs <;> obtain ⟨-, rfl, -⟩ := hrs <;>
              exact e1.trans e0
          · simp only [Prod.mk.injEq] at hrs
            obtain ⟨-, rfl, -⟩ := hrs
            exact e0
        split
        · rename_i heq
          exact step _ _ _ heq
        · rename_i pf2 h2 heq
          have e2 := step _ _ _ heq
          have e3 := ipf_generate_secure_blob_from_user_kdk_key_state env pf2 h2 true
          unfold ipf_restore_current_meta_data_key
          rcases hk : ipf_generate_secure_blob_from_user_kdk env pf2 h2 true with ⟨b3, pf3, h3⟩
          rw [hk] at e3
          cases b3 with
          | false => exact e3.trans e2
          | true =>
            dsimp only
            have k2 : ∀ (pfa : pf_context_t) (ha : Host) n b (pfb : pf_context_t) (hb : Host),
                ipf_read_node env pfa ha n = (b, pfb, hb) → pfb.key_state = pfa.key_state := by
              intro pfa ha n b pfb hb e
              have := ipf_read_node_key_state env pfa ha n
              rw [e] at this
              exact this
            split
            · exact e3.trans e2
            · split
              · exact e3.trans e2
              · split
                · split
                  · rename_i heq5
                    exact (k2 _ _ _ _ _ _ heq5).trans (e3.trans e2)
                  · rename_i heq5
                    try dsimp only
                    split <;> exact (k2 _ _ _ _ _ _ heq5).trans (e3.trans e2)
                · exact e3.trans e2


theorem ipf_init_session_master_key_count_zero (env : Env) (pf : pf_context_t) (h : Host)
    (h0 : pf.master_key_count = 0) :
    (ipf_init_session_master_key env pf h).2.1.master_key_count = 0 := by
  unfold ipf_init_session_master_key
  have := ipf_generate_secure_blob_key_state env pf h 0 MASTER_KEY_NAME 0
  split <;> simp_all [pf_context_t.key_state]

/-- A context returned by `ipf_open` holds the session master key made by the
`ipf_init_session_master_key` call of the open, with usage count 0. -/
theorem ipf_open_key_state (env : Env) (h0 : Host) (path : Option Path)
    (mode : pf_file_mode_t) (create : Bool) (file : Option pf_handle_t) (real_size : Nat)
    (kdk_key : Option pf_key_t) (enable_recovery : Bool)
    (pf : pf_context_t) (st : pf_status_t) (h1 : Host)
    (e : ipf_open env h0 path mode create file real_size kdk_key enable_recovery
      = (some pf, st, h1)) :
    pf.key_state =
      ((ipf_init_session_master_key env ipf_init_fields (alloc env h0).2).2.1.session_master_key,
        0) := by
  unfold ipf_open at e
  try dsimp only at e
  unfold alloc at e ⊢
  try dsimp only at e ⊢
  have k0 := ipf_init_session_master_key_count_zero env ipf_init_fields
    { h0 with allocs := h0.allocs + 1 } rfl
  cases ha : env.alloc_ok h0.allocs
  · rw [ha] at e
    simp at e
  · rw [ha] at e
    try dsimp only at e
    cases kdk_key with
    | none =>
      try dsimp only at e
      unfold ipf_open_out at e
      simp [PF_FAILURE] at e
    | some kdk =>
      try dsimp only at e
      split_ifs at e with c1 c2
      · unfold ipf_open_out at e
        simp [PF_FAILURE] at e
      all_goals
        rcases hk : ipf_init_session_master_key env ipf_init_fields
          { h0 with allocs := h0.allocs + 1 } with ⟨b, pf1, hh1⟩
        rw [hk] at e k0
        try dsimp only at k0 ⊢
        cases b
        · try dsimp only at e
          obtain ⟨rfl, rfl⟩ := ipf_open_out_some e
          simp only [pf_context_t.key_state, k0]
        · try dsimp only at e
          cases file with
          | none =>
            try dsimp only at e
            unfold ipf_open_out at e
            simp [PF_FAILURE] at e
          | some handle =>
            try dsimp only at e
            have k5 : ∀ (pfa : pf_context_t) (ha : Host) p b (pfb : pf_context_t) (hb : Host),
                ipf_init_existing_file env pfa ha p = (b, pfb, hb) →
                pfb.key_state = pfa.key_state := by
              intro pfa ha p b pfb hb e
              have := ipf_init_existing_file_key_state env pfa ha p
              rw [e] at this
              exact this
            try split_ifs at e
            all_goals first
              | (unfold ipf_open_out at e; simp [PF_FAILURE] at e; done)
              | skip
            all_goals cases path <;> try dsimp only at e
            all_goals try split at e
            all_goals first
              | (obtain ⟨rfl, rfl⟩ := ipf_open_out_some e
                 rename_i heq
                 have k6 := k5 _ _ _ _ _ _ heq
                 simp only [pf_context_t.key_state, Prod.mk.injEq] at k6 ⊢
                 exact ⟨k6.1, k6.2.trans k0⟩)
              | (obtain ⟨rfl, rfl⟩ := ipf_open_out_some e
                 simp only [pf_context_t.key_state, ipf_init_new_file, k0])


theorem derive_calls_take (env : Env) (ns : List Nat) (s : pf_context_t × Host) (i : Nat)
    (hc : s.1.master_key_count + ns.length ≤ MAX_MASTER_KEY_USAGES) :
    (derive_calls env (ns.take i) s).1.key_state
      = (s.1.session_master_key, s.1.master_key_count + min i ns.length) := by
  have hl : (ns.take i).length = min i ns.length := List.length_take i ns
  have hc2 : s.1.master_key_count + (ns.take i).length ≤ MAX_MASTER_KEY_USAGES := by
    rw [hl]; omega
  obtain ⟨a, b⟩ := derive_calls_below env (ns.take i) s hc2
  simp only [pf_context_t.key_state, a, b, hl]

/-- C13: in a session opened by `pf_open` the context holds the session master
key made by the `ipf_init_session_master_key` call of the open, with usage
count 0.  Each of the first 65,536 calls of `ipf_derive_random_node_key` (call
`i + 1` for `i < 65536`) finds the count at `i`, counts its use and derives its
node key from that key without regenerating it.  The 65,537th call finds the
count at 65,536 and regenerates the session master key first: it derives its
node key from the key `ipf_init_session_master_key` has just made, the count
having been reset to 0 by that call. -/
theorem key_rotation_point (env : Env) (h0 : Host) (handle : Option pf_handle_t)
    (path : Option Path) (underlying_size : Nat) (mode : pf_file_mode_t)
    (create enable_recovery : Bool) (key : Option pf_key_t) (st : pf_status_t)
    (pf : pf_context_t) (h : Host) (ns : List Nat) (n : Nat)
    (hopen : pf_open env h0 handle path underlying_size mode create enable_recovery key
      = (st, some pf, h))
    (hlen : ns.length = MAX_MASTER_KEY_USAGES) :
    pf.key_state =
      ((ipf_init_session_master_key env ipf_init_fields (alloc env h0).2).2.1.session_master_key,
        0) ∧
    (∀ i, i < MAX_MASTER_KEY_USAGES →
      (derive_calls env (ns.take i) (pf, h)).1.key_state = (pf.session_master_key, i) ∧
      ipf_derive_random_node_key env (derive_calls env (ns.take i) (pf, h)).1
          (derive_calls env (ns.take i) (pf, h)).2 (ns.getD i 0) =
        derive_from_master_key env
          { (derive_calls env (ns.take i) (pf, h)).1 with master_key_count := i + 1 }
          (derive_calls env (ns.take i) (pf, h)).2 pf.session_master_key (ns.getD i 0)) ∧
    (derive_calls env ns (pf, h)).1.key_state = (pf.session_master_key, MAX_MASTER_KEY_USAGES) ∧
    ipf_derive_random_node_key env (derive_calls env ns (pf, h)).1
        (derive_calls env ns (pf, h)).2 n =
      (match regenerate_master_key env (derive_calls env ns (pf, h)).1
          (derive_calls env ns (pf, h)).2 with
       | (false, pf1, h1) => (false, pf1, h1)
       | (true, pf1, h1) => derive_from_master_key env pf1 h1 pf1.session_master_key n) ∧
    (∀ pf1 h1, regenerate_master_key env (derive_calls env ns (pf, h)).1
        (derive_calls env ns (pf, h)).2 = (true, pf1, h1) → pf1.master_key_count = 0) := by
  have hop : pf.key_state =
      ((ipf_init_session_master_key env ipf_init_fields
        (alloc env h0).2).2.1.session_master_key, 0) := by
    unfold pf_open at hopen
    split_ifs at hopen
    · simp at hopen
    · rcases ho : ipf_open env h0 path mode create handle underlying_size key enable_recovery
        with ⟨c, s, hh⟩
      rw [ho] at hopen
      simp only [Prod.mk.injEq] at hopen
      obtain ⟨-, rfl, rfl⟩ := hopen
      exact ipf_open_key_state _ _ _ _ _ _ _ _ _ _ _ _ ho
  have h0c : pf.master_key_count = 0 := by
    simp only [pf_context_t.key_state, Prod.mk.injEq] at hop
    exact hop.2
  have hb : (pf, h).1.master_key_count + ns.length ≤ MAX_MASTER_KEY_USAGES := by
    simp only [h0c, hlen]; omega
  have hall := derive_calls_take env ns (pf, h) ns.length hb
  rw [List.take_length] at hall
  simp only [h0c, hlen, Nat.zero_add, Nat.min_self] at hall
  refine ⟨hop, ?_, hall, ?_, ?_⟩
  · intro i hi
    have ht := derive_calls_take env ns (pf, h) i hb
    have hm : min i ns.length = i := by rw [hlen]; omega
    simp only [h0c, Nat.zero_add, hm] at ht
    refine ⟨ht, ?_⟩
    simp only [pf_context_t.key_state, Prod.mk.injEq] at ht
    have hlt : (derive_calls env (ns.take i) (pf, h)).1.master_key_count
        < MAX_MASTER_KEY_USAGES := by rw [ht.2]; exact hi
    rw [ipf_derive_random_node_key_below env _ _ _ hlt]
    simp only [ht.1, ht.2]
  · simp only [pf_context_t.key_state, Prod.mk.injEq] at hall
    have hge : MAX_MASTER_KEY_USAGES ≤ (derive_calls env ns (pf, h)).1.master_key_count := by
      rw [hall.2]
    rw [ipf_derive_random_node_key_at_limit env _ _ _ hge]
    rfl
  · intro pf1 h1 e
    exact ipf_init_session_master_key_count env _ _ _ _ e


/-- A session on the new file `a`: 65,536 derivations for node 2, then one for
node 3. -/
theorem key_rotation_point_witness :
    pf_open example_env example_host (some .source) (some ['a']) 0
        (PF_FILE_MODE_READ + PF_FILE_MODE_WRITE) true false (some 7)
      = (SUCCESS, some example_created.1, example_created.2) ∧
    example_node_numbers.length = MAX_MASTER_KEY_USAGES ∧
    example_created.1.key_state =
      ((ipf_init_session_master_key example_env ipf_init_fields
        (alloc example_env example_host).2).2.1.session_master_key, 0) ∧
    (∀ i, i < MAX_MASTER_KEY_USAGES →
      (derive_calls example_env (example_node_numbers.take i)
            (example_created.1, example_created.2)).1.key_state
        = (example_created.1.session_master_key, i) ∧
      ipf_derive_random_node_key example_env
          (derive_calls example_env (example_node_numbers.take i)
            (example_created.1, example_created.2)).1
          (derive_calls example_env (example_node_numbers.take i)
            (example_created.1, example_created.2)).2
          (example_node_numbers.getD i 0) =
        derive_from_master_key example_env
          { (derive_calls example_env (example_node_numbers.take i)
            (example_created.1, example_created.2)).1 with
              master_key_count := i + 1 }
          (derive_calls example_env (example_node_numbers.take i)
            (example_created.1, example_created.2)).2
          example_created.1.session_master_key (example_node_numbers.getD i 0)) ∧
    (derive_calls example_env example_node_numbers
          (example_created.1, example_created.2)).1.key_state
      = (example_created.1.session_master_key, MAX_MASTER_KEY_USAGES) ∧
    ipf_derive_random_node_key example_env
        (derive_calls example_env example_node_numbers
          (example_created.1, example_created.2)).1
        (derive_calls example_env example_node_numbers
          (example_created.1, example_created.2)).2 3 =
      (match regenerate_master_key example_env
          (derive_calls example_env example_node_numbers
          (example_created.1, example_created.2)).1
          (derive_calls example_env example_node_numbers
          (example_created.1, example_created.2)).2 with
       | (false, pf1, h1) => (false, pf1, h1)
       | (true, pf1, h1) => derive_from_master_key example_env pf1 h1 pf1.session_master_key 3) ∧
    (∀ pf1 h1, regenerate_master_key example_env
        (derive_calls example_env example_node_numbers
          (example_created.1, example_created.2)).1
        (derive_calls example_env example_node_numbers
          (example_created.1, example_created.2)).2 = (true, pf1, h1) →
      pf1.master_key_count = 0) :=
  ⟨rfl, by simp [example_node_numbers],
    key_rotation_point example_env example_host (some .source) (some ['a']) 0
      (PF_FILE_MODE_READ + PF_FILE_MODE_WRITE) true false (some 7) SUCCESS example_created.1
      example_created.2 example_node_numbers 3 rfl (by simp [example_node_numbers])⟩

theorem example_env_regenerates (pf : pf_context_t) (h : Host) :
    (regenerate_master_key example_env pf h).1 = true := rfl

/-- C14: a regenerated session master key is the KDF input key of 65,537
node-key derivations.  When a call of `ipf_derive_random_node_key` finds the
count at the limit and the regeneration succeeds, that call derives its node
key from the new key, and so does each of the next 65,536 calls (call `i + 1`
of them finds the count at `i < 65536`, because the count was reset to 0 after
the regenerating call had counted itself). -/
theorem regenerated_key_outlives_limit (env : Env) (pf : pf_context_t) (h : Host) (n : Nat)
    (ms : List Nat) (hc : pf.master_key_count = MAX_MASTER_KEY_USAGES)
    (hinit : (regenerate_master_key env pf h).1 = true)
    (hlen : ms.length = MAX_MASTER_KEY_USAGES) :
    ipf_derive_random_node_key env pf h n =
      derive_from_master_key env (regenerate_master_key env pf h).2.1
        (regenerate_master_key env pf h).2.2
        (regenerate_master_key env pf h).2.1.session_master_key n ∧
    (∀ i, i < MAX_MASTER_KEY_USAGES →
      (derive_calls env (ms.take i) (ipf_derive_random_node_key env pf h n).2).1.key_state
        = ((regenerate_master_key env pf h).2.1.session_master_key, i) ∧
      ipf_derive_random_node_key env
          (derive_calls env (ms.take i) (ipf_derive_random_node_key env pf h n).2).1
          (derive_calls env (ms.take i) (ipf_derive_random_node_key env pf h n).2).2
          (ms.getD i 0) =
        derive_from_master_key env
          { (derive_calls env (ms.take i) (ipf_derive_random_node_key env pf h n).2).1 with
              master_key_count := i + 1 }
          (derive_calls env (ms.take i) (ipf_derive_random_node_key env pf h n).2).2
          (regenerate_master_key env pf h).2.1.session_master_key (ms.getD i 0)) := by
  have hge : MAX_MASTER_KEY_USAGES ≤ pf.master_key_count := by rw [hc]
  have e1 : ipf_derive_random_node_key env pf h n =
      derive_from_master_key env (regenerate_master_key env pf h).2.1
        (regenerate_master_key env pf h).2.2
        (regenerate_master_key env pf h).2.1.session_master_key n := by
    rw [ipf_derive_random_node_key_at_limit env pf h n hge]
    unfold regenerate_master_key at hinit ⊢
    rcases hr : ipf_init_session_master_key env
      { pf with master_key_count := pf.master_key_count + 1 } h with ⟨b, pf1, h1⟩
    rw [hr] at hinit
    simp only at hinit
    subst hinit
    rfl
  have hz : (regenerate_master_key env pf h).2.1.master_key_count = 0 := by
    unfold regenerate_master_key at hinit ⊢
    rcases hr : ipf_init_session_master_key env
      { pf with master_key_count := pf.master_key_count + 1 } h with ⟨b, pf1, h1⟩
    rw [hr] at hinit
    simp only at hinit
    subst hinit
    exact ipf_init_session_master_key_count env _ _ _ _ hr
  have k := derive_from_master_key_key_state env (regenerate_master_key env pf h).2.1
    (regenerate_master_key env pf h).2.2
    (regenerate_master_key env pf h).2.1.session_master_key n
  rw [← e1] at k
  simp only [pf_context_t.key_state, Prod.mk.injEq, hz] at k
  refine ⟨e1, ?_⟩
  intro i hi
  have hb : (ipf_derive_random_node_key env pf h n).2.1.master_key_count + ms.length
      ≤ MAX_MASTER_KEY_USAGES := by rw [k.2, hlen]; omega
  have ht := derive_calls_take env ms (ipf_derive_random_node_key env pf h n).2 i hb
  have hm : min i ms.length = i := by rw [hlen]; omega
  simp only [k.1, k.2, Nat.zero_add, hm] at ht
  refine ⟨ht, ?_⟩
  simp only [pf_context_t.key_state, Prod.mk.injEq] at ht
  have hlt : (derive_calls env (ms.take i)
      (ipf_derive_random_node_key env pf h n).2).1.master_key_count
      < MAX_MASTER_KEY_USAGES := by rw [ht.2]; exact hi
  rw [ipf_derive_random_node_key_below env _ _ _ hlt]
  simp only [ht.1, ht.2]


theorem example_worn_count : example_worn.1.master_key_count = MAX_MASTER_KEY_USAGES := by
  have h0 : example_created.1.master_key_count = 0 := by decide!
  have hl : example_node_numbers.length = MAX_MASTER_KEY_USAGES := by
    simp [example_node_numbers]
  have := (derive_calls_below example_env example_node_numbers
    (example_created.1, example_created.2) (by rw [hl, h0]; omega)).2
  rw [hl, h0, Nat.zero_add] at this
  unfold example_worn
  exact this

/-- The session on the new file `a` after 65,536 derivations: the next
derivation (node 3) regenerates the key, and 65,536 further derivations for
node 2 follow. -/
theorem regenerated_key_outlives_limit_witness :
    example_worn.1.master_key_count = MAX_MASTER_KEY_USAGES ∧
    (regenerate_master_key example_env example_worn.1 example_worn.2).1 = true ∧
    example_node_numbers.length = MAX_MASTER_KEY_USAGES ∧
    ipf_derive_random_node_key example_env example_worn.1 example_worn.2 3 =
      derive_from_master_key example_env
        (regenerate_master_key example_env example_worn.1 example_worn.2).2.1
        (regenerate_master_key example_env example_worn.1 example_worn.2).2.2
        (regenerate_master_key example_env example_worn.1
          example_worn.2).2.1.session_master_key 3 ∧
    (∀ i, i < MAX_MASTER_KEY_USAGES →
      (derive_calls example_env (example_node_numbers.take i)
        (ipf_derive_random_node_key example_env example_worn.1
          example_worn.2 3).2).1.key_state
        = ((regenerate_master_key example_env example_worn.1
            example_worn.2).2.1.session_master_key, i) ∧
      ipf_derive_random_node_key example_env
          (derive_calls example_env (example_node_numbers.take i)
            (ipf_derive_random_node_key example_env example_worn.1 example_worn.2 3).2).1
          (derive_calls example_env (example_node_numbers.take i)
            (ipf_derive_random_node_key example_env example_worn.1 example_worn.2 3).2).2
          (example_node_numbers.getD i 0) =
        derive_from_master_key example_env
          { (derive_calls example_env (example_node_numbers.take i)
              (ipf_derive_random_node_key example_env example_worn.1
                example_worn.2 3).2).1 with master_key_count := i + 1 }
          (derive_calls example_env (example_node_numbers.take i)
            (ipf_derive_random_node_key example_env example_worn.1 example_worn.2 3).2).2
          (regenerate_master_key example_env example_worn.1
            example_worn.2).2.1.session_master_key (example_node_numbers.getD i 0)) :=
  ⟨example_worn_count, example_env_regenerates _ _, by simp [example_node_numbers],
    regenerated_key_outlives_limit example_env example_worn.1 example_worn.2 3
      example_node_numbers example_worn_count (example_env_regenerates _ _)
      (by simp [example_node_numbers])⟩

/-! ## Theorems: recovery on open -/

/-- Whenever `ipf_file_recovery` reports success, the replay it ran
(`ipf_do_file_recovery`) had reported failure: the `bool` result is stored in
a `pf_status_t` and tested with `PF_FAILURE`. -/
theorem ipf_file_recovery_true_replay_false (env : Env) (pf : pf_context_t) (h : Host)
    (path : Option Path) (hs : (ipf_file_recovery env pf h path).1 = true) :
    (ipf_do_file_recovery env { pf with file := none } (cb_close env h .source).2 path).1
      = false := by
  unfold ipf_file_recovery at hs
  split at hs
  · simp at hs
  · rcases hc : cb_close env h .source with ⟨st, h1⟩
    rw [hc] at hs
    dsimp only at hs ⊢
    split at hs
    · simp at hs
    · rcases hd : ipf_do_file_recovery env { pf with file := none } h1 path with ⟨ret, pf2, h2⟩
      rw [hd] at hs
      cases ret
      · rfl
      · simp [status_of_bool, PF_FAILURE] at hs

/-- C15: a replayable log makes the open fail.  On the host left by a flush
cut short after the update flag, the recovery file (3 records) and data node 0
were written, `ipf_do_file_recovery` replays the whole log (it returns `true`,
restores block 2 and block 0 with `update_flag = 0`, keeps the file size and
deletes the log), yet `ipf_file_recovery` returns `false` with `last_error` 1
(`true` read as a status), `ipf_init_existing_file` fails with
`RECOVERY_NEEDED` and `pf_open` returns no context.  Conversely, when the log
is torn (its size no multiple of the record size) the replay fails and
`ipf_file_recovery` returns `true`. -/
theorem recovery_on_open_rejects_replayed_log :
    (example_crash.file 0).as_meta.plain_part.update_flag = 1 ∧
    example_crash.recovery.map List.length = some 3 ∧
    ((example_crash.file 2).as_node.as_data 0).val = 89 ∧
    (ipf_do_file_recovery example_env
      { (example_recovering example_crash).1 with file := none }
      (cb_close example_env (example_recovering example_crash).2 .source).2
      (some ['a'])).1 = true ∧
    (ipf_file_recovery example_env (example_recovering example_crash).1
      (example_recovering example_crash).2 (some ['a'])).1 = false ∧
    (ipf_file_recovery example_env (example_recovering example_crash).1
      (example_recovering example_crash).2 (some ['a'])).2.1.last_error = BOOL_TRUE ∧
    (ipf_init_existing_file example_env (example_opening example_crash).1
      (example_opening example_crash).2 (some ['a'])).1 = false ∧
    (ipf_init_existing_file example_env (example_opening example_crash).1
      (example_opening example_crash).2 (some ['a'])).2.1.last_error = RECOVERY_NEEDED ∧
    (pf_open example_env example_crash (some .source) (some ['a']) example_crash.file_size
      (PF_FILE_MODE_READ + PF_FILE_MODE_WRITE) false true (some 7)).1 ≠ SUCCESS ∧
    (pf_open example_env example_crash (some .source) (some ['a']) example_crash.file_size
      (PF_FILE_MODE_READ + PF_FILE_MODE_WRITE) false true (some 7)).2.1.isNone = true ∧
    ((pf_open example_env example_crash (some .source) (some ['a']) example_crash.file_size
      (PF_FILE_MODE_READ + PF_FILE_MODE_WRITE) false true
      (some 7)).2.2.file 0).as_meta.plain_part.update_flag = 0 ∧
    (((pf_open example_env example_crash (some .source) (some ['a']) example_crash.file_size
      (PF_FILE_MODE_READ + PF_FILE_MODE_WRITE) false true
      (some 7)).2.2.file 2).as_node.as_data 0).val = 90 ∧
    (pf_open example_env example_crash (some .source) (some ['a']) example_crash.file_size
      (PF_FILE_MODE_READ + PF_FILE_MODE_WRITE) false true (some 7)).2.2.file_size
      = example_crash.file_size ∧
    (pf_open example_env example_crash (some .source) (some ['a']) example_crash.file_size
      (PF_FILE_MODE_READ + PF_FILE_MODE_WRITE) false true (some 7)).2.2.recovery.isNone
      = true ∧
    (ipf_do_file_recovery example_env
      { (example_recovering example_crash_torn).1 with file := none }
      (cb_close example_env (example_recovering example_crash_torn).2 .source).2
      (some ['a'])).1 = false ∧
    (ipf_file_recovery example_env (example_recovering example_crash_torn).1
      (example_recovering example_crash_torn).2 (some ['a'])).1 = true := by
  decide!

/-! ## Theorems: replay of the recovery file -/

theorem replay_blocks_other (recs : List recovery_node_t) (file : Nat → Block) (b : Nat)
    (hb : ∀ r ∈ recs, record_block r ≠ b) : replay_blocks recs file b = file b := by
  induction recs generalizing file with
  | nil => rfl
  | cons r rest ih =>
    unfold replay_blocks
    rw [List.foldl_cons]
    have := ih (Function.update file (record_block r) r.encrypted)
      (fun r' hr' => hb r' (List.mem_cons_of_mem _ hr'))
    unfold replay_blocks at this
    rw [this, Function.update_noteq (hb r (List.mem_cons_self _ _)).symm]

theorem replay_blocks_last (l1 l2 : List recovery_node_t) (r : recovery_node_t)
    (file : Nat → Block) (hl : ∀ r' ∈ l2, record_block r' ≠ record_block r) :
    replay_blocks (l1 ++ r :: l2) file (record_block r) = r.encrypted := by
  unfold replay_blocks
  rw [List.foldl_append, List.foldl_cons]
  have := replay_blocks_other l2
    (Function.update (List.foldl (fun f r => Function.update f (record_block r) r.encrypted)
      file l1) (record_block r) r.encrypted) (record_block r) hl
  unfold replay_blocks at this
  rw [this, Function.update_same]

theorem ipf_read_recovery_node_ok (env : Env) (pf : pf_context_t) (h : Host) (i : Nat)
    (hio : ∀ t, env.io_status t = SUCCESS) :
    (ipf_read_recovery_node env pf h i).1 = some ((h.recovery.getD [])[i]?) ∧
    (ipf_read_recovery_node env pf h i).2.1 = pf ∧
    (ipf_read_recovery_node env pf h i).2.2.file = h.file ∧
    (ipf_read_recovery_node env pf h i).2.2.recovery = h.recovery := by
  unfold ipf_read_recovery_node cb_read_record
  have e : i * RECOVERY_NODE_SIZE / RECOVERY_NODE_SIZE = i :=
    Nat.mul_div_cancel i (by decide)
  simp [hio, PF_FAILURE, e, Host.tick]

theorem ipf_write_node_ok (env : Env) (pf : pf_context_t) (h : Host) (n : Nat) (b : Block)
    (hio : ∀ t, env.io_status t = SUCCESS) :
    (ipf_write_node env pf h n b).1 = true ∧
    (ipf_write_node env pf h n b).2.1 = pf ∧
    (ipf_write_node env pf h n b).2.2.file
      = Function.update h.file (n * PF_NODE_SIZE % U64 / PF_NODE_SIZE) b ∧
    (ipf_write_node env pf h n b).2.2.recovery = h.recovery := by
  unfold ipf_write_node ipf_write_file cb_write
  simp [hio, PF_FAILURE, Host.tick]

/-- With every callback succeeding, the replay loop over records `i` to
`i + todo` of the recovery file succeeds, leaves the context alone and stores
the data of each of these records, in order, in its block. -/
theorem replay_records_ok (env : Env) (hio : ∀ t, env.io_status t = SUCCESS) (todo : Nat)
    (pf : pf_context_t) (h : Host) (i : Nat) (rn : recovery_node_t)
    (hlen : i + todo ≤ (h.recovery.getD []).length) :
    (replay_records env todo pf h i rn).1 = true ∧
    (replay_records env todo pf h i rn).2.1 = pf ∧
    (replay_records env todo pf h i rn).2.2.file
      = replay_blocks (((h.recovery.getD []).drop i).take todo) h.file ∧
    (replay_records env todo pf h i rn).2.2.recovery = h.recovery := by
  induction todo generalizing h i rn with
  | zero => exact ⟨rfl, rfl, by simp [replay_records, replay_blocks], rfl⟩
  | succ todo ih =>
    have hi : i < (h.recovery.getD []).length := by omega
    have hget : (h.recovery.getD [])[i]? = some ((h.recovery.getD [])[i]) :=
      List.getElem?_eq_getElem hi
    unfold replay_records
    obtain ⟨r1, r2, r3, r4⟩ := ipf_read_recovery_node_ok env pf h i hio
    rcases hr : ipf_read_recovery_node env pf h i with ⟨b1, pf1, h1⟩
    rw [hr] at r1 r2 r3 r4
    dsimp only at r1 r2 r3 r4 ⊢
    subst r1 r2
    rw [hget]
    simp only [Option.getD_some]
    obtain ⟨w1, w2, w3, w4⟩ := ipf_write_node_ok env pf1 h1
      (h.recovery.getD [])[i].physical_node_number (h.recovery.getD [])[i].encrypted hio
    rcases hw : ipf_write_node env pf1 h1 (h.recovery.getD [])[i].physical_node_number
      (h.recovery.getD [])[i].encrypted with ⟨b2, pf2, h2⟩
    rw [hw] at w1 w2 w3 w4
    dsimp only at w1 w2 w3 w4 ⊢
    subst w1 w2
    have hrec : h2.recovery = h.recovery := w4.trans r4
    obtain ⟨a, b, c, d⟩ := ih h2 (i + 1) (h.recovery.getD [])[i] (by rw [hrec]; omega)
    refine ⟨a, b, ?_, d.trans hrec⟩
    rw [c, hrec, w3, r3, List.drop_eq_getElem_cons hi, List.take_succ_cons]
    simp only [replay_blocks, List.foldl_cons, record_block]


theorem recovery_size_div (n t : Nat) (ht : t = 0) :
    (n * RECOVERY_NODE_SIZE + t) / RECOVERY_NODE_SIZE = n ∧
    (n * RECOVERY_NODE_SIZE + t) % RECOVERY_NODE_SIZE = 0 := by
  subst ht
  exact ⟨by rw [Nat.add_zero]; exact Nat.mul_div_cancel n (by decide),
    by rw [Nat.add_zero]; exact Nat.mul_mod_left n _⟩

theorem cb_open_recovery_read (env : Env) (h : Host) (hio : env.io_status h.clock = SUCCESS) :
    (cb_open env h .recovery PF_FILE_MODE_READ).1 = SUCCESS ∧
    (cb_open env h .recovery PF_FILE_MODE_READ).2.1
      = (h.recovery.getD []).length * RECOVERY_NODE_SIZE + h.recovery_tail ∧
    (cb_open env h .recovery PF_FILE_MODE_READ).2.2
      = h.tick (.open_file .recovery PF_FILE_MODE_READ) := by
  unfold cb_open
  simp [hio, PF_FAILURE, mode_has, PF_FILE_MODE_READ, PF_FILE_MODE_WRITE, Host.tick]

theorem cb_open_source (env : Env) (h : Host) (m : pf_file_mode_t) :
    cb_open env h .source m
      = (env.io_status h.clock, h.file_size, h.tick (.open_file .source m)) := rfl

theorem cb_delete_ok (env : Env) (h : Host) (hio : env.io_status h.clock = SUCCESS) :
    (cb_delete env h).2.recovery = none ∧ (cb_delete env h).2.file = h.file := by
  unfold cb_delete
  simp [hio, PF_FAILURE, Host.tick]

theorem ipf_do_file_recovery_spec (env : Env) (pf : pf_context_t) (h : Host) (p : Path)
    (hp : p ≠ []) (hr : pf.recovery_path ≠ []) :
    (env.io_status h.clock = SUCCESS →
      ((h.recovery.getD []).length * RECOVERY_NODE_SIZE + h.recovery_tail)
        % RECOVERY_NODE_SIZE ≠ 0 →
      (ipf_do_file_recovery env pf h (some p)).1 = false ∧
      (ipf_do_file_recovery env pf h (some p)).2.1.last_error = CORRUPTED ∧
      (ipf_do_file_recovery env pf h (some p)).2.2.file = h.file ∧
      (ipf_do_file_recovery env pf h (some p)).2.2.file_size = h.file_size ∧
      (ipf_do_file_recovery env pf h (some p)).2.2.trace
        = h.trace ++ [.open_file .recovery PF_FILE_MODE_READ, .close .recovery]) ∧
    ((∀ t, env.io_status t = SUCCESS) → env.alloc_ok h.allocs = true → h.recovery_tail = 0 →
      (ipf_do_file_recovery env pf h (some p)).1 = true ∧
      (ipf_do_file_recovery env pf h (some p)).2.1 = pf ∧
      (ipf_do_file_recovery env pf h (some p)).2.2.recovery = none ∧
      (ipf_do_file_recovery env pf h (some p)).2.2.file
        = replay_blocks ((h.recovery.getD []).take ((h.recovery.getD []).length % 2 ^ 32))
            h.file) := by
  have hpath : ¬ (some p = none ∨ some p = some [] ∨ pf.recovery_path = []) := by
    simp [hp, hr]
  constructor
  · intro hio hsz
    unfold ipf_do_file_recovery
    rw [if_neg hpath]
    unfold cb_open cb_close
    simp [hio, PF_FAILURE, mode_has, PF_FILE_MODE_READ, PF_FILE_MODE_WRITE, Host.tick, hsz]
  · intro hio ha ht
    obtain ⟨d1, d2⟩ := recovery_size_div (h.recovery.getD []).length h.recovery_tail ht
    have f0 : PF_FAILURE SUCCESS = false := rfl
    unfold ipf_do_file_recovery
    rw [if_neg hpath]
    obtain ⟨o1, o2, o3⟩ := cb_open_recovery_read env h (hio _)
    rcases ho : cb_open env h .recovery PF_FILE_MODE_READ with ⟨st1, sz1, h1⟩
    rw [ho] at o1 o2 o3
    dsimp only at o1 o2 o3 ⊢
    subst o1 o2
    rw [f0, d1, d2]
    simp only [Bool.false_eq_true, if_false, ne_eq, not_true_eq_false]
    have a1 : alloc env h1 = (true, { h1 with allocs := h1.allocs + 1 }) := by
      unfold alloc
      rw [o3]
      simp [Host.tick, ha]
    rw [a1]
    dsimp only
    rw [cb_open_source, hio]
    dsimp only
    rw [f0]
    simp only [Bool.false_eq_true, if_false]
    have hrec : (({ h1 with allocs := h1.allocs + 1 } : Host).tick
        (.open_file .source PF_FILE_MODE_WRITE)).recovery = h.recovery := by rw [o3]; rfl
    have hfile : (({ h1 with allocs := h1.allocs + 1 } : Host).tick
        (.open_file .source PF_FILE_MODE_WRITE)).file = h.file := by rw [o3]; rfl
    obtain ⟨k1, k2, k3, k4⟩ := replay_records_ok env hio ((h.recovery.getD []).length % 2 ^ 32)
      pf (({ h1 with allocs := h1.allocs + 1 } : Host).tick
        (.open_file .source PF_FILE_MODE_WRITE)) 0 ⟨0, .node (.data zero_bytes)⟩
      (by rw [hrec, Nat.zero_add]; exact Nat.mod_le _ _)
    rcases hrr : replay_records env ((h.recovery.getD []).length % 2 ^ 32)
      pf (({ h1 with allocs := h1.allocs + 1 } : Host).tick
        (.open_file .source PF_FILE_MODE_WRITE)) 0 ⟨0, .node (.data zero_bytes)⟩
      with ⟨b, pf4, h4⟩
    rw [hrr] at k1 k2 k3 k4
    dsimp only at k1 k2 k3 k4 ⊢
    subst k1 k2
    dsimp only
    obtain ⟨e1, e2⟩ := cb_delete_ok env
      (cb_close env (cb_close env h4 .source).2 .recovery).2 (hio _)
    refine ⟨rfl, rfl, e1, ?_⟩
    rw [e2, hrec, hfile, List.drop_zero] at *
    exact k3


/-- C16, as stated, fails: a record naming block `2 ^ 52` is not written at
byte offset `2 ^ 52 * 4096`.  The replay succeeds, block `2 ^ 52` keeps its
content and the data goes to block 0, which no record names (the offset is the
`uint64_t` product, which is 0). -/
theorem recovery_replay_far_record :
    (ipf_do_file_recovery example_env (example_recovering example_far_record).1
      example_far_record (some ['a'])).1 = true ∧
    (example_far_record.file 0).as_meta.plain_part.file_id = example_env.PF_FILE_ID ∧
    ((ipf_do_file_recovery example_env (example_recovering example_far_record).1
      example_far_record (some ['a'])).2.2.file 0).as_meta.plain_part.file_id = 0 ∧
    (((ipf_do_file_recovery example_env (example_recovering example_far_record).1
      example_far_record (some ['a'])).2.2.file 0).as_node.as_data 0).val = 77 ∧
    (((ipf_do_file_recovery example_env (example_recovering example_far_record).1
      example_far_record (some ['a'])).2.2.file (2 ^ 52)).as_node.as_data 0).val = 0 := by
  decide!

/-- C16, amended: with a non-empty path and recovery path, `ipf_do_file_recovery`
fails with `last_error = CORRUPTED` and without a write to the source file
(its only callbacks open and close the recovery file) when the recovery file
opens and its size is no multiple of `8 + 4096`.  When the size is a multiple,
every callback succeeds and the record buffer is allocated, it returns `true`,
leaves the context alone, deletes the recovery file, and has written the first
`n mod 2 ^ 32` of the `n` records in file order, the data of a record at the
`uint64_t` byte offset `physical_node_number * 4096`: afterwards the block of
each such record holds the data of the last record written there, and every
other block of the source file is unchanged. -/
theorem recovery_replay_semantics (env : Env) (pf : pf_context_t) (h : Host) (p : Path)
    (hp : p ≠ []) (hr : pf.recovery_path ≠ []) :
    (env.io_status h.clock = SUCCESS →
      ((h.recovery.getD []).length * RECOVERY_NODE_SIZE + h.recovery_tail)
        % RECOVERY_NODE_SIZE ≠ 0 →
      (ipf_do_file_recovery env pf h (some p)).1 = false ∧
      (ipf_do_file_recovery env pf h (some p)).2.1.last_error = CORRUPTED ∧
      (ipf_do_file_recovery env pf h (some p)).2.2.file = h.file ∧
      (ipf_do_file_recovery env pf h (some p)).2.2.file_size = h.file_size ∧
      (ipf_do_file_recovery env pf h (some p)).2.2.trace
        = h.trace ++ [.open_file .recovery PF_FILE_MODE_READ, .close .recovery]) ∧
    ((∀ t, env.io_status t = SUCCESS) → env.alloc_ok h.allocs = true → h.recovery_tail = 0 →
      (ipf_do_file_recovery env pf h (some p)).1 = true ∧
      (ipf_do_file_recovery env pf h (some p)).2.1 = pf ∧
      (ipf_do_file_recovery env pf h (some p)).2.2.recovery = none ∧
      (ipf_do_file_recovery env pf h (some p)).2.2.file
        = replay_blocks ((h.recovery.getD []).take ((h.recovery.getD []).length % 2 ^ 32))
            h.file ∧
      (∀ l1 r l2,
        (h.recovery.getD []).take ((h.recovery.getD []).length % 2 ^ 32) = l1 ++ r :: l2 →
        (∀ r2 ∈ l2, record_block r2 ≠ record_block r) →
        (ipf_do_file_recovery env pf h (some p)).2.2.file
            (r.physical_node_number * PF_NODE_SIZE % U64 / PF_NODE_SIZE) = r.encrypted) ∧
      (∀ b,
        (∀ r ∈ (h.recovery.getD []).take ((h.recovery.getD []).length % 2 ^ 32),
          r.physical_node_number * PF_NODE_SIZE % U64 / PF_NODE_SIZE ≠ b) →
        (ipf_do_file_recovery env pf h (some p)).2.2.file b = h.file b)) := by
  obtain ⟨s1, s2⟩ := ipf_do_file_recovery_spec env pf h p hp hr
  refine ⟨s1, ?_⟩
  intro hio ha ht
  obtain ⟨a, b, c, d⟩ := s2 hio ha ht
  refine ⟨a, b, c, d, ?_, ?_⟩
  · intro l1 r l2 e hl
    rw [d, e]
    exact replay_blocks_last l1 l2 r h.file hl
  · intro blk hb
    rw [d]
    exact replay_blocks_other _ h.file blk hb

/-- The replay of the three-record log left by the flush that was cut short,
and the refusal of the same log with 5 bytes cut off. -/
theorem recovery_replay_semantics_witness :
    ['a'] ≠ [] ∧ (example_recovering example_crash).1.recovery_path ≠ [] ∧
    (∀ t, example_env.io_status t = SUCCESS) ∧
    example_env.alloc_ok example_crash.allocs = true ∧ example_crash.recovery_tail = 0 ∧
    (ipf_do_file_recovery example_env (example_recovering example_crash).1 example_crash
      (some ['a'])).1 = true ∧
    (ipf_do_file_recovery example_env (example_recovering example_crash).1 example_crash
      (some ['a'])).2.2.recovery = none ∧
    (ipf_do_file_recovery example_env (example_recovering example_crash).1 example_crash
      (some ['a'])).2.2.file
      = replay_blocks ((example_crash.recovery.getD []).take
          ((example_crash.recovery.getD []).length % 2 ^ 32)) example_crash.file ∧
    example_env.io_status example_crash_torn.clock = SUCCESS ∧
    ((example_crash_torn.recovery.getD []).length * RECOVERY_NODE_SIZE
      + example_crash_torn.recovery_tail) % RECOVERY_NODE_SIZE ≠ 0 ∧
    (ipf_do_file_recovery example_env (example_recovering example_crash).1 example_crash_torn
      (some ['a'])).1 = false ∧
    (ipf_do_file_recovery example_env (example_recovering example_crash).1 example_crash_torn
      (some ['a'])).2.1.last_error = CORRUPTED ∧
    (ipf_do_file_recovery example_env (example_recovering example_crash).1 example_crash_torn
      (some ['a'])).2.2.file = example_crash_torn.file :=
  have hp : (['a'] : Path) ≠ [] := by decide
  have hr : (example_recovering example_crash).1.recovery_path ≠ [] := by decide!
  have hio : ∀ t, example_env.io_status t = SUCCESS := fun _ => rfl
  have hsz : ((example_crash_torn.recovery.getD []).length * RECOVERY_NODE_SIZE
      + example_crash_torn.recovery_tail) % RECOVERY_NODE_SIZE ≠ 0 := by decide!
  have ok := (recovery_replay_semantics example_env (example_recovering example_crash).1
    example_crash ['a'] hp hr).2 hio rfl (by decide!)
  have torn := (recovery_replay_semantics example_env (example_recovering example_crash).1
    example_crash_torn ['a'] hp hr).1 rfl hsz
  ⟨hp, hr, hio, rfl, by decide!, ok.1, ok.2.2.1, ok.2.2.2.1, rfl, hsz, torn.1, torn.2.1,
    torn.2.2.1⟩

/-! ## Status fields across the flush and fetch code -/

theorem Outcome.o_same {pf : pf_context_t} : Outcome true pf pf := ⟨rfl, rfl, rfl⟩

theorem Outcome.o_trans {ok : Bool} {a b c : pf_context_t} (h1 : Outcome true a b)
    (h2 : Outcome ok b c) : Outcome ok a c := by
  obtain ⟨a1, a2, a3⟩ := h1
  obtain ⟨b1, b2, b3⟩ := h2
  simp only [if_true] at a3
  refine ⟨b1.trans a1, b2.trans a2, ?_⟩
  cases ok
  · exact b3
  · simp only [if_true] at b3 ⊢
    exact b3.trans a3

theorem Outcome.o_congr {ok : Bool} {a b c : pf_context_t} (h1 : Outcome ok a b)
    (e1 : c.file_status = b.file_status) (e2 : c.hang = b.hang)
    (e3 : c.last_error = b.last_error) : Outcome ok a c := by
  obtain ⟨a1, a2, a3⟩ := h1
  refine ⟨e1.trans a1, e2.trans a2, ?_⟩
  rw [e3]
  exact a3

theorem Outcome.o_fail {a b c : pf_context_t} (h1 : Outcome true a b)
    (e1 : c.file_status = b.file_status) (e2 : c.hang = b.hang)
    (e3 : c.last_error ≠ SUCCESS) : Outcome false a c :=
  ⟨e1.trans h1.1, e2.trans h1.2.1, e3⟩

theorem PF_FAILURE_ne {s : pf_status_t} (h : PF_FAILURE s = true) : s ≠ SUCCESS := by
  simpa [PF_FAILURE] using h

theorem ipf_read_node_outcome (env : Env) (pf : pf_context_t) (h : Host) (n : Nat) :
    Outcome (ipf_read_node env pf h n).1.isSome pf (ipf_read_node env pf h n).2.1 := by
  unfold ipf_read_node cb_read
  dsimp only
  split_ifs with c
  · exact Outcome.o_fail Outcome.o_same rfl rfl (PF_FAILURE_ne c)
  · exact Outcome.o_same

theorem ipf_write_node_outcome (env : Env) (pf : pf_context_t) (h : Host) (n : Nat)
    (b : Block) : Outcome (ipf_write_node env pf h n b).1 pf (ipf_write_node env pf h n b).2.1 := by
  unfold ipf_write_node ipf_write_file
  rcases hc : cb_write env h b (n * PF_NODE_SIZE % U64) PF_NODE_SIZE with ⟨s, h1⟩
  dsimp only
  split_ifs with c
  · exact Outcome.o_fail Outcome.o_same rfl rfl (PF_FAILURE_ne c)
  · exact Outcome.o_same

theorem ipf_write_recovery_record_outcome (env : Env) (pf : pf_context_t) (h : Host) (o : Nat)
    (b : recovery_node_t) :
    Outcome (ipf_write_recovery_record env pf h o b).1 pf
      (ipf_write_recovery_record env pf h o b).2.1 := by
  unfold ipf_write_recovery_record
  rcases hc : cb_write_record env h b o with ⟨s, h1⟩
  dsimp only
  split_ifs with c
  · exact Outcome.o_fail Outcome.o_same rfl rfl (PF_FAILURE_ne c)
  · exact Outcome.o_same

theorem ipf_generate_secure_blob_outcome (env : Env) (pf : pf_context_t) (h : Host)
    (k : pf_key_t) (l : List Char) (n : Nat) :
    Outcome (ipf_generate_secure_blob env pf h k l n).1.isSome pf
      (ipf_generate_secure_blob env pf h k l n).2.1 := by
  unfold ipf_generate_secure_blob
  split_ifs with c
  · exact Outcome.o_fail Outcome.o_same rfl rfl (show INVALID_PARAMETER ≠ SUCCESS by decide)
  · rcases hc : cb_random env h with ⟨s, nonce, h1⟩
    dsimp only
    split_ifs with c1 c2
    · exact Outcome.o_fail Outcome.o_same rfl rfl (PF_FAILURE_ne c1)
    · exact Outcome.o_fail Outcome.o_same rfl rfl (PF_FAILURE_ne c2)
    · exact Outcome.o_same

theorem ipf_generate_secure_blob_from_user_kdk_outcome (env : Env) (pf : pf_context_t)
    (h : Host) (r : Bool) :
    Outcome (ipf_generate_secure_blob_from_user_kdk env pf h r).1 pf
      (ipf_generate_secure_blob_from_user_kdk env pf h r).2.1 := by
  unfold ipf_generate_secure_blob_from_user_kdk
  cases r
  · rcases hc : cb_random env h with ⟨s, nonce, h1⟩
    simp only [Bool.not_false, if_true]
    by_cases c1 : PF_FAILURE s = true
    · rw [if_pos c1]
      exact Outcome.o_fail Outcome.o_same rfl rfl (PF_FAILURE_ne c1)
    · rw [if_neg c1]
      dsimp only
      split_ifs with c2
      · exact Outcome.o_fail Outcome.o_same rfl rfl (PF_FAILURE_ne c2)
      · exact Outcome.o_same
  · simp only [Bool.not_true, Bool.false_eq_true, if_false]
    split_ifs with c2
    · exact Outcome.o_fail Outcome.o_same rfl rfl (PF_FAILURE_ne c2)
    · exact Outcome.o_same


theorem modify_outcome (pf : pf_context_t) (p : NodePtr) (f : file_node_t → file_node_t) :
    Outcome true pf (pf.modify p f) := by
  cases p <;> exact ⟨rfl, rfl, rfl⟩

theorem ipf_init_session_master_key_outcome (env : Env) (pf : pf_context_t) (h : Host) :
    Outcome (ipf_init_session_master_key env pf h).1 pf
      (ipf_init_session_master_key env pf h).2.1 := by
  unfold ipf_init_session_master_key
  have o := ipf_generate_secure_blob_outcome env pf h 0 MASTER_KEY_NAME 0
  rcases hg : ipf_generate_secure_blob env pf h 0 MASTER_KEY_NAME 0 with ⟨k, pf1, h1⟩
  rw [hg] at o
  cases k
  · exact o
  · exact o.o_congr rfl rfl rfl

theorem ipf_derive_random_node_key_outcome (env : Env) (pf : pf_context_t) (h : Host)
    (n : Nat) :
    Outcome (ipf_derive_random_node_key env pf h n).1 pf
      (ipf_derive_random_node_key env pf h n).2.1 := by
  unfold ipf_derive_random_node_key
  dsimp only
  have key : ∀ b (pf1 : pf_context_t) (h1 : Host),
      (if pf.master_key_count ≥ MAX_MASTER_KEY_USAGES then
          ipf_init_session_master_key env { pf with master_key_count := pf.master_key_count + 1 } h
        else (true, { pf with master_key_count := pf.master_key_count + 1 }, h)) = (b, pf1, h1) →
      Outcome b pf pf1 := by
    intro b pf1 h1 heq
    split at heq
    · have := ipf_init_session_master_key_outcome env
        { pf with master_key_count := pf.master_key_count + 1 } h
      rw [heq] at this
      exact this
    · simp only [Prod.mk.injEq] at heq
      obtain ⟨rfl, rfl, -⟩ := heq
      exact ⟨rfl, rfl, rfl⟩
  split
  · rename_i heq
    exact key _ _ _ heq
  · rename_i pf1 h1 heq
    have e1 := key _ _ _ heq
    have o := ipf_generate_secure_blob_outcome env pf1 h1 pf1.session_master_key
      RANDOM_KEY_NAME n
    rcases hg : ipf_generate_secure_blob env pf1 h1 pf1.session_master_key RANDOM_KEY_NAME n
      with ⟨k, pf2, h2⟩
    rw [hg] at o
    cases k
    · exact e1.o_trans o
    · exact e1.o_trans (o.o_congr rfl rfl rfl)

theorem write_recovery_nodes_outcome (env : Env) (l : List NodePtr) (pf : pf_context_t)
    (h : Host) (n : Nat) :
    Outcome (write_recovery_nodes env l pf h n).1.isSome pf
      (write_recovery_nodes env l pf h n).2.1 := by
  induction l generalizing pf h n with
  | nil => exact Outcome.o_same
  | cons p rest ih =>
    unfold write_recovery_nodes
    dsimp only
    split
    · exact ih ..
    · have o := ipf_write_recovery_record_outcome env pf h (n * RECOVERY_NODE_SIZE)
        (pf.deref p).recovery_node
      rcases hw : ipf_write_recovery_record env pf h (n * RECOVERY_NODE_SIZE)
        (pf.deref p).recovery_node with ⟨b, pf1, h1⟩
      rw [hw] at o
      cases b
      · exact o
      · exact Outcome.o_trans o (ih ..)

theorem ipf_set_update_flag_outcome (env : Env) (pf : pf_context_t) (h : Host) :
    Outcome (ipf_set_update_flag env pf h).1 pf (ipf_set_update_flag env pf h).2.1 := by
  unfold ipf_set_update_flag
  dsimp only
  have o := ipf_write_node_outcome env (pf.with_update_flag 1) h 0
    (.meta (pf.with_update_flag 1).file_meta_data)
  rcases hw : ipf_write_node env (pf.with_update_flag 1) h 0
    (.meta (pf.with_update_flag 1).file_meta_data) with ⟨b, pf1, h1⟩
  rw [hw] at o
  have s0 : Outcome true pf (pf.with_update_flag 1) := ⟨rfl, rfl, rfl⟩
  cases b
  · exact s0.o_trans o
  · exact (s0.o_trans o).o_congr rfl rfl rfl

/-- `ipf_clear_update_flag` keeps `file_status` and `hang`, and a recorded
failure stays a failure. -/
theorem ipf_clear_update_flag_outcome (env : Env) (pf : pf_context_t) (h : Host)
    (hf : pf.last_error ≠ SUCCESS) :
    (ipf_clear_update_flag env pf h).1.file_status = pf.file_status ∧
    (ipf_clear_update_flag env pf h).1.hang = pf.hang ∧
    (ipf_clear_update_flag env pf h).1.last_error ≠ SUCCESS := by
  unfold ipf_clear_update_flag
  have o := ipf_write_node_outcome env pf h 0 (.meta pf.file_meta_data)
  rcases hw : ipf_write_node env pf h 0 (.meta pf.file_meta_data) with ⟨b, pf1, h1⟩
  rw [hw] at o
  obtain ⟨o1, o2, o3⟩ := o
  refine ⟨o1, o2, ?_⟩
  cases b
  · exact o3
  · simp only [if_true] at o3
    dsimp only at o3 ⊢
    rw [o3]
    exact hf


theorem ipf_write_recovery_file_outcome (env : Env) (pf : pf_context_t) (h : Host) :
    Outcome (ipf_write_recovery_file env pf h).1 pf (ipf_write_recovery_file env pf h).2.1 := by
  unfold ipf_write_recovery_file
  split
  · exact Outcome.o_fail Outcome.o_same rfl rfl (show RECOVERY_IMPOSSIBLE ≠ SUCCESS by decide)
  · rcases ho : cb_open env h .recovery PF_FILE_MODE_WRITE with ⟨st, sz, h1⟩
    dsimp only
    split
    · rename_i c
      exact Outcome.o_fail Outcome.o_same rfl rfl (PF_FAILURE_ne c)
    · have o1 := write_recovery_nodes_outcome env (cache_ptrs pf) pf h1 0
      rcases hw : write_recovery_nodes env (cache_ptrs pf) pf h1 0 with ⟨n, pf2, h2⟩
      rw [hw] at o1
      cases n with
      | none => exact o1
      | some n =>
        dsimp only at o1 ⊢
        have key : ∀ o (pf3 : pf_context_t) (h3 : Host),
            (if (pf2.root_mht.need_writing && !pf2.root_mht.new_node) = true then
                match ipf_write_recovery_record env pf2 h2 (n * RECOVERY_NODE_SIZE)
                    pf2.root_mht.recovery_node with
                | (false, pf3, h3) =>
                  let h4 := (cb_close env h3 .recovery).2
                  let h5 := (cb_delete env h4).2
                  (none, pf3, h5)
                | (true, pf3, h3) => (some (n * RECOVERY_NODE_SIZE + RECOVERY_NODE_SIZE), pf3, h3)
              else (some (n * RECOVERY_NODE_SIZE), pf2, h2)) = (o, pf3, h3) →
            Outcome o.isSome pf2 pf3 := by
          intro o pf3 h3 heq3
          split at heq3
          · have o2 := ipf_write_recovery_record_outcome env pf2 h2 (n * RECOVERY_NODE_SIZE)
              pf2.root_mht.recovery_node
            rcases hr : ipf_write_recovery_record env pf2 h2 (n * RECOVERY_NODE_SIZE)
              pf2.root_mht.recovery_node with ⟨b, pf3a, h3a⟩
            rw [hr] at o2 heq3
            cases b <;> dsimp only at heq3 <;> simp only [Prod.mk.injEq] at heq3 <;>
              obtain ⟨rfl, rfl, -⟩ := heq3 <;> exact o2
          · simp only [Prod.mk.injEq] at heq3
            obtain ⟨rfl, rfl, -⟩ := heq3
            exact Outcome.o_same
        split
        · rename_i heq3
          exact o1.o_trans (key _ _ _ heq3)
        · rename_i off pf3 h3 heq3
          have e3 := o1.o_trans (key _ _ _ heq3)
          have o4 := ipf_write_recovery_record_outcome env pf3 h3 off
            pf3.meta_data_recovery_node
          rcases hm : ipf_write_recovery_record env pf3 h3 off pf3.meta_data_recovery_node
            with ⟨b, pf4, h4⟩
          rw [hm] at o4
          cases b
          · exact e3.o_trans o4
          · dsimp only
            rcases hcl : cb_close env h4 .recovery with ⟨st2, h5⟩
            dsimp only
            split
            · rename_i c
              exact Outcome.o_fail (e3.o_trans o4) rfl rfl (PF_FAILURE_ne c)
            · exact e3.o_trans o4

theorem update_data_nodes_outcome (env : Env) (l : List NodePtr) (pf : pf_context_t)
    (h : Host) :
    Outcome (update_data_nodes env l pf h).1 pf (update_data_nodes env l pf h).2.1 := by
  induction l generalizing pf h with
  | nil => exact Outcome.o_same
  | cons p rest ih =>
    unfold update_data_nodes
    dsimp only
    split
    · have o := ipf_derive_random_node_key_outcome env pf h (pf.deref p).physical_node_number
      rcases hd : ipf_derive_random_node_key env pf h (pf.deref p).physical_node_number
        with ⟨b, pf1, h1⟩
      rw [hd] at o
      cases b
      · exact o
      · dsimp only
        split
        · rename_i c
          exact Outcome.o_fail o rfl rfl (PF_FAILURE_ne c)
        · refine Outcome.o_trans ?_ (ih ..)
          exact (o.o_trans (modify_outcome _ _ _)).o_trans (modify_outcome _ _ _)
    · exact ih ..

theorem update_mht_nodes_outcome (env : Env) (l : List NodePtr) (pf : pf_context_t)
    (h : Host) :
    Outcome (update_mht_nodes env l pf h).1 pf (update_mht_nodes env l pf h).2.1 := by
  induction l generalizing pf h with
  | nil => exact Outcome.o_same
  | cons p rest ih =>
    unfold update_mht_nodes
    dsimp only
    have o := ipf_derive_random_node_key_outcome env pf h (pf.deref p).physical_node_number
    rcases hd : ipf_derive_random_node_key env pf h (pf.deref p).physical_node_number
      with ⟨b, pf1, h1⟩
    rw [hd] at o
    cases b
    · exact o
    · dsimp only
      split
      · rename_i c
        exact Outcome.o_fail o rfl rfl (PF_FAILURE_ne c)
      · refine Outcome.o_trans ?_ (ih ..)
        exact (o.o_trans (modify_outcome _ _ _)).o_trans (modify_outcome _ _ _)


theorem ipf_update_all_data_and_mht_nodes_outcome (env : Env) (pf : pf_context_t) (h : Host) :
    Outcome (ipf_update_all_data_and_mht_nodes env pf h).1 pf
      (ipf_update_all_data_and_mht_nodes env pf h).2.1 := by
  unfold ipf_update_all_data_and_mht_nodes
  have o1 := update_data_nodes_outcome env (cache_ptrs pf) pf h
  rcases h1e : update_data_nodes env (cache_ptrs pf) pf h with ⟨b1, pf1, h1⟩
  rw [h1e] at o1
  cases b1
  · exact o1
  · dsimp only
    have o2 := update_mht_nodes_outcome env
      (LISTP_SORT (fun a b => mht_sort (pf1.deref a) (pf1.deref b))
        (collect_mht_list pf1 (cache_ptrs pf1) [])) pf1 h1
    rcases h2e : update_mht_nodes env
      (LISTP_SORT (fun a b => mht_sort (pf1.deref a) (pf1.deref b))
        (collect_mht_list pf1 (cache_ptrs pf1) [])) pf1 h1 with ⟨b2, pf2, h2⟩
    rw [h2e] at o2
    cases b2
    · exact o1.o_trans o2
    · dsimp only
      have o3 := ipf_derive_random_node_key_outcome env pf2 h2
        pf2.root_mht.physical_node_number
      rcases h3e : ipf_derive_random_node_key env pf2 h2 pf2.root_mht.physical_node_number
        with ⟨b3, pf3, h3⟩
      rw [h3e] at o3
      cases b3
      · exact (o1.o_trans o2).o_trans o3
      · dsimp only
        split
        · rename_i c
          exact Outcome.o_fail ((o1.o_trans o2).o_trans o3) rfl rfl (PF_FAILURE_ne c)
        · exact ((o1.o_trans o2).o_trans o3).o_congr rfl rfl rfl

theorem ipf_update_meta_data_node_outcome (env : Env) (pf : pf_context_t) (h : Host) :
    Outcome (ipf_update_meta_data_node env pf h).1 pf
      (ipf_update_meta_data_node env pf h).2.1 := by
  unfold ipf_update_meta_data_node ipf_generate_random_meta_data_key
  have o1 := ipf_generate_secure_blob_from_user_kdk_outcome env pf h false
  rcases h1e : ipf_generate_secure_blob_from_user_kdk env pf h false with ⟨b1, pf1, h1⟩
  rw [h1e] at o1
  cases b1
  · exact o1
  · dsimp only
    split
    · rename_i c
      exact Outcome.o_fail o1 rfl rfl (PF_FAILURE_ne c)
    · exact o1.o_congr rfl rfl rfl

theorem write_dirty_nodes_outcome (env : Env) (l : List NodePtr) (pf : pf_context_t)
    (h : Host) :
    Outcome (write_dirty_nodes env l pf h).1 pf (write_dirty_nodes env l pf h).2.1 := by
  induction l generalizing pf h with
  | nil => exact Outcome.o_same
  | cons p rest ih =>
    unfold write_dirty_nodes
    dsimp only
    split
    · exact ih ..
    · have o := ipf_write_node_outcome env pf h (pf.deref p).physical_node_number
        (.node (pf.deref p).encrypted)
      rcases hw : ipf_write_node env pf h (pf.deref p).physical_node_number
        (.node (pf.deref p).encrypted) with ⟨b, pf1, h1⟩
      rw [hw] at o
      cases b
      · exact o
      · exact Outcome.o_trans (o.o_trans (modify_outcome _ _ _)) (ih ..)

theorem ipf_write_all_changes_to_disk_outcome (env : Env) (pf : pf_context_t) (h : Host) :
    Outcome (ipf_write_all_changes_to_disk env pf h).1 pf
      (ipf_write_all_changes_to_disk env pf h).2.1 := by
  unfold ipf_write_all_changes_to_disk
  dsimp only
  have key : ∀ b (pf1 : pf_context_t) (h1 : Host),
      (if (decide (pf.encrypted_part_plain.size > MD_USER_DATA_SIZE) &&
            pf.root_mht.need_writing) = true then
          match write_dirty_nodes env (cache_ptrs pf) pf h with
          | (false, pf1, h1) => (false, pf1, h1)
          | (true, pf1, h1) =>
            match ipf_write_node env pf1 h1 1 (.node pf1.root_mht.encrypted) with
            | (false, pf2, h2) => (false, pf2, h2)
            | (true, pf2, h2) =>
              (true,
                { pf2 with
                    root_mht := { pf2.root_mht with need_writing := false, new_node := false } },
                h2)
        else (true, pf, h)) = (b, pf1, h1) → Outcome b pf pf1 := by
    intro b pf1 h1 heq
    split at heq
    · have o1 := write_dirty_nodes_outcome env (cache_ptrs pf) pf h
      rcases hw : write_dirty_nodes env (cache_ptrs pf) pf h with ⟨b1, pfa, ha⟩
      rw [hw] at o1 heq
      cases b1
      · simp only [Prod.mk.injEq] at heq
        obtain ⟨rfl, rfl, -⟩ := heq
        exact o1
      · dsimp only at heq
        have o2 := ipf_write_node_outcome env pfa ha 1 (.node pfa.root_mht.encrypted)
        rcases hw2 : ipf_write_node env pfa ha 1 (.node pfa.root_mht.encrypted)
          with ⟨b2, pfb, hb⟩
        rw [hw2] at o2 heq
        cases b2 <;> simp only [Prod.mk.injEq] at heq <;> obtain ⟨rfl, rfl, -⟩ := heq
        · exact o1.o_trans o2
        · exact (o1.o_trans o2).o_congr rfl rfl rfl
    · simp only [Prod.mk.injEq] at heq
      obtain ⟨rfl, rfl, -⟩ := heq
      exact Outcome.o_same
  split
  · rename_i heq
    exact key _ _ _ heq
  · rename_i pf1 h1 heq
    exact (key _ _ _ heq).o_trans (ipf_write_node_outcome ..)


theorem ipf_internal_flush_verdict (env : Env) (pf : pf_context_t) (h : Host) :
    FlushVerdict (ipf_internal_flush env pf h).1 pf (ipf_internal_flush env pf h).2.1 := by
  unfold ipf_internal_flush
  try dsimp only
  have tail : ∀ (pf1 : pf_context_t) (h1 : Host), Outcome true pf pf1 →
      FlushVerdict
        (match ipf_update_meta_data_node env pf1 h1 with
          | (false, pf2, h2) =>
            match ipf_clear_update_flag env pf2 h2 with
            | (pf3, h3) => (false, { pf3 with file_status := CRYPTO_ERROR }, h3)
          | (true, pf2, h2) =>
            match ipf_write_all_changes_to_disk env pf2 h2 with
            | (false, pf3, h3) => (false, { pf3 with file_status := WRITE_TO_DISK_FAILED }, h3)
            | (true, pf3, h3) => (true, { pf3 with need_writing := false }, h3)).1 pf
        (match ipf_update_meta_data_node env pf1 h1 with
          | (false, pf2, h2) =>
            match ipf_clear_update_flag env pf2 h2 with
            | (pf3, h3) => (false, { pf3 with file_status := CRYPTO_ERROR }, h3)
          | (true, pf2, h2) =>
            match ipf_write_all_changes_to_disk env pf2 h2 with
            | (false, pf3, h3) => (false, { pf3 with file_status := WRITE_TO_DISK_FAILED }, h3)
            | (true, pf3, h3) => (true, { pf3 with need_writing := false }, h3)).2.1 := by
    intro pf1 h1 e1
    have e2 := e1.o_trans (ipf_update_meta_data_node_outcome env pf1 h1)
    rcases hu : ipf_update_meta_data_node env pf1 h1 with ⟨b, pf2, h2⟩
    rw [hu] at e2
    cases b
    · dsimp only at e2 ⊢
      obtain ⟨c1, c2, c3⟩ := ipf_clear_update_flag_outcome env pf2 h2 e2.2.2
      exact ⟨c2.trans e2.2.1, Or.inr (Or.inl rfl), c3⟩
    · dsimp only at e2 ⊢
      have e3 := e2.o_trans (ipf_write_all_changes_to_disk_outcome env pf2 h2)
      rcases hw : ipf_write_all_changes_to_disk env pf2 h2 with ⟨b, pf3, h3⟩
      rw [hw] at e3
      cases b
      · exact ⟨e3.2.1, Or.inr (Or.inr rfl), e3.2.2⟩
      · exact ⟨e3.2.1, e3.1, e3.2.2⟩
  have tree : ∀ (pf1 : pf_context_t) (h1 : Host), Outcome true pf pf1 →
      FlushVerdict
        (match
          (match ipf_set_update_flag env pf1 h1 with
            | (false, pf2, h2) => (false, { pf2 with file_status := FLUSH_ERROR }, h2)
            | (true, pf2, h2) =>
              match ipf_update_all_data_and_mht_nodes env pf2 h2 with
              | (false, pf3, h3) =>
                match ipf_clear_update_flag env pf3 h3 with
                | (pf4, h4) => (false, { pf4 with file_status := CRYPTO_ERROR }, h4)
              | (true, pf3, h3) => (true, pf3, h3)) with
          | (false, pf1, h1) => (false, pf1, h1)
          | (true, pf1, h1) =>
            match ipf_update_meta_data_node env pf1 h1 with
            | (false, pf2, h2) =>
              match ipf_clear_update_flag env pf2 h2 with
              | (pf3, h3) => (false, { pf3 with file_status := CRYPTO_ERROR }, h3)
            | (true, pf2, h2) =>
              match ipf_write_all_changes_to_disk env pf2 h2 with
              | (false, pf3, h3) =>
                (false, { pf3 with file_status := WRITE_TO_DISK_FAILED }, h3)
              | (true, pf3, h3) => (true, { pf3 with need_writing := false }, h3)).1 pf
        (match
          (match ipf_set_update_flag env pf1 h1 with
            | (false, pf2, h2) => (false, { pf2 with file_status := FLUSH_ERROR }, h2)
            | (true, pf2, h2) =>
              match ipf_update_all_data_and_mht_nodes env pf2 h2 with
              | (false, pf3, h3) =>
                match ipf_clear_update_flag env pf3 h3 with
                | (pf4, h4) => (false, { pf4 with file_status := CRYPTO_ERROR }, h4)
              | (true, pf3, h3) => (true, pf3, h3)) with
          | (false, pf1, h1) => (false, pf1, h1)
          | (true, pf1, h1) =>
            match ipf_update_meta_data_node env pf1 h1 with
            | (false, pf2, h2) =>
              match ipf_clear_update_flag env pf2 h2 with
              | (pf3, h3) => (false, { pf3 with file_status := CRYPTO_ERROR }, h3)
            | (true, pf2, h2) =>
              match ipf_write_all_changes_to_disk env pf2 h2 with
              | (false, pf3, h3) =>
                (false, { pf3 with file_status := WRITE_TO_DISK_FAILED }, h3)
              | (true, pf3, h3) => (true, { pf3 with need_writing := false }, h3)).2.1 := by
    intro pf1 h1 e1
    have e2 := e1.o_trans (ipf_set_update_flag_outcome env pf1 h1)
    rcases hs : ipf_set_update_flag env pf1 h1 with ⟨b, pf2, h2⟩
    rw [hs] at e2
    cases b
    · exact ⟨e2.2.1, Or.inl rfl, e2.2.2⟩
    · dsimp only at e2 ⊢
      have e3 := e2.o_trans (ipf_update_all_data_and_mht_nodes_outcome env pf2 h2)
      rcases hu : ipf_update_all_data_and_mht_nodes env pf2 h2 with ⟨b, pf3, h3⟩
      rw [hu] at e3
      cases b
      · dsimp only at e3 ⊢
        obtain ⟨c1, c2, c3⟩ := ipf_clear_update_flag_outcome env pf3 h3 e3.2.2
        exact ⟨c2.trans e3.2.1, Or.inr (Or.inl rfl), c3⟩
      · exact tail pf3 h3 e3
  split_ifs with hnw hguard hrec
  · exact ⟨rfl, rfl, rfl⟩
  · have e1 := ipf_write_recovery_file_outcome env pf h
    rcases hr : ipf_write_recovery_file env pf h with ⟨b, pf1, h1⟩
    rw [hr] at e1
    cases b
    · exact ⟨e1.2.1, Or.inl rfl, e1.2.2⟩
    · exact tree pf1 h1 e1
  · exact tree pf h Outcome.o_same
  · exact tail pf h Outcome.o_same


theorem FetchVerdict.f_same {pf : pf_context_t} : FetchVerdict true pf pf :=
  ⟨id, rfl, rfl⟩

theorem FetchVerdict.of_outcome {ok : Bool} {a b : pf_context_t} (o : Outcome ok a b) :
    FetchVerdict ok a b := by
  obtain ⟨o1, o2, o3⟩ := o
  refine ⟨fun hh => by rw [o2]; exact hh, ?_⟩
  cases ok
  · exact ⟨Or.inl o3, Or.inl o1⟩
  · exact ⟨o1, o3⟩

theorem FetchVerdict.f_trans {ok : Bool} {a b c : pf_context_t} (h1 : FetchVerdict true a b)
    (h2 : FetchVerdict ok b c) : FetchVerdict ok a c := by
  obtain ⟨a1, a2, a3⟩ := h1
  obtain ⟨b1, b2⟩ := h2
  refine ⟨fun hh => b1 (a1 hh), ?_⟩
  cases ok
  · obtain ⟨c1, c2⟩ := b2
    refine ⟨c1, ?_⟩
    rcases c2 with c2 | c2
    · exact Or.inl (c2.trans a2)
    · exact Or.inr c2
  · exact ⟨b2.1.trans a2, b2.2.trans a3⟩

theorem FetchVerdict.f_congr {ok : Bool} {a b c : pf_context_t} (h1 : FetchVerdict ok a b)
    (e1 : c.file_status = b.file_status) (e2 : c.hang = b.hang)
    (e3 : c.last_error = b.last_error) : FetchVerdict ok a c := by
  obtain ⟨a1, a2⟩ := h1
  refine ⟨fun hh => by rw [e2]; exact a1 hh, ?_⟩
  rw [e1, e2, e3]
  exact a2

theorem FetchVerdict.f_fail {a b c : pf_context_t} (h1 : FetchVerdict true a b)
    (e1 : c.file_status = b.file_status) (e2 : c.hang = b.hang)
    (e3 : c.last_error ≠ SUCCESS) : FetchVerdict false a c :=
  ⟨fun hh => by rw [e2]; exact h1.1 hh, Or.inl e3, Or.inl (e1.trans h1.2.1)⟩

theorem FetchVerdict.f_stall {a b : pf_context_t} (h1 : FetchVerdict true a b) :
    FetchVerdict false a { b with hang := true } :=
  ⟨fun _ => rfl, Or.inr rfl, Or.inl h1.2.1⟩

theorem FetchVerdict.decrypt_failed {a b : pf_context_t} {st : pf_status_t}
    (h1 : FetchVerdict true a b) (c : PF_FAILURE st = true) :
    FetchVerdict false a
      { b with last_error := st,
               file_status := if st = MAC_MISMATCH then CORRUPTED else b.file_status } := by
  refine ⟨h1.1, Or.inl (PF_FAILURE_ne c), ?_⟩
  by_cases m : st = MAC_MISMATCH
  · exact Or.inr ⟨by simp [m], m⟩
  · exact Or.inl (by simp only [if_neg m]; exact h1.2.1)

theorem ipf_read_mht_node_verdict (env : Env) (fuel : Nat) (pf : pf_context_t) (h : Host)
    (n : Nat) :
    FetchVerdict (ipf_read_mht_node env fuel pf h n).1.isSome pf
      (ipf_read_mht_node env fuel pf h n).2.1 := by
  induction fuel generalizing pf h n with
  | zero =>
    unfold ipf_read_mht_node
    try dsimp only
    split_ifs
    · exact FetchVerdict.f_same
    · split
      · exact FetchVerdict.f_same
      · exact FetchVerdict.f_same.f_stall
  | succ fuel ih =>
    unfold ipf_read_mht_node
    try dsimp only
    split_ifs
    · exact FetchVerdict.f_same
    · split
      · exact FetchVerdict.f_same
      · try dsimp only
        have e1 := ih pf h ((n - 1) / CHILD_MHT_NODES_COUNT)
        rcases hp : ipf_read_mht_node env fuel pf h ((n - 1) / CHILD_MHT_NODES_COUNT)
          with ⟨o, pf1, h1⟩
        rw [hp] at e1
        cases o with
        | none => exact e1
        | some parent =>
          try dsimp only at e1 ⊢
          rcases ha : alloc env h1 with ⟨b, h2⟩
          cases b
          · exact e1.f_fail rfl rfl (show NO_MEMORY ≠ SUCCESS by decide)
          · try dsimp only
            have e3 := e1.f_trans (FetchVerdict.of_outcome
              (ipf_read_node_outcome env pf1 h2 (mht_physical_node_number n)))
            rcases hr : ipf_read_node env pf1 h2 (mht_physical_node_number n) with ⟨ob, pf3, h3⟩
            rw [hr] at e3
            cases ob with
            | none => exact e3
            | some block =>
              try dsimp only at e3 ⊢
              by_cases c : PF_FAILURE (env.aes_gcm_decrypt
                ((pf3.deref parent).decrypted.as_mht.mht_nodes_crypto
                  ((n - 1) % CHILD_MHT_NODES_COUNT)).key block.as_node
                ((pf3.deref parent).decrypted.as_mht.mht_nodes_crypto
                  ((n - 1) % CHILD_MHT_NODES_COUNT)).gmac).1 = true
              · rw [if_pos c]
                exact e3.decrypt_failed c
              · rw [if_neg c]
                rcases ha2 : alloc env h3 with ⟨b, h4⟩
                cases b
                · exact e3.f_fail rfl rfl (show NO_MEMORY ≠ SUCCESS by decide)
                · exact e3.f_congr rfl rfl rfl


theorem ipf_append_mht_node_verdict (env : Env) (pf : pf_context_t) (h : Host) (n : Nat) :
    FetchVerdict (ipf_append_mht_node env pf h n).1.isSome pf
      (ipf_append_mht_node env pf h n).2.1 := by
  unfold ipf_append_mht_node
  have e1 := ipf_read_mht_node_verdict env n pf h ((n - 1) / CHILD_MHT_NODES_COUNT)
  rcases hp : ipf_read_mht_node env n pf h ((n - 1) / CHILD_MHT_NODES_COUNT) with ⟨o, pf1, h1⟩
  rw [hp] at e1
  cases o with
  | none => exact e1
  | some parent =>
    try dsimp only at e1 ⊢
    rcases ha : alloc env h1 with ⟨b, h2⟩
    cases b
    · exact e1.f_fail rfl rfl (show NO_MEMORY ≠ SUCCESS by decide)
    · try dsimp only
      rcases ha2 : alloc env h2 with ⟨b, h3⟩
      cases b
      · exact e1.f_fail rfl rfl (show NO_MEMORY ≠ SUCCESS by decide)
      · exact e1.f_congr rfl rfl rfl

theorem ipf_get_mht_node_verdict (env : Env) (pf : pf_context_t) (h : Host) :
    FetchVerdict (ipf_get_mht_node env pf h).1.isSome pf (ipf_get_mht_node env pf h).2.1 := by
  unfold ipf_get_mht_node
  try dsimp only
  split_ifs
  · exact FetchVerdict.f_same.f_fail rfl rfl (show UNKNOWN_ERROR ≠ SUCCESS by decide)
  · exact FetchVerdict.f_same
  · exact ipf_append_mht_node_verdict ..
  · exact ipf_read_mht_node_verdict ..

theorem ipf_append_data_node_verdict (env : Env) (pf : pf_context_t) (h : Host) :
    FetchVerdict (ipf_append_data_node env pf h).1.isSome pf
      (ipf_append_data_node env pf h).2.1 := by
  unfold ipf_append_data_node
  have e1 := ipf_get_mht_node_verdict env pf h
  rcases hp : ipf_get_mht_node env pf h with ⟨o, pf1, h1⟩
  rw [hp] at e1
  cases o with
  | none => exact e1
  | some parent =>
    try dsimp only at e1 ⊢
    rcases ha : alloc env h1 with ⟨b, h2⟩
    cases b
    · exact e1.f_fail rfl rfl (show NO_MEMORY ≠ SUCCESS by decide)
    · try dsimp only
      rcases ha2 : alloc env h2 with ⟨b, h3⟩
      cases b
      · exact e1.f_fail rfl rfl (show NO_MEMORY ≠ SUCCESS by decide)
      · exact e1.f_congr rfl rfl rfl

theorem ipf_read_data_node_verdict (env : Env) (pf : pf_context_t) (h : Host) :
    FetchVerdict (ipf_read_data_node env pf h).1.isSome pf
      (ipf_read_data_node env pf h).2.1 := by
  unfold ipf_read_data_node
  try dsimp only
  rcases hl : lruc_get pf.cache (get_node_numbers pf.offset).physical_data_node_number
    with ⟨o, c1⟩
  cases o with
  | some x => exact FetchVerdict.f_same.f_congr rfl rfl rfl
  | none =>
    try dsimp only
    have e1 := ipf_get_mht_node_verdict env pf h
    rcases hp : ipf_get_mht_node env pf h with ⟨o, pf1, h1⟩
    rw [hp] at e1
    cases o with
    | none => exact e1
    | some parent =>
      try dsimp only at e1 ⊢
      rcases ha : alloc env h1 with ⟨b, h2⟩
      cases b
      · exact e1.f_fail rfl rfl (show NO_MEMORY ≠ SUCCESS by decide)
      · try dsimp only
        have e3 := e1.f_trans (FetchVerdict.of_outcome (ipf_read_node_outcome env pf1 h2
          (get_node_numbers pf.offset).physical_data_node_number))
        rcases hr : ipf_read_node env pf1 h2
          (get_node_numbers pf.offset).physical_data_node_number with ⟨ob, pf3, h3⟩
        rw [hr] at e3
        cases ob with
        | none => exact e3
        | some block =>
          try dsimp only at e3 ⊢
          by_cases c : PF_FAILURE (env.aes_gcm_decrypt
            ((pf3.deref parent).decrypted.as_mht.data_nodes_crypto
              ((get_node_numbers pf.offset).data_node_number % ATTACHED_DATA_NODES_COUNT)).key
            block.as_node
            ((pf3.deref parent).decrypted.as_mht.data_nodes_crypto
              ((get_node_numbers pf.offset).data_node_number
                % ATTACHED_DATA_NODES_COUNT)).gmac).1 = true
          · rw [if_pos c]
            exact e3.decrypt_failed c
          · rw [if_neg c]
            rcases ha2 : alloc env h3 with ⟨b, h4⟩
            cases b
            · exact e3.f_fail rfl rfl (show NO_MEMORY ≠ SUCCESS by decide)
            · exact e3.f_congr rfl rfl rfl

theorem bump_parents_verdict (fuel : Nat) (pf : pf_context_t) (p : NodePtr) :
    FetchVerdict true pf (bump_parents fuel pf p) := by
  induction fuel generalizing pf p with
  | zero =>
    unfold bump_parents
    try dsimp only
    split_ifs
    · exact FetchVerdict.f_same
    · exact ⟨fun _ => rfl, rfl, rfl⟩
  | succ fuel ih =>
    unfold bump_parents
    try dsimp only
    split_ifs
    · exact FetchVerdict.f_same
    · exact FetchVerdict.f_trans
        (b := { pf with cache := (lruc_get pf.cache (pf.deref p).physical_node_number).2 })
        ⟨id, rfl, rfl⟩ (ih ..)

theorem mark_parents_verdict (fuel : Nat) (pf : pf_context_t) (p : NodePtr) :
    FetchVerdict true pf (mark_parents fuel pf p) := by
  induction fuel generalizing pf p with
  | zero =>
    unfold mark_parents
    try dsimp only
    split_ifs
    · exact FetchVerdict.f_same
    · exact ⟨fun _ => rfl, rfl, rfl⟩
  | succ fuel ih =>
    unfold mark_parents
    try dsimp only
    split_ifs
    · exact FetchVerdict.f_same
    · exact FetchVerdict.f_trans (FetchVerdict.of_outcome (modify_outcome _ _ _)) (ih ..)


theorem flush_failure_ne_success {s : pf_status_t} (h : flush_failure s) : s ≠ SUCCESS := by
  rcases h with h | h | h <;> rw [h] <;> decide

theorem evict_nodes_verdict (env : Env) (fuel : Nat) (pf : pf_context_t) (h : Host) :
    EvictVerdict env (evict_nodes env fuel pf h).1 pf (evict_nodes env fuel pf h).2.1 := by
  induction fuel generalizing pf h with
  | zero =>
    unfold evict_nodes
    try dsimp only
    split_ifs with c
    · exact ⟨fun _ => rfl, Or.inr ⟨rfl, rfl, rfl⟩⟩
    · exact ⟨id, rfl, rfl, Nat.le_of_not_lt c⟩
  | succ fuel ih =>
    unfold evict_nodes
    try dsimp only
    split_ifs with c
    · cases hl : lruc_get_last pf.cache with
      | none =>
        exfalso
        unfold lruc_get_last at hl
        rw [List.getLast?_eq_none_iff] at hl
        rw [hl] at c
        exact Nat.not_lt_zero _ c
      | some data =>
        try dsimp only
        split_ifs with d
        · exact ih { pf with cache := lruc_remove_last pf.cache } h
        · have e1 := ipf_internal_flush_verdict env pf h
          rcases hf : ipf_internal_flush env pf h with ⟨b, pf1, h1⟩
          rw [hf] at e1
          obtain ⟨f1, f2⟩ := e1
          cases b
          · simp only [Bool.false_eq_true, if_false] at f2
            refine ⟨fun hh => by rw [← f1] at hh; exact hh, Or.inl ⟨?_, f2.2⟩⟩
            have ns := flush_failure_ne_success f2.1
            simp only [if_neg ns]
            exact f2.1
          · simp only [if_true] at f2
            dsimp only
            obtain ⟨g1, g2⟩ := ih pf1 h1
            refine ⟨fun hh => g1 (by rw [f1]; exact hh), ?_⟩
            rcases hb : (evict_nodes env fuel pf1 h1).1 with _ | _
            · rw [hb] at g2
              simp only [Bool.false_eq_true, if_false] at g2 ⊢
              rcases g2 with g2 | g2
              · exact Or.inl g2
              · exact Or.inr ⟨g2.1, g2.2.1.trans f2.1, g2.2.2.trans f2.2⟩
            · rw [hb] at g2
              simp only [if_true] at g2 ⊢
              exact ⟨g2.1.trans f2.1, g2.2.1.trans f2.2, g2.2.2⟩
    · exact ⟨id, rfl, rfl, Nat.le_of_not_lt c⟩


theorem GetVerdict.of_fetch_evict (env : Env) {o : Option NodePtr} {pf pf2 pf3 : pf_context_t}
    {b : Bool} (e1 : FetchVerdict o.isSome pf pf2) (e2 : EvictVerdict env b pf2 pf3) :
    GetVerdict env (match b with | false => false | true => o.isSome) pf pf3 := by
  obtain ⟨f1, f2⟩ := e1
  obtain ⟨g1, g2⟩ := e2
  refine ⟨fun hh => g1 (f1 hh), ?_⟩
  cases b
  · simp only [Bool.false_eq_true, if_false] at g2 ⊢
    rcases g2 with g2 | g2
    · exact ⟨Or.inl g2.2, Or.inl g2.1⟩
    · refine ⟨Or.inr g2.1, ?_⟩
      cases o with
      | none =>
        simp only [Option.isSome_none, Bool.false_eq_true, if_false] at f2
        rcases f2.2 with k | k
        · exact Or.inr (Or.inl (g2.2.1.trans k))
        · exact Or.inr (Or.inr ⟨g2.2.1.trans k.1, g2.2.2.trans k.2⟩)
      | some p =>
        simp only [Option.isSome_some, if_true] at f2
        exact Or.inr (Or.inl (g2.2.1.trans f2.1))
  · simp only [if_true] at g2
    cases o with
    | none =>
      simp only [Option.isSome_none, Bool.false_eq_true, if_false] at f2 ⊢
      refine ⟨?_, ?_⟩
      · rcases f2.1 with k | k
        · exact Or.inl (by rw [g2.2.1]; exact k)
        · exact Or.inr (g1 k)
      · rcases f2.2 with k | k
        · exact Or.inr (Or.inl (g2.1.trans k))
        · exact Or.inr (Or.inr ⟨g2.1.trans k.1, g2.2.1.trans k.2⟩)
    | some p =>
      simp only [Option.isSome_some, if_true] at f2 ⊢
      exact ⟨g2.1.trans f2.1, g2.2.1.trans f2.2, g2.2.2⟩

theorem ipf_get_data_node_verdict (env : Env) (pf : pf_context_t) (h : Host) :
    GetVerdict env (ipf_get_data_node env pf h).1.isSome pf (ipf_get_data_node env pf h).2.1 := by
  unfold ipf_get_data_node
  try dsimp only
  have tail : ∀ (o : Option NodePtr) (pf1 : pf_context_t) (h1 : Host),
      FetchVerdict o.isSome pf pf1 →
      GetVerdict env
        (match
          evict_nodes env
            (2 * lruc_size
              (match o with
                | some p =>
                  bump_parents (pf1.deref (pf1.deref p).parent).node_number pf1 (pf1.deref p).parent
                | none => pf1).cache)
            (match o with
              | some p =>
                bump_parents (pf1.deref (pf1.deref p).parent).node_number pf1 (pf1.deref p).parent
              | none => pf1) h1 with
        | (false, pf3, h3) => (none, pf3, h3)
        | (true, pf3, h3) => (o, pf3, h3)).1.isSome pf
        (match
          evict_nodes env
            (2 * lruc_size
              (match o with
                | some p =>
                  bump_parents (pf1.deref (pf1.deref p).parent).node_number pf1 (pf1.deref p).parent
                | none => pf1).cache)
            (match o with
              | some p =>
                bump_parents (pf1.deref (pf1.deref p).parent).node_number pf1 (pf1.deref p).parent
              | none => pf1) h1 with
        | (false, pf3, h3) => (none, pf3, h3)
        | (true, pf3, h3) => (o, pf3, h3)).2.1 := by
    intro o pf1 h1 e1
    cases o with
    | none =>
      dsimp only
      have e3 := evict_nodes_verdict env (2 * lruc_size pf1.cache) pf1 h1
      rcases he : evict_nodes env (2 * lruc_size pf1.cache) pf1 h1 with ⟨b, pf3, h3⟩
      rw [he] at e3
      have := GetVerdict.of_fetch_evict env e1 e3
      cases b <;> exact this
    | some p =>
      dsimp only
      have e2 : FetchVerdict (some p).isSome pf
          (bump_parents (pf1.deref (pf1.deref p).parent).node_number pf1 (pf1.deref p).parent) :=
        FetchVerdict.f_trans e1 (bump_parents_verdict _ _ _)
      generalize bump_parents (pf1.deref (pf1.deref p).parent).node_number pf1
        (pf1.deref p).parent = pf2 at e2 ⊢
      have e3 := evict_nodes_verdict env (2 * lruc_size pf2.cache) pf2 h1
      rcases he : evict_nodes env (2 * lruc_size pf2.cache) pf2 h1 with ⟨b, pf3, h3⟩
      rw [he] at e3
      have := GetVerdict.of_fetch_evict env e2 e3
      cases b <;> exact this
  split_ifs
  · exact ⟨id, Or.inl (show UNKNOWN_ERROR ≠ SUCCESS by decide), Or.inr (Or.inl rfl)⟩
  · have e1 := ipf_append_data_node_verdict env pf h
    rcases hp : ipf_append_data_node env pf h with ⟨o, pf1, h1⟩
    rw [hp] at e1
    exact tail o pf1 h1 e1
  · have e1 := ipf_read_data_node_verdict env pf h
    rcases hp : ipf_read_data_node env pf h with ⟨o, pf1, h1⟩
    rw [hp] at e1
    exact tail o pf1 h1 e1

/-! ## Status fields and cache size across the read and write loops -/

theorem OpVerdict.of_get {env : Env} {found : Bool} {a b : pf_context_t}
    (g : GetVerdict env found a b) : OpVerdict env found a b := by
  obtain ⟨g1, g2⟩ := g
  refine ⟨g1, ?_⟩
  cases found
  · exact g2
  · simp only [if_true] at g2 ⊢
    exact ⟨g2.1, g2.2.1, fun _ => g2.2.2⟩

/-- A step that keeps the status fields and the number of cached nodes. -/
theorem OpVerdict.step {env : Env} {a b : pf_context_t} (e1 : b.file_status = a.file_status)
    (e2 : b.last_error = a.last_error) (e3 : a.hang = true → b.hang = true)
    (e4 : b.cache.length = a.cache.length) : OpVerdict env true a b :=
  ⟨e3, e1, e2, fun hh => by unfold lruc_size at hh ⊢; rw [e4]; exact hh⟩

theorem OpVerdict.v_trans {env : Env} {d : Bool} {a b c : pf_context_t}
    (h1 : OpVerdict env true a b) (h2 : OpVerdict env d b c) : OpVerdict env d a c := by
  obtain ⟨a1, a2, a3, a4⟩ := h1
  obtain ⟨b1, b2⟩ := h2
  refine ⟨fun hh => b1 (a1 hh), ?_⟩
  cases d
  · simp only [Bool.false_eq_true, if_false] at b2 ⊢
    refine ⟨b2.1, ?_⟩
    rcases b2.2 with k | k | k
    · exact Or.inl k
    · exact Or.inr (Or.inl (k.trans a2))
    · exact Or.inr (Or.inr k)
  · simp only [if_true] at b2 ⊢
    exact ⟨b2.1.trans a2, b2.2.1.trans a3, fun hh => b2.2.2 (a4 hh)⟩

theorem modify_cache_length (pf : pf_context_t) (p : NodePtr) (f : file_node_t → file_node_t) :
    (pf.modify p f).cache.length = pf.cache.length := by
  cases p
  · rfl
  · simp [pf_context_t.modify]

theorem mark_parents_cache_length (fuel : Nat) (pf : pf_context_t) (p : NodePtr) :
    (mark_parents fuel pf p).cache.length = pf.cache.length := by
  induction fuel generalizing pf p with
  | zero =>
    unfold mark_parents
    try dsimp only
    split_ifs <;> rfl
  | succ fuel ih =>
    unfold mark_parents
    try dsimp only
    split_ifs
    · rfl
    · rw [ih, modify_cache_length]

theorem modify_file_status (pf : pf_context_t) (p : NodePtr) (f : file_node_t → file_node_t) :
    (pf.modify p f).file_status = pf.file_status := by cases p <;> rfl

theorem modify_last_error (pf : pf_context_t) (p : NodePtr) (f : file_node_t → file_node_t) :
    (pf.modify p f).last_error = pf.last_error := by cases p <;> rfl

theorem modify_hang (pf : pf_context_t) (p : NodePtr) (f : file_node_t → file_node_t) :
    (pf.modify p f).hang = pf.hang := by cases p <;> rfl

theorem mark_parents_file_status (fuel : Nat) (pf : pf_context_t) (p : NodePtr) :
    (mark_parents fuel pf p).file_status = pf.file_status :=
  (mark_parents_verdict fuel pf p).2.1

theorem mark_parents_last_error (fuel : Nat) (pf : pf_context_t) (p : NodePtr) :
    (mark_parents fuel pf p).last_error = pf.last_error :=
  (mark_parents_verdict fuel pf p).2.2

theorem mark_parents_hang (fuel : Nat) (pf : pf_context_t) (p : NodePtr)
    (hh : pf.hang = true) : (mark_parents fuel pf p).hang = true :=
  (mark_parents_verdict fuel pf p).1 hh

theorem write_to_data_node_verdict (env : Env) (ptr : Option (Nat → Byte))
    (pf1 : pf_context_t) (p : NodePtr) (written left : Nat) :
    OpVerdict env true pf1 (write_to_data_node ptr pf1 p written left).1 := by
  unfold write_to_data_node
  try dsimp only
  refine OpVerdict.step ?_ ?_ ?_ ?_
  · split_ifs <;>
      simp only [mark_parents_file_status, modify_file_status]
  · split_ifs <;>
      simp only [mark_parents_last_error, modify_last_error]
  · intro hh
    split_ifs
    all_goals first
      | (simp only []
         apply mark_parents_hang
         simp only [modify_hang]
         exact hh)
      | (simp only [modify_hang]; exact hh)
  · split_ifs <;>
      simp only [mark_parents_cache_length, modify_cache_length]


theorem OpVerdict.v_same {env : Env} {pf : pf_context_t} : OpVerdict env true pf pf :=
  ⟨id, rfl, rfl, id⟩

theorem OpVerdict.v_stall {env : Env} {pf : pf_context_t} :
    OpVerdict env false pf { pf with hang := true } :=
  ⟨fun _ => rfl, Or.inr rfl, Or.inr (Or.inl rfl)⟩

theorem write_data_nodes_verdict (env : Env) (ptr : Option (Nat → Byte)) (fuel : Nat)
    (pf : pf_context_t) (h : Host) (w left : Nat) :
    (write_data_nodes env ptr fuel pf h w left).1 ≤ left ∧
    OpVerdict env (decide ((write_data_nodes env ptr fuel pf h w left).1 = 0)) pf
      (write_data_nodes env ptr fuel pf h w left).2.1 := by
  induction fuel generalizing pf h w left with
  | zero =>
    unfold write_data_nodes
    split_ifs with c
    · have : ¬ left = 0 := by omega
      exact ⟨le_refl _, by simp only [this, decide_False]; exact OpVerdict.v_stall⟩
    · exact ⟨Nat.zero_le _, OpVerdict.v_same⟩
  | succ fuel ih =>
    unfold write_data_nodes
    split_ifs with c
    · dsimp only
      have g := ipf_get_data_node_verdict env pf h
      rcases hg : ipf_get_data_node env pf h with ⟨o, pf1, h1⟩
      rw [hg] at g
      cases o with
      | none =>
        dsimp only at g ⊢
        have : ¬ left = 0 := by omega
        exact ⟨le_refl _, by simp only [this, decide_False]; exact OpVerdict.of_get g⟩
      | some p =>
        dsimp only at g ⊢
        have e1 := (OpVerdict.of_get g).v_trans
          (write_to_data_node_verdict env ptr pf1 p w left)
        obtain ⟨i1, i2⟩ := ih (write_to_data_node ptr pf1 p w left).1 h1
          (w + (write_to_data_node ptr pf1 p w left).2)
          (left - (write_to_data_node ptr pf1 p w left).2)
        exact ⟨le_trans i1 (Nat.sub_le _ _), e1.v_trans i2⟩
    · exact ⟨Nat.zero_le _, OpVerdict.v_same⟩

theorem read_data_nodes_verdict (env : Env) (fuel : Nat) (pf : pf_context_t) (h : Host)
    (out : Nat → Byte) (done left : Nat) :
    (read_data_nodes env fuel pf h out done left).1 ≤ left ∧
    OpVerdict env (decide ((read_data_nodes env fuel pf h out done left).1 = 0)) pf
      (read_data_nodes env fuel pf h out done left).2.2.1 := by
  induction fuel generalizing pf h out done left with
  | zero =>
    unfold read_data_nodes
    split_ifs with c
    · have : ¬ left = 0 := by omega
      exact ⟨le_refl _, by simp only [this, decide_False]; exact OpVerdict.v_stall⟩
    · exact ⟨Nat.zero_le _, OpVerdict.v_same⟩
  | succ fuel ih =>
    unfold read_data_nodes
    split_ifs with c
    · dsimp only
      have g := ipf_get_data_node_verdict env pf h
      rcases hg : ipf_get_data_node env pf h with ⟨o, pf1, h1⟩
      rw [hg] at g
      cases o with
      | none =>
        dsimp only at g ⊢
        have : ¬ left = 0 := by omega
        exact ⟨le_refl _, by simp only [this, decide_False]; exact OpVerdict.of_get g⟩
      | some p =>
        dsimp only at g ⊢
        refine ⟨le_trans (ih _ _ _ _ _).1 (Nat.sub_le _ _), ?_⟩
        refine OpVerdict.v_trans ?_ (ih _ _ _ _ _).2
        exact (OpVerdict.of_get g).v_trans (OpVerdict.step rfl rfl id rfl)
    · exact ⟨Nat.zero_le _, OpVerdict.v_same⟩


theorem ipf_read_verdict (env : Env) (pf : pf_context_t) (h : Host)
    (ptr : Option (Nat → Byte)) (size : Nat) :
    OpVerdict env true pf (ipf_read env pf h ptr size).2.2.1 ∨
    (OpVerdict env false pf (ipf_read env pf h ptr size).2.2.1 ∧
      (ipf_read env pf h ptr size).1 ≠ size) := by
  unfold ipf_read
  cases ptr with
  | none => exact Or.inl OpVerdict.v_same
  | some out =>
    dsimp only
    by_cases c0 : size = 0
    · rw [if_pos c0]
      exact Or.inl OpVerdict.v_same
    rw [if_neg c0]
    by_cases c1 : PF_FAILURE pf.file_status = true
    · rw [if_pos c1]
      exact Or.inr ⟨⟨id, Or.inl (PF_FAILURE_ne c1), Or.inr (Or.inl rfl)⟩, fun e => c0 e.symm⟩
    rw [if_neg c1]
    by_cases c2 : (!mode_has pf.mode PF_FILE_MODE_READ) = true
    · rw [if_pos c2]
      exact Or.inr ⟨⟨id, Or.inl (show INVALID_MODE ≠ SUCCESS by decide), Or.inr (Or.inl rfl)⟩,
        fun e => c0 e.symm⟩
    rw [if_neg c2]
    by_cases c3 : pf.end_of_file = true
    · rw [if_pos c3]
      exact Or.inl OpVerdict.v_same
    rw [if_neg c3]
    by_cases c4 : pf.offset = pf.encrypted_part_plain.size
    · rw [if_pos c4]
      exact Or.inl (OpVerdict.step rfl rfl id rfl)
    rw [if_neg c4]
    generalize hatt : (if size > u64_sub pf.encrypted_part_plain.size pf.offset then
        u64_sub pf.encrypted_part_plain.size pf.offset else size) = att
    have hatt_le : att ≤ size := by
      rw [← hatt]
      split_ifs <;> omega
    have tail : ∀ (l0 : Nat) (o1 : Nat → Byte) (pf1 : pf_context_t), l0 ≤ att →
        OpVerdict env true pf pf1 →
        (OpVerdict env true pf
          (match read_data_nodes env l0 pf1 h o1 (att - l0) l0 with
            | (left, out2, pf2, h2) =>
              (att - left, some out2,
                if left = 0 ∧ att ≠ size then { pf2 with end_of_file := true } else pf2,
                h2)).2.2.1 ∨
        (OpVerdict env false pf
          (match read_data_nodes env l0 pf1 h o1 (att - l0) l0 with
            | (left, out2, pf2, h2) =>
              (att - left, some out2,
                if left = 0 ∧ att ≠ size then { pf2 with end_of_file := true } else pf2,
                h2)).2.2.1 ∧
          (match read_data_nodes env l0 pf1 h o1 (att - l0) l0 with
            | (left, out2, pf2, h2) =>
              (att - left, some out2,
                if left = 0 ∧ att ≠ size then { pf2 with end_of_file := true } else pf2,
                h2)).1 ≠ size)) := by
      intro l0 o1 pf1 k1 k2
      obtain ⟨r1, r2⟩ := read_data_nodes_verdict env l0 pf1 h o1 (att - l0) l0
      rcases hr : read_data_nodes env l0 pf1 h o1 (att - l0) l0 with ⟨left, out2, pf2, h2⟩
      rw [hr] at r1 r2
      dsimp only at r1 r2 ⊢
      by_cases cl : left = 0
      · left
        simp only [cl, decide_True] at r2
        refine (k2.v_trans r2).v_trans ?_
        split_ifs <;> exact OpVerdict.step rfl rfl id rfl
      · right
        simp only [cl, decide_False] at r2
        refine ⟨?_, by omega⟩
        have c5 : ¬ (left = 0 ∧ att ≠ size) := fun hh => cl hh.1
        rw [if_neg c5]
        exact k2.v_trans r2
    by_cases cm : pf.offset < MD_USER_DATA_SIZE
    · rw [if_pos cm]
      exact tail _ _ _ (Nat.sub_le _ _) (OpVerdict.step rfl rfl id rfl)
    · rw [if_neg cm]
      exact tail _ _ _ (le_refl _) OpVerdict.v_same


theorem write_to_md_verdict (env : Env) (ptr : Option (Nat → Byte)) (pf : pf_context_t)
    (size : Nat) :
    (write_to_md ptr pf size).1 ≤ size ∧ OpVerdict env true pf (write_to_md ptr pf size).2 := by
  unfold write_to_md
  dsimp only
  refine ⟨Nat.sub_le _ _, ?_⟩
  split_ifs <;> exact OpVerdict.step rfl rfl id rfl

theorem ipf_write_verdict (env : Env) (pf : pf_context_t) (h : Host)
    (ptr : Option (Nat → Byte)) (size : Nat) :
    (pf.hang = true → (ipf_write env pf h ptr size).2.1.hang = true) ∧
    (((ipf_write env pf h ptr size).1 = size ∧
        (ipf_write env pf h ptr size).2.1.file_status = pf.file_status ∧
        (lruc_size pf.cache ≤ env.MAX_PAGES_IN_CACHE →
          lruc_size (ipf_write env pf h ptr size).2.1.cache ≤ env.MAX_PAGES_IN_CACHE)) ∨
      ((ipf_write env pf h ptr size).1 ≠ size ∧
        OpVerdict env false pf (ipf_write env pf h ptr size).2.1)) := by
  unfold ipf_write
  by_cases c0 : size = 0
  · rw [if_pos c0]
    exact ⟨id, Or.inl ⟨c0.symm, rfl, id⟩⟩
  rw [if_neg c0]
  by_cases c1 : PF_FAILURE pf.file_status = true
  · rw [if_pos c1]
    exact ⟨id, Or.inr ⟨fun e => c0 e.symm,
      ⟨id, Or.inl (PF_FAILURE_ne c1), Or.inr (Or.inl rfl)⟩⟩⟩
  rw [if_neg c1]
  by_cases c2 : (!mode_has pf.mode PF_FILE_MODE_WRITE) = true
  · rw [if_pos c2]
    exact ⟨id, Or.inr ⟨fun e => c0 e.symm,
      ⟨id, Or.inl (show INVALID_MODE ≠ SUCCESS by decide), Or.inr (Or.inl rfl)⟩⟩⟩
  rw [if_neg c2]
  have tail : ∀ (l0 : Nat) (pf1 : pf_context_t), l0 ≤ size → OpVerdict env true pf pf1 →
      (pf.hang = true →
        (match write_data_nodes env ptr l0 pf1 h (size - l0) l0 with
          | (left, pf2, h2) => (size - left, pf2, h2)).2.1.hang = true) ∧
      (((match write_data_nodes env ptr l0 pf1 h (size - l0) l0 with
          | (left, pf2, h2) => (size - left, pf2, h2)).1 = size ∧
        (match write_data_nodes env ptr l0 pf1 h (size - l0) l0 with
          | (left, pf2, h2) => (size - left, pf2, h2)).2.1.file_status = pf.file_status ∧
        (lruc_size pf.cache ≤ env.MAX_PAGES_IN_CACHE →
          lruc_size (match write_data_nodes env ptr l0 pf1 h (size - l0) l0 with
            | (left, pf2, h2) => (size - left, pf2, h2)).2.1.cache
              ≤ env.MAX_PAGES_IN_CACHE)) ∨
      ((match write_data_nodes env ptr l0 pf1 h (size - l0) l0 with
          | (left, pf2, h2) => (size - left, pf2, h2)).1 ≠ size ∧
        OpVerdict env false pf
          (match write_data_nodes env ptr l0 pf1 h (size - l0) l0 with
            | (left, pf2, h2) => (size - left, pf2, h2)).2.1)) := by
    intro l0 pf1 k1 k2
    obtain ⟨r1, r2⟩ := write_data_nodes_verdict env ptr l0 pf1 h (size - l0) l0
    rcases hr : write_data_nodes env ptr l0 pf1 h (size - l0) l0 with ⟨left, pf2, h2⟩
    rw [hr] at r1 r2
    dsimp only at r1 r2 ⊢
    by_cases cl : left = 0
    · simp only [cl, decide_True] at r2
      have e := k2.v_trans r2
      exact ⟨e.1, Or.inl ⟨by omega, e.2.1, e.2.2.2⟩⟩
    · simp only [cl, decide_False] at r2
      have e := k2.v_trans r2
      exact ⟨e.1, Or.inr ⟨by omega, e⟩⟩
  by_cases cm : pf.offset < MD_USER_DATA_SIZE
  · rw [if_pos cm]
    obtain ⟨m1, m2⟩ := write_to_md_verdict env ptr pf size
    exact tail _ _ m1 m2
  · rw [if_neg cm]
    exact tail _ _ (le_refl _) OpVerdict.v_same


theorem not_hang_of_mono {a b : Bool} (m : a = true → b = true) (hb : b = false) :
    a = false := by
  cases a
  · rfl
  · rw [m rfl] at hb
    exact absurd hb (by decide)

theorem pf_set_size_capacity (env : Env) (pf : pf_context_t) (h : Host) (n : Nat)
    (hpre : lruc_size pf.cache ≤ env.MAX_PAGES_IN_CACHE) :
    (pf.hang = true → (pf_set_size env pf h n).2.1.hang = true) ∧
    ((pf_set_size env pf h n).1 = SUCCESS → (pf_set_size env pf h n).2.1.hang = false →
      lruc_size (pf_set_size env pf h n).2.1.cache ≤ env.MAX_PAGES_IN_CACHE) := by
  unfold pf_set_size
  by_cases c0 : (!env.g_initialized) = true
  · rw [if_pos c0]
    exact ⟨id, fun _ _ => hpre⟩
  rw [if_neg c0]
  by_cases c1 : (!mode_has pf.mode PF_FILE_MODE_WRITE) = true
  · rw [if_pos c1]
    exact ⟨id, fun _ _ => hpre⟩
  rw [if_neg c1]
  by_cases c2 : n = pf.encrypted_part_plain.size
  · rw [if_pos c2]
    exact ⟨id, fun _ _ => hpre⟩
  rw [if_neg c2]
  by_cases c3 : n > pf.encrypted_part_plain.size
  · rw [if_pos c3]
    dsimp only
    obtain ⟨w1, w2⟩ := ipf_write_verdict env { pf with offset := pf.encrypted_part_plain.size }
      h none (n - pf.encrypted_part_plain.size)
    rcases hw : ipf_write env { pf with offset := pf.encrypted_part_plain.size } h none
      (n - pf.encrypted_part_plain.size) with ⟨written, pf2, h2⟩
    rw [hw] at w1 w2
    dsimp only at w1 w2 ⊢
    refine ⟨?_, ?_⟩
    · intro hh
      split_ifs <;> exact w1 hh
    · rcases w2 with ⟨e, -, k⟩ | ⟨e, k⟩
      · rw [if_neg (not_not.mpr e)]
        exact fun _ _ => k hpre
      · rw [if_pos e]
        intro hs hh
        dsimp only at hs hh
        rcases k.2.1 with k1 | k1
        · exact absurd hs k1
        · rw [hh] at k1
          exact absurd k1 (by decide)
  · rw [if_neg c3]
    exact ⟨id, fun _ _ => hpre⟩

theorem ipf_seek_capacity (env : Env) (pf : pf_context_t) (h : Host) (o : Nat)
    (hpre : lruc_size pf.cache ≤ env.MAX_PAGES_IN_CACHE) :
    (pf.hang = true → (ipf_seek env pf h o).2.1.hang = true) ∧
    ((ipf_seek env pf h o).1 = true → (ipf_seek env pf h o).2.1.hang = false →
      lruc_size (ipf_seek env pf h o).2.1.cache ≤ env.MAX_PAGES_IN_CACHE) ∧
    ((ipf_seek env pf h o).1 = false → (ipf_seek env pf h o).2.1.last_error ≠ SUCCESS) := by
  unfold ipf_seek
  by_cases c0 : PF_FAILURE pf.file_status = true
  · rw [if_pos c0]
    exact ⟨id, fun _ _ => hpre, fun _ => PF_FAILURE_ne c0⟩
  rw [if_neg c0]
  dsimp only
  by_cases c1 : o ≤ pf.encrypted_part_plain.size
  · rw [if_pos c1]
    exact ⟨id, fun _ _ => hpre, fun e => by simp at e⟩
  rw [if_neg c1]
  by_cases c2 : mode_has pf.mode PF_FILE_MODE_WRITE = true
  · rw [if_pos c2]
    obtain ⟨s1, s2⟩ := pf_set_size_capacity env pf h o hpre
    rcases hs : pf_set_size env pf h o with ⟨st, pf1, h1⟩
    rw [hs] at s1 s2
    dsimp only at s1 s2 ⊢
    cases hst : PF_SUCCESS st
    · exact ⟨s1, fun e => by simp at e, fun _ => by simp⟩
    · have : st = SUCCESS := by simpa [PF_SUCCESS] using hst
      exact ⟨s1, fun _ hh => s2 this hh, fun e => by simp at e⟩
  · rw [if_neg c2]
    exact ⟨id, fun e => by simp at e, fun _ => by simp⟩


theorem pf_read_capacity (env : Env) (pf : pf_context_t) (h : Host) (o n : Nat)
    (out : Option (Nat → Byte)) (hpre : lruc_size pf.cache ≤ env.MAX_PAGES_IN_CACHE)
    (hs : (pf_read env pf h o n out).1 = SUCCESS)
    (hh : (pf_read env pf h o n out).2.2.1.hang = false) :
    lruc_size (pf_read env pf h o n out).2.2.1.cache ≤ env.MAX_PAGES_IN_CACHE := by
  unfold pf_read at hs hh ⊢
  by_cases c0 : (!env.g_initialized) = true
  · rw [if_pos c0] at hs
    simp at hs
  rw [if_neg c0] at hs hh ⊢
  obtain ⟨s1, s2, s3⟩ := ipf_seek_capacity env pf h o hpre
  rcases hk : ipf_seek env pf h o with ⟨b, pf1, h1⟩
  try rw [hk] at s1
  try rw [hk] at s2
  try rw [hk] at s3
  try rw [hk] at hs
  try rw [hk] at hh
  try rw [hk]
  dsimp only at s1 s2 s3
  cases b
  · dsimp only at hs
    exact absurd hs (s3 rfl)
  · dsimp only at hs hh ⊢
    have v := ipf_read_verdict env pf1 h1 out n
    rcases hr : ipf_read env pf1 h1 out n with ⟨count, out2, pf2, h2⟩
    try rw [hr] at v
    try rw [hr] at hs
    try rw [hr] at hh
    try rw [hr]
    dsimp only at v hs hh ⊢
    have hh2 : pf2.hang = false := by
      split_ifs at hh <;> exact hh
    have goal2 : lruc_size pf2.cache ≤ env.MAX_PAGES_IN_CACHE := by
      rcases v with v | ⟨v, ne⟩
      · exact v.2.2.2 (s2 rfl (not_hang_of_mono v.1 hh2))
      · rw [if_pos ne] at hs
        dsimp only at hs
        rcases v.2.1 with k | k
        · exact absurd hs k
        · rw [hh2] at k
          exact absurd k (by decide)
    split_ifs <;> exact goal2

theorem pf_write_capacity (env : Env) (pf : pf_context_t) (h : Host) (o n : Nat)
    (inp : Option (Nat → Byte)) (hpre : lruc_size pf.cache ≤ env.MAX_PAGES_IN_CACHE)
    (hs : (pf_write env pf h o n inp).1 = SUCCESS)
    (hh : (pf_write env pf h o n inp).2.1.hang = false) :
    lruc_size (pf_write env pf h o n inp).2.1.cache ≤ env.MAX_PAGES_IN_CACHE := by
  unfold pf_write at hs hh ⊢
  by_cases c0 : (!env.g_initialized) = true
  · rw [if_pos c0] at hs
    simp at hs
  rw [if_neg c0] at hs hh ⊢
  obtain ⟨s1, s2, s3⟩ := ipf_seek_capacity env pf h o hpre
  rcases hk : ipf_seek env pf h o with ⟨b, pf1, h1⟩
  try rw [hk] at s1
  try rw [hk] at s2
  try rw [hk] at s3
  try rw [hk] at hs
  try rw [hk] at hh
  try rw [hk]
  dsimp only at s1 s2 s3
  cases b
  · dsimp only at hs
    exact absurd hs (s3 rfl)
  · dsimp only at hs hh ⊢
    obtain ⟨w1, w2⟩ := ipf_write_verdict env pf1 h1 inp n
    rcases hw : ipf_write env pf1 h1 inp n with ⟨count, pf2, h2⟩
    try rw [hw] at w1
    try rw [hw] at w2
    try rw [hw] at hs
    try rw [hw] at hh
    try rw [hw]
    dsimp only at w1 w2 hs hh ⊢
    have hh2 : pf2.hang = false := by
      split_ifs at hh <;> exact hh
    have goal2 : lruc_size pf2.cache ≤ env.MAX_PAGES_IN_CACHE := by
      rcases w2 with ⟨-, -, k⟩ | ⟨ne, v⟩
      · exact k (s2 rfl (not_hang_of_mono w1 hh2))
      · rw [if_pos ne] at hs
        dsimp only at hs
        rcases v.2.1 with k | k
        · exact absurd hs k
        · rw [hh2] at k
          exact absurd k (by decide)
    split_ifs <;> exact goal2


/-- C18, as stated, fails: after a forced flush has failed, the cache holds 49
nodes (capacity 48), and `pf_set_size` to the current size returns `SUCCESS`
with these 49 nodes still cached. -/
theorem pf_set_size_success_over_capacity :
    (example_env_failing 0).MAX_PAGES_IN_CACHE = 48 ∧
    example_overfull.1.file_status = FLUSH_ERROR ∧
    (pf_set_size (example_env_failing 0) example_overfull.1 example_overfull.2
      example_overfull.1.encrypted_part_plain.size).1 = SUCCESS ∧
    (pf_set_size (example_env_failing 0) example_overfull.1 example_overfull.2
      example_overfull.1.encrypted_part_plain.size).2.1.hang = false ∧
    lruc_size (pf_set_size (example_env_failing 0) example_overfull.1 example_overfull.2
      example_overfull.1.encrypted_part_plain.size).2.1.cache = 49 := by
  decide!

/-- C18, amended: on a context whose cache holds at most `MAX_PAGES_IN_CACHE`
nodes, after a `pf_read`, `pf_write` or `pf_set_size` call that returns
`SUCCESS` the cache holds at most `MAX_PAGES_IN_CACHE` nodes (`hang = false`
says that the call returned: no loop of the model ran out of fuel); and
whenever `ipf_get_data_node` returns a node, `lruc_size` is at most
`MAX_PAGES_IN_CACHE`. -/
theorem cache_within_capacity (env : Env) (pf : pf_context_t) (h : Host) (call : NodeCall)
    (hpre : lruc_size pf.cache ≤ env.MAX_PAGES_IN_CACHE)
    (hs : (call.run env pf h).1 = SUCCESS) (hh : (call.run env pf h).2.1.hang = false) :
    lruc_size (call.run env pf h).2.1.cache ≤ env.MAX_PAGES_IN_CACHE ∧
    ((ipf_get_data_node env pf h).1.isSome = true →
      lruc_size (ipf_get_data_node env pf h).2.1.cache ≤ env.MAX_PAGES_IN_CACHE) := by
  constructor
  · cases call with
    | read o n out => exact pf_read_capacity env pf h o n out hpre hs hh
    | write o n inp => exact pf_write_capacity env pf h o n inp hpre hs hh
    | set_size n => exact (pf_set_size_capacity env pf h n hpre).2 hs hh
  · intro hsome
    have g := ipf_get_data_node_verdict env pf h
    rw [hsome] at g
    exact g.2.2.2

/-- On the one-node file: a `pf_read` of its data node, and the fetch of the
data node at offset `MD_USER_DATA_SIZE`. -/
theorem cache_within_capacity_witness :
    lruc_size (ipf_seek example_env example_one_node.1 example_one_node.2
      MD_USER_DATA_SIZE).2.1.cache ≤ example_env.MAX_PAGES_IN_CACHE ∧
    ((NodeCall.read MD_USER_DATA_SIZE 10 (some zero_bytes)).run example_env
      (ipf_seek example_env example_one_node.1 example_one_node.2 MD_USER_DATA_SIZE).2.1
      example_one_node.2).1 = SUCCESS ∧
    ((NodeCall.read MD_USER_DATA_SIZE 10 (some zero_bytes)).run example_env
      (ipf_seek example_env example_one_node.1 example_one_node.2 MD_USER_DATA_SIZE).2.1
      example_one_node.2).2.1.hang = false ∧
    lruc_size ((NodeCall.read MD_USER_DATA_SIZE 10 (some zero_bytes)).run example_env
      (ipf_seek example_env example_one_node.1 example_one_node.2 MD_USER_DATA_SIZE).2.1
      example_one_node.2).2.1.cache ≤ example_env.MAX_PAGES_IN_CACHE ∧
    (ipf_get_data_node example_env
      (ipf_seek example_env example_one_node.1 example_one_node.2 MD_USER_DATA_SIZE).2.1
      example_one_node.2).1.isSome = true ∧
    lruc_size (ipf_get_data_node example_env
      (ipf_seek example_env example_one_node.1 example_one_node.2 MD_USER_DATA_SIZE).2.1
      example_one_node.2).2.1.cache ≤ example_env.MAX_PAGES_IN_CACHE :=
  have w := cache_within_capacity example_env
    (ipf_seek example_env example_one_node.1 example_one_node.2 MD_USER_DATA_SIZE).2.1
    example_one_node.2 (.read MD_USER_DATA_SIZE 10 (some zero_bytes))
    (by decide!) (by decide!) (by decide!)
  ⟨by decide!, by decide!, by decide!, w.1, by decide!, w.2 (by decide!)⟩

/-! ## Theorems: authentication failure -/

/-- A data node fetch whose block fails authentication: the node is not in
the cache, its MHT node `m` is found, the node is allocated, the block is
read, and decryption under the key and tag of the parent entry reports
`MAC_MISMATCH`.  The fetch returns none, and the context is the one left by
the MHT fetch (the cache included: the node is not added) with
`last_error = MAC_MISMATCH` and `file_status = CORRUPTED`. -/
theorem ipf_read_data_node_mac_mismatch (env : Env) (pf : pf_context_t) (h : Host)
    (m : NodePtr)
    (hmiss : (lruc_get pf.cache
      (get_node_numbers pf.offset).physical_data_node_number).1.isNone = true)
    (hm : (ipf_get_mht_node env pf h).1 = some m)
    (ha : env.alloc_ok (ipf_get_mht_node env pf h).2.2.allocs = true)
    (hio : env.io_status (ipf_get_mht_node env pf h).2.2.clock = SUCCESS)
    (hd : (env.aes_gcm_decrypt
      (((ipf_get_mht_node env pf h).2.1.deref m).decrypted.as_mht.data_nodes_crypto
        ((get_node_numbers pf.offset).data_node_number % ATTACHED_DATA_NODES_COUNT)).key
      ((ipf_get_mht_node env pf h).2.2.file
        ((get_node_numbers pf.offset).physical_data_node_number * PF_NODE_SIZE % U64
          / PF_NODE_SIZE)).as_node
      (((ipf_get_mht_node env pf h).2.1.deref m).decrypted.as_mht.data_nodes_crypto
        ((get_node_numbers pf.offset).data_node_number % ATTACHED_DATA_NODES_COUNT)).gmac).1
      = MAC_MISMATCH) :
    (ipf_read_data_node env pf h).1 = none ∧
    (ipf_read_data_node env pf h).2.1 =
      { (ipf_get_mht_node env pf h).2.1 with
          last_error := MAC_MISMATCH, file_status := CORRUPTED } := by
  unfold ipf_read_data_node
  try dsimp only
  rcases hl : lruc_get pf.cache (get_node_numbers pf.offset).physical_data_node_number
    with ⟨o, c1⟩
  rw [hl] at hmiss
  cases o with
  | some x => simp at hmiss
  | none =>
    try dsimp only
    rcases hp : ipf_get_mht_node env pf h with ⟨o, pf1, h1⟩
    rw [hp] at hm ha hio hd
    dsimp only at hm ha hio hd
    subst hm
    try dsimp only
    unfold alloc
    rw [ha]
    try dsimp only
    unfold ipf_read_node cb_read
    try dsimp only
    have f0 : PF_FAILURE SUCCESS = false := rfl
    have f1 : PF_FAILURE MAC_MISMATCH = true := rfl
    simp only [hio, f0, Bool.false_eq_true, if_false, Host.tick, hd, f1, if_true]
    exact ⟨trivial, trivial⟩

/-- The fetch of a non-root MHT node whose block fails authentication: the
node is not in the cache, its parent `m` is found, the node is allocated, the
block is read, and decryption under the key and tag of the parent entry
reports `MAC_MISMATCH`.  The fetch returns none, and the context is the one
left by the fetch of the parent (the node is not added to the cache) with
`last_error = MAC_MISMATCH` and `file_status = CORRUPTED`. -/
theorem ipf_read_mht_node_mac_mismatch (env : Env) (fuel : Nat) (pf : pf_context_t) (h : Host)
    (n : Nat) (m : NodePtr) (hn : n ≠ 0)
    (hmiss : (lruc_find pf.cache (mht_physical_node_number n)).isNone = true)
    (hm : (ipf_read_mht_node env fuel pf h ((n - 1) / CHILD_MHT_NODES_COUNT)).1 = some m)
    (ha : env.alloc_ok
      (ipf_read_mht_node env fuel pf h ((n - 1) / CHILD_MHT_NODES_COUNT)).2.2.allocs = true)
    (hio : env.io_status
      (ipf_read_mht_node env fuel pf h ((n - 1) / CHILD_MHT_NODES_COUNT)).2.2.clock = SUCCESS)
    (hd : (env.aes_gcm_decrypt
      (((ipf_read_mht_node env fuel pf h ((n - 1) / CHILD_MHT_NODES_COUNT)).2.1.deref
        m).decrypted.as_mht.mht_nodes_crypto ((n - 1) % CHILD_MHT_NODES_COUNT)).key
      ((ipf_read_mht_node env fuel pf h ((n - 1) / CHILD_MHT_NODES_COUNT)).2.2.file
        (mht_physical_node_number n * PF_NODE_SIZE % U64 / PF_NODE_SIZE)).as_node
      (((ipf_read_mht_node env fuel pf h ((n - 1) / CHILD_MHT_NODES_COUNT)).2.1.deref
        m).decrypted.as_mht.mht_nodes_crypto ((n - 1) % CHILD_MHT_NODES_COUNT)).gmac).1
      = MAC_MISMATCH) :
    (ipf_read_mht_node env (fuel + 1) pf h n).1 = none ∧
    (ipf_read_mht_node env (fuel + 1) pf h n).2.1 =
      { (ipf_read_mht_node env fuel pf h ((n - 1) / CHILD_MHT_NODES_COUNT)).2.1 with
          last_error := MAC_MISMATCH, file_status := CORRUPTED } := by
  rw [ipf_read_mht_node]
  rw [if_neg hn]
  try dsimp only
  cases hl : lruc_find pf.cache (mht_physical_node_number n) with
  | some x => rw [hl] at hmiss; simp at hmiss
  | none =>
    try dsimp only
    rcases hp : ipf_read_mht_node env fuel pf h ((n - 1) / CHILD_MHT_NODES_COUNT)
      with ⟨o, pf1, h1⟩
    rw [hp] at hm ha hio hd
    dsimp only at hm ha hio hd
    subst hm
    try dsimp only
    unfold alloc
    rw [ha]
    try dsimp only
    unfold ipf_read_node cb_read
    try dsimp only
    have f0 : PF_FAILURE SUCCESS = false := rfl
    have f1 : PF_FAILURE MAC_MISMATCH = true := rfl
    simp only [hio, f0, Bool.false_eq_true, if_false, Host.tick, hd, f1, if_true]
    exact ⟨trivial, trivial⟩

/-- A `pf_read` whose first data node fetch finds no node: the status
returned and the final context are those the eviction loop of the same
`ipf_get_data_node` call leaves. -/
theorem pf_read_fetch_none (env : Env) (pf0 : pf_context_t) (h : Host) (o n : Nat)
    (out : Nat → Byte) (hg : env.g_initialized = true) (hst : pf0.file_status = SUCCESS)
    (hmode : mode_has pf0.mode PF_FILE_MODE_READ = true)
    (ho1 : MD_USER_DATA_SIZE ≤ o) (ho2 : o < pf0.encrypted_part_plain.size)
    (hsz : pf0.encrypted_part_plain.size < U64) (hn : 0 < n)
    (hf : (ipf_read_data_node env { pf0 with offset := o, end_of_file := false } h).1 = none) :
    pf_read env pf0 h o n (some out) =
      ((evict_nodes env
          (2 * lruc_size
            (ipf_read_data_node env { pf0 with offset := o, end_of_file := false } h).2.1.cache)
          (ipf_read_data_node env { pf0 with offset := o, end_of_file := false } h).2.1
          (ipf_read_data_node env { pf0 with offset := o, end_of_file := false }
            h).2.2).2.1.last_error,
        some out,
        (evict_nodes env
          (2 * lruc_size
            (ipf_read_data_node env { pf0 with offset := o, end_of_file := false } h).2.1.cache)
          (ipf_read_data_node env { pf0 with offset := o, end_of_file := false } h).2.1
          (ipf_read_data_node env { pf0 with offset := o, end_of_file := false } h).2.2).2) := by
  have hget : ipf_get_data_node env { pf0 with offset := o, end_of_file := false } h =
      (none,
        (evict_nodes env
          (2 * lruc_size
            (ipf_read_data_node env { pf0 with offset := o, end_of_file := false } h).2.1.cache)
          (ipf_read_data_node env { pf0 with offset := o, end_of_file := false } h).2.1
          (ipf_read_data_node env { pf0 with offset := o, end_of_file := false } h).2.2).2) := by
    unfold ipf_get_data_node
    try dsimp only
    rw [if_neg (Nat.not_lt.mpr ho1)]
    have c2 : ¬ ((o - MD_USER_DATA_SIZE) % PF_NODE_SIZE = 0 ∧
        o = pf0.encrypted_part_plain.size) := fun c => absurd c.2 (Nat.ne_of_lt ho2)
    rw [if_neg c2]
    rcases hF : ipf_read_data_node env { pf0 with offset := o, end_of_file := false } h
      with ⟨f, pfF, hF1⟩
    rw [hF] at hf
    dsimp only at hf
    subst hf
    try dsimp only
    rcases hE : evict_nodes env (2 * lruc_size pfF.cache) pfF hF1 with ⟨b, pf3, h3⟩
    cases b <;> rfl
  have hsub : u64_sub pf0.encrypted_part_plain.size o = pf0.encrypted_part_plain.size - o := by
    unfold u64_sub
    have : o < U64 := Nat.lt_trans ho2 hsz
    rw [Nat.mod_eq_of_lt this]
    have e : pf0.encrypted_part_plain.size + U64 - o
        = (pf0.encrypted_part_plain.size - o) + U64 := by omega
    rw [e, Nat.add_mod_right]
    exact Nat.mod_eq_of_lt (by omega)
  unfold pf_read
  have g0 : (!env.g_initialized) = false := by rw [hg]; rfl
  rw [g0]
  simp only [Bool.false_eq_true, if_false]
  rw [ipf_seek_within env pf0 h o hst (Nat.le_of_lt ho2)]
  try dsimp only
  unfold ipf_read
  try dsimp only
  have f0 : PF_FAILURE pf0.file_status = false := by rw [hst]; rfl
  have m0 : (!mode_has pf0.mode PF_FILE_MODE_READ) = false := by rw [hmode]; rfl
  rw [if_neg (Nat.ne_of_gt hn), f0, m0]
  simp only [Bool.false_eq_true, if_false]
  rw [if_neg (Nat.ne_of_lt ho2), if_neg (Nat.not_lt.mpr ho1), hsub]
  try dsimp only
  have tail : ∀ k : Nat, 0 < k →
      read_data_nodes env k { pf0 with offset := o, end_of_file := false } h out (k - k) k =
        (k, out,
          (evict_nodes env
            (2 * lruc_size
              (ipf_read_data_node env { pf0 with offset := o, end_of_file := false }
                h).2.1.cache)
            (ipf_read_data_node env { pf0 with offset := o, end_of_file := false } h).2.1
            (ipf_read_data_node env { pf0 with offset := o, end_of_file := false } h).2.2).2) := by
    intro k hk
    cases k with
    | zero => exact absurd hk (by decide)
    | succ k =>
      rw [read_data_nodes]
      rw [if_pos hk]
      try dsimp only
      rw [hget]
  have hk : 0 < (if n > pf0.encrypted_part_plain.size - o then pf0.encrypted_part_plain.size - o
      else n) := by
    split_ifs
    · omega
    · exact hn
  rw [tail _ hk]
  try dsimp only
  have hne : ¬ ((if n > pf0.encrypted_part_plain.size - o then pf0.encrypted_part_plain.size - o
      else n) = 0 ∧ (if n > pf0.encrypted_part_plain.size - o then
        pf0.encrypted_part_plain.size - o else n) ≠ n) := fun c => absurd c.1 (Nat.ne_of_gt hk)
  rw [if_neg hne, Nat.sub_self]
  rw [if_pos (Nat.ne_of_lt hn)]

/-- C11, as stated, fails: on the 97-node file with one byte of block 99
changed and 48 dirty nodes in the cache, a `pf_read` of data node 96 fetches
MHT node 1 and then the data node, whose decryption reports `MAC_MISMATCH`
(the fetch fails with `last_error = MAC_MISMATCH`, `file_status = CORRUPTED`);
the eviction loop of the same `ipf_get_data_node` call then forces a flush,
the flush fails on the host, and `pf_read` returns `CALLBACK_FAILED` with
`file_status = FLUSH_ERROR`.  When the flush succeeds the same read returns
`MAC_MISMATCH`. -/
theorem pf_read_mac_mismatch_then_flush_failure :
    example_big_dirty.1.file_status = SUCCESS ∧
    lruc_size example_big_dirty.1.cache = 48 ∧
    (ipf_read_data_node (example_env_failing (example_big_dirty.2.clock + 2))
      { example_big_dirty.1 with
          offset := MD_USER_DATA_SIZE + 96 * PF_NODE_SIZE, end_of_file := false }
      example_big_dirty.2).1 = none ∧
    (ipf_read_data_node (example_env_failing (example_big_dirty.2.clock + 2))
      { example_big_dirty.1 with
          offset := MD_USER_DATA_SIZE + 96 * PF_NODE_SIZE, end_of_file := false }
      example_big_dirty.2).2.1.last_error = MAC_MISMATCH ∧
    (ipf_read_data_node (example_env_failing (example_big_dirty.2.clock + 2))
      { example_big_dirty.1 with
          offset := MD_USER_DATA_SIZE + 96 * PF_NODE_SIZE, end_of_file := false }
      example_big_dirty.2).2.1.file_status = CORRUPTED ∧
    (pf_read (example_env_failing (example_big_dirty.2.clock + 2)) example_big_dirty.1
      example_big_dirty.2 (MD_USER_DATA_SIZE + 96 * PF_NODE_SIZE) 10
      (some zero_bytes)).1 = CALLBACK_FAILED ∧
    (pf_read (example_env_failing (example_big_dirty.2.clock + 2)) example_big_dirty.1
      example_big_dirty.2 (MD_USER_DATA_SIZE + 96 * PF_NODE_SIZE) 10
      (some zero_bytes)).2.2.1.file_status = FLUSH_ERROR ∧
    (pf_read (example_env_failing (example_big_dirty.2.clock + 2)) example_big_dirty.1
      example_big_dirty.2 (MD_USER_DATA_SIZE + 96 * PF_NODE_SIZE) 10
      (some zero_bytes)).2.2.1.hang = false ∧
    (pf_read example_env example_big_dirty.1 example_big_dirty.2
      (MD_USER_DATA_SIZE + 96 * PF_NODE_SIZE) 10 (some zero_bytes)).1 = MAC_MISMATCH := by
  decide!

/-- C11, amended: in a `pf_read` of `n > 0` bytes at an offset `o` of the data
region below the plaintext size, on a readable context with `file_status`
`SUCCESS` (`hang = false` says that the call returned: no loop of the model
ran out of fuel):

* when the data node at `o` is fetched from disk and decryption under the key
  and tag of its parent entry reports `MAC_MISMATCH`, the fetch returns none,
  the node is not added to the cache, `last_error` becomes `MAC_MISMATCH` and
  `file_status` becomes `CORRUPTED`;
* the same holds for the fetch of a non-root MHT node;
* when the fetch has failed so, `pf_read` returns `MAC_MISMATCH` with
  `file_status = CORRUPTED`, unless the eviction loop of the same
  `ipf_get_data_node` call forces a flush that fails: then `file_status` is a
  flush failure status and `pf_read` returns the failure code of the flush. -/
theorem mac_mismatch_latches_corruption (env : Env) (pf0 : pf_context_t) (h : Host) (o n : Nat)
    (out : Nat → Byte) (hg : env.g_initialized = true) (hst : pf0.file_status = SUCCESS)
    (hmode : mode_has pf0.mode PF_FILE_MODE_READ = true)
    (ho1 : MD_USER_DATA_SIZE ≤ o) (ho2 : o < pf0.encrypted_part_plain.size)
    (hsz : pf0.encrypted_part_plain.size < U64) (hn : 0 < n)
    (hh : (pf_read env pf0 h o n (some out)).2.2.1.hang = false) :
    (∀ m : NodePtr,
      (lruc_get pf0.cache (get_node_numbers o).physical_data_node_number).1.isNone = true →
      (ipf_get_mht_node env { pf0 with offset := o, end_of_file := false } h).1 = some m →
      env.alloc_ok
        (ipf_get_mht_node env { pf0 with offset := o, end_of_file := false } h).2.2.allocs
          = true →
      env.io_status
        (ipf_get_mht_node env { pf0 with offset := o, end_of_file := false } h).2.2.clock
          = SUCCESS →
      (env.aes_gcm_decrypt
        (((ipf_get_mht_node env { pf0 with offset := o, end_of_file := false } h).2.1.deref
          m).decrypted.as_mht.data_nodes_crypto
            ((get_node_numbers o).data_node_number % ATTACHED_DATA_NODES_COUNT)).key
        ((ipf_get_mht_node env { pf0 with offset := o, end_of_file := false } h).2.2.file
          ((get_node_numbers o).physical_data_node_number * PF_NODE_SIZE % U64
            / PF_NODE_SIZE)).as_node
        (((ipf_get_mht_node env { pf0 with offset := o, end_of_file := false } h).2.1.deref
          m).decrypted.as_mht.data_nodes_crypto
            ((get_node_numbers o).data_node_number % ATTACHED_DATA_NODES_COUNT)).gmac).1
        = MAC_MISMATCH →
      (ipf_read_data_node env { pf0 with offset := o, end_of_file := false } h).1 = none ∧
      (ipf_read_data_node env { pf0 with offset := o, end_of_file := false } h).2.1 =
        { (ipf_get_mht_node env { pf0 with offset := o, end_of_file := false } h).2.1 with
            last_error := MAC_MISMATCH, file_status := CORRUPTED }) ∧
    (∀ (fuel : Nat) (pf : pf_context_t) (h1 : Host) (k : Nat) (m : NodePtr), k ≠ 0 →
      (lruc_find pf.cache (mht_physical_node_number k)).isNone = true →
      (ipf_read_mht_node env fuel pf h1 ((k - 1) / CHILD_MHT_NODES_COUNT)).1 = some m →
      env.alloc_ok
        (ipf_read_mht_node env fuel pf h1 ((k - 1) / CHILD_MHT_NODES_COUNT)).2.2.allocs = true →
      env.io_status
        (ipf_read_mht_node env fuel pf h1 ((k - 1) / CHILD_MHT_NODES_COUNT)).2.2.clock
          = SUCCESS →
      (env.aes_gcm_decrypt
        (((ipf_read_mht_node env fuel pf h1 ((k - 1) / CHILD_MHT_NODES_COUNT)).2.1.deref
          m).decrypted.as_mht.mht_nodes_crypto ((k - 1) % CHILD_MHT_NODES_COUNT)).key
        ((ipf_read_mht_node env fuel pf h1 ((k - 1) / CHILD_MHT_NODES_COUNT)).2.2.file
          (mht_physical_node_number k * PF_NODE_SIZE % U64 / PF_NODE_SIZE)).as_node
        (((ipf_read_mht_node env fuel pf h1 ((k - 1) / CHILD_MHT_NODES_COUNT)).2.1.deref
          m).decrypted.as_mht.mht_nodes_crypto ((k - 1) % CHILD_MHT_NODES_COUNT)).gmac).1
        = MAC_MISMATCH →
      (ipf_read_mht_node env (fuel + 1) pf h1 k).1 = none ∧
      (ipf_read_mht_node env (fuel + 1) pf h1 k).2.1 =
        { (ipf_read_mht_node env fuel pf h1 ((k - 1) / CHILD_MHT_NODES_COUNT)).2.1 with
            last_error := MAC_MISMATCH, file_status := CORRUPTED }) ∧
    ((ipf_read_data_node env { pf0 with offset := o, end_of_file := false } h).1 = none →
      (ipf_read_data_node env { pf0 with offset := o, end_of_file := false }
        h).2.1.file_status = CORRUPTED →
      (ipf_read_data_node env { pf0 with offset := o, end_of_file := false }
        h).2.1.last_error = MAC_MISMATCH →
      ((pf_read env pf0 h o n (some out)).1 = MAC_MISMATCH ∧
        (pf_read env pf0 h o n (some out)).2.2.1.file_status = CORRUPTED ∧
        (pf_read env pf0 h o n (some out)).2.2.1.last_error = MAC_MISMATCH) ∨
      (flush_failure (pf_read env pf0 h o n (some out)).2.2.1.file_status ∧
        (pf_read env pf0 h o n (some out)).1 =
          (pf_read env pf0 h o n (some out)).2.2.1.last_error ∧
        (pf_read env pf0 h o n (some out)).1 ≠ SUCCESS)) := by
  refine ⟨?_, ?_, ?_⟩
  · intro m hmiss hm ha hio hd
    exact ipf_read_data_node_mac_mismatch env { pf0 with offset := o, end_of_file := false } h m
      hmiss hm ha hio hd
  · intro fuel pf h1 k m hk hmiss hm ha hio hd
    exact ipf_read_mht_node_mac_mismatch env fuel pf h1 k m hk hmiss hm ha hio hd
  · intro hf hs he
    have e := pf_read_fetch_none env pf0 h o n out hg hst hmode ho1 ho2 hsz hn hf
    rw [e] at hh ⊢
    dsimp only at hh ⊢
    have v := evict_nodes_verdict env
      (2 * lruc_size
        (ipf_read_data_node env { pf0 with offset := o, end_of_file := false } h).2.1.cache)
      (ipf_read_data_node env { pf0 with offset := o, end_of_file := false } h).2.1
      (ipf_read_data_node env { pf0 with offset := o, end_of_file := false } h).2.2
    obtain ⟨-, v2⟩ := v
    split_ifs at v2 with c
    · exact Or.inl ⟨v2.2.1.trans he, v2.1.trans hs, v2.2.1.trans he⟩
    · rcases v2 with k | k
      · exact Or.inr ⟨k.1, rfl, k.2⟩
      · rw [hh] at k
        exact absurd k.1 (by decide)

/-- The facts of the one-node file with byte 0 of block 2 changed that the
witness of `mac_mismatch_latches_corruption` uses. -/
theorem example_bitflip_facts :
    example_bitflip.1.file_status = SUCCESS ∧
    mode_has example_bitflip.1.mode PF_FILE_MODE_READ = true ∧
    MD_USER_DATA_SIZE < example_bitflip.1.encrypted_part_plain.size ∧
    example_bitflip.1.encrypted_part_plain.size < U64 ∧
    (pf_read example_env example_bitflip.1 example_bitflip.2 MD_USER_DATA_SIZE 10
      (some zero_bytes)).2.2.1.hang = false ∧
    (lruc_get example_bitflip.1.cache
      (get_node_numbers MD_USER_DATA_SIZE).physical_data_node_number).1.isNone = true ∧
    (ipf_get_mht_node example_env
      { example_bitflip.1 with offset := MD_USER_DATA_SIZE, end_of_file := false }
      example_bitflip.2).1 = some .root ∧
    (example_env.aes_gcm_decrypt
      (((ipf_get_mht_node example_env
        { example_bitflip.1 with offset := MD_USER_DATA_SIZE, end_of_file := false }
        example_bitflip.2).2.1.deref .root).decrypted.as_mht.data_nodes_crypto
          ((get_node_numbers MD_USER_DATA_SIZE).data_node_number
            % ATTACHED_DATA_NODES_COUNT)).key
      ((ipf_get_mht_node example_env
        { example_bitflip.1 with offset := MD_USER_DATA_SIZE, end_of_file := false }
        example_bitflip.2).2.2.file
        ((get_node_numbers MD_USER_DATA_SIZE).physical_data_node_number * PF_NODE_SIZE % U64
          / PF_NODE_SIZE)).as_node
      (((ipf_get_mht_node example_env
        { example_bitflip.1 with offset := MD_USER_DATA_SIZE, end_of_file := false }
        example_bitflip.2).2.1.deref .root).decrypted.as_mht.data_nodes_crypto
          ((get_node_numbers MD_USER_DATA_SIZE).data_node_number
            % ATTACHED_DATA_NODES_COUNT)).gmac).1 = MAC_MISMATCH ∧
    (pf_read example_env example_bitflip.1 example_bitflip.2 MD_USER_DATA_SIZE 10
      (some zero_bytes)).1 = MAC_MISMATCH := by
  decide!

/-- The facts of the 97-node file with byte 0 of block 98 changed that the
witness of `mac_mismatch_latches_corruption` uses. -/
theorem example_big_mht_bitflip_facts :
    (lruc_find example_big_mht_bitflip.1.cache (mht_physical_node_number 1)).isNone = true ∧
    (ipf_read_mht_node example_env 0 example_big_mht_bitflip.1 example_big_mht_bitflip.2
      ((1 - 1) / CHILD_MHT_NODES_COUNT)).1 = some .root ∧
    (example_env.aes_gcm_decrypt
      (((ipf_read_mht_node example_env 0 example_big_mht_bitflip.1 example_big_mht_bitflip.2
        ((1 - 1) / CHILD_MHT_NODES_COUNT)).2.1.deref
          .root).decrypted.as_mht.mht_nodes_crypto ((1 - 1) % CHILD_MHT_NODES_COUNT)).key
      ((ipf_read_mht_node example_env 0 example_big_mht_bitflip.1 example_big_mht_bitflip.2
        ((1 - 1) / CHILD_MHT_NODES_COUNT)).2.2.file
          (mht_physical_node_number 1 * PF_NODE_SIZE % U64 / PF_NODE_SIZE)).as_node
      (((ipf_read_mht_node example_env 0 example_big_mht_bitflip.1 example_big_mht_bitflip.2
        ((1 - 1) / CHILD_MHT_NODES_COUNT)).2.1.deref
          .root).decrypted.as_mht.mht_nodes_crypto ((1 - 1) % CHILD_MHT_NODES_COUNT)).gmac).1
      = MAC_MISMATCH := by
  decide!

theorem example_env_alloc_ok (n : Nat) : example_env.alloc_ok n = true := rfl

theorem example_env_io_status (t : Nat) : example_env.io_status t = SUCCESS := rfl

/-- S-BITFLIP: on the one-node file with one byte of block 2 changed, the
fetch of data node 0 fails with `MAC_MISMATCH`, the context is `CORRUPTED`,
and `pf_read` returns `MAC_MISMATCH`; on the 97-node file with one byte of
block 98 changed, the fetch of MHT node 1 fails in the same way. -/
theorem mac_mismatch_latches_corruption_witness :
    (ipf_read_data_node example_env
      { example_bitflip.1 with offset := MD_USER_DATA_SIZE, end_of_file := false }
      example_bitflip.2).1 = none ∧
    (ipf_read_data_node example_env
      { example_bitflip.1 with offset := MD_USER_DATA_SIZE, end_of_file := false }
      example_bitflip.2).2.1.file_status = CORRUPTED ∧
    (ipf_read_data_node example_env
      { example_bitflip.1 with offset := MD_USER_DATA_SIZE, end_of_file := false }
      example_bitflip.2).2.1.last_error = MAC_MISMATCH ∧
    (ipf_read_mht_node example_env (0 + 1) example_big_mht_bitflip.1
      example_big_mht_bitflip.2 1).1 = none ∧
    (ipf_read_mht_node example_env (0 + 1) example_big_mht_bitflip.1
      example_big_mht_bitflip.2 1).2.1.file_status = CORRUPTED ∧
    (pf_read example_env example_bitflip.1 example_bitflip.2 MD_USER_DATA_SIZE 10
      (some zero_bytes)).1 = MAC_MISMATCH ∧
    (((pf_read example_env example_bitflip.1 example_bitflip.2 MD_USER_DATA_SIZE 10
        (some zero_bytes)).1 = MAC_MISMATCH ∧
      (pf_read example_env example_bitflip.1 example_bitflip.2 MD_USER_DATA_SIZE 10
        (some zero_bytes)).2.2.1.file_status = CORRUPTED ∧
      (pf_read example_env example_bitflip.1 example_bitflip.2 MD_USER_DATA_SIZE 10
        (some zero_bytes)).2.2.1.last_error = MAC_MISMATCH) ∨
     (flush_failure (pf_read example_env example_bitflip.1 example_bitflip.2
        MD_USER_DATA_SIZE 10 (some zero_bytes)).2.2.1.file_status ∧
      (pf_read example_env example_bitflip.1 example_bitflip.2 MD_USER_DATA_SIZE 10
        (some zero_bytes)).1 =
        (pf_read example_env example_bitflip.1 example_bitflip.2 MD_USER_DATA_SIZE 10
          (some zero_bytes)).2.2.1.last_error ∧
      (pf_read example_env example_bitflip.1 example_bitflip.2 MD_USER_DATA_SIZE 10
        (some zero_bytes)).1 ≠ SUCCESS)) :=
  have f := example_bitflip_facts
  have g := example_big_mht_bitflip_facts
  have w := mac_mismatch_latches_corruption example_env example_bitflip.1 example_bitflip.2
    MD_USER_DATA_SIZE 10 zero_bytes rfl f.1 f.2.1 (Nat.le_refl _) f.2.2.1 f.2.2.2.1
    (by decide) f.2.2.2.2.1
  have wd := w.1 .root f.2.2.2.2.2.1 f.2.2.2.2.2.2.1 (example_env_alloc_ok _)
    (example_env_io_status _) (by decide!)
  have wm := w.2.1 0 example_big_mht_bitflip.1 example_big_mht_bitflip.2 1 .root (by decide)
    g.1 g.2.1 (example_env_alloc_ok _) (example_env_io_status _) g.2.2
  have wr := w.2.2 wd.1 (by rw [wd.2]) (by rw [wd.2])
  ⟨wd.1, by rw [wd.2], by rw [wd.2], wm.1, by rw [wm.2], f.2.2.2.2.2.2.2.2, wr⟩

/-! ## Theorems: the MHT sort -/

/-- The inner loop of `LISTP_SORT` with `mht_sort`: the result is a
permutation of the elements it walked, it is not empty, and its first element
has the highest node number. -/
theorem listp_sort_inner_spec (outer : file_node_t) (rest : List file_node_t) :
    ∃ m rest1, listp_sort_inner mht_sort outer rest = m :: rest1 ∧
      (m :: rest1).Perm (outer :: rest) ∧
      ∀ x ∈ rest1, x.node_number ≤ m.node_number := by
  induction rest generalizing outer with
  | nil => exact ⟨outer, [], rfl, List.Perm.refl _, fun x hx => by simp at hx⟩
  | cons inner rest ih =>
    unfold listp_sort_inner
    by_cases c : (!mht_sort outer inner) = true
    · rw [if_pos c]
      obtain ⟨m, rest1, e, p, hmax⟩ := ih inner
      rw [e]
      refine ⟨m, outer :: rest1, rfl, ?_, ?_⟩
      · exact ((List.Perm.swap outer m rest1).trans (List.Perm.cons outer p)).trans
          (List.Perm.refl _)
      · intro x hx
        rcases List.mem_cons.mp hx with hx | hx
        · subst hx
          have hle : x.node_number ≤ inner.node_number := by
            simpa [mht_sort] using c
          have hin : inner ∈ m :: rest1 := p.symm.subset (List.mem_cons_self _ _)
          rcases List.mem_cons.mp hin with hi | hi
          · rw [← hi]; exact hle
          · exact Nat.le_trans hle (hmax _ hi)
        · exact hmax _ hx
    · rw [if_neg c]
      obtain ⟨m, rest1, e, p, hmax⟩ := ih outer
      rw [e]
      refine ⟨m, inner :: rest1, rfl, ?_, ?_⟩
      · exact ((List.Perm.swap inner m rest1).trans (List.Perm.cons inner p)).trans
          (List.Perm.swap outer inner rest)
      · intro x hx
        rcases List.mem_cons.mp hx with hx | hx
        · subst hx
          have hlt : x.node_number < outer.node_number := by
            simpa [mht_sort] using c
          have hin : outer ∈ m :: rest1 := p.symm.subset (List.mem_cons_self _ _)
          rcases List.mem_cons.mp hin with hi | hi
          · rw [← hi]; exact Nat.le_of_lt hlt
          · exact Nat.le_trans (Nat.le_of_lt hlt) (hmax _ hi)
        · exact hmax _ hx

/-- The outer loop of `LISTP_SORT` with `mht_sort`, given one unit of fuel per
position: the result is a permutation of the list in which no element has a
lower node number than a later one. -/
theorem listp_sort_outer_spec (fuel : Nat) (l : List file_node_t) (hf : l.length ≤ fuel) :
    (listp_sort_outer mht_sort fuel l).Perm l ∧
    (listp_sort_outer mht_sort fuel l).Pairwise
      (fun a b => b.node_number ≤ a.node_number) := by
  induction fuel generalizing l with
  | zero =>
    have : l = [] := List.length_eq_zero.mp (Nat.le_zero.mp hf)
    subst this
    exact ⟨List.Perm.refl _, List.Pairwise.nil⟩
  | succ fuel ih =>
    cases l with
    | nil => exact ⟨List.Perm.refl _, List.Pairwise.nil⟩
    | cons outer rest =>
      unfold listp_sort_outer
      obtain ⟨m, rest1, e, p, hmax⟩ := listp_sort_inner_spec outer rest
      rw [e]
      try dsimp only
      have hlen : rest1.length ≤ fuel := by
        have := p.length_eq
        simp only [List.length_cons] at this hf
        omega
      obtain ⟨p1, s1⟩ := ih rest1 hlen
      refine ⟨(List.Perm.cons m p1).trans p, ?_⟩
      refine List.Pairwise.cons ?_ s1
      intro x hx
      exact hmax x (p1.subset hx)

/-- C29: for every list of MHT nodes with pairwise distinct node numbers (the
empty and the one-element list included), `LISTP_SORT` with `mht_sort` leaves
a permutation of the list ordered by strictly descending `node_number`.  The
sort is a total function: the fuel of the outer loop, one unit per position,
suffices. -/
theorem LISTP_SORT_mht_sort_descending (l : List file_node_t)
    (hd : (l.map (fun n => n.node_number)).Nodup) :
    (LISTP_SORT mht_sort l).Perm l ∧
    (LISTP_SORT mht_sort l).Pairwise (fun a b => a.node_number > b.node_number) := by
  unfold LISTP_SORT
  obtain ⟨p, s⟩ := listp_sort_outer_spec l.length l (Nat.le_refl _)
  refine ⟨p, ?_⟩
  have hd1 : ((listp_sort_outer mht_sort l.length l).map (fun n => n.node_number)).Nodup :=
    (List.Perm.nodup_iff (List.Perm.map _ p)).mpr hd
  have hd2 : (listp_sort_outer mht_sort l.length l).Pairwise
      (fun a b => a.node_number ≠ b.node_number) := by
    rw [List.Nodup, List.pairwise_map] at hd1
    exact hd1
  exact (s.and hd2).imp (fun ⟨h1, h2⟩ => Nat.lt_of_le_of_ne h1 (Ne.symm h2))

/-- Three MHT nodes numbered 1, 3, 2 are sorted to 3, 2, 1. -/
theorem LISTP_SORT_mht_sort_descending_witness :
    ((LISTP_SORT mht_sort
        [{ calloc_node with node_number := 1 }, { calloc_node with node_number := 3 },
          { calloc_node with node_number := 2 }]).map (fun n => n.node_number) = [3, 2, 1]) ∧
    (LISTP_SORT mht_sort
        [{ calloc_node with node_number := 1 }, { calloc_node with node_number := 3 },
          { calloc_node with node_number := 2 }]).Perm
      [{ calloc_node with node_number := 1 }, { calloc_node with node_number := 3 },
        { calloc_node with node_number := 2 }] ∧
    (LISTP_SORT mht_sort
        [{ calloc_node with node_number := 1 }, { calloc_node with node_number := 3 },
          { calloc_node with node_number := 2 }]).Pairwise
      (fun a b => a.node_number > b.node_number) :=
  ⟨by decide, LISTP_SORT_mht_sort_descending
    [{ calloc_node with node_number := 1 }, { calloc_node with node_number := 3 },
      { calloc_node with node_number := 2 }] (by decide)⟩

/-! ## Theorems: deepest first -/

/-- The parent of a non-root MHT node has a lower number. -/
theorem mht_parent_lt (n : Nat) (hn : 1 ≤ n) : (n - 1) / CHILD_MHT_NODES_COUNT < n := by
  unfold CHILD_MHT_NODES_COUNT
  omega

/-- With fuel `mht_node_number` (what `ipf_get_mht_node` passes) or more, the
recursion of `ipf_read_mht_node` ends before the fuel does: the `hang` flag is
left as it was. -/
theorem ipf_read_mht_node_hang (env : Env) (fuel : Nat) (pf : pf_context_t) (h : Host)
    (n : Nat) (hf : n ≤ fuel) :
    (ipf_read_mht_node env fuel pf h n).2.1.hang = pf.hang := by
  induction fuel generalizing pf h n with
  | zero =>
    have : n = 0 := Nat.le_zero.mp hf
    subst this
    unfold ipf_read_mht_node
    simp
  | succ fuel ih =>
    unfold ipf_read_mht_node
    try dsimp only
    split_ifs with c0
    · rfl
    · split
      · rfl
      · try dsimp only
        have hp : (n - 1) / CHILD_MHT_NODES_COUNT ≤ fuel := by
          have := mht_parent_lt n (Nat.one_le_iff_ne_zero.mpr c0)
          omega
        have e1 := ih pf h ((n - 1) / CHILD_MHT_NODES_COUNT) hp
        rcases hq : ipf_read_mht_node env fuel pf h ((n - 1) / CHILD_MHT_NODES_COUNT)
          with ⟨o, pf1, h1⟩
        rw [hq] at e1
        cases o with
        | none => exact e1
        | some parent =>
          try dsimp only at e1 ⊢
          rcases ha : alloc env h1 with ⟨b, h2⟩
          cases b
          · exact e1
          · try dsimp only
            have e3 := (ipf_read_node_outcome env pf1 h2 (mht_physical_node_number n)).2.1
            rcases hr : ipf_read_node env pf1 h2 (mht_physical_node_number n) with ⟨ob, pf3, h3⟩
            rw [hr] at e3
            cases ob with
            | none => exact e3.trans e1
            | some block =>
              try dsimp only at e3 ⊢
              split_ifs
              · exact e3.trans e1
              · rcases ha2 : alloc env h3 with ⟨b, h4⟩
                cases b
                · exact e3.trans e1
                · exact e3.trans e1
              · rcases ha2 : alloc env h3 with ⟨b, h4⟩
                cases b
                · exact e3.trans e1
                · exact e3.trans e1

/-- C30: the parent number `(n - 1) / 32` of a non-root MHT node `n >= 1` is
strictly smaller than `n`; hence in a list ordered by descending node number
(as `LISTP_SORT` with `mht_sort` leaves one with distinct numbers) a node
stands before its parent, so `update_mht_nodes`, which walks the list from the
front, re-encrypts it first; and the recursion of `ipf_read_mht_node` on
`(n - 1) / 32` reaches number 0 within `n` steps: iterating the parent map `n`
times from `n` gives 0, and with the fuel `n` that `ipf_get_mht_node` passes
the model never runs out of fuel. -/
theorem deepest_first (n : Nat) (hn : 1 ≤ n) :
    (n - 1) / CHILD_MHT_NODES_COUNT < n ∧
    (∀ (l : List file_node_t) (i j : Nat),
      (l.map (fun x => x.node_number)).Nodup →
      ((LISTP_SORT mht_sort l).get? i).map (fun x => x.node_number) = some n →
      ((LISTP_SORT mht_sort l).get? j).map (fun x => x.node_number)
        = some ((n - 1) / CHILD_MHT_NODES_COUNT) →
      i < j) ∧
    (fun k => (k - 1) / CHILD_MHT_NODES_COUNT)^[n] n = 0 ∧
    (∀ (env : Env) (pf : pf_context_t) (h : Host),
      (ipf_read_mht_node env n pf h n).2.1.hang = pf.hang) := by
  refine ⟨mht_parent_lt n hn, ?_, ?_, fun env pf h => ipf_read_mht_node_hang env n pf h n
    (Nat.le_refl _)⟩
  · intro l i j hd hi hj
    obtain ⟨-, s⟩ := LISTP_SORT_mht_sort_descending l hd
    by_contra hcon
    have hji : j ≤ i := Nat.le_of_not_lt hcon
    rcases Nat.lt_or_eq_of_le hji with hlt | heq
    · rw [List.pairwise_iff_get] at s
      cases hgi : (LISTP_SORT mht_sort l).get? i with
      | none => rw [hgi] at hi; simp at hi
      | some a =>
        cases hgj : (LISTP_SORT mht_sort l).get? j with
        | none => rw [hgj] at hj; simp at hj
        | some b =>
          rw [hgi] at hi
          rw [hgj] at hj
          simp only [Option.map_some', Option.some.injEq] at hi hj
          obtain ⟨hi1, hi2⟩ := List.get?_eq_some.mp hgi
          obtain ⟨hj1, hj2⟩ := List.get?_eq_some.mp hgj
          have := s ⟨j, hj1⟩ ⟨i, hi1⟩ hlt
          rw [hi2, hj2, hi, hj] at this
          have := mht_parent_lt n hn
          omega
    · rw [heq] at hj
      rw [hi] at hj
      have := mht_parent_lt n hn
      simp only [Option.some.injEq] at hj
      omega
  · have key : ∀ (t k : Nat), k ≤ t → (fun k => (k - 1) / CHILD_MHT_NODES_COUNT)^[t] k = 0 := by
      intro t
      induction t with
      | zero => intro k hk; simpa using hk
      | succ t ih =>
        intro k hk
        rw [Function.iterate_succ_apply]
        apply ih
        unfold CHILD_MHT_NODES_COUNT
        omega
    exact key n n (Nat.le_refl _)

/-- MHT node 33: its parent is node 1, which the sort puts after it. -/
theorem deepest_first_witness :
    (33 - 1) / CHILD_MHT_NODES_COUNT = 1 ∧
    (fun k => (k - 1) / CHILD_MHT_NODES_COUNT)^[33] 33 = 0 ∧
    (ipf_read_mht_node example_env 33 example_created.1 example_created.2 33).2.1.hang
      = example_created.1.hang :=
  have w := deepest_first 33 (by decide)
  ⟨by decide, w.2.2.1, w.2.2.2 example_env example_created.1 example_created.2⟩

/-! ## Theorems: classification of flush failures -/

theorem modify_need_writing (pf : pf_context_t) (p : NodePtr) (f : file_node_t → file_node_t) :
    (pf.modify p f).need_writing = pf.need_writing := by
  cases p <;> rfl

theorem ipf_read_node_need_writing (env : Env) (pf : pf_context_t) (h : Host) (n : Nat) :
    (ipf_read_node env pf h n).2.1.need_writing = pf.need_writing := by
  unfold ipf_read_node
  repeat' (first | split | dsimp only)

theorem ipf_write_file_need_writing (env : Env) (pf : pf_context_t) (h : Host) (o : Nat) (b : Block)
    (n : Nat) : (ipf_write_file env pf h o b n).2.1.need_writing = pf.need_writing := by
  unfold ipf_write_file
  repeat' (first | split | dsimp only)

theorem ipf_write_node_need_writing (env : Env) (pf : pf_context_t) (h : Host) (n : Nat) (b : Block) :
    (ipf_write_node env pf h n b).2.1.need_writing = pf.need_writing := by
  unfold ipf_write_node
  exact ipf_write_file_need_writing ..

theorem ipf_write_recovery_record_need_writing (env : Env) (pf : pf_context_t) (h : Host) (o : Nat)
    (b : recovery_node_t) : (ipf_write_recovery_record env pf h o b).2.1.need_writing = pf.need_writing := by
  unfold ipf_write_recovery_record
  repeat' (first | split | dsimp only)

theorem ipf_generate_secure_blob_need_writing (env : Env) (pf : pf_context_t) (h : Host)
    (k : pf_key_t) (l : List Char) (n : Nat) :
    (ipf_generate_secure_blob env pf h k l n).2.1.need_writing = pf.need_writing := by
  unfold ipf_generate_secure_blob
  repeat' (first | split | dsimp only)

theorem ipf_generate_secure_blob_from_user_kdk_need_writing (env : Env) (pf : pf_context_t) (h : Host)
    (r : Bool) : (ipf_generate_secure_blob_from_user_kdk env pf h r).2.1.need_writing = pf.need_writing := by
  unfold ipf_generate_secure_blob_from_user_kdk
  repeat' (first | split | dsimp only)

theorem ipf_init_session_master_key_need_writing (env : Env) (pf : pf_context_t) (h : Host) :
    (ipf_init_session_master_key env pf h).2.1.need_writing = pf.need_writing := by
  unfold ipf_init_session_master_key
  have := ipf_generate_secure_blob_need_writing env pf h 0 MASTER_KEY_NAME 0
  split <;> simp_all

theorem ipf_derive_random_node_key_need_writing (env : Env) (pf : pf_context_t) (h : Host) (n : Nat) :
    (ipf_derive_random_node_key env pf h n).2.1.need_writing = pf.need_writing := by
  unfold ipf_derive_random_node_key
  dsimp only
  have key : ∀ b pf1 h1,
      (if pf.master_key_count ≥ MAX_MASTER_KEY_USAGES then
          ipf_init_session_master_key env { pf with master_key_count := pf.master_key_count + 1 } h
        else (true, { pf with master_key_count := pf.master_key_count + 1 }, h)) = (b, pf1, h1) →
      pf1.need_writing = pf.need_writing := by
    intro b pf1 h1 heq
    split at heq
    · have := ipf_init_session_master_key_need_writing env
        { pf with master_key_count := pf.master_key_count + 1 } h
      rw [heq] at this
      exact this
    · simp only [Prod.mk.injEq] at heq
      obtain ⟨-, rfl, -⟩ := heq
      rfl
  split
  · rename_i heq
    exact key _ _ _ heq
  · rename_i pf1 h1 heq
    have e1 := key _ _ _ heq
    have := ipf_generate_secure_blob_need_writing env pf1 h1 pf1.session_master_key RANDOM_KEY_NAME n
    split <;> simp_all

theorem write_recovery_nodes_need_writing (env : Env) (l : List NodePtr) (pf : pf_context_t) (h : Host)
    (n : Nat) : (write_recovery_nodes env l pf h n).2.1.need_writing = pf.need_writing := by
  induction l generalizing pf h n with
  | nil => rfl
  | cons p rest ih =>
    unfold write_recovery_nodes
    dsimp only
    split
    · exact ih ..
    · have := ipf_write_recovery_record_need_writing env pf h (n * RECOVERY_NODE_SIZE)
        (pf.deref p).recovery_node
      split
      · simp_all
      · rename_i pf1 h1 heq
        rw [ih]
        simp_all

theorem ipf_write_recovery_file_need_writing (env : Env) (pf : pf_context_t) (h : Host) :
    (ipf_write_recovery_file env pf h).2.1.need_writing = pf.need_writing := by
  unfold ipf_write_recovery_file
  split
  · rfl
  · split
    rename_i status fs h1 heq
    split
    · rfl
    · have e1 := write_recovery_nodes_need_writing env (cache_ptrs pf) pf h1 0
      split
      · simp_all
      · rename_i n pf2 h2 heq2
        rw [heq2] at e1
        dsimp only at e1 ⊢
        have key : ∀ o pf3 h3,
            (if (pf2.root_mht.need_writing && !pf2.root_mht.new_node) = true then
                match ipf_write_recovery_record env pf2 h2 (n * RECOVERY_NODE_SIZE)
                    pf2.root_mht.recovery_node with
                | (false, pf3, h3) =>
                  let h4 := (cb_close env h3 .recovery).2
                  let h5 := (cb_delete env h4).2
                  (none, pf3, h5)
                | (true, pf3, h3) => (some (n * RECOVERY_NODE_SIZE + RECOVERY_NODE_SIZE), pf3, h3)
              else (some (n * RECOVERY_NODE_SIZE), pf2, h2)) = (o, pf3, h3) →
            pf3.need_writing = pf2.need_writing := by
          intro o pf3 h3 heq3
          split at heq3
          · have := ipf_write_recovery_record_need_writing env pf2 h2 (n * RECOVERY_NODE_SIZE)
              pf2.root_mht.recovery_node
            split at heq3 <;> simp_all
          · simp_all
        split
        · rename_i heq3
          rw [key _ _ _ heq3, e1]
        · rename_i o pf3 h3 heq3
          have e3 := key _ _ _ heq3
          have := ipf_write_recovery_record_need_writing env pf3 h3 o pf3.meta_data_recovery_node
          split
          · simp_all
          · repeat' (first | split | dsimp only)
            all_goals simp_all

theorem with_update_flag_need_writing (pf : pf_context_t) (f : Nat) :
    (pf.with_update_flag f).need_writing = pf.need_writing := rfl

theorem ipf_set_update_flag_need_writing (env : Env) (pf : pf_context_t) (h : Host) :
    (ipf_set_update_flag env pf h).2.1.need_writing = pf.need_writing := by
  unfold ipf_set_update_flag
  dsimp only
  have := ipf_write_node_need_writing env (pf.with_update_flag 1) h 0
    (.meta (pf.with_update_flag 1).file_meta_data)
  split <;> simp_all [with_update_flag_need_writing]

theorem ipf_clear_update_flag_need_writing (env : Env) (pf : pf_context_t) (h : Host) :
    (ipf_clear_update_flag env pf h).1.need_writing = pf.need_writing := by
  unfold ipf_clear_update_flag
  exact ipf_write_node_need_writing ..

theorem update_data_nodes_need_writing (env : Env) (l : List NodePtr) (pf : pf_context_t) (h : Host) :
    (update_data_nodes env l pf h).2.1.need_writing = pf.need_writing := by
  induction l generalizing pf h with
  | nil => rfl
  | cons p rest ih =>
    unfold update_data_nodes
    dsimp only
    split
    · have := ipf_derive_random_node_key_need_writing env pf h (pf.deref p).physical_node_number
      split
      · simp_all
      · rename_i pf1 h1 heq
        split
        · simp_all
        · rw [ih, modify_need_writing, modify_need_writing]
          simp_all
    · exact ih ..

theorem update_mht_nodes_need_writing (env : Env) (l : List NodePtr) (pf : pf_context_t) (h : Host) :
    (update_mht_nodes env l pf h).2.1.need_writing = pf.need_writing := by
  induction l generalizing pf h with
  | nil => rfl
  | cons p rest ih =>
    unfold update_mht_nodes
    dsimp only
    have := ipf_derive_random_node_key_need_writing env pf h (pf.deref p).physical_node_number
    split
    · simp_all
    · rename_i pf1 h1 heq
      split
      · simp_all
      · rw [ih, modify_need_writing, modify_need_writing]
        simp_all

theorem ipf_update_all_data_and_mht_nodes_need_writing (env : Env) (pf : pf_context_t) (h : Host) :
    (ipf_update_all_data_and_mht_nodes env pf h).2.1.need_writing = pf.need_writing := by
  unfold ipf_update_all_data_and_mht_nodes
  have e1 := update_data_nodes_need_writing env (cache_ptrs pf) pf h
  split
  · simp_all
  · rename_i pf1 h1 heq1
    dsimp only
    have e2 := update_mht_nodes_need_writing env
      (LISTP_SORT (fun a b => mht_sort (pf1.deref a) (pf1.deref b))
        (collect_mht_list pf1 (cache_ptrs pf1) [])) pf1 h1
    split
    · simp_all
    · rename_i pf2 h2 heq2
      have e3 := ipf_derive_random_node_key_need_writing env pf2 h2 pf2.root_mht.physical_node_number
      split
      · simp_all
      · rename_i pf3 h3 heq3
        repeat' (first | split | dsimp only)
        all_goals simp_all

theorem ipf_update_meta_data_node_need_writing (env : Env) (pf : pf_context_t) (h : Host) :
    (ipf_update_meta_data_node env pf h).2.1.need_writing = pf.need_writing := by
  unfold ipf_update_meta_data_node
  have e1 := ipf_generate_secure_blob_from_user_kdk_need_writing env pf h false
  unfold ipf_generate_random_meta_data_key
  split
  · simp_all
  · repeat' (first | split | dsimp only)
    all_goals simp_all

theorem write_dirty_nodes_need_writing (env : Env) (l : List NodePtr) (pf : pf_context_t) (h : Host) :
    (write_dirty_nodes env l pf h).2.1.need_writing = pf.need_writing := by
  induction l generalizing pf h with
  | nil => rfl
  | cons p rest ih =>
    unfold write_dirty_nodes
    dsimp only
    split
    · exact ih ..
    · have := ipf_write_node_need_writing env pf h (pf.deref p).physical_node_number
        (.node (pf.deref p).encrypted)
      split
      · simp_all
      · rw [ih, modify_need_writing]
        simp_all

theorem ipf_write_all_changes_to_disk_need_writing (env : Env) (pf : pf_context_t) (h : Host) :
    (ipf_write_all_changes_to_disk env pf h).2.1.need_writing = pf.need_writing := by
  unfold ipf_write_all_changes_to_disk
  dsimp only
  split_ifs
  · have e1 := write_dirty_nodes_need_writing env (cache_ptrs pf) pf h
    rcases hw : write_dirty_nodes env (cache_ptrs pf) pf h with ⟨b, pf2, h2⟩
    rw [hw] at e1
    cases b
    · exact e1
    · dsimp only at e1 ⊢
      have e2 := ipf_write_node_need_writing env pf2 h2 1 (.node pf2.root_mht.encrypted)
      rcases hn : ipf_write_node env pf2 h2 1 (.node pf2.root_mht.encrypted) with ⟨b, pf3, h3⟩
      rw [hn] at e2
      cases b
      · exact e2.trans e1
      · dsimp only at e2 ⊢
        rw [ipf_write_node_need_writing]
        exact e2.trans e1
  · exact ipf_write_node_need_writing ..

/-- C27: when `ipf_internal_flush` returns false the context still needs
writing, and exactly one step has failed, which fixes `file_status`:
`FLUSH_ERROR` when writing the recovery log or the update flag failed,
`CRYPTO_ERROR` when re-encrypting the data and MHT nodes or the metadata
failed, `WRITE_TO_DISK_FAILED` when writing the changed blocks failed. -/
theorem flush_failure_classification (env : Env) (pf : pf_context_t) (h : Host)
    (hf : (ipf_internal_flush env pf h).1 = false) :
    (ipf_internal_flush env pf h).2.1.need_writing = true ∧
    ((flush_writes_tree pf = true ∧ (flush_log_step env pf h).1 = false ∧
        (ipf_internal_flush env pf h).2.1.file_status = FLUSH_ERROR) ∨
     (flush_writes_tree pf = true ∧ (flush_log_step env pf h).1 = true ∧
        (flush_flag_step env pf h).1 = false ∧
        (ipf_internal_flush env pf h).2.1.file_status = FLUSH_ERROR) ∨
     (flush_writes_tree pf = true ∧ (flush_log_step env pf h).1 = true ∧
        (flush_flag_step env pf h).1 = true ∧ (flush_tree_step env pf h).1 = false ∧
        (ipf_internal_flush env pf h).2.1.file_status = CRYPTO_ERROR) ∨
     ((flush_writes_tree pf = true → (flush_log_step env pf h).1 = true ∧
          (flush_flag_step env pf h).1 = true ∧ (flush_tree_step env pf h).1 = true) ∧
        (flush_meta_step env pf h).1 = false ∧
        (ipf_internal_flush env pf h).2.1.file_status = CRYPTO_ERROR) ∨
     ((flush_writes_tree pf = true → (flush_log_step env pf h).1 = true ∧
          (flush_flag_step env pf h).1 = true ∧ (flush_tree_step env pf h).1 = true) ∧
        (flush_meta_step env pf h).1 = true ∧ (flush_disk_step env pf h).1 = false ∧
        (ipf_internal_flush env pf h).2.1.file_status = WRITE_TO_DISK_FAILED)) := by
  have hnw : pf.need_writing = true := by
    by_contra c
    unfold ipf_internal_flush at hf
    have : (!pf.need_writing) = true := by simpa using c
    rw [if_pos this] at hf
    simp at hf
  have tail : ∀ (pf1 : pf_context_t) (h1 : Host), pf1.need_writing = true →
      (match ipf_update_meta_data_node env pf1 h1 with
        | (false, pf2, h2) =>
          match ipf_clear_update_flag env pf2 h2 with
          | (pf3, h3) => (false, { pf3 with file_status := CRYPTO_ERROR }, h3)
        | (true, pf2, h2) =>
          match ipf_write_all_changes_to_disk env pf2 h2 with
          | (false, pf3, h3) => (false, { pf3 with file_status := WRITE_TO_DISK_FAILED }, h3)
          | (true, pf3, h3) => (true, { pf3 with need_writing := false }, h3)).1 = false →
      (match ipf_update_meta_data_node env pf1 h1 with
        | (false, pf2, h2) =>
          match ipf_clear_update_flag env pf2 h2 with
          | (pf3, h3) => (false, { pf3 with file_status := CRYPTO_ERROR }, h3)
        | (true, pf2, h2) =>
          match ipf_write_all_changes_to_disk env pf2 h2 with
          | (false, pf3, h3) => (false, { pf3 with file_status := WRITE_TO_DISK_FAILED }, h3)
          | (true, pf3, h3) => (true, { pf3 with need_writing := false }, h3)).2.1.need_writing
          = true ∧
      (((ipf_update_meta_data_node env pf1 h1).1 = false ∧
        (match ipf_update_meta_data_node env pf1 h1 with
        | (false, pf2, h2) =>
          match ipf_clear_update_flag env pf2 h2 with
          | (pf3, h3) => (false, { pf3 with file_status := CRYPTO_ERROR }, h3)
        | (true, pf2, h2) =>
          match ipf_write_all_changes_to_disk env pf2 h2 with
          | (false, pf3, h3) => (false, { pf3 with file_status := WRITE_TO_DISK_FAILED }, h3)
          | (true, pf3, h3) => (true, { pf3 with need_writing := false }, h3)).2.1.file_status
          = CRYPTO_ERROR) ∨
       ((ipf_update_meta_data_node env pf1 h1).1 = true ∧
        (ipf_write_all_changes_to_disk env (ipf_update_meta_data_node env pf1 h1).2.1
          (ipf_update_meta_data_node env pf1 h1).2.2).1 = false ∧
        (match ipf_update_meta_data_node env pf1 h1 with
        | (false, pf2, h2) =>
          match ipf_clear_update_flag env pf2 h2 with
          | (pf3, h3) => (false, { pf3 with file_status := CRYPTO_ERROR }, h3)
        | (true, pf2, h2) =>
          match ipf_write_all_changes_to_disk env pf2 h2 with
          | (false, pf3, h3) => (false, { pf3 with file_status := WRITE_TO_DISK_FAILED }, h3)
          | (true, pf3, h3) => (true, { pf3 with need_writing := false }, h3)).2.1.file_status
          = WRITE_TO_DISK_FAILED)) := by
    intro pf1 h1 e1 hf1
    have e2 := ipf_update_meta_data_node_need_writing env pf1 h1
    rcases hu : ipf_update_meta_data_node env pf1 h1 with ⟨b, pf2, h2⟩
    rw [hu] at e2 hf1
    cases b
    · dsimp only at e2 hf1 ⊢
      have e3 := ipf_clear_update_flag_need_writing env pf2 h2
      exact ⟨(e3.trans e2).trans e1, Or.inl ⟨rfl, rfl⟩⟩
    · dsimp only at e2 hf1 ⊢
      have e3 := ipf_write_all_changes_to_disk_need_writing env pf2 h2
      rcases hw : ipf_write_all_changes_to_disk env pf2 h2 with ⟨b, pf3, h3⟩
      rw [hw] at e3 hf1
      cases b
      · exact ⟨(e3.trans e2).trans e1, Or.inr ⟨rfl, rfl, rfl⟩⟩
      · simp at hf1
  unfold flush_disk_step flush_meta_step flush_tree_done flush_tree_step flush_flag_step
    flush_log_step flush_writes_tree
  unfold ipf_internal_flush at hf ⊢
  try dsimp only at hf ⊢
  have n0 : (!pf.need_writing) = false := by rw [hnw]; rfl
  rw [n0] at hf ⊢
  simp only [Bool.false_eq_true, if_false] at hf ⊢
  by_cases hguard : (decide (pf.encrypted_part_plain.size > MD_USER_DATA_SIZE) &&
      pf.root_mht.need_writing) = true
  · rw [if_pos hguard] at hf ⊢
    rw [if_pos hguard]
    by_cases hrec : pf.recovery_path ≠ []
    · simp only [if_pos hrec] at hf ⊢
      have e1 := ipf_write_recovery_file_need_writing env pf h
      rcases hr : ipf_write_recovery_file env pf h with ⟨b, pf1, h1⟩
      rw [hr] at e1 hf
      cases b
      · exact ⟨e1.trans hnw, Or.inl ⟨hguard, rfl, rfl⟩⟩
      · dsimp only at e1 hf ⊢
        have e2 := ipf_set_update_flag_need_writing env pf1 h1
        rcases hs : ipf_set_update_flag env pf1 h1 with ⟨b, pf2, h2⟩
        rw [hs] at e2 hf
        cases b
        · exact ⟨(e2.trans e1).trans hnw, Or.inr (Or.inl ⟨hguard, rfl, rfl, rfl⟩)⟩
        · dsimp only at e2 hf ⊢
          have e3 := ipf_update_all_data_and_mht_nodes_need_writing env pf2 h2
          rcases hu : ipf_update_all_data_and_mht_nodes env pf2 h2 with ⟨b, pf3, h3⟩
          rw [hu] at e3 hf
          cases b
          · dsimp only at e3 hf ⊢
            have e4 := ipf_clear_update_flag_need_writing env pf3 h3
            exact ⟨((e4.trans e3).trans e2).trans (e1.trans hnw),
              Or.inr (Or.inr (Or.inl ⟨hguard, rfl, rfl, rfl, rfl⟩))⟩
          · dsimp only at e3 hf ⊢
            obtain ⟨t1, t2⟩ := tail pf3 h3 ((e3.trans e2).trans (e1.trans hnw)) hf
            refine ⟨t1, Or.inr (Or.inr (Or.inr ?_))⟩
            rcases t2 with t | t
            · exact Or.inl ⟨fun _ => ⟨rfl, rfl, rfl⟩, t.1, t.2⟩
            · exact Or.inr ⟨fun _ => ⟨rfl, rfl, rfl⟩, t.1, t.2.1, t.2.2⟩
    · simp only [if_neg hrec] at hf ⊢
      try dsimp only at hf ⊢
      have e2 := ipf_set_update_flag_need_writing env pf h
      rcases hs : ipf_set_update_flag env pf h with ⟨b, pf2, h2⟩
      rw [hs] at e2 hf
      cases b
      · exact ⟨e2.trans hnw, Or.inr (Or.inl ⟨hguard, trivial, rfl, rfl⟩)⟩
      · dsimp only at e2 hf ⊢
        have e3 := ipf_update_all_data_and_mht_nodes_need_writing env pf2 h2
        rcases hu : ipf_update_all_data_and_mht_nodes env pf2 h2 with ⟨b, pf3, h3⟩
        rw [hu] at e3 hf
        cases b
        · dsimp only at e3 hf ⊢
          have e4 := ipf_clear_update_flag_need_writing env pf3 h3
          exact ⟨((e4.trans e3).trans e2).trans hnw,
            Or.inr (Or.inr (Or.inl ⟨hguard, trivial, rfl, rfl, rfl⟩))⟩
        · dsimp only at e3 hf ⊢
          obtain ⟨t1, t2⟩ := tail pf3 h3 ((e3.trans e2).trans hnw) hf
          refine ⟨t1, Or.inr (Or.inr (Or.inr ?_))⟩
          rcases t2 with t | t
          · exact Or.inl ⟨fun _ => ⟨trivial, rfl, rfl⟩, t.1, t.2⟩
          · exact Or.inr ⟨fun _ => ⟨trivial, rfl, rfl⟩, t.1, t.2.1, t.2.2⟩
  · rw [if_neg hguard] at hf ⊢
    rw [if_neg hguard]
    dsimp only at hf ⊢
    obtain ⟨t1, t2⟩ := tail pf h hnw hf
    refine ⟨t1, Or.inr (Or.inr (Or.inr ?_))⟩
    rcases t2 with t | t
    · exact Or.inl ⟨fun c => absurd c hguard, t.1, t.2⟩
    · exact Or.inr ⟨fun c => absurd c hguard, t.1, t.2.1, t.2.2⟩

/-- A flush of the five-byte file on a host whose I/O callbacks fail: writing
block 0 fails, the flush returns false, `file_status` is
`WRITE_TO_DISK_FAILED` and the context still needs writing. -/
theorem flush_failure_classification_witness :
    (ipf_internal_flush (example_env_failing 0) example_five_bytes.1 example_five_bytes.2).1
      = false ∧
    (ipf_internal_flush (example_env_failing 0) example_five_bytes.1
      example_five_bytes.2).2.1.need_writing = true ∧
    (ipf_internal_flush (example_env_failing 0) example_five_bytes.1
      example_five_bytes.2).2.1.file_status = WRITE_TO_DISK_FAILED :=
  have w := flush_failure_classification (example_env_failing 0) example_five_bytes.1
    example_five_bytes.2 (by decide!)
  ⟨by decide!, w.1, by decide!⟩

/-! ## Theorems: order of the writes of a flush -/

theorem modify_root_dirty (pf : pf_context_t) (p : NodePtr) (f : file_node_t → file_node_t)
    (hf : ∀ n, (f n).need_writing = n.need_writing) :
    (pf.modify p f).root_mht.need_writing = pf.root_mht.need_writing := by
  cases p
  · exact hf _
  · rfl

theorem modify_file_meta_data (pf : pf_context_t) (p : NodePtr) (f : file_node_t → file_node_t) :
    (pf.modify p f).file_meta_data = pf.file_meta_data := by
  cases p <;> rfl

theorem ipf_read_node_file_meta_data (env : Env) (pf : pf_context_t) (h : Host) (n : Nat) :
    (ipf_read_node env pf h n).2.1.file_meta_data = pf.file_meta_data := by
  unfold ipf_read_node
  repeat' (first | split | dsimp only)

theorem ipf_write_file_file_meta_data (env : Env) (pf : pf_context_t) (h : Host) (o : Nat) (b : Block)
    (n : Nat) : (ipf_write_file env pf h o b n).2.1.file_meta_data = pf.file_meta_data := by
  unfold ipf_write_file
  repeat' (first | split | dsimp only)

theorem ipf_write_node_file_meta_data (env : Env) (pf : pf_context_t) (h : Host) (n : Nat) (b : Block) :
    (ipf_write_node env pf h n b).2.1.file_meta_data = pf.file_meta_data := by
  unfold ipf_write_node
  exact ipf_write_file_file_meta_data ..

theorem ipf_write_recovery_record_file_meta_data (env : Env) (pf : pf_context_t) (h : Host) (o : Nat)
    (b : recovery_node_t) : (ipf_write_recovery_record env pf h o b).2.1.file_meta_data = pf.file_meta_data := by
  unfold ipf_write_recovery_record
  repeat' (first | split | dsimp only)

theorem ipf_generate_secure_blob_file_meta_data (env : Env) (pf : pf_context_t) (h : Host)
    (k : pf_key_t) (l : List Char) (n : Nat) :
    (ipf_generate_secure_blob env pf h k l n).2.1.file_meta_data = pf.file_meta_data := by
  unfold ipf_generate_secure_blob
  repeat' (first | split | dsimp only)

theorem ipf_init_session_master_key_file_meta_data (env : Env) (pf : pf_context_t) (h : Host) :
    (ipf_init_session_master_key env pf h).2.1.file_meta_data = pf.file_meta_data := by
  unfold ipf_init_session_master_key
  have := ipf_generate_secure_blob_file_meta_data env pf h 0 MASTER_KEY_NAME 0
  split <;> simp_all

theorem ipf_derive_random_node_key_file_meta_data (env : Env) (pf : pf_context_t) (h : Host) (n : Nat) :
    (ipf_derive_random_node_key env pf h n).2.1.file_meta_data = pf.file_meta_data := by
  unfold ipf_derive_random_node_key
  dsimp only
  have key : ∀ b pf1 h1,
      (if pf.master_key_count ≥ MAX_MASTER_KEY_USAGES then
          ipf_init_session_master_key env { pf with master_key_count := pf.master_key_count + 1 } h
        else (true, { pf with master_key_count := pf.master_key_count + 1 }, h)) = (b, pf1, h1) →
      pf1.file_meta_data = pf.file_meta_data := by
    intro b pf1 h1 heq
    split at heq
    · have := ipf_init_session_master_key_file_meta_data env
        { pf with master_key_count := pf.master_key_count + 1 } h
      rw [heq] at this
      exact this
    · simp only [Prod.mk.injEq] at heq
      obtain ⟨-, rfl, -⟩ := heq
      rfl
  split
  · rename_i heq
    exact key _ _ _ heq
  · rename_i pf1 h1 heq
    have e1 := key _ _ _ heq
    have := ipf_generate_secure_blob_file_meta_data env pf1 h1 pf1.session_master_key RANDOM_KEY_NAME n
    split <;> simp_all

theorem write_recovery_nodes_file_meta_data (env : Env) (l : List NodePtr) (pf : pf_context_t) (h : Host)
    (n : Nat) : (write_recovery_nodes env l pf h n).2.1.file_meta_data = pf.file_meta_data := by
  induction l generalizing pf h n with
  | nil => rfl
  | cons p rest ih =>
    unfold write_recovery_nodes
    dsimp only
    split
    · exact ih ..
    · have := ipf_write_recovery_record_file_meta_data env pf h (n * RECOVERY_NODE_SIZE)
        (pf.deref p).recovery_node
      split
      · simp_all
      · rename_i pf1 h1 heq
        rw [ih]
        simp_all

theorem ipf_write_recovery_file_file_meta_data (env : Env) (pf : pf_context_t) (h : Host) :
    (ipf_write_recovery_file env pf h).2.1.file_meta_data = pf.file_meta_data := by
  unfold ipf_write_recovery_file
  split
  · rfl
  · split
    rename_i status fs h1 heq
    split
    · rfl
    · have e1 := write_recovery_nodes_file_meta_data env (cache_ptrs pf) pf h1 0
      split
      · simp_all
      · rename_i n pf2 h2 heq2
        rw [heq2] at e1
        dsimp only at e1 ⊢
        have key : ∀ o pf3 h3,
            (if (pf2.root_mht.need_writing && !pf2.root_mht.new_node) = true then
                match ipf_write_recovery_record env pf2 h2 (n * RECOVERY_NODE_SIZE)
                    pf2.root_mht.recovery_node with
                | (false, pf3, h3) =>
                  let h4 := (cb_close env h3 .recovery).2
                  let h5 := (cb_delete env h4).2
                  (none, pf3, h5)
                | (true, pf3, h3) => (some (n * RECOVERY_NODE_SIZE + RECOVERY_NODE_SIZE), pf3, h3)
              else (some (n * RECOVERY_NODE_SIZE), pf2, h2)) = (o, pf3, h3) →
            pf3.file_meta_data = pf2.file_meta_data := by
          intro o pf3 h3 heq3
          split at heq3
          · have := ipf_write_recovery_record_file_meta_data env pf2 h2 (n * RECOVERY_NODE_SIZE)
              pf2.root_mht.recovery_node
            split at heq3 <;> simp_all
          · simp_all
        split
        · rename_i heq3
          rw [key _ _ _ heq3, e1]
        · rename_i o pf3 h3 heq3
          have e3 := key _ _ _ heq3
          have := ipf_write_recovery_record_file_meta_data env pf3 h3 o pf3.meta_data_recovery_node
          split
          · simp_all
          · repeat' (first | split | dsimp only)
            all_goals simp_all

theorem ipf_clear_update_flag_file_meta_data (env : Env) (pf : pf_context_t) (h : Host) :
    (ipf_clear_update_flag env pf h).1.file_meta_data = pf.file_meta_data := by
  unfold ipf_clear_update_flag
  exact ipf_write_node_file_meta_data ..

theorem update_data_nodes_file_meta_data (env : Env) (l : List NodePtr) (pf : pf_context_t) (h : Host) :
    (update_data_nodes env l pf h).2.1.file_meta_data = pf.file_meta_data := by
  induction l generalizing pf h with
  | nil => rfl
  | cons p rest ih =>
    unfold update_data_nodes
    dsimp only
    split
    · have := ipf_derive_random_node_key_file_meta_data env pf h (pf.deref p).physical_node_number
      split
      · simp_all
      · rename_i pf1 h1 heq
        split
        · simp_all
        · rw [ih, modify_file_meta_data, modify_file_meta_data]
          simp_all
    · exact ih ..

theorem update_mht_nodes_file_meta_data (env : Env) (l : List NodePtr) (pf : pf_context_t) (h : Host) :
    (update_mht_nodes env l pf h).2.1.file_meta_data = pf.file_meta_data := by
  induction l generalizing pf h with
  | nil => rfl
  | cons p rest ih =>
    unfold update_mht_nodes
    dsimp only
    have := ipf_derive_random_node_key_file_meta_data env pf h (pf.deref p).physical_node_number
    split
    · simp_all
    · rename_i pf1 h1 heq
      split
      · simp_all
      · rw [ih, modify_file_meta_data, modify_file_meta_data]
        simp_all

theorem ipf_update_all_data_and_mht_nodes_file_meta_data (env : Env) (pf : pf_context_t) (h : Host) :
    (ipf_update_all_data_and_mht_nodes env pf h).2.1.file_meta_data = pf.file_meta_data := by
  unfold ipf_update_all_data_and_mht_nodes
  have e1 := update_data_nodes_file_meta_data env (cache_ptrs pf) pf h
  split
  · simp_all
  · rename_i pf1 h1 heq1
    dsimp only
    have e2 := update_mht_nodes_file_meta_data env
      (LISTP_SORT (fun a b => mht_sort (pf1.deref a) (pf1.deref b))
        (collect_mht_list pf1 (cache_ptrs pf1) [])) pf1 h1
    split
    · simp_all
    · rename_i pf2 h2 heq2
      have e3 := ipf_derive_random_node_key_file_meta_data env pf2 h2 pf2.root_mht.physical_node_number
      split
      · simp_all
      · rename_i pf3 h3 heq3
        repeat' (first | split | dsimp only)
        all_goals simp_all

theorem write_dirty_nodes_file_meta_data (env : Env) (l : List NodePtr) (pf : pf_context_t) (h : Host) :
    (write_dirty_nodes env l pf h).2.1.file_meta_data = pf.file_meta_data := by
  induction l generalizing pf h with
  | nil => rfl
  | cons p rest ih =>
    unfold write_dirty_nodes
    dsimp only
    split
    · exact ih ..
    · have := ipf_write_node_file_meta_data env pf h (pf.deref p).physical_node_number
        (.node (pf.deref p).encrypted)
      split
      · simp_all
      · rw [ih, modify_file_meta_data]
        simp_all

theorem ipf_write_all_changes_to_disk_file_meta_data (env : Env) (pf : pf_context_t) (h : Host) :
    (ipf_write_all_changes_to_disk env pf h).2.1.file_meta_data = pf.file_meta_data := by
  unfold ipf_write_all_changes_to_disk
  dsimp only
  split_ifs
  · have e1 := write_dirty_nodes_file_meta_data env (cache_ptrs pf) pf h
    rcases hw : write_dirty_nodes env (cache_ptrs pf) pf h with ⟨b, pf2, h2⟩
    rw [hw] at e1
    cases b
    · exact e1
    · dsimp only at e1 ⊢
      have e2 := ipf_write_node_file_meta_data env pf2 h2 1 (.node pf2.root_mht.encrypted)
      rcases hn : ipf_write_node env pf2 h2 1 (.node pf2.root_mht.encrypted) with ⟨b, pf3, h3⟩
      rw [hn] at e2
      cases b
      · exact e2.trans e1
      · dsimp only at e2 ⊢
        rw [ipf_write_node_file_meta_data]
        exact e2.trans e1
  · exact ipf_write_node_file_meta_data ..


theorem ipf_read_node_root_dirty (env : Env) (pf : pf_context_t) (h : Host) (n : Nat) :
    (ipf_read_node env pf h n).2.1.root_mht.need_writing = pf.root_mht.need_writing := by
  unfold ipf_read_node
  repeat' (first | split | dsimp only)

theorem ipf_write_file_root_dirty (env : Env) (pf : pf_context_t) (h : Host) (o : Nat) (b : Block)
    (n : Nat) : (ipf_write_file env pf h o b n).2.1.root_mht.need_writing = pf.root_mht.need_writing := by
  unfold ipf_write_file
  repeat' (first | split | dsimp only)

theorem ipf_write_node_root_dirty (env : Env) (pf : pf_context_t) (h : Host) (n : Nat) (b : Block) :
    (ipf_write_node env pf h n b).2.1.root_mht.need_writing = pf.root_mht.need_writing := by
  unfold ipf_write_node
  exact ipf_write_file_root_dirty ..

theorem ipf_write_recovery_record_root_dirty (env : Env) (pf : pf_context_t) (h : Host) (o : Nat)
    (b : recovery_node_t) : (ipf_write_recovery_record env pf h o b).2.1.root_mht.need_writing = pf.root_mht.need_writing := by
  unfold ipf_write_recovery_record
  repeat' (first | split | dsimp only)

theorem ipf_generate_secure_blob_root_dirty (env : Env) (pf : pf_context_t) (h : Host)
    (k : pf_key_t) (l : List Char) (n : Nat) :
    (ipf_generate_secure_blob env pf h k l n).2.1.root_mht.need_writing = pf.root_mht.need_writing := by
  unfold ipf_generate_secure_blob
  repeat' (first | split | dsimp only)

theorem ipf_generate_secure_blob_from_user_kdk_root_dirty (env : Env) (pf : pf_context_t) (h : Host)
    (r : Bool) : (ipf_generate_secure_blob_from_user_kdk env pf h r).2.1.root_mht.need_writing = pf.root_mht.need_writing := by
  unfold ipf_generate_secure_blob_from_user_kdk
  repeat' (first | split | dsimp only)

theorem ipf_init_session_master_key_root_dirty (env : Env) (pf : pf_context_t) (h : Host) :
    (ipf_init_session_master_key env pf h).2.1.root_mht.need_writing = pf.root_mht.need_writing := by
  unfold ipf_init_session_master_key
  have := ipf_generate_secure_blob_root_dirty env pf h 0 MASTER_KEY_NAME 0
  split <;> simp_all

theorem ipf_derive_random_node_key_root_dirty (env : Env) (pf : pf_context_t) (h : Host) (n : Nat) :
    (ipf_derive_random_node_key env pf h n).2.1.root_mht.need_writing = pf.root_mht.need_writing := by
  unfold ipf_derive_random_node_key
  dsimp only
  have key : ∀ b pf1 h1,
      (if pf.master_key_count ≥ MAX_MASTER_KEY_USAGES then
          ipf_init_session_master_key env { pf with master_key_count := pf.master_key_count + 1 } h
        else (true, { pf with master_key_count := pf.master_key_count + 1 }, h)) = (b, pf1, h1) →
      pf1.root_mht.need_writing = pf.root_mht.need_writing := by
    intro b pf1 h1 heq
    split at heq
    · have := ipf_init_session_master_key_root_dirty env
        { pf with master_key_count := pf.master_key_count + 1 } h
      rw [heq] at this
      exact this
    · simp only [Prod.mk.injEq] at heq
      obtain ⟨-, rfl, -⟩ := heq
      rfl
  split
  · rename_i heq
    exact key _ _ _ heq
  · rename_i pf1 h1 heq
    have e1 := key _ _ _ heq
    have := ipf_generate_secure_blob_root_dirty env pf1 h1 pf1.session_master_key RANDOM_KEY_NAME n
    split <;> simp_all

theorem write_recovery_nodes_root_dirty (env : Env) (l : List NodePtr) (pf : pf_context_t) (h : Host)
    (n : Nat) : (write_recovery_nodes env l pf h n).2.1.root_mht.need_writing = pf.root_mht.need_writing := by
  induction l generalizing pf h n with
  | nil => rfl
  | cons p rest ih =>
    unfold write_recovery_nodes
    dsimp only
    split
    · exact ih ..
    · have := ipf_write_recovery_record_root_dirty env pf h (n * RECOVERY_NODE_SIZE)
        (pf.deref p).recovery_node
      split
      · simp_all
      · rename_i pf1 h1 heq
        rw [ih]
        simp_all

theorem ipf_write_recovery_file_root_dirty (env : Env) (pf : pf_context_t) (h : Host) :
    (ipf_write_recovery_file env pf h).2.1.root_mht.need_writing = pf.root_mht.need_writing := by
  unfold ipf_write_recovery_file
  split
  · rfl
  · split
    rename_i status fs h1 heq
    split
    · rfl
    · have e1 := write_recovery_nodes_root_dirty env (cache_ptrs pf) pf h1 0
      split
      · simp_all
      · rename_i n pf2 h2 heq2
        rw [heq2] at e1
        dsimp only at e1 ⊢
        have key : ∀ o pf3 h3,
            (if (pf2.root_mht.need_writing && !pf2.root_mht.new_node) = true then
                match ipf_write_recovery_record env pf2 h2 (n * RECOVERY_NODE_SIZE)
                    pf2.root_mht.recovery_node with
                | (false, pf3, h3) =>
                  let h4 := (cb_close env h3 .recovery).2
                  let h5 := (cb_delete env h4).2
                  (none, pf3, h5)
                | (true, pf3, h3) => (some (n * RECOVERY_NODE_SIZE + RECOVERY_NODE_SIZE), pf3, h3)
              else (some (n * RECOVERY_NODE_SIZE), pf2, h2)) = (o, pf3, h3) →
            pf3.root_mht.need_writing = pf2.root_mht.need_writing := by
          intro o pf3 h3 heq3
          split at heq3
          · have := ipf_write_recovery_record_root_dirty env pf2 h2 (n * RECOVERY_NODE_SIZE)
              pf2.root_mht.recovery_node
            split at heq3 <;> simp_all
          · simp_all
        split
        · rename_i heq3
          rw [key _ _ _ heq3, e1]
        · rename_i o pf3 h3 heq3
          have e3 := key _ _ _ heq3
          have := ipf_write_recovery_record_root_dirty env pf3 h3 o pf3.meta_data_recovery_node
          split
          · simp_all
          · repeat' (first | split | dsimp only)
            all_goals simp_all

theorem with_update_flag_root_dirty (pf : pf_context_t) (f : Nat) :
    (pf.with_update_flag f).root_mht.need_writing = pf.root_mht.need_writing := rfl

theorem ipf_set_update_flag_root_dirty (env : Env) (pf : pf_context_t) (h : Host) :
    (ipf_set_update_flag env pf h).2.1.root_mht.need_writing = pf.root_mht.need_writing := by
  unfold ipf_set_update_flag
  dsimp only
  have := ipf_write_node_root_dirty env (pf.with_update_flag 1) h 0
    (.meta (pf.with_update_flag 1).file_meta_data)
  split <;> simp_all [with_update_flag_root_dirty]

theorem ipf_clear_update_flag_root_dirty (env : Env) (pf : pf_context_t) (h : Host) :
    (ipf_clear_update_flag env pf h).1.root_mht.need_writing = pf.root_mht.need_writing := by
  unfold ipf_clear_update_flag
  exact ipf_write_node_root_dirty ..

theorem update_data_nodes_root_dirty (env : Env) (l : List NodePtr) (pf : pf_context_t) (h : Host) :
    (update_data_nodes env l pf h).2.1.root_mht.need_writing = pf.root_mht.need_writing := by
  induction l generalizing pf h with
  | nil => rfl
  | cons p rest ih =>
    unfold update_data_nodes
    dsimp only
    split
    · have := ipf_derive_random_node_key_root_dirty env pf h (pf.deref p).physical_node_number
      split
      · simp_all
      · rename_i pf1 h1 heq
        split
        · simp_all
        · rw [ih, modify_root_dirty, modify_root_dirty]
          · simp_all
          · intro n; rfl
          · intro n; rfl
    · exact ih ..

theorem update_mht_nodes_root_dirty (env : Env) (l : List NodePtr) (pf : pf_context_t) (h : Host) :
    (update_mht_nodes env l pf h).2.1.root_mht.need_writing = pf.root_mht.need_writing := by
  induction l generalizing pf h with
  | nil => rfl
  | cons p rest ih =>
    unfold update_mht_nodes
    dsimp only
    have := ipf_derive_random_node_key_root_dirty env pf h (pf.deref p).physical_node_number
    split
    · simp_all
    · rename_i pf1 h1 heq
      split
      · simp_all
      · rw [ih, modify_root_dirty, modify_root_dirty]
        · simp_all
        · intro n; rfl
        · intro n; rfl

theorem ipf_update_all_data_and_mht_nodes_root_dirty (env : Env) (pf : pf_context_t) (h : Host) :
    (ipf_update_all_data_and_mht_nodes env pf h).2.1.root_mht.need_writing = pf.root_mht.need_writing := by
  unfold ipf_update_all_data_and_mht_nodes
  have e1 := update_data_nodes_root_dirty env (cache_ptrs pf) pf h
  split
  · simp_all
  · rename_i pf1 h1 heq1
    dsimp only
    have e2 := update_mht_nodes_root_dirty env
      (LISTP_SORT (fun a b => mht_sort (pf1.deref a) (pf1.deref b))
        (collect_mht_list pf1 (cache_ptrs pf1) [])) pf1 h1
    split
    · simp_all
    · rename_i pf2 h2 heq2
      have e3 := ipf_derive_random_node_key_root_dirty env pf2 h2 pf2.root_mht.physical_node_number
      split
      · simp_all
      · rename_i pf3 h3 heq3
        repeat' (first | split | dsimp only)
        all_goals simp_all

theorem ipf_update_meta_data_node_root_dirty (env : Env) (pf : pf_context_t) (h : Host) :
    (ipf_update_meta_data_node env pf h).2.1.root_mht.need_writing = pf.root_mht.need_writing := by
  unfold ipf_update_meta_data_node
  have e1 := ipf_generate_secure_blob_from_user_kdk_root_dirty env pf h false
  unfold ipf_generate_random_meta_data_key
  split
  · simp_all
  · repeat' (first | split | dsimp only)
    all_goals simp_all


theorem block_writes_append (a b : List Event) :
    block_writes (a ++ b) = block_writes a ++ block_writes b := by
  induction a with
  | nil => rfl
  | cons e rest ih =>
    cases e <;> simp [block_writes, ih]

theorem Wrote.refl (h : Host) : Wrote h h [] := ⟨[], by simp, rfl⟩

theorem Wrote.w_trans {h h1 h2 : Host} {a b : List (Nat × Block)} (x : Wrote h h1 a)
    (y : Wrote h1 h2 b) : Wrote h h2 (a ++ b) := by
  obtain ⟨e1, t1, w1⟩ := x
  obtain ⟨e2, t2, w2⟩ := y
  exact ⟨e1 ++ e2, by rw [t2, t1, List.append_assoc], by rw [block_writes_append, w1, w2]⟩

theorem Wrote.quiet_trans {h h1 h2 : Host} (x : Wrote h h1 []) (y : Wrote h1 h2 []) :
    Wrote h h2 [] :=
  Wrote.w_trans x y

theorem Wrote.tick {h h1 : Host} (e : Event) (t : h1.trace = h.trace ++ [e])
    (q : block_writes [e] = []) : Wrote h h1 [] :=
  ⟨[e], t, q⟩

theorem cb_open_quiet (env : Env) (h : Host) (handle : pf_handle_t) (mode : pf_file_mode_t) :
    Wrote h (cb_open env h handle mode).2.2 [] := by
  refine Wrote.tick (.open_file handle mode) ?_ rfl
  unfold cb_open
  cases handle
  · rfl
  · dsimp only
    split_ifs <;> rfl

theorem cb_close_quiet (env : Env) (h : Host) (handle : pf_handle_t) :
    Wrote h (cb_close env h handle).2 [] :=
  Wrote.tick (.close handle) rfl rfl

theorem cb_delete_quiet (env : Env) (h : Host) : Wrote h (cb_delete env h).2 [] := by
  refine Wrote.tick (.delete .recovery) ?_ rfl
  unfold cb_delete
  dsimp only
  split_ifs <;> rfl

theorem cb_write_record_quiet (env : Env) (h : Host) (r : recovery_node_t) (o : Nat) :
    Wrote h (cb_write_record env h r o).2 [] := by
  refine Wrote.tick (.write_record o r) ?_ rfl
  unfold cb_write_record
  dsimp only
  split_ifs <;> rfl

theorem cb_random_quiet (env : Env) (h : Host) : Wrote h (cb_random env h).2.2 [] :=
  Wrote.tick .random rfl rfl

theorem ipf_write_recovery_record_quiet (env : Env) (pf : pf_context_t) (h : Host) (o : Nat)
    (r : recovery_node_t) : Wrote h (ipf_write_recovery_record env pf h o r).2.2 [] := by
  unfold ipf_write_recovery_record
  have := cb_write_record_quiet env h r o
  rcases hc : cb_write_record env h r o with ⟨s, h1⟩
  rw [hc] at this
  dsimp only at this ⊢
  split_ifs <;> exact this

theorem ipf_generate_secure_blob_quiet (env : Env) (pf : pf_context_t) (h : Host)
    (k : pf_key_t) (l : List Char) (n : Nat) :
    Wrote h (ipf_generate_secure_blob env pf h k l n).2.2 [] := by
  unfold ipf_generate_secure_blob
  have := cb_random_quiet env h
  rcases hc : cb_random env h with ⟨s, nonce, h1⟩
  rw [hc] at this
  dsimp only at this ⊢
  split_ifs
  · exact Wrote.refl h
  · exact this
  · exact this
  · exact this

theorem ipf_generate_secure_blob_from_user_kdk_quiet (env : Env) (pf : pf_context_t) (h : Host)
    (r : Bool) : Wrote h (ipf_generate_secure_blob_from_user_kdk env pf h r).2.2 [] := by
  unfold ipf_generate_secure_blob_from_user_kdk
  have := cb_random_quiet env h
  rcases hc : cb_random env h with ⟨s, nonce, h1⟩
  rw [hc] at this
  cases r
  · simp only [Bool.not_false, if_true]
    by_cases c : PF_FAILURE s = true
    · rw [if_pos c]
      exact this
    · rw [if_neg c]
      dsimp only
      split_ifs <;> exact this
  · simp only [Bool.not_true, Bool.false_eq_true, if_false]
    split_ifs <;> exact Wrote.refl h

theorem ipf_init_session_master_key_quiet (env : Env) (pf : pf_context_t) (h : Host) :
    Wrote h (ipf_init_session_master_key env pf h).2.2 [] := by
  unfold ipf_init_session_master_key
  have := ipf_generate_secure_blob_quiet env pf h 0 MASTER_KEY_NAME 0
  rcases hc : ipf_generate_secure_blob env pf h 0 MASTER_KEY_NAME 0 with ⟨o, pf1, h1⟩
  rw [hc] at this
  cases o <;> exact this

theorem ipf_derive_random_node_key_quiet (env : Env) (pf : pf_context_t) (h : Host) (n : Nat) :
    Wrote h (ipf_derive_random_node_key env pf h n).2.2 [] := by
  unfold ipf_derive_random_node_key
  dsimp only
  have key : ∀ b pf1 h1,
      (if pf.master_key_count ≥ MAX_MASTER_KEY_USAGES then
          ipf_init_session_master_key env { pf with master_key_count := pf.master_key_count + 1 } h
        else (true, { pf with master_key_count := pf.master_key_count + 1 }, h)) = (b, pf1, h1) →
      Wrote h h1 [] := by
    intro b pf1 h1 heq
    split at heq
    · have := ipf_init_session_master_key_quiet env
        { pf with master_key_count := pf.master_key_count + 1 } h
      rw [heq] at this
      exact this
    · simp only [Prod.mk.injEq] at heq
      obtain ⟨-, -, rfl⟩ := heq
      exact Wrote.refl _
  split
  · rename_i heq
    exact key _ _ _ heq
  · rename_i pf1 h1 heq
    have e1 := key _ _ _ heq
    have := ipf_generate_secure_blob_quiet env pf1 h1 pf1.session_master_key RANDOM_KEY_NAME n
    rcases hc : ipf_generate_secure_blob env pf1 h1 pf1.session_master_key RANDOM_KEY_NAME n
      with ⟨o, pf2, h2⟩
    rw [hc] at this
    cases o <;> exact e1.quiet_trans this

theorem write_recovery_nodes_quiet (env : Env) (l : List NodePtr) (pf : pf_context_t) (h : Host)
    (n : Nat) : Wrote h (write_recovery_nodes env l pf h n).2.2 [] := by
  induction l generalizing pf h n with
  | nil => exact Wrote.refl h
  | cons p rest ih =>
    unfold write_recovery_nodes
    dsimp only
    split
    · exact ih ..
    · have := ipf_write_recovery_record_quiet env pf h (n * RECOVERY_NODE_SIZE)
        (pf.deref p).recovery_node
      rcases hc : ipf_write_recovery_record env pf h (n * RECOVERY_NODE_SIZE)
        (pf.deref p).recovery_node with ⟨b, pf1, h1⟩
      rw [hc] at this
      cases b
      · exact (this.quiet_trans (cb_close_quiet env h1 .recovery)).quiet_trans
          (cb_delete_quiet env _)
      · exact this.quiet_trans (ih ..)

theorem ipf_write_recovery_file_quiet (env : Env) (pf : pf_context_t) (h : Host) :
    Wrote h (ipf_write_recovery_file env pf h).2.2 [] := by
  unfold ipf_write_recovery_file
  split
  · exact Wrote.refl h
  · have e0 := cb_open_quiet env h .recovery PF_FILE_MODE_WRITE
    rcases ho : cb_open env h .recovery PF_FILE_MODE_WRITE with ⟨status, fs, h1⟩
    rw [ho] at e0
    dsimp only at e0 ⊢
    split
    · exact e0
    · have e1 := e0.quiet_trans (write_recovery_nodes_quiet env (cache_ptrs pf) pf h1 0)
      rcases hw : write_recovery_nodes env (cache_ptrs pf) pf h1 0 with ⟨o, pf2, h2⟩
      rw [hw] at e1
      cases o with
      | none => exact e1
      | some n =>
        dsimp only at e1 ⊢
        have key : ∀ o pf3 h3,
            (if (pf2.root_mht.need_writing && !pf2.root_mht.new_node) = true then
                match ipf_write_recovery_record env pf2 h2 (n * RECOVERY_NODE_SIZE)
                    pf2.root_mht.recovery_node with
                | (false, pf3, h3) =>
                  let h4 := (cb_close env h3 .recovery).2
                  let h5 := (cb_delete env h4).2
                  (none, pf3, h5)
                | (true, pf3, h3) => (some (n * RECOVERY_NODE_SIZE + RECOVERY_NODE_SIZE), pf3, h3)
              else (some (n * RECOVERY_NODE_SIZE), pf2, h2)) = (o, pf3, h3) →
            Wrote h2 h3 [] := by
          intro o pf3 h3 heq3
          split at heq3
          · have := ipf_write_recovery_record_quiet env pf2 h2 (n * RECOVERY_NODE_SIZE)
              pf2.root_mht.recovery_node
            rcases hc : ipf_write_recovery_record env pf2 h2 (n * RECOVERY_NODE_SIZE)
              pf2.root_mht.recovery_node with ⟨b, pf4, h4⟩
            rw [hc] at this heq3
            cases b
            · simp only [Prod.mk.injEq] at heq3
              obtain ⟨-, -, rfl⟩ := heq3
              exact (this.quiet_trans (cb_close_quiet env h4 .recovery)).quiet_trans
                (cb_delete_quiet env _)
            · simp only [Prod.mk.injEq] at heq3
              obtain ⟨-, -, rfl⟩ := heq3
              exact this
          · simp only [Prod.mk.injEq] at heq3
            obtain ⟨-, -, rfl⟩ := heq3
            exact Wrote.refl _
        split
        · rename_i heq3
          exact e1.quiet_trans (key _ _ _ heq3)
        · rename_i o pf3 h3 heq3
          have e3 := e1.quiet_trans (key _ _ _ heq3)
          have e4 := e3.quiet_trans
            (ipf_write_recovery_record_quiet env pf3 h3 o pf3.meta_data_recovery_node)
          rcases hc : ipf_write_recovery_record env pf3 h3 o pf3.meta_data_recovery_node
            with ⟨b, pf4, h4⟩
          rw [hc] at e4
          cases b
          · exact (e4.quiet_trans (cb_close_quiet env h4 .recovery)).quiet_trans
              (cb_delete_quiet env _)
          · dsimp only at e4 ⊢
            have e5 := e4.quiet_trans (cb_close_quiet env h4 .recovery)
            rcases hcl : cb_close env h4 .recovery with ⟨s5, h5⟩
            rw [hcl] at e5
            dsimp only at e5 ⊢
            split_ifs <;> exact e5

theorem update_data_nodes_quiet (env : Env) (l : List NodePtr) (pf : pf_context_t) (h : Host) :
    Wrote h (update_data_nodes env l pf h).2.2 [] := by
  induction l generalizing pf h with
  | nil => exact Wrote.refl h
  | cons p rest ih =>
    unfold update_data_nodes
    dsimp only
    split
    · have := ipf_derive_random_node_key_quiet env pf h (pf.deref p).physical_node_number
      rcases hc : ipf_derive_random_node_key env pf h (pf.deref p).physical_node_number
        with ⟨b, pf1, h1⟩
      rw [hc] at this
      cases b
      · exact this
      · dsimp only at this ⊢
        split
        · exact this
        · exact this.quiet_trans (ih ..)
    · exact ih ..

theorem update_mht_nodes_quiet (env : Env) (l : List NodePtr) (pf : pf_context_t) (h : Host) :
    Wrote h (update_mht_nodes env l pf h).2.2 [] := by
  induction l generalizing pf h with
  | nil => exact Wrote.refl h
  | cons p rest ih =>
    unfold update_mht_nodes
    dsimp only
    have := ipf_derive_random_node_key_quiet env pf h (pf.deref p).physical_node_number
    rcases hc : ipf_derive_random_node_key env pf h (pf.deref p).physical_node_number
      with ⟨b, pf1, h1⟩
    rw [hc] at this
    cases b
    · exact this
    · dsimp only at this ⊢
      split
      · exact this
      · exact this.quiet_trans (ih ..)

theorem ipf_update_all_data_and_mht_nodes_quiet (env : Env) (pf : pf_context_t) (h : Host) :
    Wrote h (ipf_update_all_data_and_mht_nodes env pf h).2.2 [] := by
  unfold ipf_update_all_data_and_mht_nodes
  have e1 := update_data_nodes_quiet env (cache_ptrs pf) pf h
  rcases h1e : update_data_nodes env (cache_ptrs pf) pf h with ⟨b, pf1, h1⟩
  rw [h1e] at e1
  cases b
  · exact e1
  · dsimp only at e1 ⊢
    have e2 := e1.quiet_trans (update_mht_nodes_quiet env
      (LISTP_SORT (fun a b => mht_sort (pf1.deref a) (pf1.deref b))
        (collect_mht_list pf1 (cache_ptrs pf1) [])) pf1 h1)
    rcases h2e : update_mht_nodes env
      (LISTP_SORT (fun a b => mht_sort (pf1.deref a) (pf1.deref b))
        (collect_mht_list pf1 (cache_ptrs pf1) [])) pf1 h1 with ⟨b, pf2, h2⟩
    rw [h2e] at e2
    cases b
    · exact e2
    · dsimp only at e2 ⊢
      have e3 := e2.quiet_trans
        (ipf_derive_random_node_key_quiet env pf2 h2 pf2.root_mht.physical_node_number)
      rcases h3e : ipf_derive_random_node_key env pf2 h2 pf2.root_mht.physical_node_number
        with ⟨b, pf3, h3⟩
      rw [h3e] at e3
      cases b
      · exact e3
      · dsimp only at e3 ⊢
        split_ifs <;> exact e3

theorem ipf_update_meta_data_node_quiet (env : Env) (pf : pf_context_t) (h : Host) :
    Wrote h (ipf_update_meta_data_node env pf h).2.2 [] := by
  unfold ipf_update_meta_data_node ipf_generate_random_meta_data_key
  have e1 := ipf_generate_secure_blob_from_user_kdk_quiet env pf h false
  rcases h1e : ipf_generate_secure_blob_from_user_kdk env pf h false with ⟨b, pf1, h1⟩
  rw [h1e] at e1
  cases b
  · exact e1
  · dsimp only at e1 ⊢
    split_ifs <;> exact e1

theorem ipf_write_node_wrote (env : Env) (pf : pf_context_t) (h : Host) (n : Nat) (b : Block) :
    Wrote h (ipf_write_node env pf h n b).2.2 [(n * PF_NODE_SIZE % U64, b)] :=
  ⟨[.write_block (n * PF_NODE_SIZE % U64) b], ipf_write_node_trace env pf h n b, rfl⟩

theorem ipf_set_update_flag_wrote (env : Env) (pf : pf_context_t) (h : Host) :
    Wrote h (ipf_set_update_flag env pf h).2.2
      [(0, .meta (pf.with_update_flag 1).file_meta_data)] := by
  unfold ipf_set_update_flag
  dsimp only
  have := ipf_write_node_wrote env (pf.with_update_flag 1) h 0
    (.meta (pf.with_update_flag 1).file_meta_data)
  rw [show 0 * PF_NODE_SIZE % U64 = 0 by decide] at this
  rcases hc : ipf_write_node env (pf.with_update_flag 1) h 0
    (.meta (pf.with_update_flag 1).file_meta_data) with ⟨b, pf1, h1⟩
  rw [hc] at this
  cases b <;> exact this

/-- A successful `ipf_set_update_flag` leaves the flag clear in memory. -/
theorem ipf_set_update_flag_memory (env : Env) (pf : pf_context_t) (h : Host)
    (hok : (ipf_set_update_flag env pf h).1 = true) :
    (ipf_set_update_flag env pf h).2.1.file_meta_data.plain_part.update_flag = 0 := by
  unfold ipf_set_update_flag at hok ⊢
  dsimp only at hok ⊢
  rcases hc : ipf_write_node env (pf.with_update_flag 1) h 0
    (.meta (pf.with_update_flag 1).file_meta_data) with ⟨b, pf1, h1⟩
  rw [hc] at hok
  cases b
  · simp at hok
  · rfl

theorem ipf_update_meta_data_node_update_flag (env : Env) (pf : pf_context_t) (h : Host) :
    (ipf_update_meta_data_node env pf h).2.1.file_meta_data.plain_part.update_flag
      = pf.file_meta_data.plain_part.update_flag := by
  unfold ipf_update_meta_data_node ipf_generate_random_meta_data_key
    ipf_generate_secure_blob_from_user_kdk cb_random
  try dsimp only
  by_cases c1 : PF_FAILURE (env.random h.clock).1 = true
  · simp [c1]
  · by_cases c2 : PF_FAILURE (env.aes_gcm_encrypt pf.user_kdk_key
        (some { index := 1, label := METADATA_KEY_NAME, node_number := 0,
                nonce := (env.random h.clock).2, output_len := 128 }) none).1 = true
    · simp [c1, c2]
    · simp only [c1, c2, Bool.not_false, if_true, if_false, Bool.false_eq_true]
      split_ifs <;> rfl

theorem write_dirty_nodes_wrote (env : Env) (l : List NodePtr) (pf : pf_context_t) (h : Host) :
    ∃ ws, Wrote h (write_dirty_nodes env l pf h).2.2 ws ∧ ∀ w ∈ ws, ∃ c, w.2 = Block.node c := by
  induction l generalizing pf h with
  | nil => exact ⟨[], Wrote.refl h, fun w hw => by simp at hw⟩
  | cons p rest ih =>
    unfold write_dirty_nodes
    dsimp only
    split
    · exact ih ..
    · have e1 := ipf_write_node_wrote env pf h (pf.deref p).physical_node_number
        (.node (pf.deref p).encrypted)
      rcases hc : ipf_write_node env pf h (pf.deref p).physical_node_number
        (.node (pf.deref p).encrypted) with ⟨b, pf1, h1⟩
      rw [hc] at e1
      cases b
      · refine ⟨_, e1, ?_⟩
        intro w hw
        simp only [List.mem_singleton] at hw
        subst hw
        exact ⟨_, rfl⟩
      · dsimp only at e1 ⊢
        obtain ⟨ws, e2, a2⟩ := ih
          (pf1.modify p (fun n => { n with need_writing := false, new_node := false })) h1
        refine ⟨_, e1.w_trans e2, ?_⟩
        intro w hw
        rcases List.mem_append.mp hw with hw | hw
        · simp only [List.mem_singleton] at hw
          subst hw
          exact ⟨_, rfl⟩
        · exact a2 w hw

/-- A successful `ipf_write_all_changes_to_disk` that writes the tree: node
blocks, then block 1 (the root MHT), then block 0 with the metadata node of
the context, which it leaves as it was. -/
theorem ipf_write_all_changes_to_disk_wrote (env : Env) (pf : pf_context_t) (h : Host)
    (hsz : pf.encrypted_part_plain.size > MD_USER_DATA_SIZE)
    (hroot : pf.root_mht.need_writing = true)
    (hok : (ipf_write_all_changes_to_disk env pf h).1 = true) :
    (ipf_write_all_changes_to_disk env pf h).2.1.file_meta_data = pf.file_meta_data ∧
    ∃ ws c, Wrote h (ipf_write_all_changes_to_disk env pf h).2.2
        ((ws ++ [(PF_NODE_SIZE, Block.node c)]) ++ [(0, Block.meta pf.file_meta_data)]) ∧
      ∀ w ∈ ws, ∃ c1, w.2 = Block.node c1 := by
  refine ⟨ipf_write_all_changes_to_disk_file_meta_data env pf h, ?_⟩
  unfold ipf_write_all_changes_to_disk at hok ⊢
  dsimp only at hok ⊢
  have hg : (decide (pf.encrypted_part_plain.size > MD_USER_DATA_SIZE) &&
      pf.root_mht.need_writing) = true := by
    rw [hroot]
    simpa using hsz
  rw [if_pos hg] at hok ⊢
  obtain ⟨ws, e1, a1⟩ := write_dirty_nodes_wrote env (cache_ptrs pf) pf h
  have f1 := write_dirty_nodes_file_meta_data env (cache_ptrs pf) pf h
  rcases hw : write_dirty_nodes env (cache_ptrs pf) pf h with ⟨b, pf1, h1⟩
  rw [hw] at e1 f1 hok
  cases b
  · simp at hok
  · dsimp only at e1 f1 hok ⊢
    have e2 := ipf_write_node_wrote env pf1 h1 1 (.node pf1.root_mht.encrypted)
    have f2 := ipf_write_node_file_meta_data env pf1 h1 1 (.node pf1.root_mht.encrypted)
    rw [show 1 * PF_NODE_SIZE % U64 = PF_NODE_SIZE by decide] at e2
    rcases hr : ipf_write_node env pf1 h1 1 (.node pf1.root_mht.encrypted) with ⟨b, pf2, h2⟩
    rw [hr] at e2 f2 hok
    cases b
    · simp at hok
    · dsimp only at e2 f2 hok ⊢
      have e3 := ipf_write_node_wrote env
        { pf2 with root_mht := { pf2.root_mht with need_writing := false, new_node := false } }
        h2 0 (.meta pf2.file_meta_data)
      rw [show 0 * PF_NODE_SIZE % U64 = 0 by decide] at e3
      refine ⟨ws, pf1.root_mht.encrypted, ?_, a1⟩
      have hm : pf2.file_meta_data = pf.file_meta_data := f2.trans f1
      rw [← hm]
      exact (e1.w_trans e2).w_trans e3

/-- The steps of a flush that returns true have all returned true, and its
result is that of the last step with `need_writing` cleared. -/
theorem flush_success_steps (env : Env) (pf : pf_context_t) (h : Host)
    (hnw : pf.need_writing = true) (hok : (ipf_internal_flush env pf h).1 = true) :
    (flush_writes_tree pf = true → (flush_log_step env pf h).1 = true ∧
      (flush_flag_step env pf h).1 = true ∧ (flush_tree_step env pf h).1 = true) ∧
    (flush_meta_step env pf h).1 = true ∧ (flush_disk_step env pf h).1 = true ∧
    (ipf_internal_flush env pf h).2 =
      ({ (flush_disk_step env pf h).2.1 with need_writing := false },
        (flush_disk_step env pf h).2.2) := by
  have tail : ∀ (pf1 : pf_context_t) (h1 : Host),
      (match ipf_update_meta_data_node env pf1 h1 with
        | (false, pf2, h2) =>
          match ipf_clear_update_flag env pf2 h2 with
          | (pf3, h3) => (false, { pf3 with file_status := CRYPTO_ERROR }, h3)
        | (true, pf2, h2) =>
          match ipf_write_all_changes_to_disk env pf2 h2 with
          | (false, pf3, h3) => (false, { pf3 with file_status := WRITE_TO_DISK_FAILED }, h3)
          | (true, pf3, h3) => (true, { pf3 with need_writing := false }, h3)).1 = true →
      (ipf_update_meta_data_node env pf1 h1).1 = true ∧
      (ipf_write_all_changes_to_disk env (ipf_update_meta_data_node env pf1 h1).2.1
        (ipf_update_meta_data_node env pf1 h1).2.2).1 = true ∧
      (match ipf_update_meta_data_node env pf1 h1 with
        | (false, pf2, h2) =>
          match ipf_clear_update_flag env pf2 h2 with
          | (pf3, h3) => (false, { pf3 with file_status := CRYPTO_ERROR }, h3)
        | (true, pf2, h2) =>
          match ipf_write_all_changes_to_disk env pf2 h2 with
          | (false, pf3, h3) => (false, { pf3 with file_status := WRITE_TO_DISK_FAILED }, h3)
          | (true, pf3, h3) => (true, { pf3 with need_writing := false }, h3)).2 =
        ({ (ipf_write_all_changes_to_disk env (ipf_update_meta_data_node env pf1 h1).2.1
            (ipf_update_meta_data_node env pf1 h1).2.2).2.1 with need_writing := false },
          (ipf_write_all_changes_to_disk env (ipf_update_meta_data_node env pf1 h1).2.1
            (ipf_update_meta_data_node env pf1 h1).2.2).2.2) := by
    intro pf1 h1 hf1
    rcases hu : ipf_update_meta_data_node env pf1 h1 with ⟨b, pf2, h2⟩
    rw [hu] at hf1
    cases b
    · simp at hf1
    · dsimp only at hf1 ⊢
      rcases hw : ipf_write_all_changes_to_disk env pf2 h2 with ⟨b, pf3, h3⟩
      rw [hw] at hf1
      cases b
      · simp at hf1
      · exact ⟨rfl, rfl, rfl⟩
  unfold flush_disk_step flush_meta_step flush_tree_done flush_tree_step flush_flag_step
    flush_log_step flush_writes_tree
  unfold ipf_internal_flush at hok ⊢
  try dsimp only at hok ⊢
  have n0 : (!pf.need_writing) = false := by rw [hnw]; rfl
  rw [n0] at hok ⊢
  simp only [Bool.false_eq_true, if_false] at hok ⊢
  by_cases hguard : (decide (pf.encrypted_part_plain.size > MD_USER_DATA_SIZE) &&
      pf.root_mht.need_writing) = true
  · simp only [if_pos hguard] at hok ⊢
    by_cases hrec : pf.recovery_path ≠ []
    · simp only [if_pos hrec] at hok ⊢
      rcases hr : ipf_write_recovery_file env pf h with ⟨b, pf1, h1⟩
      rw [hr] at hok
      cases b
      · simp at hok
      · dsimp only at hok ⊢
        rcases hs : ipf_set_update_flag env pf1 h1 with ⟨b, pf2, h2⟩
        rw [hs] at hok
        cases b
        · simp at hok
        · dsimp only at hok ⊢
          rcases hu : ipf_update_all_data_and_mht_nodes env pf2 h2 with ⟨b, pf3, h3⟩
          rw [hu] at hok
          cases b
          · simp at hok
          · dsimp only at hok ⊢
            obtain ⟨t1, t2, t3⟩ := tail pf3 h3 hok
            exact ⟨fun _ => ⟨rfl, rfl, rfl⟩, t1, t2, t3⟩
    · simp only [if_neg hrec] at hok ⊢
      try dsimp only at hok ⊢
      rcases hs : ipf_set_update_flag env pf h with ⟨b, pf2, h2⟩
      rw [hs] at hok
      cases b
      · simp at hok
      · dsimp only at hok ⊢
        rcases hu : ipf_update_all_data_and_mht_nodes env pf2 h2 with ⟨b, pf3, h3⟩
        rw [hu] at hok
        cases b
        · simp at hok
        · dsimp only at hok ⊢
          obtain ⟨t1, t2, t3⟩ := tail pf3 h3 hok
          exact ⟨fun _ => ⟨trivial, rfl, rfl⟩, t1, t2, t3⟩
  · simp only [if_neg hguard] at hok ⊢
    try dsimp only at hok ⊢
    obtain ⟨t1, t2, t3⟩ := tail pf h hok
    exact ⟨fun c => absurd c hguard, t1, t2, t3⟩

theorem flush_log_step_quiet (env : Env) (pf : pf_context_t) (h : Host) :
    Wrote h (flush_log_step env pf h).2.2 [] := by
  unfold flush_log_step
  split_ifs
  · exact ipf_write_recovery_file_quiet env pf h
  · exact Wrote.refl h

theorem flush_log_step_stable (env : Env) (pf : pf_context_t) (h : Host) :
    (flush_log_step env pf h).2.1.stable = pf.stable := by
  unfold flush_log_step
  split_ifs
  · exact ipf_write_recovery_file_stable env pf h
  · rfl

theorem flush_log_step_root_dirty (env : Env) (pf : pf_context_t) (h : Host) :
    (flush_log_step env pf h).2.1.root_mht.need_writing = pf.root_mht.need_writing := by
  unfold flush_log_step
  split_ifs
  · exact ipf_write_recovery_file_root_dirty env pf h
  · rfl

/-- C25: in a successful `ipf_internal_flush` of a context that needs writing
(which a dirty root MHT implies in every state the operations produce), with
plaintext size above `MD_USER_DATA_SIZE` and a dirty root MHT, the writes to
the protected file are, in order: block 0 with `update_flag = 1`; then blocks
of data and MHT nodes, the last of them block 1 (the root MHT); then, last,
block 0 with `update_flag = 0`, carrying the metadata node that
`ipf_update_meta_data_node` has encrypted in this flush. -/
theorem flush_write_order (env : Env) (pf : pf_context_t) (h : Host)
    (hnw : pf.need_writing = true)
    (hsz : pf.encrypted_part_plain.size > MD_USER_DATA_SIZE)
    (hroot : pf.root_mht.need_writing = true)
    (hok : (ipf_internal_flush env pf h).1 = true) :
    ∃ (m1 : meta_data_node_t) (mid : List (Nat × Block)) (c : Buf),
      Wrote h (ipf_internal_flush env pf h).2.2
        ((0, Block.meta m1) :: mid ++ [(PF_NODE_SIZE, Block.node c)] ++
          [(0, Block.meta (ipf_internal_flush env pf h).2.1.file_meta_data)]) ∧
      m1.plain_part.update_flag = 1 ∧
      (ipf_internal_flush env pf h).2.1.file_meta_data.plain_part.update_flag = 0 ∧
      (∀ w ∈ mid, ∃ c1, w.2 = Block.node c1) ∧
      (ipf_internal_flush env pf h).2.1.file_meta_data
        = (flush_meta_step env pf h).2.1.file_meta_data := by
  have hg : flush_writes_tree pf = true := by
    unfold flush_writes_tree
    rw [hroot]
    simpa using hsz
  obtain ⟨s1, s2, s3, s4⟩ := flush_success_steps env pf h hnw hok
  obtain ⟨l1, l2, l3⟩ := s1 hg
  have hd : flush_tree_done env pf h = (flush_tree_step env pf h).2 := by
    unfold flush_tree_done
    rw [if_pos hg]
  have q1 := flush_log_step_quiet env pf h
  have q2 : Wrote (flush_log_step env pf h).2.2 (flush_flag_step env pf h).2.2
      [(0, .meta ((flush_log_step env pf h).2.1.with_update_flag 1).file_meta_data)] :=
    ipf_set_update_flag_wrote env _ _
  have q3 : Wrote (flush_flag_step env pf h).2.2 (flush_tree_step env pf h).2.2 [] :=
    ipf_update_all_data_and_mht_nodes_quiet env _ _
  have q4 : Wrote (flush_tree_step env pf h).2.2 (flush_meta_step env pf h).2.2 [] := by
    have := ipf_update_meta_data_node_quiet env (flush_tree_done env pf h).1
      (flush_tree_done env pf h).2
    rw [hd] at this
    unfold flush_meta_step
    rw [hd]
    exact this
  -- the guard of `ipf_write_all_changes_to_disk`
  have st : (flush_meta_step env pf h).2.1.stable = pf.stable := by
    unfold flush_meta_step
    rw [ipf_update_meta_data_node_stable, hd]
    unfold flush_tree_step
    rw [ipf_update_all_data_and_mht_nodes_stable]
    unfold flush_flag_step
    rw [ipf_set_update_flag_stable]
    exact flush_log_step_stable env pf h
  have rd : (flush_meta_step env pf h).2.1.root_mht.need_writing = pf.root_mht.need_writing := by
    unfold flush_meta_step
    rw [ipf_update_meta_data_node_root_dirty, hd]
    unfold flush_tree_step
    rw [ipf_update_all_data_and_mht_nodes_root_dirty]
    unfold flush_flag_step
    rw [ipf_set_update_flag_root_dirty]
    exact flush_log_step_root_dirty env pf h
  have hsz1 : (flush_meta_step env pf h).2.1.encrypted_part_plain.size > MD_USER_DATA_SIZE := by
    have := congrArg Stable.size st
    unfold pf_context_t.stable at this
    dsimp only at this
    rw [this]
    exact hsz
  obtain ⟨f5, ws, c, q5, a5⟩ := ipf_write_all_changes_to_disk_wrote env
    (flush_meta_step env pf h).2.1 (flush_meta_step env pf h).2.2 hsz1 (rd.trans hroot) s3
  -- the update flag in memory
  have u1 : (flush_flag_step env pf h).2.1.file_meta_data.plain_part.update_flag = 0 :=
    ipf_set_update_flag_memory env _ _ l2
  have u2 : (flush_meta_step env pf h).2.1.file_meta_data.plain_part.update_flag = 0 := by
    unfold flush_meta_step
    rw [ipf_update_meta_data_node_update_flag, hd]
    unfold flush_tree_step
    rw [ipf_update_all_data_and_mht_nodes_file_meta_data]
    exact u1
  have fin : (ipf_internal_flush env pf h).2.1.file_meta_data
      = (flush_meta_step env pf h).2.1.file_meta_data := by
    rw [s4]
    exact f5
  refine ⟨((flush_log_step env pf h).2.1.with_update_flag 1).file_meta_data, ws, c, ?_, rfl,
    ?_, a5, fin⟩
  · have hh : (ipf_internal_flush env pf h).2.2 = (flush_disk_step env pf h).2.2 := by
      rw [s4]
    rw [hh, fin]
    have := (((q1.w_trans q2).w_trans q3).w_trans q4).w_trans q5
    simpa using this
  · rw [fin]
    exact u2

/-- The flushed one-node file after data node 0 is rewritten: the second flush
writes block 0 with the flag set, the data node and the root MHT, and block 0
with the flag clear. -/
theorem flush_write_order_witness :
    example_rewritten.1.need_writing = true ∧
    (ipf_internal_flush example_env example_rewritten.1 example_rewritten.2).1 = true ∧
    ∃ (m1 : meta_data_node_t) (mid : List (Nat × Block)) (c : Buf),
      Wrote example_rewritten.2
        (ipf_internal_flush example_env example_rewritten.1 example_rewritten.2).2.2
        ((0, Block.meta m1) :: mid ++ [(PF_NODE_SIZE, Block.node c)] ++
          [(0, Block.meta (ipf_internal_flush example_env example_rewritten.1
            example_rewritten.2).2.1.file_meta_data)]) ∧
      m1.plain_part.update_flag = 1 ∧
      (ipf_internal_flush example_env example_rewritten.1
        example_rewritten.2).2.1.file_meta_data.plain_part.update_flag = 0 ∧
      (∀ w ∈ mid, ∃ c1, w.2 = Block.node c1) ∧
      (ipf_internal_flush example_env example_rewritten.1
        example_rewritten.2).2.1.file_meta_data
        = (flush_meta_step example_env example_rewritten.1
            example_rewritten.2).2.1.file_meta_data :=
  ⟨by decide!, by decide!,
    flush_write_order example_env example_rewritten.1 example_rewritten.2 (by decide!)
      (by decide!) (by decide!) (by decide!)⟩

/-! ## Theorems: contents of the recovery log -/

theorem record_writes_append (a b : List Event) :
    record_writes (a ++ b) = record_writes a ++ record_writes b := by
  induction a with
  | nil => rfl
  | cons e rest ih =>
    cases e <;> simp [record_writes, ih]

theorem at_slots_append (start : Nat) (a b : List recovery_node_t) :
    at_slots start (a ++ b) = at_slots start a ++ at_slots (start + a.length) b := by
  induction a generalizing start with
  | nil => simp [at_slots]
  | cons r rest ih =>
    show (start * RECOVERY_NODE_SIZE, r) :: at_slots (start + 1) (rest ++ b)
      = (start * RECOVERY_NODE_SIZE, r) :: at_slots (start + 1) rest
          ++ at_slots (start + (rest.length + 1)) b
    rw [ih, Nat.add_assoc, Nat.add_comm 1 rest.length]
    rfl

theorem store_records_append (env : Env) (a b : List recovery_node_t) (start : Nat) (h : Host) :
    store_records env (a ++ b) start h
      = store_records env b (start + a.length) (store_records env a start h) := by
  induction a generalizing start h with
  | nil => rfl
  | cons r rest ih =>
    show store_records env (rest ++ b) (start + 1)
        (cb_write_record env h r (start * RECOVERY_NODE_SIZE)).2
      = store_records env b (start + (rest.length + 1))
          (store_records env rest (start + 1)
            (cb_write_record env h r (start * RECOVERY_NODE_SIZE)).2)
    rw [ih, Nat.add_assoc, Nat.add_comm 1 rest.length]

/-- A node of a cache with distinct keys is what its pointer reads. -/
theorem lruc_find_of_mem (cache : List file_node_t) (n : file_node_t) (hn : n ∈ cache)
    (hk : (cache.map (fun m => m.physical_node_number)).Nodup) :
    lruc_find cache n.physical_node_number = some n := by
  unfold lruc_find
  induction cache with
  | nil => simp at hn
  | cons m rest ih =>
    simp only [List.map_cons, List.nodup_cons] at hk
    rcases List.mem_cons.mp hn with e | e
    · subst e
      simp [List.find?]
    · have hne : m.physical_node_number ≠ n.physical_node_number := by
        intro c
        apply hk.1
        rw [c]
        exact List.mem_map_of_mem _ e
      simp only [List.find?]
      rw [show (m.physical_node_number == n.physical_node_number) = false from by
        simpa using hne]
      exact ih e hk.2

/-- With succeeding callbacks the loop of `ipf_write_recovery_file` stores one
record per dirty node that is not new, at consecutive slots, and leaves the
context as it was. -/
theorem write_recovery_nodes_spec (env : Env) (hio : ∀ t, env.io_status t = SUCCESS)
    (l : List NodePtr) (pf : pf_context_t) (h : Host) (n : Nat) :
    write_recovery_nodes env l pf h n =
      (some (n + (l.filterMap (fun p =>
          if (pf.deref p).need_writing && !(pf.deref p).new_node
          then some (pf.deref p).recovery_node else none)).length),
        pf,
        store_records env (l.filterMap (fun p =>
          if (pf.deref p).need_writing && !(pf.deref p).new_node
          then some (pf.deref p).recovery_node else none)) n h) := by
  induction l generalizing h n with
  | nil => rfl
  | cons p rest ih =>
    unfold write_recovery_nodes
    dsimp only
    by_cases c : (!(pf.deref p).need_writing || (pf.deref p).new_node) = true
    · rw [if_pos c]
      have c2 : ((pf.deref p).need_writing && !(pf.deref p).new_node) = false := by
        cases h1 : (pf.deref p).need_writing <;> cases h2 : (pf.deref p).new_node <;>
          simp [h1, h2] at c ⊢
      rw [ih, List.filterMap_cons]
      simp only [c2, Bool.false_eq_true, if_false]
    · rw [if_neg c]
      have c2 : ((pf.deref p).need_writing && !(pf.deref p).new_node) = true := by
        cases h1 : (pf.deref p).need_writing <;> cases h2 : (pf.deref p).new_node <;>
          simp [h1, h2] at c ⊢
      have hw : ipf_write_recovery_record env pf h (n * RECOVERY_NODE_SIZE)
          (pf.deref p).recovery_node =
          (true, pf, (cb_write_record env h (pf.deref p).recovery_node
            (n * RECOVERY_NODE_SIZE)).2) := by
        unfold ipf_write_recovery_record
        have : (cb_write_record env h (pf.deref p).recovery_node (n * RECOVERY_NODE_SIZE)).1
            = SUCCESS := by
          unfold cb_write_record
          dsimp only
          rw [hio]
          rfl
        rcases hc : cb_write_record env h (pf.deref p).recovery_node (n * RECOVERY_NODE_SIZE)
          with ⟨s, h1⟩
        rw [hc] at this
        dsimp only at this ⊢
        subst this
        rfl
      rw [hw]
      dsimp only
      rw [ih, List.filterMap_cons]
      simp only [c2, if_true, List.length_cons, store_records]
      rw [Nat.add_assoc, Nat.add_comm 1]

theorem cb_write_record_ok (env : Env) (hio : ∀ t, env.io_status t = SUCCESS) (h : Host)
    (r : recovery_node_t) (o : Nat) :
    cb_write_record env h r o =
      (SUCCESS,
        { h.tick (.write_record o r) with
            recovery := some (put_record (h.recovery.getD []) (o / RECOVERY_NODE_SIZE) r)
            recovery_tail :=
              if o / RECOVERY_NODE_SIZE < (h.recovery.getD []).length then h.recovery_tail
              else 0 }) := by
  unfold cb_write_record
  dsimp only
  rw [hio]
  rfl

theorem ipf_write_recovery_record_ok (env : Env) (hio : ∀ t, env.io_status t = SUCCESS)
    (pf : pf_context_t) (h : Host) (o : Nat) (r : recovery_node_t) :
    ipf_write_recovery_record env pf h o r = (true, pf, (cb_write_record env h r o).2) := by
  unfold ipf_write_recovery_record
  rw [cb_write_record_ok env hio]
  rfl

theorem store_records_trace (env : Env) (rs : List recovery_node_t) (start : Nat) (h : Host) :
    ∃ evs, (store_records env rs start h).trace = h.trace ++ evs ∧
      record_writes evs = at_slots start rs := by
  induction rs generalizing start h with
  | nil => exact ⟨[], by simp [store_records], rfl⟩
  | cons r rest ih =>
    obtain ⟨evs, t, w⟩ := ih (start + 1) (cb_write_record env h r (start * RECOVERY_NODE_SIZE)).2
    have t0 : (cb_write_record env h r (start * RECOVERY_NODE_SIZE)).2.trace
        = h.trace ++ [.write_record (start * RECOVERY_NODE_SIZE) r] := by
      unfold cb_write_record
      dsimp only
      split_ifs <;> rfl
    refine ⟨.write_record (start * RECOVERY_NODE_SIZE) r :: evs, ?_, ?_⟩
    · show (store_records env rest (start + 1) _).trace = _
      rw [t, t0]
      simp
    · simp only [record_writes, at_slots, w]

theorem put_record_at (a b : List recovery_node_t) (r : recovery_node_t) :
    put_record (a ++ b) a.length r = (a ++ [r]) ++ b.drop 1 := by
  unfold put_record
  cases b with
  | nil => simp
  | cons x rest =>
    have : a.length < (a ++ x :: rest).length := by simp
    rw [if_pos this]
    simp [List.set_append]

/-- With succeeding callbacks, the records stored at consecutive slots from
slot `a.length` of a recovery file that holds `a ++ b` replace the start of
`b`; a file without a partial record at its end stays so. -/
theorem store_records_recovery (env : Env) (hio : ∀ t, env.io_status t = SUCCESS)
    (rs a b : List recovery_node_t) (h : Host) (hr : h.recovery.getD [] = a ++ b) :
    (store_records env rs a.length h).recovery = some (a ++ rs ++ b.drop rs.length) ∨
      (rs = [] ∧ (store_records env rs a.length h).recovery = h.recovery) := by
  induction rs generalizing a b h with
  | nil => exact Or.inr ⟨rfl, rfl⟩
  | cons r rest ih =>
    left
    have h1 : (cb_write_record env h r (a.length * RECOVERY_NODE_SIZE)).2.recovery.getD []
        = (a ++ [r]) ++ b.drop 1 := by
      rw [cb_write_record_ok env hio]
      dsimp only
      rw [Option.getD_some, hr]
      have : a.length * RECOVERY_NODE_SIZE / RECOVERY_NODE_SIZE = a.length :=
        Nat.mul_div_cancel _ (by decide)
      rw [this]
      exact put_record_at a b r
    have := ih (a ++ [r]) (b.drop 1) (cb_write_record env h r (a.length * RECOVERY_NODE_SIZE)).2 h1
    rw [List.length_append, List.length_singleton] at this
    show (store_records env rest (a.length + 1) _).recovery = _
    rcases this with e | ⟨e1, e2⟩
    · rw [e]
      simp [List.drop_drop, Nat.add_comm]
    · subst e1
      rw [e2]
      rw [cb_write_record_ok env hio]
      dsimp only
      have : a.length * RECOVERY_NODE_SIZE / RECOVERY_NODE_SIZE = a.length :=
        Nat.mul_div_cancel _ (by decide)
      rw [this, hr, put_record_at]
      simp

theorem store_records_tail (env : Env) (hio : ∀ t, env.io_status t = SUCCESS)
    (rs : List recovery_node_t) (start : Nat) (h : Host) (ht : h.recovery_tail = 0) :
    (store_records env rs start h).recovery_tail = 0 := by
  induction rs generalizing start h with
  | nil => exact ht
  | cons r rest ih =>
    apply ih
    rw [cb_write_record_ok env hio]
    dsimp only
    split_ifs
    · exact ht
    · rfl

/-- Under distinct cache keys the records of the loop over the node pointers
are those of the dirty nodes that are not new, in cache order. -/
theorem cache_ptrs_records (pf : pf_context_t)
    (hk : (pf.cache.map (fun m => m.physical_node_number)).Nodup) :
    (cache_ptrs pf).filterMap (fun p =>
        if (pf.deref p).need_writing && !(pf.deref p).new_node
        then some (pf.deref p).recovery_node else none)
      = (pf.cache.filter (fun n => n.need_writing && !n.new_node)).map
          file_node_t.recovery_node := by
  unfold cache_ptrs
  have key : ∀ l : List file_node_t, (∀ n ∈ l, n ∈ pf.cache) →
      (l.map (fun n => NodePtr.cached n.physical_node_number)).filterMap (fun p =>
        if (pf.deref p).need_writing && !(pf.deref p).new_node
        then some (pf.deref p).recovery_node else none)
      = (l.filter (fun n => n.need_writing && !n.new_node)).map file_node_t.recovery_node := by
    intro l
    induction l with
    | nil => intro _; rfl
    | cons n rest ih =>
      intro hl
      have hd : pf.deref (NodePtr.cached n.physical_node_number) = n := by
        show (lruc_find pf.cache n.physical_node_number).getD calloc_node = n
        rw [lruc_find_of_mem pf.cache n (hl n (List.mem_cons_self _ _)) hk]
        rfl
      rw [List.map_cons, List.filterMap_cons, hd, List.filter_cons,
        ih (fun m hm => hl m (List.mem_cons_of_mem _ hm))]
      by_cases c : (n.need_writing && !n.new_node) = true
      · simp only [c, if_true, List.map_cons]
      · simp only [c, Bool.false_eq_true, if_false]
  exact key pf.cache (fun _ hn => hn)

/-- With succeeding callbacks `ipf_write_recovery_file` opens the recovery
file, stores the records of `recovery_log` at consecutive slots from slot 0,
and closes the file. -/
theorem ipf_write_recovery_file_ok (env : Env) (hio : ∀ t, env.io_status t = SUCCESS)
    (pf : pf_context_t) (h : Host) (hpath : pf.recovery_path ≠ [])
    (hk : (pf.cache.map (fun m => m.physical_node_number)).Nodup) :
    ipf_write_recovery_file env pf h =
      (true, pf,
        (cb_close env
          (store_records env (recovery_log pf) 0
            (cb_open env h .recovery PF_FILE_MODE_WRITE).2.2) .recovery).2) := by
  unfold ipf_write_recovery_file
  rw [if_neg hpath]
  have ho : (cb_open env h .recovery PF_FILE_MODE_WRITE).1 = SUCCESS := by
    unfold cb_open
    dsimp only
    rw [hio]
    rfl
  rcases hc : cb_open env h .recovery PF_FILE_MODE_WRITE with ⟨s, fs, h1⟩
  rw [hc] at ho
  dsimp only at ho ⊢
  subst ho
  have f0 : PF_FAILURE SUCCESS = false := rfl
  rw [f0]
  simp only [Bool.false_eq_true, if_false]
  rw [write_recovery_nodes_spec env hio, cache_ptrs_records pf hk]
  dsimp only
  have hclose : ∀ h2 : Host, (cb_close env h2 .recovery).1 = SUCCESS := by
    intro h2
    unfold cb_close
    exact hio _
  unfold recovery_log
  by_cases c : (pf.root_mht.need_writing && !pf.root_mht.new_node) = true
  · rw [if_pos c, if_pos c]
    rw [ipf_write_recovery_record_ok env hio]
    dsimp only
    rw [ipf_write_recovery_record_ok env hio]
    dsimp only
    rw [store_records_append, store_records_append]
    simp only [store_records, Nat.zero_add, List.length_append, List.length_singleton]
    have e1 : (List.map file_node_t.recovery_node
        (List.filter (fun n => n.need_writing && !n.new_node) pf.cache)).length
          * RECOVERY_NODE_SIZE + RECOVERY_NODE_SIZE
        = ((List.map file_node_t.recovery_node
            (List.filter (fun n => n.need_writing && !n.new_node) pf.cache)).length + 1)
          * RECOVERY_NODE_SIZE := by
      rw [Nat.add_mul, Nat.one_mul]
    rw [e1]
    simp only [hclose, f0, Bool.false_eq_true, if_false]
  · rw [if_neg c, if_neg c]
    dsimp only
    rw [ipf_write_recovery_record_ok env hio]
    dsimp only
    rw [store_records_append, store_records_append]
    simp only [store_records, Nat.zero_add, List.length_append, List.length_nil, Nat.add_zero]
    simp only [hclose, f0, Bool.false_eq_true, if_false]

theorem cb_open_recovery_write (env : Env) (hio : ∀ t, env.io_status t = SUCCESS) (h : Host) :
    (cb_open env h .recovery PF_FILE_MODE_WRITE).2.2 =
      { h.tick (.open_file .recovery PF_FILE_MODE_WRITE) with
          recovery := some (h.recovery.getD []) } := by
  unfold cb_open
  dsimp only
  rw [hio]
  rfl

/-- C28: when all callbacks succeed (and the recovery path is set, the cached
nodes have distinct physical numbers), `ipf_write_recovery_file` returns true,
leaves the context as it was, and writes to the recovery file exactly the
records of `recovery_log` at consecutive slots of `8 + 4096` bytes from offset
0: one record for each cached node that is dirty and not new (none for a new
node), in cache order; then one for the root MHT iff it is dirty and not new;
then the metadata record, last.  Afterwards the file starts with these
records; it holds exactly these when it was absent or empty before; and its
size is a multiple of `8 + 4096` (when it had no partial record before). -/
theorem recovery_log_contents (env : Env) (pf : pf_context_t) (h : Host)
    (hio : ∀ t, env.io_status t = SUCCESS) (hpath : pf.recovery_path ≠ [])
    (hk : (pf.cache.map (fun m => m.physical_node_number)).Nodup) :
    (ipf_write_recovery_file env pf h).1 = true ∧
    (ipf_write_recovery_file env pf h).2.1 = pf ∧
    (∃ evs, (ipf_write_recovery_file env pf h).2.2.trace = h.trace ++ evs ∧
      record_writes evs = at_slots 0 (recovery_log pf)) ∧
    ((ipf_write_recovery_file env pf h).2.2.recovery.getD []).take (recovery_log pf).length
      = recovery_log pf ∧
    (h.recovery.getD [] = [] →
      (ipf_write_recovery_file env pf h).2.2.recovery = some (recovery_log pf)) ∧
    (h.recovery_tail = 0 →
      recovery_file_size (ipf_write_recovery_file env pf h).2.2 % RECOVERY_NODE_SIZE = 0) := by
  rw [ipf_write_recovery_file_ok env hio pf h hpath hk]
  dsimp only
  have hne : recovery_log pf ≠ [] := by
    unfold recovery_log
    simp
  have hrec : (store_records env (recovery_log pf) 0
      (cb_open env h .recovery PF_FILE_MODE_WRITE).2.2).recovery
      = some (recovery_log pf ++ (h.recovery.getD []).drop (recovery_log pf).length) := by
    have := store_records_recovery env hio (recovery_log pf) [] (h.recovery.getD [])
      (cb_open env h .recovery PF_FILE_MODE_WRITE).2.2 (by
        rw [cb_open_recovery_write env hio]
        rfl)
    rcases this with e | ⟨e, -⟩
    · simpa using e
    · exact absurd e hne
  have hcl : ∀ h2 : Host, (cb_close env h2 .recovery).2.recovery = h2.recovery := fun _ => rfl
  have hclt : ∀ h2 : Host, (cb_close env h2 .recovery).2.recovery_tail = h2.recovery_tail :=
    fun _ => rfl
  refine ⟨rfl, rfl, ?_, ?_, ?_, ?_⟩
  · obtain ⟨evs, t, w⟩ := store_records_trace env (recovery_log pf) 0
      (cb_open env h .recovery PF_FILE_MODE_WRITE).2.2
    refine ⟨[.open_file .recovery PF_FILE_MODE_WRITE] ++ evs ++ [.close .recovery], ?_, ?_⟩
    · show (store_records env (recovery_log pf) 0 _).trace ++ [Event.close .recovery] = _
      rw [t, cb_open_recovery_write env hio]
      simp [Host.tick]
    · rw [record_writes_append, record_writes_append, w]
      simp [record_writes]
  · rw [hcl, hrec]
    simp
  · intro he
    rw [hcl, hrec, he]
    simp
  · intro ht
    unfold recovery_file_size
    rw [hclt, hcl]
    rw [store_records_tail env hio _ _ _ (by
      rw [cb_open_recovery_write env hio]
      exact ht)]
    simp

/-- The flushed one-node file with recovery enabled, data node 0 rewritten:
the log of the next flush has three records, for block 2 (the data node),
block 1 (the root MHT) and block 0 (the metadata). -/
theorem recovery_log_contents_witness :
    (recovery_log example_rewritten.1).map (fun r => r.physical_node_number) = [2, 1, 0] ∧
    (ipf_write_recovery_file example_env example_rewritten.1 example_rewritten.2).1 = true ∧
    (∃ evs, (ipf_write_recovery_file example_env example_rewritten.1
        example_rewritten.2).2.2.trace = example_rewritten.2.trace ++ evs ∧
      record_writes evs = at_slots 0 (recovery_log example_rewritten.1)) :=
  have w := recovery_log_contents example_env example_rewritten.1 example_rewritten.2
    (fun _ => rfl) (by decide!) (by decide!)
  ⟨by decide!, w.1, w.2.2.1⟩

/-! ## Theorems: nothing is dirty after a successful flush -/

theorem modify_cache_flags (pf : pf_context_t) (p : NodePtr) (f : file_node_t → file_node_t)
    (hf : ∀ n, (f n).physical_node_number = n.physical_node_number ∧
      (f n).need_writing = n.need_writing ∧ (f n).new_node = n.new_node) :
    (pf.modify p f).cache_flags = pf.cache_flags := by
  cases p
  · rfl
  · unfold pf_context_t.modify pf_context_t.cache_flags
    dsimp only
    rw [List.map_map]
    apply List.map_congr_left
    intro n _
    dsimp only [Function.comp]
    split_ifs
    · rw [(hf n).1, (hf n).2.1, (hf n).2.2]
    · rfl

theorem ipf_read_node_cache (env : Env) (pf : pf_context_t) (h : Host) (n : Nat) :
    (ipf_read_node env pf h n).2.1.cache = pf.cache := by
  unfold ipf_read_node
  repeat' (first | split | dsimp only)

theorem ipf_write_file_cache (env : Env) (pf : pf_context_t) (h : Host) (o : Nat) (b : Block)
    (n : Nat) : (ipf_write_file env pf h o b n).2.1.cache = pf.cache := by
  unfold ipf_write_file
  repeat' (first | split | dsimp only)

theorem ipf_write_node_cache (env : Env) (pf : pf_context_t) (h : Host) (n : Nat) (b : Block) :
    (ipf_write_node env pf h n b).2.1.cache = pf.cache := by
  unfold ipf_write_node
  exact ipf_write_file_cache ..

theorem ipf_write_recovery_record_cache (env : Env) (pf : pf_context_t) (h : Host) (o : Nat)
    (b : recovery_node_t) : (ipf_write_recovery_record env pf h o b).2.1.cache = pf.cache := by
  unfold ipf_write_recovery_record
  repeat' (first | split | dsimp only)

theorem ipf_generate_secure_blob_cache (env : Env) (pf : pf_context_t) (h : Host)
    (k : pf_key_t) (l : List Char) (n : Nat) :
    (ipf_generate_secure_blob env pf h k l n).2.1.cache = pf.cache := by
  unfold ipf_generate_secure_blob
  repeat' (first | split | dsimp only)

theorem ipf_generate_secure_blob_from_user_kdk_cache (env : Env) (pf : pf_context_t) (h : Host)
    (r : Bool) : (ipf_generate_secure_blob_from_user_kdk env pf h r).2.1.cache = pf.cache := by
  unfold ipf_generate_secure_blob_from_user_kdk
  repeat' (first | split | dsimp only)

theorem ipf_init_session_master_key_cache (env : Env) (pf : pf_context_t) (h : Host) :
    (ipf_init_session_master_key env pf h).2.1.cache = pf.cache := by
  unfold ipf_init_session_master_key
  have := ipf_generate_secure_blob_cache env pf h 0 MASTER_KEY_NAME 0
  split <;> simp_all

theorem ipf_derive_random_node_key_cache (env : Env) (pf : pf_context_t) (h : Host) (n : Nat) :
    (ipf_derive_random_node_key env pf h n).2.1.cache = pf.cache := by
  unfold ipf_derive_random_node_key
  dsimp only
  have key : ∀ b pf1 h1,
      (if pf.master_key_count ≥ MAX_MASTER_KEY_USAGES then
          ipf_init_session_master_key env { pf with master_key_count := pf.master_key_count + 1 } h
        else (true, { pf with master_key_count := pf.master_key_count + 1 }, h)) = (b, pf1, h1) →
      pf1.cache = pf.cache := by
    intro b pf1 h1 heq
    split at heq
    · have := ipf_init_session_master_key_cache env
        { pf with master_key_count := pf.master_key_count + 1 } h
      rw [heq] at this
      exact this
    · simp only [Prod.mk.injEq] at heq
      obtain ⟨-, rfl, -⟩ := heq
      rfl
  split
  · rename_i heq
    exact key _ _ _ heq
  · rename_i pf1 h1 heq
    have e1 := key _ _ _ heq
    have := ipf_generate_secure_blob_cache env pf1 h1 pf1.session_master_key RANDOM_KEY_NAME n
    split <;> simp_all

theorem write_recovery_nodes_cache (env : Env) (l : List NodePtr) (pf : pf_context_t) (h : Host)
    (n : Nat) : (write_recovery_nodes env l pf h n).2.1.cache = pf.cache := by
  induction l generalizing pf h n with
  | nil => rfl
  | cons p rest ih =>
    unfold write_recovery_nodes
    dsimp only
    split
    · exact ih ..
    · have := ipf_write_recovery_record_cache env pf h (n * RECOVERY_NODE_SIZE)
        (pf.deref p).recovery_node
      split
      · simp_all
      · rename_i pf1 h1 heq
        rw [ih]
        simp_all

theorem ipf_write_recovery_file_cache (env : Env) (pf : pf_context_t) (h : Host) :
    (ipf_write_recovery_file env pf h).2.1.cache = pf.cache := by
  unfold ipf_write_recovery_file
  split
  · rfl
  · split
    rename_i status fs h1 heq
    split
    · rfl
    · have e1 := write_recovery_nodes_cache env (cache_ptrs pf) pf h1 0
      split
      · simp_all
      · rename_i n pf2 h2 heq2
        rw [heq2] at e1
        dsimp only at e1 ⊢
        have key : ∀ o pf3 h3,
            (if (pf2.root_mht.need_writing && !pf2.root_mht.new_node) = true then
                match ipf_write_recovery_record env pf2 h2 (n * RECOVERY_NODE_SIZE)
                    pf2.root_mht.recovery_node with
                | (false, pf3, h3) =>
                  let h4 := (cb_close env h3 .recovery).2
                  let h5 := (cb_delete env h4).2
                  (none, pf3, h5)
                | (true, pf3, h3) => (some (n * RECOVERY_NODE_SIZE + RECOVERY_NODE_SIZE), pf3, h3)
              else (some (n * RECOVERY_NODE_SIZE), pf2, h2)) = (o, pf3, h3) →
            pf3.cache = pf2.cache := by
          intro o pf3 h3 heq3
          split at heq3
          · have := ipf_write_recovery_record_cache env pf2 h2 (n * RECOVERY_NODE_SIZE)
              pf2.root_mht.recovery_node
            split at heq3 <;> simp_all
          · simp_all
        split
        · rename_i heq3
          rw [key _ _ _ heq3, e1]
        · rename_i o pf3 h3 heq3
          have e3 := key _ _ _ heq3
          have := ipf_write_recovery_record_cache env pf3 h3 o pf3.meta_data_recovery_node
          split
          · simp_all
          · repeat' (first | split | dsimp only)
            all_goals simp_all

theorem with_update_flag_cache (pf : pf_context_t) (f : Nat) :
    (pf.with_update_flag f).cache = pf.cache := rfl

theorem ipf_set_update_flag_cache (env : Env) (pf : pf_context_t) (h : Host) :
    (ipf_set_update_flag env pf h).2.1.cache = pf.cache := by
  unfold ipf_set_update_flag
  dsimp only
  have := ipf_write_node_cache env (pf.with_update_flag 1) h 0
    (.meta (pf.with_update_flag 1).file_meta_data)
  split <;> simp_all [with_update_flag_cache]

theorem ipf_clear_update_flag_cache (env : Env) (pf : pf_context_t) (h : Host) :
    (ipf_clear_update_flag env pf h).1.cache = pf.cache := by
  unfold ipf_clear_update_flag
  exact ipf_write_node_cache ..

theorem ipf_update_meta_data_node_cache (env : Env) (pf : pf_context_t) (h : Host) :
    (ipf_update_meta_data_node env pf h).2.1.cache = pf.cache := by
  unfold ipf_update_meta_data_node
  have e1 := ipf_generate_secure_blob_from_user_kdk_cache env pf h false
  unfold ipf_generate_random_meta_data_key
  split
  · simp_all
  · repeat' (first | split | dsimp only)
    all_goals simp_all


theorem ipf_read_node_root_mht (env : Env) (pf : pf_context_t) (h : Host) (n : Nat) :
    (ipf_read_node env pf h n).2.1.root_mht = pf.root_mht := by
  unfold ipf_read_node
  repeat' (first | split | dsimp only)

theorem ipf_write_file_root_mht (env : Env) (pf : pf_context_t) (h : Host) (o : Nat) (b : Block)
    (n : Nat) : (ipf_write_file env pf h o b n).2.1.root_mht = pf.root_mht := by
  unfold ipf_write_file
  repeat' (first | split | dsimp only)

theorem ipf_write_node_root_mht (env : Env) (pf : pf_context_t) (h : Host) (n : Nat) (b : Block) :
    (ipf_write_node env pf h n b).2.1.root_mht = pf.root_mht := by
  unfold ipf_write_node
  exact ipf_write_file_root_mht ..

theorem ipf_write_recovery_record_root_mht (env : Env) (pf : pf_context_t) (h : Host) (o : Nat)
    (b : recovery_node_t) : (ipf_write_recovery_record env pf h o b).2.1.root_mht = pf.root_mht := by
  unfold ipf_write_recovery_record
  repeat' (first | split | dsimp only)

theorem ipf_generate_secure_blob_root_mht (env : Env) (pf : pf_context_t) (h : Host)
    (k : pf_key_t) (l : List Char) (n : Nat) :
    (ipf_generate_secure_blob env pf h k l n).2.1.root_mht = pf.root_mht := by
  unfold ipf_generate_secure_blob
  repeat' (first | split | dsimp only)

theorem ipf_generate_secure_blob_from_user_kdk_root_mht (env : Env) (pf : pf_context_t) (h : Host)
    (r : Bool) : (ipf_generate_secure_blob_from_user_kdk env pf h r).2.1.root_mht = pf.root_mht := by
  unfold ipf_generate_secure_blob_from_user_kdk
  repeat' (first | split | dsimp only)

theorem ipf_init_session_master_key_root_mht (env : Env) (pf : pf_context_t) (h : Host) :
    (ipf_init_session_master_key env pf h).2.1.root_mht = pf.root_mht := by
  unfold ipf_init_session_master_key
  have := ipf_generate_secure_blob_root_mht env pf h 0 MASTER_KEY_NAME 0
  split <;> simp_all

theorem ipf_derive_random_node_key_root_mht (env : Env) (pf : pf_context_t) (h : Host) (n : Nat) :
    (ipf_derive_random_node_key env pf h n).2.1.root_mht = pf.root_mht := by
  unfold ipf_derive_random_node_key
  dsimp only
  have key : ∀ b pf1 h1,
      (if pf.master_key_count ≥ MAX_MASTER_KEY_USAGES then
          ipf_init_session_master_key env { pf with master_key_count := pf.master_key_count + 1 } h
        else (true, { pf with master_key_count := pf.master_key_count + 1 }, h)) = (b, pf1, h1) →
      pf1.root_mht = pf.root_mht := by
    intro b pf1 h1 heq
    split at heq
    · have := ipf_init_session_master_key_root_mht env
        { pf with master_key_count := pf.master_key_count + 1 } h
      rw [heq] at this
      exact this
    · simp only [Prod.mk.injEq] at heq
      obtain ⟨-, rfl, -⟩ := heq
      rfl
  split
  · rename_i heq
    exact key _ _ _ heq
  · rename_i pf1 h1 heq
    have e1 := key _ _ _ heq
    have := ipf_generate_secure_blob_root_mht env pf1 h1 pf1.session_master_key RANDOM_KEY_NAME n
    split <;> simp_all

theorem write_recovery_nodes_root_mht (env : Env) (l : List NodePtr) (pf : pf_context_t) (h : Host)
    (n : Nat) : (write_recovery_nodes env l pf h n).2.1.root_mht = pf.root_mht := by
  induction l generalizing pf h n with
  | nil => rfl
  | cons p rest ih =>
    unfold write_recovery_nodes
    dsimp only
    split
    · exact ih ..
    · have := ipf_write_recovery_record_root_mht env pf h (n * RECOVERY_NODE_SIZE)
        (pf.deref p).recovery_node
      split
      · simp_all
      · rename_i pf1 h1 heq
        rw [ih]
        simp_all

theorem ipf_write_recovery_file_root_mht (env : Env) (pf : pf_context_t) (h : Host) :
    (ipf_write_recovery_file env pf h).2.1.root_mht = pf.root_mht := by
  unfold ipf_write_recovery_file
  split
  · rfl
  · split
    rename_i status fs h1 heq
    split
    · rfl
    · have e1 := write_recovery_nodes_root_mht env (cache_ptrs pf) pf h1 0
      split
      · simp_all
      · rename_i n pf2 h2 heq2
        rw [heq2] at e1
        dsimp only at e1 ⊢
        have key : ∀ o pf3 h3,
            (if (pf2.root_mht.need_writing && !pf2.root_mht.new_node) = true then
                match ipf_write_recovery_record env pf2 h2 (n * RECOVERY_NODE_SIZE)
                    pf2.root_mht.recovery_node with
                | (false, pf3, h3) =>
                  let h4 := (cb_close env h3 .recovery).2
                  let h5 := (cb_delete env h4).2
                  (none, pf3, h5)
                | (true, pf3, h3) => (some (n * RECOVERY_NODE_SIZE + RECOVERY_NODE_SIZE), pf3, h3)
              else (some (n * RECOVERY_NODE_SIZE), pf2, h2)) = (o, pf3, h3) →
            pf3.root_mht = pf2.root_mht := by
          intro o pf3 h3 heq3
          split at heq3
          · have := ipf_write_recovery_record_root_mht env pf2 h2 (n * RECOVERY_NODE_SIZE)
              pf2.root_mht.recovery_node
            split at heq3 <;> simp_all
          · simp_all
        split
        · rename_i heq3
          rw [key _ _ _ heq3, e1]
        · rename_i o pf3 h3 heq3
          have e3 := key _ _ _ heq3
          have := ipf_write_recovery_record_root_mht env pf3 h3 o pf3.meta_data_recovery_node
          split
          · simp_all
          · repeat' (first | split | dsimp only)
            all_goals simp_all

theorem with_update_flag_root_mht (pf : pf_context_t) (f : Nat) :
    (pf.with_update_flag f).root_mht = pf.root_mht := rfl

theorem ipf_set_update_flag_root_mht (env : Env) (pf : pf_context_t) (h : Host) :
    (ipf_set_update_flag env pf h).2.1.root_mht = pf.root_mht := by
  unfold ipf_set_update_flag
  dsimp only
  have := ipf_write_node_root_mht env (pf.with_update_flag 1) h 0
    (.meta (pf.with_update_flag 1).file_meta_data)
  split <;> simp_all [with_update_flag_root_mht]

theorem ipf_clear_update_flag_root_mht (env : Env) (pf : pf_context_t) (h : Host) :
    (ipf_clear_update_flag env pf h).1.root_mht = pf.root_mht := by
  unfold ipf_clear_update_flag
  exact ipf_write_node_root_mht ..

theorem ipf_update_meta_data_node_root_mht (env : Env) (pf : pf_context_t) (h : Host) :
    (ipf_update_meta_data_node env pf h).2.1.root_mht = pf.root_mht := by
  unfold ipf_update_meta_data_node
  have e1 := ipf_generate_secure_blob_from_user_kdk_root_mht env pf h false
  unfold ipf_generate_random_meta_data_key
  split
  · simp_all
  · repeat' (first | split | dsimp only)
    all_goals simp_all


theorem ipf_derive_random_node_key_cache_flags (env : Env) (pf : pf_context_t) (h : Host)
    (n : Nat) : (ipf_derive_random_node_key env pf h n).2.1.cache_flags = pf.cache_flags := by
  unfold pf_context_t.cache_flags
  rw [ipf_derive_random_node_key_cache]

theorem update_data_nodes_cache_flags (env : Env) (l : List NodePtr) (pf : pf_context_t) (h : Host) :
    (update_data_nodes env l pf h).2.1.cache_flags = pf.cache_flags := by
  induction l generalizing pf h with
  | nil => rfl
  | cons p rest ih =>
    unfold update_data_nodes
    dsimp only
    split
    · have := ipf_derive_random_node_key_cache_flags env pf h (pf.deref p).physical_node_number
      split
      · simp_all [pf_context_t.cache_flags]
      · rename_i pf1 h1 heq
        split
        · simp_all [pf_context_t.cache_flags]
        · rw [ih, modify_cache_flags, modify_cache_flags]
          · simp_all [pf_context_t.cache_flags]
          · intro n; exact ⟨rfl, rfl, rfl⟩
          · intro n; exact ⟨rfl, rfl, rfl⟩
    · exact ih ..

theorem update_mht_nodes_cache_flags (env : Env) (l : List NodePtr) (pf : pf_context_t) (h : Host) :
    (update_mht_nodes env l pf h).2.1.cache_flags = pf.cache_flags := by
  induction l generalizing pf h with
  | nil => rfl
  | cons p rest ih =>
    unfold update_mht_nodes
    dsimp only
    have := ipf_derive_random_node_key_cache_flags env pf h (pf.deref p).physical_node_number
    split
    · simp_all [pf_context_t.cache_flags]
    · rename_i pf1 h1 heq
      split
      · simp_all [pf_context_t.cache_flags]
      · rw [ih, modify_cache_flags, modify_cache_flags]
        · simp_all [pf_context_t.cache_flags]
        · intro n; exact ⟨rfl, rfl, rfl⟩
        · intro n; exact ⟨rfl, rfl, rfl⟩

theorem ipf_update_all_data_and_mht_nodes_cache_flags (env : Env) (pf : pf_context_t) (h : Host) :
    (ipf_update_all_data_and_mht_nodes env pf h).2.1.cache_flags = pf.cache_flags := by
  unfold ipf_update_all_data_and_mht_nodes
  have e1 := update_data_nodes_cache_flags env (cache_ptrs pf) pf h
  split
  · simp_all [pf_context_t.cache_flags]
  · rename_i pf1 h1 heq1
    dsimp only
    have e2 := update_mht_nodes_cache_flags env
      (LISTP_SORT (fun a b => mht_sort (pf1.deref a) (pf1.deref b))
        (collect_mht_list pf1 (cache_ptrs pf1) [])) pf1 h1
    split
    · simp_all [pf_context_t.cache_flags]
    · rename_i pf2 h2 heq2
      have e3 := ipf_derive_random_node_key_cache_flags env pf2 h2 pf2.root_mht.physical_node_number
      split
      · simp_all [pf_context_t.cache_flags]
      · rename_i pf3 h3 heq3
        repeat' (first | split | dsimp only)
        all_goals simp_all [pf_context_t.cache_flags]


/-- Two nodes of a cache with distinct keys that have the same key are the
same node. -/
theorem node_eq_of_key_eq (cache : List file_node_t) (n m : file_node_t) (hn : n ∈ cache)
    (hm : m ∈ cache) (hk : (cache.map (fun x => x.physical_node_number)).Nodup)
    (e : n.physical_node_number = m.physical_node_number) : n = m := by
  have h1 := lruc_find_of_mem cache n hn hk
  have h2 := lruc_find_of_mem cache m hm hk
  rw [e, h2] at h1
  exact (Option.some.inj h1).symm

theorem ipf_write_node_true (env : Env) (pf : pf_context_t) (h : Host) (n : Nat) (b : Block)
    (hok : (ipf_write_node env pf h n b).1 = true) : (ipf_write_node env pf h n b).2.1 = pf := by
  unfold ipf_write_node ipf_write_file at hok ⊢
  rcases hc : cb_write env h b (n * PF_NODE_SIZE % U64) PF_NODE_SIZE with ⟨s, h1⟩
  rw [hc] at hok
  dsimp only at hok ⊢
  split_ifs at hok ⊢ with c
  rfl

theorem written_not_dirty (n : file_node_t) (hn : n.need_writing = false) : written n = n := by
  unfold written
  rw [hn]
  rfl

/-- A successful loop of `ipf_write_all_changes_to_disk` over pointers to
cached nodes (distinct keys) leaves every node it visited written, and the
other nodes and the root MHT as they were. -/
theorem write_dirty_nodes_spec (env : Env) (l : List NodePtr) (pf : pf_context_t) (h : Host)
    (hk : (pf.cache.map (fun x => x.physical_node_number)).Nodup)
    (hl : ∀ p ∈ l, ∃ n ∈ pf.cache, p = NodePtr.cached n.physical_node_number)
    (hok : (write_dirty_nodes env l pf h).1 = true) :
    (write_dirty_nodes env l pf h).2.1.cache =
      pf.cache.map (fun n =>
        if NodePtr.cached n.physical_node_number ∈ l then written n else n) ∧
    (write_dirty_nodes env l pf h).2.1.root_mht = pf.root_mht := by
  induction l generalizing pf h with
  | nil =>
    unfold write_dirty_nodes
    simp
  | cons p rest ih =>
    obtain ⟨n0, hn0, hp⟩ := hl p (List.mem_cons_self _ _)
    have hd : pf.deref p = n0 := by
      rw [hp]
      show (lruc_find pf.cache n0.physical_node_number).getD calloc_node = n0
      rw [lruc_find_of_mem pf.cache n0 hn0 hk]
      rfl
    have hrest : ∀ q ∈ rest, ∃ n ∈ pf.cache, q = NodePtr.cached n.physical_node_number :=
      fun q hq => hl q (List.mem_cons_of_mem _ hq)
    unfold write_dirty_nodes at hok ⊢
    dsimp only at hok ⊢
    rw [hd] at hok ⊢
    by_cases c : (!n0.need_writing) = true
    · rw [if_pos c] at hok ⊢
      obtain ⟨i1, i2⟩ := ih pf h hk hrest hok
      refine ⟨?_, i2⟩
      rw [i1]
      apply List.map_congr_left
      intro n hn
      by_cases e : NodePtr.cached n.physical_node_number ∈ rest
      · rw [if_pos e, if_pos (List.mem_cons_of_mem _ e)]
      · rw [if_neg e]
        by_cases e2 : NodePtr.cached n.physical_node_number = p
        · rw [if_pos (by rw [e2]; exact List.mem_cons_self _ _)]
          have : n = n0 := node_eq_of_key_eq pf.cache n n0 hn hn0 hk (by
            rw [hp] at e2
            exact NodePtr.cached.inj e2)
          rw [this, written_not_dirty n0 (by simpa using c)]
        · rw [if_neg (by
            intro hmem
            rcases List.mem_cons.mp hmem with x | x
            · exact e2 x
            · exact e x)]
    · rw [if_neg c] at hok ⊢
      have hw := ipf_write_node_true env pf h n0.physical_node_number (.node n0.encrypted)
      rcases hc : ipf_write_node env pf h n0.physical_node_number (.node n0.encrypted)
        with ⟨b, pf1, h1⟩
      rw [hc] at hok hw
      cases b
      · simp at hok
      · dsimp only at hok hw ⊢
        have hpf : pf1 = pf := hw rfl
        subst hpf
        have hk2 : ((pf1.modify p (fun n =>
            { n with need_writing := false, new_node := false })).cache.map
              (fun x => x.physical_node_number)).Nodup := by
          rw [hp]
          unfold pf_context_t.modify
          dsimp only
          rw [List.map_map]
          have : ((fun x => x.physical_node_number) ∘ fun n =>
              if n.physical_node_number = n0.physical_node_number then
                { n with need_writing := false, new_node := false } else n)
              = (fun x : file_node_t => x.physical_node_number) := by
            funext x
            dsimp only [Function.comp]
            split_ifs <;> rfl
          rw [this]
          exact hk
        have hrest2 : ∀ q ∈ rest, ∃ n ∈ (pf1.modify p (fun n =>
            { n with need_writing := false, new_node := false })).cache,
            q = NodePtr.cached n.physical_node_number := by
          intro q hq
          obtain ⟨n, hn, e⟩ := hrest q hq
          rw [hp]
          unfold pf_context_t.modify
          dsimp only
          refine ⟨_, List.mem_map_of_mem _ hn, ?_⟩
          rw [e]
          split_ifs <;> rfl
        obtain ⟨i1, i2⟩ := ih _ h1 hk2 hrest2 hok
        constructor
        · rw [i1, hp]
          unfold pf_context_t.modify
          dsimp only
          rw [List.map_map]
          apply List.map_congr_left
          intro n hn
          dsimp only [Function.comp]
          by_cases e2 : n.physical_node_number = n0.physical_node_number
          · have : n = n0 := node_eq_of_key_eq pf1.cache n n0 hn hn0 hk e2
            subst this
            rw [if_pos rfl, if_pos (List.mem_cons_self _ _)]
            have hdirty : n.need_writing = true := by simpa using c
            have : written n = { n with need_writing := false, new_node := false } := by
              unfold written
              rw [hdirty]
              rfl
            rw [this]
            split_ifs
            · exact written_not_dirty _ rfl
            · rfl
          · rw [if_neg e2]
            by_cases e : NodePtr.cached n.physical_node_number ∈ rest
            · rw [if_pos e, if_pos (List.mem_cons_of_mem _ e)]
            · rw [if_neg e, if_neg (by
                intro hmem
                rcases List.mem_cons.mp hmem with x | x
                · exact e2 (NodePtr.cached.inj x)
                · exact e x)]
        · rw [i2, hp]
          rfl

/-- A successful `ipf_write_all_changes_to_disk` that writes the tree leaves
every cached node and the root MHT written. -/
theorem ipf_write_all_changes_to_disk_spec (env : Env) (pf : pf_context_t) (h : Host)
    (hk : (pf.cache.map (fun x => x.physical_node_number)).Nodup)
    (hg : flush_writes_tree pf = true)
    (hok : (ipf_write_all_changes_to_disk env pf h).1 = true) :
    (ipf_write_all_changes_to_disk env pf h).2.1.cache = pf.cache.map written ∧
    (ipf_write_all_changes_to_disk env pf h).2.1.root_mht.need_writing = false ∧
    (ipf_write_all_changes_to_disk env pf h).2.1.root_mht.new_node = false := by
  unfold ipf_write_all_changes_to_disk at hok ⊢
  dsimp only at hok ⊢
  unfold flush_writes_tree at hg
  rw [if_pos hg] at hok ⊢
  have hl : ∀ p ∈ cache_ptrs pf, ∃ n ∈ pf.cache, p = NodePtr.cached n.physical_node_number := by
    intro p hp
    unfold cache_ptrs at hp
    obtain ⟨n, hn, e⟩ := List.mem_map.mp hp
    exact ⟨n, hn, e.symm⟩
  have sp := write_dirty_nodes_spec env (cache_ptrs pf) pf h hk hl
  rcases hw : write_dirty_nodes env (cache_ptrs pf) pf h with ⟨b, pf1, h1⟩
  rw [hw] at sp hok
  cases b
  · simp at hok
  · dsimp only at sp hok ⊢
    obtain ⟨c1, -⟩ := sp rfl
    have f2 := ipf_write_node_frame env pf1 h1 1 (.node pf1.root_mht.encrypted)
    rcases hr : ipf_write_node env pf1 h1 1 (.node pf1.root_mht.encrypted) with ⟨b, pf2, h2⟩
    rw [hr] at f2 hok
    cases b
    · simp at hok
    · dsimp only at f2 hok ⊢
      have f3 := ipf_write_node_frame env
        { pf2 with root_mht := { pf2.root_mht with need_writing := false, new_node := false } }
        h2 0 (.meta pf2.file_meta_data)
      refine ⟨?_, ?_, ?_⟩
      · rw [f3.2.1]
        show pf2.cache = _
        rw [f2.2.1, c1]
        apply List.map_congr_left
        intro n hn
        rw [if_pos]
        unfold cache_ptrs
        exact List.mem_map_of_mem _ hn
      · rw [f3.2.2]
      · rw [f3.2.2]

theorem flush_log_step_cache (env : Env) (pf : pf_context_t) (h : Host) :
    (flush_log_step env pf h).2.1.cache = pf.cache := by
  unfold flush_log_step
  split_ifs
  · exact ipf_write_recovery_file_cache env pf h
  · rfl

theorem flush_log_step_root_mht (env : Env) (pf : pf_context_t) (h : Host) :
    (flush_log_step env pf h).2.1.root_mht = pf.root_mht := by
  unfold flush_log_step
  split_ifs
  · exact ipf_write_recovery_file_root_mht env pf h
  · rfl

/-- What a successful flush leaves of the dirty flags. -/
theorem ipf_internal_flush_cleans (env : Env) (pf : pf_context_t) (h : Host)
    (hA : ∀ n ∈ pf.cache, n.need_writing = true →
      pf.root_mht.need_writing = true ∧ pf.need_writing = true)
    (hJ : pf.root_mht.need_writing = true →
      pf.need_writing = true ∧ pf.encrypted_part_plain.size > MD_USER_DATA_SIZE)
    (hK : (pf.cache.map (fun x => x.physical_node_number)).Nodup)
    (hok : (ipf_internal_flush env pf h).1 = true) :
    (ipf_internal_flush env pf h).2.1.need_writing = false ∧
    (ipf_internal_flush env pf h).2.1.root_mht.need_writing = false ∧
    (∀ n ∈ (ipf_internal_flush env pf h).2.1.cache, n.need_writing = false) ∧
    (ipf_internal_flush env pf h).2.1.cache_flags =
      pf.cache_flags.map (fun f => (f.1, false, if f.2.1 then false else f.2.2)) ∧
    (pf.root_mht.need_writing = true →
      (ipf_internal_flush env pf h).2.1.root_mht.new_node = false) := by
  have hflags : ∀ c : List file_node_t,
      (c.map written).map (fun n => (n.physical_node_number, n.need_writing, n.new_node))
        = (c.map (fun n => (n.physical_node_number, n.need_writing, n.new_node))).map
            (fun f => (f.1, false, if f.2.1 then false else f.2.2)) := by
    intro c
    rw [List.map_map, List.map_map]
    apply List.map_congr_left
    intro n _
    dsimp only [Function.comp]
    unfold written
    cases hn : n.need_writing <;> simp [hn]
  have hclean : ∀ c : List file_node_t, (∀ n ∈ c, n.need_writing = false) →
      c.map (fun n => (n.physical_node_number, n.need_writing, n.new_node))
        = (c.map (fun n => (n.physical_node_number, n.need_writing, n.new_node))).map
            (fun f => (f.1, false, if f.2.1 then false else f.2.2)) := by
    intro c hc
    rw [List.map_map]
    apply List.map_congr_left
    intro n hn
    dsimp only [Function.comp]
    rw [hc n hn]
    rfl
  by_cases hnw : pf.need_writing = true
  · obtain ⟨s1, s2, s3, s4⟩ := flush_success_steps env pf h hnw hok
    rw [s4]
    dsimp only
    by_cases hg : flush_writes_tree pf = true
    · -- the tree is written
      obtain ⟨l1, l2, l3⟩ := s1 hg
      have hd : flush_tree_done env pf h = (flush_tree_step env pf h).2 := by
        unfold flush_tree_done
        rw [if_pos hg]
      have cf : (flush_meta_step env pf h).2.1.cache_flags = pf.cache_flags := by
        unfold flush_meta_step
        unfold pf_context_t.cache_flags
        rw [ipf_update_meta_data_node_cache, hd]
        have := ipf_update_all_data_and_mht_nodes_cache_flags env
          (flush_flag_step env pf h).2.1 (flush_flag_step env pf h).2.2
        unfold pf_context_t.cache_flags at this
        unfold flush_tree_step
        rw [this]
        unfold flush_flag_step
        rw [ipf_set_update_flag_cache, flush_log_step_cache]
      have st : (flush_meta_step env pf h).2.1.stable = pf.stable := by
        unfold flush_meta_step
        rw [ipf_update_meta_data_node_stable, hd]
        unfold flush_tree_step
        rw [ipf_update_all_data_and_mht_nodes_stable]
        unfold flush_flag_step
        rw [ipf_set_update_flag_stable]
        exact flush_log_step_stable env pf h
      have rd : (flush_meta_step env pf h).2.1.root_mht.need_writing
          = pf.root_mht.need_writing := by
        unfold flush_meta_step
        rw [ipf_update_meta_data_node_root_dirty, hd]
        unfold flush_tree_step
        rw [ipf_update_all_data_and_mht_nodes_root_dirty]
        unfold flush_flag_step
        rw [ipf_set_update_flag_root_dirty]
        exact flush_log_step_root_dirty env pf h
      have hg2 : flush_writes_tree (flush_meta_step env pf h).2.1 = true := by
        unfold flush_writes_tree at hg ⊢
        rw [rd]
        have := congrArg Stable.size st
        unfold pf_context_t.stable at this
        dsimp only at this
        rw [this]
        exact hg
      have hk2 : ((flush_meta_step env pf h).2.1.cache.map
          (fun x => x.physical_node_number)).Nodup := by
        have e : (flush_meta_step env pf h).2.1.cache.map (fun x => x.physical_node_number)
            = (flush_meta_step env pf h).2.1.cache_flags.map (fun f => f.1) := by
          unfold pf_context_t.cache_flags
          rw [List.map_map]
          rfl
        rw [e, cf]
        unfold pf_context_t.cache_flags
        rw [List.map_map]
        exact hK
      obtain ⟨w1, w2, w3⟩ := ipf_write_all_changes_to_disk_spec env
        (flush_meta_step env pf h).2.1 (flush_meta_step env pf h).2.2 hk2 hg2 s3
      unfold flush_disk_step
      refine ⟨rfl, w2, ?_, ?_, fun _ => w3⟩
      · intro n hn
        rw [w1] at hn
        obtain ⟨m, -, e⟩ := List.mem_map.mp hn
        rw [← e]
        unfold written
        split_ifs with c
        · rfl
        · simpa using c
      · show List.map _ (ipf_write_all_changes_to_disk env _ _).2.1.cache = _
        rw [w1, hflags]
        have := cf
        unfold pf_context_t.cache_flags at this ⊢
        rw [this]
    · -- only the metadata is written
      have hroot : pf.root_mht.need_writing = false := by
        by_contra c
        have hr : pf.root_mht.need_writing = true := by simpa using c
        apply hg
        unfold flush_writes_tree
        rw [hr]
        simpa using (hJ hr).2
      have hcl : ∀ n ∈ pf.cache, n.need_writing = false := by
        intro n hn
        by_contra c
        have := (hA n hn (by simpa using c)).1
        rw [hroot] at this
        exact absurd this (by decide)
      have hd : flush_tree_done env pf h = (pf, h) := by
        unfold flush_tree_done
        rw [if_neg hg]
      have hgm : ¬ (decide ((flush_meta_step env pf h).2.1.encrypted_part_plain.size
          > MD_USER_DATA_SIZE) && (flush_meta_step env pf h).2.1.root_mht.need_writing) = true := by
        unfold flush_meta_step
        rw [hd, ipf_update_meta_data_node_root_dirty]
        dsimp only
        rw [hroot]
        simp
      have dc : (flush_disk_step env pf h).2.1.cache = pf.cache := by
        unfold flush_disk_step ipf_write_all_changes_to_disk
        dsimp only
        rw [if_neg hgm]
        dsimp only
        rw [(ipf_write_node_frame env _ _ 0 _).2.1]
        unfold flush_meta_step
        rw [ipf_update_meta_data_node_cache, hd]
      have dr : (flush_disk_step env pf h).2.1.root_mht = pf.root_mht := by
        unfold flush_disk_step ipf_write_all_changes_to_disk
        dsimp only
        rw [if_neg hgm]
        dsimp only
        rw [(ipf_write_node_frame env _ _ 0 _).2.2]
        unfold flush_meta_step
        rw [ipf_update_meta_data_node_root_mht, hd]
      refine ⟨rfl, ?_, ?_, ?_, ?_⟩
      · show (flush_disk_step env pf h).2.1.root_mht.need_writing = false
        rw [dr]
        exact hroot
      · show ∀ n ∈ (flush_disk_step env pf h).2.1.cache, n.need_writing = false
        rw [dc]
        exact hcl
      · show List.map _ (flush_disk_step env pf h).2.1.cache = _
        rw [dc]
        exact hclean pf.cache hcl
      · intro hr
        rw [hroot] at hr
        exact absurd hr (by decide)
  · -- nothing to flush
    have hnw0 : (!pf.need_writing) = true := by simpa using hnw
    have e : ipf_internal_flush env pf h = (true, pf, h) := by
      unfold ipf_internal_flush
      rw [if_pos hnw0]
    rw [e]
    dsimp only
    have hroot : pf.root_mht.need_writing = false := by
      by_contra c
      exact hnw (hJ (by simpa using c)).1
    have hcl : ∀ n ∈ pf.cache, n.need_writing = false := by
      intro n hn
      by_contra c
      exact hnw (hA n hn (by simpa using c)).2
    refine ⟨by simpa using hnw, hroot, hcl, hclean pf.cache hcl, ?_⟩
    intro hr
    rw [hroot] at hr
    exact absurd hr (by decide)

/-- C26: if `ipf_internal_flush` returns true from a state that satisfies
Invariant A (a dirty cached node comes with a dirty root MHT and a context
that needs writing), in which a dirty root MHT comes with a context that needs
writing and a plaintext size above `MD_USER_DATA_SIZE`, and in which the cached
nodes have distinct physical numbers (Invariant C), then afterwards the
context does not need writing, the root MHT is not dirty, no cached node is
dirty, and every node that was written is no longer new (the root MHT, if it
was written, included); the cache holds the same nodes in the same order, and
a node that was not written is as new as before. -/
theorem flush_leaves_nothing_dirty (env : Env) (pf : pf_context_t) (h : Host)
    (hA : ∀ n ∈ pf.cache, n.need_writing = true →
      pf.root_mht.need_writing = true ∧ pf.need_writing = true)
    (hJ : pf.root_mht.need_writing = true →
      pf.need_writing = true ∧ pf.encrypted_part_plain.size > MD_USER_DATA_SIZE)
    (hK : (pf.cache.map (fun x => x.physical_node_number)).Nodup)
    (hok : (ipf_internal_flush env pf h).1 = true) :
    (ipf_internal_flush env pf h).2.1.need_writing = false ∧
    (ipf_internal_flush env pf h).2.1.root_mht.need_writing = false ∧
    (∀ n ∈ (ipf_internal_flush env pf h).2.1.cache, n.need_writing = false) ∧
    (ipf_internal_flush env pf h).2.1.cache_flags =
      pf.cache_flags.map (fun f => (f.1, false, if f.2.1 then false else f.2.2)) ∧
    (pf.root_mht.need_writing = true →
      (ipf_internal_flush env pf h).2.1.root_mht.new_node = false) :=
  ipf_internal_flush_cleans env pf h hA hJ hK hok

/-- The flushed one-node file after data node 0 is rewritten: the data node
and the root MHT are dirty, and the next flush leaves nothing dirty. -/
theorem flush_leaves_nothing_dirty_witness :
    example_rewritten.1.cache_flags = [(2, true, false)] ∧
    example_rewritten.1.root_mht.need_writing = true ∧
    (ipf_internal_flush example_env example_rewritten.1 example_rewritten.2).1 = true ∧
    (ipf_internal_flush example_env example_rewritten.1 example_rewritten.2).2.1.need_writing
      = false ∧
    (ipf_internal_flush example_env example_rewritten.1
      example_rewritten.2).2.1.root_mht.need_writing = false ∧
    (ipf_internal_flush example_env example_rewritten.1 example_rewritten.2).2.1.cache_flags
      = [(2, false, false)] :=
  have w := flush_leaves_nothing_dirty example_env example_rewritten.1 example_rewritten.2
    (by decide!) (by decide!) (by decide!) (by decide!)
  ⟨by decide!, by decide!, by decide!, w.1, w.2.1, by decide!⟩

/-! ## Theorems: seek -/

/-- The data-node loop of `ipf_write` advances the offset by what it has
written and leaves the size at the larger of the old size and the new
offset. -/
theorem write_data_nodes_account (env : Env) (ptr : Option (Nat → Byte)) (fuel : Nat)
    (pf : pf_context_t) (h : Host) (w left : Nat)
    (ho : pf.offset ≤ pf.encrypted_part_plain.size) :
    (write_data_nodes env ptr fuel pf h w left).1 ≤ left ∧
    (write_data_nodes env ptr fuel pf h w left).2.1.offset
        + (write_data_nodes env ptr fuel pf h w left).1 = pf.offset + left ∧
    (write_data_nodes env ptr fuel pf h w left).2.1.encrypted_part_plain.size
      = max pf.encrypted_part_plain.size
          (write_data_nodes env ptr fuel pf h w left).2.1.offset := by
  induction fuel generalizing pf h w left with
  | zero =>
    unfold write_data_nodes
    split_ifs
    · exact ⟨Nat.le_refl _, rfl, (max_eq_left ho).symm⟩
    · exact ⟨Nat.zero_le _, by dsimp only; omega, (max_eq_left ho).symm⟩
  | succ fuel ih =>
    unfold write_data_nodes
    split_ifs with c
    · dsimp only
      have st := ipf_get_data_node_stable env pf h
      rcases hg : ipf_get_data_node env pf h with ⟨o, pf1, h1⟩
      rw [hg] at st
      dsimp only at st
      have eo := offset_of_stable st
      have es := size_of_stable st
      cases o with
      | none =>
        dsimp only
        rw [eo, es]
        exact ⟨Nat.le_refl _, rfl, (max_eq_left ho).symm⟩
      | some p =>
        dsimp only
        obtain ⟨z1, z2, z3⟩ := write_to_data_node_size ptr pf1 p w left
        have hle : (write_to_data_node ptr pf1 p w left).2 ≤ left := by
          rw [z1]
          exact Nat.min_le_left _ _
        have ho5 : (write_to_data_node ptr pf1 p w left).1.offset
            ≤ (write_to_data_node ptr pf1 p w left).1.encrypted_part_plain.size := by
          rw [z2, z3]
          exact le_max_right _ _
        obtain ⟨i1, i2, i3⟩ := ih (write_to_data_node ptr pf1 p w left).1 h1
          (w + (write_to_data_node ptr pf1 p w left).2)
          (left - (write_to_data_node ptr pf1 p w left).2) ho5
        rw [z2, eo] at i2
        rw [z3, eo, es] at i3
        refine ⟨by omega, by omega, ?_⟩
        rw [i3]
        have hmono : pf.offset + (write_to_data_node ptr pf1 p w left).2 ≤
            (write_data_nodes env ptr fuel (write_to_data_node ptr pf1 p w left).1 h1
              (w + (write_to_data_node ptr pf1 p w left).2)
              (left - (write_to_data_node ptr pf1 p w left).2)).2.1.offset := by omega
        omega
    · exact ⟨Nat.zero_le _, by dsimp only; omega, (max_eq_left ho).symm⟩

/-- A write that passes the checks of `ipf_write` advances the offset by the
count it returns and leaves the size at the larger of the old size and the new
offset. -/
theorem ipf_write_account (env : Env) (pf : pf_context_t) (h : Host)
    (ptr : Option (Nat → Byte)) (size : Nat) (hn : size ≠ 0)
    (hst : pf.file_status = SUCCESS) (hmode : mode_has pf.mode PF_FILE_MODE_WRITE = true)
    (ho : pf.offset ≤ pf.encrypted_part_plain.size) :
    (ipf_write env pf h ptr size).1 ≤ size ∧
    (ipf_write env pf h ptr size).2.1.offset = pf.offset + (ipf_write env pf h ptr size).1 ∧
    (ipf_write env pf h ptr size).2.1.encrypted_part_plain.size
      = max pf.encrypted_part_plain.size (ipf_write env pf h ptr size).2.1.offset := by
  unfold ipf_write
  have f0 : PF_FAILURE pf.file_status = false := by rw [hst]; rfl
  have m0 : (!mode_has pf.mode PF_FILE_MODE_WRITE) = false := by rw [hmode]; rfl
  rw [if_neg hn, f0, m0]
  simp only [Bool.false_eq_true, if_false]
  by_cases cm : pf.offset < MD_USER_DATA_SIZE
  · rw [if_pos cm]
    try dsimp only
    obtain ⟨z1, z2, z3, -⟩ := write_to_md_spec ptr pf size
    have hle : min size (MD_USER_DATA_SIZE - pf.offset) ≤ size := Nat.min_le_left _ _
    generalize min size (MD_USER_DATA_SIZE - pf.offset) = m at z1 z2 z3 hle
    rcases hm : write_to_md ptr pf size with ⟨l0, pfm⟩
    rw [hm] at z1 z2 z3
    dsimp only at z1 z2 z3 ⊢
    have ho1 : pfm.offset ≤ pfm.encrypted_part_plain.size := by
      rw [z2, z3]
      exact le_max_right _ _
    obtain ⟨i1, i2, i3⟩ := write_data_nodes_account env ptr l0 pfm h (size - l0) l0 ho1
    generalize write_data_nodes env ptr l0 pfm h (size - l0) l0 = R at i1 i2 i3 ⊢
    rw [z3] at i3
    have e2 : size - m + m = size := Nat.sub_add_cancel hle
    have e0 : R.1 ≤ size := Nat.le_trans i1 (by rw [z1]; exact Nat.sub_le _ _)
    have e1 : size - R.1 + R.1 = size := Nat.sub_add_cancel e0
    have e3 : R.2.1.offset = pf.offset + (size - R.1) := by
      rw [z1, z2] at i2
      have : R.2.1.offset + R.1 = pf.offset + (size - R.1) + R.1 := by
        rw [i2, Nat.add_assoc, Nat.add_comm m, e2, Nat.add_assoc, e1]
      exact Nat.add_right_cancel this
    refine ⟨Nat.sub_le _ _, e3, ?_⟩
    rw [i3]
    have e4 : pf.offset + m ≤ R.2.1.offset := by
      rw [e3]
      have : m ≤ size - R.1 := by
        have : R.1 + m ≤ size := by
          rw [z1] at i1
          calc R.1 + m ≤ (size - m) + m := Nat.add_le_add_right i1 m
            _ = size := e2
        exact Nat.le_sub_of_add_le (by rw [Nat.add_comm]; exact this)
      exact Nat.add_le_add_left this _
    rcases Nat.le_total pf.encrypted_part_plain.size (pf.offset + m) with c | c
    · rw [max_eq_right c, max_eq_right e4, max_eq_right (Nat.le_trans c e4)]
    · rw [max_eq_left c]
  · rw [if_neg cm]
    try dsimp only
    obtain ⟨i1, i2, i3⟩ := write_data_nodes_account env ptr size pf h (size - size) size ho
    generalize write_data_nodes env ptr size pf h (size - size) size = R at i1 i2 i3 ⊢
    have e1 : size - R.1 + R.1 = size := Nat.sub_add_cancel i1
    have e3 : R.2.1.offset = pf.offset + (size - R.1) := by
      have : R.2.1.offset + R.1 = pf.offset + (size - R.1) + R.1 := by
        rw [i2, Nat.add_assoc, e1]
      exact Nat.add_right_cancel this
    exact ⟨Nat.sub_le _ _, e3, i3⟩

/-- `ipf_read` leaves the plaintext size as it was. -/
theorem read_data_nodes_size (env : Env) (fuel : Nat) (pf : pf_context_t) (h : Host)
    (out : Nat → Byte) (done left : Nat) :
    (read_data_nodes env fuel pf h out done left).2.2.1.encrypted_part_plain.size
      = pf.encrypted_part_plain.size := by
  induction fuel generalizing pf h out done left with
  | zero =>
    unfold read_data_nodes
    split_ifs <;> rfl
  | succ fuel ih =>
    unfold read_data_nodes
    split_ifs
    · dsimp only
      have st := ipf_get_data_node_stable env pf h
      rcases hg : ipf_get_data_node env pf h with ⟨o, pf1, h1⟩
      rw [hg] at st
      dsimp only at st
      cases o with
      | none => exact size_of_stable st
      | some p =>
        dsimp only
        rw [ih]
        show pf1.encrypted_part_plain.size = _
        exact size_of_stable st
    · rfl

theorem ipf_read_size (env : Env) (pf : pf_context_t) (h : Host) (ptr : Option (Nat → Byte))
    (size : Nat) :
    (ipf_read env pf h ptr size).2.2.1.encrypted_part_plain.size
      = pf.encrypted_part_plain.size := by
  unfold ipf_read
  cases ptr with
  | none => rfl
  | some out =>
    dsimp only
    split_ifs <;> try rfl
    all_goals
      dsimp only
      first
        | rfl
        | (rw [read_data_nodes_size])

/-- The result of a seek beyond the end of a writable file, by the result of
`pf_set_size`. -/
theorem ipf_seek_beyond (env : Env) (pf : pf_context_t) (h : Host) (off : Nat)
    (hst : pf.file_status = SUCCESS) (ho : pf.encrypted_part_plain.size < off)
    (hmode : mode_has pf.mode PF_FILE_MODE_WRITE = true) :
    ipf_seek env pf h off =
      if env.g_initialized = true then
        if (ipf_write env { pf with offset := pf.encrypted_part_plain.size } h none
            (off - pf.encrypted_part_plain.size)).1 = off - pf.encrypted_part_plain.size ∨
            (ipf_write env { pf with offset := pf.encrypted_part_plain.size } h none
              (off - pf.encrypted_part_plain.size)).2.1.last_error = SUCCESS then
          (true,
            { (ipf_write env { pf with offset := pf.encrypted_part_plain.size } h none
                (off - pf.encrypted_part_plain.size)).2.1 with end_of_file := false },
            (ipf_write env { pf with offset := pf.encrypted_part_plain.size } h none
              (off - pf.encrypted_part_plain.size)).2.2)
        else
          (false,
            { (ipf_write env { pf with offset := pf.encrypted_part_plain.size } h none
                (off - pf.encrypted_part_plain.size)).2.1 with last_error := INVALID_PARAMETER },
            (ipf_write env { pf with offset := pf.encrypted_part_plain.size } h none
              (off - pf.encrypted_part_plain.size)).2.2)
      else (false, { pf with last_error := INVALID_PARAMETER }, h) := by
  unfold ipf_seek
  have f0 : PF_FAILURE pf.file_status = false := by rw [hst]; rfl
  rw [f0]
  simp only [Bool.false_eq_true, if_false]
  rw [if_neg (Nat.not_le.mpr ho), if_pos hmode]
  unfold pf_set_size
  have m0 : (!mode_has pf.mode PF_FILE_MODE_WRITE) = false := by rw [hmode]; rfl
  by_cases hg : env.g_initialized = true
  · have g0 : (!env.g_initialized) = false := by rw [hg]; rfl
    rw [g0, m0]
    simp only [Bool.false_eq_true, if_false]
    rw [if_neg (Nat.ne_of_gt ho), if_pos ho, if_pos hg]
    try dsimp only
    rcases hw : ipf_write env { pf with offset := pf.encrypted_part_plain.size } h none
      (off - pf.encrypted_part_plain.size) with ⟨written, pf2, h2⟩
    try dsimp only
    by_cases c : written = off - pf.encrypted_part_plain.size
    · rw [if_neg (not_not.mpr c), if_pos (Or.inl c)]
      rfl
    · rw [if_pos c]
      by_cases e : pf2.last_error = SUCCESS
      · rw [if_pos (Or.inr e)]
        have : PF_SUCCESS pf2.last_error = true := by rw [e]; rfl
        rw [this]
      · rw [if_neg (fun x => x.elim c e)]
        have : PF_SUCCESS pf2.last_error = false := by
          unfold PF_SUCCESS
          simpa using e
        rw [this]
  · have g0 : (!env.g_initialized) = true := by simpa using hg
    rw [if_pos g0, if_neg hg]
    rfl

/-! ## Theorems: crash consistency of the recovery log -/

/-- Replaying records whose data for block `b` all equal `v`: block `b` holds
`v` afterwards when it did before or when a record names it. -/
theorem replay_blocks_consistent (recs : List recovery_node_t) (file : Nat → Block) (b : Nat)
    (v : Block) (hv : ∀ r ∈ recs, record_block r = b → r.encrypted = v)
    (hb : file b = v ∨ ∃ r ∈ recs, record_block r = b) :
    replay_blocks recs file b = v := by
  induction recs generalizing file with
  | nil =>
    rcases hb with e | ⟨r, hr, -⟩
    · exact e
    · simp at hr
  | cons r rest ih =>
    unfold replay_blocks
    rw [List.foldl_cons]
    have := ih (Function.update file (record_block r) r.encrypted)
      (fun r' hr' => hv r' (List.mem_cons_of_mem _ hr')) (by
        by_cases c : record_block r = b
        · left
          rw [c, Function.update_same]
          exact hv r (List.mem_cons_self _ _) c
        · rcases hb with e | ⟨r', hr', e'⟩
          · left
            rw [Function.update_noteq (Ne.symm c)]
            exact e
          · rcases List.mem_cons.mp hr' with x | x
            · rw [x] at e'
              exact absurd e' c
            · exact Or.inr ⟨r', x, e'⟩)
    unfold replay_blocks at this
    exact this

/-- Replaying records that name distinct blocks leaves in each named block
the data of its record. -/
theorem replay_blocks_mirror (recs : List recovery_node_t) (file : Nat → Block)
    (hnd : (recs.map record_block).Nodup) :
    ∀ r ∈ recs, replay_blocks recs file (record_block r) = r.encrypted := by
  intro r hr
  apply replay_blocks_consistent
  · intro r' hr' e
    rw [List.inj_on_of_nodup_map hnd hr' hr e]
  · exact Or.inr ⟨r, hr, rfl⟩

/-- The navigator without wrap-around: data index `d`, MHT index `d / 96`,
physical data number `d + 2 + d / 96`, for an offset that fits in 64 bits. -/
theorem get_node_numbers_fit (o : Nat) (hlo : MD_USER_DATA_SIZE ≤ o) (hhi : o < U64) :
    (get_node_numbers o).data_node_number = (o - MD_USER_DATA_SIZE) / 4096 ∧
    (get_node_numbers o).mht_node_number = (o - MD_USER_DATA_SIZE) / 4096 / 96 ∧
    (get_node_numbers o).physical_data_node_number
      = (o - MD_USER_DATA_SIZE) / 4096 + 2 + (o - MD_USER_DATA_SIZE) / 4096 / 96 ∧
    (o - MD_USER_DATA_SIZE) / 4096 < 2 ^ 52 := by
  simp only [get_node_numbers, U64, MD_USER_DATA_SIZE, PF_NODE_SIZE,
    ATTACHED_DATA_NODES_COUNT] at *
  norm_num at *
  omega

/-- C37: for offsets `o1`, `o2` in the data region that fit in 64 bits and MHT
numbers `m1`, `m2` whose physical number fits in 64 bits, the physical data
number of `get_node_numbers` is strictly increasing in the data index (so equal
only for equal data indices), is at least 2, is never `1 + 97 * k` and never
the physical number `ipf_append_mht_node` gives an MHT node, and that number
`1 + 97 * m` is injective; the MHT number `get_node_numbers` returns and the
parent number `(m - 1) / 32` of such an MHT number have physical numbers that
fit. -/
theorem physical_numbers_never_collide (o1 o2 m1 m2 k : Nat)
    (h1 : MD_USER_DATA_SIZE ≤ o1) (h1u : o1 < U64)
    (h2 : MD_USER_DATA_SIZE ≤ o2) (h2u : o2 < U64)
    (hm1 : 1 + 97 * m1 < U64) (hm2 : 1 + 97 * m2 < U64) :
    ((get_node_numbers o1).data_node_number < (get_node_numbers o2).data_node_number ↔
      (get_node_numbers o1).physical_data_node_number
        < (get_node_numbers o2).physical_data_node_number) ∧
    ((get_node_numbers o1).physical_data_node_number
        = (get_node_numbers o2).physical_data_node_number ↔
      (get_node_numbers o1).data_node_number = (get_node_numbers o2).data_node_number) ∧
    2 ≤ (get_node_numbers o1).physical_data_node_number ∧
    (get_node_numbers o1).physical_data_node_number ≠ 1 + 97 * k ∧
    (get_node_numbers o1).physical_data_node_number ≠ mht_physical_node_number m1 ∧
    (get_node_numbers o1).physical_data_node_number ≠ 0 ∧
    mht_physical_node_number m1 = 1 + 97 * m1 ∧
    (mht_physical_node_number m1 = mht_physical_node_number m2 ↔ m1 = m2) ∧
    (mht_physical_node_number m1 = 1 ↔ m1 = 0) ∧
    mht_physical_node_number m1 ≠ 0 ∧
    1 + 97 * (get_node_numbers o1).mht_node_number < U64 ∧
    1 + 97 * ((m1 - 1) / CHILD_MHT_NODES_COUNT) < U64 := by
  obtain ⟨a1, b1, c1, d1⟩ := get_node_numbers_fit o1 h1 h1u
  obtain ⟨a2, b2, c2, d2⟩ := get_node_numbers_fit o2 h2 h2u
  simp only [a1, a2, b1, c1, c2]
  generalize (o1 - MD_USER_DATA_SIZE) / 4096 = x at *
  generalize (o2 - MD_USER_DATA_SIZE) / 4096 = y at *
  have e1 : mht_physical_node_number m1 = 1 + 97 * m1 := by
    unfold mht_physical_node_number
    rw [show 1 + m1 * (1 + ATTACHED_DATA_NODES_COUNT) = 1 + 97 * m1 by
      simp only [ATTACHED_DATA_NODES_COUNT]
      omega]
    exact Nat.mod_eq_of_lt hm1
  have e2 : mht_physical_node_number m2 = 1 + 97 * m2 := by
    unfold mht_physical_node_number
    rw [show 1 + m2 * (1 + ATTACHED_DATA_NODES_COUNT) = 1 + 97 * m2 by
      simp only [ATTACHED_DATA_NODES_COUNT]
      omega]
    exact Nat.mod_eq_of_lt hm2
  rw [e1, e2]
  simp only [U64, CHILD_MHT_NODES_COUNT] at *
  clear a1 a2 b1 c1 c2 e1 e2 h1 h2 h1u h2u
  refine ⟨?_, ?_, ?_, ?_, ?_, ?_, ?_, ?_, ?_, ?_, ?_, ?_⟩
  all_goals first | omega | trivial

/-- The numbering at data nodes 95 and 96 (blocks 97 and 99) and MHT nodes 1
and 33 (blocks 98 and 3202). -/
theorem physical_numbers_never_collide_witness :
    (get_node_numbers (MD_USER_DATA_SIZE + 95 * 4096)).physical_data_node_number = 97 ∧
    (get_node_numbers (MD_USER_DATA_SIZE + 96 * 4096)).physical_data_node_number = 99 ∧
    mht_physical_node_number 1 = 98 ∧ mht_physical_node_number 33 = 3202 ∧
    (get_node_numbers (MD_USER_DATA_SIZE + 95 * 4096)).physical_data_node_number
      ≠ mht_physical_node_number 1 :=
  have w := physical_numbers_never_collide (MD_USER_DATA_SIZE + 95 * 4096)
    (MD_USER_DATA_SIZE + 96 * 4096) 1 33 1 (by decide) (by decide) (by decide) (by decide)
    (by decide) (by decide)
  ⟨by decide, by decide, by decide, by decide, w.2.2.2.2.1⟩

/-! ## Theorems: the status returned by open -/

theorem ipf_read_node_none_fail (env : Env) (pf : pf_context_t) (h : Host) (n : Nat)
    (hf : (ipf_read_node env pf h n).1 = none) :
    PF_FAILURE (ipf_read_node env pf h n).2.1.last_error = true := by
  unfold ipf_read_node at hf ⊢
  dsimp only at hf ⊢
  split_ifs at hf ⊢ with c
  exact c

theorem ipf_generate_secure_blob_none_fail (env : Env) (pf : pf_context_t) (h : Host)
    (key : pf_key_t) (label : List Char) (n : Nat)
    (hf : (ipf_generate_secure_blob env pf h key label n).1 = none) :
    PF_FAILURE (ipf_generate_secure_blob env pf h key label n).2.1.last_error = true := by
  unfold ipf_generate_secure_blob at hf ⊢
  dsimp only at hf ⊢
  split_ifs at hf ⊢ with c1 c2 c3
  · rfl
  · exact c2
  · exact c3

theorem ipf_init_session_master_key_false_fail (env : Env) (pf : pf_context_t) (h : Host)
    (hf : (ipf_init_session_master_key env pf h).1 = false) :
    PF_FAILURE (ipf_init_session_master_key env pf h).2.1.last_error = true := by
  unfold ipf_init_session_master_key at hf ⊢
  have := ipf_generate_secure_blob_none_fail env pf h 0 MASTER_KEY_NAME 0
  rcases hc : ipf_generate_secure_blob env pf h 0 MASTER_KEY_NAME 0 with ⟨k, pf1, h1⟩
  rw [hc] at hf this
  cases k
  · exact this rfl
  · simp at hf

theorem ipf_generate_secure_blob_from_user_kdk_false_fail (env : Env) (pf : pf_context_t)
    (h : Host) (restore : Bool)
    (hf : (ipf_generate_secure_blob_from_user_kdk env pf h restore).1 = false) :
    PF_FAILURE (ipf_generate_secure_blob_from_user_kdk env pf h restore).2.1.last_error
      = true := by
  unfold ipf_generate_secure_blob_from_user_kdk at hf ⊢
  unfold cb_random at hf ⊢
  dsimp only at hf ⊢
  cases restore
  · simp only [Bool.not_false, if_true] at hf ⊢
    split_ifs at hf ⊢
    · assumption
    · dsimp only at hf ⊢
      split_ifs at hf ⊢
      assumption
  · simp only [Bool.not_true, Bool.false_eq_true, if_false] at hf ⊢
    split_ifs at hf ⊢
    all_goals assumption


theorem ipf_file_recovery_false_fail (env : Env) (pf : pf_context_t) (h : Host)
    (path : Option Path) (hf : (ipf_file_recovery env pf h path).1 = false) :
    PF_FAILURE (ipf_file_recovery env pf h path).2.1.last_error = true := by
  unfold ipf_file_recovery at hf ⊢
  dsimp only at hf ⊢
  split_ifs at hf ⊢ with c1 c2 c3 c4 c5
  · rfl
  · exact c2
  · exact c3
  · exact c4
  · rfl
  · have := ipf_read_node_none_fail env
      { (ipf_do_file_recovery env { pf with file := none } (cb_close env h .source).2 path).2.1
          with file := some .source }
      (cb_open env (ipf_do_file_recovery env { pf with file := none }
        (cb_close env h .source).2 path).2.2 .source
        (ipf_do_file_recovery env { pf with file := none }
          (cb_close env h .source).2 path).2.1.mode).2.2 0
    revert hf this
    rcases ipf_read_node env _ _ 0 with ⟨b, pf4, h4⟩
    cases b
    · intro _ this
      exact this rfl
    · intro hf _
      simp at hf

theorem ipf_init_existing_file_false_fail (env : Env) (pf : pf_context_t) (h : Host)
    (path : Option Path) (hf : (ipf_init_existing_file env pf h path).1 = false) :
    PF_FAILURE (ipf_init_existing_file env pf h path).2.1.last_error = true := by
  unfold ipf_init_existing_file at hf ⊢
  have r0 := ipf_read_node_none_fail env pf h 0
  rcases hc0 : ipf_read_node env pf h 0 with ⟨b, pf0, h1⟩
  rw [hc0] at hf r0
  cases b with
  | none => exact r0 rfl
  | some block =>
    dsimp only at hf ⊢
    by_cases c1 : block.as_meta.plain_part.file_id ≠ env.PF_FILE_ID
    · rw [if_pos c1]
      rfl
    rw [if_neg c1] at hf ⊢
    by_cases c2 : block.as_meta.plain_part.major_version ≠ env.PF_MAJOR_VERSION
    · rw [if_pos c2]
      rfl
    rw [if_neg c2] at hf ⊢
    have hrsf : ∀ b3 pf2 h2, (if block.as_meta.plain_part.update_flag = 1 then
        match ipf_file_recovery env { pf0 with file_meta_data := block.as_meta } h1 path with
        | (false, pf2, h2) =>
          if pf2.last_error = RECOVERY_IMPOSSIBLE then (false, pf2, h2)
          else (false, { pf2 with last_error := RECOVERY_NEEDED }, h2)
        | (true, pf2, h2) =>
          if pf2.file_meta_data.plain_part.update_flag = 1 then
            (false, { pf2 with last_error := RECOVERY_NEEDED }, h2)
          else if pf2.file_meta_data.plain_part.major_version ≠ env.PF_MAJOR_VERSION then
            (false, { pf2 with last_error := INVALID_VERSION }, h2)
          else (true, pf2, h2)
      else (true, { pf0 with file_meta_data := block.as_meta }, h1)) = (b3, pf2, h2) →
        b3 = false → PF_FAILURE pf2.last_error = true := by
      intro b3 pf2 h2
      split_ifs with c3
      · rcases hfr : ipf_file_recovery env { pf0 with file_meta_data := block.as_meta } h1 path
          with ⟨b2, pf2', h2'⟩
        cases b2
        · dsimp only
          split_ifs with c4
          · intro e _
            simp only [Prod.mk.injEq] at e
            rw [← e.2.1, c4]
            rfl
          · intro e _
            simp only [Prod.mk.injEq] at e
            rw [← e.2.1]
            rfl
        · dsimp only
          split_ifs
          · intro e _
            simp only [Prod.mk.injEq] at e
            rw [← e.2.1]
            rfl
          · intro e _
            simp only [Prod.mk.injEq] at e
            rw [← e.2.1]
            rfl
          · intro e x
            simp only [Prod.mk.injEq] at e
            rw [x] at e
            simp at e
      · intro e x
        simp only [Prod.mk.injEq] at e
        rw [x] at e
        simp at e
    revert hf
    split
    · rename_i pf2 h2 heq
      intro _
      exact hrsf _ _ _ heq rfl
    · rename_i pf2 h2 heq
      have r1 := ipf_generate_secure_blob_from_user_kdk_false_fail env pf2 h2 true
      unfold ipf_restore_current_meta_data_key
      rcases hk : ipf_generate_secure_blob_from_user_kdk env pf2 h2 true with ⟨b4, pf3, h3⟩
      rw [hk] at r1
      cases b4
      · intro _
        exact r1 rfl
      · dsimp only
        split_ifs with c5 c6 c7
        · intro _
          exact c5
        · intro _
          rfl
        · have r2 := ipf_read_node_none_fail env
            { pf3 with encrypted_part_plain := (env.aes_gcm_decrypt pf3.cur_key
                pf3.file_meta_data.encrypted_part
                pf3.file_meta_data.plain_part.meta_data_gmac).2.as_md } h3 1
          revert r2
          rcases ipf_read_node env _ h3 1 with ⟨b5, pf5, h5⟩
          cases b5
          · intro r2 _
            exact r2 rfl
          · intro _
            dsimp only
            split_ifs with c8
            · intro _
              exact c8
            · intro x
              simp at x
        · intro x
          simp at x

/-- Every path through `ipf_open` ends at the label `out:` with the initial
status `NO_MEMORY`, or before the context is allocated. -/
theorem ipf_open_shape (env : Env) (h : Host) (path : Option Path) (mode : pf_file_mode_t)
    (create : Bool) (file : Option pf_handle_t) (real_size : Nat) (kdk_key : Option pf_key_t)
    (enable_recovery : Bool) :
    (∃ h1, ipf_open env h path mode create file real_size kdk_key enable_recovery
      = (none, NO_MEMORY, h1)) ∨
    (∃ pf h1, ipf_open env h path mode create file real_size kdk_key enable_recovery
      = ipf_open_out NO_MEMORY pf h1) := by
  unfold ipf_open
  repeat' (first | split | dsimp only)
  all_goals first | exact Or.inl ⟨_, rfl⟩ | exact Or.inr ⟨_, _, rfl⟩

theorem ipf_open_out_status (pf : pf_context_t) (h : Host) :
    ((ipf_open_out NO_MEMORY pf h).2.1 = SUCCESS ↔ (ipf_open_out NO_MEMORY pf h).1.isSome = true) ∧
    ((ipf_open_out NO_MEMORY pf h).1 = none → (ipf_open_out NO_MEMORY pf h).2.1 = NO_MEMORY) ∧
    (∀ pf1, (ipf_open_out NO_MEMORY pf h).1 = some pf1 → pf1.last_error = SUCCESS) ∧
    (PF_FAILURE pf.last_error = true → ipf_open_out NO_MEMORY pf h = (none, NO_MEMORY, h)) := by
  unfold ipf_open_out
  by_cases c : PF_FAILURE pf.last_error = true
  · simp [c]
  · rw [if_neg c]
    have : pf.last_error = SUCCESS := by
      unfold PF_FAILURE at c
      simpa using c
    simp [this, c]
    rfl

/-- C36: with the callbacks set, and with a path whenever the file is created
(`ipf_init_new_file` reads the path without a `NULL` check, so for a created file
with a `NULL` path the code has no defined outcome), `pf_open` returns `SUCCESS`
exactly when it yields a context, and then the context records `SUCCESS`; whenever it
yields no context the status is `NO_MEMORY`.  No context is yielded when the allocation
fails, the key or the handle is `NULL`, the path is too long or the size is not
a multiple of the node size, and none when `ipf_init_session_master_key` or
`ipf_init_existing_file` return false: whatever these recorded in `last_error`
is a failure code, for which the label `out:` frees the context and leaves the
status `NO_MEMORY`. -/
theorem pf_open_status (env : Env) (h : Host) (handle : Option pf_handle_t)
    (path : Option Path) (underlying_size : Nat) (mode : pf_file_mode_t)
    (create enable_recovery : Bool) (key : Option pf_key_t)
    (hinit : env.g_initialized = true) (_hpath : create = true → path ≠ none) :
    ((pf_open env h handle path underlying_size mode create enable_recovery key).1 = SUCCESS ↔
      (pf_open env h handle path underlying_size mode create enable_recovery key).2.1.isSome
        = true) ∧
    ((pf_open env h handle path underlying_size mode create enable_recovery key).2.1 = none →
      (pf_open env h handle path underlying_size mode create enable_recovery key).1
        = NO_MEMORY) ∧
    (∀ pf, (pf_open env h handle path underlying_size mode create enable_recovery key).2.1
        = some pf → pf.last_error = SUCCESS) ∧
    (env.alloc_ok h.allocs = false ∨ key = none ∨ handle = none ∨
        underlying_size % PF_NODE_SIZE ≠ 0 ∨
        (∃ p, path = some p ∧ p.length > env.PATH_MAX_SIZE - 1) →
      (pf_open env h handle path underlying_size mode create enable_recovery key).2.1
        = none) ∧
    (∀ pf0 h0, (ipf_init_session_master_key env pf0 h0).1 = false →
      ipf_open_out NO_MEMORY (ipf_init_session_master_key env pf0 h0).2.1
          (ipf_init_session_master_key env pf0 h0).2.2
        = (none, NO_MEMORY, (ipf_init_session_master_key env pf0 h0).2.2)) ∧
    (∀ pf0 h0, (ipf_init_existing_file env pf0 h0 path).1 = false →
      ipf_open_out NO_MEMORY (ipf_init_existing_file env pf0 h0 path).2.1
          (ipf_init_existing_file env pf0 h0 path).2.2
        = (none, NO_MEMORY, (ipf_init_existing_file env pf0 h0 path).2.2)) := by
  have hpo : pf_open env h handle path underlying_size mode create enable_recovery key
      = ((ipf_open env h path mode create handle underlying_size key enable_recovery).2.1,
         (ipf_open env h path mode create handle underlying_size key enable_recovery).1,
         (ipf_open env h path mode create handle underlying_size key enable_recovery).2.2) := by
    unfold pf_open
    rw [hinit]
    rfl
  rw [hpo]
  dsimp only
  refine ⟨?_, ?_, ?_, ?_, ?_, ?_⟩
  · rcases ipf_open_shape env h path mode create handle underlying_size key enable_recovery
      with ⟨h1, e⟩ | ⟨pf, h1, e⟩
    · rw [e]
      simp
    · rw [e]
      exact (ipf_open_out_status pf h1).1
  · rcases ipf_open_shape env h path mode create handle underlying_size key enable_recovery
      with ⟨h1, e⟩ | ⟨pf, h1, e⟩
    · rw [e]
      simp
    · rw [e]
      exact (ipf_open_out_status pf h1).2.1
  · rcases ipf_open_shape env h path mode create handle underlying_size key enable_recovery
      with ⟨h1, e⟩ | ⟨pf, h1, e⟩
    · rw [e]
      simp
    · rw [e]
      exact (ipf_open_out_status pf h1).2.2.1
  · intro hc
    unfold ipf_open
    dsimp only
    rcases ha : alloc env h with ⟨a, h0⟩
    have haa : a = env.alloc_ok h.allocs := by
      unfold alloc at ha
      simp only [Prod.mk.injEq] at ha
      exact ha.1.symm
    cases a
    · rfl
    · dsimp only
      rcases hc with c | c | c | c | ⟨p, c, c'⟩
      · rw [c] at haa
        simp at haa
      · rw [c]
        rfl
      · cases key with
        | none => rfl
        | some kdk =>
          dsimp only
          split
          · rfl
          · have := ipf_init_session_master_key_false_fail env ipf_init_fields h0
            rcases hk : ipf_init_session_master_key env ipf_init_fields h0 with ⟨b, pf1, h1⟩
            rw [hk] at this
            cases b
            · dsimp only
              rw [(ipf_open_out_status pf1 h1).2.2.2 (this rfl)]
            · dsimp only
              rw [c]
              rfl
      · cases key with
        | none => rfl
        | some kdk =>
          dsimp only
          split
          · rfl
          · have := ipf_init_session_master_key_false_fail env ipf_init_fields h0
            rcases hk : ipf_init_session_master_key env ipf_init_fields h0 with ⟨b, pf1, h1⟩
            rw [hk] at this
            cases b
            · dsimp only
              rw [(ipf_open_out_status pf1 h1).2.2.2 (this rfl)]
            · dsimp only
              cases handle with
              | none => rfl
              | some hd =>
                dsimp only
                rfl
      · cases key with
        | none => rfl
        | some kdk =>
          dsimp only
          rw [c]
          dsimp only
          rw [if_pos (by simpa using c')]
          rfl
  · intro pf0 h0 hf
    exact (ipf_open_out_status _ _).2.2.2 (ipf_init_session_master_key_false_fail env pf0 h0 hf)
  · intro pf0 h0 hf
    exact (ipf_open_out_status _ _).2.2.2 (ipf_init_existing_file_false_fail env pf0 h0 path hf)

/-- Creating the file `a` returns `SUCCESS` and a context; opening with a
`NULL` key returns `NO_MEMORY` and none. -/
theorem pf_open_status_witness :
    (pf_open example_env example_host (some .source) (some ['a']) 0
      (PF_FILE_MODE_READ + PF_FILE_MODE_WRITE) true false (some 7)).1 = SUCCESS ∧
    (pf_open example_env example_host (some .source) (some ['a']) 0
      (PF_FILE_MODE_READ + PF_FILE_MODE_WRITE) true false (some 7)).2.1.isSome = true ∧
    (pf_open example_env example_host (some .source) (some ['a']) 0
      (PF_FILE_MODE_READ + PF_FILE_MODE_WRITE) true false none).1 = NO_MEMORY :=
  have w := pf_open_status example_env example_host (some .source) (some ['a']) 0
    (PF_FILE_MODE_READ + PF_FILE_MODE_WRITE) true false (some 7) rfl (fun _ c => by cases c)
  have w2 := pf_open_status example_env example_host (some .source) (some ['a']) 0
    (PF_FILE_MODE_READ + PF_FILE_MODE_WRITE) true false none rfl (fun _ c => by cases c)
  ⟨by decide!, w.1.mp (by decide!), w2.2.1 (w2.2.2.2.1 (Or.inr (Or.inl rfl)))⟩

/-! ## Theorems: the shape of the key derivation call -/

/-- C33, as stated, fails: two AEAD callbacks that agree on every call with
empty additional data, and that return the same ciphertext on every call, give
`ipf_generate_secure_blob` different keys.  The call is therefore not one with
empty additional data whose ciphertext is the key. -/
theorem kdf_key_is_not_a_ciphertext :
    (∀ key input, example_env_other_tag.aes_gcm_encrypt key none input
      = example_env.aes_gcm_encrypt key none input) ∧
    (∀ key aad input, (example_env_other_tag.aes_gcm_encrypt key aad input).2.1
      = (example_env.aes_gcm_encrypt key aad input).2.1) ∧
    (ipf_generate_secure_blob example_env ipf_init_fields example_host 0 MASTER_KEY_NAME 0).1
      = some 1 ∧
    (ipf_generate_secure_blob example_env_other_tag ipf_init_fields example_host 0
      MASTER_KEY_NAME 0).1 = some 4242 := by
  refine ⟨fun _ _ => rfl, ?_, by decide, by decide⟩
  intro key aad input
  cases aad <;> rfl

/-- C33, amended: for a label of at most 63 characters and a random source
that succeeds, `ipf_generate_secure_blob` makes one AEAD encryption call under
the given key with the structure (index 1, the label, the node number, the
fresh nonce, output length `0x80`) as additional authenticated data and with no
input and no output buffer; it fails with the status of that call if it is a
failure, and otherwise the derived key is the tag of the call.
`ipf_generate_secure_blob_from_user_kdk` makes the same call under the user
KDK with the label `METADATA_KEY_NAME`, node number 0 and the fresh nonce, or
the stored key id when restoring; the tag becomes `cur_key` and a fresh nonce
is stored as the key id.  The three labels have at most 63 characters. -/
theorem kdf_call_shape (env : Env) (pf : pf_context_t) (h : Host) (key : pf_key_t)
    (label : List Char) (n : Nat) (hl : label.length ≤ MAX_LABEL_SIZE - 1)
    (hr : PF_FAILURE (env.random h.clock).1 = false) :
    ipf_generate_secure_blob env pf h key label n
      = (if PF_FAILURE (env.aes_gcm_encrypt key
            (some ⟨1, label, n, (env.random h.clock).2, 0x80⟩) none).1 then
          (none, { pf with last_error := (env.aes_gcm_encrypt key
            (some ⟨1, label, n, (env.random h.clock).2, 0x80⟩) none).1 }, h.tick .random)
        else
          (some (env.aes_gcm_encrypt key
            (some ⟨1, label, n, (env.random h.clock).2, 0x80⟩) none).2.2, pf,
            h.tick .random)) ∧
    ipf_generate_secure_blob_from_user_kdk env pf h false
      = (if PF_FAILURE (env.aes_gcm_encrypt pf.user_kdk_key
            (some ⟨1, METADATA_KEY_NAME, 0, (env.random h.clock).2, 0x80⟩) none).1 then
          (false, { pf with last_error := (env.aes_gcm_encrypt pf.user_kdk_key
            (some ⟨1, METADATA_KEY_NAME, 0, (env.random h.clock).2, 0x80⟩) none).1 },
            h.tick .random)
        else
          (true,
            { pf with
                cur_key := (env.aes_gcm_encrypt pf.user_kdk_key
                  (some ⟨1, METADATA_KEY_NAME, 0, (env.random h.clock).2, 0x80⟩) none).2.2,
                file_meta_data :=
                  { pf.file_meta_data with plain_part :=
                      { pf.file_meta_data.plain_part with
                          meta_data_key_id := (env.random h.clock).2 } } },
            h.tick .random)) ∧
    ipf_generate_secure_blob_from_user_kdk env pf h true
      = (if PF_FAILURE (env.aes_gcm_encrypt pf.user_kdk_key
            (some ⟨1, METADATA_KEY_NAME, 0, pf.file_meta_data.plain_part.meta_data_key_id,
              0x80⟩) none).1 then
          (false, { pf with last_error := (env.aes_gcm_encrypt pf.user_kdk_key
            (some ⟨1, METADATA_KEY_NAME, 0, pf.file_meta_data.plain_part.meta_data_key_id,
              0x80⟩) none).1 }, h)
        else
          (true,
            { pf with
                cur_key := (env.aes_gcm_encrypt pf.user_kdk_key
                  (some ⟨1, METADATA_KEY_NAME, 0,
                    pf.file_meta_data.plain_part.meta_data_key_id, 0x80⟩) none).2.2 }, h)) ∧
    MASTER_KEY_NAME.length ≤ MAX_LABEL_SIZE - 1 ∧
    RANDOM_KEY_NAME.length ≤ MAX_LABEL_SIZE - 1 ∧
    METADATA_KEY_NAME.length ≤ MAX_LABEL_SIZE - 1 := by
  refine ⟨?_, ?_, ?_, by decide, by decide, by decide⟩
  · unfold ipf_generate_secure_blob cb_random
    rw [if_neg (by omega)]
    dsimp only
    rw [hr]
    simp only [Bool.false_eq_true, if_false]
  · unfold ipf_generate_secure_blob_from_user_kdk cb_random
    dsimp only
    rw [hr]
    simp only [Bool.not_false, if_true, Bool.false_eq_true, if_false]
  · unfold ipf_generate_secure_blob_from_user_kdk
    simp only [Bool.not_true, Bool.false_eq_true, if_false]

/-- The session master key of the example: the tag of the call with key 0,
label `MASTER_KEY_NAME`, node number 0 and nonce 0. -/
theorem kdf_call_shape_witness :
    (ipf_generate_secure_blob example_env ipf_init_fields example_host 0 MASTER_KEY_NAME 0).1
      = some (example_env.aes_gcm_encrypt 0 (some ⟨1, MASTER_KEY_NAME, 0, 0, 0x80⟩) none).2.2 :=
  have w := (kdf_call_shape example_env ipf_init_fields example_host 0 MASTER_KEY_NAME 0
    (by decide) (by decide)).1
  by rw [w]; rfl

/-! ## Theorems: error reclamation -/

/-- C34, as stated, fails: from `FLUSH_ERROR`, with the write of data node 0
failing once (invocation 6), the retried flush returns false and leaves
`WRITE_TO_DISK_FAILED`; the second block of `ipf_try_clear_error` then retries
`ipf_write_all_changes_to_disk`, which succeeds, and `file_status` becomes
`SUCCESS` although the retried flush has failed. -/
theorem try_clear_error_falls_through :
    example_flush_error.1.file_status = FLUSH_ERROR ∧
    (ipf_internal_flush (example_env_failing_at [1, 6]) example_flush_error.1
      example_flush_error.2).1 = false ∧
    (ipf_internal_flush (example_env_failing_at [1, 6]) example_flush_error.1
      example_flush_error.2).2.1.file_status = WRITE_TO_DISK_FAILED ∧
    (ipf_try_clear_error (example_env_failing_at [1, 6]) example_flush_error.1
      example_flush_error.2).1.file_status = SUCCESS ∧
    (ipf_try_clear_error (example_env_failing_at [1, 6]) example_flush_error.1
      example_flush_error.2).1.last_error = SUCCESS ∧
    (ipf_try_clear_error (example_env_failing_at [1, 6]) example_flush_error.1
      example_flush_error.2).1.need_writing = false := by
  decide!

theorem retry_flush_other (env : Env) (pf : pf_context_t) (h : Host)
    (hs : pf.file_status ≠ FLUSH_ERROR) : retry_flush env pf h = (pf, h) := by
  unfold retry_flush
  rw [if_neg hs]

theorem retry_flush_eq (env : Env) (pf : pf_context_t) (h : Host)
    (hs : pf.file_status = FLUSH_ERROR) :
    retry_flush env pf h
      = (if (ipf_internal_flush env pf h).1 then
          ({ (ipf_internal_flush env pf h).2.1 with file_status := SUCCESS },
            (ipf_internal_flush env pf h).2.2)
        else (ipf_internal_flush env pf h).2) := by
  unfold retry_flush
  rw [if_pos hs]
  rcases ipf_internal_flush env pf h with ⟨b, pf1, h1⟩
  cases b <;> rfl

theorem retry_write_all_other (env : Env) (pf : pf_context_t) (h : Host)
    (hs : pf.file_status ≠ WRITE_TO_DISK_FAILED) : retry_write_all env pf h = (pf, h) := by
  unfold retry_write_all
  rw [if_neg hs]

theorem retry_write_all_eq (env : Env) (pf : pf_context_t) (h : Host)
    (hs : pf.file_status = WRITE_TO_DISK_FAILED) :
    retry_write_all env pf h
      = (if (ipf_write_all_changes_to_disk env pf h).1 then
          ({ (ipf_write_all_changes_to_disk env pf h).2.1 with
              need_writing := false, file_status := SUCCESS },
            (ipf_write_all_changes_to_disk env pf h).2.2)
        else (ipf_write_all_changes_to_disk env pf h).2) := by
  unfold retry_write_all
  rw [if_pos hs]
  rcases ipf_write_all_changes_to_disk env pf h with ⟨b, pf1, h1⟩
  cases b <;> rfl

theorem ipf_try_clear_error_eq (env : Env) (pf : pf_context_t) (h : Host)
    (hs : ¬(pf.file_status = UNINITIALIZED ∨ pf.file_status = CRYPTO_ERROR ∨
      pf.file_status = CORRUPTED)) :
    ipf_try_clear_error env pf h
      = (if (retry_write_all env (retry_flush env pf h).1
            (retry_flush env pf h).2).1.file_status = SUCCESS then
          ({ (retry_write_all env (retry_flush env pf h).1 (retry_flush env pf h).2).1 with
              last_error := SUCCESS, end_of_file := false },
            (retry_write_all env (retry_flush env pf h).1 (retry_flush env pf h).2).2)
        else retry_write_all env (retry_flush env pf h).1 (retry_flush env pf h).2) := by
  unfold ipf_try_clear_error
  rw [if_neg hs]

/-- C34, amended: `ipf_try_clear_error` returns the context and the host as
they are when `file_status` is `UNINITIALIZED`, `CRYPTO_ERROR` or `CORRUPTED`.
From `WRITE_TO_DISK_FAILED` it retries `ipf_write_all_changes_to_disk` and sets
`need_writing = false`, `file_status = SUCCESS`, `last_error = SUCCESS` and
`end_of_file = false` exactly when the retry succeeds.  From `FLUSH_ERROR` it
retries `ipf_internal_flush`; when the flush succeeds it sets the three fields;
when the flush fails and leaves `WRITE_TO_DISK_FAILED` it goes on to retry
`ipf_write_all_changes_to_disk` as above; otherwise it leaves what the failed
flush left.  So from `FLUSH_ERROR` the status becomes `SUCCESS` exactly when
the flush succeeds, or fails at the disk write and the retried disk write
succeeds. -/
theorem try_clear_error_semantics (env : Env) (pf : pf_context_t) (h : Host) :
    (pf.file_status = UNINITIALIZED ∨ pf.file_status = CRYPTO_ERROR ∨
        pf.file_status = CORRUPTED → ipf_try_clear_error env pf h = (pf, h)) ∧
    (pf.file_status = WRITE_TO_DISK_FAILED →
      ipf_try_clear_error env pf h
        = (if (ipf_write_all_changes_to_disk env pf h).1 then
            ({ (ipf_write_all_changes_to_disk env pf h).2.1 with
                need_writing := false, file_status := SUCCESS, last_error := SUCCESS,
                end_of_file := false }, (ipf_write_all_changes_to_disk env pf h).2.2)
          else (ipf_write_all_changes_to_disk env pf h).2) ∧
      ((ipf_try_clear_error env pf h).1.file_status = SUCCESS ↔
        (ipf_write_all_changes_to_disk env pf h).1 = true)) ∧
    (pf.file_status = FLUSH_ERROR →
      ipf_try_clear_error env pf h
        = (if (ipf_internal_flush env pf h).1 then
            ({ (ipf_internal_flush env pf h).2.1 with
                file_status := SUCCESS, last_error := SUCCESS, end_of_file := false },
              (ipf_internal_flush env pf h).2.2)
          else if (ipf_internal_flush env pf h).2.1.file_status = WRITE_TO_DISK_FAILED then
            ipf_try_clear_error env (ipf_internal_flush env pf h).2.1
              (ipf_internal_flush env pf h).2.2
          else (ipf_internal_flush env pf h).2) ∧
      ((ipf_try_clear_error env pf h).1.file_status = SUCCESS ↔
        ((ipf_internal_flush env pf h).1 = true ∨
          ((ipf_internal_flush env pf h).1 = false ∧
           (ipf_internal_flush env pf h).2.1.file_status = WRITE_TO_DISK_FAILED ∧
           (ipf_write_all_changes_to_disk env (ipf_internal_flush env pf h).2.1
              (ipf_internal_flush env pf h).2.2).1 = true)))) := by
  have hW : ∀ (pf : pf_context_t) (h : Host), pf.file_status = WRITE_TO_DISK_FAILED →
      ipf_try_clear_error env pf h
        = (if (ipf_write_all_changes_to_disk env pf h).1 then
            ({ (ipf_write_all_changes_to_disk env pf h).2.1 with
                need_writing := false, file_status := SUCCESS, last_error := SUCCESS,
                end_of_file := false }, (ipf_write_all_changes_to_disk env pf h).2.2)
          else (ipf_write_all_changes_to_disk env pf h).2) ∧
      ((ipf_try_clear_error env pf h).1.file_status = SUCCESS ↔
        (ipf_write_all_changes_to_disk env pf h).1 = true) := by
    intro pf h hs
    have ho := ipf_write_all_changes_to_disk_outcome env pf h
    have e : ipf_try_clear_error env pf h
        = (if (ipf_write_all_changes_to_disk env pf h).1 then
            ({ (ipf_write_all_changes_to_disk env pf h).2.1 with
                need_writing := false, file_status := SUCCESS, last_error := SUCCESS,
                end_of_file := false }, (ipf_write_all_changes_to_disk env pf h).2.2)
          else (ipf_write_all_changes_to_disk env pf h).2) := by
      rw [ipf_try_clear_error_eq env pf h (by rw [hs]; decide),
        retry_flush_other env pf h (by rw [hs]; decide), retry_write_all_eq env pf h hs]
      rcases hc : ipf_write_all_changes_to_disk env pf h with ⟨b, pf2, h2⟩
      rw [hc] at ho
      cases b
      · have : pf2.file_status ≠ SUCCESS := by
          rw [ho.1, hs]
          decide
        simp [this]
      · simp
    refine ⟨e, ?_⟩
    rw [e]
    rcases hc : ipf_write_all_changes_to_disk env pf h with ⟨b, pf2, h2⟩
    rw [hc] at ho
    cases b
    · have : pf2.file_status ≠ SUCCESS := by
        rw [ho.1, hs]
        decide
      simpa using this
    · simp
  refine ⟨?_, hW pf h, ?_⟩
  · intro hs
    unfold ipf_try_clear_error
    rw [if_pos hs]
  · intro hs
    have hv := ipf_internal_flush_verdict env pf h
    have e : ipf_try_clear_error env pf h
        = (if (ipf_internal_flush env pf h).1 then
            ({ (ipf_internal_flush env pf h).2.1 with
                file_status := SUCCESS, last_error := SUCCESS, end_of_file := false },
              (ipf_internal_flush env pf h).2.2)
          else if (ipf_internal_flush env pf h).2.1.file_status = WRITE_TO_DISK_FAILED then
            ipf_try_clear_error env (ipf_internal_flush env pf h).2.1
              (ipf_internal_flush env pf h).2.2
          else (ipf_internal_flush env pf h).2) := by
      rw [ipf_try_clear_error_eq env pf h (by rw [hs]; decide), retry_flush_eq env pf h hs]
      rcases hc : ipf_internal_flush env pf h with ⟨b, pf1, h1⟩
      rw [hc] at hv
      cases b
      · have hff := hv.2
        simp only [Bool.false_eq_true, if_false] at hff ⊢
        by_cases cw : pf1.file_status = WRITE_TO_DISK_FAILED
        · rw [if_pos cw, ipf_try_clear_error_eq env pf1 h1 (by rw [cw]; decide),
            retry_flush_other env pf1 h1 (by rw [cw]; decide)]
        · rw [if_neg cw, retry_write_all_other env pf1 h1 cw]
          have : pf1.file_status ≠ SUCCESS := by
            rcases hff.1 with x | x | x <;> rw [x] <;> decide
          rw [if_neg this]
      · simp only [if_true]
        rw [retry_write_all_other _ _ _ (by simp)]
        simp
    refine ⟨e, ?_⟩
    rw [e]
    rcases hc : ipf_internal_flush env pf h with ⟨b, pf1, h1⟩
    rw [hc] at hv
    cases b
    · have hff := hv.2
      simp only [Bool.false_eq_true, if_false] at hff
      simp only [Bool.false_eq_true, if_false, false_or, true_and]
      by_cases cw : pf1.file_status = WRITE_TO_DISK_FAILED
      · rw [if_pos cw, (hW pf1 h1 cw).2]
        simp [cw]
      · rw [if_neg cw]
        have : pf1.file_status ≠ SUCCESS := by
          rcases hff.1 with x | x | x <;> rw [x] <;> decide
        simp [cw, this]
    · simp

/-- The amended statement on the example: the retried flush fails at the disk
write, the retried disk write succeeds. -/
theorem try_clear_error_semantics_witness :
    (ipf_try_clear_error (example_env_failing_at [1, 6]) example_flush_error.1
      example_flush_error.2).1.file_status = SUCCESS ∧
    (ipf_internal_flush (example_env_failing_at [1, 6]) example_flush_error.1
      example_flush_error.2).1 = false :=
  have w := ((try_clear_error_semantics (example_env_failing_at [1, 6]) example_flush_error.1
    example_flush_error.2).2.2 (by decide!)).2
  ⟨w.mpr (Or.inr (by decide!)), by decide!⟩

/-! ## Theorems: appending a data node -/

/-- C32, as stated, fails: with offset = size = `MD_USER_DATA_SIZE`,
`ipf_get_data_node` appends data node 0 and returns it registered in the cache
under physical number 2 and marked new, but not dirty. -/
theorem appended_node_is_not_dirty :
    example_md_full.1.offset = MD_USER_DATA_SIZE ∧
    example_md_full.1.encrypted_part_plain.size = MD_USER_DATA_SIZE ∧
    (ipf_get_data_node example_env example_md_full.1 example_md_full.2).1
      = some (.cached 2) ∧
    (ipf_append_data_node example_env example_md_full.1 example_md_full.2).1
      = some (.cached 2) ∧
    ((ipf_get_data_node example_env example_md_full.1 example_md_full.2).2.1.cache.map
      (fun n => (n.physical_node_number, n.new_node, n.need_writing))) = [(2, true, false)] := by
  decide!

/-- The node `ipf_append_data_node` allocates. -/
theorem ipf_append_data_node_spec (env : Env) (pf : pf_context_t) (h : Host) (p : NodePtr)
    (hp : (ipf_append_data_node env pf h).1 = some p) :
    p = .cached (get_node_numbers pf.offset).physical_data_node_number ∧
    ∃ file_mht_node,
      (ipf_get_mht_node env pf h).1 = some file_mht_node ∧
      (ipf_append_data_node env pf h).2.1.cache
        = { type := FILE_DATA_NODE_TYPE,
            node_number := (get_node_numbers pf.offset).data_node_number,
            parent := file_mht_node, need_writing := false, new_node := true,
            physical_node_number := (get_node_numbers pf.offset).physical_data_node_number,
            encrypted := .data zero_bytes, decrypted := .data zero_bytes }
          :: (ipf_get_mht_node env pf h).2.1.cache := by
  unfold ipf_append_data_node at hp ⊢
  have hst := ipf_get_mht_node_stable env pf h
  rcases hc : ipf_get_mht_node env pf h with ⟨m, pf1, h1⟩
  rw [hc] at hp hst
  have ho : pf1.offset = pf.offset := congrArg Stable.offset hst
  cases m with
  | none => simp at hp
  | some file_mht_node =>
    dsimp only at hp ⊢
    rcases ha : alloc env h1 with ⟨a, h2⟩
    rw [ha] at hp
    cases a
    · simp at hp
    · dsimp only at hp ⊢
      rcases ha2 : alloc env h2 with ⟨a2, h3⟩
      rw [ha2] at hp
      cases a2
      · simp at hp
      · dsimp only at hp ⊢
        rw [ho] at hp
        simp only [Option.some.injEq] at hp
        refine ⟨hp.symm, file_mht_node, rfl, ?_⟩
        rw [ho]
        rfl

/-- Looking a key up after a write through a pointer that keeps the keys:
the node found before, written to if it is the one pointed at. -/
theorem lruc_find_modify (cache : List file_node_t) (k k1 : Nat) (f : file_node_t → file_node_t)
    (hf : ∀ n, (f n).physical_node_number = n.physical_node_number) :
    lruc_find (cache.map (fun n => if n.physical_node_number = k then f n else n)) k1
      = (lruc_find cache k1).map (fun n => if n.physical_node_number = k then f n else n) := by
  unfold lruc_find
  rw [List.find?_map]
  have : ((fun n : file_node_t => n.physical_node_number == k1) ∘
      fun n => if n.physical_node_number = k then f n else n)
      = (fun n : file_node_t => n.physical_node_number == k1) := by
    funext n
    dsimp only [Function.comp]
    split_ifs
    · rw [hf]
    · rfl
  rw [this]

theorem modify_find_isSome (pf : pf_context_t) (x : NodePtr) (f : file_node_t → file_node_t)
    (hf : ∀ n, (f n).physical_node_number = n.physical_node_number) (k : Nat) :
    (lruc_find (pf.modify x f).cache k).isSome = (lruc_find pf.cache k).isSome := by
  cases x with
  | root => rfl
  | cached k0 =>
    unfold pf_context_t.modify
    dsimp only
    rw [lruc_find_modify pf.cache k0 k f hf, Option.isSome_map']

/-- Marking a node as needing writing leaves every node that needs writing
so. -/
theorem modify_mark_mono (pf : pf_context_t) (x q : NodePtr)
    (hq : (pf.deref q).need_writing = true) :
    ((pf.modify x (fun n => { n with need_writing := true })).deref q).need_writing = true := by
  cases x with
  | root =>
    cases q with
    | root => rfl
    | cached k1 => exact hq
  | cached k =>
    cases q with
    | root => exact hq
    | cached k1 =>
      unfold pf_context_t.modify pf_context_t.deref at *
      dsimp only at *
      rw [lruc_find_modify pf.cache k k1 (fun n => { n with need_writing := true })
        (fun _ => rfl)]
      cases hfind : lruc_find pf.cache k1 with
      | none =>
        rw [hfind] at hq
        exact absurd hq (by decide)
      | some n =>
        rw [hfind] at hq
        dsimp only [Option.map, Option.getD] at hq ⊢
        split_ifs
        · rfl
        · exact hq

/-- Marking a resident node as needing writing marks it. -/
theorem modify_mark_self (pf : pf_context_t) (q : NodePtr)
    (hq : ∀ k, q = .cached k → (lruc_find pf.cache k).isSome = true) :
    ((pf.modify q (fun n => { n with need_writing := true })).deref q).need_writing = true := by
  cases q with
  | root => rfl
  | cached k =>
    have hk := hq k rfl
    unfold pf_context_t.modify pf_context_t.deref
    dsimp only
    rw [lruc_find_modify pf.cache k k (fun n => { n with need_writing := true })
      (fun _ => rfl)]
    cases hfind : lruc_find pf.cache k with
    | none =>
      rw [hfind] at hk
      exact absurd hk (by decide)
    | some n =>
      dsimp only [Option.map, Option.getD]
      have : n.physical_node_number = k := by
        unfold lruc_find at hfind
        have := List.find?_some hfind
        simpa using this
      rw [if_pos this]

theorem mark_parents_mono (fuel : Nat) (pf : pf_context_t) (x q : NodePtr)
    (hq : (pf.deref q).need_writing = true) :
    ((mark_parents fuel pf x).deref q).need_writing = true := by
  induction fuel generalizing pf x with
  | zero =>
    unfold mark_parents
    dsimp only
    split_ifs
    · exact hq
    · cases q <;> exact hq
  | succ n ih =>
    unfold mark_parents
    dsimp only
    split_ifs
    · exact hq
    · exact ih _ _ (modify_mark_mono pf x q hq)

/-- The body of the write loop leaves the data node it has written to marked
as needing writing, when the node is resident. -/
theorem write_to_data_node_marks (ptr : Option (Nat → Byte)) (pf1 : pf_context_t)
    (p : NodePtr) (written left : Nat)
    (hp : ∀ k, p = .cached k → (lruc_find pf1.cache k).isSome = true) :
    ((write_to_data_node ptr pf1 p written left).1.deref p).need_writing = true := by
  unfold write_to_data_node
  dsimp only
  -- the context after the copy and the size update
  generalize hpf2 : pf1.modify p (fun n =>
    { n with decrypted := Buf.data ( memcpy_or_zero_initialize n.decrypted.as_data
        ((pf1.offset - MD_USER_DATA_SIZE) % PF_NODE_SIZE) ptr written
        (min left (PF_NODE_SIZE - (pf1.offset - MD_USER_DATA_SIZE) % PF_NODE_SIZE))) }) = pf2
  have hres : ∀ k, p = .cached k → (lruc_find pf2.cache k).isSome = true := by
    intro k hk
    rw [← hpf2, modify_find_isSome]
    · exact hp k hk
    · intro n
      rfl
  clear hpf2
  split
  all_goals
    split
    · rename_i hcond
      cases p with
      | root => rfl
      | cached k =>
        have hk := hres k rfl
        show ((mark_parents _ _ _).deref (.cached k)).need_writing = true
        apply mark_parents_mono
        apply modify_mark_self
        intro k1 e
        cases e
        exact hk
    · rename_i hcond
      simpa using hcond

theorem lruc_find_head (n : file_node_t) (rest : List file_node_t) (k : Nat)
    (hk : n.physical_node_number = k) : lruc_find (n :: rest) k = some n := by
  unfold lruc_find
  simp [List.find?, hk]

/-- C32, amended: when the offset equals the plaintext size and is
block-aligned within the data region, the node `ipf_get_data_node` returns is
the one `ipf_append_data_node` has allocated: a data node with the data and
physical numbers of `get_node_numbers`, registered in the cache under its
physical number as the most recently used node, marked new and not dirty
(`calloc` leaves `need_writing` false).  It is `ipf_write` that marks it dirty
after copying into it: the loop body leaves every resident node it has written
to with `need_writing` set. -/
theorem append_creates_new_clean_node (env : Env) (pf : pf_context_t) (h : Host) (p : NodePtr)
    (hmd : MD_USER_DATA_SIZE ≤ pf.offset)
    (hal : (pf.offset - MD_USER_DATA_SIZE) % PF_NODE_SIZE = 0
      ∧ pf.offset = pf.encrypted_part_plain.size)
    (hp : (ipf_get_data_node env pf h).1 = some p) :
    (ipf_append_data_node env pf h).1 = some p ∧
    p = .cached (get_node_numbers pf.offset).physical_data_node_number ∧
    lruc_find (ipf_append_data_node env pf h).2.1.cache
        (get_node_numbers pf.offset).physical_data_node_number
      = some ((ipf_append_data_node env pf h).2.1.deref p) ∧
    (ipf_append_data_node env pf h).2.1.cache.head?
      = some ((ipf_append_data_node env pf h).2.1.deref p) ∧
    ((ipf_append_data_node env pf h).2.1.deref p).type = FILE_DATA_NODE_TYPE ∧
    ((ipf_append_data_node env pf h).2.1.deref p).node_number
      = (get_node_numbers pf.offset).data_node_number ∧
    ((ipf_append_data_node env pf h).2.1.deref p).physical_node_number
      = (get_node_numbers pf.offset).physical_data_node_number ∧
    ((ipf_append_data_node env pf h).2.1.deref p).new_node = true ∧
    ((ipf_append_data_node env pf h).2.1.deref p).need_writing = false ∧
    (∀ (ptr : Option (Nat → Byte)) (pf1 : pf_context_t) (written left : Nat),
      (lruc_find pf1.cache (get_node_numbers pf.offset).physical_data_node_number).isSome
        = true →
      ((write_to_data_node ptr pf1 p written left).1.deref p).need_writing = true) := by
  have happ : (ipf_append_data_node env pf h).1 = some p := by
    unfold ipf_get_data_node at hp
    rw [if_neg (Nat.not_lt.mpr hmd)] at hp
    dsimp only at hp
    rw [if_pos hal] at hp
    rcases hc : ipf_append_data_node env pf h with ⟨n, pf1, h1⟩
    rw [hc] at hp
    dsimp only at hp
    generalize evict_nodes env _ _ h1 = E at hp
    rcases E with ⟨b, pf3, h3⟩
    cases b
    · simp at hp
    · exact hp
  obtain ⟨hpe, m, -, hcache⟩ := ipf_append_data_node_spec env pf h p happ
  have hd : (ipf_append_data_node env pf h).2.1.deref p
      = { type := FILE_DATA_NODE_TYPE,
          node_number := (get_node_numbers pf.offset).data_node_number,
          parent := m, need_writing := false, new_node := true,
          physical_node_number := (get_node_numbers pf.offset).physical_data_node_number,
          encrypted := .data zero_bytes, decrypted := .data zero_bytes } := by
    rw [hpe]
    show (lruc_find (ipf_append_data_node env pf h).2.1.cache _).getD calloc_node = _
    rw [hcache, lruc_find_head _ _ _ rfl]
    rfl
  refine ⟨happ, hpe, ?_, ?_, ?_, ?_, ?_, ?_, ?_, ?_⟩
  · rw [hd, hcache, lruc_find_head _ _ _ rfl]
  · rw [hd, hcache]
    rfl
  · rw [hd]
  · rw [hd]
  · rw [hd]
  · rw [hd]
  · rw [hd]
  · intro ptr pf1 written left hres
    apply write_to_data_node_marks
    intro k hk
    rw [hpe] at hk
    cases hk
    exact hres


/-- The amended statement at the start of data node 0 of the example. -/
theorem append_creates_new_clean_node_witness :
    ((ipf_append_data_node example_env example_md_full.1 example_md_full.2).2.1.deref
      (.cached 2)).new_node = true ∧
    ((ipf_append_data_node example_env example_md_full.1 example_md_full.2).2.1.deref
      (.cached 2)).need_writing = false :=
  have w := append_creates_new_clean_node example_env example_md_full.1 example_md_full.2
    (.cached 2) (by decide!) (by decide!) (by decide!)
  ⟨w.2.2.2.2.2.2.2.1, w.2.2.2.2.2.2.2.2.1⟩

/-! ## Theorems: the offset never passes the end -/

theorem Within.w_step {a b c : pf_context_t} (h1 : Within a b) (h2 : Within b c) :
    Within a c :=
  ⟨h2.1, Nat.le_trans h1.2 h2.2⟩

theorem ipf_write_keeps_within (env : Env) (pf : pf_context_t) (h : Host)
    (ptr : Option (Nat → Byte)) (size : Nat)
    (ho : pf.offset ≤ pf.encrypted_part_plain.size) :
    Within pf (ipf_write env pf h ptr size).2.1 := by
  by_cases hn : size = 0
  · unfold ipf_write
    rw [if_pos hn]
    exact ⟨ho, Nat.le_refl _⟩
  by_cases hst : PF_FAILURE pf.file_status = true
  · unfold ipf_write
    rw [if_neg hn, if_pos hst]
    exact ⟨ho, Nat.le_refl _⟩
  by_cases hmode : (!mode_has pf.mode PF_FILE_MODE_WRITE) = true
  · unfold ipf_write
    rw [if_neg hn, if_neg hst, if_pos hmode]
    exact ⟨ho, Nat.le_refl _⟩
  have hs : pf.file_status = SUCCESS := by
    unfold PF_FAILURE at hst
    simpa using hst
  have hm : mode_has pf.mode PF_FILE_MODE_WRITE = true := by simpa using hmode
  obtain ⟨-, -, a3⟩ := ipf_write_account env pf h ptr size hn hs hm ho
  unfold Within
  rw [a3]
  exact ⟨le_max_right _ _, le_max_left _ _⟩

theorem read_data_nodes_offset (env : Env) (fuel : Nat) (pf : pf_context_t) (h : Host)
    (out : Nat → Byte) (done left : Nat) :
    (read_data_nodes env fuel pf h out done left).1 ≤ left ∧
    (read_data_nodes env fuel pf h out done left).2.2.1.offset
        + (read_data_nodes env fuel pf h out done left).1 = pf.offset + left := by
  induction fuel generalizing pf h out done left with
  | zero =>
    unfold read_data_nodes
    split_ifs
    · exact ⟨Nat.le_refl _, rfl⟩
    · exact ⟨Nat.zero_le _, by dsimp only; omega⟩
  | succ fuel ih =>
    unfold read_data_nodes
    split_ifs with c
    · dsimp only
      have st := ipf_get_data_node_stable env pf h
      rcases hg : ipf_get_data_node env pf h with ⟨o, pf1, h1⟩
      rw [hg] at st
      dsimp only at st
      have eo : pf1.offset = pf.offset := offset_of_stable st
      cases o with
      | none => exact ⟨Nat.le_refl _, by dsimp only; rw [eo]⟩
      | some p =>
        dsimp only
        have hle : min left (PF_NODE_SIZE - (pf1.offset - MD_USER_DATA_SIZE) % PF_NODE_SIZE)
            ≤ left := Nat.min_le_left _ _
        generalize min left (PF_NODE_SIZE - (pf1.offset - MD_USER_DATA_SIZE) % PF_NODE_SIZE)
          = k at hle ⊢
        obtain ⟨i1, i2⟩ := ih { pf1 with offset := pf1.offset + k } h1
          (memcpy out done (pf1.deref p).decrypted.as_data
            ((pf1.offset - MD_USER_DATA_SIZE) % PF_NODE_SIZE) k) (done + k) (left - k)
        dsimp only at i2
        constructor
        · omega
        · omega
    · exact ⟨Nat.zero_le _, by dsimp only; omega⟩

theorem ipf_read_keeps_within (env : Env) (pf : pf_context_t) (h : Host)
    (ptr : Option (Nat → Byte)) (size : Nat)
    (ho : pf.offset ≤ pf.encrypted_part_plain.size) :
    Within pf (ipf_read env pf h ptr size).2.2.1 := by
  have hsz := ipf_read_size env pf h ptr size
  refine ⟨?_, by rw [hsz]⟩
  rw [hsz]
  unfold ipf_read
  cases ptr with
  | none => exact ho
  | some out =>
    dsimp only
    by_cases c1 : size = 0
    · rw [if_pos c1]
      exact ho
    rw [if_neg c1]
    by_cases c2 : PF_FAILURE pf.file_status = true
    · rw [if_pos c2]
      exact ho
    rw [if_neg c2]
    by_cases c3 : (!mode_has pf.mode PF_FILE_MODE_READ) = true
    · rw [if_pos c3]
      exact ho
    rw [if_neg c3]
    by_cases c4 : pf.end_of_file = true
    · rw [if_pos c4]
      exact ho
    rw [if_neg c4]
    by_cases c5 : pf.offset = pf.encrypted_part_plain.size
    · rw [if_pos c5]
      exact ho
    rw [if_neg c5]
    have hd : (if size > u64_sub pf.encrypted_part_plain.size pf.offset then
        u64_sub pf.encrypted_part_plain.size pf.offset else size)
        ≤ pf.encrypted_part_plain.size - pf.offset := by
      have hu : u64_sub pf.encrypted_part_plain.size pf.offset
          ≤ pf.encrypted_part_plain.size - pf.offset := by
        unfold u64_sub U64
        omega
      split_ifs <;> omega
    generalize (if size > u64_sub pf.encrypted_part_plain.size pf.offset then
        u64_sub pf.encrypted_part_plain.size pf.offset else size) = d at hd ⊢
    by_cases cm : pf.offset < MD_USER_DATA_SIZE
    · rw [if_pos cm]
      dsimp only
      have hle : min d (MD_USER_DATA_SIZE - pf.offset) ≤ d := Nat.min_le_left _ _
      generalize min d (MD_USER_DATA_SIZE - pf.offset) = k at hle ⊢
      obtain ⟨i1, i2⟩ := read_data_nodes_offset env (d - k) { pf with offset := pf.offset + k } h
        (memcpy out 0 pf.encrypted_part_plain.data pf.offset k) (d - (d - k)) (d - k)
      rcases hr : read_data_nodes env (d - k) { pf with offset := pf.offset + k } h
        (memcpy out 0 pf.encrypted_part_plain.data pf.offset k) (d - (d - k)) (d - k)
        with ⟨left, out2, pf2, h2⟩
      rw [hr] at i1 i2
      dsimp only at i1 i2 ⊢
      split_ifs
      · dsimp only
        omega
      · omega
    · rw [if_neg cm]
      dsimp only
      obtain ⟨i1, i2⟩ := read_data_nodes_offset env d pf h out (d - d) d
      rcases hr : read_data_nodes env d pf h out (d - d) d with ⟨left, out2, pf2, h2⟩
      rw [hr] at i1 i2
      dsimp only at i1 i2 ⊢
      split_ifs
      · dsimp only
        omega
      · omega

theorem pf_set_size_keeps_within (env : Env) (pf : pf_context_t) (h : Host) (size : Nat)
    (ho : pf.offset ≤ pf.encrypted_part_plain.size) :
    Within pf (pf_set_size env pf h size).2.1 := by
  unfold pf_set_size
  by_cases c1 : (!env.g_initialized) = true
  · rw [if_pos c1]
    exact ⟨ho, Nat.le_refl _⟩
  rw [if_neg c1]
  by_cases c2 : (!mode_has pf.mode PF_FILE_MODE_WRITE) = true
  · rw [if_pos c2]
    exact ⟨ho, Nat.le_refl _⟩
  rw [if_neg c2]
  by_cases c3 : size = pf.encrypted_part_plain.size
  · rw [if_pos c3]
    exact ⟨ho, Nat.le_refl _⟩
  rw [if_neg c3]
  by_cases c4 : size > pf.encrypted_part_plain.size
  · rw [if_pos c4]
    dsimp only
    have hw := ipf_write_keeps_within env { pf with offset := pf.encrypted_part_plain.size } h
      none (size - pf.encrypted_part_plain.size) (Nat.le_refl _)
    rcases hc : ipf_write env { pf with offset := pf.encrypted_part_plain.size } h none
      (size - pf.encrypted_part_plain.size) with ⟨written, pf2, h2⟩
    rw [hc] at hw
    dsimp only at hw ⊢
    split_ifs <;> exact hw
  · rw [if_neg c4]
    exact ⟨ho, Nat.le_refl _⟩

theorem ipf_seek_keeps_within (env : Env) (pf : pf_context_t) (h : Host) (new_offset : Nat)
    (ho : pf.offset ≤ pf.encrypted_part_plain.size) :
    Within pf (ipf_seek env pf h new_offset).2.1 := by
  unfold ipf_seek
  by_cases c1 : PF_FAILURE pf.file_status = true
  · rw [if_pos c1]
    exact ⟨ho, Nat.le_refl _⟩
  rw [if_neg c1]
  dsimp only
  by_cases c2 : new_offset ≤ pf.encrypted_part_plain.size
  · rw [if_pos c2]
    exact ⟨c2, Nat.le_refl _⟩
  rw [if_neg c2]
  by_cases c3 : mode_has pf.mode PF_FILE_MODE_WRITE = true
  · rw [if_pos c3]
    have := pf_set_size_keeps_within env pf h new_offset ho
    rcases hc : pf_set_size env pf h new_offset with ⟨st, pf1, h1⟩
    rw [hc] at this
    dsimp only at this ⊢
    cases PF_SUCCESS st <;> exact this
  · rw [if_neg c3]
    exact ⟨ho, Nat.le_refl _⟩

theorem pf_flush_keeps_within (env : Env) (pf : pf_context_t) (h : Host)
    (ho : pf.offset ≤ pf.encrypted_part_plain.size) :
    Within pf (pf_flush env pf h).2.1 := by
  have st := ipf_internal_flush_stable env pf h
  unfold pf_flush
  split_ifs
  · exact ⟨ho, Nat.le_refl _⟩
  · rcases hc : ipf_internal_flush env pf h with ⟨b, pf1, h1⟩
    rw [hc] at st
    dsimp only at st
    have : Within pf pf1 := by
      unfold Within
      rw [offset_of_stable st, size_of_stable st]
      exact ⟨ho, Nat.le_refl _⟩
    cases b <;> exact this

theorem pf_read_keeps_within (env : Env) (pf : pf_context_t) (h : Host) (offset size : Nat)
    (output : Option (Nat → Byte)) (ho : pf.offset ≤ pf.encrypted_part_plain.size) :
    Within pf (pf_read env pf h offset size output).2.2.1 := by
  unfold pf_read
  split_ifs
  · exact ⟨ho, Nat.le_refl _⟩
  · have hs := ipf_seek_keeps_within env pf h offset ho
    rcases hc : ipf_seek env pf h offset with ⟨b, pf1, h1⟩
    rw [hc] at hs
    cases b
    · exact hs
    · dsimp only
      have hr := ipf_read_keeps_within env pf1 h1 output size hs.1
      rcases hc2 : ipf_read env pf1 h1 output size with ⟨count, out, pf2, h2⟩
      rw [hc2] at hr
      dsimp only at hr ⊢
      split_ifs <;> exact hs.w_step hr

theorem pf_write_keeps_within (env : Env) (pf : pf_context_t) (h : Host) (offset size : Nat)
    (input : Option (Nat → Byte)) (ho : pf.offset ≤ pf.encrypted_part_plain.size) :
    Within pf (pf_write env pf h offset size input).2.1 := by
  unfold pf_write
  split_ifs
  · exact ⟨ho, Nat.le_refl _⟩
  · have hs := ipf_seek_keeps_within env pf h offset ho
    rcases hc : ipf_seek env pf h offset with ⟨b, pf1, h1⟩
    rw [hc] at hs
    cases b
    · exact hs
    · dsimp only
      have hr := ipf_write_keeps_within env pf1 h1 input size hs.1
      rcases hc2 : ipf_write env pf1 h1 input size with ⟨count, pf2, h2⟩
      rw [hc2] at hr
      dsimp only at hr ⊢
      split_ifs <;> exact hs.w_step hr

theorem ApiCall.run_keeps_within (env : Env) (s : pf_context_t × Host) (c : ApiCall)
    (ho : s.1.offset ≤ s.1.encrypted_part_plain.size) : Within s.1 (c.run env s).1 := by
  cases c with
  | seek n => exact ipf_seek_keeps_within env s.1 s.2 n ho
  | read ptr n => exact ipf_read_keeps_within env s.1 s.2 ptr n ho
  | write ptr n => exact ipf_write_keeps_within env s.1 s.2 ptr n ho
  | set_size n => exact pf_set_size_keeps_within env s.1 s.2 n ho
  | flush => exact pf_flush_keeps_within env s.1 s.2 ho
  | pf_read o n out => exact pf_read_keeps_within env s.1 s.2 o n out ho
  | pf_write o n inp => exact pf_write_keeps_within env s.1 s.2 o n inp ho

theorem run_api_keeps_within (env : Env) (cs : List ApiCall) (s : pf_context_t × Host)
    (ho : s.1.offset ≤ s.1.encrypted_part_plain.size) : Within s.1 (run_api env cs s).1 := by
  induction cs generalizing s with
  | nil => exact ⟨ho, Nat.le_refl _⟩
  | cons c cs ih =>
    unfold run_api
    have h1 := ApiCall.run_keeps_within env s c ho
    exact h1.w_step (ih _ h1.1)

theorem ipf_read_node_offset (env : Env) (pf : pf_context_t) (h : Host) (n : Nat) :
    (ipf_read_node env pf h n).2.1.offset = pf.offset := by
  unfold ipf_read_node
  repeat' (first | split | dsimp only)

theorem ipf_read_recovery_node_offset (env : Env) (pf : pf_context_t) (h : Host) (n : Nat) :
    (ipf_read_recovery_node env pf h n).2.1.offset = pf.offset := by
  unfold ipf_read_recovery_node
  repeat' (first | split | dsimp only)

theorem ipf_write_node_offset (env : Env) (pf : pf_context_t) (h : Host) (n : Nat)
    (b : Block) : (ipf_write_node env pf h n b).2.1.offset = pf.offset := by
  unfold ipf_write_node ipf_write_file
  repeat' (first | split | dsimp only)

theorem replay_records_offset (env : Env) (todo : Nat) (pf : pf_context_t) (h : Host)
    (i : Nat) (r : recovery_node_t) :
    (replay_records env todo pf h i r).2.1.offset = pf.offset := by
  induction todo generalizing pf h i r with
  | zero => rfl
  | succ todo ih =>
    unfold replay_records
    have e1 := ipf_read_recovery_node_offset env pf h i
    rcases hr : ipf_read_recovery_node env pf h i with ⟨b, pf1, h1⟩
    rw [hr] at e1
    cases b with
    | none => exact e1
    | some buffer =>
      dsimp only
      have e2 := ipf_write_node_offset env pf1 h1 (buffer.getD r).physical_node_number
        (buffer.getD r).encrypted
      rcases hw : ipf_write_node env pf1 h1 (buffer.getD r).physical_node_number
        (buffer.getD r).encrypted with ⟨b2, pf2, h2⟩
      rw [hw] at e2
      cases b2 with
      | false => exact e2.trans e1
      | true =>
        dsimp only
        rw [ih]
        exact e2.trans e1

theorem ipf_do_file_recovery_offset (env : Env) (pf : pf_context_t) (h : Host)
    (path : Option Path) : (ipf_do_file_recovery env pf h path).2.1.offset = pf.offset := by
  unfold ipf_do_file_recovery
  have key : ∀ todo (pf0 : pf_context_t) (h0 : Host) i r b (pf1 : pf_context_t) (h1 : Host),
      replay_records env todo pf0 h0 i r = (b, pf1, h1) → pf1.offset = pf0.offset := by
    intro todo pf0 h0 i r b pf1 h1 e
    have := replay_records_offset env todo pf0 h0 i r
    rw [e] at this
    exact this
  repeat' (first | split | dsimp only)
  all_goals first | rfl | exact key _ _ _ _ _ _ _ _ ‹_›


theorem ipf_file_recovery_offset (env : Env) (pf : pf_context_t) (h : Host)
    (path : Option Path) : (ipf_file_recovery env pf h path).2.1.offset = pf.offset := by
  unfold ipf_file_recovery
  split
  · rfl
  · rcases hc : cb_close env h .source with ⟨st, h1⟩
    dsimp only
    split
    · rfl
    · have e1 := ipf_do_file_recovery_offset env { pf with file := none } h1 path
      rcases hd : ipf_do_file_recovery env { pf with file := none } h1 path with ⟨ret, pf2, h2⟩
      rw [hd] at e1
      dsimp only
      split
      · exact e1
      · rcases ho : cb_open env h2 .source pf2.mode with ⟨st2, sz, h3⟩
        dsimp only
        split
        · exact e1
        · split
          · exact e1
          · have e2 := ipf_read_node_offset env { pf2 with file := some .source } h3 0
            rcases hr : ipf_read_node env { pf2 with file := some .source } h3 0
              with ⟨b, pf4, h4⟩
            rw [hr] at e2
            cases b <;> exact e2.trans e1

theorem ipf_generate_secure_blob_from_user_kdk_offset (env : Env) (pf : pf_context_t)
    (h : Host) (r : Bool) :
    (ipf_generate_secure_blob_from_user_kdk env pf h r).2.1.offset = pf.offset := by
  unfold ipf_generate_secure_blob_from_user_kdk
  repeat' (first | split | dsimp only)


theorem ipf_init_existing_file_offset (env : Env) (pf : pf_context_t) (h : Host)
    (path : Option Path) :
    (ipf_init_existing_file env pf h path).2.1.offset = pf.offset := by
  unfold ipf_init_existing_file
  have e0 := ipf_read_node_offset env pf h 0
  rcases hr : ipf_read_node env pf h 0 with ⟨b, pf0, h1⟩
  rw [hr] at e0
  cases b with
  | none => exact e0
  | some block =>
    dsimp only
    split
    · exact e0
    · split
      · exact e0
      · have step : ∀ b2 (pf2 : pf_context_t) (h2 : Host),
            (if block.as_meta.plain_part.update_flag = 1 then
              match ipf_file_recovery env { pf0 with file_meta_data := block.as_meta } h1 path with
              | (false, pf2, h2) =>
                if pf2.last_error = RECOVERY_IMPOSSIBLE then (false, pf2, h2)
                else (false, { pf2 with last_error := RECOVERY_NEEDED }, h2)
              | (true, pf2, h2) =>
                if pf2.file_meta_data.plain_part.update_flag = 1 then
                  (false, { pf2 with last_error := RECOVERY_NEEDED }, h2)
                else if pf2.file_meta_data.plain_part.major_version ≠ env.PF_MAJOR_VERSION then
                  (false, { pf2 with last_error := INVALID_VERSION }, h2)
                else (true, pf2, h2)
              else (true, { pf0 with file_meta_data := block.as_meta }, h1)) = (b2, pf2, h2) →
            pf2.offset = pf.offset := by
          intro b2 pf2 h2 hrs
          split at hrs
          · have e1 := ipf_file_recovery_offset env
              { pf0 with file_meta_data := block.as_meta } h1 path
            rcases hf : ipf_file_recovery env { pf0 with file_meta_data := block.as_meta } h1 path
              with ⟨b1, pf2a, h2a⟩
            rw [hf] at e1 hrs
            cases b1 <;> dsimp only at hrs <;> split_ifs at hrs <;>
              simp only [Prod.mk.injEq] at hrs <;> obtain ⟨-, rfl, -⟩ := hrs <;>
              exact e1.trans e0
          · simp only [Prod.mk.injEq] at hrs
            obtain ⟨-, rfl, -⟩ := hrs
            exact e0
        split
        · rename_i heq
          exact step _ _ _ heq
        · rename_i pf2 h2 heq
          have e2 := step _ _ _ heq
          have e3 := ipf_generate_secure_blob_from_user_kdk_offset env pf2 h2 true
          unfold ipf_restore_current_meta_data_key
          rcases hk : ipf_generate_secure_blob_from_user_kdk env pf2 h2 true with ⟨b3, pf3, h3⟩
          rw [hk] at e3
          cases b3 with
          | false => exact e3.trans e2
          | true =>
            dsimp only
            have k2 : ∀ (pfa : pf_context_t) (ha : Host) n b (pfb : pf_context_t) (hb : Host),
                ipf_read_node env pfa ha n = (b, pfb, hb) → pfb.offset = pfa.offset := by
              intro pfa ha n b pfb hb e
              have := ipf_read_node_offset env pfa ha n
              rw [e] at this
              exact this
            split
            · exact e3.trans e2
            · split
              · exact e3.trans e2
              · split
                · split
                  · rename_i heq5
                    exact (k2 _ _ _ _ _ _ heq5).trans (e3.trans e2)
                  · rename_i heq5
                    try dsimp only
                    split <;> exact (k2 _ _ _ _ _ _ heq5).trans (e3.trans e2)
                · exact e3.trans e2



theorem ipf_init_session_master_key_offset (env : Env) (pf : pf_context_t) (h : Host) :
    (ipf_init_session_master_key env pf h).2.1.offset = pf.offset :=
  offset_of_stable (ipf_init_session_master_key_stable env pf h)

/-- A context that `ipf_open` returns has offset 0. -/
theorem ipf_open_offset (env : Env) (h0 : Host) (path : Option Path)
    (mode : pf_file_mode_t) (create : Bool) (file : Option pf_handle_t) (real_size : Nat)
    (kdk_key : Option pf_key_t) (enable_recovery : Bool)
    (pf : pf_context_t) (st : pf_status_t) (h1 : Host)
    (e : ipf_open env h0 path mode create file real_size kdk_key enable_recovery
      = (some pf, st, h1)) :
    pf.offset = 0 := by
  unfold ipf_open at e
  try dsimp only at e
  unfold alloc at e
  try dsimp only at e
  have k0 := ipf_init_session_master_key_offset env ipf_init_fields
    { h0 with allocs := h0.allocs + 1 }
  cases ha : env.alloc_ok h0.allocs
  · rw [ha] at e
    simp at e
  · rw [ha] at e
    try dsimp only at e
    cases kdk_key with
    | none =>
      try dsimp only at e
      unfold ipf_open_out at e
      simp [PF_FAILURE] at e
    | some kdk =>
      try dsimp only at e
      split_ifs at e with c1 c2
      · unfold ipf_open_out at e
        simp [PF_FAILURE] at e
      all_goals
        rcases hk : ipf_init_session_master_key env ipf_init_fields
          { h0 with allocs := h0.allocs + 1 } with ⟨b, pf1, hh1⟩
        rw [hk] at e k0
        try dsimp only at k0 ⊢
        cases b
        · try dsimp only at e
          obtain ⟨rfl, rfl⟩ := ipf_open_out_some e
          exact k0
        · try dsimp only at e
          cases file with
          | none =>
            try dsimp only at e
            unfold ipf_open_out at e
            simp [PF_FAILURE] at e
          | some handle =>
            try dsimp only at e
            have k5 : ∀ (pfa : pf_context_t) (ha : Host) p b (pfb : pf_context_t) (hb : Host),
                ipf_init_existing_file env pfa ha p = (b, pfb, hb) →
                pfb.offset = pfa.offset := by
              intro pfa ha p b pfb hb e
              have := ipf_init_existing_file_offset env pfa ha p
              rw [e] at this
              exact this
            try split_ifs at e
            all_goals first
              | (unfold ipf_open_out at e; simp [PF_FAILURE] at e; done)
              | skip
            all_goals cases path <;> try dsimp only at e
            all_goals try split at e
            all_goals first
              | (obtain ⟨rfl, rfl⟩ := ipf_open_out_some e
                 rename_i heq
                 have k6 := k5 _ _ _ _ _ _ heq
                 exact k6.trans k0)
              | (obtain ⟨rfl, rfl⟩ := ipf_open_out_some e
                 exact k0)

theorem run_api_append (env : Env) (cs1 cs2 : List ApiCall) (s : pf_context_t × Host) :
    run_api env (cs1 ++ cs2) s = run_api env cs2 (run_api env cs1 s) := by
  induction cs1 generalizing s with
  | nil => rfl
  | cons c cs ih =>
    show run_api env (cs ++ cs2) (c.run env s) = _
    rw [ih]
    rfl

/-- C38: a context that `pf_open` returns has its offset (0) within the
plaintext size.  From a state with the offset within the plaintext size, after
every sequence of calls of `ipf_seek`, `ipf_read`, `ipf_write`, `pf_set_size`,
`pf_flush`, `pf_read` and `pf_write`, whatever each call returns, the offset is
within the plaintext size, so that the `uint64_t` subtraction
`plaintext_size - offset` of `ipf_read` is the difference; and the plaintext
size after a longer sequence of calls is at least the size after a shorter
one. -/
theorem offset_never_passes_end (env : Env) (s : pf_context_t × Host) (calls more : List ApiCall)
    (ho : s.1.offset ≤ s.1.encrypted_part_plain.size) :
    (run_api env calls s).1.offset ≤ (run_api env calls s).1.encrypted_part_plain.size ∧
    s.1.encrypted_part_plain.size ≤ (run_api env calls s).1.encrypted_part_plain.size ∧
    (run_api env calls s).1.encrypted_part_plain.size
      ≤ (run_api env (calls ++ more) s).1.encrypted_part_plain.size ∧
    ((run_api env calls s).1.encrypted_part_plain.size < U64 →
      u64_sub (run_api env calls s).1.encrypted_part_plain.size (run_api env calls s).1.offset
        = (run_api env calls s).1.encrypted_part_plain.size - (run_api env calls s).1.offset) ∧
    (∀ (h0 : Host) (handle : Option pf_handle_t) (path : Option Path) (underlying_size : Nat)
        (mode : pf_file_mode_t) (create enable_recovery : Bool) (key : Option pf_key_t)
        (pf : pf_context_t),
      (pf_open env h0 handle path underlying_size mode create enable_recovery key).2.1
        = some pf → pf.offset = 0 ∧ pf.offset ≤ pf.encrypted_part_plain.size) := by
  have w := run_api_keeps_within env calls s ho
  refine ⟨w.1, w.2, ?_, ?_, ?_⟩
  · rw [run_api_append]
    exact (run_api_keeps_within env more _ w.1).2
  · intro hu
    have := w.1
    unfold u64_sub U64 at *
    omega
  · intro h0 handle path underlying_size mode create enable_recovery key pf hpf
    have : pf.offset = 0 := by
      unfold pf_open at hpf
      split_ifs at hpf
      rcases hc : ipf_open env h0 path mode create handle underlying_size key enable_recovery
        with ⟨ctx, st, h1⟩
      rw [hc] at hpf
      dsimp only at hpf
      rw [hpf] at hc
      exact ipf_open_offset env h0 path mode create handle underlying_size key
        enable_recovery pf st h1 hc
    rw [this]
    exact ⟨rfl, Nat.zero_le _⟩


/-- The new file `a` after a write of 5 bytes, a seek to offset 10 (which
extends the file), a read of 4 bytes at the end and a flush: offset and size
are 10. -/
theorem offset_never_passes_end_witness :
    (run_api example_env
      [.pf_write 0 5 (some (fun _ => 65)), .seek 10, .read (some zero_bytes) 4, .flush]
      (example_created.1, example_created.2)).1.offset
      ≤ (run_api example_env
      [.pf_write 0 5 (some (fun _ => 65)), .seek 10, .read (some zero_bytes) 4, .flush]
      (example_created.1, example_created.2)).1.encrypted_part_plain.size ∧
    (run_api example_env
      [.pf_write 0 5 (some (fun _ => 65)), .seek 10, .read (some zero_bytes) 4, .flush]
      (example_created.1, example_created.2)).1.offset = 10 :=
  ⟨(offset_never_passes_end example_env (example_created.1, example_created.2)
    [.pf_write 0 5 (some (fun _ => 65)), .seek 10, .read (some zero_bytes) 4, .flush] []
    (by decide!)).1, by decide!⟩

/-! ## Theorems: the assertion of `ipf_clear_update_flag` -/

/-- A flush that does not write the tree and whose `ipf_update_meta_data_node`
fails calls `ipf_clear_update_flag` on the context that call has left. -/
theorem ipf_internal_flush_meta_failure (env : Env) (pf : pf_context_t) (h : Host)
    (hnw : pf.need_writing = true) (ht : flush_writes_tree pf = false)
    (hf : (ipf_update_meta_data_node env pf h).1 = false) :
    ipf_internal_flush env pf h
      = (false,
          { (ipf_clear_update_flag env (ipf_update_meta_data_node env pf h).2.1
              (ipf_update_meta_data_node env pf h).2.2).1 with file_status := CRYPTO_ERROR },
          (ipf_clear_update_flag env (ipf_update_meta_data_node env pf h).2.1
              (ipf_update_meta_data_node env pf h).2.2).2) := by
  unfold ipf_internal_flush
  unfold flush_writes_tree at ht
  rw [hnw]
  simp only [Bool.not_true, Bool.false_eq_true, if_false]
  rw [ht]
  simp only [Bool.false_eq_true, if_false]
  rcases hc : ipf_update_meta_data_node env pf h with ⟨b, pf2, h2⟩
  rw [hc] at hf
  dsimp only at hf
  rw [hf]

/-- Once `ipf_set_update_flag` has succeeded, the flag in memory is 0 at both
calls of `ipf_clear_update_flag`, whatever it was when the flush began (1 after
an earlier failure of `ipf_set_update_flag`). -/
theorem update_flag_zero_after_set (env : Env) (pf : pf_context_t) (h : Host)
    (hok : (flush_flag_step env pf h).1 = true) :
    (flush_tree_step env pf h).2.1.file_meta_data.plain_part.update_flag = 0 ∧
    (ipf_update_meta_data_node env (flush_tree_step env pf h).2.1
      (flush_tree_step env pf h).2.2).2.1.file_meta_data.plain_part.update_flag = 0 := by
  have h1 : (flush_tree_step env pf h).2.1.file_meta_data.plain_part.update_flag = 0 := by
    unfold flush_tree_step
    rw [ipf_update_all_data_and_mht_nodes_file_meta_data]
    unfold flush_flag_step at hok ⊢
    exact ipf_set_update_flag_memory env _ _ hok
  exact ⟨h1, by rw [ipf_update_meta_data_node_update_flag]; exact h1⟩

/-- C40 fails: `ipf_init_existing_file` rejects `update_flag = 1` only, so a
file whose header carries `update_flag = 2` opens with `SUCCESS` and the flag
2 in memory.  After a write to the inline region, a flush that does not write
the tree and whose `ipf_update_meta_data_node` fails (the random source fails)
calls `ipf_clear_update_flag` with the flag 2 in memory: the assertion is
violated, and the block 0 it writes carries `update_flag = 2`. -/
theorem clear_update_flag_assertion_fails :
    (pf_open example_env (with_disk_flag example_closed 2) (some .source) (some ['a'])
      example_closed.file_size (PF_FILE_MODE_READ + PF_FILE_MODE_WRITE) false false
      (some 7)).1 = SUCCESS ∧
    example_flag_two.1.file_status = SUCCESS ∧
    example_flag_two.1.file_meta_data.plain_part.update_flag = 2 ∧
    ipf_internal_flush example_env_no_random example_flag_two.1 example_flag_two.2
      = (false,
          { (ipf_clear_update_flag example_env_no_random
              (ipf_update_meta_data_node example_env_no_random example_flag_two.1
                example_flag_two.2).2.1
              (ipf_update_meta_data_node example_env_no_random example_flag_two.1
                example_flag_two.2).2.2).1 with file_status := CRYPTO_ERROR },
          (ipf_clear_update_flag example_env_no_random
              (ipf_update_meta_data_node example_env_no_random example_flag_two.1
                example_flag_two.2).2.1
              (ipf_update_meta_data_node example_env_no_random example_flag_two.1
                example_flag_two.2).2.2).2) ∧
    (ipf_update_meta_data_node example_env_no_random example_flag_two.1
      example_flag_two.2).2.1.file_meta_data.plain_part.update_flag = 2 ∧
    (block_writes ((pf_flush example_env_no_random example_flag_two.1
        example_flag_two.2).2.2.trace.drop example_flag_two.2.trace.length)).map
      (fun w => (w.1, w.2.as_meta.plain_part.update_flag)) = [(0, 2)] ∧
    ((pf_flush example_env_no_random example_flag_two.1 example_flag_two.2).2.2.file
      0).as_meta.plain_part.update_flag = 2 :=
  ⟨by decide!, by decide!, by decide!,
    ipf_internal_flush_meta_failure example_env_no_random example_flag_two.1 example_flag_two.2
      (by decide!) (by decide!) (by decide!),
    by decide!, by decide!, by decide!⟩

/-! ## Theorems: the eviction loop terminates -/

/-- With every cached node clean the eviction loop drops the least recently
used nodes down to the capacity, in as many iterations as there are nodes over
the capacity. -/
theorem evict_nodes_clean (env : Env) (fuel : Nat) (pf : pf_context_t) (h : Host)
    (hc : ∀ n ∈ pf.cache, n.need_writing = false)
    (hf : lruc_size pf.cache - env.MAX_PAGES_IN_CACHE ≤ fuel) :
    evict_nodes env fuel pf h
      = (true, { pf with cache := pf.cache.take env.MAX_PAGES_IN_CACHE }, h) := by
  induction fuel generalizing pf with
  | zero =>
    have hle : lruc_size pf.cache ≤ env.MAX_PAGES_IN_CACHE := by omega
    rw [evict_nodes_of_le env 0 pf h hle, List.take_of_length_le hle]
  | succ fuel ih =>
    by_cases hgt : lruc_size pf.cache > env.MAX_PAGES_IN_CACHE
    · unfold evict_nodes
      rw [if_pos hgt]
      dsimp only
      have hne : pf.cache ≠ [] := by
        intro e
        rw [e] at hgt
        simp [lruc_size] at hgt
      have hlast : lruc_get_last pf.cache = some (pf.cache.getLast hne) :=
        List.getLast?_eq_getLast _ hne
      rw [hlast]
      dsimp only
      rw [hc _ (List.getLast_mem hne)]
      simp only [Bool.not_false, if_true]
      rw [ih]
      · unfold lruc_remove_last
        dsimp only
        congr 2
        rw [List.dropLast_eq_take, List.take_take]
        unfold lruc_size at *
        rw [Nat.min_eq_left (by omega)]
      · intro n hn
        exact hc n (List.mem_of_mem_dropLast hn)
      · unfold lruc_remove_last lruc_size at *
        dsimp only
        rw [List.length_dropLast]
        omega
    · have hle : lruc_size pf.cache ≤ env.MAX_PAGES_IN_CACHE := by omega
      rw [evict_nodes_of_le env _ pf h hle, List.take_of_length_le hle]

theorem evict_nodes_fuel (env : Env) (k : Nat) :
    ∀ (pf : pf_context_t) (h : Host) (fuel1 fuel2 : Nat),
      lruc_size pf.cache - env.MAX_PAGES_IN_CACHE ≤ k → 2 * k ≤ fuel1 → 2 * k ≤ fuel2 →
      (∀ n ∈ pf.cache, n.need_writing = true →
        pf.root_mht.need_writing = true ∧ pf.need_writing = true) →
      (pf.root_mht.need_writing = true →
        pf.need_writing = true ∧ pf.encrypted_part_plain.size > MD_USER_DATA_SIZE) →
      (pf.cache.map (fun x => x.physical_node_number)).Nodup →
      evict_nodes env fuel1 pf h = evict_nodes env fuel2 pf h ∧
      (evict_nodes env fuel1 pf h).2.1.hang = pf.hang := by
  induction k with
  | zero =>
    intro pf h fuel1 fuel2 hk _ _ _ _ _
    have hle : lruc_size pf.cache ≤ env.MAX_PAGES_IN_CACHE := by omega
    rw [evict_nodes_of_le env fuel1 pf h hle, evict_nodes_of_le env fuel2 pf h hle]
    exact ⟨rfl, rfl⟩
  | succ k ih =>
    intro pf h fuel1 fuel2 hk hf1 hf2 hA hJ hK
    by_cases hgt : lruc_size pf.cache > env.MAX_PAGES_IN_CACHE
    · obtain ⟨f1, rfl⟩ : ∃ f1, fuel1 = f1 + 1 := ⟨fuel1 - 1, by omega⟩
      obtain ⟨f2, rfl⟩ : ∃ f2, fuel2 = f2 + 1 := ⟨fuel2 - 1, by omega⟩
      have hne : pf.cache ≠ [] := by
        intro e
        rw [e] at hgt
        simp [lruc_size] at hgt
      have hlast : lruc_get_last pf.cache = some (pf.cache.getLast hne) :=
        List.getLast?_eq_getLast _ hne
      have u : ∀ f, evict_nodes env (f + 1) pf h
          = (if !(pf.cache.getLast hne).need_writing then
              evict_nodes env f { pf with cache := lruc_remove_last pf.cache } h
            else
              match ipf_internal_flush env pf h with
              | (false, pf1, h1) =>
                (false,
                  { pf1 with file_status :=
                      if pf1.file_status = SUCCESS then FLUSH_ERROR else pf1.file_status }, h1)
              | (true, pf1, h1) => evict_nodes env f pf1 h1) := by
        intro f
        conv => lhs; unfold evict_nodes
        rw [if_pos hgt]
        dsimp only
        rw [hlast]
      rw [u f1, u f2]
      cases hnw : (pf.cache.getLast hne).need_writing
      · simp only [Bool.not_false, if_true]
        have := ih { pf with cache := lruc_remove_last pf.cache } h f1 f2
          (by
            unfold lruc_remove_last lruc_size at *
            dsimp only
            rw [List.length_dropLast]
            omega)
          (by omega) (by omega)
          (fun n hn hd => hA n (List.mem_of_mem_dropLast hn) hd) hJ
          (by
            unfold lruc_remove_last
            dsimp only
            rw [List.dropLast_eq_take, List.map_take]
            exact hK.sublist (List.take_sublist _ _))
        exact this
      · simp only [Bool.not_true, Bool.false_eq_true, if_false]
        have hv := ipf_internal_flush_verdict env pf h
        have hcl := ipf_internal_flush_cleans env pf h hA hJ hK
        rcases hc : ipf_internal_flush env pf h with ⟨b, pf1, h1⟩
        rw [hc] at hv hcl
        cases b
        · exact ⟨rfl, hv.1⟩
        · dsimp only at hcl ⊢
          obtain ⟨-, -, c3, c4, -⟩ := hcl rfl
          have hlen : lruc_size pf1.cache = lruc_size pf.cache := by
            have := congrArg List.length c4
            unfold pf_context_t.cache_flags at this
            simpa [lruc_size] using this
          rw [evict_nodes_clean env f1 pf1 h1 c3 (by omega),
            evict_nodes_clean env f2 pf1 h1 c3 (by omega)]
          exact ⟨rfl, hv.1⟩
    · have hle : lruc_size pf.cache ≤ env.MAX_PAGES_IN_CACHE := by omega
      rw [evict_nodes_of_le env fuel1 pf h hle, evict_nodes_of_le env fuel2 pf h hle]
      exact ⟨rfl, rfl⟩

/-- C39: from a state that satisfies Invariant A (a dirty cached node comes
with a dirty root MHT and a context that needs writing), in which a dirty root
MHT comes with a context that needs writing and a plaintext size above
`MD_USER_DATA_SIZE`, and in which the cached nodes have distinct physical
numbers, the eviction loop of `ipf_get_data_node` ends within
`2 * (lruc_size - MAX_PAGES_IN_CACHE)` iterations: it never runs out of fuel
(the ghost flag `hang` is as before) and every larger number of iterations
allowed, the `2 * lruc_size` of `ipf_get_data_node` included, gives the same
result.  An iteration on a cache over its capacity removes the least recently
used node if it is clean; otherwise it flushes, and a failed flush makes the
loop return false, while a successful one leaves the cache as long as it was
with no node dirty, so that the following iterations only remove. -/
theorem eviction_loop_terminates (env : Env) (pf : pf_context_t) (h : Host) (fuel : Nat)
    (hA : ∀ n ∈ pf.cache, n.need_writing = true →
      pf.root_mht.need_writing = true ∧ pf.need_writing = true)
    (hJ : pf.root_mht.need_writing = true →
      pf.need_writing = true ∧ pf.encrypted_part_plain.size > MD_USER_DATA_SIZE)
    (hK : (pf.cache.map (fun x => x.physical_node_number)).Nodup)
    (hfuel : 2 * (lruc_size pf.cache - env.MAX_PAGES_IN_CACHE) ≤ fuel) :
    evict_nodes env fuel pf h
      = evict_nodes env (2 * (lruc_size pf.cache - env.MAX_PAGES_IN_CACHE)) pf h ∧
    evict_nodes env (2 * lruc_size pf.cache) pf h
      = evict_nodes env (2 * (lruc_size pf.cache - env.MAX_PAGES_IN_CACHE)) pf h ∧
    (evict_nodes env fuel pf h).2.1.hang = pf.hang ∧
    (∀ data, lruc_size pf.cache > env.MAX_PAGES_IN_CACHE → lruc_get_last pf.cache = some data →
      (data.need_writing = false →
        evict_nodes env (fuel + 1) pf h
          = evict_nodes env fuel { pf with cache := lruc_remove_last pf.cache } h) ∧
      (data.need_writing = true → (ipf_internal_flush env pf h).1 = false →
        (evict_nodes env (fuel + 1) pf h).1 = false) ∧
      (data.need_writing = true → (ipf_internal_flush env pf h).1 = true →
        evict_nodes env (fuel + 1) pf h
          = evict_nodes env fuel (ipf_internal_flush env pf h).2.1
              (ipf_internal_flush env pf h).2.2 ∧
        lruc_size (ipf_internal_flush env pf h).2.1.cache = lruc_size pf.cache ∧
        (∀ n ∈ (ipf_internal_flush env pf h).2.1.cache, n.need_writing = false) ∧
        evict_nodes env fuel (ipf_internal_flush env pf h).2.1
            (ipf_internal_flush env pf h).2.2
          = (true,
              { (ipf_internal_flush env pf h).2.1 with
                  cache := (ipf_internal_flush env pf h).2.1.cache.take
                    env.MAX_PAGES_IN_CACHE },
              (ipf_internal_flush env pf h).2.2))) := by
  have m := evict_nodes_fuel env (lruc_size pf.cache - env.MAX_PAGES_IN_CACHE) pf h
  refine ⟨(m fuel _ (Nat.le_refl _) hfuel (Nat.le_refl _) hA hJ hK).1,
    (m (2 * lruc_size pf.cache) _ (Nat.le_refl _) (by omega) (Nat.le_refl _) hA hJ hK).1,
    (m fuel fuel (Nat.le_refl _) hfuel hfuel hA hJ hK).2, ?_⟩
  intro data hgt hlast
  have u : evict_nodes env (fuel + 1) pf h
      = (if !data.need_writing then
          evict_nodes env fuel { pf with cache := lruc_remove_last pf.cache } h
        else
          match ipf_internal_flush env pf h with
          | (false, pf1, h1) =>
            (false,
              { pf1 with file_status :=
                  if pf1.file_status = SUCCESS then FLUSH_ERROR else pf1.file_status }, h1)
          | (true, pf1, h1) => evict_nodes env fuel pf1 h1) := by
    conv => lhs; unfold evict_nodes
    rw [if_pos hgt]
    dsimp only
    rw [hlast]
  refine ⟨?_, ?_, ?_⟩
  · intro hd
    rw [u, hd]
    rfl
  · intro hd hf
    rw [u, hd]
    simp only [Bool.not_true, Bool.false_eq_true, if_false]
    rcases hc : ipf_internal_flush env pf h with ⟨b, pf1, h1⟩
    rw [hc] at hf
    dsimp only at hf
    rw [hf]
  · intro hd hok
    obtain ⟨-, -, c3, c4, -⟩ := ipf_internal_flush_cleans env pf h hA hJ hK hok
    have hlen : lruc_size (ipf_internal_flush env pf h).2.1.cache = lruc_size pf.cache := by
      have := congrArg List.length c4
      unfold pf_context_t.cache_flags at this
      simpa [lruc_size] using this
    refine ⟨?_, hlen, c3, ?_⟩
    · rw [u, hd]
      simp only [Bool.not_true, Bool.false_eq_true, if_false]
      rcases hc : ipf_internal_flush env pf h with ⟨b, pf1, h1⟩
      rw [hc] at hok
      dsimp only at hok
      rw [hok]
    · exact evict_nodes_clean env fuel _ _ c3 (by omega)

/-- With a cache capacity of 0, the loop on the rewritten one-node file (data
node 0 dirty): a flush, then the removal of the node; 2 iterations. -/
theorem eviction_loop_terminates_witness :
    (evict_nodes example_env_no_cache 2 example_rewritten.1 example_rewritten.2).2.1.hang
      = false ∧
    (evict_nodes example_env_no_cache 2 example_rewritten.1 example_rewritten.2).1 = true ∧
    lruc_size example_rewritten.1.cache = 1 ∧
    lruc_size (evict_nodes example_env_no_cache 2 example_rewritten.1
      example_rewritten.2).2.1.cache = 0 :=
  have w := eviction_loop_terminates example_env_no_cache example_rewritten.1
    example_rewritten.2 2 (by decide!) (by decide!) (by decide!) (by decide!)
  ⟨w.2.2.1.trans (by decide!), by decide!, by decide!, by decide!⟩

/-- C35 (ancestor pinning), refuted on a failed fetch: the two-level file is opened with an
    empty cache and every allocation succeeds. Fetching data node 3168 reads MHT 1 and MHT 33
    and then fails on the data node, so the parents are not bumped and MHT 33 stays more
    recently used than its parent MHT 1. The next fetch, of data node 0, succeeds, and in the
    state it leaves MHT 33 (physical 3202) is cached ahead of its parent (physical 98). After 47
    successful fetches the eviction loop has removed the parent while MHT 33 is still cached
    with its parent pointer naming the removed node. -/
theorem failed_fetch_breaks_ancestor_pinning :
    example_deep_open.1 = SUCCESS ∧
    (example_deep_open.2.1.map (fun pf => pf.cache.length)) = some 0 ∧
    (example_deep_fetch [3168]).1 = [false] ∧
    (example_deep_fetch [3168, 0]).1 = [false, true] ∧
    (example_deep_fetch [3168, 0]).2.1.cache.map (fun n => n.physical_node_number)
      = [2, 3202, 98] ∧
    ((lruc_find (example_deep_fetch [3168, 0]).2.1.cache 3202).map (fun n => n.parent))
      = some (.cached 98) ∧
    (example_deep_fetch (3168 :: List.range 47)).1 = false :: List.replicate 47 true ∧
    (lruc_find (example_deep_fetch (3168 :: List.range 47)).2.1.cache 98).isSome = false ∧
    ((lruc_find (example_deep_fetch (3168 :: List.range 47)).2.1.cache 3202).map
      (fun n => n.parent)) = some (.cached 98) := by
  decide!

theorem lruc_find_key (cache : List file_node_t) (k : Nat) (n : file_node_t)
    (h : lruc_find cache k = some n) : n.physical_node_number = k := by
  unfold lruc_find at h
  have := List.find?_some h
  simpa using this

theorem lruc_find_mem (cache : List file_node_t) (k : Nat) (n : file_node_t)
    (h : lruc_find cache k = some n) : n ∈ cache :=
  List.mem_of_find?_eq_some h

theorem deref_congr (a b : pf_context_t) (hc : a.cache = b.cache) (hr : a.root_mht = b.root_mht)
    (q : NodePtr) : a.deref q = b.deref q := by
  cases q
  · exact hr
  · unfold pf_context_t.deref
    rw [hc]

theorem resident_congr (a b : pf_context_t) (hc : a.cache = b.cache) (q : NodePtr) :
    a.resident q = b.resident q := by
  cases q
  · rfl
  · unfold pf_context_t.resident
    rw [hc]

theorem resident_modify (pf : pf_context_t) (p : NodePtr) (f : file_node_t → file_node_t)
    (hf : ∀ n, (f n).physical_node_number = n.physical_node_number) (q : NodePtr) :
    (pf.modify p f).resident q = pf.resident q := by
  cases q with
  | root => rfl
  | cached k => exact modify_find_isSome pf p f hf k

theorem deref_modify_ne (pf : pf_context_t) (p q : NodePtr) (f : file_node_t → file_node_t)
    (hf : ∀ n, (f n).physical_node_number = n.physical_node_number) (hne : q ≠ p) :
    (pf.modify p f).deref q = pf.deref q := by
  cases p with
  | root =>
    cases q with
    | root => exact absurd rfl hne
    | cached k => rfl
  | cached k0 =>
    cases q with
    | root => rfl
    | cached k =>
      unfold pf_context_t.modify pf_context_t.deref
      dsimp only
      rw [lruc_find_modify pf.cache k0 k f hf]
      rcases hfind : lruc_find pf.cache k with _ | n
      · rfl
      · have hk := lruc_find_key _ _ _ hfind
        have : n.physical_node_number ≠ k0 := by
          intro c
          apply hne
          rw [← hk, c]
        simp [this]

theorem deref_modify_self (pf : pf_context_t) (p : NodePtr) (f : file_node_t → file_node_t)
    (hf : ∀ n, (f n).physical_node_number = n.physical_node_number)
    (hres : pf.resident p = true) :
    (pf.modify p f).deref p = f (pf.deref p) := by
  cases p with
  | root => rfl
  | cached k =>
    unfold pf_context_t.modify pf_context_t.deref
    dsimp only
    rw [lruc_find_modify pf.cache k k f hf]
    have hres1 : (lruc_find pf.cache k).isSome = true := hres
    rcases hfind : lruc_find pf.cache k with _ | n
    · rw [hfind] at hres1
      simp at hres1
    · have hk := lruc_find_key _ _ _ hfind
      simp [hk]

/-- One step of the re-encryption loops, read through any pointer: the ciphertext of the node
at `p` is replaced, the plaintext of the node at `par` goes through `g`, and nothing else
changes. -/
theorem seal_step_fields (pf : pf_context_t) (p par : NodePtr) (c : Buf)
    (g : file_node_t → file_node_t)
    (hg1 : ∀ n, g n = { n with decrypted := (g n).decrypted })
    (hg2 : ∀ n c, (g { n with encrypted := c }).decrypted = (g n).decrypted)
    (hp : pf.resident p = true) (hpar : pf.resident par = true) (r : NodePtr) :
    ((pf.modify p (fun n => { n with encrypted := c })).modify par g).resident r
      = pf.resident r ∧
    (((pf.modify p (fun n => { n with encrypted := c })).modify par g).deref r).type
      = (pf.deref r).type ∧
    (((pf.modify p (fun n => { n with encrypted := c })).modify par g).deref r).node_number
      = (pf.deref r).node_number ∧
    (((pf.modify p (fun n => { n with encrypted := c })).modify par g).deref r).parent
      = (pf.deref r).parent ∧
    (((pf.modify p (fun n => { n with encrypted := c })).modify par g).deref r).need_writing
      = (pf.deref r).need_writing ∧
    (((pf.modify p (fun n => { n with encrypted := c })).modify par g).deref r).physical_node_number
      = (pf.deref r).physical_node_number ∧
    (((pf.modify p (fun n => { n with encrypted := c })).modify par g).deref r).encrypted
      = (if r = p then c else (pf.deref r).encrypted) ∧
    (((pf.modify p (fun n => { n with encrypted := c })).modify par g).deref r).decrypted
      = (if r = par then (g (pf.deref r)).decrypted else (pf.deref r).decrypted) ∧
    (r ≠ p → r ≠ par →
      ((pf.modify p (fun n => { n with encrypted := c })).modify par g).deref r
        = pf.deref r) := by
  have hgk : ∀ n, (g n).physical_node_number = n.physical_node_number := by
    intro n
    rw [hg1 n]
  have hek : ∀ n : file_node_t,
      ({ n with encrypted := c } : file_node_t).physical_node_number
        = n.physical_node_number := fun _ => rfl
  have hres : ((pf.modify p (fun n => { n with encrypted := c })).modify par g).resident r
      = pf.resident r := by
    rw [resident_modify _ _ _ hgk, resident_modify _ _ _ hek]
  have hpar1 : (pf.modify p (fun n => { n with encrypted := c })).resident par = true := by
    rw [resident_modify _ _ _ hek]
    exact hpar
  have inner : (pf.modify p (fun n => { n with encrypted := c })).deref r
      = if r = p then { pf.deref r with encrypted := c } else pf.deref r := by
    by_cases e : r = p
    · rw [if_pos e, e, deref_modify_self _ _ _ hek hp]
    · rw [if_neg e, deref_modify_ne _ _ _ _ hek e]
  refine ⟨hres, ?_⟩
  by_cases e1 : r = par
  · subst e1
    rw [deref_modify_self _ _ _ hgk hpar1, inner, hg1]
    by_cases e : r = p
    · simp [e, hg2]
    · simp [e]
  · rw [deref_modify_ne _ _ _ _ hgk e1, inner]
    by_cases e : r = p
    · subst e
      simp [e1]
    · simp [e, e1]

theorem SameShape.s_refl (a : pf_context_t) : SameShape a a :=
  fun _ => ⟨rfl, rfl, rfl, rfl, rfl, rfl⟩

theorem SameShape.s_trans {a b c : pf_context_t} (h1 : SameShape a b) (h2 : SameShape b c) :
    SameShape a c := fun q =>
  ⟨(h1 q).1.trans (h2 q).1, (h1 q).2.1.trans (h2 q).2.1,
    (h1 q).2.2.1.trans (h2 q).2.2.1, (h1 q).2.2.2.1.trans (h2 q).2.2.2.1,
    (h1 q).2.2.2.2.1.trans (h2 q).2.2.2.2.1, (h1 q).2.2.2.2.2.trans (h2 q).2.2.2.2.2⟩

theorem SameShape.s_congr (a b : pf_context_t) (hc : a.cache = b.cache)
    (hr : a.root_mht = b.root_mht) : SameShape a b := by
  intro q
  rw [deref_congr a b hc hr q, resident_congr a b hc q]
  exact ⟨rfl, rfl, rfl, rfl, rfl, rfl⟩

theorem Linked.l_transfer {a b : pf_context_t} (hb : Linked b) (hs : SameShape a b) :
    Linked a := by
  unfold Linked
  simp only [(hs _).1, (hs _).2.1, (hs _).2.2.1, (hs _).2.2.2.1, (hs _).2.2.2.2.1]
  exact hb

theorem set_data_node_crypto_data (m : file_node_t) (i : Nat) (e : gcm_crypto_data_t) :
    (m.set_data_node_crypto i e).decrypted.as_mht.data_nodes_crypto
      = Function.update m.decrypted.as_mht.data_nodes_crypto i e := rfl

theorem set_data_node_crypto_mht (m : file_node_t) (i : Nat) (e : gcm_crypto_data_t) :
    (m.set_data_node_crypto i e).decrypted.as_mht.mht_nodes_crypto
      = m.decrypted.as_mht.mht_nodes_crypto := rfl

theorem set_mht_node_crypto_mht (m : file_node_t) (i : Nat) (e : gcm_crypto_data_t) :
    (m.set_mht_node_crypto i e).decrypted.as_mht.mht_nodes_crypto
      = Function.update m.decrypted.as_mht.mht_nodes_crypto i e := rfl

theorem set_mht_node_crypto_data (m : file_node_t) (i : Nat) (e : gcm_crypto_data_t) :
    (m.set_mht_node_crypto i e).decrypted.as_mht.data_nodes_crypto
      = m.decrypted.as_mht.data_nodes_crypto := rfl

/-- The step of the first loop, for the dirty data node at `p`: afterwards the entry in the
parent seals `p`, and every other dirty data node sealed before is still sealed. -/
theorem seal_data_step (env : Env) (pf : pf_context_t) (p par : NodePtr) (cipher : Buf)
    (e : gcm_crypto_data_t) (hl : Linked pf) (hp0 : p ≠ .root) (hp : pf.resident p = true)
    (hpt : (pf.deref p).type = FILE_DATA_NODE_TYPE) (hpd : (pf.deref p).need_writing = true)
    (hpar : (pf.deref p).parent = par)
    (hs : Sealed env (pf.deref p).physical_node_number (.data (pf.deref p).decrypted.as_data)
      cipher e)
    (q : NodePtr) (hq0 : q ≠ .root) (hq : pf.resident q = true)
    (hqt : (pf.deref q).type = FILE_DATA_NODE_TYPE) (hqd : (pf.deref q).need_writing = true)
    (hqs : q = p ∨ DataSealed env pf q) :
    DataSealed env
      ((pf.modify p (fun n => { n with encrypted := cipher })).modify par
        (fun m => m.set_data_node_crypto
          ((pf.deref p).node_number % ATTACHED_DATA_NODES_COUNT) e)) q := by
  obtain ⟨hpar_res, hpar_t, hpar_n, -⟩ := hl.1 p hp0 hp hpd
  rw [hpar] at hpar_res hpar_t hpar_n
  have hF := seal_step_fields pf p par cipher
    (fun m => m.set_data_node_crypto ((pf.deref p).node_number % ATTACHED_DATA_NODES_COUNT) e)
    (fun _ => rfl) (fun _ _ => rfl) hp hpar_res
  have hpne : p ≠ par := by
    intro c
    rw [← c, hpt] at hpar_t
    cases hpar_t
  by_cases hqp : q = p
  · subst hqp
    obtain ⟨-, -, hn, hpa, -, hph, he, hd, -⟩ := hF q
    obtain ⟨-, -, -, -, -, -, -, hd2, -⟩ := hF par
    unfold DataSealed
    rw [hn, hpa, hph, he, hd, if_pos rfl, if_neg hpne, hpar, hd2, if_pos rfl]
    dsimp only
    rw [set_data_node_crypto_data, Function.update_same]
    exact hs
  · have hqs1 : DataSealed env pf q := hqs.resolve_left hqp
    obtain ⟨hqpar_res, hqpar_t, hqpar_n, -⟩ := hl.1 q hq0 hq hqd
    have hqne : q ≠ par := by
      intro c
      rw [← c, hqt] at hpar_t
      cases hpar_t
    have hsame := (hF q).2.2.2.2.2.2.2.2 hqp hqne
    obtain ⟨-, -, -, -, -, -, -, hd2, -⟩ := hF (pf.deref q).parent
    unfold DataSealed
    rw [hsame, hd2]
    by_cases hpq : (pf.deref q).parent = par
    · rw [if_pos hpq]
      dsimp only
      rw [set_data_node_crypto_data, Function.update_noteq]
      · exact hqs1
      · intro c
        apply hqp
        apply hl.2 q p hq0 hp0 hq hp (hqt.trans hpt.symm)
        have h1 := hqpar_n hqt
        have h2 := hpar_n hpt
        rw [hpq] at h1
        rw [h1] at h2
        unfold ATTACHED_DATA_NODES_COUNT at c h2
        omega
    · rw [if_neg hpq]
      exact hqs1

/-- The step of the first loop leaves the shape of every node. -/
theorem seal_step_shape (pf : pf_context_t) (p par : NodePtr) (c : Buf)
    (g : file_node_t → file_node_t)
    (hg1 : ∀ n, g n = { n with decrypted := (g n).decrypted })
    (hg2 : ∀ n c, (g { n with encrypted := c }).decrypted = (g n).decrypted)
    (hp : pf.resident p = true) (hpar : pf.resident par = true) :
    SameShape ((pf.modify p (fun n => { n with encrypted := c })).modify par g) pf := by
  intro r
  obtain ⟨h1, h2, h3, h4, h5, h6, -⟩ := seal_step_fields pf p par c g hg1 hg2 hp hpar r
  exact ⟨h1, h2, h3, h4, h5, h6⟩

theorem DataSealed_congr (env : Env) (a b : pf_context_t) (hd : ∀ q, a.deref q = b.deref q)
    (q : NodePtr) : DataSealed env a q = DataSealed env b q := by
  unfold DataSealed
  simp only [hd]

theorem MhtSealed_congr (env : Env) (a b : pf_context_t) (hd : ∀ q, a.deref q = b.deref q)
    (q : NodePtr) : MhtSealed env a q = MhtSealed env b q := by
  unfold MhtSealed
  simp only [hd]

theorem update_data_nodes_cons_clean (env : Env) (p : NodePtr) (rest : List NodePtr)
    (pf : pf_context_t) (h : Host)
    (c : ¬ ((pf.deref p).type = FILE_DATA_NODE_TYPE && (pf.deref p).need_writing) = true) :
    update_data_nodes env (p :: rest) pf h = update_data_nodes env rest pf h := by
  rw [update_data_nodes]
  simp only [c, if_false]
  rfl

theorem update_data_nodes_cons_no_key (env : Env) (p : NodePtr) (rest : List NodePtr)
    (pf : pf_context_t) (h : Host)
    (c : ((pf.deref p).type = FILE_DATA_NODE_TYPE && (pf.deref p).need_writing) = true)
    (pf1 : pf_context_t) (h1 : Host)
    (hd : ipf_derive_random_node_key env pf h (pf.deref p).physical_node_number
      = (false, pf1, h1)) :
    update_data_nodes env (p :: rest) pf h = (false, pf1, h1) := by
  rw [update_data_nodes]
  simp only [c, hd, if_true]

theorem update_data_nodes_cons_dirty (env : Env) (p : NodePtr) (rest : List NodePtr)
    (pf : pf_context_t) (h : Host)
    (c : ((pf.deref p).type = FILE_DATA_NODE_TYPE && (pf.deref p).need_writing) = true)
    (pf1 : pf_context_t) (h1 : Host)
    (hd : ipf_derive_random_node_key env pf h (pf.deref p).physical_node_number = (true, pf1, h1))
    (st : pf_status_t) (cipher : Buf) (gmac : pf_mac_t)
    (he : env.aes_gcm_encrypt pf1.cur_key none (some (.data (pf.deref p).decrypted.as_data))
      = (st, cipher, gmac)) :
    update_data_nodes env (p :: rest) pf h
      = if PF_FAILURE st then (false, { pf1 with last_error := st }, h1)
        else update_data_nodes env rest
          ((pf1.modify p (fun n => { n with encrypted := cipher })).modify (pf.deref p).parent
            (fun m => m.set_data_node_crypto
              ((pf.deref p).node_number % ATTACHED_DATA_NODES_COUNT) ⟨pf1.cur_key, gmac⟩)) h1 := by
  rw [update_data_nodes]
  simp only [c, hd, he, if_true]

theorem update_mht_nodes_cons_no_key (env : Env) (p : NodePtr) (rest : List NodePtr)
    (pf : pf_context_t) (h : Host) (pf1 : pf_context_t) (h1 : Host)
    (hd : ipf_derive_random_node_key env pf h (pf.deref p).physical_node_number
      = (false, pf1, h1)) :
    update_mht_nodes env (p :: rest) pf h = (false, pf1, h1) := by
  rw [update_mht_nodes]
  simp only [hd]

theorem update_mht_nodes_cons_key (env : Env) (p : NodePtr) (rest : List NodePtr)
    (pf : pf_context_t) (h : Host) (pf1 : pf_context_t) (h1 : Host)
    (hd : ipf_derive_random_node_key env pf h (pf.deref p).physical_node_number = (true, pf1, h1))
    (st : pf_status_t) (cipher : Buf) (gmac : pf_mac_t)
    (he : env.aes_gcm_encrypt pf1.cur_key none (some (.mht (pf.deref p).decrypted.as_mht))
      = (st, cipher, gmac)) :
    update_mht_nodes env (p :: rest) pf h
      = if PF_FAILURE st then (false, { pf1 with last_error := st }, h1)
        else update_mht_nodes env rest
          ((pf1.modify p (fun n => { n with encrypted := cipher })).modify (pf.deref p).parent
            (fun m => m.set_mht_node_crypto
              (u64_sub (pf.deref p).node_number 1 % CHILD_MHT_NODES_COUNT)
              ⟨pf1.cur_key, gmac⟩)) h1 := by
  rw [update_mht_nodes]
  simp only [hd, he]

/-- The first loop of `ipf_update_all_data_and_mht_nodes`, when it succeeds: every dirty data
node it visits ends sealed by its entry in the parent, every dirty data node sealed before
stays sealed, and no node changes its shape. -/
theorem update_data_nodes_seals (env : Env) (l : List NodePtr) :
    ∀ (pf : pf_context_t) (h : Host), Linked pf → l.Nodup →
    (∀ p ∈ l, p ≠ .root ∧ pf.resident p = true) →
    (update_data_nodes env l pf h).1 = true →
    SameShape (update_data_nodes env l pf h).2.1 pf ∧
    ∀ q, q ≠ .root → pf.resident q = true → (pf.deref q).type = FILE_DATA_NODE_TYPE →
      (pf.deref q).need_writing = true → (q ∈ l ∨ DataSealed env pf q) →
      DataSealed env (update_data_nodes env l pf h).2.1 q := by
  induction l with
  | nil =>
    intro pf h _ _ _ _
    refine ⟨SameShape.s_refl pf, ?_⟩
    intro q _ _ _ _ hq
    rcases hq with hq | hq
    · simp at hq
    · exact hq
  | cons p rest ih =>
    intro pf h hl hnd hres hok
    obtain ⟨hp0, hp⟩ := hres p (List.mem_cons_self _ _)
    have hnd1 : rest.Nodup := (List.nodup_cons.mp hnd).2
    have hpn : p ∉ rest := (List.nodup_cons.mp hnd).1
    by_cases c : ((pf.deref p).type = FILE_DATA_NODE_TYPE && (pf.deref p).need_writing) = true
    · have hc := c
      simp only [Bool.and_eq_true, decide_eq_true_eq] at hc
      obtain ⟨hpt, hpd⟩ := hc
      have hc1 := ipf_derive_random_node_key_cache env pf h (pf.deref p).physical_node_number
      have hr1 := ipf_derive_random_node_key_root_mht env pf h (pf.deref p).physical_node_number
      rcases hd : ipf_derive_random_node_key env pf h (pf.deref p).physical_node_number
        with ⟨b, pf1, h1⟩
      rw [hd] at hc1 hr1
      dsimp only at hc1 hr1
      cases b with
      | false =>
        rw [update_data_nodes_cons_no_key env p rest pf h c pf1 h1 hd] at hok
        exact absurd hok (by simp)
      | true =>
        rcases he : env.aes_gcm_encrypt pf1.cur_key none
          (some (.data (pf.deref p).decrypted.as_data)) with ⟨st, cipher, gmac⟩
        rw [update_data_nodes_cons_dirty env p rest pf h c pf1 h1 hd st cipher gmac he] at hok ⊢
        by_cases cf : PF_FAILURE st = true
        · rw [if_pos cf] at hok
          exact absurd hok (by simp)
        · rw [if_neg cf] at hok ⊢
          have hd1 : ∀ q, pf1.deref q = pf.deref q := deref_congr pf1 pf hc1 hr1
          have hs1 : SameShape pf1 pf := SameShape.s_congr pf1 pf hc1 hr1
          have hl1 : Linked pf1 := hl.l_transfer hs1
          have hp1 : pf1.resident p = true := by rw [(hs1 p).1]; exact hp
          have hpar1 : pf1.resident (pf.deref p).parent = true := by
            rw [(hs1 _).1]
            exact (hl.1 p hp0 hp hpd).1
          have hs3 := seal_step_shape pf1 p (pf.deref p).parent cipher
            (fun m => m.set_data_node_crypto
              ((pf.deref p).node_number % ATTACHED_DATA_NODES_COUNT) ⟨pf1.cur_key, gmac⟩)
            (fun _ => rfl) (fun _ _ => rfl) hp1 hpar1
          have hs31 := hs3.s_trans hs1
          have hsl : Sealed env (pf1.deref p).physical_node_number
              (.data (pf1.deref p).decrypted.as_data) cipher ⟨pf1.cur_key, gmac⟩ := by
            rw [hd1]
            refine ⟨⟨pf, h, ?_, ?_⟩, ?_, ?_, ?_⟩
            · rw [hd]
            · rw [hd]
            · show PF_FAILURE (env.aes_gcm_encrypt pf1.cur_key none _).1 = false
              rw [he]
              simpa using cf
            · show (env.aes_gcm_encrypt pf1.cur_key none _).2.1 = cipher
              rw [he]
            · show (env.aes_gcm_encrypt pf1.cur_key none _).2.2 = gmac
              rw [he]
          have step := seal_data_step env pf1 p (pf.deref p).parent cipher ⟨pf1.cur_key, gmac⟩
            hl1 hp0 hp1 (by rw [hd1]; exact hpt) (by rw [hd1]; exact hpd) (by rw [hd1]) hsl
          rw [hd1] at step
          obtain ⟨ih1, ih2⟩ := ih _ h1 (hl1.l_transfer hs3) hnd1
            (fun r hr => ⟨(hres r (List.mem_cons_of_mem _ hr)).1, by
              rw [(hs31 r).1]
              exact (hres r (List.mem_cons_of_mem _ hr)).2⟩) hok
          refine ⟨ih1.s_trans hs31, ?_⟩
          intro q hq0 hq hqt hqd hqs
          apply ih2 q hq0 (by rw [(hs31 q).1]; exact hq) (by rw [(hs31 q).2.1]; exact hqt)
            (by rw [(hs31 q).2.2.2.2.1]; exact hqd)
          by_cases hqr : q ∈ rest
          · exact Or.inl hqr
          · right
            apply step q hq0 (by rw [(hs1 q).1]; exact hq) (by rw [hd1]; exact hqt)
              (by rw [hd1]; exact hqd)
            rcases hqs with hqs | hqs
            · rcases List.mem_cons.mp hqs with e | e
              · exact Or.inl e
              · exact absurd e hqr
            · right
              rw [DataSealed_congr env pf1 pf hd1]
              exact hqs
    · rw [update_data_nodes_cons_clean env p rest pf h c] at hok ⊢
      obtain ⟨ih1, ih2⟩ := ih pf h hl hnd1 (fun r hr => hres r (List.mem_cons_of_mem _ hr)) hok
      refine ⟨ih1, ?_⟩
      intro q hq0 hq hqt hqd hqs
      apply ih2 q hq0 hq hqt hqd
      rcases hqs with hqs | hqs
      · rcases List.mem_cons.mp hqs with e | e
        · subst e
          exfalso
          apply c
          rw [hqd]
          simp [hqt]
        · exact Or.inl e
      · exact Or.inr hqs

theorem u64_sub_one (n : Nat) (h1 : 1 ≤ n) (h2 : n < U64) : u64_sub n 1 = n - 1 := by
  unfold u64_sub
  unfold U64 at h2 ⊢
  norm_num
  omega

/-- The step of the third loop, for the dirty MHT node at `p`: afterwards the entry in the
parent seals `p`, and every dirty MHT node with no lower number that was sealed before is
still sealed. -/
theorem seal_mht_step (env : Env) (pf : pf_context_t) (p par : NodePtr) (cipher : Buf)
    (e : gcm_crypto_data_t) (hl : Linked pf) (hp0 : p ≠ .root) (hp : pf.resident p = true)
    (hpt : (pf.deref p).type = FILE_MHT_NODE_TYPE) (hpd : (pf.deref p).need_writing = true)
    (hpar : (pf.deref p).parent = par)
    (hs : Sealed env (pf.deref p).physical_node_number (.mht (pf.deref p).decrypted.as_mht)
      cipher e)
    (q : NodePtr) (hq0 : q ≠ .root) (hq : pf.resident q = true)
    (hqt : (pf.deref q).type = FILE_MHT_NODE_TYPE) (hqd : (pf.deref q).need_writing = true)
    (hqs : q = p ∨
      (MhtSealed env pf q ∧ (pf.deref p).node_number ≤ (pf.deref q).node_number)) :
    MhtSealed env
      ((pf.modify p (fun n => { n with encrypted := cipher })).modify par
        (fun m => m.set_mht_node_crypto
          (u64_sub (pf.deref p).node_number 1 % CHILD_MHT_NODES_COUNT) e)) q := by
  obtain ⟨hpar_res, -, -, hpar_n⟩ := hl.1 p hp0 hp hpd
  obtain ⟨hp1, hp2, hpn⟩ := hpar_n hpt
  rw [hpar] at hpar_res hpn
  rw [u64_sub_one _ hp1 hp2]
  have hF := seal_step_fields pf p par cipher
    (fun m => m.set_mht_node_crypto (((pf.deref p).node_number - 1) % CHILD_MHT_NODES_COUNT) e)
    (fun _ => rfl) (fun _ _ => rfl) hp hpar_res
  have hlt : (pf.deref par).node_number < (pf.deref p).node_number := by
    rw [hpn]
    unfold CHILD_MHT_NODES_COUNT
    omega
  have hpne : p ≠ par := by
    intro c
    rw [← c] at hlt
    exact Nat.lt_irrefl _ hlt
  by_cases hqp : q = p
  · subst hqp
    obtain ⟨-, -, hn, hpa, -, hph, he, hd, -⟩ := hF q
    obtain ⟨-, -, -, -, -, -, -, hd2, -⟩ := hF par
    unfold MhtSealed
    rw [hn, hpa, hph, he, hd, if_pos rfl, if_neg hpne, hpar, hd2, if_pos rfl]
    dsimp only
    rw [set_mht_node_crypto_mht, Function.update_same]
    exact hs
  · obtain ⟨hqs1, hle⟩ := hqs.resolve_left hqp
    obtain ⟨-, -, -, hqpar_n⟩ := hl.1 q hq0 hq hqd
    obtain ⟨hq1, hq2, hqn⟩ := hqpar_n hqt
    have hqne : q ≠ par := by
      intro c
      rw [← c] at hlt
      omega
    have hsame := (hF q).2.2.2.2.2.2.2.2 hqp hqne
    obtain ⟨-, -, -, -, -, -, -, hd2, -⟩ := hF (pf.deref q).parent
    unfold MhtSealed
    rw [hsame, hd2]
    by_cases hpq : (pf.deref q).parent = par
    · rw [if_pos hpq]
      dsimp only
      rw [set_mht_node_crypto_mht, Function.update_noteq]
      · exact hqs1
      · intro c
        apply hqp
        apply hl.2 q p hq0 hp0 hq hp (hqt.trans hpt.symm)
        rw [hpq, hpn] at hqn
        unfold CHILD_MHT_NODES_COUNT at c hqn
        omega
    · rw [if_neg hpq]
      exact hqs1

/-- The step of the third loop leaves every sealed dirty data node sealed. -/
theorem seal_mht_step_data (env : Env) (pf : pf_context_t) (p par : NodePtr) (cipher : Buf)
    (e : gcm_crypto_data_t) (i : Nat) (hl : Linked pf) (hp0 : p ≠ .root)
    (hp : pf.resident p = true)
    (hpt : (pf.deref p).type = FILE_MHT_NODE_TYPE) (hpd : (pf.deref p).need_writing = true)
    (hpar : (pf.deref p).parent = par)
    (q : NodePtr) (hqt : (pf.deref q).type = FILE_DATA_NODE_TYPE)
    (hqs : DataSealed env pf q) :
    DataSealed env
      ((pf.modify p (fun n => { n with encrypted := cipher })).modify par
        (fun m => m.set_mht_node_crypto i e)) q := by
  obtain ⟨hpar_res, hpar_t, -, -⟩ := hl.1 p hp0 hp hpd
  rw [hpar] at hpar_res hpar_t
  have hF := seal_step_fields pf p par cipher (fun m => m.set_mht_node_crypto i e)
    (fun _ => rfl) (fun _ _ => rfl) hp hpar_res
  have hqp : q ≠ p := by
    intro c
    rw [c, hpt] at hqt
    cases hqt
  have hqne : q ≠ par := by
    intro c
    rw [c, hpar_t] at hqt
    cases hqt
  have hsame := (hF q).2.2.2.2.2.2.2.2 hqp hqne
  obtain ⟨-, -, -, -, -, -, -, hd2, -⟩ := hF (pf.deref q).parent
  unfold DataSealed
  rw [hsame, hd2]
  by_cases hpq : (pf.deref q).parent = par
  · rw [if_pos hpq]
    dsimp only
    rw [set_mht_node_crypto_data]
    exact hqs
  · rw [if_neg hpq]
    exact hqs

/-- The third loop of `ipf_update_all_data_and_mht_nodes` over a list in which no node has a
lower number than a later one, when it succeeds: every MHT node of the list ends sealed by its
entry in the parent, every dirty MHT node sealed before and numbered no lower than the list
stays sealed, the sealed dirty data nodes stay sealed, and no node changes its shape. -/
theorem update_mht_nodes_seals (env : Env) (l : List NodePtr) :
    ∀ (pf : pf_context_t) (h : Host), Linked pf → l.Nodup →
    (∀ p ∈ l, p ≠ .root ∧ pf.resident p = true ∧ (pf.deref p).type = FILE_MHT_NODE_TYPE ∧
      (pf.deref p).need_writing = true) →
    l.Pairwise (fun a b => (pf.deref b).node_number ≤ (pf.deref a).node_number) →
    (update_mht_nodes env l pf h).1 = true →
    SameShape (update_mht_nodes env l pf h).2.1 pf ∧
    (∀ q, (pf.deref q).type = FILE_DATA_NODE_TYPE → DataSealed env pf q →
      DataSealed env (update_mht_nodes env l pf h).2.1 q) ∧
    ∀ q, q ≠ .root → pf.resident q = true → (pf.deref q).type = FILE_MHT_NODE_TYPE →
      (pf.deref q).need_writing = true →
      (q ∈ l ∨ (MhtSealed env pf q ∧
        ∀ r ∈ l, (pf.deref r).node_number ≤ (pf.deref q).node_number)) →
      MhtSealed env (update_mht_nodes env l pf h).2.1 q := by
  induction l with
  | nil =>
    intro pf h _ _ _ _ _
    refine ⟨SameShape.s_refl pf, fun _ _ hq => hq, ?_⟩
    intro q _ _ _ _ hq
    rcases hq with hq | hq
    · simp at hq
    · exact hq.1
  | cons p rest ih =>
    intro pf h hl hnd hres hsort hok
    obtain ⟨hp0, hp, hpt, hpd⟩ := hres p (List.mem_cons_self _ _)
    have hnd1 : rest.Nodup := (List.nodup_cons.mp hnd).2
    have hpn : p ∉ rest := (List.nodup_cons.mp hnd).1
    have hsort1 := (List.pairwise_cons.mp hsort).2
    have hhead := (List.pairwise_cons.mp hsort).1
    have hc1 := ipf_derive_random_node_key_cache env pf h (pf.deref p).physical_node_number
    have hr1 := ipf_derive_random_node_key_root_mht env pf h (pf.deref p).physical_node_number
    rcases hd : ipf_derive_random_node_key env pf h (pf.deref p).physical_node_number
      with ⟨b, pf1, h1⟩
    rw [hd] at hc1 hr1
    dsimp only at hc1 hr1
    cases b with
    | false =>
      rw [update_mht_nodes_cons_no_key env p rest pf h pf1 h1 hd] at hok
      exact absurd hok (by simp)
    | true =>
      rcases he : env.aes_gcm_encrypt pf1.cur_key none
        (some (.mht (pf.deref p).decrypted.as_mht)) with ⟨st, cipher, gmac⟩
      rw [update_mht_nodes_cons_key env p rest pf h pf1 h1 hd st cipher gmac he] at hok ⊢
      by_cases cf : PF_FAILURE st = true
      · rw [if_pos cf] at hok
        exact absurd hok (by simp)
      · rw [if_neg cf] at hok ⊢
        have hd1 : ∀ q, pf1.deref q = pf.deref q := deref_congr pf1 pf hc1 hr1
        have hs1 : SameShape pf1 pf := SameShape.s_congr pf1 pf hc1 hr1
        have hl1 : Linked pf1 := hl.l_transfer hs1
        have hp1 : pf1.resident p = true := by rw [(hs1 p).1]; exact hp
        have hpar1 : pf1.resident (pf.deref p).parent = true := by
          rw [(hs1 _).1]
          exact (hl.1 p hp0 hp hpd).1
        have hs3 := seal_step_shape pf1 p (pf.deref p).parent cipher
          (fun m => m.set_mht_node_crypto
            (u64_sub (pf.deref p).node_number 1 % CHILD_MHT_NODES_COUNT) ⟨pf1.cur_key, gmac⟩)
          (fun _ => rfl) (fun _ _ => rfl) hp1 hpar1
        have hs31 := hs3.s_trans hs1
        have hsl : Sealed env (pf1.deref p).physical_node_number
            (.mht (pf1.deref p).decrypted.as_mht) cipher ⟨pf1.cur_key, gmac⟩ := by
          rw [hd1]
          refine ⟨⟨pf, h, ?_, ?_⟩, ?_, ?_, ?_⟩
          · rw [hd]
          · rw [hd]
          · show PF_FAILURE (env.aes_gcm_encrypt pf1.cur_key none _).1 = false
            rw [he]
            simpa using cf
          · show (env.aes_gcm_encrypt pf1.cur_key none _).2.1 = cipher
            rw [he]
          · show (env.aes_gcm_encrypt pf1.cur_key none _).2.2 = gmac
            rw [he]
        have step := seal_mht_step env pf1 p (pf.deref p).parent cipher ⟨pf1.cur_key, gmac⟩
          hl1 hp0 hp1 (by rw [hd1]; exact hpt) (by rw [hd1]; exact hpd) (by rw [hd1]) hsl
        have stepd := seal_mht_step_data env pf1 p (pf.deref p).parent cipher
          ⟨pf1.cur_key, gmac⟩ (u64_sub (pf.deref p).node_number 1 % CHILD_MHT_NODES_COUNT)
          hl1 hp0 hp1 (by rw [hd1]; exact hpt) (by rw [hd1]; exact hpd) (by rw [hd1])
        rw [hd1] at step
        obtain ⟨ih1, ih2, ih3⟩ := ih _ h1 (hl1.l_transfer hs3) hnd1
          (fun r hr => by
            obtain ⟨a1, a2, a3, a4⟩ := hres r (List.mem_cons_of_mem _ hr)
            refine ⟨a1, ?_, ?_, ?_⟩
            · rw [(hs31 r).1]; exact a2
            · rw [(hs31 r).2.1]; exact a3
            · rw [(hs31 r).2.2.2.2.1]; exact a4)
          (hsort1.imp (fun {a b} hab => by
            rw [(hs31 a).2.2.1, (hs31 b).2.2.1]
            exact hab)) hok
        refine ⟨ih1.s_trans hs31, ?_, ?_⟩
        · intro q hqt hqs
          apply ih2 q (by rw [(hs31 q).2.1]; exact hqt)
          apply stepd q (by rw [hd1]; exact hqt)
          rw [DataSealed_congr env pf1 pf hd1]
          exact hqs
        · intro q hq0 hq hqt hqd hqs
          apply ih3 q hq0 (by rw [(hs31 q).1]; exact hq) (by rw [(hs31 q).2.1]; exact hqt)
            (by rw [(hs31 q).2.2.2.2.1]; exact hqd)
          by_cases hqr : q ∈ rest
          · exact Or.inl hqr
          · right
            have hq3 : (q = p ∨ (MhtSealed env pf1 q ∧
                (pf.deref p).node_number ≤ (pf1.deref q).node_number)) := by
              rcases hqs with hqs | hqs
              · rcases List.mem_cons.mp hqs with e | e
                · exact Or.inl e
                · exact absurd e hqr
              · right
                rw [MhtSealed_congr env pf1 pf hd1, hd1]
                exact ⟨hqs.1, hqs.2 p (List.mem_cons_self _ _)⟩
            refine ⟨step q hq0 (by rw [(hs1 q).1]; exact hq) (by rw [hd1]; exact hqt)
              (by rw [hd1]; exact hqd) hq3, ?_⟩
            intro r hr
            rw [(hs31 r).2.2.1, (hs31 q).2.2.1]
            rcases hqs with hqs | hqs
            · rcases List.mem_cons.mp hqs with e | e
              · rw [e]
                exact hhead r hr
              · exact absurd e hqr
            · exact hqs.2 r (List.mem_cons_of_mem _ hr)

theorem listp_sort_inner_by {α : Type} (g : α → file_node_t) (outer : α) (rest : List α) :
    ∃ m rest1, listp_sort_inner (fun a b => mht_sort (g a) (g b)) outer rest = m :: rest1 ∧
      (m :: rest1).Perm (outer :: rest) ∧
      ∀ x ∈ rest1, (g x).node_number ≤ (g m).node_number := by
  induction rest generalizing outer with
  | nil => exact ⟨outer, [], rfl, List.Perm.refl _, fun x hx => by simp at hx⟩
  | cons inner rest ih =>
    unfold listp_sort_inner
    by_cases c : (!mht_sort (g outer) (g inner)) = true
    · rw [if_pos c]
      obtain ⟨m, rest1, e, p, hmax⟩ := ih inner
      rw [e]
      refine ⟨m, outer :: rest1, rfl, ?_, ?_⟩
      · exact ((List.Perm.swap outer m rest1).trans (List.Perm.cons outer p)).trans
          (List.Perm.refl _)
      · intro x hx
        rcases List.mem_cons.mp hx with hx | hx
        · subst hx
          have hle : (g x).node_number ≤ (g inner).node_number := by
            simpa [mht_sort] using c
          have hin : inner ∈ m :: rest1 := p.symm.subset (List.mem_cons_self _ _)
          rcases List.mem_cons.mp hin with hi | hi
          · rw [← hi]; exact hle
          · exact Nat.le_trans hle (hmax _ hi)
        · exact hmax _ hx
    · rw [if_neg c]
      obtain ⟨m, rest1, e, p, hmax⟩ := ih outer
      rw [e]
      refine ⟨m, inner :: rest1, rfl, ?_, ?_⟩
      · exact ((List.Perm.swap inner m rest1).trans (List.Perm.cons inner p)).trans
          (List.Perm.swap outer inner rest)
      · intro x hx
        rcases List.mem_cons.mp hx with hx | hx
        · subst hx
          have hlt : (g x).node_number < (g outer).node_number := by
            simpa [mht_sort] using c
          have hin : outer ∈ m :: rest1 := p.symm.subset (List.mem_cons_self _ _)
          rcases List.mem_cons.mp hin with hi | hi
          · rw [← hi]; exact Nat.le_of_lt hlt
          · exact Nat.le_trans (Nat.le_of_lt hlt) (hmax _ hi)
        · exact hmax _ hx

/-- `LISTP_SORT` of a list of pointers by `mht_sort` of the nodes they lead to: a permutation
in which no node has a lower number than a later one. -/
theorem listp_sort_outer_by {α : Type} (g : α → file_node_t) (fuel : Nat) (l : List α)
    (hf : l.length ≤ fuel) :
    (listp_sort_outer (fun a b => mht_sort (g a) (g b)) fuel l).Perm l ∧
    (listp_sort_outer (fun a b => mht_sort (g a) (g b)) fuel l).Pairwise
      (fun a b => (g b).node_number ≤ (g a).node_number) := by
  induction fuel generalizing l with
  | zero =>
    have : l = [] := List.length_eq_zero.mp (Nat.le_zero.mp hf)
    subst this
    exact ⟨List.Perm.refl _, List.Pairwise.nil⟩
  | succ fuel ih =>
    cases l with
    | nil => exact ⟨List.Perm.refl _, List.Pairwise.nil⟩
    | cons outer rest =>
      unfold listp_sort_outer
      obtain ⟨m, rest1, e, p, hmax⟩ := listp_sort_inner_by g outer rest
      rw [e]
      try dsimp only
      have hlen : rest1.length ≤ fuel := by
        have := p.length_eq
        simp only [List.length_cons] at this hf
        omega
      obtain ⟨p1, s1⟩ := ih rest1 hlen
      refine ⟨(List.Perm.cons m p1).trans p, ?_⟩
      refine List.Pairwise.cons ?_ s1
      intro x hx
      exact hmax x (p1.subset hx)

/-- The second loop collects exactly the listed pointers that lead to a dirty MHT node, each
once when the list names each once. -/
theorem collect_mht_list_spec (pf : pf_context_t) (l : List NodePtr) :
    ∀ acc : List NodePtr,
    (∀ q, q ∈ collect_mht_list pf l acc ↔
      (q ∈ acc ∨ (q ∈ l ∧ (pf.deref q).type = FILE_MHT_NODE_TYPE ∧
        (pf.deref q).need_writing = true))) ∧
    ((l ++ acc).Nodup → (collect_mht_list pf l acc).Nodup) := by
  induction l with
  | nil =>
    intro acc
    refine ⟨fun q => ?_, fun h => ?_⟩
    · simp [collect_mht_list]
    · simpa [collect_mht_list] using h
  | cons p rest ih =>
    intro acc
    rw [collect_mht_list]
    by_cases c : ((pf.deref p).type = FILE_MHT_NODE_TYPE && (pf.deref p).need_writing) = true
    · have hc := c
      simp only [Bool.and_eq_true, decide_eq_true_eq] at hc
      simp only [c, if_true]
      obtain ⟨i1, i2⟩ := ih (p :: acc)
      refine ⟨fun q => ?_, fun h => ?_⟩
      · rw [i1 q]
        constructor
        · rintro (hq | hq)
          · rcases List.mem_cons.mp hq with e | e
            · subst e
              exact Or.inr ⟨List.mem_cons_self _ _, hc.1, hc.2⟩
            · exact Or.inl e
          · exact Or.inr ⟨List.mem_cons_of_mem _ hq.1, hq.2⟩
        · rintro (hq | ⟨hq, ht⟩)
          · exact Or.inl (List.mem_cons_of_mem _ hq)
          · rcases List.mem_cons.mp hq with e | e
            · exact Or.inl (e ▸ List.mem_cons_self _ _)
            · exact Or.inr ⟨e, ht⟩
      · apply i2
        have : (rest ++ p :: acc).Perm (p :: rest ++ acc) := by
          simp
        exact this.nodup_iff.mpr h
    · simp only [c, Bool.false_eq_true, if_false]
      have hc : ¬ ((pf.deref p).type = FILE_MHT_NODE_TYPE ∧ (pf.deref p).need_writing = true) := by
        intro hc
        apply c
        simp [hc.1, hc.2]
      obtain ⟨i1, i2⟩ := ih acc
      refine ⟨fun q => ?_, fun h => ?_⟩
      · rw [i1 q]
        constructor
        · rintro (hq | hq)
          · exact Or.inl hq
          · exact Or.inr ⟨List.mem_cons_of_mem _ hq.1, hq.2⟩
        · rintro (hq | ⟨hq, ht⟩)
          · exact Or.inl hq
          · rcases List.mem_cons.mp hq with e | e
            · subst e
              exact absurd ht hc
            · exact Or.inr ⟨e, ht⟩
      · apply i2
        exact (List.nodup_cons.mp (by simpa using h)).2

theorem resident_of_mem (pf : pf_context_t) (n : file_node_t) (hn : n ∈ pf.cache) :
    pf.resident (.cached n.physical_node_number) = true := by
  unfold pf_context_t.resident lruc_find
  dsimp only
  rw [List.find?_isSome]
  exact ⟨n, hn, by simp⟩

theorem deref_of_mem (pf : pf_context_t) (n : file_node_t) (hn : n ∈ pf.cache)
    (hk : (pf.cache.map (fun m => m.physical_node_number)).Nodup) :
    pf.deref (.cached n.physical_node_number) = n := by
  unfold pf_context_t.deref
  dsimp only
  rw [lruc_find_of_mem pf.cache n hn hk]
  rfl

theorem mem_of_resident (pf : pf_context_t) (k : Nat)
    (hr : pf.resident (.cached k) = true) :
    pf.deref (.cached k) ∈ pf.cache ∧ (pf.deref (.cached k)).physical_node_number = k := by
  have hr1 : (lruc_find pf.cache k).isSome = true := hr
  unfold pf_context_t.deref
  dsimp only
  rcases hfind : lruc_find pf.cache k with _ | n
  · rw [hfind] at hr1
    simp at hr1
  · exact ⟨lruc_find_mem _ _ _ hfind, lruc_find_key _ _ _ hfind⟩

/-- The tree shape stated on the cache list gives the tree shape read through pointers. -/
theorem linked_of_cache (pf : pf_context_t)
    (hN : ∀ a ∈ pf.cache, ∀ b ∈ pf.cache, a.type = b.type → a.node_number = b.node_number →
      a.physical_node_number = b.physical_node_number)
    (hP : ∀ n ∈ pf.cache, n.need_writing = true →
      pf.resident n.parent = true ∧ (pf.deref n.parent).type = FILE_MHT_NODE_TYPE ∧
      (n.type = FILE_DATA_NODE_TYPE →
        (pf.deref n.parent).node_number = n.node_number / ATTACHED_DATA_NODES_COUNT) ∧
      (n.type = FILE_MHT_NODE_TYPE → 1 ≤ n.node_number ∧ n.node_number < U64 ∧
        (pf.deref n.parent).node_number = (n.node_number - 1) / CHILD_MHT_NODES_COUNT)) :
    Linked pf := by
  constructor
  · intro q hq0 hq hqd
    cases q with
    | root => exact absurd rfl hq0
    | cached k => exact hP _ (mem_of_resident pf k hq).1 hqd
  · intro q r hq0 hr0 hq hr ht hn
    cases q with
    | root => exact absurd rfl hq0
    | cached k =>
      cases r with
      | root => exact absurd rfl hr0
      | cached k1 =>
        have e := hN _ (mem_of_resident pf k hq).1 _ (mem_of_resident pf k1 hr).1 ht hn
        rw [(mem_of_resident pf k hq).2, (mem_of_resident pf k1 hr).2] at e
        rw [e]

theorem cache_ptrs_mem (pf : pf_context_t) (p : NodePtr) (hp : p ∈ cache_ptrs pf) :
    p ≠ .root ∧ pf.resident p = true := by
  unfold cache_ptrs at hp
  obtain ⟨n, hn, e⟩ := List.mem_map.mp hp
  subst e
  exact ⟨by simp, resident_of_mem pf n hn⟩

theorem mem_cache_ptrs (pf : pf_context_t) (q : NodePtr) (hq0 : q ≠ .root)
    (hq : pf.resident q = true) : q ∈ cache_ptrs pf := by
  cases q with
  | root => exact absurd rfl hq0
  | cached k =>
    unfold cache_ptrs
    refine List.mem_map.mpr ⟨pf.deref (.cached k), (mem_of_resident pf k hq).1, ?_⟩
    rw [(mem_of_resident pf k hq).2]

theorem cache_ptrs_nodup (pf : pf_context_t)
    (hk : (pf.cache.map (fun m => m.physical_node_number)).Nodup) : (cache_ptrs pf).Nodup := by
  have : cache_ptrs pf = (pf.cache.map (fun m => m.physical_node_number)).map NodePtr.cached := by
    unfold cache_ptrs
    rw [List.map_map]
    rfl
  rw [this]
  exact hk.map (fun a b e => by injection e)

theorem keys_of_cache_flags (a b : pf_context_t) (h : a.cache_flags = b.cache_flags) :
    a.cache.map (fun m => m.physical_node_number)
      = b.cache.map (fun m => m.physical_node_number) := by
  have := congrArg (List.map (fun x : Nat × Bool × Bool => x.1)) h
  unfold pf_context_t.cache_flags at this
  rw [List.map_map, List.map_map] at this
  exact this

/-- Replacing the ciphertext of the root MHT leaves the cached nodes sealed. -/
theorem DataSealed_root_enc (env : Env) (a b : pf_context_t) (c : Buf)
    (hc : a.cache = b.cache) (hr : a.root_mht = { b.root_mht with encrypted := c })
    (q : NodePtr) (hq0 : q ≠ .root) (h : DataSealed env b q) : DataSealed env a q := by
  have hd : ∀ r, r ≠ .root → a.deref r = b.deref r := by
    intro r hr0
    cases r with
    | root => exact absurd rfl hr0
    | cached k =>
      unfold pf_context_t.deref
      rw [hc]
  have hdd : ∀ r, (a.deref r).decrypted = (b.deref r).decrypted := by
    intro r
    cases r with
    | root =>
      show a.root_mht.decrypted = b.root_mht.decrypted
      rw [hr]
    | cached k => rw [hd _ (by simp)]
  unfold DataSealed
  rw [hd q hq0, hdd]
  exact h

theorem MhtSealed_root_enc (env : Env) (a b : pf_context_t) (c : Buf)
    (hc : a.cache = b.cache) (hr : a.root_mht = { b.root_mht with encrypted := c })
    (q : NodePtr) (hq0 : q ≠ .root) (h : MhtSealed env b q) : MhtSealed env a q := by
  have hd : ∀ r, r ≠ .root → a.deref r = b.deref r := by
    intro r hr0
    cases r with
    | root => exact absurd rfl hr0
    | cached k =>
      unfold pf_context_t.deref
      rw [hc]
  have hdd : ∀ r, (a.deref r).decrypted = (b.deref r).decrypted := by
    intro r
    cases r with
    | root =>
      show a.root_mht.decrypted = b.root_mht.decrypted
      rw [hr]
    | cached k => rw [hd _ (by simp)]
  unfold MhtSealed
  rw [hd q hq0, hdd]
  exact h

theorem SameShape_root_enc (a b : pf_context_t) (c : Buf)
    (hc : a.cache = b.cache) (hr : a.root_mht = { b.root_mht with encrypted := c }) :
    SameShape a b := by
  intro q
  cases q with
  | root =>
    show _ ∧ a.root_mht.type = b.root_mht.type ∧ a.root_mht.node_number = b.root_mht.node_number ∧
      a.root_mht.parent = b.root_mht.parent ∧ a.root_mht.need_writing = b.root_mht.need_writing ∧
      a.root_mht.physical_node_number = b.root_mht.physical_node_number
    rw [hr]
    exact ⟨rfl, rfl, rfl, rfl, rfl, rfl⟩
  | cached k =>
    unfold pf_context_t.resident pf_context_t.deref
    rw [hc]
    exact ⟨rfl, rfl, rfl, rfl, rfl, rfl⟩

theorem ipf_update_all_data_and_mht_nodes_no_data (env : Env) (pf : pf_context_t) (h : Host)
    (pf1 : pf_context_t) (hh1 : Host)
    (h1 : update_data_nodes env (cache_ptrs pf) pf h = (false, pf1, hh1)) :
    ipf_update_all_data_and_mht_nodes env pf h = (false, pf1, hh1) := by
  rw [ipf_update_all_data_and_mht_nodes]
  simp only [h1]

theorem ipf_update_all_data_and_mht_nodes_no_mht (env : Env) (pf : pf_context_t) (h : Host)
    (pf1 : pf_context_t) (hh1 : Host)
    (h1 : update_data_nodes env (cache_ptrs pf) pf h = (true, pf1, hh1))
    (pf2 : pf_context_t) (hh2 : Host)
    (h2 : update_mht_nodes env
      (LISTP_SORT (fun a b => mht_sort (pf1.deref a) (pf1.deref b))
        (collect_mht_list pf1 (cache_ptrs pf1) [])) pf1 hh1 = (false, pf2, hh2)) :
    ipf_update_all_data_and_mht_nodes env pf h = (false, pf2, hh2) := by
  rw [ipf_update_all_data_and_mht_nodes]
  simp only [h1, h2]

theorem ipf_update_all_data_and_mht_nodes_no_key (env : Env) (pf : pf_context_t) (h : Host)
    (pf1 : pf_context_t) (hh1 : Host)
    (h1 : update_data_nodes env (cache_ptrs pf) pf h = (true, pf1, hh1))
    (pf2 : pf_context_t) (hh2 : Host)
    (h2 : update_mht_nodes env
      (LISTP_SORT (fun a b => mht_sort (pf1.deref a) (pf1.deref b))
        (collect_mht_list pf1 (cache_ptrs pf1) [])) pf1 hh1 = (true, pf2, hh2))
    (pf3 : pf_context_t) (hh3 : Host)
    (h3 : ipf_derive_random_node_key env pf2 hh2 pf2.root_mht.physical_node_number
      = (false, pf3, hh3)) :
    ipf_update_all_data_and_mht_nodes env pf h = (false, pf3, hh3) := by
  rw [ipf_update_all_data_and_mht_nodes]
  simp only [h1, h2, h3]

theorem ipf_update_all_data_and_mht_nodes_root (env : Env) (pf : pf_context_t) (h : Host)
    (pf1 : pf_context_t) (hh1 : Host)
    (h1 : update_data_nodes env (cache_ptrs pf) pf h = (true, pf1, hh1))
    (pf2 : pf_context_t) (hh2 : Host)
    (h2 : update_mht_nodes env
      (LISTP_SORT (fun a b => mht_sort (pf1.deref a) (pf1.deref b))
        (collect_mht_list pf1 (cache_ptrs pf1) [])) pf1 hh1 = (true, pf2, hh2))
    (pf3 : pf_context_t) (hh3 : Host)
    (h3 : ipf_derive_random_node_key env pf2 hh2 pf2.root_mht.physical_node_number
      = (true, pf3, hh3))
    (st : pf_status_t) (cipher : Buf) (gmac : pf_mac_t)
    (he : env.aes_gcm_encrypt pf3.cur_key none (some (.mht pf3.root_mht.decrypted.as_mht))
      = (st, cipher, gmac)) :
    ipf_update_all_data_and_mht_nodes env pf h
      = if PF_FAILURE st then (false, { pf3 with last_error := st }, hh3)
        else
          (true,
            { pf3 with
                root_mht := { pf3.root_mht with encrypted := cipher },
                encrypted_part_plain :=
                  { pf3.encrypted_part_plain with mht_gmac := gmac, mht_key := pf3.cur_key } },
            hh3) := by
  rw [ipf_update_all_data_and_mht_nodes]
  simp only [h1, h2, h3, he]

/-- What a successful `ipf_update_all_data_and_mht_nodes` leaves, read through pointers: every
dirty cached node is sealed by its entry in the parent, and the root MHT by the metadata. -/
theorem ipf_update_all_data_and_mht_nodes_seals (env : Env) (pf : pf_context_t) (h : Host)
    (hk : (pf.cache.map (fun m => m.physical_node_number)).Nodup) (hl : Linked pf)
    (hok : (ipf_update_all_data_and_mht_nodes env pf h).1 = true) :
    SameShape (ipf_update_all_data_and_mht_nodes env pf h).2.1 pf ∧
    (∀ q, q ≠ .root → pf.resident q = true → (pf.deref q).need_writing = true →
      ((pf.deref q).type = FILE_DATA_NODE_TYPE →
        DataSealed env (ipf_update_all_data_and_mht_nodes env pf h).2.1 q) ∧
      ((pf.deref q).type = FILE_MHT_NODE_TYPE →
        MhtSealed env (ipf_update_all_data_and_mht_nodes env pf h).2.1 q)) ∧
    Sealed env (ipf_update_all_data_and_mht_nodes env pf h).2.1.root_mht.physical_node_number
      (.mht (ipf_update_all_data_and_mht_nodes env pf h).2.1.root_mht.decrypted.as_mht)
      (ipf_update_all_data_and_mht_nodes env pf h).2.1.root_mht.encrypted
      ⟨(ipf_update_all_data_and_mht_nodes env pf h).2.1.encrypted_part_plain.mht_key,
        (ipf_update_all_data_and_mht_nodes env pf h).2.1.encrypted_part_plain.mht_gmac⟩ := by
  have P1 := update_data_nodes_seals env (cache_ptrs pf) pf h hl (cache_ptrs_nodup pf hk)
    (cache_ptrs_mem pf)
  have hf1 := update_data_nodes_cache_flags env (cache_ptrs pf) pf h
  rcases h1 : update_data_nodes env (cache_ptrs pf) pf h with ⟨b1, pf1, hh1⟩
  rw [h1] at P1 hf1
  dsimp only at P1 hf1
  cases b1 with
  | false =>
    rw [ipf_update_all_data_and_mht_nodes_no_data env pf h pf1 hh1 h1] at hok
    exact absurd hok (by simp)
  | true =>
    obtain ⟨s1, d1⟩ := P1 rfl
    have hk1 : (pf1.cache.map (fun m => m.physical_node_number)).Nodup := by
      rw [keys_of_cache_flags pf1 pf hf1]
      exact hk
    have hl1 : Linked pf1 := hl.l_transfer s1
    obtain ⟨c1, c2⟩ := collect_mht_list_spec pf1 (cache_ptrs pf1) []
    obtain ⟨sp, ss⟩ := listp_sort_outer_by pf1.deref
      (collect_mht_list pf1 (cache_ptrs pf1) []).length
      (collect_mht_list pf1 (cache_ptrs pf1) []) (Nat.le_refl _)
    have hmem : ∀ q, q ∈ LISTP_SORT (fun a b => mht_sort (pf1.deref a) (pf1.deref b))
          (collect_mht_list pf1 (cache_ptrs pf1) []) ↔
        (q ∈ cache_ptrs pf1 ∧ (pf1.deref q).type = FILE_MHT_NODE_TYPE ∧
          (pf1.deref q).need_writing = true) := by
      intro q
      unfold LISTP_SORT
      rw [sp.mem_iff, c1 q]
      simp
    have P2 := update_mht_nodes_seals env
      (LISTP_SORT (fun a b => mht_sort (pf1.deref a) (pf1.deref b))
        (collect_mht_list pf1 (cache_ptrs pf1) [])) pf1 hh1 hl1
      (by
        unfold LISTP_SORT
        rw [sp.nodup_iff]
        apply c2
        simpa using cache_ptrs_nodup pf1 hk1)
      (fun p hp => by
        obtain ⟨a1, a2, a3⟩ := (hmem p).mp hp
        exact ⟨(cache_ptrs_mem pf1 p a1).1, (cache_ptrs_mem pf1 p a1).2, a2, a3⟩)
      (by
        unfold LISTP_SORT
        exact ss)
    rcases h2 : update_mht_nodes env
      (LISTP_SORT (fun a b => mht_sort (pf1.deref a) (pf1.deref b))
        (collect_mht_list pf1 (cache_ptrs pf1) [])) pf1 hh1 with ⟨b2, pf2, hh2⟩
    rw [h2] at P2
    dsimp only at P2
    cases b2 with
    | false =>
      rw [ipf_update_all_data_and_mht_nodes_no_mht env pf h pf1 hh1 h1 pf2 hh2 h2] at hok
      exact absurd hok (by simp)
    | true =>
      obtain ⟨s2, d2, m2⟩ := P2 rfl
      have hc3 := ipf_derive_random_node_key_cache env pf2 hh2 pf2.root_mht.physical_node_number
      have hr3 := ipf_derive_random_node_key_root_mht env pf2 hh2
        pf2.root_mht.physical_node_number
      rcases h3 : ipf_derive_random_node_key env pf2 hh2 pf2.root_mht.physical_node_number
        with ⟨b3, pf3, hh3⟩
      rw [h3] at hc3 hr3
      dsimp only at hc3 hr3
      cases b3 with
      | false =>
        rw [ipf_update_all_data_and_mht_nodes_no_key env pf h pf1 hh1 h1 pf2 hh2 h2 pf3 hh3 h3]
          at hok
        exact absurd hok (by simp)
      | true =>
        rcases he : env.aes_gcm_encrypt pf3.cur_key none
          (some (.mht pf3.root_mht.decrypted.as_mht)) with ⟨st, cipher, gmac⟩
        rw [ipf_update_all_data_and_mht_nodes_root env pf h pf1 hh1 h1 pf2 hh2 h2 pf3 hh3 h3
          st cipher gmac he] at hok ⊢
        by_cases cf : PF_FAILURE st = true
        · rw [if_pos cf] at hok
          exact absurd hok (by simp)
        · rw [if_neg cf]
          have s3 : SameShape pf3 pf2 := SameShape.s_congr pf3 pf2 hc3 hr3
          have hd3 : ∀ q, pf3.deref q = pf2.deref q := deref_congr pf3 pf2 hc3 hr3
          have s21 := s2.s_trans s1
          suffices key : ∀ F : pf_context_t, F.cache = pf3.cache →
              F.root_mht = { pf3.root_mht with encrypted := cipher } →
              F.encrypted_part_plain.mht_key = pf3.cur_key →
              F.encrypted_part_plain.mht_gmac = gmac →
              SameShape F pf ∧
              (∀ q, q ≠ .root → pf.resident q = true → (pf.deref q).need_writing = true →
                ((pf.deref q).type = FILE_DATA_NODE_TYPE → DataSealed env F q) ∧
                ((pf.deref q).type = FILE_MHT_NODE_TYPE → MhtSealed env F q)) ∧
              Sealed env F.root_mht.physical_node_number (.mht F.root_mht.decrypted.as_mht)
                F.root_mht.encrypted
                ⟨F.encrypted_part_plain.mht_key, F.encrypted_part_plain.mht_gmac⟩ from
            key _ rfl rfl rfl rfl
          intro F hFc hFr hFk hFg
          refine ⟨(SameShape_root_enc F pf3 cipher hFc hFr).s_trans (s3.s_trans s21), ?_, ?_⟩
          · intro q hq0 hq hqd
            have hq1 : pf1.resident q = true := by rw [(s1 q).1]; exact hq
            have hqd1 : (pf1.deref q).need_writing = true := by
              rw [(s1 q).2.2.2.2.1]; exact hqd
            constructor
            · intro hqt
              apply DataSealed_root_enc env F pf3 cipher hFc hFr q hq0
              rw [DataSealed_congr env pf3 pf2 hd3]
              apply d2 q (by rw [(s1 q).2.1]; exact hqt)
              exact d1 q hq0 hq hqt hqd (Or.inl (mem_cache_ptrs pf q hq0 hq))
            · intro hqt
              apply MhtSealed_root_enc env F pf3 cipher hFc hFr q hq0
              rw [MhtSealed_congr env pf3 pf2 hd3]
              have hqt1 : (pf1.deref q).type = FILE_MHT_NODE_TYPE := by
                rw [(s1 q).2.1]; exact hqt
              apply m2 q hq0 hq1 hqt1 hqd1
              left
              exact (hmem q).mpr ⟨mem_cache_ptrs pf1 q hq0 hq1, hqt1, hqd1⟩
          · rw [hFr, hFk, hFg]
            refine ⟨⟨pf2, hh2, ?_, ?_⟩, ?_, ?_, ?_⟩
            · show (ipf_derive_random_node_key env pf2 hh2 pf3.root_mht.physical_node_number).1
                = true
              rw [hr3, h3]
            · show (ipf_derive_random_node_key env pf2 hh2
                pf3.root_mht.physical_node_number).2.1.cur_key = pf3.cur_key
              rw [hr3, h3]
            · show PF_FAILURE (env.aes_gcm_encrypt pf3.cur_key none
                (some (.mht pf3.root_mht.decrypted.as_mht))).1 = false
              rw [he]
              simpa using cf
            · show (env.aes_gcm_encrypt pf3.cur_key none
                (some (.mht pf3.root_mht.decrypted.as_mht))).2.1 = cipher
              rw [he]
            · show (env.aes_gcm_encrypt pf3.cur_key none
                (some (.mht pf3.root_mht.decrypted.as_mht))).2.2 = gmac
              rw [he]

/-- C31 (Merkle consistency after re-encryption): take a state whose cached nodes have distinct
physical numbers, where cached nodes of one type with one number are one node, and where every
dirty cached node has its parent at hand (the root MHT or a cached node), the parent being an
MHT node numbered `d / 96` for a data node `d` and `(n - 1) / 32` for an MHT node `n >= 1`.
If `ipf_update_all_data_and_mht_nodes` succeeds, then in the state it leaves every dirty cached
data node `d` is sealed by `data_nodes_crypto[d mod 96]` of its parent, every dirty cached MHT
node `n` by `mht_nodes_crypto[(n - 1) mod 32]` of its parent, and the root MHT by
`mht_key`/`mht_gmac` of the metadata: the key of the entry is a node key derived for the
physical number of the node, and encrypting the final plaintext of the node under that key
succeeds and gives the ciphertext in the node and the tag in the entry. Since the plaintexts
are the final ones, the plaintext an MHT node was encrypted from held the final entries of its
children. -/
theorem merkle_entries_seal_dirty_nodes (env : Env) (pf : pf_context_t) (h : Host)
    (hC : (pf.cache.map (fun n => n.physical_node_number)).Nodup)
    (hN : ∀ a ∈ pf.cache, ∀ b ∈ pf.cache, a.type = b.type → a.node_number = b.node_number →
      a.physical_node_number = b.physical_node_number)
    (hP : ∀ n ∈ pf.cache, n.need_writing = true →
      pf.resident n.parent = true ∧ (pf.deref n.parent).type = FILE_MHT_NODE_TYPE ∧
      (n.type = FILE_DATA_NODE_TYPE →
        (pf.deref n.parent).node_number = n.node_number / ATTACHED_DATA_NODES_COUNT) ∧
      (n.type = FILE_MHT_NODE_TYPE → 1 ≤ n.node_number ∧ n.node_number < U64 ∧
        (pf.deref n.parent).node_number = (n.node_number - 1) / CHILD_MHT_NODES_COUNT))
    (hok : (ipf_update_all_data_and_mht_nodes env pf h).1 = true) :
    (∀ n ∈ (ipf_update_all_data_and_mht_nodes env pf h).2.1.cache, n.need_writing = true →
      (n.type = FILE_DATA_NODE_TYPE →
        Sealed env n.physical_node_number (.data n.decrypted.as_data) n.encrypted
          (((ipf_update_all_data_and_mht_nodes env pf h).2.1.deref
            n.parent).decrypted.as_mht.data_nodes_crypto
              (n.node_number % ATTACHED_DATA_NODES_COUNT))) ∧
      (n.type = FILE_MHT_NODE_TYPE →
        Sealed env n.physical_node_number (.mht n.decrypted.as_mht) n.encrypted
          (((ipf_update_all_data_and_mht_nodes env pf h).2.1.deref
            n.parent).decrypted.as_mht.mht_nodes_crypto
              ((n.node_number - 1) % CHILD_MHT_NODES_COUNT)))) ∧
    Sealed env (ipf_update_all_data_and_mht_nodes env pf h).2.1.root_mht.physical_node_number
      (.mht (ipf_update_all_data_and_mht_nodes env pf h).2.1.root_mht.decrypted.as_mht)
      (ipf_update_all_data_and_mht_nodes env pf h).2.1.root_mht.encrypted
      ⟨(ipf_update_all_data_and_mht_nodes env pf h).2.1.encrypted_part_plain.mht_key,
        (ipf_update_all_data_and_mht_nodes env pf h).2.1.encrypted_part_plain.mht_gmac⟩ := by
  obtain ⟨s, d, r⟩ := ipf_update_all_data_and_mht_nodes_seals env pf h hC
    (linked_of_cache pf hN hP) hok
  refine ⟨?_, r⟩
  intro n hn hnd
  have hkF : ((ipf_update_all_data_and_mht_nodes env pf h).2.1.cache.map
      (fun m => m.physical_node_number)).Nodup := by
    rw [keys_of_cache_flags _ pf (ipf_update_all_data_and_mht_nodes_cache_flags env pf h)]
    exact hC
  have hdn := deref_of_mem _ n hn hkF
  have hrn := resident_of_mem _ n hn
  have hq := s (.cached n.physical_node_number)
  rw [hdn, hrn] at hq
  obtain ⟨d1, d2⟩ := d (.cached n.physical_node_number) (by simp) hq.1.symm
    (by rw [← hq.2.2.2.2.1]; exact hnd)
  constructor
  · intro ht
    have := d1 (by rw [← hq.2.1]; exact ht)
    unfold DataSealed at this
    rw [hdn] at this
    exact this
  · intro ht
    have := d2 (by rw [← hq.2.1]; exact ht)
    unfold MhtSealed at this
    rw [hdn] at this
    exact this

/-- The two-level example with dirty data node 3168, MHT 33 and MHT 1: the re-encryption
succeeds and leaves each of them sealed by its parent, and the root MHT by the metadata. -/
theorem merkle_entries_seal_dirty_nodes_witness :
    example_deep_written.1.cache.map
        (fun n => (n.physical_node_number, n.node_number, n.parent, n.need_writing))
      = [(98, 1, .root, true), (3202, 33, .cached 98, true), (3203, 3168, .cached 3202, true)] ∧
    (ipf_update_all_data_and_mht_nodes example_env example_deep_written.1
      example_deep_written.2).1 = true ∧
    ((∀ n ∈ (ipf_update_all_data_and_mht_nodes example_env example_deep_written.1
        example_deep_written.2).2.1.cache, n.need_writing = true →
      (n.type = FILE_DATA_NODE_TYPE →
        Sealed example_env n.physical_node_number (.data n.decrypted.as_data) n.encrypted
          (((ipf_update_all_data_and_mht_nodes example_env example_deep_written.1
            example_deep_written.2).2.1.deref n.parent).decrypted.as_mht.data_nodes_crypto
              (n.node_number % ATTACHED_DATA_NODES_COUNT))) ∧
      (n.type = FILE_MHT_NODE_TYPE →
        Sealed example_env n.physical_node_number (.mht n.decrypted.as_mht) n.encrypted
          (((ipf_update_all_data_and_mht_nodes example_env example_deep_written.1
            example_deep_written.2).2.1.deref n.parent).decrypted.as_mht.mht_nodes_crypto
              ((n.node_number - 1) % CHILD_MHT_NODES_COUNT)))) ∧
    Sealed example_env
      (ipf_update_all_data_and_mht_nodes example_env example_deep_written.1
        example_deep_written.2).2.1.root_mht.physical_node_number
      (.mht (ipf_update_all_data_and_mht_nodes example_env example_deep_written.1
        example_deep_written.2).2.1.root_mht.decrypted.as_mht)
      (ipf_update_all_data_and_mht_nodes example_env example_deep_written.1
        example_deep_written.2).2.1.root_mht.encrypted
      ⟨(ipf_update_all_data_and_mht_nodes example_env example_deep_written.1
          example_deep_written.2).2.1.encrypted_part_plain.mht_key,
        (ipf_update_all_data_and_mht_nodes example_env example_deep_written.1
          example_deep_written.2).2.1.encrypted_part_plain.mht_gmac⟩) :=
  ⟨by decide!, by decide!,
    merkle_entries_seal_dirty_nodes example_env example_deep_written.1 example_deep_written.2
      (by decide!) (by decide!) (by decide!) (by decide!)⟩

/-- C23 (Invariant A is preserved by every operation), refuted by a flush that fails half way:
`ipf_write_all_changes_to_disk` clears `need_writing` node by node in cache order, parents
first. On the 97-node file the write of MHT node 1 succeeds and the write of its child, data
node 96, fails: `pf_flush` returns the callback error and leaves the data node dirty under a
clean parent. A second `pf_flush` does not look at `file_status`; it runs
`ipf_update_all_data_and_mht_nodes` in that state, returns SUCCESS, re-encrypts the data
node under a new key and writes it, but neither re-encrypts nor writes the clean MHT node 1:
block 98 on disk still records the old key and tag for data node 96. -/
theorem failed_flush_breaks_invariant_a :
    example_big.1.file_status = SUCCESS ∧
    (lruc_find example_big.1.cache 99).map (fun n => (n.need_writing, n.parent))
      = some (true, .cached 98) ∧
    (lruc_find example_big.1.cache 98).map (fun n => n.need_writing) = some true ∧
    example_half_flushed.1 = CALLBACK_FAILED ∧
    example_half_flushed.2.1.file_status = WRITE_TO_DISK_FAILED ∧
    (lruc_find example_half_flushed.2.1.cache 99).map
        (fun n => (n.type, n.node_number, n.need_writing, n.parent))
      = some (FILE_DATA_NODE_TYPE, 96, true, .cached 98) ∧
    (lruc_find example_half_flushed.2.1.cache 98).map
        (fun n => (n.type, n.node_number, n.need_writing))
      = some (FILE_MHT_NODE_TYPE, 1, false) ∧
    example_reflushed.1 = SUCCESS ∧
    (lruc_find example_reflushed.2.1.cache 99).map (fun n => n.need_writing) = some false ∧
    (lruc_find example_reflushed.2.1.cache 98).map
        (fun n => n.decrypted.as_mht.data_nodes_crypto 0) = some ⟨312, 492⟩ ∧
    (example_reflushed.2.2.file 98).as_node.as_mht.data_nodes_crypto 0 = ⟨305, 485⟩ := by
  decide!

theorem mht_plain_zero (env : Env) (pf : pf_context_t) (h : Host) :
    mht_plain env pf h 0 = pf.root_mht.decrypted.as_mht := by
  rw [mht_plain]
  simp

theorem mht_plain_cached (env : Env) (pf : pf_context_t) (h : Host) (m : Nat) (hm : m ≠ 0)
    (n : file_node_t) (hf : lruc_find pf.cache (mht_physical_node_number m) = some n) :
    mht_plain env pf h m = n.decrypted.as_mht := by
  rw [mht_plain]
  simp [hm, hf]

theorem mht_plain_disk (env : Env) (pf : pf_context_t) (h : Host) (m : Nat) (hm : m ≠ 0)
    (hf : lruc_find pf.cache (mht_physical_node_number m) = none) :
    mht_plain env pf h m =
      (env.aes_gcm_decrypt
        ((mht_plain env pf h ((m - 1) / CHILD_MHT_NODES_COUNT)).mht_nodes_crypto
          ((m - 1) % CHILD_MHT_NODES_COUNT)).key
        (h.file (mht_physical_node_number m)).as_node
        ((mht_plain env pf h ((m - 1) / CHILD_MHT_NODES_COUNT)).mht_nodes_crypto
          ((m - 1) % CHILD_MHT_NODES_COUNT)).gmac).2.as_mht := by
  rw [mht_plain]
  simp [hm, hf]

theorem live_mht_parent (S m : Nat) (_hm : m ≠ 0) (hl : live_mht S m)
    (_hp : (m - 1) / CHILD_MHT_NODES_COUNT ≠ 0) :
    live_mht S ((m - 1) / CHILD_MHT_NODES_COUNT) := by
  unfold live_mht CHILD_MHT_NODES_COUNT ATTACHED_DATA_NODES_COUNT PF_NODE_SIZE
    MD_USER_DATA_SIZE at *
  omega

theorem live_data_parent (S d : Nat) (hl : live_data S d)
    (_hp : d / ATTACHED_DATA_NODES_COUNT ≠ 0) : live_mht S (d / ATTACHED_DATA_NODES_COUNT) := by
  unfold live_mht live_data ATTACHED_DATA_NODES_COUNT PF_NODE_SIZE MD_USER_DATA_SIZE at *
  omega

theorem EntriesAgree.ea_refl (pf pf1 : pf_context_t) (m : Nat) (x : mht_node_t) :
    EntriesAgree pf pf1 m x x :=
  ⟨fun _ _ _ _ => rfl, fun _ _ _ => rfl⟩

/-- In two states that hold the same file, the plaintexts of a live MHT node hold the same
entry for every child that is not cached in both. -/
theorem Agree.a_mht {env : Env} {pf : pf_context_t} {h : Host} {pf1 : pf_context_t} {h1 : Host}
    {S : Nat} (a : Agree env pf h pf1 h1 S) (m : Nat) (hm : m = 0 ∨ live_mht S m) :
    EntriesAgree pf pf1 m (mht_plain env pf h m) (mht_plain env pf1 h1 m) := by
  induction m using Nat.strong_induction_on with
  | _ m ih =>
    by_cases h0 : m = 0
    · subst h0
      rw [mht_plain_zero, mht_plain_zero]
      exact a.root
    · have hl : live_mht S m := hm.resolve_left h0
      have hpar : (m - 1) / CHILD_MHT_NODES_COUNT < m := by
        unfold CHILD_MHT_NODES_COUNT
        omega
      have hpl : (m - 1) / CHILD_MHT_NODES_COUNT = 0 ∨
          live_mht S ((m - 1) / CHILD_MHT_NODES_COUNT) := by
        by_cases c : (m - 1) / CHILD_MHT_NODES_COUNT = 0
        · exact Or.inl c
        · exact Or.inr (live_mht_parent S m h0 hl c)
      have ihp := ih _ hpar hpl
      have hent : ¬ (cached_mht pf m = true ∧ cached_mht pf1 m = true) →
          mht_entry env pf1 h1 m = mht_entry env pf h m := fun hc => ihp.1 m h0 rfl hc
      rcases hf : lruc_find pf.cache (mht_physical_node_number m) with _ | n
      · rcases hf1 : lruc_find pf1.cache (mht_physical_node_number m) with _ | n1
        · have e := hent (by unfold cached_mht; rw [hf]; simp)
          unfold mht_entry at e
          rw [mht_plain_disk env pf h m h0 hf, mht_plain_disk env pf1 h1 m h0 hf1, e,
            a.mht_none m h0 hl hf hf1]
          exact EntriesAgree.ea_refl _ _ _ _
        · rw [mht_plain_disk env pf h m h0 hf, mht_plain_cached env pf1 h1 m h0 n1 hf1,
            a.mht_in m n1 h0 hl hf hf1]
          exact EntriesAgree.ea_refl _ _ _ _
      · rcases hf1 : lruc_find pf1.cache (mht_physical_node_number m) with _ | n1
        · have e := hent (by unfold cached_mht; rw [hf1]; simp)
          unfold mht_entry at e
          rw [mht_plain_cached env pf h m h0 n hf, mht_plain_disk env pf1 h1 m h0 hf1, e,
            a.mht_out m n h0 hl hf hf1]
          exact EntriesAgree.ea_refl _ _ _ _
        · rw [mht_plain_cached env pf h m h0 n hf, mht_plain_cached env pf1 h1 m h0 n1 hf1]
          exact a.mht_both m n n1 h0 hl hf hf1

/-- In two states that hold the same file, a live data node has the same plaintext. -/
theorem Agree.a_data {env : Env} {pf : pf_context_t} {h : Host} {pf1 : pf_context_t}
    {h1 : Host} {S : Nat} (a : Agree env pf h pf1 h1 S) (d : Nat) (hl : live_data S d) :
    data_plain env pf1 h1 d = data_plain env pf h d := by
  have hpl : d / ATTACHED_DATA_NODES_COUNT = 0 ∨ live_mht S (d / ATTACHED_DATA_NODES_COUNT) := by
    by_cases c : d / ATTACHED_DATA_NODES_COUNT = 0
    · exact Or.inl c
    · exact Or.inr (live_data_parent S d hl c)
  have hp := a.a_mht _ hpl
  have hent : ¬ (cached_data pf d = true ∧ cached_data pf1 d = true) →
      data_entry env pf1 h1 d = data_entry env pf h d := fun hc => hp.2 d rfl hc
  unfold data_plain
  rcases hf : lruc_find pf.cache (data_physical_node_number d) with _ | n
  · rcases hf1 : lruc_find pf1.cache (data_physical_node_number d) with _ | n1
    · have e := hent (by unfold cached_data; rw [hf]; simp)
      unfold data_entry at e
      dsimp only
      rw [e, a.data_none d hl hf hf1]
    · dsimp only
      rw [a.data_in d n1 hl hf hf1]
      rfl
  · rcases hf1 : lruc_find pf1.cache (data_physical_node_number d) with _ | n1
    · have e := hent (by unfold cached_data; rw [hf1]; simp)
      unfold data_entry at e
      dsimp only
      rw [e, a.data_out d n hl hf hf1]
      rfl
    · exact a.data_both d n n1 hl hf hf1

/-- In two states that hold the same file of size `S`, with the same inline region, every
plaintext byte below `S` is the same. -/
theorem Agree.a_byte {env : Env} {pf : pf_context_t} {h : Host} {pf1 : pf_context_t}
    {h1 : Host} {S : Nat} (a : Agree env pf h pf1 h1 S)
    (hi : pf1.encrypted_part_plain.data = pf.encrypted_part_plain.data) (x : Nat) (hx : x < S) :
    plaintext_byte env pf1 h1 x = plaintext_byte env pf h x := by
  unfold plaintext_byte
  by_cases c : x < MD_USER_DATA_SIZE
  · rw [if_pos c, if_pos c, hi]
  · rw [if_neg c, if_neg c, a.a_data]
    unfold live_data PF_NODE_SIZE MD_USER_DATA_SIZE at *
    omega

theorem mht_physical_small (m : Nat) (hm : m < 2 ^ 50) :
    mht_physical_node_number m = 1 + m * 97 := by
  unfold mht_physical_node_number ATTACHED_DATA_NODES_COUNT U64
  rw [Nat.mod_eq_of_lt]
  omega

theorem data_physical_ne_mht (d m : Nat) (hm : m < 2 ^ 50) :
    data_physical_node_number d ≠ mht_physical_node_number m := by
  rw [mht_physical_small m hm]
  unfold data_physical_node_number ATTACHED_DATA_NODES_COUNT
  omega

theorem data_physical_inj (d d1 : Nat)
    (e : data_physical_node_number d = data_physical_node_number d1) : d = d1 := by
  unfold data_physical_node_number ATTACHED_DATA_NODES_COUNT at e
  omega

theorem mht_physical_inj (m m1 : Nat) (hm : m < 2 ^ 50) (hm1 : m1 < 2 ^ 50)
    (e : mht_physical_node_number m = mht_physical_node_number m1) : m = m1 := by
  rw [mht_physical_small m hm, mht_physical_small m1 hm1] at e
  omega

theorem start_bound_data (n : file_node_t) (S : Nat) (ht : n.type = FILE_DATA_NODE_TYPE)
    (hs : n.start ≤ S) (hS : S ≤ NO_WRAP) : n.node_number < 2 ^ 50 := by
  unfold file_node_t.start at hs
  rw [ht] at hs
  unfold NO_WRAP MD_USER_DATA_SIZE PF_NODE_SIZE at *
  dsimp only at hs
  omega

theorem start_bound_mht (n : file_node_t) (S : Nat) (ht : n.type = FILE_MHT_NODE_TYPE)
    (hs : n.start ≤ S) (hS : S ≤ NO_WRAP) : n.node_number < 2 ^ 44 := by
  unfold file_node_t.start at hs
  rw [ht] at hs
  unfold NO_WRAP MD_USER_DATA_SIZE PF_NODE_SIZE ATTACHED_DATA_NODES_COUNT at *
  dsimp only at hs
  omega

theorem lruc_find_cons (x : file_node_t) (c : List file_node_t) (k : Nat) :
    lruc_find (x :: c) k = if x.physical_node_number = k then some x else lruc_find c k := by
  unfold lruc_find
  by_cases e : x.physical_node_number = k
  · rw [if_pos e]
    exact List.find?_cons_of_pos _ (by simpa using e)
  · rw [if_neg e]
    exact List.find?_cons_of_neg _ (by simpa using e)

theorem lruc_find_none_iff (c : List file_node_t) (k : Nat) :
    lruc_find c k = none ↔ k ∉ c.map (fun n => n.physical_node_number) := by
  unfold lruc_find
  rw [List.find?_eq_none]
  simp only [List.mem_map, not_exists, not_and, beq_iff_eq]

/-- With distinct keys, erasing the entry of a key leaves the entries of the other keys. -/
theorem lruc_find_eraseP (c : List file_node_t) (key k : Nat)
    (hk : (c.map (fun n => n.physical_node_number)).Nodup) :
    lruc_find (c.eraseP (fun m => m.physical_node_number == key)) k
      = if k = key then none else lruc_find c k := by
  induction c with
  | nil => simp [lruc_find]
  | cons x rest ih =>
    simp only [List.map_cons, List.nodup_cons] at hk
    by_cases e : x.physical_node_number = key
    · have : (x :: rest).eraseP (fun m => m.physical_node_number == key) = rest := by
        simp [List.eraseP_cons, e]
      rw [this]
      by_cases ek : k = key
      · rw [if_pos ek, lruc_find_none_iff, ek, ← e]
        exact hk.1
      · rw [if_neg ek, lruc_find_cons, if_neg]
        rw [e]
        exact fun c => ek c.symm
    · have : (x :: rest).eraseP (fun m => m.physical_node_number == key)
          = x :: rest.eraseP (fun m => m.physical_node_number == key) := by
        simp [List.eraseP_cons, e]
      rw [this, lruc_find_cons, lruc_find_cons, ih hk.2]
      by_cases ek : k = key
      · rw [if_pos ek, if_pos ek, if_neg]
        rw [ek]
        exact e
      · rw [if_neg ek, if_neg ek]

/-- With distinct keys, `lruc_get` changes no entry. -/
theorem lruc_find_get (c : List file_node_t) (key k : Nat)
    (hk : (c.map (fun n => n.physical_node_number)).Nodup) :
    lruc_find (lruc_get c key).2 k = lruc_find c k := by
  unfold lruc_get
  rcases hf : lruc_find c key with _ | n
  · rfl
  · dsimp only
    rw [lruc_find_cons, lruc_find_eraseP c key k hk]
    have hn := lruc_find_key c key n hf
    by_cases ek : k = key
    · rw [if_pos (hn.trans ek.symm), ek, hf]
    · rw [if_neg (fun c => ek (c.symm.trans hn)), if_neg ek]

theorem lruc_get_keys (c : List file_node_t) (key : Nat)
    (hk : (c.map (fun n => n.physical_node_number)).Nodup) :
    ((lruc_get c key).2.map (fun n => n.physical_node_number)).Nodup := by
  unfold lruc_get
  rcases hf : lruc_find c key with _ | n
  · exact hk
  · dsimp only
    have hn := lruc_find_key c key n hf
    have hmem := lruc_find_mem c key n hf
    simp only [List.map_cons, List.nodup_cons]
    constructor
    · intro hin
      obtain ⟨m, hm, e⟩ := List.mem_map.mp hin
      have h1 : lruc_find (c.eraseP (fun m => m.physical_node_number == key)) key = none := by
        rw [lruc_find_eraseP c key key hk, if_pos rfl]
      rw [lruc_find_none_iff] at h1
      exact h1 (List.mem_map.mpr ⟨m, hm, e.trans hn⟩)
    · exact hk.sublist ((List.eraseP_sublist c).map _)

/-- With distinct keys, dropping the last entry removes its key and leaves the others. -/
theorem lruc_find_dropLast (c : List file_node_t) (l : file_node_t) (k : Nat)
    (hl : c.getLast? = some l) (hk : (c.map (fun n => n.physical_node_number)).Nodup) :
    lruc_find c.dropLast k = if k = l.physical_node_number then none else lruc_find c k := by
  induction c with
  | nil => simp at hl
  | cons x rest ih =>
    simp only [List.map_cons, List.nodup_cons] at hk
    cases rest with
    | nil =>
      simp only [List.getLast?_singleton, Option.some.injEq] at hl
      subst hl
      simp only [List.dropLast_single]
      rw [lruc_find_cons]
      by_cases e : k = x.physical_node_number
      · rw [if_pos e]
        rfl
      · rw [if_neg e, if_neg (fun c => e c.symm)]
    | cons y rest1 =>
      have hl1 : (y :: rest1).getLast? = some l := by
        rw [← hl]
        simp [List.getLast?_cons_cons]
      rw [List.dropLast_cons₂, lruc_find_cons x _ k, lruc_find_cons x (y :: rest1) k,
        ih hl1 hk.2]
      by_cases e : x.physical_node_number = k
      · simp only [if_pos e]
        rw [if_neg]
        intro c
        apply hk.1
        rw [e, c]
        have := List.mem_of_mem_getLast? hl1
        exact List.mem_map_of_mem _ this
      · simp only [if_neg e]

/-- The plaintext of an MHT node depends on the context and the host through the cache
entries, the plaintext of the root MHT and the blocks of the file only. -/
theorem mht_plain_congr (env : Env) (pf pf1 : pf_context_t) (h h1 : Host)
    (hf : ∀ k, lruc_find pf1.cache k = lruc_find pf.cache k)
    (hr : pf1.root_mht.decrypted = pf.root_mht.decrypted) (hfile : h1.file = h.file) (m : Nat) :
    mht_plain env pf1 h1 m = mht_plain env pf h m := by
  induction m using Nat.strong_induction_on with
  | _ m ih =>
    by_cases h0 : m = 0
    · subst h0
      rw [mht_plain_zero, mht_plain_zero, hr]
    · have hpar : (m - 1) / CHILD_MHT_NODES_COUNT < m := by
        unfold CHILD_MHT_NODES_COUNT
        omega
      rcases hc : lruc_find pf.cache (mht_physical_node_number m) with _ | n
      · rw [mht_plain_disk env pf h m h0 hc,
          mht_plain_disk env pf1 h1 m h0 ((hf _).trans hc), ih _ hpar, hfile]
      · rw [mht_plain_cached env pf h m h0 n hc,
          mht_plain_cached env pf1 h1 m h0 n ((hf _).trans hc)]

theorem data_plain_congr (env : Env) (pf pf1 : pf_context_t) (h h1 : Host)
    (hf : ∀ k, lruc_find pf1.cache k = lruc_find pf.cache k)
    (hr : pf1.root_mht.decrypted = pf.root_mht.decrypted) (hfile : h1.file = h.file) (d : Nat) :
    data_plain env pf1 h1 d = data_plain env pf h d := by
  unfold data_plain
  rw [hf, mht_plain_congr env pf pf1 h h1 hf hr hfile, hfile]

theorem plaintext_byte_congr (env : Env) (pf pf1 : pf_context_t) (h h1 : Host)
    (hf : ∀ k, lruc_find pf1.cache k = lruc_find pf.cache k)
    (hr : pf1.root_mht.decrypted = pf.root_mht.decrypted) (hfile : h1.file = h.file)
    (hi : pf1.encrypted_part_plain.data = pf.encrypted_part_plain.data) (x : Nat) :
    plaintext_byte env pf1 h1 x = plaintext_byte env pf h x := by
  unfold plaintext_byte
  rw [hi, data_plain_congr env pf pf1 h h1 hf hr hfile]

theorem mht_ptr_zero : mht_ptr 0 = .root := rfl

theorem mht_ptr_pos (m : Nat) (hm : m ≠ 0) :
    mht_ptr m = .cached (mht_physical_node_number m) := by
  unfold mht_ptr
  rw [if_neg hm]

theorem find_of_resident (pf : pf_context_t) (k : Nat) (hr : pf.resident (.cached k) = true) :
    lruc_find pf.cache k = some (pf.deref (.cached k)) := by
  have hr1 : (lruc_find pf.cache k).isSome = true := hr
  show lruc_find pf.cache k = some ((lruc_find pf.cache k).getD calloc_node)
  rcases hfind : lruc_find pf.cache k with _ | n
  · rw [hfind] at hr1
    simp at hr1
  · rfl

theorem resident_of_find (pf : pf_context_t) (k : Nat) (n : file_node_t)
    (hf : lruc_find pf.cache k = some n) :
    pf.resident (.cached k) = true ∧ pf.deref (.cached k) = n := by
  show (lruc_find pf.cache k).isSome = true ∧ (lruc_find pf.cache k).getD calloc_node = n
  rw [hf]
  exact ⟨rfl, rfl⟩

/-- A cached node under the invariant has a number within the bound of its type. -/
theorem Good.number_lt {env : Env} {pf : pf_context_t} {h : Host} (g : Good env pf h)
    (k : Nat) (n : file_node_t) (hn : lruc_find pf.cache k = some n) :
    n.node_number < 2 ^ 50 ∧ n.parent_number < 2 ^ 50 := by
  have hs := (g.shape k n hn).2.2.2
  have hS := g.size_le
  unfold file_node_t.start at hs
  unfold file_node_t.parent_number
  unfold NO_WRAP MD_USER_DATA_SIZE PF_NODE_SIZE ATTACHED_DATA_NODES_COUNT
    CHILD_MHT_NODES_COUNT at *
  cases ht : n.type <;> rw [ht] at hs <;> dsimp only at hs ⊢ <;> omega

/-- Under the invariant, the cache entry under the physical number of MHT node `m` is that
MHT node. -/
theorem Good.find_mht {env : Env} {pf : pf_context_t} {h : Host} (g : Good env pf h)
    (m : Nat) (hm : m < 2 ^ 50) (n : file_node_t)
    (hn : lruc_find pf.cache (mht_physical_node_number m) = some n) :
    n.type = FILE_MHT_NODE_TYPE ∧ n.node_number = m := by
  have hk := lruc_find_key _ _ _ hn
  have hs := (g.shape _ n hn).1
  have hb := (g.number_lt _ n hn).1
  unfold file_node_t.numbered at hs
  cases ht : n.type
  · rw [ht] at hs
    dsimp only at hs
    refine ⟨rfl, ?_⟩
    exact mht_physical_inj _ _ hb hm (hs.symm.trans hk)
  · rw [ht] at hs
    dsimp only at hs
    exact absurd (hs.symm.trans hk) (data_physical_ne_mht _ _ hm)

/-- Under the invariant, the cache entry under the physical number of data node `d` is that
data node. -/
theorem Good.find_data {env : Env} {pf : pf_context_t} {h : Host} (g : Good env pf h)
    (d : Nat) (n : file_node_t)
    (hn : lruc_find pf.cache (data_physical_node_number d) = some n) :
    n.type = FILE_DATA_NODE_TYPE ∧ n.node_number = d := by
  have hk := lruc_find_key _ _ _ hn
  have hs := (g.shape _ n hn).1
  have hb := (g.number_lt _ n hn).1
  unfold file_node_t.numbered at hs
  cases ht : n.type
  · rw [ht] at hs
    dsimp only at hs
    exact absurd (hk.symm.trans hs) (data_physical_ne_mht _ _ hb)
  · rw [ht] at hs
    dsimp only at hs
    refine ⟨rfl, ?_⟩
    exact data_physical_inj _ _ (hs.symm.trans hk)

/-- Under the invariant, the parent pointer of a cached node leads to the MHT node that the
numbering names. -/
theorem Good.parent_facts {env : Env} {pf : pf_context_t} {h : Host} (g : Good env pf h)
    (k : Nat) (n : file_node_t) (hn : lruc_find pf.cache k = some n) :
    n.parent = mht_ptr n.parent_number ∧
    (pf.deref n.parent).type = FILE_MHT_NODE_TYPE ∧
    (pf.deref n.parent).node_number = n.parent_number := by
  have hp : n.parent = mht_ptr n.parent_number := (g.shape k n hn).2.1
  have hres := g.pinned k n hn
  refine ⟨hp, ?_⟩
  rw [hp] at hres ⊢
  by_cases h0 : n.parent_number = 0
  · rw [h0, mht_ptr_zero]
    exact ⟨g.root_type, g.root_number⟩
  · rw [mht_ptr_pos _ h0] at hres ⊢
    have hf := find_of_resident pf _ hres
    exact g.find_mht _ (g.number_lt k n hn).2 _ hf

/-- The plaintext of a cached or root MHT node is what its pointer leads to. -/
theorem mht_plain_deref (env : Env) (pf : pf_context_t) (h : Host) (m : Nat)
    (hr : pf.resident (mht_ptr m) = true) :
    mht_plain env pf h m = (pf.deref (mht_ptr m)).decrypted.as_mht := by
  by_cases h0 : m = 0
  · subst h0
    rw [mht_plain_zero]
    rfl
  · rw [mht_ptr_pos m h0] at hr ⊢
    have hf := find_of_resident pf _ hr
    rw [mht_plain_cached env pf h m h0 _ hf]

/-- Under the invariant, the entry that the parent of a cached MHT node holds for it is the
entry of the file for that node. -/
theorem Good.entry_mht {env : Env} {pf : pf_context_t} {h : Host} (g : Good env pf h)
    (k : Nat) (n : file_node_t) (hn : lruc_find pf.cache k = some n)
    (ht : n.type = FILE_MHT_NODE_TYPE) :
    n.entry_in (pf.deref n.parent).decrypted.as_mht = mht_entry env pf h n.node_number := by
  have hp := (g.parent_facts k n hn).1
  have hres := g.pinned k n hn
  rw [hp] at hres ⊢
  unfold mht_entry file_node_t.entry_in
  unfold file_node_t.parent_number at hres ⊢
  rw [ht] at hres ⊢
  dsimp only at hres ⊢
  rw [mht_plain_deref env pf h _ hres]

theorem Good.entry_data {env : Env} {pf : pf_context_t} {h : Host} (g : Good env pf h)
    (k : Nat) (n : file_node_t) (hn : lruc_find pf.cache k = some n)
    (ht : n.type = FILE_DATA_NODE_TYPE) :
    n.entry_in (pf.deref n.parent).decrypted.as_mht = data_entry env pf h n.node_number := by
  have hp := (g.parent_facts k n hn).1
  have hres := g.pinned k n hn
  rw [hp] at hres ⊢
  unfold data_entry file_node_t.entry_in
  unfold file_node_t.parent_number at hres ⊢
  rw [ht] at hres ⊢
  dsimp only at hres ⊢
  rw [mht_plain_deref env pf h _ hres]

/-- A pointer that leads to a node keeps leading to it when a node with a new key is added to
the cache. -/
theorem deref_cons_fresh (pf pf1 : pf_context_t) (x : file_node_t)
    (hc : pf1.cache = x :: pf.cache) (hroot : pf1.root_mht = pf.root_mht)
    (hx : lruc_find pf.cache x.physical_node_number = none) (q : NodePtr)
    (hq : pf.resident q = true) : pf1.resident q = true ∧ pf1.deref q = pf.deref q := by
  cases q with
  | root => exact ⟨rfl, hroot⟩
  | cached k =>
    have hf := find_of_resident pf k hq
    have hne : x.physical_node_number ≠ k := by
      intro c
      rw [c, hf] at hx
      cases hx
    have hf1 : lruc_find pf1.cache k = some (pf.deref (.cached k)) := by
      rw [hc, lruc_find_cons, if_neg hne, hf]
    exact resident_of_find pf1 k _ hf1

/-- Adding a clean node with a new key keeps the invariant: the node has the shape the
numbering asks for and its parent at hand, and either it is new and starts at the plaintext
size, or it is not new and its plaintext is what the block on disk decrypts to under the entry
of the parent. -/
theorem Good.add {env : Env} {pf : pf_context_t} {h : Host} (g : Good env pf h)
    (pf1 : pf_context_t) (h1 : Host) (x : file_node_t)
    (hc : pf1.cache = x :: pf.cache) (hroot : pf1.root_mht = pf.root_mht)
    (hep : pf1.encrypted_part_plain = pf.encrypted_part_plain)
    (hnw : pf1.need_writing = pf.need_writing) (hfile : h1.file = h.file)
    (hx : lruc_find pf.cache x.physical_node_number = none)
    (hshape : x.physical_node_number = x.numbered ∧ x.parent = x.parent_ptr ∧
      (x.type = FILE_MHT_NODE_TYPE → x.node_number ≠ 0) ∧
      x.start ≤ pf.encrypted_part_plain.size)
    (hpar : pf.resident x.parent = true) (hclean : x.need_writing = false)
    (hpend : x.new_node = true → x.start = pf.encrypted_part_plain.size)
    (hcc : x.new_node = false →
      (env.aes_gcm_decrypt (x.entry_in (pf.deref x.parent).decrypted.as_mht).key
        (h.file x.physical_node_number).as_node
        (x.entry_in (pf.deref x.parent).decrypted.as_mht).gmac).1 = SUCCESS ∧
      x.payload (env.aes_gcm_decrypt (x.entry_in (pf.deref x.parent).decrypted.as_mht).key
        (h.file x.physical_node_number).as_node
        (x.entry_in (pf.deref x.parent).decrypted.as_mht).gmac).2 = x.payload x.decrypted) :
    Good env pf1 h1 := by
  have hfind : ∀ k n, lruc_find pf1.cache k = some n →
      n = x ∨ lruc_find pf.cache k = some n := by
    intro k n hn
    rw [hc, lruc_find_cons] at hn
    by_cases e : x.physical_node_number = k
    · rw [if_pos e] at hn
      exact Or.inl (Option.some.inj hn).symm
    · rw [if_neg e] at hn
      exact Or.inr hn
  have hd := deref_cons_fresh pf pf1 x hc hroot hx
  refine
    { size_le := by rw [hep]; exact g.size_le
      keys := ?_
      root_number := by rw [hroot]; exact g.root_number
      root_type := by rw [hroot]; exact g.root_type
      shape := ?_
      pinned := ?_
      dirty_up := ?_
      root_dirty := by rw [hroot, hnw, hep]; exact g.root_dirty
      pending := ?_
      clean := ?_ }
  · rw [hc]
    simp only [List.map_cons, List.nodup_cons]
    exact ⟨(lruc_find_none_iff _ _).mp hx, g.keys⟩
  · intro k n hn
    rw [hep]
    rcases hfind k n hn with e | e
    · rw [e]
      exact hshape
    · exact g.shape k n e
  · intro k n hn
    rcases hfind k n hn with e | e
    · rw [e]
      exact (hd _ hpar).1
    · exact (hd _ (g.pinned k n e)).1
  · intro k n hn hdirty
    rcases hfind k n hn with e | e
    · rw [e, hclean] at hdirty
      cases hdirty
    · rw [(hd _ (g.pinned k n e)).2, hroot]
      exact g.dirty_up k n e hdirty
  · intro k n hn hcl hnew
    rw [hep]
    rcases hfind k n hn with e | e
    · rw [e] at hnew ⊢
      exact hpend hnew
    · exact g.pending k n e hcl hnew
  · intro k n hn hcl hnew
    rw [hfile]
    rcases hfind k n hn with e | e
    · rw [e] at hnew ⊢
      rw [(hd _ hpar).2]
      exact hcc hnew
    · rw [(hd _ (g.pinned k n e)).2]
      exact g.clean k n e hcl hnew

/-- The entry that the numbered parent, when at hand, holds for a node is the entry of the
file for that node. -/
theorem entry_in_eq (env : Env) (pf : pf_context_t) (h : Host) (x : file_node_t)
    (hp : x.parent = x.parent_ptr) (hres : pf.resident x.parent = true) :
    (x.type = FILE_MHT_NODE_TYPE →
      x.entry_in (pf.deref x.parent).decrypted.as_mht = mht_entry env pf h x.node_number) ∧
    (x.type = FILE_DATA_NODE_TYPE →
      x.entry_in (pf.deref x.parent).decrypted.as_mht = data_entry env pf h x.node_number) := by
  unfold file_node_t.parent_ptr at hp
  rw [hp] at hres ⊢
  unfold mht_entry data_entry file_node_t.entry_in
  unfold file_node_t.parent_number at hres ⊢
  constructor
  · intro ht
    rw [ht] at hres ⊢
    dsimp only at hres ⊢
    rw [mht_plain_deref env pf h _ hres]
  · intro ht
    rw [ht] at hres ⊢
    dsimp only at hres ⊢
    rw [mht_plain_deref env pf h _ hres]

theorem live_mht_lt (S m : Nat) (hl : live_mht S m) (hS : S ≤ NO_WRAP) : m < 2 ^ 50 := by
  unfold live_mht NO_WRAP MD_USER_DATA_SIZE PF_NODE_SIZE ATTACHED_DATA_NODES_COUNT at *
  omega

/-- What the key of a well-numbered node with a bounded number tells: under the physical
number of MHT node `m` there is that MHT node. -/
theorem numbered_mht (x : file_node_t) (m S : Nat) (hm : m < 2 ^ 50)
    (hn : x.physical_node_number = x.numbered) (hs : x.start ≤ S) (hS : S ≤ NO_WRAP)
    (hk : x.physical_node_number = mht_physical_node_number m) :
    x.type = FILE_MHT_NODE_TYPE ∧ x.node_number = m := by
  unfold file_node_t.numbered at hn
  cases ht : x.type
  · rw [ht] at hn
    dsimp only at hn
    have hb := start_bound_mht x S ht hs hS
    exact ⟨rfl, mht_physical_inj _ _ (by omega) hm (hn.symm.trans hk)⟩
  · rw [ht] at hn
    dsimp only at hn
    exact absurd (hn.symm.trans hk) (data_physical_ne_mht _ _ hm)

theorem numbered_data (x : file_node_t) (d S : Nat)
    (hn : x.physical_node_number = x.numbered) (hs : x.start ≤ S) (hS : S ≤ NO_WRAP)
    (hk : x.physical_node_number = data_physical_node_number d) :
    x.type = FILE_DATA_NODE_TYPE ∧ x.node_number = d := by
  unfold file_node_t.numbered at hn
  cases ht : x.type
  · rw [ht] at hn
    dsimp only at hn
    have hb := start_bound_mht x S ht hs hS
    exact absurd (hk.symm.trans hn) (data_physical_ne_mht _ _ (by omega))
  · rw [ht] at hn
    dsimp only at hn
    exact ⟨rfl, data_physical_inj _ _ (hn.symm.trans hk)⟩

/-- Adding a clean node with a new key leaves the file as it was. -/
theorem Good.add_agree {env : Env} {pf : pf_context_t} {h : Host} (g : Good env pf h)
    (pf1 : pf_context_t) (h1 : Host) (x : file_node_t)
    (hc : pf1.cache = x :: pf.cache) (hroot : pf1.root_mht = pf.root_mht)
    (hfile : h1.file = h.file)
    (hx : lruc_find pf.cache x.physical_node_number = none)
    (hshape : x.physical_node_number = x.numbered ∧ x.parent = x.parent_ptr ∧
      (x.type = FILE_MHT_NODE_TYPE → x.node_number ≠ 0) ∧
      x.start ≤ pf.encrypted_part_plain.size)
    (hpar : pf.resident x.parent = true)
    (hpend : x.new_node = true → x.start = pf.encrypted_part_plain.size)
    (hcc : x.new_node = false →
      (env.aes_gcm_decrypt (x.entry_in (pf.deref x.parent).decrypted.as_mht).key
        (h.file x.physical_node_number).as_node
        (x.entry_in (pf.deref x.parent).decrypted.as_mht).gmac).1 = SUCCESS ∧
      x.payload (env.aes_gcm_decrypt (x.entry_in (pf.deref x.parent).decrypted.as_mht).key
        (h.file x.physical_node_number).as_node
        (x.entry_in (pf.deref x.parent).decrypted.as_mht).gmac).2 = x.payload x.decrypted) :
    Agree env pf h pf1 h1 pf.encrypted_part_plain.size := by
  have hf1 : ∀ k, lruc_find pf1.cache k
      = if x.physical_node_number = k then some x else lruc_find pf.cache k := by
    intro k
    rw [hc, lruc_find_cons]
  have hsame : ∀ k n n1, lruc_find pf.cache k = some n → lruc_find pf1.cache k = some n1 →
      n1 = n := by
    intro k n n1 a b
    rw [hf1] at b
    by_cases e : x.physical_node_number = k
    · rw [e, a] at hx
      cases hx
    · rw [if_neg e, a] at b
      exact (Option.some.inj b).symm
  have hout : ∀ k n, lruc_find pf.cache k = some n → lruc_find pf1.cache k = none → False := by
    intro k n a b
    rw [hf1] at b
    by_cases e : x.physical_node_number = k
    · rw [if_pos e] at b
      cases b
    · rw [if_neg e, a] at b
      cases b
  have hin : ∀ k n1, lruc_find pf.cache k = none → lruc_find pf1.cache k = some n1 →
      n1 = x ∧ x.physical_node_number = k := by
    intro k n1 a b
    rw [hf1] at b
    by_cases e : x.physical_node_number = k
    · rw [if_pos e] at b
      exact ⟨(Option.some.inj b).symm, e⟩
    · rw [if_neg e, a] at b
      cases b
  have hent := entry_in_eq env pf h x hshape.2.1 hpar
  refine
    { root := by rw [hroot]; exact EntriesAgree.ea_refl _ _ _ _
      mht_both := ?_
      mht_none := fun m _ _ _ _ => by rw [hfile]
      mht_out := fun m n _ _ a b => (hout _ n a b).elim
      mht_in := ?_
      data_both := ?_
      data_none := fun d _ _ _ => by rw [hfile]
      data_out := fun d n _ a b => (hout _ n a b).elim
      data_in := ?_ }
  · intro m n n1 _ _ a b
    rw [hsame _ n n1 a b]
    exact EntriesAgree.ea_refl _ _ _ _
  · intro m n1 h0 hl a b
    obtain ⟨e1, e2⟩ := hin _ n1 a b
    subst e1
    obtain ⟨ht, hnum⟩ := numbered_mht n1 m _ (live_mht_lt _ m hl g.size_le) hshape.1
      hshape.2.2.2 g.size_le e2
    have hnew : n1.new_node = false := by
      cases hb : n1.new_node
      · rfl
      · have := hpend hb
        unfold file_node_t.start at this
        rw [ht, hnum] at this
        unfold live_mht at hl
        dsimp only at this
        omega
    have cc := (hcc hnew).2
    rw [hent.1 ht, hnum, e2] at cc
    unfold file_node_t.payload at cc
    rw [ht] at cc
    dsimp only at cc
    exact (Buf.mht.inj cc).symm
  · intro d n n1 _ a b
    rw [hsame _ n n1 a b]
  · intro d n1 hl a b
    obtain ⟨e1, e2⟩ := hin _ n1 a b
    subst e1
    obtain ⟨ht, hnum⟩ := numbered_data n1 d _ hshape.1 hshape.2.2.2 g.size_le e2
    have hnew : n1.new_node = false := by
      cases hb : n1.new_node
      · rfl
      · have := hpend hb
        unfold file_node_t.start at this
        rw [ht, hnum] at this
        unfold live_data at hl
        dsimp only at this
        omega
    have cc := (hcc hnew).2
    rw [hent.2 ht, hnum, e2] at cc
    unfold file_node_t.payload at cc
    rw [ht] at cc
    dsimp only at cc
    exact (Buf.data.inj cc).symm

theorem SameBytes.sb_refl (env : Env) (pf : pf_context_t) (h : Host) :
    SameBytes env pf h pf h := ⟨rfl, fun _ _ => rfl⟩

theorem SameBytes.sb_trans {env : Env} {pf : pf_context_t} {h : Host} {pf1 : pf_context_t}
    {h1 : Host} {pf2 : pf_context_t} {h2 : Host} (a : SameBytes env pf h pf1 h1)
    (b : SameBytes env pf1 h1 pf2 h2) : SameBytes env pf h pf2 h2 :=
  ⟨b.1.trans a.1, fun x hx => (b.2 x (by rw [a.1]; exact hx)).trans (a.2 x hx)⟩

theorem Agree.a_same {env : Env} {pf : pf_context_t} {h : Host} {pf1 : pf_context_t}
    {h1 : Host} (a : Agree env pf h pf1 h1 pf.encrypted_part_plain.size)
    (hep : pf1.encrypted_part_plain = pf.encrypted_part_plain) : SameBytes env pf h pf1 h1 :=
  ⟨by rw [hep], fun x hx => a.a_byte (by rw [hep]) x hx⟩

theorem deref_find_congr (a b : pf_context_t)
    (hf : ∀ k, lruc_find a.cache k = lruc_find b.cache k) (hr : a.root_mht = b.root_mht)
    (q : NodePtr) : a.deref q = b.deref q := by
  cases q with
  | root => exact hr
  | cached k =>
    show (lruc_find a.cache k).getD calloc_node = (lruc_find b.cache k).getD calloc_node
    rw [hf]

theorem resident_find_congr (a b : pf_context_t)
    (hf : ∀ k, lruc_find a.cache k = lruc_find b.cache k) (q : NodePtr) :
    a.resident q = b.resident q := by
  cases q with
  | root => rfl
  | cached k =>
    show (lruc_find a.cache k).isSome = (lruc_find b.cache k).isSome
    rw [hf]

/-- The invariant reads the cache through lookups only: a state with the same lookups, the same
root MHT, sizes and flags and the same blocks on disk has it too. -/
theorem Good.congr {env : Env} {pf : pf_context_t} {h : Host} (g : Good env pf h)
    (pf1 : pf_context_t) (h1 : Host)
    (hf : ∀ k, lruc_find pf1.cache k = lruc_find pf.cache k)
    (hk : (pf1.cache.map (fun n => n.physical_node_number)).Nodup)
    (hroot : pf1.root_mht = pf.root_mht)
    (hep : pf1.encrypted_part_plain = pf.encrypted_part_plain)
    (hnw : pf1.need_writing = pf.need_writing) (hfile : h1.file = h.file) :
    Good env pf1 h1 := by
  have hd : ∀ q, pf1.deref q = pf.deref q := deref_find_congr pf1 pf hf hroot
  have hr : ∀ q, pf1.resident q = pf.resident q := resident_find_congr pf1 pf hf
  refine
    { size_le := by rw [hep]; exact g.size_le
      keys := hk
      root_number := by rw [hroot]; exact g.root_number
      root_type := by rw [hroot]; exact g.root_type
      shape := ?_
      pinned := ?_
      dirty_up := ?_
      root_dirty := by rw [hroot, hnw, hep]; exact g.root_dirty
      pending := ?_
      clean := ?_ }
  · intro k n hn
    rw [hf] at hn
    rw [hep]
    exact g.shape k n hn
  · intro k n hn
    rw [hf] at hn
    rw [hr]
    exact g.pinned k n hn
  · intro k n hn hd1
    rw [hf] at hn
    rw [hd, hroot]
    exact g.dirty_up k n hn hd1
  · intro k n hn hc hnew
    rw [hf] at hn
    rw [hep]
    exact g.pending k n hn hc hnew
  · intro k n hn hc hnew
    rw [hf] at hn
    rw [hd, hfile]
    exact g.clean k n hn hc hnew

theorem SameBytes.of_congr (env : Env) (pf pf1 : pf_context_t) (h h1 : Host)
    (hf : ∀ k, lruc_find pf1.cache k = lruc_find pf.cache k)
    (hroot : pf1.root_mht = pf.root_mht)
    (hep : pf1.encrypted_part_plain = pf.encrypted_part_plain) (hfile : h1.file = h.file) :
    SameBytes env pf h pf1 h1 :=
  ⟨by rw [hep], fun x _ =>
    plaintext_byte_congr env pf pf1 h h1 hf (by rw [hroot]) hfile (by rw [hep]) x⟩

/-- A cached node is not its own parent. -/
theorem Good.parent_ne_self {env : Env} {pf : pf_context_t} {h : Host} (g : Good env pf h)
    (k : Nat) (n : file_node_t) (hn : lruc_find pf.cache k = some n) :
    n.parent ≠ .cached n.physical_node_number := by
  obtain ⟨hphys, hpar, hm0, hs⟩ := g.shape k n hn
  have hb := g.number_lt k n hn
  rw [hpar]
  unfold file_node_t.parent_ptr mht_ptr
  split
  · intro e
    cases e
  · intro e
    have e1 : mht_physical_node_number n.parent_number = n.physical_node_number :=
      NodePtr.cached.inj e
    rw [hphys] at e1
    unfold file_node_t.numbered at e1
    unfold file_node_t.parent_number at e1 hb
    cases ht : n.type
    · rw [ht] at e1 hb
      dsimp only at e1 hb
      have := mht_physical_inj _ _ hb.2 hb.1 e1
      have h0 := hm0 ht
      unfold CHILD_MHT_NODES_COUNT at this
      omega
    · rw [ht] at e1 hb
      dsimp only at e1 hb
      exact data_physical_ne_mht _ _ hb.2 e1.symm

theorem OrdExcept.o_mono {T T1 : file_node_t → Prop} {c : List file_node_t}
    (o : OrdExcept T c) (hT : ∀ a ∈ c, T a → T1 a) : OrdExcept T1 c := by
  unfold OrdExcept at o ⊢
  exact o.imp_of_mem (fun ha _ hab e => hT _ ha (hab e))

theorem OrdExcept.o_cons {T T1 : file_node_t → Prop} {c : List file_node_t}
    (o : OrdExcept T c) (x : file_node_t)
    (hx : (∃ b ∈ c, x.parent = .cached b.physical_node_number) → T1 x)
    (hT : ∀ a ∈ c, T a → T1 a) : OrdExcept T1 (x :: c) := by
  have o1 := o.o_mono hT
  unfold OrdExcept at o1 ⊢
  exact List.Pairwise.cons (fun b hb e => hx ⟨b, hb, e⟩) o1

theorem OrdExcept.o_sublist {T : file_node_t → Prop} {c c1 : List file_node_t}
    (o : OrdExcept T c) (hs : c1.Sublist c) : OrdExcept T c1 := by
  unfold OrdExcept at o ⊢
  exact o.sublist hs

theorem mem_eraseP_key (c : List file_node_t) (key : Nat)
    (hk : (c.map (fun n => n.physical_node_number)).Nodup) (b : file_node_t)
    (hb : b ∈ c.eraseP (fun m => m.physical_node_number == key)) :
    b.physical_node_number ≠ key := by
  intro e
  have hf := lruc_find_eraseP c key key hk
  rw [if_pos rfl] at hf
  have := (lruc_find_none_iff _ _).mp hf
  exact this (List.mem_map.mpr ⟨b, hb, e⟩)

theorem OrdExcept.o_imp {T T1 : file_node_t → Prop} {c : List file_node_t}
    (o : OrdExcept T c)
    (hT : ∀ a ∈ c, ∀ b ∈ c, a.parent = .cached b.physical_node_number → T a → T1 a) :
    OrdExcept T1 c := by
  unfold OrdExcept at o ⊢
  exact o.imp_of_mem (fun ha hb hab e => hT _ ha _ hb e (hab e))

/-- Marking the node under `key` most recently used: afterwards the exceptions to the order are
that node, and the old exceptions whose parent it is not. -/
theorem OrdExcept.o_get {T : file_node_t → Prop} {c : List file_node_t} (o : OrdExcept T c)
    (key : Nat) (hk : (c.map (fun n => n.physical_node_number)).Nodup) :
    OrdExcept (fun a => a.physical_node_number = key ∨ (T a ∧ a.parent ≠ .cached key))
      (lruc_get c key).2 := by
  unfold lruc_get
  rcases hf : lruc_find c key with _ | y
  · dsimp only
    refine o.o_imp ?_
    intro a _ b hb e hT
    right
    refine ⟨hT, ?_⟩
    rw [e]
    intro e1
    have := (lruc_find_none_iff _ _).mp hf
    exact this (List.mem_map.mpr ⟨b, hb, NodePtr.cached.inj e1⟩)
  · dsimp only
    have o1 : OrdExcept (fun a => a.physical_node_number = key ∨ (T a ∧ a.parent ≠ .cached key))
        (c.eraseP (fun m => m.physical_node_number == key)) := by
      refine (o.o_sublist (List.eraseP_sublist _)).o_imp ?_
      intro a _ b hb e hT
      right
      refine ⟨hT, ?_⟩
      rw [e]
      intro e1
      exact mem_eraseP_key c key hk b hb (NodePtr.cached.inj e1)
    unfold OrdExcept at o1 ⊢
    exact List.Pairwise.cons (fun b _ _ => Or.inl (lruc_find_key _ _ _ hf)) o1

/-- In an ordered cache the least recently used node is not the parent of another cached
node. -/
theorem Ordered.last_not_parent {c : List file_node_t} (o : Ordered c) (l : file_node_t)
    (hl : c.getLast? = some l)
    (a : file_node_t) (ha : a ∈ c) (hne : a.physical_node_number ≠ l.physical_node_number) :
    a.parent ≠ .cached l.physical_node_number := by
  have hc : c = c.dropLast ++ [l] := by
    have := List.dropLast_append_getLast? l hl
    exact this.symm
  have ha1 : a ∈ c.dropLast := by
    rw [hc] at ha
    rcases List.mem_append.mp ha with ha | ha
    · exact ha
    · simp only [List.mem_singleton] at ha
      rw [ha] at hne
      exact absurd rfl hne
  unfold Ordered OrdExcept at o
  rw [hc] at o
  have := (List.pairwise_append.mp o).2.2 a ha1 l (List.mem_singleton_self l)
  intro e
  exact this e

/-- Dropping the least recently used node of a cache, when the node is clean and starts below
the plaintext size, leaves a state that agrees with the state before. -/
theorem Good.drop_last_agree {env : Env} {pf : pf_context_t} {h : Host} (g : Good env pf h)
    (l : file_node_t) (hl : pf.cache.getLast? = some l)
    (hcl : l.need_writing = false) (hset : l.start < pf.encrypted_part_plain.size) :
    Agree env pf h { pf with cache := pf.cache.dropLast } h pf.encrypted_part_plain.size := by
  have hlm : l ∈ pf.cache := List.mem_of_getLast?_eq_some hl
  have hlf : lruc_find pf.cache l.physical_node_number = some l :=
    lruc_find_of_mem pf.cache l hlm g.keys
  have hf1 : ∀ k, lruc_find pf.cache.dropLast k
      = if k = l.physical_node_number then none else lruc_find pf.cache k :=
    fun k => lruc_find_dropLast pf.cache l k hl g.keys
  have hsub : ∀ k n, lruc_find pf.cache.dropLast k = some n →
      lruc_find pf.cache k = some n ∧ k ≠ l.physical_node_number := by
    intro k n hn
    rw [hf1] at hn
    by_cases e : k = l.physical_node_number
    · rw [if_pos e] at hn
      cases hn
    · rw [if_neg e] at hn
      exact ⟨hn, e⟩
  have hnew : l.new_node = false := by
    cases hb : l.new_node
    · rfl
    · have h1 := g.pending _ l hlf hcl hb
      omega
  have hclean := g.clean _ l hlf hcl hnew
  refine
    { root := EntriesAgree.ea_refl _ _ _ _
      mht_both := ?_
      mht_none := fun m _ _ _ _ => rfl
      mht_out := ?_
      mht_in := ?_
      data_both := ?_
      data_none := fun d _ _ _ => rfl
      data_out := ?_
      data_in := ?_ }
  · intro m n n1 _ _ a b
    have := (hsub _ n1 b).1
    rw [a] at this
    rw [Option.some.inj this]
    exact EntriesAgree.ea_refl _ _ _ _
  · intro m n h0 hlv a b
    have b1 : lruc_find pf.cache.dropLast (mht_physical_node_number m) = none := b
    rw [hf1] at b1
    by_cases e : mht_physical_node_number m = l.physical_node_number
    · rw [e, hlf] at a
      have hnl : n = l := (Option.some.inj a).symm
      subst hnl
      obtain ⟨ht, hnum⟩ := g.find_mht m (live_mht_lt _ m hlv g.size_le) n (by rw [e]; exact hlf)
      have cc := hclean.2
      rw [g.entry_mht _ n hlf ht, hnum, ← e] at cc
      unfold file_node_t.payload at cc
      rw [ht] at cc
      dsimp only at cc
      exact (Buf.mht.inj cc).symm
    · rw [if_neg e, a] at b1
      cases b1
  · intro m n1 _ _ a b
    have := (hsub _ n1 b).1
    rw [a] at this
    cases this
  · intro d n n1 _ a b
    have := (hsub _ n1 b).1
    rw [a] at this
    rw [Option.some.inj this]
  · intro d n hlv a b
    have b1 : lruc_find pf.cache.dropLast (data_physical_node_number d) = none := b
    rw [hf1] at b1
    by_cases e : data_physical_node_number d = l.physical_node_number
    · rw [e, hlf] at a
      have hnl : n = l := (Option.some.inj a).symm
      subst hnl
      obtain ⟨ht, hnum⟩ := g.find_data d n (by rw [e]; exact hlf)
      have cc := hclean.2
      rw [g.entry_data _ n hlf ht, hnum, ← e] at cc
      unfold file_node_t.payload at cc
      rw [ht] at cc
      dsimp only at cc
      exact (Buf.data.inj cc).symm
    · rw [if_neg e, a] at b1
      cases b1
  · intro d n1 _ a b
    have := (hsub _ n1 b).1
    rw [a] at this
    cases this

/-- Dropping the least recently used node of an ordered cache, when that node is clean, keeps
the invariant and the plaintext. -/
theorem Good.drop_last {env : Env} {pf : pf_context_t} {h : Host} (g : Good env pf h)
    (o : Ordered pf.cache) (l : file_node_t) (hl : pf.cache.getLast? = some l)
    (hcl : l.need_writing = false) (hset : l.start < pf.encrypted_part_plain.size) :
    Good env { pf with cache := pf.cache.dropLast } h ∧
    SameBytes env pf h { pf with cache := pf.cache.dropLast } h ∧
    Ordered pf.cache.dropLast := by
  have hf1 : ∀ k, lruc_find pf.cache.dropLast k
      = if k = l.physical_node_number then none else lruc_find pf.cache k :=
    fun k => lruc_find_dropLast pf.cache l k hl g.keys
  have hsub : ∀ k n, lruc_find pf.cache.dropLast k = some n →
      lruc_find pf.cache k = some n ∧ k ≠ l.physical_node_number := by
    intro k n hn
    rw [hf1] at hn
    by_cases e : k = l.physical_node_number
    · rw [if_pos e] at hn
      cases hn
    · rw [if_neg e] at hn
      exact ⟨hn, e⟩
  have hnp : ∀ k n, lruc_find pf.cache k = some n → k ≠ l.physical_node_number →
      n.parent ≠ .cached l.physical_node_number := by
    intro k n hn hne
    have hkey := lruc_find_key _ _ _ hn
    exact o.last_not_parent l hl n (lruc_find_mem _ _ _ hn) (by rw [hkey]; exact hne)
  have hres : ∀ q, q ≠ .cached l.physical_node_number → pf.resident q = true →
      (pf_context_t.resident { pf with cache := pf.cache.dropLast } q = true ∧
        pf_context_t.deref { pf with cache := pf.cache.dropLast } q = pf.deref q) := by
    intro q hq hr
    cases q with
    | root => exact ⟨rfl, rfl⟩
    | cached k =>
      have hk1 : k ≠ l.physical_node_number := fun e => hq (by rw [e])
      have hfk := find_of_resident pf k hr
      have hfk1 : lruc_find pf.cache.dropLast k = some (pf.deref (.cached k)) := by
        rw [hf1, if_neg hk1]
        exact hfk
      exact resident_of_find { pf with cache := pf.cache.dropLast } k _ hfk1
  refine ⟨?_, ?_, o.o_sublist (List.dropLast_sublist _)⟩
  · refine
      { size_le := g.size_le
        keys := (g.keys.sublist ((List.dropLast_sublist _).map _))
        root_number := g.root_number
        root_type := g.root_type
        shape := fun k n hn => g.shape k n (hsub k n hn).1
        pinned := ?_
        dirty_up := ?_
        root_dirty := g.root_dirty
        pending := fun k n hn => g.pending k n (hsub k n hn).1
        clean := ?_ }
    · intro k n hn
      obtain ⟨hn0, hne⟩ := hsub k n hn
      exact (hres _ (hnp k n hn0 hne) (g.pinned k n hn0)).1
    · intro k n hn hd
      obtain ⟨hn0, hne⟩ := hsub k n hn
      rw [(hres _ (hnp k n hn0 hne) (g.pinned k n hn0)).2]
      exact g.dirty_up k n hn0 hd
    · intro k n hn hc hnw
      obtain ⟨hn0, hne⟩ := hsub k n hn
      rw [(hres _ (hnp k n hn0 hne) (g.pinned k n hn0)).2]
      exact g.clean k n hn0 hc hnw
  · exact (g.drop_last_agree l hl hcl hset).a_same rfl

/-- An MHT node of the file that is safe stays safe in a state that agrees, when it
authenticates in case it left the cache. -/
theorem SafeMht.sm_agree {env : Env} {pf : pf_context_t} {h : Host} {pf1 : pf_context_t}
    {h1 : Host} {m : Nat} (s : SafeMht env pf h m)
    (a : Agree env pf h pf1 h1 pf.encrypted_part_plain.size) (h0 : m ≠ 0)
    (hl : live_mht pf.encrypted_part_plain.size m)
    (hm : ∀ n, lruc_find pf.cache (mht_physical_node_number m) = some n →
      lruc_find pf1.cache (mht_physical_node_number m) = none →
      (env.aes_gcm_decrypt (mht_entry env pf h m).key
        (h1.file (mht_physical_node_number m)).as_node (mht_entry env pf h m).gmac).1
        = SUCCESS) :
    SafeMht env pf1 h1 m := by
  intro hn1
  have hpl : (m - 1) / CHILD_MHT_NODES_COUNT = 0 ∨
      live_mht pf.encrypted_part_plain.size ((m - 1) / CHILD_MHT_NODES_COUNT) := by
    by_cases c : (m - 1) / CHILD_MHT_NODES_COUNT = 0
    · exact Or.inl c
    · exact Or.inr (live_mht_parent _ m h0 hl c)
  have hc1 : ¬ (cached_mht pf m = true ∧ cached_mht pf1 m = true) := by
    intro c
    have c2 := c.2
    unfold cached_mht at c2
    rw [hn1] at c2
    exact Bool.noConfusion c2
  have he : mht_entry env pf1 h1 m = mht_entry env pf h m := by
    unfold mht_entry
    exact (a.a_mht _ hpl).1 m h0 rfl hc1
  rw [he]
  rcases hf : lruc_find pf.cache (mht_physical_node_number m) with _ | n
  · rw [a.mht_none m h0 hl hf hn1]
    exact s hf
  · exact hm n hf hn1

/-- A data node of the file that is safe stays safe in a state that agrees, when it
authenticates in case it left the cache. -/
theorem SafeData.sd_agree {env : Env} {pf : pf_context_t} {h : Host} {pf1 : pf_context_t}
    {h1 : Host} {d : Nat} (s : SafeData env pf h d)
    (a : Agree env pf h pf1 h1 pf.encrypted_part_plain.size)
    (hl : live_data pf.encrypted_part_plain.size d)
    (hd : ∀ n, lruc_find pf.cache (data_physical_node_number d) = some n →
      lruc_find pf1.cache (data_physical_node_number d) = none →
      (env.aes_gcm_decrypt (data_entry env pf h d).key
        (h1.file (data_physical_node_number d)).as_node (data_entry env pf h d).gmac).1
        = SUCCESS) :
    SafeData env pf1 h1 d := by
  intro hn1
  have hpl : d / ATTACHED_DATA_NODES_COUNT = 0 ∨
      live_mht pf.encrypted_part_plain.size (d / ATTACHED_DATA_NODES_COUNT) := by
    by_cases c : d / ATTACHED_DATA_NODES_COUNT = 0
    · exact Or.inl c
    · exact Or.inr (live_data_parent _ d hl c)
  have hc1 : ¬ (cached_data pf d = true ∧ cached_data pf1 d = true) := by
    intro c
    have c2 := c.2
    unfold cached_data at c2
    rw [hn1] at c2
    exact Bool.noConfusion c2
  have he : data_entry env pf1 h1 d = data_entry env pf h d := by
    unfold data_entry
    exact (a.a_mht _ hpl).2 d rfl hc1
  rw [he]
  rcases hf : lruc_find pf.cache (data_physical_node_number d) with _ | n
  · rw [a.data_none d hl hf hn1]
    exact s hf
  · exact hd n hf hn1

/-- A state with the same cached nodes, the same root MHT plaintext and the same disk has the
same safe MHT nodes. -/
theorem SafeMht.sm_congr {env : Env} {pf : pf_context_t} {h : Host} {m : Nat}
    (s : SafeMht env pf h m) (pf1 : pf_context_t) (h1 : Host)
    (hf : ∀ k, lruc_find pf1.cache k = lruc_find pf.cache k)
    (hr : pf1.root_mht.decrypted = pf.root_mht.decrypted) (hfile : h1.file = h.file) :
    SafeMht env pf1 h1 m := by
  intro hn1
  unfold mht_entry
  rw [mht_plain_congr env pf pf1 h h1 hf hr hfile, hfile]
  rw [hf] at hn1
  exact s hn1

/-- A state with the same cached nodes, the same root MHT plaintext and the same disk has the
same safe data nodes. -/
theorem SafeData.sd_congr {env : Env} {pf : pf_context_t} {h : Host} {d : Nat}
    (s : SafeData env pf h d) (pf1 : pf_context_t) (h1 : Host)
    (hf : ∀ k, lruc_find pf1.cache k = lruc_find pf.cache k)
    (hr : pf1.root_mht.decrypted = pf.root_mht.decrypted) (hfile : h1.file = h.file) :
    SafeData env pf1 h1 d := by
  intro hn1
  unfold data_entry
  rw [mht_plain_congr env pf pf1 h h1 hf hr hfile, hfile]
  rw [hf] at hn1
  exact s hn1

/-- Dropping the least recently used node of a cache, when the node is clean and starts below
the plaintext size, keeps the safe nodes of the file safe: the dropped node authenticates by
the invariant. -/
theorem Good.drop_last_safe {env : Env} {pf : pf_context_t} {h : Host} (g : Good env pf h)
    (l : file_node_t) (hl : pf.cache.getLast? = some l)
    (hcl : l.need_writing = false) (hset : l.start < pf.encrypted_part_plain.size) :
    (∀ m, m ≠ 0 → live_mht pf.encrypted_part_plain.size m → SafeMht env pf h m →
      SafeMht env { pf with cache := pf.cache.dropLast } h m) ∧
    (∀ d, live_data pf.encrypted_part_plain.size d → SafeData env pf h d →
      SafeData env { pf with cache := pf.cache.dropLast } h d) := by
  have hlm : l ∈ pf.cache := List.mem_of_getLast?_eq_some hl
  have hlf : lruc_find pf.cache l.physical_node_number = some l :=
    lruc_find_of_mem pf.cache l hlm g.keys
  have hf1 : ∀ k, lruc_find pf.cache.dropLast k
      = if k = l.physical_node_number then none else lruc_find pf.cache k :=
    fun k => lruc_find_dropLast pf.cache l k hl g.keys
  have hnew : l.new_node = false := by
    cases hb : l.new_node
    · rfl
    · have h1 := g.pending _ l hlf hcl hb
      omega
  have hclean := (g.clean _ l hlf hcl hnew).1
  refine ⟨fun m h0 hlv s => ?_, fun d hlv s => ?_⟩
  · refine s.sm_agree (g.drop_last_agree l hl hcl hset) h0 hlv ?_
    intro n a b1
    have b2 : lruc_find pf.cache.dropLast (mht_physical_node_number m) = none := b1
    rw [hf1] at b2
    by_cases e : mht_physical_node_number m = l.physical_node_number
    · rw [e, hlf] at a
      have hnl : n = l := (Option.some.inj a).symm
      subst hnl
      obtain ⟨ht, hnum⟩ := g.find_mht m (live_mht_lt _ m hlv g.size_le) n (by rw [e]; exact hlf)
      rw [g.entry_mht _ n hlf ht, hnum, ← e] at hclean
      exact hclean
    · rw [if_neg e, a] at b2
      cases b2
  · refine s.sd_agree (g.drop_last_agree l hl hcl hset) hlv ?_
    intro n a b1
    have b2 : lruc_find pf.cache.dropLast (data_physical_node_number d) = none := b1
    rw [hf1] at b2
    by_cases e : data_physical_node_number d = l.physical_node_number
    · rw [e, hlf] at a
      have hnl : n = l := (Option.some.inj a).symm
      subst hnl
      obtain ⟨ht, hnum⟩ := g.find_data d n (by rw [e]; exact hlf)
      rw [g.entry_data _ n hlf ht, hnum, ← e] at hclean
      exact hclean
    · rw [if_neg e, a] at b2
      cases b2

theorem alloc_file (env : Env) (h : Host) : (alloc env h).2.file = h.file := rfl

/-- A successful `ipf_read_node` leaves the context as it was and returns the block that the
`uint64_t` offset of the node falls in. -/
theorem ipf_read_node_some (env : Env) (pf : pf_context_t) (h : Host) (n : Nat) (b : Block)
    (pf1 : pf_context_t) (h1 : Host) (hr : ipf_read_node env pf h n = (some b, pf1, h1)) :
    pf1 = pf ∧ b = h.file (n * PF_NODE_SIZE % U64 / PF_NODE_SIZE) ∧ h1.file = h.file := by
  unfold ipf_read_node cb_read at hr
  dsimp only at hr
  split at hr
  · cases hr
  · cases hr
    exact ⟨rfl, rfl, rfl⟩

/-- What a successful `ipf_read_mht_node` did when the node was not in the cache: it fetched
the parent, read the block of the node, decrypted it under the entry in the parent and added
the node to the cache. -/
theorem ipf_read_mht_node_inv (env : Env) (fuel : Nat) (pf : pf_context_t) (h : Host) (m : Nat)
    (hm : m ≠ 0) (hf : lruc_find pf.cache (mht_physical_node_number m) = none)
    (p : NodePtr) (pf2 : pf_context_t) (h2 : Host)
    (hr : ipf_read_mht_node env (fuel + 1) pf h m = (some p, pf2, h2)) :
    ∃ pp pf1 h1,
      ipf_read_mht_node env fuel pf h ((m - 1) / CHILD_MHT_NODES_COUNT) = (some pp, pf1, h1) ∧
      p = .cached (mht_physical_node_number m) ∧ h2.file = h1.file ∧
      PF_FAILURE (env.aes_gcm_decrypt
        ((pf1.deref pp).decrypted.as_mht.mht_nodes_crypto
          ((m - 1) % CHILD_MHT_NODES_COUNT)).key
        (h1.file (mht_physical_node_number m * PF_NODE_SIZE % U64 / PF_NODE_SIZE)).as_node
        ((pf1.deref pp).decrypted.as_mht.mht_nodes_crypto
          ((m - 1) % CHILD_MHT_NODES_COUNT)).gmac).1 = false ∧
      pf2 = { pf1 with cache :=
        { type := FILE_MHT_NODE_TYPE, node_number := m, parent := pp, need_writing := false,
          new_node := false, physical_node_number := mht_physical_node_number m,
          encrypted :=
            (h1.file (mht_physical_node_number m * PF_NODE_SIZE % U64 / PF_NODE_SIZE)).as_node,
          decrypted := .mht (env.aes_gcm_decrypt
            ((pf1.deref pp).decrypted.as_mht.mht_nodes_crypto
              ((m - 1) % CHILD_MHT_NODES_COUNT)).key
            (h1.file (mht_physical_node_number m * PF_NODE_SIZE % U64 / PF_NODE_SIZE)).as_node
            ((pf1.deref pp).decrypted.as_mht.mht_nodes_crypto
              ((m - 1) % CHILD_MHT_NODES_COUNT)).gmac).2.as_mht } :: pf1.cache } := by
  unfold ipf_read_mht_node at hr
  rw [if_neg hm] at hr
  dsimp only at hr
  rw [hf] at hr
  dsimp only at hr
  rcases hp : ipf_read_mht_node env fuel pf h ((m - 1) / CHILD_MHT_NODES_COUNT)
    with ⟨o, pf1, h1⟩
  rw [hp] at hr
  cases o with
  | none => cases hr
  | some pp =>
    dsimp only at hr
    rcases ha : alloc env h1 with ⟨b, ha2⟩
    have hafile : ha2.file = h1.file := by
      have := alloc_file env h1
      rw [ha] at this
      exact this
    rw [ha] at hr
    cases b with
    | false => cases hr
    | true =>
      dsimp only at hr
      rcases hn : ipf_read_node env pf1 ha2 (mht_physical_node_number m) with ⟨ob, pf3, h3⟩
      rw [hn] at hr
      cases ob with
      | none => cases hr
      | some block =>
        obtain ⟨e1, e2, e3⟩ := ipf_read_node_some env pf1 ha2 _ block pf3 h3 hn
        subst e1
        rw [hafile] at e2 e3
        dsimp only at hr
        split at hr
        · cases hr
        · rename_i hst
          rcases ha4 : alloc env h3 with ⟨b4, h4⟩
          have h4file : h4.file = h3.file := by
            have := alloc_file env h3
            rw [ha4] at this
            exact this
          rw [ha4] at hr
          cases b4 with
          | false => cases hr
          | true =>
            dsimp only at hr
            unfold lruc_add at hr
            cases hr
            refine ⟨pp, pf3, h1, rfl, rfl, h4file.trans e3, ?_, ?_⟩
            · rw [← e2]
              simpa using hst
            · rw [← e2]

theorem mht_up_step (j m : Nat) :
    mht_up j ((m - 1) / CHILD_MHT_NODES_COUNT) = mht_up (j + 1) m := by
  induction j with
  | zero => rfl
  | succ j ih =>
    show (mht_up j ((m - 1) / CHILD_MHT_NODES_COUNT) - 1) / CHILD_MHT_NODES_COUNT
      = (mht_up (j + 1) m - 1) / CHILD_MHT_NODES_COUNT
    rw [ih]

theorem ParentOnPath.p_up {m : Nat} {a : file_node_t}
    (hp : ParentOnPath ((m - 1) / CHILD_MHT_NODES_COUNT) a) : ParentOnPath m a := by
  obtain ⟨j, h0, e⟩ := hp
  rw [mht_up_step] at h0 e
  exact ⟨j + 1, h0, e⟩

theorem Fetch.f_refl {env : Env} {pf : pf_context_t} {h : Host} {T T1 N : file_node_t → Prop}
    (g : Good env pf h) (o : OrdExcept T pf.cache) (hT : ∀ a, T a → T1 a) :
    Fetch env pf h pf h T1 N :=
  { good := g
    same := SameBytes.sb_refl env pf h
    ord := o.o_mono (fun a _ => hT a)
    rest := ⟨pf.cache, rfl⟩
    file := rfl
    old := fun _ _ hn => hn
    new := fun _ _ hn => Or.inl hn
    fresh := fun _ _ hn c => by
      rw [hn] at c
      cases c
    image := fun _ _ hn c => by
      rw [hn] at c
      cases c
    safe_mht := fun _ _ _ s => s
    safe_data := fun _ _ s => s }

/-- A fetch followed by the addition of a clean node with a new key is a fetch. -/
theorem Fetch.f_add {env : Env} {pf : pf_context_t} {h : Host} {pf1 : pf_context_t}
    {h1 : Host} {T0 N0 T1 N1 : file_node_t → Prop} (F : Fetch env pf h pf1 h1 T0 N0)
    (h2 : Host) (x : file_node_t) (hfile : h2.file = h1.file)
    (hx : lruc_find pf1.cache x.physical_node_number = none)
    (hshape : x.physical_node_number = x.numbered ∧ x.parent = x.parent_ptr ∧
      (x.type = FILE_MHT_NODE_TYPE → x.node_number ≠ 0) ∧
      x.start ≤ pf1.encrypted_part_plain.size)
    (hpar : pf1.resident x.parent = true) (hclean : x.need_writing = false)
    (himg : x.new_node = true ∨ x.encrypted = (h1.file x.physical_node_number).as_node)
    (hpend : x.new_node = true → x.start = pf1.encrypted_part_plain.size)
    (hcc : x.new_node = false →
      (env.aes_gcm_decrypt (x.entry_in (pf1.deref x.parent).decrypted.as_mht).key
        (h1.file x.physical_node_number).as_node
        (x.entry_in (pf1.deref x.parent).decrypted.as_mht).gmac).1 = SUCCESS ∧
      x.payload (env.aes_gcm_decrypt (x.entry_in (pf1.deref x.parent).decrypted.as_mht).key
        (h1.file x.physical_node_number).as_node
        (x.entry_in (pf1.deref x.parent).decrypted.as_mht).gmac).2 = x.payload x.decrypted)
    (hT1 : (∃ b ∈ pf1.cache, x.parent = .cached b.physical_node_number) → T1 x)
    (hT : ∀ a, T0 a → T1 a) (hN : ∀ a, N0 a → N1 a) (hNx : N1 x) :
    Fetch env pf h { pf1 with cache := x :: pf1.cache } h2 T1 N1 := by
  have g2 : Good env { pf1 with cache := x :: pf1.cache } h2 :=
    F.good.add { pf1 with cache := x :: pf1.cache } h2 x rfl rfl rfl rfl hfile hx hshape hpar
      hclean hpend hcc
  have a2 := F.good.add_agree { pf1 with cache := x :: pf1.cache } h2 x rfl rfl hfile hx hshape
    hpar hpend hcc
  have hf2 : ∀ k, lruc_find (x :: pf1.cache) k
      = if x.physical_node_number = k then some x else lruc_find pf1.cache k :=
    fun k => lruc_find_cons x pf1.cache k
  refine
    { good := g2
      same := F.same.sb_trans (a2.a_same rfl)
      ord := F.ord.o_cons x hT1 (fun a _ => hT a)
      rest := ?_
      file := hfile.trans F.file
      old := ?_
      new := ?_
      fresh := ?_
      image := ?_
      safe_mht := ?_
      safe_data := ?_ }
  · obtain ⟨c, e⟩ := F.rest
    exact ⟨x :: pf1.cache, by rw [e]⟩
  · intro k n hn
    have h1n := F.old k n hn
    show lruc_find (x :: pf1.cache) k = some n
    rw [hf2]
    by_cases e : x.physical_node_number = k
    · rw [e, h1n] at hx
      cases hx
    · rw [if_neg e]
      exact h1n
  · intro k n hn
    have hn1 : lruc_find (x :: pf1.cache) k = some n := hn
    rw [hf2] at hn1
    by_cases e : x.physical_node_number = k
    · rw [if_pos e] at hn1
      cases hn1
      exact Or.inr hNx
    · rw [if_neg e] at hn1
      rcases F.new k n hn1 with c | c
      · exact Or.inl c
      · exact Or.inr (hN n c)
  · intro k n hn hnone
    have hn1 : lruc_find (x :: pf1.cache) k = some n := hn
    rw [hf2] at hn1
    by_cases e : x.physical_node_number = k
    · rw [if_pos e] at hn1
      cases hn1
      exact hclean
    · rw [if_neg e] at hn1
      exact F.fresh k n hn1 hnone
  · intro k n hn hnone
    have hn1 : lruc_find (x :: pf1.cache) k = some n := hn
    rw [hf2] at hn1
    by_cases e : x.physical_node_number = k
    · rw [if_pos e] at hn1
      cases hn1
      rw [← e, ← F.file]
      exact himg
    · rw [if_neg e] at hn1
      exact F.image k n hn1 hnone
  · intro m h0 hl s
    have hl1 : live_mht pf1.encrypted_part_plain.size m := by
      rw [F.same.1]
      exact hl
    refine (F.safe_mht m h0 hl s).sm_agree a2 h0 hl1 ?_
    intro n hn hnone
    have hn1 : lruc_find (x :: pf1.cache) (mht_physical_node_number m) = none := hnone
    rw [hf2] at hn1
    by_cases e : x.physical_node_number = mht_physical_node_number m
    · rw [if_pos e] at hn1
      cases hn1
    · rw [if_neg e, hn] at hn1
      cases hn1
  · intro d hl s
    have hl1 : live_data pf1.encrypted_part_plain.size d := by
      rw [F.same.1]
      exact hl
    refine (F.safe_data d hl s).sd_agree a2 hl1 ?_
    intro n hn hnone
    have hn1 : lruc_find (x :: pf1.cache) (data_physical_node_number d) = none := hnone
    rw [hf2] at hn1
    by_cases e : x.physical_node_number = data_physical_node_number d
    · rw [if_pos e] at hn1
      cases hn1
    · rw [if_neg e, hn] at hn1
      cases hn1

theorem live_mht_lt44 (S m : Nat) (hl : live_mht S m) (hS : S ≤ NO_WRAP) : m < 2 ^ 44 := by
  unfold live_mht NO_WRAP MD_USER_DATA_SIZE PF_NODE_SIZE ATTACHED_DATA_NODES_COUNT at *
  omega

theorem mht_block_index (m : Nat) (hm : m < 2 ^ 44) :
    mht_physical_node_number m * PF_NODE_SIZE % U64 / PF_NODE_SIZE
      = mht_physical_node_number m := by
  rw [mht_physical_small m (by omega)]
  unfold PF_NODE_SIZE U64
  omega

theorem data_block_index (d : Nat) (hd : d < 2 ^ 50) :
    data_physical_node_number d * PF_NODE_SIZE % U64 / PF_NODE_SIZE
      = data_physical_node_number d := by
  unfold data_physical_node_number PF_NODE_SIZE U64 ATTACHED_DATA_NODES_COUNT
  omega

theorem status_of_not_failure (s : pf_status_t) (hs : PF_FAILURE s = false) : s = SUCCESS := by
  unfold PF_FAILURE at hs
  simpa using hs

/-- A successful `ipf_read_mht_node` of a live MHT node is a fetch: it returns the pointer to
the node, which is at hand afterwards, and the nodes it adds to the cache are MHT nodes of the
file numbered no higher. -/
theorem ipf_read_mht_node_fetch (env : Env) (fuel : Nat) :
    ∀ (pf : pf_context_t) (h : Host) (m : Nat) (T : file_node_t → Prop),
    Good env pf h → OrdExcept T pf.cache → (m = 0 ∨ live_mht pf.encrypted_part_plain.size m) →
    ∀ (p : NodePtr) (pf2 : pf_context_t) (h2 : Host),
    ipf_read_mht_node env fuel pf h m = (some p, pf2, h2) →
    p = mht_ptr m ∧ pf2.resident p = true ∧
    Fetch env pf h pf2 h2 (fun a => T a ∨ ParentOnPath m a)
      (fun n => n.type = FILE_MHT_NODE_TYPE ∧ n.node_number ≤ m ∧
        n.start < pf.encrypted_part_plain.size) := by
  induction fuel with
  | zero =>
    intro pf h m T g o hl p pf2 h2 hr
    unfold ipf_read_mht_node at hr
    by_cases h0 : m = 0
    · rw [if_pos h0] at hr
      cases hr
      subst h0
      exact ⟨rfl, rfl, Fetch.f_refl g o (fun a ha => Or.inl ha)⟩
    · rw [if_neg h0] at hr
      dsimp only at hr
      rcases hf : lruc_find pf.cache (mht_physical_node_number m) with _ | n
      · rw [hf] at hr
        cases hr
      · rw [hf] at hr
        cases hr
        rw [mht_ptr_pos m h0]
        exact ⟨rfl, (resident_of_find pf _ n hf).1, Fetch.f_refl g o (fun a ha => Or.inl ha)⟩
  | succ fuel ih =>
    intro pf h m T g o hl p pf2 h2 hr
    by_cases h0 : m = 0
    · unfold ipf_read_mht_node at hr
      rw [if_pos h0] at hr
      cases hr
      subst h0
      exact ⟨rfl, rfl, Fetch.f_refl g o (fun a ha => Or.inl ha)⟩
    · rcases hf : lruc_find pf.cache (mht_physical_node_number m) with _ | n
      · obtain ⟨pp, pf1, h1, hrec, hp, hfile, hst, hpf2⟩ :=
          ipf_read_mht_node_inv env fuel pf h m h0 hf p pf2 h2 hr
        have hlive : live_mht pf.encrypted_part_plain.size m := hl.resolve_left h0
        have hm50 := live_mht_lt _ m hlive g.size_le
        have hpl : (m - 1) / CHILD_MHT_NODES_COUNT = 0 ∨
            live_mht pf.encrypted_part_plain.size ((m - 1) / CHILD_MHT_NODES_COUNT) := by
          by_cases c : (m - 1) / CHILD_MHT_NODES_COUNT = 0
          · exact Or.inl c
          · exact Or.inr (live_mht_parent _ m h0 hlive c)
        obtain ⟨hpp, hres, F⟩ := ih pf h _ T g o hpl pp pf1 h1 hrec
        have hsz : pf1.encrypted_part_plain.size = pf.encrypted_part_plain.size := F.same.1
        have hlt : (m - 1) / CHILD_MHT_NODES_COUNT < m := by
          unfold CHILD_MHT_NODES_COUNT
          omega
        have hx : lruc_find pf1.cache (mht_physical_node_number m) = none := by
          rcases hf1 : lruc_find pf1.cache (mht_physical_node_number m) with _ | n1
          · rfl
          · rcases F.new _ n1 hf1 with c | c
            · rw [hf] at c
              cases c
            · obtain ⟨ht, hnum⟩ := F.good.find_mht m hm50 n1 hf1
              rw [hnum] at c
              omega
        rw [mht_block_index m (live_mht_lt44 _ m hlive g.size_le)] at hst hpf2
        rw [hpf2, hp, mht_ptr_pos m h0]
        refine ⟨rfl, ?_, ?_⟩
        · exact (resident_of_find _ _ _ (lruc_find_head _ _ _ rfl)).1
        · refine F.f_add h2 _ hfile hx ⟨rfl, ?_, fun _ => h0, ?_⟩ hres rfl (Or.inr rfl)
            (fun c => by cases c) (fun _ => ⟨status_of_not_failure _ hst, rfl⟩) ?_
            (fun a ha => ?_) (fun a ha => ⟨ha.1, by omega, ha.2.2⟩) ⟨rfl, le_refl _, hlive⟩
          · exact hpp
          · rw [hsz]
            exact le_of_lt hlive
          · rintro ⟨b, hb, e⟩
            right
            refine ⟨1, ?_, ?_⟩
            · show (m - 1) / CHILD_MHT_NODES_COUNT ≠ 0
              intro c
              rw [hpp, c] at e
              cases e
            · show pp = _
              rw [hpp]
              have c : (m - 1) / CHILD_MHT_NODES_COUNT ≠ 0 := by
                intro c
                rw [hpp, c] at e
                cases e
              exact mht_ptr_pos _ c
          · rcases ha with ha | ha
            · exact Or.inl ha
            · exact Or.inr ha.p_up
      · unfold ipf_read_mht_node at hr
        rw [if_neg h0] at hr
        dsimp only at hr
        rw [hf] at hr
        cases hr
        rw [mht_ptr_pos m h0]
        exact ⟨rfl, (resident_of_find pf _ n hf).1, Fetch.f_refl g o (fun a ha => Or.inl ha)⟩

theorem alloc_true_file (env : Env) (h h1 : Host) (b : Bool) (ha : alloc env h = (b, h1)) :
    h1.file = h.file := by
  have := alloc_file env h
  rw [ha] at this
  exact this

/-- What a successful `ipf_append_mht_node` did: it fetched the parent and added a new, clean
MHT node with empty buffers to the cache. -/
theorem ipf_append_mht_node_inv (env : Env) (pf : pf_context_t) (h : Host) (m : Nat)
    (p : NodePtr) (pf2 : pf_context_t) (h2 : Host)
    (hr : ipf_append_mht_node env pf h m = (some p, pf2, h2)) :
    ∃ pp pf1 h1,
      ipf_read_mht_node env m pf h ((m - 1) / CHILD_MHT_NODES_COUNT) = (some pp, pf1, h1) ∧
      p = .cached (mht_physical_node_number m) ∧ h2.file = h1.file ∧
      pf2 = { pf1 with cache :=
        { type := FILE_MHT_NODE_TYPE, node_number := m, parent := pp, need_writing := false,
          new_node := true, physical_node_number := mht_physical_node_number m,
          encrypted := .data zero_bytes, decrypted := .data zero_bytes } :: pf1.cache } := by
  unfold ipf_append_mht_node at hr
  rcases hp : ipf_read_mht_node env m pf h ((m - 1) / CHILD_MHT_NODES_COUNT) with ⟨o, pf1, h1⟩
  rw [hp] at hr
  cases o with
  | none => cases hr
  | some pp =>
    dsimp only at hr
    rcases ha : alloc env h1 with ⟨b, ha2⟩
    have hafile := alloc_true_file env h1 ha2 b ha
    rw [ha] at hr
    cases b with
    | false => cases hr
    | true =>
      dsimp only at hr
      rcases ha3 : alloc env ha2 with ⟨b3, h3⟩
      have h3file := alloc_true_file env ha2 h3 b3 ha3
      rw [ha3] at hr
      cases b3 with
      | false => cases hr
      | true =>
        dsimp only at hr
        unfold lruc_add at hr
        cases hr
        exact ⟨pp, pf1, h1, rfl, rfl, h3file.trans hafile, rfl⟩

/-- What a successful `ipf_append_data_node` did: it fetched the MHT node and added a new,
clean data node with empty buffers to the cache. -/
theorem ipf_append_data_node_inv (env : Env) (pf : pf_context_t) (h : Host)
    (p : NodePtr) (pf2 : pf_context_t) (h2 : Host)
    (hr : ipf_append_data_node env pf h = (some p, pf2, h2)) :
    ∃ pp pf1 h1,
      ipf_get_mht_node env pf h = (some pp, pf1, h1) ∧
      p = .cached (get_node_numbers pf1.offset).physical_data_node_number ∧
      h2.file = h1.file ∧
      pf2 = { pf1 with cache :=
        { type := FILE_DATA_NODE_TYPE,
          node_number := (get_node_numbers pf1.offset).data_node_number,
          parent := pp, need_writing := false, new_node := true,
          physical_node_number := (get_node_numbers pf1.offset).physical_data_node_number,
          encrypted := .data zero_bytes, decrypted := .data zero_bytes } :: pf1.cache } := by
  unfold ipf_append_data_node at hr
  rcases hp : ipf_get_mht_node env pf h with ⟨o, pf1, h1⟩
  rw [hp] at hr
  cases o with
  | none => cases hr
  | some pp =>
    dsimp only at hr
    rcases ha : alloc env h1 with ⟨b, ha2⟩
    have hafile := alloc_true_file env h1 ha2 b ha
    rw [ha] at hr
    cases b with
    | false => cases hr
    | true =>
      dsimp only at hr
      rcases ha3 : alloc env ha2 with ⟨b3, h3⟩
      have h3file := alloc_true_file env ha2 h3 b3 ha3
      rw [ha3] at hr
      cases b3 with
      | false => cases hr
      | true =>
        dsimp only at hr
        unfold lruc_add at hr
        cases hr
        exact ⟨pp, pf1, h1, rfl, rfl, h3file.trans hafile, rfl⟩

/-- What a successful `ipf_read_data_node` did when the node was not in the cache: it fetched
the MHT node, read the block of the data node, decrypted it under the entry in the MHT node and
added the node to the cache. -/
theorem ipf_read_data_node_inv (env : Env) (pf : pf_context_t) (h : Host)
    (hf : lruc_find pf.cache (get_node_numbers pf.offset).physical_data_node_number = none)
    (p : NodePtr) (pf2 : pf_context_t) (h2 : Host)
    (hr : ipf_read_data_node env pf h = (some p, pf2, h2)) :
    ∃ pp pf1 h1,
      ipf_get_mht_node env pf h = (some pp, pf1, h1) ∧
      p = .cached (get_node_numbers pf.offset).physical_data_node_number ∧
      h2.file = h1.file ∧
      PF_FAILURE (env.aes_gcm_decrypt
        ((pf1.deref pp).decrypted.as_mht.data_nodes_crypto
          ((get_node_numbers pf.offset).data_node_number % ATTACHED_DATA_NODES_COUNT)).key
        (h1.file ((get_node_numbers pf.offset).physical_data_node_number * PF_NODE_SIZE % U64
          / PF_NODE_SIZE)).as_node
        ((pf1.deref pp).decrypted.as_mht.data_nodes_crypto
          ((get_node_numbers pf.offset).data_node_number % ATTACHED_DATA_NODES_COUNT)).gmac).1
        = false ∧
      pf2 = { pf1 with cache :=
        { type := FILE_DATA_NODE_TYPE,
          node_number := (get_node_numbers pf.offset).data_node_number,
          parent := pp, need_writing := false, new_node := false,
          physical_node_number := (get_node_numbers pf.offset).physical_data_node_number,
          encrypted :=
            (h1.file ((get_node_numbers pf.offset).physical_data_node_number * PF_NODE_SIZE
              % U64 / PF_NODE_SIZE)).as_node,
          decrypted := .data (env.aes_gcm_decrypt
            ((pf1.deref pp).decrypted.as_mht.data_nodes_crypto
              ((get_node_numbers pf.offset).data_node_number % ATTACHED_DATA_NODES_COUNT)).key
            (h1.file ((get_node_numbers pf.offset).physical_data_node_number * PF_NODE_SIZE
              % U64 / PF_NODE_SIZE)).as_node
            ((pf1.deref pp).decrypted.as_mht.data_nodes_crypto
              ((get_node_numbers pf.offset).data_node_number
                % ATTACHED_DATA_NODES_COUNT)).gmac).2.as_data } :: pf1.cache } := by
  unfold ipf_read_data_node at hr
  dsimp only at hr
  have hg : lruc_get pf.cache (get_node_numbers pf.offset).physical_data_node_number
      = (none, pf.cache) := by
    unfold lruc_get
    rw [hf]
  rw [hg] at hr
  dsimp only at hr
  rcases hp : ipf_get_mht_node env pf h with ⟨o, pf1, h1⟩
  rw [hp] at hr
  cases o with
  | none => cases hr
  | some pp =>
    dsimp only at hr
    rcases ha : alloc env h1 with ⟨b, ha2⟩
    have hafile := alloc_true_file env h1 ha2 b ha
    rw [ha] at hr
    cases b with
    | false => cases hr
    | true =>
      dsimp only at hr
      rcases hn : ipf_read_node env pf1 ha2 (get_node_numbers pf.offset).physical_data_node_number
        with ⟨ob, pf3, h3⟩
      rw [hn] at hr
      cases ob with
      | none => cases hr
      | some block =>
        obtain ⟨e1, e2, e3⟩ := ipf_read_node_some env pf1 ha2 _ block pf3 h3 hn
        subst e1
        rw [hafile] at e2 e3
        dsimp only at hr
        split at hr
        · cases hr
        · rename_i hst
          rcases ha4 : alloc env h3 with ⟨b4, h4⟩
          have h4file := alloc_true_file env h3 h4 b4 ha4
          rw [ha4] at hr
          cases b4 with
          | false => cases hr
          | true =>
            dsimp only at hr
            unfold lruc_add at hr
            cases hr
            refine ⟨pp, pf3, h1, rfl, rfl, h4file.trans e3, ?_, ?_⟩
            · rw [← e2]
              simpa using hst
            · rw [← e2]

/-- The navigator below the wrap-around bound, in terms of the numbering. -/
theorem get_node_numbers_eq (o : Nat) (hlo : MD_USER_DATA_SIZE ≤ o) (hhi : o ≤ NO_WRAP) :
    (get_node_numbers o).data_node_number = (o - MD_USER_DATA_SIZE) / PF_NODE_SIZE ∧
    (get_node_numbers o).mht_node_number
      = (o - MD_USER_DATA_SIZE) / PF_NODE_SIZE / ATTACHED_DATA_NODES_COUNT ∧
    (get_node_numbers o).physical_data_node_number
      = data_physical_node_number ((o - MD_USER_DATA_SIZE) / PF_NODE_SIZE) ∧
    (o - MD_USER_DATA_SIZE) / PF_NODE_SIZE < 2 ^ 50 ∧
    (o - MD_USER_DATA_SIZE) / PF_NODE_SIZE / ATTACHED_DATA_NODES_COUNT < 2 ^ 44 := by
  have hU : o < U64 := by
    unfold NO_WRAP at hhi
    unfold U64
    omega
  obtain ⟨h1, h2, h3, -⟩ := get_node_numbers_fit o hlo hU
  unfold data_physical_node_number PF_NODE_SIZE ATTACHED_DATA_NODES_COUNT
  refine ⟨h1, h2, h3, ?_, ?_⟩
  · unfold NO_WRAP MD_USER_DATA_SIZE at *
    omega
  · unfold NO_WRAP MD_USER_DATA_SIZE at *
    omega

/-- A successful `ipf_get_mht_node` at an offset within the file is a fetch of the MHT node of
the data node at the offset. -/
theorem ipf_get_mht_node_fetch (env : Env) (pf : pf_context_t) (h : Host)
    (T : file_node_t → Prop) (g : Good env pf h) (o : OrdExcept T pf.cache) (hset : Settled pf)
    (hlo : MD_USER_DATA_SIZE ≤ pf.offset) (hhi : pf.offset ≤ pf.encrypted_part_plain.size)
    (m : Nat)
    (hm : m = (pf.offset - MD_USER_DATA_SIZE) / PF_NODE_SIZE / ATTACHED_DATA_NODES_COUNT)
    (p : NodePtr) (pf2 : pf_context_t) (h2 : Host)
    (hr : ipf_get_mht_node env pf h = (some p, pf2, h2)) :
    p = mht_ptr m ∧ pf2.resident p = true ∧
    Fetch env pf h pf2 h2 (fun a => T a ∨ ParentOnPath m a)
      (FetchedMht pf.encrypted_part_plain.size m) := by
  obtain ⟨-, e2, -, -, hm44⟩ := get_node_numbers_eq pf.offset hlo (le_trans hhi g.size_le)
  rw [← hm] at e2 hm44
  unfold ipf_get_mht_node at hr
  rw [if_neg (not_lt.mpr hlo)] at hr
  dsimp only at hr
  rw [e2] at hr
  by_cases h0 : m = 0
  · rw [if_pos h0] at hr
    cases hr
    subst h0
    exact ⟨rfl, rfl, Fetch.f_refl g o (fun a ha => Or.inl ha)⟩
  · rw [if_neg h0] at hr
    have hlt : (m - 1) / CHILD_MHT_NODES_COUNT < m := by
      unfold CHILD_MHT_NODES_COUNT
      omega
    have hstart : MD_USER_DATA_SIZE + m * ATTACHED_DATA_NODES_COUNT * PF_NODE_SIZE
        ≤ pf.offset := by
      clear hr e2
      unfold ATTACHED_DATA_NODES_COUNT PF_NODE_SIZE MD_USER_DATA_SIZE at *
      omega
    by_cases happ : (pf.offset - MD_USER_DATA_SIZE) % (ATTACHED_DATA_NODES_COUNT * PF_NODE_SIZE)
        = 0 ∧ pf.offset = pf.encrypted_part_plain.size
    · rw [if_pos happ] at hr
      obtain ⟨pp, pf1, h1, hrec, hp, hfile, hpf2⟩ :=
        ipf_append_mht_node_inv env pf h m p pf2 h2 hr
      have hstart_eq : MD_USER_DATA_SIZE + m * ATTACHED_DATA_NODES_COUNT * PF_NODE_SIZE
          = pf.encrypted_part_plain.size := by
        rw [← happ.2]
        have := happ.1
        clear hr e2
        unfold ATTACHED_DATA_NODES_COUNT PF_NODE_SIZE MD_USER_DATA_SIZE at *
        omega
      have hpl : (m - 1) / CHILD_MHT_NODES_COUNT = 0 ∨
          live_mht pf.encrypted_part_plain.size ((m - 1) / CHILD_MHT_NODES_COUNT) := by
        by_cases c : (m - 1) / CHILD_MHT_NODES_COUNT = 0
        · exact Or.inl c
        · right
          unfold live_mht
          rw [← hstart_eq]
          unfold ATTACHED_DATA_NODES_COUNT PF_NODE_SIZE CHILD_MHT_NODES_COUNT at *
          omega
      obtain ⟨hpp, hres, F⟩ := ipf_read_mht_node_fetch env m pf h _ T g o hpl pp pf1 h1 hrec
      have hsz : pf1.encrypted_part_plain.size = pf.encrypted_part_plain.size := F.same.1
      have hx : lruc_find pf1.cache (mht_physical_node_number m) = none := by
        rcases hf1 : lruc_find pf1.cache (mht_physical_node_number m) with _ | n1
        · rfl
        · obtain ⟨ht, hnum⟩ := F.good.find_mht m (by omega) n1 hf1
          rcases F.new _ n1 hf1 with c | c
          · have := hset _ n1 c
            unfold file_node_t.start at this
            rw [ht, hnum] at this
            dsimp only at this
            omega
          · rw [hnum] at c
            omega
      rw [hpf2, hp, mht_ptr_pos m h0]
      refine ⟨rfl, ?_, ?_⟩
      · exact (resident_of_find _ _ _ (lruc_find_head _ _ _ rfl)).1
      · refine F.f_add h2 _ hfile hx ⟨rfl, ?_, fun _ => h0, ?_⟩ hres rfl (Or.inl rfl)
          (fun _ => ?_) (fun c => by cases c) ?_
          (fun a ha => ?_) (fun a ha => ⟨ha.1, by omega, Or.inl ha.2.2⟩)
          ⟨rfl, le_refl _, Or.inr rfl⟩
        · exact hpp
        · rw [hsz]
          exact le_of_eq hstart_eq
        · rw [hsz]
          exact hstart_eq
        · rintro ⟨b, hb, e⟩
          right
          have c : (m - 1) / CHILD_MHT_NODES_COUNT ≠ 0 := by
            intro c
            rw [hpp, c] at e
            cases e
          refine ⟨1, c, ?_⟩
          show pp = _
          rw [hpp]
          exact mht_ptr_pos _ c
        · rcases ha with ha | ha
          · exact Or.inl ha
          · exact Or.inr ha.p_up
    · rw [if_neg happ] at hr
      have hlive : live_mht pf.encrypted_part_plain.size m := by
        unfold live_mht
        by_cases c : pf.offset = pf.encrypted_part_plain.size
        · have hne : (pf.offset - MD_USER_DATA_SIZE) % (ATTACHED_DATA_NODES_COUNT * PF_NODE_SIZE)
              ≠ 0 := fun e => happ ⟨e, c⟩
          rw [← c]
          clear hr e2 happ
          unfold ATTACHED_DATA_NODES_COUNT PF_NODE_SIZE MD_USER_DATA_SIZE at *
          omega
        · omega
      obtain ⟨hpp, hres, F⟩ :=
        ipf_read_mht_node_fetch env m pf h m T g o (Or.inr hlive) p pf2 h2 hr
      refine ⟨hpp, hres, ?_⟩
      exact
        { good := F.good
          same := F.same
          ord := F.ord
          rest := F.rest
          file := F.file
          old := F.old
          new := fun k n hn => (F.new k n hn).imp id (fun c => ⟨c.1, c.2.1, Or.inl c.2.2⟩)
          fresh := F.fresh
          image := F.image
          safe_mht := F.safe_mht
          safe_data := F.safe_data }

theorem parent_on_path_zero (m : Nat) (a : file_node_t) (hp : a.parent = mht_ptr m)
    (hc : ∃ k, a.parent = .cached k) : ParentOnPath m a := by
  have h0 : m ≠ 0 := by
    intro c
    obtain ⟨k, e⟩ := hc
    rw [hp, c] at e
    cases e
  exact ⟨0, h0, by rw [hp]; exact mht_ptr_pos m h0⟩

/-- A successful `ipf_read_data_node` at an offset within the file, where no node is to be
appended, is a fetch of the data node at the offset, which ends most recently used. -/
theorem ipf_read_data_node_fetch (env : Env) (pf : pf_context_t) (h : Host)
    (T : file_node_t → Prop) (g : Good env pf h) (o : OrdExcept T pf.cache) (hset : Settled pf)
    (hlo : MD_USER_DATA_SIZE ≤ pf.offset) (hhi : pf.offset ≤ pf.encrypted_part_plain.size)
    (hna : ¬ ((pf.offset - MD_USER_DATA_SIZE) % PF_NODE_SIZE = 0 ∧
      pf.offset = pf.encrypted_part_plain.size))
    (d : Nat) (hd : d = (pf.offset - MD_USER_DATA_SIZE) / PF_NODE_SIZE)
    (p : NodePtr) (pf2 : pf_context_t) (h2 : Host)
    (hr : ipf_read_data_node env pf h = (some p, pf2, h2)) :
    p = .cached (data_physical_node_number d) ∧
    Fetch env pf h pf2 h2 (fun a => T a ∨ ParentOnPath (d / ATTACHED_DATA_NODES_COUNT) a)
      (FetchedNode pf.encrypted_part_plain.size d) ∧
    ∃ x c, pf2.cache = x :: c ∧ x.physical_node_number = data_physical_node_number d := by
  obtain ⟨e1, e2, e3, hd50, hm44⟩ := get_node_numbers_eq pf.offset hlo (le_trans hhi g.size_le)
  rw [← hd] at e1 e2 e3 hd50 hm44
  have hlive : live_data pf.encrypted_part_plain.size d := by
    unfold live_data
    clear hr e1 e2 e3
    unfold PF_NODE_SIZE MD_USER_DATA_SIZE at *
    omega
  rcases hf : lruc_find pf.cache (data_physical_node_number d) with _ | y
  · obtain ⟨pp, pf1, h1, hrec, hp, hfile, hst, hpf2⟩ :=
      ipf_read_data_node_inv env pf h (by rw [e3]; exact hf) p pf2 h2 hr
    rw [e1, e3] at hst hpf2
    rw [e3] at hp
    obtain ⟨hpp, hres, F⟩ := ipf_get_mht_node_fetch env pf h T g o hset hlo hhi
      (d / ATTACHED_DATA_NODES_COUNT) (by rw [hd]) pp pf1 h1 hrec
    have hsz : pf1.encrypted_part_plain.size = pf.encrypted_part_plain.size := F.same.1
    have hx : lruc_find pf1.cache (data_physical_node_number d) = none := by
      rcases hf1 : lruc_find pf1.cache (data_physical_node_number d) with _ | n1
      · rfl
      · obtain ⟨ht, hnum⟩ := F.good.find_data d n1 hf1
        rcases F.new _ n1 hf1 with c | c
        · rw [hf] at c
          cases c
        · rw [c.1] at ht
          cases ht
    rw [data_block_index d hd50] at hst hpf2
    rw [hpf2, hp]
    refine ⟨rfl, ?_, ⟨_, _, rfl, rfl⟩⟩
    refine F.f_add h2 _ hfile hx ⟨rfl, ?_, ?_, ?_⟩ hres rfl (Or.inr rfl)
      ?_ (fun _ => ⟨status_of_not_failure _ hst, rfl⟩) ?_
      (fun a ha => ha) (fun a ha => Or.inl ha) (Or.inr ⟨rfl, rfl⟩)
    · exact hpp
    · intro c
      cases c
    · rw [hsz]
      exact le_of_lt hlive
    · intro c
      cases c
    · rintro ⟨b, hb, e⟩
      right
      exact parent_on_path_zero _ _ hpp ⟨_, e⟩
  · obtain ⟨c1, hc1⟩ : ∃ c1, c1 = y :: pf.cache.eraseP
        (fun m => m.physical_node_number == data_physical_node_number d) := ⟨_, rfl⟩
    have hg : lruc_get pf.cache (data_physical_node_number d) = (some y, c1) := by
      unfold lruc_get
      rw [hf, hc1]
    have hfind := lruc_find_get pf.cache (data_physical_node_number d)
    have hkeys := lruc_get_keys pf.cache (data_physical_node_number d) g.keys
    have hord := o.o_get (data_physical_node_number d) g.keys
    rw [hg] at hfind hkeys hord
    dsimp only at hfind hkeys hord
    unfold ipf_read_data_node at hr
    dsimp only at hr
    rw [e3, hg] at hr
    dsimp only at hr
    cases hr
    have hfind1 : ∀ k, lruc_find c1 k = lruc_find pf.cache k := fun k => hfind k g.keys
    have g1 : Good env { pf with cache := c1 } h := g.congr _ h hfind1 hkeys rfl rfl rfl rfl
    refine ⟨rfl, ?_, ⟨y, _, hc1, lruc_find_key _ _ _ hf⟩⟩
    refine
      { good := g1
        same := SameBytes.of_congr env pf _ h h hfind1 rfl rfl rfl
        ord := ?_
        rest := ⟨_, rfl⟩
        file := rfl
        old := fun k n hn => by
          show lruc_find c1 k = some n
          rw [hfind1]
          exact hn
        new := fun k n hn => by
          left
          have hn1 : lruc_find c1 k = some n := hn
          rw [hfind1] at hn1
          exact hn1
        fresh := fun k n hn c => by
          have hn1 : lruc_find c1 k = some n := hn
          rw [hfind1, c] at hn1
          cases hn1
        image := fun k n hn c => by
          have hn1 : lruc_find c1 k = some n := hn
          rw [hfind1, c] at hn1
          cases hn1
        safe_mht := fun _ _ _ s => s.sm_congr _ h hfind1 rfl rfl
        safe_data := fun _ _ s => s.sd_congr _ h hfind1 rfl rfl }
    refine hord.o_imp ?_
    intro a ha b _ e hT
    rcases hT with hT | hT
    · right
      have hfa : lruc_find pf.cache a.physical_node_number = some a := by
        rw [← hfind1]
        exact lruc_find_of_mem _ a ha hkeys
      rw [hT] at hfa
      obtain ⟨ht, hnum⟩ := g.find_data d a hfa
      have hpar := (g.shape _ a hfa).2.1
      unfold file_node_t.parent_ptr file_node_t.parent_number at hpar
      rw [ht, hnum] at hpar
      exact parent_on_path_zero _ _ hpar ⟨_, e⟩
    · exact Or.inl hT.1

/-- A successful `ipf_append_data_node` at the end of a file whose size is a whole number of
data nodes beyond the inline region is a fetch of the data node that starts there, which ends
most recently used. -/
theorem ipf_append_data_node_fetch (env : Env) (pf : pf_context_t) (h : Host)
    (T : file_node_t → Prop) (g : Good env pf h) (o : OrdExcept T pf.cache) (hset : Settled pf)
    (hlo : MD_USER_DATA_SIZE ≤ pf.offset)
    (happ : (pf.offset - MD_USER_DATA_SIZE) % PF_NODE_SIZE = 0 ∧
      pf.offset = pf.encrypted_part_plain.size)
    (d : Nat) (hd : d = (pf.offset - MD_USER_DATA_SIZE) / PF_NODE_SIZE)
    (p : NodePtr) (pf2 : pf_context_t) (h2 : Host)
    (hr : ipf_append_data_node env pf h = (some p, pf2, h2)) :
    p = .cached (data_physical_node_number d) ∧
    Fetch env pf h pf2 h2 (fun a => T a ∨ ParentOnPath (d / ATTACHED_DATA_NODES_COUNT) a)
      (FetchedNode pf.encrypted_part_plain.size d) ∧
    ∃ x c, pf2.cache = x :: c ∧ x.physical_node_number = data_physical_node_number d := by
  have hhi : pf.offset ≤ pf.encrypted_part_plain.size := le_of_eq happ.2
  obtain ⟨e1, e2, e3, hd50, hm44⟩ := get_node_numbers_eq pf.offset hlo (le_trans hhi g.size_le)
  rw [← hd] at e1 e2 e3 hd50 hm44
  have hstart : MD_USER_DATA_SIZE + d * PF_NODE_SIZE = pf.encrypted_part_plain.size := by
    rw [← happ.2]
    have := happ.1
    clear hr e1 e2 e3
    unfold PF_NODE_SIZE MD_USER_DATA_SIZE at *
    omega
  obtain ⟨pp, pf1, h1, hrec, hp, hfile, hpf2⟩ := ipf_append_data_node_inv env pf h p pf2 h2 hr
  obtain ⟨hpp, hres, F⟩ := ipf_get_mht_node_fetch env pf h T g o hset hlo hhi
    (d / ATTACHED_DATA_NODES_COUNT) (by rw [hd]) pp pf1 h1 hrec
  have hsz : pf1.encrypted_part_plain.size = pf.encrypted_part_plain.size := F.same.1
  have hoff : pf1.offset = pf.offset := by
    obtain ⟨c, e⟩ := F.rest
    rw [e]
  rw [← hoff] at e1 e3
  rw [e1, e3] at hpf2
  rw [e3] at hp
  have hx : lruc_find pf1.cache (data_physical_node_number d) = none := by
    rcases hf1 : lruc_find pf1.cache (data_physical_node_number d) with _ | n1
    · rfl
    · obtain ⟨ht, hnum⟩ := F.good.find_data d n1 hf1
      rcases F.new _ n1 hf1 with c | c
      · have := hset _ n1 c
        unfold file_node_t.start at this
        rw [ht, hnum] at this
        dsimp only at this
        omega
      · rw [c.1] at ht
        cases ht
  rw [hpf2, hp]
  refine ⟨rfl, ?_, ⟨_, _, rfl, rfl⟩⟩
  refine F.f_add h2
    { type := FILE_DATA_NODE_TYPE, node_number := d, parent := pp, need_writing := false,
      new_node := true, physical_node_number := data_physical_node_number d,
      encrypted := .data zero_bytes, decrypted := .data zero_bytes }
    hfile hx ⟨rfl, ?_, ?_, ?_⟩ hres rfl (Or.inl rfl) (fun _ => ?_) ?_ ?_
    (fun a ha => ha) ?_ ?_
  · exact hpp
  · intro c
    cases c
  · rw [hsz]
    exact le_of_eq hstart
  · rw [hsz]
    exact hstart
  · intro c
    cases c
  · rintro ⟨b, hb, e⟩
    right
    exact parent_on_path_zero _ _ hpp ⟨_, e⟩
  · exact fun a ha => Or.inl ha
  · exact Or.inr ⟨rfl, rfl⟩

theorem InFront.i_mono {c : List file_node_t} {k j j1 : Nat} (hi : InFront c k j)
    (hj : j ≤ j1) : InFront c k j1 := by
  unfold InFront at hi ⊢
  exact (List.take_subset_take_left _ hj) hi

theorem InFront.i_mem {c : List file_node_t} {k j : Nat} (hi : InFront c k j) :
    k ∈ c.map (fun n => n.physical_node_number) := by
  unfold InFront at hi
  exact List.mem_of_mem_take hi

theorem InFront.i_head (x : file_node_t) (c : List file_node_t) (j : Nat) :
    InFront (x :: c) x.physical_node_number (j + 1) := by
  unfold InFront
  simp

theorem InFront.i_cons {c : List file_node_t} {k j : Nat} (hi : InFront c k j)
    (x : file_node_t) : InFront (x :: c) k (j + 1) := by
  unfold InFront at hi ⊢
  simp only [List.map_cons, List.take_succ_cons, List.mem_cons]
  exact Or.inr hi

theorem InFront.i_eraseP {c : List file_node_t} {k j : Nat} (hi : InFront c k j) (key : Nat)
    (hk : k ≠ key) : InFront (c.eraseP (fun m => m.physical_node_number == key)) k j := by
  unfold InFront at hi ⊢
  induction c generalizing j with
  | nil => simp at hi
  | cons x rest ih =>
    cases j with
    | zero => simp at hi
    | succ j =>
      simp only [List.map_cons, List.take_succ_cons, List.mem_cons] at hi
      by_cases e : x.physical_node_number = key
      · rw [List.eraseP_cons_of_pos (by simpa using e)]
        rcases hi with hi | hi
        · rw [hi, e] at hk
          exact absurd rfl hk
        · exact (List.take_subset_take_left _ (Nat.le_succ j)) hi
      · rw [List.eraseP_cons_of_neg (by simpa using e)]
        simp only [List.map_cons, List.take_succ_cons, List.mem_cons]
        rcases hi with hi | hi
        · exact Or.inl hi
        · exact Or.inr (ih hi)

/-- Marking a node most recently used moves every other node back by at most one place. -/
theorem InFront.i_get {c : List file_node_t} {k j : Nat} (hi : InFront c k j) (key : Nat) :
    InFront (lruc_get c key).2 k (j + 1) := by
  unfold lruc_get
  rcases hf : lruc_find c key with _ | y
  · exact hi.i_mono (Nat.le_succ j)
  · dsimp only
    by_cases e : k = key
    · rw [e, ← lruc_find_key _ _ _ hf]
      exact InFront.i_head y _ j
    · exact (hi.i_eraseP key e).i_cons y

theorem InFront.i_get_self (c : List file_node_t) (key : Nat) (y : file_node_t)
    (hf : lruc_find c key = some y) (j : Nat) : InFront (lruc_get c key).2 key (j + 1) := by
  unfold lruc_get
  rw [hf]
  dsimp only
  have := InFront.i_head y (c.eraseP (fun m => m.physical_node_number == key)) j
  rw [lruc_find_key _ _ _ hf] at this
  exact this

theorem mht_up_zero (j : Nat) : mht_up j 0 = 0 := by
  induction j with
  | zero => rfl
  | succ j ih =>
    show (mht_up j 0 - 1) / CHILD_MHT_NODES_COUNT = 0
    rw [ih]
    rfl

/-- What `bump_parents` does from MHT node `m` up, on a cache that is ordered but for nodes
whose parent is on that way: it changes the order of the cache only, leaves it ordered, and
moves a node back by at most one place for every level. -/
theorem bump_parents_spec (env : Env) (h : Host) (fuel : Nat) :
    ∀ (pf : pf_context_t) (m L : Nat), m ≤ fuel → m < 32 ^ L → m < 2 ^ 50 → Good env pf h →
    pf.resident (mht_ptr m) = true → OrdExcept (ParentOnPath m) pf.cache →
    (∃ c, bump_parents fuel pf (mht_ptr m) = { pf with cache := c }) ∧
    (∀ k, lruc_find (bump_parents fuel pf (mht_ptr m)).cache k = lruc_find pf.cache k) ∧
    ((bump_parents fuel pf (mht_ptr m)).cache.map (fun n => n.physical_node_number)).Nodup ∧
    Ordered (bump_parents fuel pf (mht_ptr m)).cache ∧
    (∀ k j, InFront pf.cache k j → InFront (bump_parents fuel pf (mht_ptr m)).cache k (j + L)) ∧
    (m ≠ 0 → InFront (bump_parents fuel pf (mht_ptr m)).cache (mht_physical_node_number m) L) := by
  induction fuel with
  | zero =>
    intro pf m L hm _ _ g _ o
    have h0 : m = 0 := by omega
    subst h0
    have hb : bump_parents 0 pf (mht_ptr 0) = pf := by
      unfold bump_parents
      rw [mht_ptr_zero]
      show (if pf.root_mht.node_number = 0 then pf else _) = pf
      rw [if_pos g.root_number]
    rw [hb]
    refine ⟨⟨_, rfl⟩, fun _ => rfl, g.keys, ?_, fun k j hi => hi.i_mono (by omega),
      fun c => absurd rfl c⟩
    exact o.o_mono (fun a _ ⟨j, hj, _⟩ => hj (mht_up_zero j))
  | succ fuel ih =>
    intro pf m L hm hL hm50 g hres o
    by_cases h0 : m = 0
    · subst h0
      have hb : bump_parents (fuel + 1) pf (mht_ptr 0) = pf := by
        unfold bump_parents
        rw [mht_ptr_zero]
        show (if pf.root_mht.node_number = 0 then pf else _) = pf
        rw [if_pos g.root_number]
      rw [hb]
      refine ⟨⟨_, rfl⟩, fun _ => rfl, g.keys, ?_, fun k j hi => hi.i_mono (by omega),
        fun c => absurd rfl c⟩
      exact o.o_mono (fun a _ ⟨j, hj, _⟩ => hj (mht_up_zero j))
    · rw [mht_ptr_pos m h0] at hres ⊢
      have hfn := find_of_resident pf _ hres
      obtain ⟨n, hn⟩ : ∃ n, n = pf.deref (.cached (mht_physical_node_number m)) := ⟨_, rfl⟩
      rw [← hn] at hfn
      have hL1 : L ≠ 0 := by
        intro c
        rw [c] at hL
        omega
      obtain ⟨L1, hL2⟩ : ∃ L1, L = L1 + 1 := ⟨L - 1, by omega⟩
      subst hL2
      obtain ⟨ht, hnum⟩ := g.find_mht m hm50 n hfn
      have hkey := lruc_find_key _ _ _ hfn
      have hpar : n.parent = mht_ptr ((m - 1) / CHILD_MHT_NODES_COUNT) := by
        have := (g.shape _ n hfn).2.1
        unfold file_node_t.parent_ptr file_node_t.parent_number at this
        rw [ht, hnum] at this
        exact this
      obtain ⟨c1, hc1⟩ : ∃ c1, c1 = (lruc_get pf.cache (mht_physical_node_number m)).2 :=
        ⟨_, rfl⟩
      have hb : bump_parents (fuel + 1) pf (.cached (mht_physical_node_number m))
          = bump_parents fuel { pf with cache := c1 }
              (mht_ptr ((m - 1) / CHILD_MHT_NODES_COUNT)) := by
        rw [bump_parents]
        rw [← hn, hnum, if_neg h0, hkey, hpar, hc1]
      have hfind1 : ∀ k, lruc_find c1 k = lruc_find pf.cache k := by
        intro k
        rw [hc1]
        exact lruc_find_get pf.cache _ k g.keys
      have hkeys1 : (c1.map (fun n => n.physical_node_number)).Nodup := by
        rw [hc1]
        exact lruc_get_keys pf.cache _ g.keys
      have g1 : Good env { pf with cache := c1 } h := g.congr _ h hfind1 hkeys1 rfl rfl rfl rfl
      have hres1 : pf_context_t.resident { pf with cache := c1 }
          (mht_ptr ((m - 1) / CHILD_MHT_NODES_COUNT)) = true := by
        rw [resident_find_congr { pf with cache := c1 } pf hfind1, ← hpar]
        exact g.pinned _ n hfn
      have hlt : (m - 1) / CHILD_MHT_NODES_COUNT < m := by
        unfold CHILD_MHT_NODES_COUNT
        omega
      have hL1' : (m - 1) / CHILD_MHT_NODES_COUNT < 32 ^ L1 := by
        unfold CHILD_MHT_NODES_COUNT
        rw [pow_succ] at hL
        omega
      have o1 : OrdExcept (ParentOnPath ((m - 1) / CHILD_MHT_NODES_COUNT)) c1 := by
        have := o.o_get (mht_physical_node_number m) g.keys
        rw [← hc1] at this
        refine this.o_imp ?_
        intro a ha b _ e hT
        rcases hT with hT | ⟨⟨j, hj, ej⟩, hne⟩
        · have hfa : lruc_find pf.cache a.physical_node_number = some a := by
            rw [← hfind1]
            exact lruc_find_of_mem _ a ha hkeys1
          rw [hT, hfn] at hfa
          have han : a = n := (Option.some.inj hfa).symm
          rw [han]
          exact parent_on_path_zero _ _ hpar ⟨_, by rw [← han]; exact e⟩
        · cases j with
          | zero => exact absurd ej hne
          | succ j =>
            rw [← mht_up_step] at hj ej
            exact ⟨j, hj, ej⟩
      obtain ⟨r1, r2, r3, r4, r5, r6⟩ := ih { pf with cache := c1 } _ L1 (by omega) hL1'
        (by omega) g1 hres1 o1
      rw [hb]
      refine ⟨?_, fun k => (r2 k).trans (hfind1 k), r3, r4, ?_, ?_⟩
      · obtain ⟨c, e⟩ := r1
        exact ⟨c, e⟩
      · intro k j hi
        have h1 : InFront c1 k (j + 1) := by
          rw [hc1]
          exact hi.i_get _
        have := r5 k (j + 1) h1
        rw [show j + (L1 + 1) = j + 1 + L1 by omega]
        exact this
      · intro _
        have h1 : InFront c1 (mht_physical_node_number m) (0 + 1) := by
          rw [hc1]
          exact InFront.i_get_self pf.cache _ n hfn 0
        have := r5 _ _ h1
        rw [show L1 + 1 = 0 + 1 + L1 by omega]
        exact this

theorem SameFile.sf_refl (h : Host) : SameFile h h := rfl

theorem SameFile.sf_trans {h h1 h2 : Host} (x : SameFile h h1) (y : SameFile h1 h2) :
    SameFile h h2 := y.trans x

theorem SameFile.sf_tick {h h1 : Host} (e : Event) (t : h1.file = h.file)
    (_ : block_writes [e] = []) : SameFile h h1 := t

theorem cb_open_same_file (env : Env) (h : Host) (handle : pf_handle_t) (mode : pf_file_mode_t) :
    SameFile h (cb_open env h handle mode).2.2 := by
  refine SameFile.sf_tick (.open_file handle mode) ?_ rfl
  unfold cb_open
  cases handle
  · rfl
  · dsimp only
    split_ifs <;> rfl

theorem cb_close_same_file (env : Env) (h : Host) (handle : pf_handle_t) :
    SameFile h (cb_close env h handle).2 :=
  SameFile.sf_tick (.close handle) rfl rfl

theorem cb_delete_same_file (env : Env) (h : Host) : SameFile h (cb_delete env h).2 := by
  refine SameFile.sf_tick (.delete .recovery) ?_ rfl
  unfold cb_delete
  dsimp only
  split_ifs <;> rfl

theorem cb_write_record_same_file (env : Env) (h : Host) (r : recovery_node_t) (o : Nat) :
    SameFile h (cb_write_record env h r o).2 := by
  refine SameFile.sf_tick (.write_record o r) ?_ rfl
  unfold cb_write_record
  dsimp only
  split_ifs <;> rfl

theorem cb_random_same_file (env : Env) (h : Host) : SameFile h (cb_random env h).2.2 :=
  SameFile.sf_tick .random rfl rfl

theorem ipf_write_recovery_record_same_file (env : Env) (pf : pf_context_t) (h : Host) (o : Nat)
    (r : recovery_node_t) : SameFile h (ipf_write_recovery_record env pf h o r).2.2 := by
  unfold ipf_write_recovery_record
  have := cb_write_record_same_file env h r o
  rcases hc : cb_write_record env h r o with ⟨s, h1⟩
  rw [hc] at this
  dsimp only at this ⊢
  split_ifs <;> exact this

theorem ipf_generate_secure_blob_same_file (env : Env) (pf : pf_context_t) (h : Host)
    (k : pf_key_t) (l : List Char) (n : Nat) :
    SameFile h (ipf_generate_secure_blob env pf h k l n).2.2 := by
  unfold ipf_generate_secure_blob
  have := cb_random_same_file env h
  rcases hc : cb_random env h with ⟨s, nonce, h1⟩
  rw [hc] at this
  dsimp only at this ⊢
  split_ifs
  · exact SameFile.sf_refl h
  · exact this
  · exact this
  · exact this

theorem ipf_generate_secure_blob_from_user_kdk_same_file (env : Env) (pf : pf_context_t) (h : Host)
    (r : Bool) : SameFile h (ipf_generate_secure_blob_from_user_kdk env pf h r).2.2 := by
  unfold ipf_generate_secure_blob_from_user_kdk
  have := cb_random_same_file env h
  rcases hc : cb_random env h with ⟨s, nonce, h1⟩
  rw [hc] at this
  cases r
  · simp only [Bool.not_false, if_true]
    by_cases c : PF_FAILURE s = true
    · rw [if_pos c]
      exact this
    · rw [if_neg c]
      dsimp only
      split_ifs <;> exact this
  · simp only [Bool.not_true, Bool.false_eq_true, if_false]
    split_ifs <;> exact SameFile.sf_refl h

theorem ipf_init_session_master_key_same_file (env : Env) (pf : pf_context_t) (h : Host) :
    SameFile h (ipf_init_session_master_key env pf h).2.2 := by
  unfold ipf_init_session_master_key
  have := ipf_generate_secure_blob_same_file env pf h 0 MASTER_KEY_NAME 0
  rcases hc : ipf_generate_secure_blob env pf h 0 MASTER_KEY_NAME 0 with ⟨o, pf1, h1⟩
  rw [hc] at this
  cases o <;> exact this

theorem ipf_derive_random_node_key_same_file (env : Env) (pf : pf_context_t) (h : Host) (n : Nat) :
    SameFile h (ipf_derive_random_node_key env pf h n).2.2 := by
  unfold ipf_derive_random_node_key
  dsimp only
  have key : ∀ b pf1 h1,
      (if pf.master_key_count ≥ MAX_MASTER_KEY_USAGES then
          ipf_init_session_master_key env { pf with master_key_count := pf.master_key_count + 1 } h
        else (true, { pf with master_key_count := pf.master_key_count + 1 }, h)) = (b, pf1, h1) →
      SameFile h h1 := by
    intro b pf1 h1 heq
    split at heq
    · have := ipf_init_session_master_key_same_file env
        { pf with master_key_count := pf.master_key_count + 1 } h
      rw [heq] at this
      exact this
    · simp only [Prod.mk.injEq] at heq
      obtain ⟨-, -, rfl⟩ := heq
      exact SameFile.sf_refl _
  split
  · rename_i heq
    exact key _ _ _ heq
  · rename_i pf1 h1 heq
    have e1 := key _ _ _ heq
    have := ipf_generate_secure_blob_same_file env pf1 h1 pf1.session_master_key RANDOM_KEY_NAME n
    rcases hc : ipf_generate_secure_blob env pf1 h1 pf1.session_master_key RANDOM_KEY_NAME n
      with ⟨o, pf2, h2⟩
    rw [hc] at this
    cases o <;> exact e1.sf_trans this

theorem write_recovery_nodes_same_file (env : Env) (l : List NodePtr) (pf : pf_context_t) (h : Host)
    (n : Nat) : SameFile h (write_recovery_nodes env l pf h n).2.2 := by
  induction l generalizing pf h n with
  | nil => exact SameFile.sf_refl h
  | cons p rest ih =>
    unfold write_recovery_nodes
    dsimp only
    split
    · exact ih ..
    · have := ipf_write_recovery_record_same_file env pf h (n * RECOVERY_NODE_SIZE)
        (pf.deref p).recovery_node
      rcases hc : ipf_write_recovery_record env pf h (n * RECOVERY_NODE_SIZE)
        (pf.deref p).recovery_node with ⟨b, pf1, h1⟩
      rw [hc] at this
      cases b
      · exact (this.sf_trans (cb_close_same_file env h1 .recovery)).sf_trans
          (cb_delete_same_file env _)
      · exact this.sf_trans (ih ..)

theorem ipf_write_recovery_file_same_file (env : Env) (pf : pf_context_t) (h : Host) :
    SameFile h (ipf_write_recovery_file env pf h).2.2 := by
  unfold ipf_write_recovery_file
  split
  · exact SameFile.sf_refl h
  · have e0 := cb_open_same_file env h .recovery PF_FILE_MODE_WRITE
    rcases ho : cb_open env h .recovery PF_FILE_MODE_WRITE with ⟨status, fs, h1⟩
    rw [ho] at e0
    dsimp only at e0 ⊢
    split
    · exact e0
    · have e1 := e0.sf_trans (write_recovery_nodes_same_file env (cache_ptrs pf) pf h1 0)
      rcases hw : write_recovery_nodes env (cache_ptrs pf) pf h1 0 with ⟨o, pf2, h2⟩
      rw [hw] at e1
      cases o with
      | none => exact e1
      | some n =>
        dsimp only at e1 ⊢
        have key : ∀ o pf3 h3,
            (if (pf2.root_mht.need_writing && !pf2.root_mht.new_node) = true then
                match ipf_write_recovery_record env pf2 h2 (n * RECOVERY_NODE_SIZE)
                    pf2.root_mht.recovery_node with
                | (false, pf3, h3) =>
                  let h4 := (cb_close env h3 .recovery).2
                  let h5 := (cb_delete env h4).2
                  (none, pf3, h5)
                | (true, pf3, h3) => (some (n * RECOVERY_NODE_SIZE + RECOVERY_NODE_SIZE), pf3, h3)
              else (some (n * RECOVERY_NODE_SIZE), pf2, h2)) = (o, pf3, h3) →
            SameFile h2 h3 := by
          intro o pf3 h3 heq3
          split at heq3
          · have := ipf_write_recovery_record_same_file env pf2 h2 (n * RECOVERY_NODE_SIZE)
              pf2.root_mht.recovery_node
            rcases hc : ipf_write_recovery_record env pf2 h2 (n * RECOVERY_NODE_SIZE)
              pf2.root_mht.recovery_node with ⟨b, pf4, h4⟩
            rw [hc] at this heq3
            cases b
            · simp only [Prod.mk.injEq] at heq3
              obtain ⟨-, -, rfl⟩ := heq3
              exact (this.sf_trans (cb_close_same_file env h4 .recovery)).sf_trans
                (cb_delete_same_file env _)
            · simp only [Prod.mk.injEq] at heq3
              obtain ⟨-, -, rfl⟩ := heq3
              exact this
          · simp only [Prod.mk.injEq] at heq3
            obtain ⟨-, -, rfl⟩ := heq3
            exact SameFile.sf_refl _
        split
        · rename_i heq3
          exact e1.sf_trans (key _ _ _ heq3)
        · rename_i o pf3 h3 heq3
          have e3 := e1.sf_trans (key _ _ _ heq3)
          have e4 := e3.sf_trans
            (ipf_write_recovery_record_same_file env pf3 h3 o pf3.meta_data_recovery_node)
          rcases hc : ipf_write_recovery_record env pf3 h3 o pf3.meta_data_recovery_node
            with ⟨b, pf4, h4⟩
          rw [hc] at e4
          cases b
          · exact (e4.sf_trans (cb_close_same_file env h4 .recovery)).sf_trans
              (cb_delete_same_file env _)
          · dsimp only at e4 ⊢
            have e5 := e4.sf_trans (cb_close_same_file env h4 .recovery)
            rcases hcl : cb_close env h4 .recovery with ⟨s5, h5⟩
            rw [hcl] at e5
            dsimp only at e5 ⊢
            split_ifs <;> exact e5

theorem update_data_nodes_same_file (env : Env) (l : List NodePtr) (pf : pf_context_t) (h : Host) :
    SameFile h (update_data_nodes env l pf h).2.2 := by
  induction l generalizing pf h with
  | nil => exact SameFile.sf_refl h
  | cons p rest ih =>
    unfold update_data_nodes
    dsimp only
    split
    · have := ipf_derive_random_node_key_same_file env pf h (pf.deref p).physical_node_number
      rcases hc : ipf_derive_random_node_key env pf h (pf.deref p).physical_node_number
        with ⟨b, pf1, h1⟩
      rw [hc] at this
      cases b
      · exact this
      · dsimp only at this ⊢
        split
        · exact this
        · exact this.sf_trans (ih ..)
    · exact ih ..

theorem update_mht_nodes_same_file (env : Env) (l : List NodePtr) (pf : pf_context_t) (h : Host) :
    SameFile h (update_mht_nodes env l pf h).2.2 := by
  induction l generalizing pf h with
  | nil => exact SameFile.sf_refl h
  | cons p rest ih =>
    unfold update_mht_nodes
    dsimp only
    have := ipf_derive_random_node_key_same_file env pf h (pf.deref p).physical_node_number
    rcases hc : ipf_derive_random_node_key env pf h (pf.deref p).physical_node_number
      with ⟨b, pf1, h1⟩
    rw [hc] at this
    cases b
    · exact this
    · dsimp only at this ⊢
      split
      · exact this
      · exact this.sf_trans (ih ..)

theorem ipf_update_all_data_and_mht_nodes_same_file (env : Env) (pf : pf_context_t) (h : Host) :
    SameFile h (ipf_update_all_data_and_mht_nodes env pf h).2.2 := by
  unfold ipf_update_all_data_and_mht_nodes
  have e1 := update_data_nodes_same_file env (cache_ptrs pf) pf h
  rcases h1e : update_data_nodes env (cache_ptrs pf) pf h with ⟨b, pf1, h1⟩
  rw [h1e] at e1
  cases b
  · exact e1
  · dsimp only at e1 ⊢
    have e2 := e1.sf_trans (update_mht_nodes_same_file env
      (LISTP_SORT (fun a b => mht_sort (pf1.deref a) (pf1.deref b))
        (collect_mht_list pf1 (cache_ptrs pf1) [])) pf1 h1)
    rcases h2e : update_mht_nodes env
      (LISTP_SORT (fun a b => mht_sort (pf1.deref a) (pf1.deref b))
        (collect_mht_list pf1 (cache_ptrs pf1) [])) pf1 h1 with ⟨b, pf2, h2⟩
    rw [h2e] at e2
    cases b
    · exact e2
    · dsimp only at e2 ⊢
      have e3 := e2.sf_trans
        (ipf_derive_random_node_key_same_file env pf2 h2 pf2.root_mht.physical_node_number)
      rcases h3e : ipf_derive_random_node_key env pf2 h2 pf2.root_mht.physical_node_number
        with ⟨b, pf3, h3⟩
      rw [h3e] at e3
      cases b
      · exact e3
      · dsimp only at e3 ⊢
        split_ifs <;> exact e3

theorem ipf_update_meta_data_node_same_file (env : Env) (pf : pf_context_t) (h : Host) :
    SameFile h (ipf_update_meta_data_node env pf h).2.2 := by
  unfold ipf_update_meta_data_node ipf_generate_random_meta_data_key
  have e1 := ipf_generate_secure_blob_from_user_kdk_same_file env pf h false
  rcases h1e : ipf_generate_secure_blob_from_user_kdk env pf h false with ⟨b, pf1, h1⟩
  rw [h1e] at e1
  cases b
  · exact e1
  · dsimp only at e1 ⊢
    split_ifs <;> exact e1


theorem flush_log_step_same_file (env : Env) (pf : pf_context_t) (h : Host) :
    SameFile h (flush_log_step env pf h).2.2 := by
  unfold flush_log_step
  split_ifs
  · exact ipf_write_recovery_file_same_file env pf h
  · exact SameFile.sf_refl h

/-- A successful `ipf_write_node` leaves the context as it was and stores the block at the
`uint64_t` offset of the node. -/
theorem ipf_write_node_file (env : Env) (pf : pf_context_t) (h : Host) (n : Nat) (b : Block)
    (hok : (ipf_write_node env pf h n b).1 = true) :
    (ipf_write_node env pf h n b).2.1 = pf ∧
    (ipf_write_node env pf h n b).2.2.file
      = Function.update h.file (n * PF_NODE_SIZE % U64 / PF_NODE_SIZE) b := by
  refine ⟨ipf_write_node_true env pf h n b hok, ?_⟩
  unfold ipf_write_node ipf_write_file cb_write at hok ⊢
  dsimp only at hok ⊢
  by_cases c : PF_FAILURE (env.io_status h.clock) = true
  · rw [if_pos c] at hok
    dsimp only at hok
    rw [if_pos c] at hok
    cases hok
  · rw [if_neg c]
    dsimp only
    rw [if_neg c]
    rfl

/-- A write of a node fails or succeeds; either way every other block stays. -/
theorem ipf_write_node_other (env : Env) (pf : pf_context_t) (h : Host) (n : Nat) (b : Block)
    (k : Nat) (hk : k ≠ n * PF_NODE_SIZE % U64 / PF_NODE_SIZE) :
    (ipf_write_node env pf h n b).2.2.file k = h.file k := by
  unfold ipf_write_node ipf_write_file cb_write
  dsimp only
  by_cases c : PF_FAILURE (env.io_status h.clock) = true
  · rw [if_pos c]
    dsimp only
    rw [if_pos c]
    rfl
  · rw [if_neg c]
    dsimp only
    rw [if_neg c]
    show Function.update _ _ _ k = _
    rw [Function.update_noteq hk]
    rfl

theorem ipf_set_update_flag_file (env : Env) (pf : pf_context_t) (h : Host) (k : Nat)
    (hk : k ≠ 0) : (ipf_set_update_flag env pf h).2.2.file k = h.file k := by
  unfold ipf_set_update_flag
  dsimp only
  have := ipf_write_node_other env (pf.with_update_flag 1) h 0
    (.meta (pf.with_update_flag 1).file_meta_data) k (by simpa using hk)
  rcases hc : ipf_write_node env (pf.with_update_flag 1) h 0
    (.meta (pf.with_update_flag 1).file_meta_data) with ⟨b, pf1, h1⟩
  rw [hc] at this
  cases b <;> exact this

/-- What a successful loop of `ipf_write_all_changes_to_disk` leaves on disk: the ciphertext
of every dirty node it visited in the block of the node, and every other block as it was. -/
theorem write_dirty_nodes_file (env : Env) (l : List NodePtr) :
    ∀ (pf : pf_context_t) (h : Host),
    (∀ p ∈ l, ∃ k, p = .cached k ∧ (pf.deref p).physical_node_number = k ∧ k < 2 ^ 52) →
    l.Nodup → (write_dirty_nodes env l pf h).1 = true →
    ∀ k, (write_dirty_nodes env l pf h).2.2.file k
      = if .cached k ∈ l ∧ (pf.deref (.cached k)).need_writing = true then
          .node (pf.deref (.cached k)).encrypted
        else h.file k := by
  induction l with
  | nil =>
    intro pf h _ _ _ k
    unfold write_dirty_nodes
    simp
  | cons p rest ih =>
    intro pf h hl hnd hok k
    obtain ⟨kp, hp, hphys, hkp⟩ := hl p (List.mem_cons_self _ _)
    have hrest : ∀ q ∈ rest, ∃ k, q = .cached k ∧ (pf.deref q).physical_node_number = k ∧
        k < 2 ^ 52 := fun q hq => hl q (List.mem_cons_of_mem _ hq)
    have hnd1 : rest.Nodup := (List.nodup_cons.mp hnd).2
    have hpn : p ∉ rest := (List.nodup_cons.mp hnd).1
    have hidx : kp * PF_NODE_SIZE % U64 / PF_NODE_SIZE = kp := by
      unfold PF_NODE_SIZE U64
      omega
    unfold write_dirty_nodes at hok ⊢
    dsimp only at hok ⊢
    by_cases hd : (pf.deref p).need_writing = true
    · have hc1 : (!(pf.deref p).need_writing) = false := by rw [hd]; rfl
      rw [hc1] at hok ⊢
      simp only [Bool.false_eq_true, if_false] at hok ⊢
      have hw := ipf_write_node_file env pf h (pf.deref p).physical_node_number
        (.node (pf.deref p).encrypted)
      rcases hc : ipf_write_node env pf h (pf.deref p).physical_node_number
        (.node (pf.deref p).encrypted) with ⟨b, pf1, h1⟩
      rw [hc] at hw hok
      cases b with
      | false => cases hok
      | true =>
        dsimp only at hw hok ⊢
        obtain ⟨e1, e2⟩ := hw rfl
        subst e1
        rw [hphys, hidx] at e2
        have hf : ∀ n : file_node_t,
            ({ n with need_writing := false, new_node := false } : file_node_t).physical_node_number
              = n.physical_node_number := fun _ => rfl
        have hrest2 : ∀ q ∈ rest, ∃ k, q = .cached k ∧
            ((pf1.modify p (fun n => { n with need_writing := false, new_node := false })).deref
              q).physical_node_number = k ∧ k < 2 ^ 52 := by
          intro q hq
          obtain ⟨k1, a1, a2, a3⟩ := hrest q hq
          refine ⟨k1, a1, ?_, a3⟩
          rw [deref_modify_ne pf1 p q _ hf (fun e => hpn (e ▸ hq))]
          exact a2
        rw [ih _ h1 hrest2 hnd1 hok k]
        by_cases ek : k = kp
        · subst ek
          rw [← hp]
          rw [if_neg (fun c => hpn c.1), if_pos ⟨List.mem_cons_self _ _, hd⟩, e2]
          simp
        · have hne : NodePtr.cached k ≠ p := by
            rw [hp]
            intro c
            exact ek (NodePtr.cached.inj c)
          rw [deref_modify_ne pf1 p (.cached k) _ hf hne]
          have hmem : (NodePtr.cached k ∈ p :: rest) ↔ (NodePtr.cached k ∈ rest) := by
            simp [hne]
          simp only [hmem]
          rw [e2, Function.update_noteq ek]
    · have hd0 : (pf.deref p).need_writing = false := by
        cases hb : (pf.deref p).need_writing
        · rfl
        · exact absurd hb hd
      have hc1 : (!(pf.deref p).need_writing) = true := by rw [hd0]; rfl
      rw [hc1] at hok ⊢
      simp only [if_true] at hok ⊢
      rw [ih pf h hrest hnd1 hok k]
      by_cases ek : NodePtr.cached k = p
      · rw [ek]
        rw [if_neg (fun c => hpn c.1), if_neg (fun c => hd c.2)]
      · have hmem : (NodePtr.cached k ∈ p :: rest) ↔ (NodePtr.cached k ∈ rest) := by
          simp [ek]
        simp only [hmem]

theorem EntriesKept.k_refl (pf0 pf : pf_context_t) : EntriesKept pf0 pf pf :=
  fun _ => ⟨fun _ => rfl, fun _ => Or.inl rfl, fun _ => Or.inl rfl⟩

theorem EntriesKept.k_congr {pf0 pf pf1 : pf_context_t} (hd : ∀ q, pf1.deref q = pf.deref q) :
    EntriesKept pf0 pf pf1 := by
  intro q
  rw [hd]
  exact ⟨fun _ => rfl, fun _ => Or.inl rfl, fun _ => Or.inl rfl⟩

theorem EntriesKept.k_trans {pf0 pf pf1 pf2 : pf_context_t} (a : EntriesKept pf0 pf pf1)
    (b : EntriesKept pf0 pf1 pf2) (hs : SameShape pf1 pf) : EntriesKept pf0 pf pf2 := by
  intro q
  obtain ⟨a1, a2, a3⟩ := a q
  obtain ⟨b1, b2, b3⟩ := b q
  refine ⟨fun ht => (b1 (by rw [(hs q).2.1]; exact ht)).trans (a1 ht), fun i => ?_, fun i => ?_⟩
  · rcases b2 i with c | c
    · rcases a2 i with c1 | c1
      · exact Or.inl (c.trans c1)
      · exact Or.inr c1
    · exact Or.inr c
  · rcases b3 i with c | c
    · rcases a3 i with c1 | c1
      · exact Or.inl (c.trans c1)
      · exact Or.inr c1
    · exact Or.inr c

/-- One step of the re-encryption loops keeps the plaintexts but for the entry that the step
assigns in the parent. -/
theorem kept_step (pf0 pf : pf_context_t) (p par : NodePtr) (c : Buf)
    (g : file_node_t → file_node_t)
    (hg1 : ∀ n, g n = { n with decrypted := (g n).decrypted })
    (hg2 : ∀ n c, (g { n with encrypted := c }).decrypted = (g n).decrypted)
    (hp : pf.resident p = true) (hpar : pf.resident par = true)
    (hpt : (pf.deref par).type = FILE_MHT_NODE_TYPE)
    (hgd : ∀ n i, (g n).decrypted.as_mht.data_nodes_crypto i
      = n.decrypted.as_mht.data_nodes_crypto i ∨ DirtyDataChild pf0 par i)
    (hgm : ∀ n i, (g n).decrypted.as_mht.mht_nodes_crypto i
      = n.decrypted.as_mht.mht_nodes_crypto i ∨ DirtyMhtChild pf0 par i) :
    EntriesKept pf0 pf ((pf.modify p (fun n => { n with encrypted := c })).modify par g) := by
  intro q
  have hF := (seal_step_fields pf p par c g hg1 hg2 hp hpar q).2.2.2.2.2.2.2.1
  rw [hF]
  by_cases e : q = par
  · subst e
    rw [if_pos rfl]
    refine ⟨fun ht => ?_, fun i => hgd _ i, fun i => hgm _ i⟩
    rw [hpt] at ht
    cases ht
  · rw [if_neg e]
    exact ⟨fun _ => rfl, fun _ => Or.inl rfl, fun _ => Or.inl rfl⟩

/-- The first loop of `ipf_update_all_data_and_mht_nodes` keeps the plaintexts but for the
entries of dirty cached data nodes. -/
theorem update_data_nodes_kept (env : Env) (pf0 : pf_context_t) (l : List NodePtr) :
    ∀ (pf : pf_context_t) (h : Host), Linked pf → SameShape pf pf0 →
    (∀ p ∈ l, p ≠ .root ∧ pf.resident p = true) →
    (update_data_nodes env l pf h).1 = true →
    SameShape (update_data_nodes env l pf h).2.1 pf ∧
    EntriesKept pf0 pf (update_data_nodes env l pf h).2.1 := by
  induction l with
  | nil =>
    intro pf h _ _ _ _
    exact ⟨SameShape.s_refl pf, EntriesKept.k_refl pf0 pf⟩
  | cons p rest ih =>
    intro pf h hl hs0 hres hok
    obtain ⟨hp0, hp⟩ := hres p (List.mem_cons_self _ _)
    by_cases c : ((pf.deref p).type = FILE_DATA_NODE_TYPE && (pf.deref p).need_writing) = true
    · have hc := c
      simp only [Bool.and_eq_true, decide_eq_true_eq] at hc
      obtain ⟨hpt, hpd⟩ := hc
      have hc1 := ipf_derive_random_node_key_cache env pf h (pf.deref p).physical_node_number
      have hr1 := ipf_derive_random_node_key_root_mht env pf h (pf.deref p).physical_node_number
      rcases hd : ipf_derive_random_node_key env pf h (pf.deref p).physical_node_number
        with ⟨b, pf1, h1⟩
      rw [hd] at hc1 hr1
      dsimp only at hc1 hr1
      cases b with
      | false =>
        rw [update_data_nodes_cons_no_key env p rest pf h c pf1 h1 hd] at hok
        exact absurd hok (by simp)
      | true =>
        rcases he : env.aes_gcm_encrypt pf1.cur_key none
          (some (.data (pf.deref p).decrypted.as_data)) with ⟨st, cipher, gmac⟩
        rw [update_data_nodes_cons_dirty env p rest pf h c pf1 h1 hd st cipher gmac he] at hok ⊢
        by_cases cf : PF_FAILURE st = true
        · rw [if_pos cf] at hok
          exact absurd hok (by simp)
        · rw [if_neg cf] at hok ⊢
          have hd1 : ∀ q, pf1.deref q = pf.deref q := deref_congr pf1 pf hc1 hr1
          have hs1 : SameShape pf1 pf := SameShape.s_congr pf1 pf hc1 hr1
          have hl1 : Linked pf1 := hl.l_transfer hs1
          have hp1 : pf1.resident p = true := by rw [(hs1 p).1]; exact hp
          obtain ⟨hparres, hpart, -, -⟩ := hl.1 p hp0 hp hpd
          have hpar1 : pf1.resident (pf.deref p).parent = true := by
            rw [(hs1 _).1]
            exact hparres
          have hs3 := seal_step_shape pf1 p (pf.deref p).parent cipher
            (fun m => m.set_data_node_crypto
              ((pf.deref p).node_number % ATTACHED_DATA_NODES_COUNT) ⟨pf1.cur_key, gmac⟩)
            (fun _ => rfl) (fun _ _ => rfl) hp1 hpar1
          have hs31 := hs3.s_trans hs1
          have hwit : DirtyDataChild pf0 (pf.deref p).parent
              ((pf.deref p).node_number % ATTACHED_DATA_NODES_COUNT) :=
            ⟨p, hp0, by rw [← (hs0 p).1]; exact hp, by rw [← (hs0 p).2.2.2.2.1]; exact hpd,
              by rw [← (hs0 p).2.1]; exact hpt, by rw [← (hs0 p).2.2.2.1],
              by rw [← (hs0 p).2.2.1]⟩
          have k3 := kept_step pf0 pf1 p (pf.deref p).parent cipher
            (fun m => m.set_data_node_crypto
              ((pf.deref p).node_number % ATTACHED_DATA_NODES_COUNT) ⟨pf1.cur_key, gmac⟩)
            (fun _ => rfl) (fun _ _ => rfl) hp1 hpar1 (by rw [hd1]; exact hpart)
            (fun n i => by
              rw [set_data_node_crypto_data]
              by_cases e : i = (pf.deref p).node_number % ATTACHED_DATA_NODES_COUNT
              · right
                rw [e]
                exact hwit
              · left
                rw [Function.update_noteq e])
            (fun n i => Or.inl rfl)
          obtain ⟨ih1, ih2⟩ := ih _ h1 (hl1.l_transfer hs3) (hs31.s_trans hs0)
            (fun r hr => ⟨(hres r (List.mem_cons_of_mem _ hr)).1, by
              rw [(hs31 r).1]
              exact (hres r (List.mem_cons_of_mem _ hr)).2⟩) hok
          refine ⟨ih1.s_trans hs31, ?_⟩
          exact ((EntriesKept.k_congr hd1).k_trans k3 hs1).k_trans ih2 hs31
    · rw [update_data_nodes_cons_clean env p rest pf h c] at hok ⊢
      exact ih pf h hl hs0 (fun r hr => hres r (List.mem_cons_of_mem _ hr)) hok

/-- The third loop of `ipf_update_all_data_and_mht_nodes` keeps the plaintexts but for the
entries of dirty cached MHT nodes. -/
theorem update_mht_nodes_kept (env : Env) (pf0 : pf_context_t) (l : List NodePtr) :
    ∀ (pf : pf_context_t) (h : Host), Linked pf → SameShape pf pf0 →
    (∀ p ∈ l, p ≠ .root ∧ pf.resident p = true ∧ (pf.deref p).type = FILE_MHT_NODE_TYPE ∧
      (pf.deref p).need_writing = true) →
    (update_mht_nodes env l pf h).1 = true →
    SameShape (update_mht_nodes env l pf h).2.1 pf ∧
    EntriesKept pf0 pf (update_mht_nodes env l pf h).2.1 := by
  induction l with
  | nil =>
    intro pf h _ _ _ _
    exact ⟨SameShape.s_refl pf, EntriesKept.k_refl pf0 pf⟩
  | cons p rest ih =>
    intro pf h hl hs0 hres hok
    obtain ⟨hp0, hp, hpt, hpd⟩ := hres p (List.mem_cons_self _ _)
    have hc1 := ipf_derive_random_node_key_cache env pf h (pf.deref p).physical_node_number
    have hr1 := ipf_derive_random_node_key_root_mht env pf h (pf.deref p).physical_node_number
    rcases hd : ipf_derive_random_node_key env pf h (pf.deref p).physical_node_number
      with ⟨b, pf1, h1⟩
    rw [hd] at hc1 hr1
    dsimp only at hc1 hr1
    cases b with
    | false =>
      rw [update_mht_nodes_cons_no_key env p rest pf h pf1 h1 hd] at hok
      exact absurd hok (by simp)
    | true =>
      rcases he : env.aes_gcm_encrypt pf1.cur_key none
        (some (.mht (pf.deref p).decrypted.as_mht)) with ⟨st, cipher, gmac⟩
      rw [update_mht_nodes_cons_key env p rest pf h pf1 h1 hd st cipher gmac he] at hok ⊢
      by_cases cf : PF_FAILURE st = true
      · rw [if_pos cf] at hok
        exact absurd hok (by simp)
      · rw [if_neg cf] at hok ⊢
        have hd1 : ∀ q, pf1.deref q = pf.deref q := deref_congr pf1 pf hc1 hr1
        have hs1 : SameShape pf1 pf := SameShape.s_congr pf1 pf hc1 hr1
        have hl1 : Linked pf1 := hl.l_transfer hs1
        have hp1 : pf1.resident p = true := by rw [(hs1 p).1]; exact hp
        obtain ⟨hparres, hpart, -, hnum⟩ := hl.1 p hp0 hp hpd
        obtain ⟨hn1, hn2, -⟩ := hnum hpt
        have hpar1 : pf1.resident (pf.deref p).parent = true := by
          rw [(hs1 _).1]
          exact hparres
        have hs3 := seal_step_shape pf1 p (pf.deref p).parent cipher
          (fun m => m.set_mht_node_crypto
            (u64_sub (pf.deref p).node_number 1 % CHILD_MHT_NODES_COUNT) ⟨pf1.cur_key, gmac⟩)
          (fun _ => rfl) (fun _ _ => rfl) hp1 hpar1
        have hs31 := hs3.s_trans hs1
        have hwit : DirtyMhtChild pf0 (pf.deref p).parent
            (u64_sub (pf.deref p).node_number 1 % CHILD_MHT_NODES_COUNT) := by
          rw [u64_sub_one _ hn1 hn2]
          exact ⟨p, hp0, by rw [← (hs0 p).1]; exact hp, by rw [← (hs0 p).2.2.2.2.1]; exact hpd,
            by rw [← (hs0 p).2.1]; exact hpt, by rw [← (hs0 p).2.2.2.1],
            by rw [← (hs0 p).2.2.1]⟩
        have k3 := kept_step pf0 pf1 p (pf.deref p).parent cipher
          (fun m => m.set_mht_node_crypto
            (u64_sub (pf.deref p).node_number 1 % CHILD_MHT_NODES_COUNT) ⟨pf1.cur_key, gmac⟩)
          (fun _ => rfl) (fun _ _ => rfl) hp1 hpar1 (by rw [hd1]; exact hpart)
          (fun n i => Or.inl rfl)
          (fun n i => by
            rw [set_mht_node_crypto_mht]
            by_cases e : i = u64_sub (pf.deref p).node_number 1 % CHILD_MHT_NODES_COUNT
            · right
              rw [e]
              exact hwit
            · left
              rw [Function.update_noteq e])
        obtain ⟨ih1, ih2⟩ := ih _ h1 (hl1.l_transfer hs3) (hs31.s_trans hs0)
          (fun r hr => by
            obtain ⟨a1, a2, a3, a4⟩ := hres r (List.mem_cons_of_mem _ hr)
            exact ⟨a1, by rw [(hs31 r).1]; exact a2, by rw [(hs31 r).2.1]; exact a3,
              by rw [(hs31 r).2.2.2.2.1]; exact a4⟩) hok
        refine ⟨ih1.s_trans hs31, ?_⟩
        exact ((EntriesKept.k_congr hd1).k_trans k3 hs1).k_trans ih2 hs31

theorem EntriesKept.k_of_decrypted {pf0 pf pf1 : pf_context_t}
    (hd : ∀ q, (pf1.deref q).decrypted = (pf.deref q).decrypted) : EntriesKept pf0 pf pf1 := by
  intro q
  rw [hd]
  exact ⟨fun _ => rfl, fun _ => Or.inl rfl, fun _ => Or.inl rfl⟩

theorem deref_root_enc (a b : pf_context_t) (c : Buf) (hc : a.cache = b.cache)
    (hr : a.root_mht = { b.root_mht with encrypted := c }) (q : NodePtr) :
    (a.deref q).decrypted = (b.deref q).decrypted ∧
    (q ≠ .root → a.deref q = b.deref q) := by
  cases q with
  | root =>
    refine ⟨?_, fun c => absurd rfl c⟩
    show a.root_mht.decrypted = b.root_mht.decrypted
    rw [hr]
  | cached k =>
    have : a.deref (.cached k) = b.deref (.cached k) := by
      unfold pf_context_t.deref
      rw [hc]
    exact ⟨by rw [this], fun _ => this⟩

/-- A successful `ipf_update_all_data_and_mht_nodes` keeps the plaintext of every data node,
and of every MHT node the entry of every child that was not a dirty cached node. -/
theorem ipf_update_all_data_and_mht_nodes_kept (env : Env) (pf : pf_context_t) (h : Host)
    (hl : Linked pf)
    (hok : (ipf_update_all_data_and_mht_nodes env pf h).1 = true) :
    EntriesKept pf pf (ipf_update_all_data_and_mht_nodes env pf h).2.1 := by
  have P1 := update_data_nodes_kept env pf (cache_ptrs pf) pf h hl (SameShape.s_refl pf)
    (cache_ptrs_mem pf)
  rcases h1 : update_data_nodes env (cache_ptrs pf) pf h with ⟨b1, pf1, hh1⟩
  rw [h1] at P1
  dsimp only at P1
  cases b1 with
  | false =>
    rw [ipf_update_all_data_and_mht_nodes_no_data env pf h pf1 hh1 h1] at hok
    exact absurd hok (by simp)
  | true =>
    obtain ⟨s1, k1⟩ := P1 rfl
    have hl1 : Linked pf1 := hl.l_transfer s1
    obtain ⟨c1, -⟩ := collect_mht_list_spec pf1 (cache_ptrs pf1) []
    obtain ⟨sp, -⟩ := listp_sort_outer_by pf1.deref
      (collect_mht_list pf1 (cache_ptrs pf1) []).length
      (collect_mht_list pf1 (cache_ptrs pf1) []) (Nat.le_refl _)
    have hmem : ∀ q, q ∈ LISTP_SORT (fun a b => mht_sort (pf1.deref a) (pf1.deref b))
          (collect_mht_list pf1 (cache_ptrs pf1) []) ↔
        (q ∈ cache_ptrs pf1 ∧ (pf1.deref q).type = FILE_MHT_NODE_TYPE ∧
          (pf1.deref q).need_writing = true) := by
      intro q
      unfold LISTP_SORT
      rw [sp.mem_iff, c1 q]
      simp
    have P2 := update_mht_nodes_kept env pf
      (LISTP_SORT (fun a b => mht_sort (pf1.deref a) (pf1.deref b))
        (collect_mht_list pf1 (cache_ptrs pf1) [])) pf1 hh1 hl1 s1
      (fun p hp => by
        obtain ⟨a1, a2, a3⟩ := (hmem p).mp hp
        exact ⟨(cache_ptrs_mem pf1 p a1).1, (cache_ptrs_mem pf1 p a1).2, a2, a3⟩)
    rcases h2 : update_mht_nodes env
      (LISTP_SORT (fun a b => mht_sort (pf1.deref a) (pf1.deref b))
        (collect_mht_list pf1 (cache_ptrs pf1) [])) pf1 hh1 with ⟨b2, pf2, hh2⟩
    rw [h2] at P2
    dsimp only at P2
    cases b2 with
    | false =>
      rw [ipf_update_all_data_and_mht_nodes_no_mht env pf h pf1 hh1 h1 pf2 hh2 h2] at hok
      exact absurd hok (by simp)
    | true =>
      obtain ⟨s2, k2⟩ := P2 rfl
      have hc3 := ipf_derive_random_node_key_cache env pf2 hh2 pf2.root_mht.physical_node_number
      have hr3 := ipf_derive_random_node_key_root_mht env pf2 hh2
        pf2.root_mht.physical_node_number
      rcases h3 : ipf_derive_random_node_key env pf2 hh2 pf2.root_mht.physical_node_number
        with ⟨b3, pf3, hh3⟩
      rw [h3] at hc3 hr3
      dsimp only at hc3 hr3
      cases b3 with
      | false =>
        rw [ipf_update_all_data_and_mht_nodes_no_key env pf h pf1 hh1 h1 pf2 hh2 h2 pf3 hh3 h3]
          at hok
        exact absurd hok (by simp)
      | true =>
        rcases he : env.aes_gcm_encrypt pf3.cur_key none
          (some (.mht pf3.root_mht.decrypted.as_mht)) with ⟨st, cipher, gmac⟩
        rw [ipf_update_all_data_and_mht_nodes_root env pf h pf1 hh1 h1 pf2 hh2 h2 pf3 hh3 h3
          st cipher gmac he] at hok ⊢
        by_cases cf : PF_FAILURE st = true
        · rw [if_pos cf] at hok
          exact absurd hok (by simp)
        · rw [if_neg cf]
          have s3 : SameShape pf3 pf2 := SameShape.s_congr pf3 pf2 hc3 hr3
          have hd3 : ∀ q, pf3.deref q = pf2.deref q := deref_congr pf3 pf2 hc3 hr3
          have k12 := k1.k_trans k2 s1
          have k123 : EntriesKept pf pf pf3 :=
            k12.k_trans (EntriesKept.k_congr hd3) (s2.s_trans s1)
          suffices key : ∀ F : pf_context_t, F.cache = pf3.cache →
              F.root_mht = { pf3.root_mht with encrypted := cipher } →
              EntriesKept pf pf F from key _ rfl rfl
          intro F hFc hFr
          exact k123.k_trans
            (EntriesKept.k_of_decrypted (fun q => (deref_root_enc F pf3 cipher hFc hFr q).1))
            (s3.s_trans (s2.s_trans s1))

theorem written_key (n : file_node_t) :
    (written n).physical_node_number = n.physical_node_number := by
  unfold written
  split <;> rfl

theorem lruc_find_map_written (c : List file_node_t) (k : Nat) :
    lruc_find (c.map written) k = (lruc_find c k).map written := by
  unfold lruc_find
  rw [List.find?_map]
  have : ((fun n : file_node_t => n.physical_node_number == k) ∘ written)
      = (fun n : file_node_t => n.physical_node_number == k) := by
    funext n
    simp [Function.comp, written_key]
  rw [this]

theorem written_calloc : written calloc_node = calloc_node := rfl

/-- Reading through a pointer after every cached node and the root MHT have been written. -/
theorem deref_written (a b : pf_context_t) (hc : a.cache = b.cache.map written)
    (hr : a.root_mht = written b.root_mht) (q : NodePtr) :
    a.deref q = written (b.deref q) ∧ a.resident q = b.resident q := by
  cases q with
  | root => exact ⟨hr, rfl⟩
  | cached k =>
    unfold pf_context_t.deref pf_context_t.resident
    dsimp only
    rw [hc, lruc_find_map_written]
    rcases lruc_find b.cache k with _ | n
    · exact ⟨rfl, rfl⟩
    · exact ⟨rfl, rfl⟩

/-- The invariant gives the tree shape that the re-encryption relies on. -/
theorem Good.linked {env : Env} {pf : pf_context_t} {h : Host} (g : Good env pf h) :
    Linked pf := by
  constructor
  · intro q hq0 hres _
    cases q with
    | root => exact absurd rfl hq0
    | cached k =>
      have hf := find_of_resident pf k hres
      obtain ⟨n, hn⟩ : ∃ n, n = pf.deref (.cached k) := ⟨_, rfl⟩
      rw [← hn] at hf ⊢
      obtain ⟨p1, p2, p3⟩ := g.parent_facts k n hf
      obtain ⟨-, -, s3, -⟩ := g.shape k n hf
      have hb := (g.number_lt k n hf).1
      refine ⟨g.pinned k n hf, p2, fun ht => ?_, fun ht => ⟨?_, ?_, ?_⟩⟩
      · rw [p3]
        unfold file_node_t.parent_number
        rw [ht]
      · have := s3 ht
        omega
      · unfold U64
        omega
      · rw [p3]
        unfold file_node_t.parent_number
        rw [ht]
  · intro q r hq0 hr0 hq hr ht hnum
    cases q with
    | root => exact absurd rfl hq0
    | cached k =>
      cases r with
      | root => exact absurd rfl hr0
      | cached k1 =>
        have hf := find_of_resident pf k hq
        have hf1 := find_of_resident pf k1 hr
        have e1 := (g.shape k _ hf).1
        have e2 := (g.shape k1 _ hf1).1
        unfold file_node_t.numbered at e1 e2
        rw [ht, hnum] at e1
        rw [← e2, lruc_find_key _ _ _ hf, lruc_find_key _ _ _ hf1] at e1
        rw [e1]

/-- The physical numbers of the cached nodes are at least 2 and keep the block offsets from
wrapping. -/
theorem Good.key_bounds {env : Env} {pf : pf_context_t} {h : Host} (g : Good env pf h)
    (k : Nat) (n : file_node_t) (hn : lruc_find pf.cache k = some n) :
    2 ≤ k ∧ k < 2 ^ 52 := by
  obtain ⟨s1, -, s3, s4⟩ := g.shape k n hn
  have hk := lruc_find_key _ _ _ hn
  rw [← hk, s1]
  unfold file_node_t.numbered
  cases ht : n.type
  · dsimp only
    have hb := start_bound_mht n _ ht s4 g.size_le
    have h0 := s3 ht
    rw [mht_physical_small _ (by omega)]
    omega
  · dsimp only
    have hb := start_bound_data n _ ht s4 g.size_le
    unfold data_physical_node_number ATTACHED_DATA_NODES_COUNT
    omega

/-- What a successful `ipf_write_all_changes_to_disk` that writes the tree leaves on disk
beyond blocks 0 and 1: the ciphertext of every dirty cached node in the block of the node, and
every other block as it was. -/
theorem ipf_write_all_changes_to_disk_file (env : Env) (pf : pf_context_t) (h : Host)
    (hk : (pf.cache.map (fun x => x.physical_node_number)).Nodup)
    (hb : ∀ n ∈ pf.cache, n.physical_node_number < 2 ^ 52)
    (hg : flush_writes_tree pf = true)
    (hok : (ipf_write_all_changes_to_disk env pf h).1 = true)
    (k : Nat) (hk0 : k ≠ 0) (hk1 : k ≠ 1) :
    (ipf_write_all_changes_to_disk env pf h).2.2.file k
      = if pf.resident (.cached k) = true ∧ (pf.deref (.cached k)).need_writing = true then
          .node (pf.deref (.cached k)).encrypted
        else h.file k := by
  have hl : ∀ p ∈ cache_ptrs pf, ∃ k, p = .cached k ∧ (pf.deref p).physical_node_number = k ∧
      k < 2 ^ 52 := by
    intro p hp
    unfold cache_ptrs at hp
    obtain ⟨n, hn, e⟩ := List.mem_map.mp hp
    refine ⟨n.physical_node_number, e.symm, ?_, hb n hn⟩
    rw [← e, deref_of_mem pf n hn hk]
  have hmem : ∀ k, (NodePtr.cached k ∈ cache_ptrs pf) ↔ pf.resident (.cached k) = true := by
    intro k
    constructor
    · intro c
      exact (cache_ptrs_mem pf _ c).2
    · intro c
      exact mem_cache_ptrs pf _ (by simp) c
  have sp := write_dirty_nodes_file env (cache_ptrs pf) pf h hl (cache_ptrs_nodup pf hk)
  unfold ipf_write_all_changes_to_disk at hok ⊢
  dsimp only at hok ⊢
  unfold flush_writes_tree at hg
  rw [if_pos hg] at hok ⊢
  rcases hw : write_dirty_nodes env (cache_ptrs pf) pf h with ⟨b, pf1, h1⟩
  rw [hw] at sp hok
  cases b with
  | false => simp at hok
  | true =>
    dsimp only at sp hok ⊢
    have sp1 := sp rfl k
    simp only [hmem] at sp1
    have w1 := ipf_write_node_other env pf1 h1 1 (.node pf1.root_mht.encrypted) k (by
      unfold PF_NODE_SIZE U64
      omega)
    rcases hw1 : ipf_write_node env pf1 h1 1 (.node pf1.root_mht.encrypted) with ⟨b2, pf2, h2⟩
    rw [hw1] at w1 hok
    cases b2 with
    | false => simp at hok
    | true =>
      dsimp only at w1 hok ⊢
      rw [ipf_write_node_other env _ h2 0 _ k (by
        unfold PF_NODE_SIZE U64
        omega), w1, sp1]

/-- A `ipf_write_all_changes_to_disk` that does not write the tree leaves every block but
block 0 as it was, and the context on success. -/
theorem ipf_write_all_changes_to_disk_meta_only (env : Env) (pf : pf_context_t) (h : Host)
    (hg : flush_writes_tree pf = false) :
    (∀ k, k ≠ 0 → (ipf_write_all_changes_to_disk env pf h).2.2.file k = h.file k) ∧
    ((ipf_write_all_changes_to_disk env pf h).1 = true →
      (ipf_write_all_changes_to_disk env pf h).2.1 = pf) := by
  unfold ipf_write_all_changes_to_disk
  dsimp only
  unfold flush_writes_tree at hg
  rw [if_neg (by rw [hg]; simp)]
  dsimp only
  refine ⟨fun k hk => ?_, fun hok => ?_⟩
  · exact ipf_write_node_other env pf h 0 _ k (by
      unfold PF_NODE_SIZE U64
      omega)
  · exact ipf_write_node_true env pf h 0 _ hok

/-- The first loop of `ipf_update_all_data_and_mht_nodes` leaves the ciphertext of every node
that was clean when the re-encryption started. -/
theorem update_data_nodes_image (env : Env) (pf0 : pf_context_t) (l : List NodePtr) :
    ∀ (pf : pf_context_t) (h : Host), Linked pf → SameShape pf pf0 →
    (∀ p ∈ l, p ≠ .root ∧ pf.resident p = true) →
    (update_data_nodes env l pf h).1 = true →
    ∀ q, (pf0.deref q).need_writing = false →
      ((update_data_nodes env l pf h).2.1.deref q).encrypted = (pf.deref q).encrypted := by
  induction l with
  | nil =>
    intro pf h _ _ _ _ q _
    rfl
  | cons p rest ih =>
    intro pf h hl hs0 hres hok q hq
    obtain ⟨hp0, hp⟩ := hres p (List.mem_cons_self _ _)
    by_cases c : ((pf.deref p).type = FILE_DATA_NODE_TYPE && (pf.deref p).need_writing) = true
    · have hc := c
      simp only [Bool.and_eq_true, decide_eq_true_eq] at hc
      obtain ⟨hpt, hpd⟩ := hc
      have hc1 := ipf_derive_random_node_key_cache env pf h (pf.deref p).physical_node_number
      have hr1 := ipf_derive_random_node_key_root_mht env pf h (pf.deref p).physical_node_number
      rcases hd : ipf_derive_random_node_key env pf h (pf.deref p).physical_node_number
        with ⟨b, pf1, h1⟩
      rw [hd] at hc1 hr1
      dsimp only at hc1 hr1
      cases b with
      | false =>
        rw [update_data_nodes_cons_no_key env p rest pf h c pf1 h1 hd] at hok
        exact absurd hok (by simp)
      | true =>
        rcases he : env.aes_gcm_encrypt pf1.cur_key none
          (some (.data (pf.deref p).decrypted.as_data)) with ⟨st, cipher, gmac⟩
        rw [update_data_nodes_cons_dirty env p rest pf h c pf1 h1 hd st cipher gmac he] at hok ⊢
        by_cases cf : PF_FAILURE st = true
        · rw [if_pos cf] at hok
          exact absurd hok (by simp)
        · rw [if_neg cf] at hok ⊢
          have hd1 : ∀ q, pf1.deref q = pf.deref q := deref_congr pf1 pf hc1 hr1
          have hs1 : SameShape pf1 pf := SameShape.s_congr pf1 pf hc1 hr1
          have hl1 : Linked pf1 := hl.l_transfer hs1
          have hp1 : pf1.resident p = true := by rw [(hs1 p).1]; exact hp
          obtain ⟨hparres, -, -, -⟩ := hl.1 p hp0 hp hpd
          have hpar1 : pf1.resident (pf.deref p).parent = true := by
            rw [(hs1 _).1]
            exact hparres
          have hs3 := seal_step_shape pf1 p (pf.deref p).parent cipher
            (fun m => m.set_data_node_crypto
              ((pf.deref p).node_number % ATTACHED_DATA_NODES_COUNT) ⟨pf1.cur_key, gmac⟩)
            (fun _ => rfl) (fun _ _ => rfl) hp1 hpar1
          have hs31 := hs3.s_trans hs1
          have hF := (seal_step_fields pf1 p (pf.deref p).parent cipher
            (fun m => m.set_data_node_crypto
              ((pf.deref p).node_number % ATTACHED_DATA_NODES_COUNT) ⟨pf1.cur_key, gmac⟩)
            (fun _ => rfl) (fun _ _ => rfl) hp1 hpar1 q).2.2.2.2.2.2.1
          have hqp : q ≠ p := by
            intro e
            rw [e, ← (hs0 p).2.2.2.2.1, hpd] at hq
            cases hq
          rw [if_neg hqp, hd1] at hF
          rw [← hF]
          exact ih _ h1 (hl1.l_transfer hs3) (hs31.s_trans hs0)
            (fun r hr => ⟨(hres r (List.mem_cons_of_mem _ hr)).1, by
              rw [(hs31 r).1]
              exact (hres r (List.mem_cons_of_mem _ hr)).2⟩) hok q hq
    · rw [update_data_nodes_cons_clean env p rest pf h c] at hok ⊢
      exact ih pf h hl hs0 (fun r hr => hres r (List.mem_cons_of_mem _ hr)) hok q hq

/-- The third loop of `ipf_update_all_data_and_mht_nodes` leaves the ciphertext of every node
that was clean when the re-encryption started. -/
theorem update_mht_nodes_image (env : Env) (pf0 : pf_context_t) (l : List NodePtr) :
    ∀ (pf : pf_context_t) (h : Host), Linked pf → SameShape pf pf0 →
    (∀ p ∈ l, p ≠ .root ∧ pf.resident p = true ∧ (pf.deref p).type = FILE_MHT_NODE_TYPE ∧
      (pf.deref p).need_writing = true) →
    (update_mht_nodes env l pf h).1 = true →
    ∀ q, (pf0.deref q).need_writing = false →
      ((update_mht_nodes env l pf h).2.1.deref q).encrypted = (pf.deref q).encrypted := by
  induction l with
  | nil =>
    intro pf h _ _ _ _ q _
    rfl
  | cons p rest ih =>
    intro pf h hl hs0 hres hok q hq
    obtain ⟨hp0, hp, hpt, hpd⟩ := hres p (List.mem_cons_self _ _)
    have hc1 := ipf_derive_random_node_key_cache env pf h (pf.deref p).physical_node_number
    have hr1 := ipf_derive_random_node_key_root_mht env pf h (pf.deref p).physical_node_number
    rcases hd : ipf_derive_random_node_key env pf h (pf.deref p).physical_node_number
      with ⟨b, pf1, h1⟩
    rw [hd] at hc1 hr1
    dsimp only at hc1 hr1
    cases b with
    | false =>
      rw [update_mht_nodes_cons_no_key env p rest pf h pf1 h1 hd] at hok
      exact absurd hok (by simp)
    | true =>
      rcases he : env.aes_gcm_encrypt pf1.cur_key none
        (some (.mht (pf.deref p).decrypted.as_mht)) with ⟨st, cipher, gmac⟩
      rw [update_mht_nodes_cons_key env p rest pf h pf1 h1 hd st cipher gmac he] at hok ⊢
      by_cases cf : PF_FAILURE st = true
      · rw [if_pos cf] at hok
        exact absurd hok (by simp)
      · rw [if_neg cf] at hok ⊢
        have hd1 : ∀ q, pf1.deref q = pf.deref q := deref_congr pf1 pf hc1 hr1
        have hs1 : SameShape pf1 pf := SameShape.s_congr pf1 pf hc1 hr1
        have hl1 : Linked pf1 := hl.l_transfer hs1
        have hp1 : pf1.resident p = true := by rw [(hs1 p).1]; exact hp
        obtain ⟨hparres, -, -, -⟩ := hl.1 p hp0 hp hpd
        have hpar1 : pf1.resident (pf.deref p).parent = true := by
          rw [(hs1 _).1]
          exact hparres
        have hs3 := seal_step_shape pf1 p (pf.deref p).parent cipher
          (fun m => m.set_mht_node_crypto
            (u64_sub (pf.deref p).node_number 1 % CHILD_MHT_NODES_COUNT) ⟨pf1.cur_key, gmac⟩)
          (fun _ => rfl) (fun _ _ => rfl) hp1 hpar1
        have hs31 := hs3.s_trans hs1
        have hF := (seal_step_fields pf1 p (pf.deref p).parent cipher
          (fun m => m.set_mht_node_crypto
            (u64_sub (pf.deref p).node_number 1 % CHILD_MHT_NODES_COUNT) ⟨pf1.cur_key, gmac⟩)
          (fun _ => rfl) (fun _ _ => rfl) hp1 hpar1 q).2.2.2.2.2.2.1
        have hqp : q ≠ p := by
          intro e
          rw [e, ← (hs0 p).2.2.2.2.1, hpd] at hq
          cases hq
        rw [if_neg hqp, hd1] at hF
        rw [← hF]
        exact ih _ h1 (hl1.l_transfer hs3) (hs31.s_trans hs0)
          (fun r hr => by
            obtain ⟨a1, a2, a3, a4⟩ := hres r (List.mem_cons_of_mem _ hr)
            exact ⟨a1, by rw [(hs31 r).1]; exact a2, by rw [(hs31 r).2.1]; exact a3,
              by rw [(hs31 r).2.2.2.2.1]; exact a4⟩) hok q hq

/-- A successful `ipf_update_all_data_and_mht_nodes` leaves the ciphertext of every clean
cached node. -/
theorem ipf_update_all_data_and_mht_nodes_image (env : Env) (pf : pf_context_t) (h : Host)
    (hl : Linked pf)
    (hok : (ipf_update_all_data_and_mht_nodes env pf h).1 = true) :
    ∀ q, q ≠ .root → (pf.deref q).need_writing = false →
      ((ipf_update_all_data_and_mht_nodes env pf h).2.1.deref q).encrypted
        = (pf.deref q).encrypted := by
  intro q hq0 hq
  have P1 := update_data_nodes_kept env pf (cache_ptrs pf) pf h hl (SameShape.s_refl pf)
    (cache_ptrs_mem pf)
  have I1 := update_data_nodes_image env pf (cache_ptrs pf) pf h hl (SameShape.s_refl pf)
    (cache_ptrs_mem pf)
  rcases h1 : update_data_nodes env (cache_ptrs pf) pf h with ⟨b1, pf1, hh1⟩
  rw [h1] at P1 I1
  dsimp only at P1 I1
  cases b1 with
  | false =>
    rw [ipf_update_all_data_and_mht_nodes_no_data env pf h pf1 hh1 h1] at hok
    exact absurd hok (by simp)
  | true =>
    obtain ⟨s1, -⟩ := P1 rfl
    have i1 := I1 rfl q hq
    have hl1 : Linked pf1 := hl.l_transfer s1
    obtain ⟨c1, -⟩ := collect_mht_list_spec pf1 (cache_ptrs pf1) []
    obtain ⟨sp, -⟩ := listp_sort_outer_by pf1.deref
      (collect_mht_list pf1 (cache_ptrs pf1) []).length
      (collect_mht_list pf1 (cache_ptrs pf1) []) (Nat.le_refl _)
    have hmem : ∀ q, q ∈ LISTP_SORT (fun a b => mht_sort (pf1.deref a) (pf1.deref b))
          (collect_mht_list pf1 (cache_ptrs pf1) []) ↔
        (q ∈ cache_ptrs pf1 ∧ (pf1.deref q).type = FILE_MHT_NODE_TYPE ∧
          (pf1.deref q).need_writing = true) := by
      intro q
      unfold LISTP_SORT
      rw [sp.mem_iff, c1 q]
      simp
    have hlist : ∀ p ∈ LISTP_SORT (fun a b => mht_sort (pf1.deref a) (pf1.deref b))
        (collect_mht_list pf1 (cache_ptrs pf1) []),
        p ≠ .root ∧ pf1.resident p = true ∧ (pf1.deref p).type = FILE_MHT_NODE_TYPE ∧
          (pf1.deref p).need_writing = true := by
      intro p hp
      obtain ⟨a1, a2, a3⟩ := (hmem p).mp hp
      exact ⟨(cache_ptrs_mem pf1 p a1).1, (cache_ptrs_mem pf1 p a1).2, a2, a3⟩
    have P2 := update_mht_nodes_kept env pf
      (LISTP_SORT (fun a b => mht_sort (pf1.deref a) (pf1.deref b))
        (collect_mht_list pf1 (cache_ptrs pf1) [])) pf1 hh1 hl1 s1 hlist
    have I2 := update_mht_nodes_image env pf
      (LISTP_SORT (fun a b => mht_sort (pf1.deref a) (pf1.deref b))
        (collect_mht_list pf1 (cache_ptrs pf1) [])) pf1 hh1 hl1 s1 hlist
    rcases h2 : update_mht_nodes env
      (LISTP_SORT (fun a b => mht_sort (pf1.deref a) (pf1.deref b))
        (collect_mht_list pf1 (cache_ptrs pf1) [])) pf1 hh1 with ⟨b2, pf2, hh2⟩
    rw [h2] at P2 I2
    dsimp only at P2 I2
    cases b2 with
    | false =>
      rw [ipf_update_all_data_and_mht_nodes_no_mht env pf h pf1 hh1 h1 pf2 hh2 h2] at hok
      exact absurd hok (by simp)
    | true =>
      have i2 := I2 rfl q hq
      have hc3 := ipf_derive_random_node_key_cache env pf2 hh2 pf2.root_mht.physical_node_number
      have hr3 := ipf_derive_random_node_key_root_mht env pf2 hh2
        pf2.root_mht.physical_node_number
      rcases h3 : ipf_derive_random_node_key env pf2 hh2 pf2.root_mht.physical_node_number
        with ⟨b3, pf3, hh3⟩
      rw [h3] at hc3 hr3
      dsimp only at hc3 hr3
      cases b3 with
      | false =>
        rw [ipf_update_all_data_and_mht_nodes_no_key env pf h pf1 hh1 h1 pf2 hh2 h2 pf3 hh3 h3]
          at hok
        exact absurd hok (by simp)
      | true =>
        rcases he : env.aes_gcm_encrypt pf3.cur_key none
          (some (.mht pf3.root_mht.decrypted.as_mht)) with ⟨st, cipher, gmac⟩
        rw [ipf_update_all_data_and_mht_nodes_root env pf h pf1 hh1 h1 pf2 hh2 h2 pf3 hh3 h3
          st cipher gmac he] at hok ⊢
        by_cases cf : PF_FAILURE st = true
        · rw [if_pos cf] at hok
          exact absurd hok (by simp)
        · rw [if_neg cf]
          have hd3 : ∀ q, pf3.deref q = pf2.deref q := deref_congr pf3 pf2 hc3 hr3
          suffices key : ∀ F : pf_context_t, F.cache = pf3.cache →
              F.root_mht = { pf3.root_mht with encrypted := cipher } →
              (F.deref q).encrypted = (pf.deref q).encrypted from key _ rfl rfl
          intro F hFc hFr
          rw [(deref_root_enc F pf3 cipher hFc hFr q).2 hq0, hd3, i2, i1]

/-- A successful `ipf_write_node` of a node whose offset does not wrap leaves the block in the
block of that number. -/
theorem ipf_write_node_at (env : Env) (pf : pf_context_t) (h : Host) (n : Nat) (b : Block)
    (hn : n < 2 ^ 52) (hok : (ipf_write_node env pf h n b).1 = true) :
    (ipf_write_node env pf h n b).2.2.file n = b := by
  rw [(ipf_write_node_file env pf h n b hok).2]
  have : n * PF_NODE_SIZE % U64 / PF_NODE_SIZE = n := by
    unfold PF_NODE_SIZE U64
    omega
  rw [this, Function.update_same]

/-- A successful `ipf_write_all_changes_to_disk` leaves the metadata node of the context in
block 0. -/
theorem ipf_write_all_changes_to_disk_block0 (env : Env) (pf : pf_context_t) (h : Host)
    (hok : (ipf_write_all_changes_to_disk env pf h).1 = true) :
    (ipf_write_all_changes_to_disk env pf h).2.2.file 0 = .meta pf.file_meta_data := by
  unfold ipf_write_all_changes_to_disk at hok ⊢
  dsimp only at hok ⊢
  by_cases c : (decide (pf.encrypted_part_plain.size > MD_USER_DATA_SIZE)
      && pf.root_mht.need_writing) = true
  · rw [if_pos c] at hok ⊢
    have e1 := write_dirty_nodes_file_meta_data env (cache_ptrs pf) pf h
    rcases hw : write_dirty_nodes env (cache_ptrs pf) pf h with ⟨b, pf1, h1⟩
    rw [hw] at hok e1
    cases b with
    | false => simp at hok
    | true =>
      dsimp only at hok e1 ⊢
      have e2 := ipf_write_node_file_meta_data env pf1 h1 1 (.node pf1.root_mht.encrypted)
      rcases hw1 : ipf_write_node env pf1 h1 1 (.node pf1.root_mht.encrypted) with ⟨b2, pf2, h2⟩
      rw [hw1] at hok e2
      cases b2 with
      | false => simp at hok
      | true =>
        dsimp only at hok e2 ⊢
        rw [ipf_write_node_at env _ h2 0 _ (by norm_num) hok]
        show Block.meta pf2.file_meta_data = _
        rw [e2, e1]
  · rw [if_neg c] at hok ⊢
    dsimp only at hok ⊢
    exact ipf_write_node_at env pf h 0 _ (by norm_num) hok

/-- A successful `ipf_write_all_changes_to_disk` that writes the tree leaves the ciphertext of
the root MHT in block 1. -/
theorem ipf_write_all_changes_to_disk_block1 (env : Env) (pf : pf_context_t) (h : Host)
    (hk : (pf.cache.map (fun x => x.physical_node_number)).Nodup)
    (hg : flush_writes_tree pf = true)
    (hok : (ipf_write_all_changes_to_disk env pf h).1 = true) :
    (ipf_write_all_changes_to_disk env pf h).2.2.file 1 = .node pf.root_mht.encrypted := by
  have hl : ∀ p ∈ cache_ptrs pf, ∃ n ∈ pf.cache, p = NodePtr.cached n.physical_node_number := by
    intro p hp
    unfold cache_ptrs at hp
    obtain ⟨n, hn, e⟩ := List.mem_map.mp hp
    exact ⟨n, hn, e.symm⟩
  have sp := write_dirty_nodes_spec env (cache_ptrs pf) pf h hk hl
  unfold ipf_write_all_changes_to_disk at hok ⊢
  dsimp only at hok ⊢
  unfold flush_writes_tree at hg
  rw [if_pos hg] at hok ⊢
  rcases hw : write_dirty_nodes env (cache_ptrs pf) pf h with ⟨b, pf1, h1⟩
  rw [hw] at hok sp
  cases b with
  | false => simp at hok
  | true =>
    dsimp only at hok sp ⊢
    have w1 : (ipf_write_node env pf1 h1 1 (.node pf1.root_mht.encrypted)).1 = true →
        (ipf_write_node env pf1 h1 1 (.node pf1.root_mht.encrypted)).2.2.file 1
          = .node pf1.root_mht.encrypted :=
      ipf_write_node_at env pf1 h1 1 _ (by norm_num)
    rcases hw1 : ipf_write_node env pf1 h1 1 (.node pf1.root_mht.encrypted) with ⟨b2, pf2, h2⟩
    rw [hw1] at hok w1
    cases b2 with
    | false => simp at hok
    | true =>
      dsimp only at hok w1 ⊢
      rw [ipf_write_node_other env _ h2 0 _ 1 (by
        unfold PF_NODE_SIZE U64
        omega), w1 rfl, (sp rfl).2]

theorem EntriesKept.k_base {a b c : pf_context_t} (k : EntriesKept a a c)
    (hd : ∀ q, a.deref q = b.deref q) (hr : ∀ q, a.resident q = b.resident q) :
    EntriesKept b b c := by
  intro q
  obtain ⟨k1, k2, k3⟩ := k q
  refine ⟨fun ht => ?_, fun i => ?_, fun i => ?_⟩
  · rw [← hd]
    exact k1 (by rw [hd]; exact ht)
  · rcases k2 i with c1 | ⟨r, r1, r2, r3, r4, r5, r6⟩
    · left
      rw [← hd]
      exact c1
    · right
      exact ⟨r, r1, by rw [← hr]; exact r2, by rw [← hd]; exact r3, by rw [← hd]; exact r4,
        by rw [← hd]; exact r5, by rw [← hd]; exact r6⟩
  · rcases k3 i with c1 | ⟨r, r1, r2, r3, r4, r5, r6⟩
    · left
      rw [← hd]
      exact c1
    · right
      exact ⟨r, r1, by rw [← hr]; exact r2, by rw [← hd]; exact r3, by rw [← hd]; exact r4,
        by rw [← hd]; exact r5, by rw [← hd]; exact r6⟩

/-- A successful `ipf_write_all_changes_to_disk` that writes the tree leaves the root MHT
written. -/
theorem ipf_write_all_changes_to_disk_root (env : Env) (pf : pf_context_t) (h : Host)
    (hk : (pf.cache.map (fun x => x.physical_node_number)).Nodup)
    (hg : flush_writes_tree pf = true)
    (hok : (ipf_write_all_changes_to_disk env pf h).1 = true) :
    (ipf_write_all_changes_to_disk env pf h).2.1.root_mht = written pf.root_mht := by
  have hrd : pf.root_mht.need_writing = true := by
    unfold flush_writes_tree at hg
    simp only [Bool.and_eq_true] at hg
    exact hg.2
  have hwr : written pf.root_mht
      = { pf.root_mht with need_writing := false, new_node := false } := by
    unfold written
    rw [if_pos hrd]
  rw [hwr]
  unfold ipf_write_all_changes_to_disk at hok ⊢
  dsimp only at hok ⊢
  unfold flush_writes_tree at hg
  rw [if_pos hg] at hok ⊢
  have hl : ∀ p ∈ cache_ptrs pf, ∃ n ∈ pf.cache, p = NodePtr.cached n.physical_node_number := by
    intro p hp
    unfold cache_ptrs at hp
    obtain ⟨n, hn, e⟩ := List.mem_map.mp hp
    exact ⟨n, hn, e.symm⟩
  have sp := write_dirty_nodes_spec env (cache_ptrs pf) pf h hk hl
  rcases hw : write_dirty_nodes env (cache_ptrs pf) pf h with ⟨b, pf1, h1⟩
  rw [hw] at sp hok
  cases b
  · simp at hok
  · dsimp only at sp hok ⊢
    obtain ⟨-, c2⟩ := sp rfl
    have f2 := ipf_write_node_frame env pf1 h1 1 (.node pf1.root_mht.encrypted)
    rcases hr : ipf_write_node env pf1 h1 1 (.node pf1.root_mht.encrypted) with ⟨b, pf2, h2⟩
    rw [hr] at f2 hok
    cases b
    · simp at hok
    · dsimp only at f2 hok ⊢
      have f3 := ipf_write_node_frame env
        { pf2 with root_mht := { pf2.root_mht with need_writing := false, new_node := false } }
        h2 0 (.meta pf2.file_meta_data)
      rw [f3.2.2]
      show { pf2.root_mht with need_writing := false, new_node := false } = _
      rw [f2.2.2, c2]

theorem flush_writes_tree_congr (a b : pf_context_t)
    (hs : a.encrypted_part_plain.size = b.encrypted_part_plain.size)
    (hr : a.root_mht.need_writing = b.root_mht.need_writing) :
    flush_writes_tree a = flush_writes_tree b := by
  unfold flush_writes_tree
  rw [hs, hr]

theorem size_of_stable_eq (a b : pf_context_t) (hs : a.stable = b.stable) :
    a.encrypted_part_plain.size = b.encrypted_part_plain.size :=
  congrArg Stable.size hs

/-- Under the invariant a clean root MHT comes with clean nodes only. -/
theorem Good.all_clean {env : Env} {pf : pf_context_t} {h : Host} (g : Good env pf h)
    (hr : pf.root_mht.need_writing = false) (q : NodePtr) :
    (pf.deref q).need_writing = false := by
  cases q with
  | root => exact hr
  | cached k =>
    show ((lruc_find pf.cache k).getD calloc_node).need_writing = false
    rcases hf : lruc_find pf.cache k with _ | n
    · rfl
    · show n.need_writing = false
      cases hb : n.need_writing
      · rfl
      · have := (g.dirty_up k n hf hb).2
        rw [hr] at this
        cases this

/-- A step that leaves the nodes of a state without dirty nodes as they are, and the blocks
beyond block 0, is a flush of that state. -/
theorem Flushed.of_clean {env : Env} {pf : pf_context_t} {h : Host} (g : Good env pf h)
    (hr : pf.root_mht.need_writing = false) (pf1 : pf_context_t) (h1 : Host)
    (hc : pf1.cache = pf.cache) (hroot : pf1.root_mht = pf.root_mht)
    (hnw : pf1.need_writing = false) (hfile : ∀ k, k ≠ 0 → h1.file k = h.file k)
    (hb0 : pf.need_writing = true → h1.file 0 = .meta pf1.file_meta_data)
    (hidle : pf.need_writing = false →
      pf1.file_meta_data = pf.file_meta_data ∧ h1.file 0 = h.file 0)
    (hflag : pf.file_meta_data.plain_part.update_flag = 0 →
      pf1.file_meta_data.plain_part.update_flag = 0) :
    Flushed env pf h pf pf1 h1 := by
  have hcl := g.all_clean hr
  refine
    { shape := SameShape.s_refl pf
      flags := rfl
      kept := EntriesKept.k_refl pf pf
      seals := fun q _ _ hd => by
        rw [hcl q] at hd
        cases hd
      nodes := fun q => by
        rw [deref_congr pf1 pf hc hroot q, resident_congr pf1 pf hc q,
          written_not_dirty _ (hcl q)]
        exact ⟨rfl, rfl⟩
      keys := by rw [hc]
      disk := fun k hk0 _ => by
        rw [if_neg (fun c => by
          rw [hcl] at c
          cases c.2)]
        exact hfile k hk0
      done := hnw
      enc := fun _ _ => rfl
      block1 := by
        rw [if_neg (by rw [hr]; simp)]
        exact hfile 1 (by norm_num)
      block0 := hb0
      idle := hidle
      flag := hflag
      root_new := fun _ => rfl }

theorem SameShape.s_symm {a b : pf_context_t} (s : SameShape a b) : SameShape b a :=
  fun q => ⟨(s q).1.symm, (s q).2.1.symm, (s q).2.2.1.symm, (s q).2.2.2.1.symm,
    (s q).2.2.2.2.1.symm, (s q).2.2.2.2.2.symm⟩

/-- A successful flush of a state that satisfies the invariant. -/
theorem ipf_internal_flush_flushed (env : Env) (pf : pf_context_t) (h : Host)
    (g : Good env pf h) (hok : (ipf_internal_flush env pf h).1 = true) :
    ∃ pfT, Flushed env pf h pfT (ipf_internal_flush env pf h).2.1
      (ipf_internal_flush env pf h).2.2 := by
  by_cases hnw : pf.need_writing = true
  · obtain ⟨st, mok, dok, hres⟩ := flush_success_steps env pf h hnw hok
    have hfin : (ipf_internal_flush env pf h).2.1
        = { (flush_disk_step env pf h).2.1 with need_writing := false } :=
      congrArg Prod.fst hres
    have hfin2 : (ipf_internal_flush env pf h).2.2 = (flush_disk_step env pf h).2.2 := by
      rw [hres]
    rw [hfin, hfin2]
    by_cases hg : flush_writes_tree pf = true
    · obtain ⟨lok, fok, tok⟩ := st hg
      -- the log step
      have cL := flush_log_step_cache env pf h
      have rL := flush_log_step_root_mht env pf h
      have sL := flush_log_step_stable env pf h
      have fL := flush_log_step_same_file env pf h
      rcases eL : flush_log_step env pf h with ⟨bL, pfL, hL⟩
      rw [eL] at cL rL sL fL
      dsimp only at cL rL sL fL
      -- the update flag step
      have eF0 : flush_flag_step env pf h = ipf_set_update_flag env pfL hL := by
        unfold flush_flag_step
        rw [eL]
      have cF := ipf_set_update_flag_cache env pfL hL
      have rF := ipf_set_update_flag_root_mht env pfL hL
      have sF := ipf_set_update_flag_stable env pfL hL
      have fF := ipf_set_update_flag_file env pfL hL
      rcases eF : ipf_set_update_flag env pfL hL with ⟨bF, pfF, hF⟩
      rw [eF] at cF rF sF fF
      dsimp only at cF rF sF fF
      -- the re-encryption
      have eT0 : flush_tree_step env pf h = ipf_update_all_data_and_mht_nodes env pfF hF := by
        unfold flush_tree_step
        rw [eF0, eF]
      rw [eT0] at tok
      have hcF : pfF.cache = pf.cache := cF.trans cL
      have hrF : pfF.root_mht = pf.root_mht := rF.trans rL
      have hdF : ∀ q, pfF.deref q = pf.deref q := deref_congr pfF pf hcF hrF
      have hresF : ∀ q, pfF.resident q = pf.resident q := resident_congr pfF pf hcF
      have shF : SameShape pfF pf := SameShape.s_congr pfF pf hcF hrF
      have hkF : (pfF.cache.map (fun m => m.physical_node_number)).Nodup := by
        rw [hcF]
        exact g.keys
      have hlF : Linked pfF := g.linked.l_transfer shF
      obtain ⟨shT, sealT, -⟩ := ipf_update_all_data_and_mht_nodes_seals env pfF hF hkF hlF tok
      have keptT := ipf_update_all_data_and_mht_nodes_kept env pfF hF hlF tok
      have flT := ipf_update_all_data_and_mht_nodes_cache_flags env pfF hF
      have sT := ipf_update_all_data_and_mht_nodes_stable env pfF hF
      have fT := ipf_update_all_data_and_mht_nodes_same_file env pfF hF
      rcases eT : ipf_update_all_data_and_mht_nodes env pfF hF with ⟨bT, pfT, hT⟩
      rw [eT] at shT sealT keptT flT sT fT
      dsimp only at shT sealT keptT flT sT fT
      -- the metadata step
      have eD0 : flush_tree_done env pf h = (pfT, hT) := by
        unfold flush_tree_done
        rw [if_pos hg, eT0, eT]
      have eM0 : flush_meta_step env pf h = ipf_update_meta_data_node env pfT hT := by
        unfold flush_meta_step
        rw [eD0]
      have cM := ipf_update_meta_data_node_cache env pfT hT
      have rM := ipf_update_meta_data_node_root_mht env pfT hT
      have sM := ipf_update_meta_data_node_stable env pfT hT
      have fM := ipf_update_meta_data_node_same_file env pfT hT
      rcases eM : ipf_update_meta_data_node env pfT hT with ⟨bM, pfM, hM⟩
      rw [eM] at cM rM sM fM
      dsimp only at cM rM sM fM
      -- the disk step
      have eW0 : flush_disk_step env pf h = ipf_write_all_changes_to_disk env pfM hM := by
        unfold flush_disk_step
        rw [eM0, eM]
      rw [eW0] at dok ⊢
      have shTpf : SameShape pfT pf := shT.s_trans shF
      have hkT : pfT.cache.map (fun m => m.physical_node_number)
          = pf.cache.map (fun m => m.physical_node_number) := by
        rw [keys_of_cache_flags pfT pfF flT, hcF]
      have hkM : (pfM.cache.map (fun m => m.physical_node_number)).Nodup := by
        rw [cM, hkT]
        exact g.keys
      have hszM : pfM.encrypted_part_plain.size = pf.encrypted_part_plain.size := by
        rw [size_of_stable_eq _ _ sM, size_of_stable_eq _ _ sT, size_of_stable_eq _ _ sF,
          size_of_stable_eq _ _ sL]
      have hrdM : pfM.root_mht.need_writing = pf.root_mht.need_writing := by
        rw [rM]
        exact (shTpf .root).2.2.2.2.1
      have hgM : flush_writes_tree pfM = true := by
        rw [flush_writes_tree_congr pfM pf hszM hrdM]
        exact hg
      obtain ⟨cW, -, -⟩ := ipf_write_all_changes_to_disk_spec env pfM hM hkM hgM dok
      have rW := ipf_write_all_changes_to_disk_root env pfM hM hkM hgM dok
      have hbM : ∀ n ∈ pfM.cache, n.physical_node_number < 2 ^ 52 := by
        intro n hn
        have hmem : n.physical_node_number ∈ pf.cache.map (fun m => m.physical_node_number) := by
          rw [← hkT, ← cM]
          exact List.mem_map_of_mem _ hn
        obtain ⟨n0, hn0, e0⟩ := List.mem_map.mp hmem
        have := (g.key_bounds _ n0 (lruc_find_of_mem _ n0 hn0 g.keys)).2
        rw [← e0]
        exact this
      have fW := ipf_write_all_changes_to_disk_file env pfM hM hkM hbM hgM dok
      rcases eW : ipf_write_all_changes_to_disk env pfM hM with ⟨bW, pfW, hW⟩
      rw [eW] at cW rW fW
      dsimp only at cW rW fW ⊢
      have hdM : ∀ q, pfM.deref q = pfT.deref q := deref_congr pfM pfT cM rM
      have hresM : ∀ q, pfM.resident q = pfT.resident q := resident_congr pfM pfT cM
      refine ⟨pfT,
        { shape := shTpf
          flags := flT.trans (by unfold pf_context_t.cache_flags; rw [hcF])
          kept := keptT.k_base hdF hresF
          seals := fun q hq0 hq hqd => by
            have := sealT q hq0 (by rw [hresF]; exact hq) (by rw [hdF]; exact hqd)
            rw [hdF] at this
            exact this
          nodes := fun q => ?_
          keys := ?_
          disk := fun k hk0 hk1 => ?_
          done := rfl
          enc := fun q hq => by
            have := ipf_update_all_data_and_mht_nodes_image env pfF hF hlF
              tok q (fun e => by
                rw [e] at hq
                have hrd : pf.root_mht.need_writing = true := by
                  unfold flush_writes_tree at hg
                  simp only [Bool.and_eq_true] at hg
                  exact hg.2
                rw [show (pf.deref .root).need_writing = pf.root_mht.need_writing from rfl,
                  hrd] at hq
                cases hq) (by rw [hdF]; exact hq)
            rw [eT, hdF] at this
            exact this
          block1 := by
            have hrd : pf.root_mht.need_writing = true := by
              unfold flush_writes_tree at hg
              simp only [Bool.and_eq_true] at hg
              exact hg.2
            rw [if_pos hrd]
            have := ipf_write_all_changes_to_disk_block1 env pfM hM hkM hgM dok
            rw [eW, rM] at this
            exact this
          block0 := fun _ => by
            have b0 := ipf_write_all_changes_to_disk_block0 env pfM hM dok
            have m0 := ipf_write_all_changes_to_disk_file_meta_data env pfM hM
            rw [eW] at b0 m0
            show hW.file 0 = .meta pfW.file_meta_data
            rw [b0, m0]
          idle := fun c => by
            rw [hnw] at c
            cases c
          flag := fun _ => by
            have m0 := ipf_write_all_changes_to_disk_file_meta_data env pfM hM
            have m1 := ipf_update_meta_data_node_update_flag env pfT hT
            have m2 := ipf_update_all_data_and_mht_nodes_file_meta_data env pfF hF
            have m3 := ipf_set_update_flag_memory env pfL hL (by rw [← eF0]; exact fok)
            rw [eW] at m0
            rw [eM] at m1
            rw [eT] at m2
            rw [eF] at m3
            show pfW.file_meta_data.plain_part.update_flag = 0
            rw [m0, m1, m2]
            exact m3
          root_new := fun c => by
            have hrd : pf.root_mht.need_writing = true := by
              unfold flush_writes_tree at hg
              simp only [Bool.and_eq_true] at hg
              exact hg.2
            rw [hrd] at c
            cases c }⟩
      · have := deref_written { pfW with need_writing := false } pfM cW rW q
        rw [hdM, hresM] at this
        exact this
      · show pfW.cache.map _ = _
        rw [cW, List.map_map]
        have : ((fun n : file_node_t => n.physical_node_number) ∘ written)
            = (fun n : file_node_t => n.physical_node_number) := by
          funext n
          simp [Function.comp, written_key]
        rw [this, cM, hkT]
      · rw [fW k hk0 hk1, hresM, hdM, (shTpf _).1, (shTpf _).2.2.2.2.1]
        have : hM.file k = h.file k := by
          have e1 : hM.file = hT.file := fM
          have e2 : hT.file = hF.file := fT
          have e3 : hL.file = h.file := fL
          rw [e1, e2, fF k hk0, e3]
        rw [this]
    · have hg0 : flush_writes_tree pf = false := by
        cases hb : flush_writes_tree pf
        · rfl
        · exact absurd hb hg
      have hr : pf.root_mht.need_writing = false := by
        cases hb : pf.root_mht.need_writing
        · rfl
        · have := (g.root_dirty hb).2
          unfold flush_writes_tree at hg0
          rw [hb] at hg0
          simp at hg0
          omega
      have eD0 : flush_tree_done env pf h = (pf, h) := by
        unfold flush_tree_done
        rw [hg0]
        rfl
      have eM0 : flush_meta_step env pf h = ipf_update_meta_data_node env pf h := by
        unfold flush_meta_step
        rw [eD0]
      have cM := ipf_update_meta_data_node_cache env pf h
      have rM := ipf_update_meta_data_node_root_mht env pf h
      have sM := ipf_update_meta_data_node_stable env pf h
      have fM := ipf_update_meta_data_node_same_file env pf h
      rcases eM : ipf_update_meta_data_node env pf h with ⟨bM, pfM, hM⟩
      rw [eM] at cM rM sM fM
      dsimp only at cM rM sM fM
      have eW0 : flush_disk_step env pf h = ipf_write_all_changes_to_disk env pfM hM := by
        unfold flush_disk_step
        rw [eM0, eM]
      rw [eW0] at dok ⊢
      have hgM : flush_writes_tree pfM = false := by
        rw [flush_writes_tree_congr pfM pf (size_of_stable_eq _ _ sM) (by rw [rM])]
        exact hg0
      obtain ⟨w1, w2⟩ := ipf_write_all_changes_to_disk_meta_only env pfM hM hgM
      have w3 := w2 dok
      refine ⟨pf, Flushed.of_clean g hr _ _ ?_ ?_ rfl ?_ ?_ ?_ ?_⟩
      · show (ipf_write_all_changes_to_disk env pfM hM).2.1.cache = pf.cache
        rw [w3, cM]
      · show (ipf_write_all_changes_to_disk env pfM hM).2.1.root_mht = pf.root_mht
        rw [w3, rM]
      · intro k hk
        rw [w1 k hk]
        have e1 : hM.file = h.file := fM
        rw [e1]
      · intro _
        rw [ipf_write_all_changes_to_disk_block0 env pfM hM dok]
        show _ = Block.meta (ipf_write_all_changes_to_disk env pfM hM).2.1.file_meta_data
        rw [w3]
      · intro c
        rw [hnw] at c
        cases c
      · intro hf0
        show (ipf_write_all_changes_to_disk env pfM hM).2.1.file_meta_data.plain_part.update_flag
          = 0
        have m1 := ipf_update_meta_data_node_update_flag env pf h
        rw [eM] at m1
        rw [w3, m1]
        exact hf0
  · have hnw0 : pf.need_writing = false := by
      cases hb : pf.need_writing
      · rfl
      · exact absurd hb hnw
    have hr : pf.root_mht.need_writing = false := by
      cases hb : pf.root_mht.need_writing
      · rfl
      · have := (g.root_dirty hb).1
        rw [hnw0] at this
        cases this
    have e : ipf_internal_flush env pf h = (true, pf, h) := by
      unfold ipf_internal_flush
      rw [hnw0]
      rfl
    rw [e]
    exact ⟨pf, Flushed.of_clean g hr pf h rfl rfl hnw0 (fun _ _ => rfl)
      (fun c => by rw [hnw0] at c; cases c) (fun _ => ⟨rfl, rfl⟩) (fun c => c)⟩

theorem Sealed.opens {env : Env} {k : Nat} {plain cipher : Buf} {e : gcm_crypto_data_t}
    (s : Sealed env k plain cipher e) (hinv : AeadInverse env) :
    env.aes_gcm_decrypt e.key cipher e.gmac = (SUCCESS, plain) := by
  obtain ⟨-, s1, s2, s3⟩ := s
  have := hinv e.key plain s1
  rw [s2, s3] at this
  exact this

theorem written_fields (n : file_node_t) :
    (written n).type = n.type ∧ (written n).node_number = n.node_number ∧
    (written n).parent = n.parent ∧ (written n).physical_node_number = n.physical_node_number ∧
    (written n).encrypted = n.encrypted ∧ (written n).decrypted = n.decrypted ∧
    (written n).need_writing = false ∧
    (written n).new_node = (if n.need_writing = true then false else n.new_node) := by
  unfold written
  cases hb : n.need_writing
  · simp [hb]
  · simp

theorem mht_node_ext (a b : mht_node_t) (h1 : ∀ i, a.data_nodes_crypto i = b.data_nodes_crypto i)
    (h2 : ∀ i, a.mht_nodes_crypto i = b.mht_nodes_crypto i) : a = b := by
  cases a
  cases b
  simp only [mht_node_t.mk.injEq]
  exact ⟨funext h1, funext h2⟩

/-- Equal flag lists give equal flags under every key. -/
theorem find_of_cache_flags (c1 c2 : List file_node_t)
    (hf : c1.map (fun n => (n.physical_node_number, n.need_writing, n.new_node))
      = c2.map (fun n => (n.physical_node_number, n.need_writing, n.new_node))) (k : Nat) :
    (lruc_find c1 k).map (fun n => (n.need_writing, n.new_node))
      = (lruc_find c2 k).map (fun n => (n.need_writing, n.new_node)) := by
  induction c1 generalizing c2 with
  | nil =>
    cases c2 with
    | nil => rfl
    | cons y r => simp at hf
  | cons x rest ih =>
    cases c2 with
    | nil => simp at hf
    | cons y r =>
      simp only [List.map_cons, List.cons.injEq, Prod.mk.injEq] at hf
      obtain ⟨⟨e1, e2, e3⟩, e4⟩ := hf
      rw [lruc_find_cons, lruc_find_cons, e1]
      by_cases c : y.physical_node_number = k
      · rw [if_pos c, if_pos c]
        simp [e2, e3]
      · rw [if_neg c, if_neg c]
        exact ih r e4

theorem mht_ptr_inj (a b : Nat) (ha : a < 2 ^ 50) (hb : b < 2 ^ 50) (e : mht_ptr a = mht_ptr b) :
    a = b := by
  unfold mht_ptr at e
  by_cases c1 : a = 0
  · by_cases c2 : b = 0
    · rw [c1, c2]
    · rw [if_pos c1, if_neg c2] at e
      cases e
  · by_cases c2 : b = 0
    · rw [if_neg c1, if_pos c2] at e
      cases e
    · rw [if_neg c1, if_neg c2] at e
      exact mht_physical_inj a b ha hb (NodePtr.cached.inj e)

/-- The node that a pointer leads to after a flush, in terms of the node before. -/
theorem Flushed.node {env : Env} {pf : pf_context_t} {h : Host} {pfT pf1 : pf_context_t}
    {h1 : Host} (F : Flushed env pf h pfT pf1 h1) (q : NodePtr) :
    pf1.resident q = pf.resident q ∧ (pf1.deref q).type = (pf.deref q).type ∧
    (pf1.deref q).node_number = (pf.deref q).node_number ∧
    (pf1.deref q).parent = (pf.deref q).parent ∧
    (pf1.deref q).physical_node_number = (pf.deref q).physical_node_number ∧
    (pf1.deref q).need_writing = false ∧
    (pf1.deref q).decrypted = (pfT.deref q).decrypted ∧
    (pf1.deref q).encrypted = (pfT.deref q).encrypted := by
  obtain ⟨n1, n2⟩ := F.nodes q
  obtain ⟨w1, w2, w3, w4, w5, w6, w7, -⟩ := written_fields (pfT.deref q)
  obtain ⟨s1, s2, s3, s4, -, s6⟩ := F.shape q
  rw [n1, n2]
  exact ⟨s1, w1.trans s2, w2.trans s3, w3.trans s4, w4.trans s6, w7, w6, w5⟩

/-- The `new_node` flag of a cached node after a flush. -/
theorem Flushed.new_flag {env : Env} {pf : pf_context_t} {h : Host} {pfT pf1 : pf_context_t}
    {h1 : Host} (F : Flushed env pf h pfT pf1 h1) (k : Nat) (n : file_node_t)
    (hn : lruc_find pf.cache k = some n) :
    (pf1.deref (.cached k)).new_node = (if n.need_writing = true then false else n.new_node) := by
  obtain ⟨n1, -⟩ := F.nodes (.cached k)
  rw [n1, (written_fields _).2.2.2.2.2.2.2]
  have hfl := find_of_cache_flags pfT.cache pf.cache F.flags k
  rw [hn] at hfl
  have hresT : pfT.resident (.cached k) = true := by
    rw [(F.shape _).1]
    exact (resident_of_find pf k n hn).1
  have hfT := find_of_resident pfT k hresT
  rw [hfT] at hfl
  simp only [Option.map_some', Option.some.injEq, Prod.mk.injEq] at hfl
  rw [hfl.1, hfl.2]

/-- A flush keeps, in the parent, the entry of every data node that is not a dirty cached
node. -/
theorem Flushed.data_entry_kept {env : Env} {pf : pf_context_t} {h : Host}
    {pfT pf1 : pf_context_t} {h1 : Host} (F : Flushed env pf h pfT pf1 h1) (g : Good env pf h)
    (d : Nat) (hd : d / ATTACHED_DATA_NODES_COUNT < 2 ^ 50)
    (hc : ∀ n, lruc_find pf.cache (data_physical_node_number d) = some n →
      n.need_writing = false) :
    (pf1.deref (mht_ptr (d / ATTACHED_DATA_NODES_COUNT))).decrypted.as_mht.data_nodes_crypto
        (d % ATTACHED_DATA_NODES_COUNT)
      = (pf.deref (mht_ptr (d / ATTACHED_DATA_NODES_COUNT))).decrypted.as_mht.data_nodes_crypto
        (d % ATTACHED_DATA_NODES_COUNT) := by
  rw [(F.node _).2.2.2.2.2.2.1]
  rcases (F.kept (mht_ptr (d / ATTACHED_DATA_NODES_COUNT))).2.1 (d % ATTACHED_DATA_NODES_COUNT)
    with c | ⟨r, r0, r1, r2, r3, r4, r5⟩
  · exact c
  · exfalso
    cases r with
    | root => exact r0 rfl
    | cached kr =>
      have hf := find_of_resident pf kr r1
      obtain ⟨p1, -, -⟩ := g.parent_facts kr _ hf
      have hb := (g.number_lt kr _ hf).2
      rw [r4] at p1
      have e := mht_ptr_inj _ _ hd hb p1
      unfold file_node_t.parent_number at e
      rw [r3] at e
      dsimp only at e
      have hnum : (pf.deref (.cached kr)).node_number = d := by
        unfold ATTACHED_DATA_NODES_COUNT at e r5
        omega
      have hkey := (g.shape kr _ hf).1
      unfold file_node_t.numbered at hkey
      rw [r3, hnum, lruc_find_key _ _ _ hf] at hkey
      dsimp only at hkey
      subst hkey
      have := hc _ hf
      rw [this] at r2
      cases r2

/-- A flush keeps, in the parent, the entry of every MHT node that is not a dirty cached
node. -/
theorem Flushed.mht_entry_kept {env : Env} {pf : pf_context_t} {h : Host}
    {pfT pf1 : pf_context_t} {h1 : Host} (F : Flushed env pf h pfT pf1 h1) (g : Good env pf h)
    (c : Nat) (hc0 : c ≠ 0) (hc50 : c < 2 ^ 50)
    (hc : ∀ n, lruc_find pf.cache (mht_physical_node_number c) = some n →
      n.need_writing = false) :
    (pf1.deref (mht_ptr ((c - 1) / CHILD_MHT_NODES_COUNT))).decrypted.as_mht.mht_nodes_crypto
        ((c - 1) % CHILD_MHT_NODES_COUNT)
      = (pf.deref (mht_ptr ((c - 1) / CHILD_MHT_NODES_COUNT))).decrypted.as_mht.mht_nodes_crypto
        ((c - 1) % CHILD_MHT_NODES_COUNT) := by
  rw [(F.node _).2.2.2.2.2.2.1]
  rcases (F.kept (mht_ptr ((c - 1) / CHILD_MHT_NODES_COUNT))).2.2
    ((c - 1) % CHILD_MHT_NODES_COUNT) with c1 | ⟨r, r0, r1, r2, r3, r4, r5⟩
  · exact c1
  · exfalso
    cases r with
    | root => exact r0 rfl
    | cached kr =>
      have hf := find_of_resident pf kr r1
      obtain ⟨p1, -, -⟩ := g.parent_facts kr _ hf
      have hb := (g.number_lt kr _ hf).2
      have hn0 := (g.shape kr _ hf).2.2.1 r3
      rw [r4] at p1
      have e := mht_ptr_inj _ _ (by unfold CHILD_MHT_NODES_COUNT; omega) hb p1
      unfold file_node_t.parent_number at e
      rw [r3] at e
      dsimp only at e
      have hnum : (pf.deref (.cached kr)).node_number = c := by
        unfold CHILD_MHT_NODES_COUNT at e r5
        omega
      have hkey := (g.shape kr _ hf).1
      unfold file_node_t.numbered at hkey
      rw [r3, hnum, lruc_find_key _ _ _ hf] at hkey
      dsimp only at hkey
      subst hkey
      have := hc _ hf
      rw [this] at r2
      cases r2

/-- A flush keeps the plaintext of every clean cached node. -/
theorem Flushed.clean_kept {env : Env} {pf : pf_context_t} {h : Host}
    {pfT pf1 : pf_context_t} {h1 : Host} (F : Flushed env pf h pfT pf1 h1) (g : Good env pf h)
    (k : Nat) (n : file_node_t) (hn : lruc_find pf.cache k = some n)
    (hc : n.need_writing = false) :
    n.payload (pf1.deref (.cached k)).decrypted = n.payload n.decrypted := by
  have hq := resident_of_find pf k n hn
  rw [(F.node _).2.2.2.2.2.2.1]
  obtain ⟨k1, k2, k3⟩ := F.kept (.cached k)
  rw [hq.2] at k1 k2 k3
  unfold file_node_t.payload
  cases ht : n.type
  · dsimp only
    congr 1
    apply mht_node_ext
    · intro i
      rcases k2 i with c | ⟨r, r0, r1, r2, r3, r4, r5⟩
      · exact c
      · exfalso
        cases r with
        | root => exact r0 rfl
        | cached kr =>
          have hf := find_of_resident pf kr r1
          have := (g.dirty_up kr _ hf r2).1
          rw [r4, hq.2, hc] at this
          cases this
    · intro i
      rcases k3 i with c | ⟨r, r0, r1, r2, r3, r4, r5⟩
      · exact c
      · exfalso
        cases r with
        | root => exact r0 rfl
        | cached kr =>
          have hf := find_of_resident pf kr r1
          have := (g.dirty_up kr _ hf r2).1
          rw [r4, hq.2, hc] at this
          cases this
  · dsimp only
    rw [k1 ht]

/-- What a lookup in the cache after a flush gives, in terms of the lookup before. -/
theorem Flushed.find {env : Env} {pf : pf_context_t} {h : Host} {pfT pf1 : pf_context_t}
    {h1 : Host} (F : Flushed env pf h pfT pf1 h1) (k : Nat) (n1 : file_node_t)
    (hn1 : lruc_find pf1.cache k = some n1) :
    ∃ n, lruc_find pf.cache k = some n ∧ n1 = pf1.deref (.cached k) ∧
      n = pf.deref (.cached k) ∧ pf.resident (.cached k) = true ∧
      n1.type = n.type ∧ n1.node_number = n.node_number ∧ n1.parent = n.parent ∧
      n1.physical_node_number = n.physical_node_number ∧ n1.need_writing = false ∧
      n1.new_node = (if n.need_writing = true then false else n.new_node) ∧
      n1.decrypted = (pfT.deref (.cached k)).decrypted ∧
      n1.encrypted = (pfT.deref (.cached k)).encrypted := by
  obtain ⟨r1, d1⟩ := resident_of_find pf1 k n1 hn1
  obtain ⟨a1, a2, a3, a4, a5, a6, a7, a8⟩ := F.node (.cached k)
  have hres : pf.resident (.cached k) = true := by rw [← a1]; exact r1
  have hf := find_of_resident pf k hres
  refine ⟨pf.deref (.cached k), hf, d1.symm, rfl, hres, ?_⟩
  rw [← d1]
  exact ⟨a2, a3, a4, a5, a6, F.new_flag k _ hf, a7, a8⟩

theorem Flushed.find_iff {env : Env} {pf : pf_context_t} {h : Host} {pfT pf1 : pf_context_t}
    {h1 : Host} (F : Flushed env pf h pfT pf1 h1) (k : Nat) :
    lruc_find pf1.cache k = none ↔ lruc_find pf.cache k = none := by
  rw [lruc_find_none_iff, lruc_find_none_iff, F.keys]

/-- A successful flush keeps the invariant, when decryption inverts encryption. -/
theorem Flushed.good {env : Env} {pf : pf_context_t} {h : Host} {pfT pf1 : pf_context_t}
    {h1 : Host} (F : Flushed env pf h pfT pf1 h1) (g : Good env pf h) (hinv : AeadInverse env)
    (hsz : pf1.encrypted_part_plain.size = pf.encrypted_part_plain.size) : Good env pf1 h1 := by
  have hroot := F.node .root
  refine
    { size_le := by rw [hsz]; exact g.size_le
      keys := by rw [F.keys]; exact g.keys
      root_number := hroot.2.2.1.trans g.root_number
      root_type := hroot.2.1.trans g.root_type
      shape := ?_
      pinned := ?_
      dirty_up := ?_
      root_dirty := fun c => by
        have := hroot.2.2.2.2.2.1
        rw [show pf1.deref .root = pf1.root_mht from rfl, c] at this
        cases this
      pending := ?_
      clean := ?_ }
  · intro k n1 hn1
    obtain ⟨n, hn, -, -, -, t1, t2, t3, t4, -⟩ := F.find k n1 hn1
    obtain ⟨s1, s2, s3, s4⟩ := g.shape k n hn
    unfold file_node_t.numbered at s1 ⊢
    unfold file_node_t.parent_ptr file_node_t.parent_number at s2 ⊢
    unfold file_node_t.start at s4 ⊢
    rw [t1, t2, t3, t4, hsz]
    exact ⟨s1, s2, s3, s4⟩
  · intro k n1 hn1
    obtain ⟨n, hn, -, -, -, -, -, t3, -⟩ := F.find k n1 hn1
    rw [t3, (F.node _).1]
    exact g.pinned k n hn
  · intro k n1 hn1 hd
    obtain ⟨n, hn, -, -, -, -, -, -, -, t5, -⟩ := F.find k n1 hn1
    rw [t5] at hd
    cases hd
  · intro k n1 hn1 _ hnew
    obtain ⟨n, hn, -, -, -, t1, t2, -, -, -, t6, -⟩ := F.find k n1 hn1
    rw [t6] at hnew
    have hc : n.need_writing = false := by
      cases hb : n.need_writing
      · rfl
      · rw [hb] at hnew
        simp at hnew
    rw [hc] at hnew
    simp only [Bool.false_eq_true, if_false] at hnew
    have := g.pending k n hn hc hnew
    unfold file_node_t.start at this ⊢
    rw [t1, t2, hsz]
    exact this
  · intro k n1 hn1 _ hnew
    obtain ⟨n, hn, e1, e0, hres, t1, t2, t3, t4, -, t6, t7, t8⟩ := F.find k n1 hn1
    have hkb := g.key_bounds k n hn
    have hkey := lruc_find_key _ _ _ hn
    have hpar : (pf1.deref n1.parent).decrypted = (pfT.deref n.parent).decrypted := by
      rw [t3]
      exact (F.node _).2.2.2.2.2.2.1
    obtain ⟨sh1, sh2, sh3, sh4, -, sh6⟩ := F.shape (.cached k)
    rw [← e0] at sh2 sh3 sh4 sh6
    cases hd : n.need_writing
    · -- a node that was clean: its entry and its block are kept
      rw [hd] at t6
      simp only [Bool.false_eq_true, if_false] at t6
      rw [t6] at hnew
      obtain ⟨c1, c2⟩ := g.clean k n hn hd hnew
      obtain ⟨p1, -, -⟩ := g.parent_facts k n hn
      have hb := g.number_lt k n hn
      have hblock : h1.file n1.physical_node_number = h.file n.physical_node_number := by
        rw [t4, hkey, F.disk k (by omega) (by omega), if_neg]
        rw [← e0, hd]
        simp
      have hent : n1.entry_in (pf1.deref n1.parent).decrypted.as_mht
          = n.entry_in (pf.deref n.parent).decrypted.as_mht := by
        unfold file_node_t.entry_in
        rw [t1, t2, t3, p1]
        unfold file_node_t.parent_number
        cases ht : n.type
        · dsimp only
          have h0 := (g.shape k n hn).2.2.1 ht
          have hk2 := (g.shape k n hn).1
          unfold file_node_t.numbered at hk2
          rw [ht, hkey] at hk2
          dsimp only at hk2
          exact F.mht_entry_kept g n.node_number h0 hb.1 (fun n2 hn2 => by
            rw [← hk2, hn] at hn2
            rw [← Option.some.inj hn2]
            exact hd)
        · dsimp only
          have hk2 := (g.shape k n hn).1
          unfold file_node_t.numbered at hk2
          rw [ht, hkey] at hk2
          dsimp only at hk2
          have hb2 := hb.2
          unfold file_node_t.parent_number at hb2
          rw [ht] at hb2
          exact F.data_entry_kept g n.node_number hb2 (fun n2 hn2 => by
            rw [← hk2, hn] at hn2
            rw [← Option.some.inj hn2]
            exact hd)
      have hpl : n1.payload n1.decrypted = n.payload n.decrypted := by
        have := F.clean_kept g k n hn hd
        rw [← e1] at this
        unfold file_node_t.payload at this ⊢
        rw [t1]
        exact this
      rw [hent, hblock]
      refine ⟨c1, ?_⟩
      rw [hpl, ← c2]
      unfold file_node_t.payload
      rw [t1]
    · -- a node that was dirty: its entry in the parent seals it, and its block holds the
      -- ciphertext
      have hq0 : NodePtr.cached k ≠ .root := by simp
      have hdd : (pf.deref (.cached k)).need_writing = true := by rw [← e0]; exact hd
      obtain ⟨sd, sm⟩ := F.seals (.cached k) hq0 hres hdd
      have hblock : (h1.file n1.physical_node_number).as_node
          = (pfT.deref (.cached k)).encrypted := by
        rw [t4, hkey, F.disk k (by omega) (by omega), if_pos ⟨hres, hdd⟩]
        rfl
      cases ht : n.type
      · have so := (sm (by rw [← e0]; exact ht)).opens hinv
        have hent : n1.entry_in (pf1.deref n1.parent).decrypted.as_mht
            = (pfT.deref (pfT.deref (.cached k)).parent).decrypted.as_mht.mht_nodes_crypto
                (((pfT.deref (.cached k)).node_number - 1) % CHILD_MHT_NODES_COUNT) := by
          unfold file_node_t.entry_in
          rw [t1, ht]
          dsimp only
          rw [hpar, t2, sh3, sh4]
        rw [hent, hblock, so]
        refine ⟨rfl, ?_⟩
        unfold file_node_t.payload
        rw [t1, ht]
        dsimp only
        rw [t7]
        rfl
      · have so := (sd (by rw [← e0]; exact ht)).opens hinv
        have hent : n1.entry_in (pf1.deref n1.parent).decrypted.as_mht
            = (pfT.deref (pfT.deref (.cached k)).parent).decrypted.as_mht.data_nodes_crypto
                ((pfT.deref (.cached k)).node_number % ATTACHED_DATA_NODES_COUNT) := by
          unfold file_node_t.entry_in
          rw [t1, ht]
          dsimp only
          rw [hpar, t2, sh3, sh4]
        rw [hent, hblock, so]
        refine ⟨rfl, ?_⟩
        unfold file_node_t.payload
        rw [t1, ht]
        dsimp only
        rw [t7]
        rfl

/-- A flush keeps, of every MHT node it leaves in the cache or in the root, the entries of the
children that are not cached. -/
theorem Flushed.entries_agree {env : Env} {pf : pf_context_t} {h : Host}
    {pfT pf1 : pf_context_t} {h1 : Host} (F : Flushed env pf h pfT pf1 h1) (g : Good env pf h)
    (m : Nat) (hm : m < 2 ^ 44) :
    EntriesAgree pf pf1 m (pf.deref (mht_ptr m)).decrypted.as_mht
      (pf1.deref (mht_ptr m)).decrypted.as_mht := by
  constructor
  · intro c hc0 hpar hnb
    have hc50 : c < 2 ^ 50 := by
      unfold CHILD_MHT_NODES_COUNT at hpar
      omega
    have := F.mht_entry_kept g c hc0 hc50 (fun n hn => by
      exfalso
      apply hnb
      unfold cached_mht
      have h1n : lruc_find pf1.cache (mht_physical_node_number c) ≠ none := by
        rw [Ne, F.find_iff]
        rw [hn]
        simp
      rw [hn]
      constructor
      · rfl
      · rcases hx : lruc_find pf1.cache (mht_physical_node_number c) with _ | y
        · exact absurd hx h1n
        · rfl)
    rw [hpar] at this
    exact this
  · intro d hpar hnb
    have := F.data_entry_kept g d (by rw [hpar]; omega) (fun n hn => by
      exfalso
      apply hnb
      unfold cached_data
      have h1n : lruc_find pf1.cache (data_physical_node_number d) ≠ none := by
        rw [Ne, F.find_iff]
        rw [hn]
        simp
      rw [hn]
      constructor
      · rfl
      · rcases hx : lruc_find pf1.cache (data_physical_node_number d) with _ | y
        · exact absurd hx h1n
        · rfl)
    rw [hpar] at this
    exact this

/-- A successful flush leaves a state that agrees with the state before. -/
theorem Flushed.fl_agree {env : Env} {pf : pf_context_t} {h : Host} {pfT pf1 : pf_context_t}
    {h1 : Host} (F : Flushed env pf h pfT pf1 h1) (g : Good env pf h) :
    Agree env pf h pf1 h1 pf.encrypted_part_plain.size := by
  have hbl : ∀ k, k ≠ 0 → k ≠ 1 → lruc_find pf.cache k = none → h1.file k = h.file k := by
    intro k hk0 hk1 hf
    rw [F.disk k hk0 hk1, if_neg]
    intro c
    have := find_of_resident pf k c.1
    rw [hf] at this
    cases this
  refine
    { root := F.entries_agree g 0 (by omega)
      mht_both := ?_
      mht_none := ?_
      mht_out := ?_
      mht_in := ?_
      data_both := ?_
      data_none := ?_
      data_out := ?_
      data_in := ?_ }
  · intro m n n1 h0 hl hn hn1
    have hm := live_mht_lt44 _ m hl g.size_le
    have hr := resident_of_find pf _ n hn
    have hr1 := resident_of_find pf1 _ n1 hn1
    have := F.entries_agree g m hm
    rw [mht_ptr_pos m h0, hr.2, hr1.2] at this
    exact this
  · intro m h0 hl hn _
    have hm := live_mht_lt44 _ m hl g.size_le
    rw [hbl _ (by rw [mht_physical_small m (by omega)]; omega)
      (by rw [mht_physical_small m (by omega)]; omega) hn]
  · intro m n _ _ hn hn1
    rw [F.find_iff, hn] at hn1
    cases hn1
  · intro m n1 _ _ hn hn1
    rw [← F.find_iff, hn1] at hn
    cases hn
  · intro d n n1 _ hn hn1
    obtain ⟨n0, hn0, e1, e0, -, -, -, -, -, -, -, t7, -⟩ := F.find _ n1 hn1
    rw [hn] at hn0
    cases hn0
    obtain ⟨ht, -⟩ := g.find_data d n hn
    rw [t7, (F.kept _).1 (by rw [← e0]; exact ht), ← e0]
  · intro d _ hn _
    rw [hbl _ (by unfold data_physical_node_number ATTACHED_DATA_NODES_COUNT; omega)
      (by unfold data_physical_node_number ATTACHED_DATA_NODES_COUNT; omega) hn]
  · intro d n _ hn hn1
    rw [F.find_iff, hn] at hn1
    cases hn1
  · intro d n1 _ hn hn1
    rw [← F.find_iff, hn1] at hn
    cases hn

/-- A successful flush keeps the safe nodes of the file safe: it leaves the blocks and the
entries of the nodes that are not in the cache. -/
theorem Flushed.fl_safe {env : Env} {pf : pf_context_t} {h : Host} {pfT pf1 : pf_context_t}
    {h1 : Host} (F : Flushed env pf h pfT pf1 h1) (g : Good env pf h) :
    (∀ m, m ≠ 0 → live_mht pf.encrypted_part_plain.size m → SafeMht env pf h m →
      SafeMht env pf1 h1 m) ∧
    (∀ d, live_data pf.encrypted_part_plain.size d → SafeData env pf h d →
      SafeData env pf1 h1 d) := by
  refine ⟨fun m h0 hl s => ?_, fun d hl s => ?_⟩
  · refine s.sm_agree (F.fl_agree g) h0 hl ?_
    intro n hn hn1
    rw [F.find_iff, hn] at hn1
    cases hn1
  · refine s.sd_agree (F.fl_agree g) hl ?_
    intro n hn hn1
    rw [F.find_iff, hn] at hn1
    cases hn1

/-- A successful flush leaves the plaintext of the file as it was. -/
theorem Flushed.same_bytes {env : Env} {pf : pf_context_t} {h : Host} {pfT pf1 : pf_context_t}
    {h1 : Host} (F : Flushed env pf h pfT pf1 h1) (g : Good env pf h)
    (hsz : pf1.encrypted_part_plain.size = pf.encrypted_part_plain.size)
    (hdata : pf1.encrypted_part_plain.data = pf.encrypted_part_plain.data) :
    SameBytes env pf h pf1 h1 := by
  exact ⟨hsz, fun x hx => (F.fl_agree g).a_byte hdata x hx⟩

/-- Lists of nodes with the same keys, each key once, and the same projection of the node
under every key have the same list of projections. -/
theorem map_eq_of_find {α : Type} (π : file_node_t → α) (c1 c2 : List file_node_t)
    (hk : c1.map (fun n => n.physical_node_number) = c2.map (fun n => n.physical_node_number))
    (hnd : (c2.map (fun n => n.physical_node_number)).Nodup)
    (hf : ∀ k, (lruc_find c1 k).map π = (lruc_find c2 k).map π) : c1.map π = c2.map π := by
  induction c1 generalizing c2 with
  | nil =>
    cases c2 with
    | nil => rfl
    | cons y s => simp at hk
  | cons x r ih =>
    cases c2 with
    | nil => simp at hk
    | cons y s =>
      simp only [List.map_cons, List.cons.injEq] at hk
      obtain ⟨e1, e2⟩ := hk
      have hnd1 := List.nodup_cons.mp hnd
      have hx := hf x.physical_node_number
      rw [lruc_find_cons, lruc_find_cons, if_pos rfl, if_pos e1.symm] at hx
      simp only [Option.map_some', Option.some.injEq] at hx
      rw [List.map_cons, List.map_cons, hx]
      congr 1
      apply ih s e2 hnd1.2
      intro k
      have := hf k
      rw [lruc_find_cons, lruc_find_cons, e1] at this
      by_cases c : y.physical_node_number = k
      · have hn1 : lruc_find s k = none := by
          rw [lruc_find_none_iff, ← c]
          exact hnd1.1
        have hn2 : lruc_find r k = none := by
          rw [lruc_find_none_iff, e2, ← c]
          exact hnd1.1
        rw [hn1, hn2]
      · rw [if_neg c, if_neg c] at this
        exact this

theorem ordered_iff_map (c : List file_node_t) :
    Ordered c ↔ (c.map (fun n => (n.parent, n.physical_node_number))).Pairwise
      (fun a b => a.1 = NodePtr.cached b.2 → False) := by
  unfold Ordered OrdExcept
  rw [List.pairwise_map]

/-- A flush keeps the order of the cache. -/
theorem Flushed.ordered {env : Env} {pf : pf_context_t} {h : Host} {pfT pf1 : pf_context_t}
    {h1 : Host} (F : Flushed env pf h pfT pf1 h1) (g : Good env pf h) (o : Ordered pf.cache) :
    Ordered pf1.cache := by
  rw [ordered_iff_map] at o ⊢
  rw [map_eq_of_find (fun n => (n.parent, n.physical_node_number)) pf1.cache pf.cache F.keys
    g.keys]
  · exact o
  · intro k
    rcases hf1 : lruc_find pf1.cache k with _ | n1
    · rw [(F.find_iff k).mp hf1]
    · obtain ⟨n, hn, -, -, -, -, -, t3, t4, -⟩ := F.find k n1 hf1
      rw [hn]
      simp [t3, t4]

/-- A node fetch keeps the nodes in step with the disk. -/
theorem Fetch.f_imaged {env : Env} {pf : pf_context_t} {h : Host} {pf1 : pf_context_t}
    {h1 : Host} {T N : file_node_t → Prop} (F : Fetch env pf h pf1 h1 T N)
    (m : Imaged pf h) : Imaged pf1 h1 := by
  obtain ⟨c, e⟩ := F.rest
  refine
    { nodes := fun k n hn hnew => ?_
      root_key := by rw [e]; exact m.root_key
      root := fun hr => by
        rw [F.file]
        rw [e] at hr ⊢
        exact m.root hr
      flag := by rw [e]; exact m.flag
      typed := fun k hk => by
        rw [F.file]
        exact m.typed k hk }
  rw [F.file]
  rcases hf : lruc_find pf.cache k with _ | n0
  · rcases F.image k n hn hf with c1 | c1
    · rw [hnew] at c1
      cases c1
    · rw [c1]
      exact m.typed k (by
        have := (F.good.key_bounds k n hn).1
        omega)
  · have := F.old k n0 hf
    rw [hn] at this
    cases this
    exact m.nodes k n hf hnew

/-- A node fetch keeps the context a mirror of the disk. -/
theorem Fetch.f_mirror {env : Env} {pf : pf_context_t} {h : Host} {pf1 : pf_context_t}
    {h1 : Host} {T N : file_node_t → Prop} (F : Fetch env pf h pf1 h1 T N)
    (m : Mirror pf h) : Mirror pf1 h1 := by
  refine ⟨F.f_imaged m.imaged, ?_⟩
  obtain ⟨c, e⟩ := F.rest
  rw [F.file, e]
  exact m.header

/-- A cache with a part of the nodes is in step with the disk when the cache is. -/
theorem Imaged.of_sub {pf : pf_context_t} {h : Host} (m : Imaged pf h) (c : List file_node_t)
    (hsub : ∀ k n, lruc_find c k = some n → lruc_find pf.cache k = some n) :
    Imaged { pf with cache := c } h :=
  { nodes := fun k n hn hnew => m.nodes k n (hsub k n hn) hnew
    root_key := m.root_key
    root := m.root
    flag := m.flag
    typed := m.typed }

/-- A successful flush keeps the nodes in step with the disk. -/
theorem Flushed.fl_imaged {env : Env} {pf : pf_context_t} {h : Host} {pfT pf1 : pf_context_t}
    {h1 : Host} (F : Flushed env pf h pfT pf1 h1) (g : Good env pf h) (m : Imaged pf h) :
    Imaged pf1 h1 := by
  have hroot := F.node .root
  refine
    { nodes := fun k n1 hn1 hnew => ?_
      root_key := hroot.2.2.2.2.1.trans m.root_key
      root := fun hr => ?_
      flag := F.flag m.flag
      typed := fun k hk => ?_ }
  · obtain ⟨n, hn, -, hnd, hres, -, -, -, -, -, hnn, -, henc⟩ := F.find k n1 hn1
    obtain ⟨hk2, -⟩ := g.key_bounds k n hn
    rw [F.disk k (by omega) (by omega), henc]
    by_cases c : pf.resident (.cached k) = true ∧ (pf.deref (.cached k)).need_writing = true
    · rw [if_pos c]
    · rw [if_neg c]
      have hcl : n.need_writing = false := by
        cases hb : n.need_writing
        · rfl
        · exact absurd ⟨hres, by rw [← hnd]; exact hb⟩ c
      rw [hcl] at hnn
      simp only [Bool.false_eq_true, if_false] at hnn
      rw [F.enc _ (by rw [← hnd]; exact hcl), ← hnd]
      exact m.nodes k n hn (hnn.symm.trans hnew)
  · rw [F.block1]
    obtain ⟨n1, -⟩ := F.nodes .root
    by_cases c : pf.root_mht.need_writing = true
    · rw [if_pos c]
      show _ = Block.node (pf1.deref .root).encrypted
      rw [hroot.2.2.2.2.2.2.2]
      rfl
    · have hcl : pf.root_mht.need_writing = false := by
        cases hb : pf.root_mht.need_writing
        · rfl
        · exact absurd hb c
      rw [if_neg c]
      have hT : (pfT.deref .root).need_writing = false :=
        ((F.shape .root).2.2.2.2.1).trans hcl
      have e1 : pf1.root_mht = pfT.root_mht := by
        show pf1.deref .root = pfT.deref .root
        rw [n1, written_not_dirty _ hT]
      have hn0 : pf.root_mht.new_node = false := by
        rw [← F.root_new hcl, ← e1]
        exact hr
      rw [e1]
      show _ = Block.node (pfT.deref .root).encrypted
      rw [F.enc .root hcl]
      exact m.root hn0
  · by_cases k1 : k = 1
    · rw [k1, F.block1]
      by_cases c : pf.root_mht.need_writing = true
      · rw [if_pos c]
        rfl
      · rw [if_neg c]
        exact m.typed 1 (by norm_num)
    · rw [F.disk k hk k1]
      by_cases c : pf.resident (.cached k) = true ∧ (pf.deref (.cached k)).need_writing = true
      · rw [if_pos c]
        rfl
      · rw [if_neg c]
        exact m.typed k hk

/-- A successful flush of a state with something to write, or of a mirror of the disk, leaves
a mirror of the disk. -/
theorem Flushed.fl_mirror {env : Env} {pf : pf_context_t} {h : Host} {pfT pf1 : pf_context_t}
    {h1 : Host} (F : Flushed env pf h pfT pf1 h1) (g : Good env pf h) (m : Imaged pf h)
    (hh : pf.need_writing = true ∨ h.file 0 = .meta pf.file_meta_data) : Mirror pf1 h1 := by
  refine ⟨F.fl_imaged g m, ?_⟩
  by_cases c : pf.need_writing = true
  · exact F.block0 c
  · have hcl : pf.need_writing = false := by
      cases hb : pf.need_writing
      · rfl
      · exact absurd hb c
    obtain ⟨i1, i2⟩ := F.idle hcl
    rw [i1, i2]
    exact hh.resolve_left c

theorem format_of_file_meta_data {a b : pf_context_t}
    (e : a.file_meta_data = b.file_meta_data) : a.format = b.format := by
  unfold pf_context_t.format
  rw [e]

theorem ipf_write_recovery_file_format (env : Env) (pf : pf_context_t) (h : Host) :
    (ipf_write_recovery_file env pf h).2.1.format = pf.format :=
  format_of_file_meta_data (ipf_write_recovery_file_file_meta_data env pf h)

theorem ipf_update_all_data_and_mht_nodes_format (env : Env) (pf : pf_context_t) (h : Host) :
    (ipf_update_all_data_and_mht_nodes env pf h).2.1.format = pf.format :=
  format_of_file_meta_data (ipf_update_all_data_and_mht_nodes_file_meta_data env pf h)

theorem ipf_clear_update_flag_format (env : Env) (pf : pf_context_t) (h : Host) :
    (ipf_clear_update_flag env pf h).1.format = pf.format :=
  format_of_file_meta_data (ipf_clear_update_flag_file_meta_data env pf h)

theorem ipf_write_all_changes_to_disk_format (env : Env) (pf : pf_context_t) (h : Host) :
    (ipf_write_all_changes_to_disk env pf h).2.1.format = pf.format :=
  format_of_file_meta_data (ipf_write_all_changes_to_disk_file_meta_data env pf h)

theorem ipf_set_update_flag_format (env : Env) (pf : pf_context_t) (h : Host) :
    (ipf_set_update_flag env pf h).2.1.format = pf.format := by
  unfold ipf_set_update_flag
  dsimp only
  have e := ipf_write_node_file_meta_data env (pf.with_update_flag 1) h 0
    (.meta (pf.with_update_flag 1).file_meta_data)
  rcases hw : ipf_write_node env (pf.with_update_flag 1) h 0
    (.meta (pf.with_update_flag 1).file_meta_data) with ⟨b, pf2, h2⟩
  rw [hw] at e
  dsimp only at e
  cases b
  · show pf2.format = pf.format
    unfold pf_context_t.format
    rw [e]
    rfl
  · show (pf2.with_update_flag 0).format = pf.format
    unfold pf_context_t.format pf_context_t.with_update_flag
    dsimp only
    rw [e]
    rfl

theorem ipf_generate_secure_blob_from_user_kdk_format (env : Env) (pf : pf_context_t) (h : Host)
    (r : Bool) : (ipf_generate_secure_blob_from_user_kdk env pf h r).2.1.format = pf.format := by
  unfold ipf_generate_secure_blob_from_user_kdk
  repeat' (first | split | dsimp only)
  all_goals rfl

theorem ipf_update_meta_data_node_format (env : Env) (pf : pf_context_t) (h : Host) :
    (ipf_update_meta_data_node env pf h).2.1.format = pf.format := by
  unfold ipf_update_meta_data_node
  have e1 := ipf_generate_secure_blob_from_user_kdk_format env pf h false
  unfold ipf_generate_random_meta_data_key
  split
  · simp_all
  · repeat' (first | split | dsimp only)
    all_goals simp_all [pf_context_t.format]

/-- The flush engine keeps the format fields of the metadata node. -/
theorem ipf_internal_flush_format (env : Env) (pf : pf_context_t) (h : Host) :
    (ipf_internal_flush env pf h).2.1.format = pf.format := by
  unfold ipf_internal_flush
  try dsimp only
  have tail : ∀ (pf1 : pf_context_t) (h1 : Host), pf1.format = pf.format →
      (match ipf_update_meta_data_node env pf1 h1 with
        | (false, pf2, h2) =>
          match ipf_clear_update_flag env pf2 h2 with
          | (pf3, h3) => (false, { pf3 with file_status := CRYPTO_ERROR }, h3)
        | (true, pf2, h2) =>
          match ipf_write_all_changes_to_disk env pf2 h2 with
          | (false, pf3, h3) => (false, { pf3 with file_status := WRITE_TO_DISK_FAILED }, h3)
          | (true, pf3, h3) => (true, { pf3 with need_writing := false }, h3)).2.1.format
        = pf.format := by
    intro pf1 h1 e1
    have e2 := ipf_update_meta_data_node_format env pf1 h1
    rcases hu : ipf_update_meta_data_node env pf1 h1 with ⟨b, pf2, h2⟩
    rw [hu] at e2
    cases b
    · dsimp only at e2 ⊢
      have e3 := ipf_clear_update_flag_format env pf2 h2
      exact (e3.trans e2).trans e1
    · dsimp only at e2 ⊢
      have e3 := ipf_write_all_changes_to_disk_format env pf2 h2
      rcases hw : ipf_write_all_changes_to_disk env pf2 h2 with ⟨b, pf3, h3⟩
      rw [hw] at e3
      cases b <;> exact (e3.trans e2).trans e1
  split_ifs with hnw hguard hrec
  · rfl
  · -- tree step with recovery log
    have e1 := ipf_write_recovery_file_format env pf h
    rcases hr : ipf_write_recovery_file env pf h with ⟨b, pf1, h1⟩
    rw [hr] at e1
    cases b
    · exact e1
    · dsimp only at e1 ⊢
      have e2 := ipf_set_update_flag_format env pf1 h1
      rcases hs : ipf_set_update_flag env pf1 h1 with ⟨b, pf2, h2⟩
      rw [hs] at e2
      cases b
      · exact e2.trans e1
      · dsimp only at e2 ⊢
        have e3 := ipf_update_all_data_and_mht_nodes_format env pf2 h2
        rcases hu : ipf_update_all_data_and_mht_nodes env pf2 h2 with ⟨b, pf3, h3⟩
        rw [hu] at e3
        cases b
        · dsimp only at e3 ⊢
          have e4 := ipf_clear_update_flag_format env pf3 h3
          exact ((e4.trans e3).trans e2).trans e1
        · exact tail pf3 h3 ((e3.trans e2).trans e1)
  · try dsimp only
    have e2 := ipf_set_update_flag_format env pf h
    rcases hs : ipf_set_update_flag env pf h with ⟨b, pf2, h2⟩
    rw [hs] at e2
    cases b
    · exact e2
    · dsimp only at e2 ⊢
      have e3 := ipf_update_all_data_and_mht_nodes_format env pf2 h2
      rcases hu : ipf_update_all_data_and_mht_nodes env pf2 h2 with ⟨b, pf3, h3⟩
      rw [hu] at e3
      cases b
      · dsimp only at e3 ⊢
        have e4 := ipf_clear_update_flag_format env pf3 h3
        exact (e4.trans e3).trans e2
      · exact tail pf3 h3 (e3.trans e2)
  · exact tail pf h rfl

theorem data_of_stable_eq (a b : pf_context_t) (hs : a.stable = b.stable) :
    a.encrypted_part_plain.data = b.encrypted_part_plain.data :=
  congrArg Stable.data hs

/-- A node among the `j` most recently used ones of a cache with more than `j` nodes is not
the least recently used one. -/
theorem InFront.not_last {c : List file_node_t} {k j : Nat} (hi : InFront c k j)
    (hk : (c.map (fun n => n.physical_node_number)).Nodup) (hlen : j < c.length)
    (l : file_node_t) (hl : c.getLast? = some l) : l.physical_node_number ≠ k := by
  intro e
  have hc : c = c.dropLast ++ [l] := (List.dropLast_append_getLast? l hl).symm
  unfold InFront at hi
  have hlen2 : c.dropLast.length = c.length - 1 := List.length_dropLast c
  have hk2 : (c.dropLast.map (fun n => n.physical_node_number) ++ [l.physical_node_number]).Nodup := by
    have := hk
    rw [hc] at this
    simpa using this
  have hi2 : k ∈ c.dropLast.map (fun n => n.physical_node_number) := by
    rw [hc] at hi
    rw [List.map_append, List.take_append_of_le_length (by rw [List.length_map]; omega)] at hi
    exact List.mem_of_mem_take hi
  exact (List.nodup_append.mp hk2).2.2 hi2 (by rw [e]; exact List.mem_singleton_self _)

theorem InFront.i_dropLast {c : List file_node_t} {k j : Nat} (hi : InFront c k j)
    (hlen : j < c.length) : InFront c.dropLast k j := by
  unfold InFront at hi ⊢
  rcases hl : c.getLast? with _ | l
  · rw [List.getLast?_eq_none_iff] at hl
    rw [hl] at hlen
    simp at hlen
  · have hc : c = c.dropLast ++ [l] := (List.dropLast_append_getLast? l hl).symm
    have hlen2 : c.dropLast.length = c.length - 1 := List.length_dropLast c
    rw [hc, List.map_append,
      List.take_append_of_le_length (by rw [List.length_map]; omega)] at hi
    exact hi

theorem Evicted.e_refl {env : Env} {Keep : Nat → Prop} {pf : pf_context_t} {h : Host}
    (g : Good env pf h) (o : Ordered pf.cache)
    (hf : ∀ k, Keep k → InFront pf.cache k env.MAX_PAGES_IN_CACHE)
    (hs : ∀ k n, lruc_find pf.cache k = some n →
      n.start < pf.encrypted_part_plain.size ∨ Keep k) : Evicted env Keep pf h pf h :=
  { good := g
    ord := o
    same := SameBytes.sb_refl env pf h
    stable := rfl
    front := hf
    settled := hs
    flags := fun _ n1 hn1 => ⟨n1, hn1, fun c => c⟩
    imaged := fun m => m
    mirror := fun m => m
    safe_mht := fun _ _ _ s => s
    safe_data := fun _ _ s => s
    flag := fun f => f
    format := rfl }

theorem Evicted.e_trans {env : Env} {Keep : Nat → Prop} {pf : pf_context_t} {h : Host}
    {pf1 : pf_context_t} {h1 : Host} {pf2 : pf_context_t} {h2 : Host}
    (a : Evicted env Keep pf h pf1 h1) (b : Evicted env Keep pf1 h1 pf2 h2) :
    Evicted env Keep pf h pf2 h2 :=
  { good := b.good
    ord := b.ord
    same := a.same.sb_trans b.same
    stable := b.stable.trans a.stable
    front := b.front
    settled := b.settled
    flags := fun k n2 hn2 => by
      obtain ⟨n1, hn1, c1⟩ := b.flags k n2 hn2
      obtain ⟨n, hn, c⟩ := a.flags k n1 hn1
      exact ⟨n, hn, fun x => c (c1 x)⟩
    imaged := fun m => b.imaged (a.imaged m)
    mirror := fun m => b.mirror (a.mirror m)
    safe_mht := fun m h0 hl s => b.safe_mht m h0
      (by rw [size_of_stable_eq _ _ a.stable]; exact hl) (a.safe_mht m h0 hl s)
    safe_data := fun d hl s => b.safe_data d
      (by rw [size_of_stable_eq _ _ a.stable]; exact hl) (a.safe_data d hl s)
    flag := fun f => b.flag (a.flag f)
    format := b.format.trans a.format }

/-- A successful `evict_nodes` on an ordered cache whose nodes to keep are within the capacity.
-/
theorem evict_nodes_evicted (env : Env) (hinv : AeadInverse env) (Keep : Nat → Prop)
    (fuel : Nat) :
    ∀ (pf : pf_context_t) (h : Host), Good env pf h → Ordered pf.cache →
    (∀ k, Keep k → InFront pf.cache k env.MAX_PAGES_IN_CACHE) →
    (∀ k n, lruc_find pf.cache k = some n →
      n.start < pf.encrypted_part_plain.size ∨ Keep k) →
    (evict_nodes env fuel pf h).1 = true →
    Evicted env Keep pf h (evict_nodes env fuel pf h).2.1 (evict_nodes env fuel pf h).2.2 := by
  induction fuel with
  | zero =>
    intro pf h g o hf hs hok
    unfold evict_nodes at hok ⊢
    by_cases c : lruc_size pf.cache > env.MAX_PAGES_IN_CACHE
    · rw [if_pos c] at hok
      cases hok
    · rw [if_neg c]
      exact Evicted.e_refl g o hf hs
  | succ fuel ih =>
    intro pf h g o hf hs hok
    unfold evict_nodes at hok ⊢
    by_cases c : lruc_size pf.cache > env.MAX_PAGES_IN_CACHE
    · rw [if_pos c] at hok ⊢
      dsimp only at hok ⊢
      unfold lruc_size at c
      rcases hl : lruc_get_last pf.cache with _ | l
      · rw [hl] at hok
        cases hok
      · rw [hl] at hok
        dsimp only at hok ⊢
        have hl1 : pf.cache.getLast? = some l := hl
        have hlm : l ∈ pf.cache := List.mem_of_getLast?_eq_some hl1
        have hlf := lruc_find_of_mem pf.cache l hlm g.keys
        by_cases hd : l.need_writing = true
        · have hd1 : (!l.need_writing) = false := by rw [hd]; rfl
          rw [hd1] at hok ⊢
          simp only [Bool.false_eq_true, if_false] at hok ⊢
          have hflush := ipf_internal_flush_flushed env pf h g
          have hst := ipf_internal_flush_stable env pf h
          have hfm := ipf_internal_flush_format env pf h
          rcases hfl : ipf_internal_flush env pf h with ⟨b, pf1, h1⟩
          rw [hfl] at hok hflush hst hfm
          cases b with
          | false => cases hok
          | true =>
            dsimp only at hok hflush hst hfm ⊢
            obtain ⟨pfT, F⟩ := hflush rfl
            have hsz := size_of_stable_eq _ _ hst
            have g1 := F.good g hinv hsz
            have e1 : Evicted env Keep pf h pf1 h1 :=
              { good := g1
                ord := F.ordered g o
                same := F.same_bytes g hsz (data_of_stable_eq _ _ hst)
                stable := hst
                front := fun k hk => by
                  have := hf k hk
                  unfold InFront at this ⊢
                  rw [F.keys]
                  exact this
                settled := fun k n1 hn1 => by
                  obtain ⟨n, hn, -, -, -, t1, t2, -⟩ := F.find k n1 hn1
                  rcases hs k n hn with s | s
                  · left
                    unfold file_node_t.start at s ⊢
                    rw [t1, t2, hsz]
                    exact s
                  · exact Or.inr s
                flags := fun k n1 hn1 => by
                  obtain ⟨n, hn, -, -, -, -, -, -, -, t5, -⟩ := F.find k n1 hn1
                  exact ⟨n, hn, fun x => by rw [t5] at x; cases x⟩
                imaged := fun m => F.fl_imaged g m
                mirror := fun m => F.fl_mirror g m.imaged (Or.inr m.header)
                safe_mht := (F.fl_safe g).1
                safe_data := (F.fl_safe g).2
                flag := F.flag
                format := hfm }
            exact e1.e_trans (ih pf1 h1 g1 e1.ord e1.front e1.settled hok)
        · have hd0 : l.need_writing = false := by
            cases hb : l.need_writing
            · rfl
            · exact absurd hb hd
          have hd1 : (!l.need_writing) = true := by rw [hd0]; rfl
          rw [hd1] at hok ⊢
          simp only [if_true] at hok ⊢
          unfold lruc_remove_last at hok ⊢
          have hls : l.start < pf.encrypted_part_plain.size := by
            rcases hs _ l hlf with s | s
            · exact s
            · exact absurd rfl ((hf _ s).not_last g.keys c l hl1)
          obtain ⟨g1, sb1, o1⟩ := g.drop_last o l hl1 hd0 hls
          have hf1 : ∀ k, lruc_find pf.cache.dropLast k
              = if k = l.physical_node_number then none else lruc_find pf.cache k :=
            fun k => lruc_find_dropLast pf.cache l k hl1 g.keys
          have hsub : ∀ k n, lruc_find pf.cache.dropLast k = some n →
              lruc_find pf.cache k = some n := by
            intro k n hn
            rw [hf1] at hn
            by_cases e : k = l.physical_node_number
            · rw [if_pos e] at hn
              cases hn
            · rw [if_neg e] at hn
              exact hn
          have e1 : Evicted env Keep pf h { pf with cache := pf.cache.dropLast } h :=
            { good := g1
              ord := o1
              same := sb1
              stable := rfl
              front := fun k hk => (hf k hk).i_dropLast c
              settled := fun k n hn => hs k n (hsub k n hn)
              flags := fun k n hn => ⟨n, hsub k n hn, fun x => x⟩
              imaged := fun m => m.of_sub _ hsub
              mirror := fun m => ⟨m.imaged.of_sub _ hsub, m.header⟩
              safe_mht := (g.drop_last_safe l hl1 hd0 hls).1
              safe_data := (g.drop_last_safe l hl1 hd0 hls).2
              flag := fun f => f
              format := rfl }
          exact e1.e_trans (ih _ h g1 o1 e1.front e1.settled hok)
    · rw [if_neg c]
      exact Evicted.e_refl g o hf hs

theorem find_of_in_front (c : List file_node_t) (k j : Nat) (hi : InFront c k j) :
    ∃ n, lruc_find c k = some n := by
  rcases hf : lruc_find c k with _ | n
  · exact absurd hi.i_mem ((lruc_find_none_iff c k).mp hf)
  · exact ⟨n, rfl⟩

/-- What a successful `ipf_get_data_node` did: the fetch, the marking of the ancestors as most
recently used, and the eviction. -/
theorem ipf_get_data_node_inv (env : Env) (pf : pf_context_t) (h : Host)
    (hlo : MD_USER_DATA_SIZE ≤ pf.offset) (p : NodePtr) (pf3 : pf_context_t) (h3 : Host)
    (hr : ipf_get_data_node env pf h = (some p, pf3, h3)) :
    ∃ pf1 h1,
      (if (pf.offset - MD_USER_DATA_SIZE) % PF_NODE_SIZE = 0
          ∧ pf.offset = pf.encrypted_part_plain.size then ipf_append_data_node env pf h
        else ipf_read_data_node env pf h) = (some p, pf1, h1) ∧
      evict_nodes env
        (2 * lruc_size (bump_parents (pf1.deref (pf1.deref p).parent).node_number pf1
          (pf1.deref p).parent).cache)
        (bump_parents (pf1.deref (pf1.deref p).parent).node_number pf1 (pf1.deref p).parent) h1
        = (true, pf3, h3) := by
  unfold ipf_get_data_node at hr
  rw [if_neg (not_lt.mpr hlo)] at hr
  dsimp only at hr
  rcases hf : (if (pf.offset - MD_USER_DATA_SIZE) % PF_NODE_SIZE = 0
      ∧ pf.offset = pf.encrypted_part_plain.size then ipf_append_data_node env pf h
    else ipf_read_data_node env pf h) with ⟨o, pf1, h1⟩
  rw [hf] at hr
  dsimp only at hr
  cases o with
  | none =>
    dsimp only at hr
    rcases he : evict_nodes env (2 * lruc_size pf1.cache) pf1 h1 with ⟨b, pf2, h2⟩
    rw [he] at hr
    cases b <;> cases hr
  | some q =>
    dsimp only at hr
    rcases he : evict_nodes env
      (2 * lruc_size (bump_parents (pf1.deref (pf1.deref q).parent).node_number pf1
        (pf1.deref q).parent).cache)
      (bump_parents (pf1.deref (pf1.deref q).parent).node_number pf1 (pf1.deref q).parent) h1
      with ⟨b, pf2, h2⟩
    rw [he] at hr
    cases b with
    | false => cases hr
    | true =>
      cases hr
      exact ⟨pf1, h1, rfl, he⟩

/-- A successful `ipf_get_data_node` at an offset within the file, on a state that satisfies
the invariant with an ordered cache of capacity at least 10 and no node waiting for its first
write. -/
theorem ipf_get_data_node_got (env : Env) (hinv : AeadInverse env)
    (hcap : 10 ≤ env.MAX_PAGES_IN_CACHE) (pf : pf_context_t) (h : Host)
    (g : Good env pf h) (o : Ordered pf.cache) (hset : Settled pf)
    (hlo : MD_USER_DATA_SIZE ≤ pf.offset) (hhi : pf.offset ≤ pf.encrypted_part_plain.size)
    (d : Nat) (hd : d = (pf.offset - MD_USER_DATA_SIZE) / PF_NODE_SIZE)
    (p : NodePtr) (pf3 : pf_context_t) (h3 : Host)
    (hr : ipf_get_data_node env pf h = (some p, pf3, h3)) :
    p = .cached (data_physical_node_number d) ∧ Got env pf h d pf3 h3 := by
  obtain ⟨-, -, -, hd50, hm44⟩ := get_node_numbers_eq pf.offset hlo (le_trans hhi g.size_le)
  rw [← hd] at hd50 hm44
  obtain ⟨pf1, h1, hfetch, hev⟩ := ipf_get_data_node_inv env pf h hlo p pf3 h3 hr
  have hF : p = .cached (data_physical_node_number d) ∧
      Fetch env pf h pf1 h1 (fun a => False ∨ ParentOnPath (d / ATTACHED_DATA_NODES_COUNT) a)
        (FetchedNode pf.encrypted_part_plain.size d) ∧
      ∃ x c, pf1.cache = x :: c ∧ x.physical_node_number = data_physical_node_number d := by
    by_cases happ : (pf.offset - MD_USER_DATA_SIZE) % PF_NODE_SIZE = 0
        ∧ pf.offset = pf.encrypted_part_plain.size
    · rw [if_pos happ] at hfetch
      exact ipf_append_data_node_fetch env pf h _ g o hset hlo happ d hd p pf1 h1 hfetch
    · rw [if_neg happ] at hfetch
      exact ipf_read_data_node_fetch env pf h _ g o hset hlo hhi happ d hd p pf1 h1 hfetch
  obtain ⟨hp, F, x, c, hc, hxk⟩ := hF
  have hsz1 : pf1.encrypted_part_plain.size = pf.encrypted_part_plain.size := F.same.1
  have hfx : lruc_find pf1.cache (data_physical_node_number d) = some x := by
    rw [hc]
    exact lruc_find_head x c _ hxk
  obtain ⟨hxt, hxn⟩ := F.good.find_data d x hfx
  have hderef : pf1.deref p = x := by
    rw [hp]
    exact (resident_of_find pf1 _ x hfx).2
  obtain ⟨pp1, pp2, pp3⟩ := F.good.parent_facts _ x hfx
  have hpn : x.parent_number = d / ATTACHED_DATA_NODES_COUNT := by
    unfold file_node_t.parent_number
    rw [hxt, hxn]
  rw [hpn] at pp1 pp3
  rw [hderef, pp3, pp1] at hev
  have hL : d / ATTACHED_DATA_NODES_COUNT < 32 ^ 9 := by
    have : (32 : Nat) ^ 9 = 2 ^ 45 := by norm_num
    omega
  have hpres : pf1.resident (mht_ptr (d / ATTACHED_DATA_NODES_COUNT)) = true := by
    rw [← pp1]
    exact F.good.pinned _ x hfx
  obtain ⟨⟨c2, b1⟩, b2, b3, b4, b5, b6⟩ := bump_parents_spec env h1
    (d / ATTACHED_DATA_NODES_COUNT) pf1 (d / ATTACHED_DATA_NODES_COUNT) 9 (le_refl _) hL
    (by omega) F.good hpres (F.ord.o_mono (fun a _ ha => ha.resolve_left id))
  rw [b1] at hev b2 b3 b4 b5 b6
  have b2' : ∀ k, lruc_find c2 k = lruc_find pf1.cache k := b2
  have g2 : Good env { pf1 with cache := c2 } h1 := F.good.congr _ h1 b2' b3 rfl rfl rfl rfl
  have sb2 : SameBytes env pf1 h1 { pf1 with cache := c2 } h1 :=
    SameBytes.of_congr env pf1 _ h1 h1 b2' rfl rfl rfl
  have hfront_d : InFront c2 (data_physical_node_number d) 10 := by
    have : InFront pf1.cache (data_physical_node_number d) 1 := by
      rw [hc, ← hxk]
      exact InFront.i_head x c 0
    exact b5 _ _ this
  have E := evict_nodes_evicted env hinv
    (fun k => k = data_physical_node_number d ∨
      (d / ATTACHED_DATA_NODES_COUNT ≠ 0 ∧
        k = mht_physical_node_number (d / ATTACHED_DATA_NODES_COUNT)))
    (2 * lruc_size c2) { pf1 with cache := c2 } h1 g2 b4
    (fun k hk => by
      rcases hk with e | ⟨c0, e⟩
      · rw [e]
        exact hfront_d.i_mono hcap
      · rw [e]
        exact (b6 c0).i_mono (by omega))
    (fun k n hn => by
      have hn1 : lruc_find pf1.cache k = some n := by
        rw [← b2' k]
        exact hn
      show n.start < pf1.encrypted_part_plain.size ∨ _
      rw [hsz1]
      rcases F.new k n hn1 with c0 | c0
      · exact Or.inl (hset k n c0)
      · have hk := lruc_find_key _ _ _ hn1
        have hsh := (F.good.shape k n hn1).1
        unfold file_node_t.numbered at hsh
        rcases c0 with ⟨t1, -, t3⟩ | ⟨t1, t2⟩
        · rcases t3 with t3 | t3
          · exact Or.inl t3
          · right
            right
            have h0 := (F.good.shape k n hn1).2.2.1 t1
            rw [t3] at h0
            rw [t1, t3, hk] at hsh
            exact ⟨h0, hsh⟩
        · right
          left
          rw [t1, t2, hk] at hsh
          exact hsh)
    (by rw [hev])
  rw [hev] at E
  refine ⟨hp, ?_⟩
  exact
    { good := E.good
      ord := E.ord
      same := (F.same.sb_trans sb2).sb_trans E.same
      stable := by
        rw [E.stable]
        obtain ⟨c0, e0⟩ := F.rest
        rw [e0]
        rfl
      node := find_of_in_front _ _ _ (E.front _ (Or.inl rfl))
      settled := fun k n hn => (E.settled k n hn).imp id (fun c0 => c0.imp id (fun c1 => c1.2))
      fresh := fun hnone n hn => by
        obtain ⟨n2, hn2, c0⟩ := E.flags _ n hn
        have hn2' : lruc_find c2 (data_physical_node_number d) = some n2 := hn2
        rw [b2'] at hn2'
        have := F.fresh _ n2 hn2' hnone
        cases hb : n.need_writing
        · rfl
        · rw [c0 hb] at this
          cases this
      imaged := fun m => E.imaged ((F.f_imaged m).of_sub c2 (fun k n hn => by
        rw [← b2' k]
        exact hn))
      mirror := fun m => E.mirror ⟨(F.f_imaged m.imaged).of_sub c2 (fun k n hn => by
        rw [← b2' k]
        exact hn), (F.f_mirror m).header⟩
      safe_mht := fun m h0 hl s => E.safe_mht m h0 (by rw [hsz1]; exact hl)
        ((F.safe_mht m h0 hl s).sm_congr _ h1 b2' rfl rfl)
      safe_data := fun d hl s => E.safe_data d (by rw [hsz1]; exact hl)
        ((F.safe_data d hl s).sd_congr _ h1 b2' rfl rfl)
      flag := fun f => E.flag (by
        obtain ⟨c0, e0⟩ := F.rest
        rw [e0]
        exact f)
      format := by
        rw [E.format]
        obtain ⟨c0, e0⟩ := F.rest
        rw [e0]
        rfl }

theorem WellFormed.with_offset {env : Env} {pf : pf_context_t} {h : Host}
    (w : WellFormed env pf h) (o : Nat) : WellFormed env { pf with offset := o } h :=
  { good := w.good.congr _ h (fun _ => rfl) w.good.keys rfl rfl rfl rfl
    ord := w.ord
    settled := w.settled }

/-- A successful `ipf_get_data_node` at an offset below the size keeps the representation
invariant, and the node it returns holds the plaintext of its part of the file. -/
theorem ipf_get_data_node_reads (env : Env) (hinv : AeadInverse env)
    (hcap : 10 ≤ env.MAX_PAGES_IN_CACHE) (pf : pf_context_t) (h : Host)
    (w : WellFormed env pf h) (hlo : MD_USER_DATA_SIZE ≤ pf.offset)
    (hhi : pf.offset < pf.encrypted_part_plain.size)
    (p : NodePtr) (pf1 : pf_context_t) (h1 : Host)
    (hr : ipf_get_data_node env pf h = (some p, pf1, h1)) :
    WellFormed env pf1 h1 ∧ SameBytes env pf h pf1 h1 ∧ pf1.stable = pf.stable ∧
    ∀ i, (pf.offset - MD_USER_DATA_SIZE) % PF_NODE_SIZE + i < PF_NODE_SIZE →
      pf.offset + i < pf.encrypted_part_plain.size →
      (pf1.deref p).decrypted.as_data ((pf.offset - MD_USER_DATA_SIZE) % PF_NODE_SIZE + i)
        = plaintext_byte env pf h (pf.offset + i) := by
  obtain ⟨hp, G⟩ := ipf_get_data_node_got env hinv hcap pf h w.good w.ord w.settled hlo
    (le_of_lt hhi) _ rfl p pf1 h1 hr
  obtain ⟨-, -, -, hd50, hm44⟩ := get_node_numbers_eq pf.offset hlo
    (le_trans (le_of_lt hhi) w.good.size_le)
  have hsz := G.same.1
  refine ⟨⟨G.good, G.ord, ?_⟩, G.same, G.stable, ?_⟩
  · intro k n hn
    rcases G.settled k n hn with c | c | c
    · exact c
    · rw [c] at hn
      obtain ⟨t1, t2⟩ := G.good.find_data _ n hn
      unfold file_node_t.start
      rw [t1, t2, hsz]
      dsimp only
      unfold PF_NODE_SIZE MD_USER_DATA_SIZE at *
      omega
    · rw [c] at hn
      obtain ⟨t1, t2⟩ := G.good.find_mht _ (by omega) n hn
      unfold file_node_t.start
      rw [t1, t2, hsz]
      dsimp only
      unfold PF_NODE_SIZE MD_USER_DATA_SIZE ATTACHED_DATA_NODES_COUNT at *
      omega
  · intro i hi hx
    obtain ⟨n, hn⟩ := G.node
    have hderef : pf1.deref p = n := by
      rw [hp]
      exact (resident_of_find pf1 _ n hn).2
    rw [hderef, ← G.same.2 _ hx]
    unfold plaintext_byte
    rw [if_neg (by omega)]
    have e1 : (pf.offset + i - MD_USER_DATA_SIZE) / PF_NODE_SIZE
        = (pf.offset - MD_USER_DATA_SIZE) / PF_NODE_SIZE := by
      unfold PF_NODE_SIZE MD_USER_DATA_SIZE at *
      omega
    have e2 : (pf.offset + i - MD_USER_DATA_SIZE) % PF_NODE_SIZE
        = (pf.offset - MD_USER_DATA_SIZE) % PF_NODE_SIZE + i := by
      unfold PF_NODE_SIZE MD_USER_DATA_SIZE at *
      omega
    rw [e1, e2]
    unfold data_plain
    rw [hn]

theorem plaintext_byte_with_offset (env : Env) (pf : pf_context_t) (h : Host) (o x : Nat) :
    plaintext_byte env { pf with offset := o } h x = plaintext_byte env pf h x :=
  plaintext_byte_congr env pf { pf with offset := o } h h (fun _ => rfl) rfl rfl rfl x

theorem read_data_nodes_step (env : Env) (fuel : Nat) (pf : pf_context_t) (h : Host)
    (out : Nat → Byte) (done left : Nat) (p : NodePtr) (pf1 : pf_context_t) (h1 : Host)
    (hl : left > 0) (hg : ipf_get_data_node env pf h = (some p, pf1, h1)) (str : Nat)
    (hstr : str = min left (PF_NODE_SIZE - (pf1.offset - MD_USER_DATA_SIZE) % PF_NODE_SIZE)) :
    read_data_nodes env (fuel + 1) pf h out done left
      = read_data_nodes env fuel { pf1 with offset := pf1.offset + str } h1
          (memcpy out done (pf1.deref p).decrypted.as_data
            ((pf1.offset - MD_USER_DATA_SIZE) % PF_NODE_SIZE) str)
          (done + str) (left - str) := by
  rw [read_data_nodes]
  simp only [hl, if_true, hg, hstr]

theorem read_fetches_step (env : Env) (fuel : Nat) (pf : pf_context_t) (h : Host)
    (left : Nat) (p : NodePtr) (pf1 : pf_context_t) (h1 : Host)
    (hl : left > 0) (hg : ipf_get_data_node env pf h = (some p, pf1, h1)) (str : Nat)
    (hstr : str = min left (PF_NODE_SIZE - (pf1.offset - MD_USER_DATA_SIZE) % PF_NODE_SIZE)) :
    read_fetches env (fuel + 1) pf h left
      = read_fetches env fuel { pf1 with offset := pf1.offset + str } h1 (left - str) := by
  rw [read_fetches]
  simp only [hl, if_true, hg, hstr]

theorem read_fetches_none (env : Env) (fuel : Nat) (pf : pf_context_t) (h : Host)
    (left : Nat) (pf1 : pf_context_t) (h1 : Host)
    (hl : left > 0) (hg : ipf_get_data_node env pf h = (none, pf1, h1)) :
    read_fetches env (fuel + 1) pf h left = false := by
  rw [read_fetches]
  simp only [hl, if_true, hg]

theorem read_data_nodes_done (env : Env) (fuel : Nat) (pf : pf_context_t) (h : Host)
    (out : Nat → Byte) (done : Nat) :
    read_data_nodes env fuel pf h out done 0 = (0, out, pf, h) := by
  cases fuel <;> (rw [read_data_nodes]; simp)

/-- The data-node loop of `ipf_read`, when every fetch returns a node: it reads everything it
was asked for, copies the plaintext bytes at the offsets it passes in order, leaves the rest of
the buffer alone, and keeps the representation invariant and the plaintext of the file. -/
theorem read_data_nodes_reads (env : Env) (hinv : AeadInverse env)
    (hcap : 10 ≤ env.MAX_PAGES_IN_CACHE) (fuel : Nat) :
    ∀ (pf : pf_context_t) (h : Host) (out : Nat → Byte) (done left : Nat),
    WellFormed env pf h → MD_USER_DATA_SIZE ≤ pf.offset →
    pf.offset + left ≤ pf.encrypted_part_plain.size → left ≤ fuel →
    read_fetches env fuel pf h left = true →
    (read_data_nodes env fuel pf h out done left).1 = 0 ∧
    WellFormed env (read_data_nodes env fuel pf h out done left).2.2.1
      (read_data_nodes env fuel pf h out done left).2.2.2 ∧
    SameBytes env pf h (read_data_nodes env fuel pf h out done left).2.2.1
      (read_data_nodes env fuel pf h out done left).2.2.2 ∧
    (read_data_nodes env fuel pf h out done left).2.2.1.offset = pf.offset + left ∧
    (∀ i, i < left → (read_data_nodes env fuel pf h out done left).2.1 (done + i)
      = plaintext_byte env pf h (pf.offset + i)) ∧
    (∀ j, j < done ∨ done + left ≤ j →
      (read_data_nodes env fuel pf h out done left).2.1 j = out j) := by
  induction fuel with
  | zero =>
    intro pf h out done left w _ _ hf _
    have h0 : left = 0 := by omega
    subst h0
    rw [read_data_nodes_done]
    exact ⟨rfl, w, SameBytes.sb_refl env pf h, rfl, fun i hi => absurd hi (by omega),
      fun _ _ => rfl⟩
  | succ fuel ih =>
    intro pf h out done left w hlo hhi hf hfetch
    by_cases hl : left > 0
    · rcases hg : ipf_get_data_node env pf h with ⟨o, pf1, h1⟩
      cases o with
      | none =>
        rw [read_fetches_none env fuel pf h left pf1 h1 hl hg] at hfetch
        cases hfetch
      | some p =>
        obtain ⟨w1, sb1, st1, hbytes⟩ := ipf_get_data_node_reads env hinv hcap pf h w hlo
          (by omega) p pf1 h1 hg
        have hoff : pf1.offset = pf.offset := offset_of_stable st1
        have hsz : pf1.encrypted_part_plain.size = pf.encrypted_part_plain.size := sb1.1
        obtain ⟨str, hstr⟩ : ∃ str, str = min left
            (PF_NODE_SIZE - (pf.offset - MD_USER_DATA_SIZE) % PF_NODE_SIZE) := ⟨_, rfl⟩
        rw [read_fetches_step env fuel pf h left p pf1 h1 hl hg str (by rw [hoff]; exact hstr)]
          at hfetch
        rw [read_data_nodes_step env fuel pf h out done left p pf1 h1 hl hg str
          (by rw [hoff]; exact hstr)]
        rw [hoff] at hfetch ⊢
        have hstr1 : 0 < str ∧ str ≤ left ∧
            (pf.offset - MD_USER_DATA_SIZE) % PF_NODE_SIZE + str ≤ PF_NODE_SIZE := by
          have : (pf.offset - MD_USER_DATA_SIZE) % PF_NODE_SIZE < PF_NODE_SIZE :=
            Nat.mod_lt _ (by unfold PF_NODE_SIZE; omega)
          omega
        have w2 : WellFormed env { pf1 with offset := pf.offset + str } h1 :=
          w1.with_offset _
        obtain ⟨r1, r2, r3, r4, r5, r6⟩ := ih { pf1 with offset := pf.offset + str } h1
          (memcpy out done (pf1.deref p).decrypted.as_data
            ((pf.offset - MD_USER_DATA_SIZE) % PF_NODE_SIZE) str)
          (done + str) (left - str) w2
          (by show MD_USER_DATA_SIZE ≤ pf.offset + str; omega)
          (by
            show pf.offset + str + (left - str) ≤ pf1.encrypted_part_plain.size
            rw [hsz]
            omega)
          (by omega) hfetch
        have sb2 : SameBytes env pf1 h1 { pf1 with offset := pf.offset + str } h1 :=
          ⟨rfl, fun x _ => plaintext_byte_with_offset env pf1 h1 _ x⟩
        refine ⟨r1, r2, (sb1.sb_trans sb2).sb_trans r3, ?_, ?_, ?_⟩
        · rw [r4]
          show pf.offset + str + (left - str) = pf.offset + left
          omega
        · intro i hi
          by_cases c : i < str
          · rw [r6 (done + i) (Or.inl (by omega))]
            unfold memcpy
            rw [if_pos ⟨by omega, by omega⟩]
            have := hbytes i (by omega) (by omega)
            rw [show done + i - done = i by omega]
            exact this
          · have := r5 (i - str) (by omega)
            rw [show done + str + (i - str) = done + i by omega] at this
            rw [this, plaintext_byte_with_offset]
            show plaintext_byte env pf1 h1 (pf.offset + str + (i - str)) = _
            rw [show pf.offset + str + (i - str) = pf.offset + i by omega]
            exact sb1.2 _ (by omega)
        · intro j hj
          rw [r6 j (by omega)]
          unfold memcpy
          rw [if_neg (by omega)]
    · have h0 : left = 0 := by omega
      subst h0
      rw [read_data_nodes_done]
      exact ⟨rfl, w, SameBytes.sb_refl env pf h, rfl, fun i hi => absurd hi (by omega),
        fun _ _ => rfl⟩

theorem u64_sub_le (a b : Nat) (hb : b ≤ a) (ha : a ≤ NO_WRAP) : u64_sub a b = a - b := by
  unfold u64_sub U64
  unfold NO_WRAP at ha
  omega

theorem WellFormed.with_eof {env : Env} {pf : pf_context_t} {h : Host}
    (w : WellFormed env pf h) (b : Bool) : WellFormed env { pf with end_of_file := b } h :=
  { good := w.good.congr _ h (fun _ => rfl) w.good.keys rfl rfl rfl rfl
    ord := w.ord
    settled := w.settled }

theorem plaintext_byte_with_eof (env : Env) (pf : pf_context_t) (h : Host) (b : Bool)
    (x : Nat) :
    plaintext_byte env { pf with end_of_file := b } h x = plaintext_byte env pf h x :=
  plaintext_byte_congr env pf { pf with end_of_file := b } h h (fun _ => rfl) rfl rfl rfl x

/-- `ipf_read` past its guards, in terms of the data-node loop. -/
theorem ipf_read_eq (env : Env) (pf : pf_context_t) (h : Host) (out : Nat → Byte) (n : Nat)
    (hmode : mode_has pf.mode PF_FILE_MODE_READ = true) (hst : pf.file_status = SUCCESS)
    (heof : pf.end_of_file = false) (ho : pf.offset < pf.encrypted_part_plain.size)
    (hsz : pf.encrypted_part_plain.size ≤ NO_WRAP) (hn : 0 < n)
    (left : Nat) (hleft : left = min n (pf.encrypted_part_plain.size - pf.offset))
    (left0 : Nat) (out1 : Nat → Byte) (pf1 : pf_context_t)
    (hmd : (left0, out1, pf1) =
      if pf.offset < MD_USER_DATA_SIZE then
        (left - min left (MD_USER_DATA_SIZE - pf.offset),
          memcpy out 0 pf.encrypted_part_plain.data pf.offset
            (min left (MD_USER_DATA_SIZE - pf.offset)),
          { pf with offset := pf.offset + min left (MD_USER_DATA_SIZE - pf.offset) })
      else (left, out, pf)) :
    ipf_read env pf h (some out) n =
      (left - (read_data_nodes env left0 pf1 h out1 (left - left0) left0).1,
        some (read_data_nodes env left0 pf1 h out1 (left - left0) left0).2.1,
        (if (read_data_nodes env left0 pf1 h out1 (left - left0) left0).1 = 0 ∧ left ≠ n then
          { (read_data_nodes env left0 pf1 h out1 (left - left0) left0).2.2.1 with
              end_of_file := true }
        else (read_data_nodes env left0 pf1 h out1 (left - left0) left0).2.2.1),
        (read_data_nodes env left0 pf1 h out1 (left - left0) left0).2.2.2) ∧
    ipf_read_fetches env pf h n = read_fetches env left0 pf1 h left0 := by
  have hu := u64_sub_le pf.encrypted_part_plain.size pf.offset (le_of_lt ho) hsz
  have hl : (if n > u64_sub pf.encrypted_part_plain.size pf.offset then
      u64_sub pf.encrypted_part_plain.size pf.offset else n) = left := by
    rw [hu, hleft]
    split_ifs <;> omega
  have hfail : PF_FAILURE pf.file_status = false := by
    rw [hst]
    rfl
  constructor
  · have g1 : ¬ n = 0 := by omega
    have g2 : ¬ PF_FAILURE pf.file_status = true := by rw [hfail]; simp
    have g3 : ¬ (!mode_has pf.mode PF_FILE_MODE_READ) = true := by rw [hmode]; simp
    have g4 : ¬ pf.end_of_file = true := by rw [heof]; simp
    have g5 : ¬ pf.offset = pf.encrypted_part_plain.size := by omega
    unfold ipf_read
    dsimp only
    rw [if_neg g1, if_neg g2, if_neg g3, if_neg g4, if_neg g5, hl]
    by_cases c : pf.offset < MD_USER_DATA_SIZE
    · rw [if_pos c] at hmd ⊢
      simp only [Prod.mk.injEq] at hmd
      obtain ⟨e1, e2, e3⟩ := hmd
      rw [← e1, ← e2, ← e3]
    · rw [if_neg c] at hmd ⊢
      simp only [Prod.mk.injEq] at hmd
      obtain ⟨e1, e2, e3⟩ := hmd
      rw [← e1, ← e2, ← e3]
  · unfold ipf_read_fetches
    dsimp only
    rw [hl]
    by_cases c : pf.offset < MD_USER_DATA_SIZE
    · rw [if_pos c] at hmd ⊢
      simp only [Prod.mk.injEq] at hmd
      obtain ⟨e1, e2, e3⟩ := hmd
      rw [← e1, ← e3]
    · rw [if_neg c] at hmd ⊢
      simp only [Prod.mk.injEq] at hmd
      obtain ⟨e1, e2, e3⟩ := hmd
      rw [← e1, ← e3]

/-- What `ipf_read` does on a readable context that satisfies the representation invariant,
at an offset below the size, when every node fetch returns a node. -/
theorem ipf_read_reads (env : Env) (hinv : AeadInverse env)
    (hcap : 10 ≤ env.MAX_PAGES_IN_CACHE) (pf : pf_context_t) (h : Host) (out : Nat → Byte)
    (n : Nat) (w : WellFormed env pf h)
    (hmode : mode_has pf.mode PF_FILE_MODE_READ = true) (hst : pf.file_status = SUCCESS)
    (heof : pf.end_of_file = false) (ho : pf.offset < pf.encrypted_part_plain.size)
    (hn : 0 < n) (hfetch : ipf_read_fetches env pf h n = true) :
    (ipf_read env pf h (some out) n).1 = min n (pf.encrypted_part_plain.size - pf.offset) ∧
    (ipf_read env pf h (some out) n).2.2.1.offset
      = pf.offset + min n (pf.encrypted_part_plain.size - pf.offset) ∧
    (∃ out2, (ipf_read env pf h (some out) n).2.1 = some out2 ∧
      (∀ i, i < min n (pf.encrypted_part_plain.size - pf.offset) →
        out2 i = plaintext_byte env pf h (pf.offset + i)) ∧
      (∀ i, min n (pf.encrypted_part_plain.size - pf.offset) ≤ i → out2 i = out i)) ∧
    SameBytes env pf h (ipf_read env pf h (some out) n).2.2.1
      (ipf_read env pf h (some out) n).2.2.2 ∧
    WellFormed env (ipf_read env pf h (some out) n).2.2.1
      (ipf_read env pf h (some out) n).2.2.2 := by
  obtain ⟨left, hleft⟩ : ∃ left, left = min n (pf.encrypted_part_plain.size - pf.offset) :=
    ⟨_, rfl⟩
  rw [← hleft]
  have hleft1 : 0 < left ∧ pf.offset + left ≤ pf.encrypted_part_plain.size := by omega
  -- the general step: the loop entered with `left0` bytes to go after `left - left0` bytes
  -- of the inline region
  have key : ∀ (left0 : Nat) (out1 : Nat → Byte) (pf1 : pf_context_t),
      (left0, out1, pf1) =
        (if pf.offset < MD_USER_DATA_SIZE then
          (left - min left (MD_USER_DATA_SIZE - pf.offset),
            memcpy out 0 pf.encrypted_part_plain.data pf.offset
              (min left (MD_USER_DATA_SIZE - pf.offset)),
            { pf with offset := pf.offset + min left (MD_USER_DATA_SIZE - pf.offset) })
        else (left, out, pf)) →
      left0 ≤ left → pf1.offset = pf.offset + (left - left0) →
      (left0 = 0 ∨ MD_USER_DATA_SIZE ≤ pf1.offset) → WellFormed env pf1 h →
      SameBytes env pf h pf1 h →
      (∀ i, i < left - left0 → out1 i = plaintext_byte env pf h (pf.offset + i)) →
      (∀ i, left - left0 ≤ i → out1 i = out i) →
      (ipf_read env pf h (some out) n).1 = left ∧
      (ipf_read env pf h (some out) n).2.2.1.offset = pf.offset + left ∧
      (∃ out2, (ipf_read env pf h (some out) n).2.1 = some out2 ∧
        (∀ i, i < left → out2 i = plaintext_byte env pf h (pf.offset + i)) ∧
        (∀ i, left ≤ i → out2 i = out i)) ∧
      SameBytes env pf h (ipf_read env pf h (some out) n).2.2.1
        (ipf_read env pf h (some out) n).2.2.2 ∧
      WellFormed env (ipf_read env pf h (some out) n).2.2.1
        (ipf_read env pf h (some out) n).2.2.2 := by
    intro left0 out1 pf1 hmd hle hoff1 hlo1 w1 sb1 hb1 hf1
    obtain ⟨e, ef⟩ := ipf_read_eq env pf h out n hmode hst heof ho w.good.size_le hn left hleft
      left0 out1 pf1 hmd
    rw [ef] at hfetch
    have L : (read_data_nodes env left0 pf1 h out1 (left - left0) left0).1 = 0 ∧
        WellFormed env (read_data_nodes env left0 pf1 h out1 (left - left0) left0).2.2.1
          (read_data_nodes env left0 pf1 h out1 (left - left0) left0).2.2.2 ∧
        SameBytes env pf1 h (read_data_nodes env left0 pf1 h out1 (left - left0) left0).2.2.1
          (read_data_nodes env left0 pf1 h out1 (left - left0) left0).2.2.2 ∧
        (read_data_nodes env left0 pf1 h out1 (left - left0) left0).2.2.1.offset
          = pf1.offset + left0 ∧
        (∀ i, i < left0 →
          (read_data_nodes env left0 pf1 h out1 (left - left0) left0).2.1 (left - left0 + i)
            = plaintext_byte env pf1 h (pf1.offset + i)) ∧
        (∀ j, j < left - left0 ∨ left - left0 + left0 ≤ j →
          (read_data_nodes env left0 pf1 h out1 (left - left0) left0).2.1 j = out1 j) := by
      rcases hlo1 with c | c
      · subst c
        rw [read_data_nodes_done]
        exact ⟨rfl, w1, SameBytes.sb_refl env pf1 h, rfl, fun i hi => absurd hi (by omega),
          fun _ _ => rfl⟩
      · exact read_data_nodes_reads env hinv hcap left0 pf1 h out1 (left - left0) left0 w1 c
          (by rw [hoff1, sb1.1]; omega) (le_refl _) hfetch
    obtain ⟨r1, r2, r3, r4, r5, r6⟩ := L
    rw [e]
    dsimp only
    rw [r1]
    refine ⟨by omega, ?_, ⟨_, rfl, ?_, ?_⟩, ?_, ?_⟩
    · split_ifs
      · show (read_data_nodes env left0 pf1 h out1 (left - left0) left0).2.2.1.offset = _
        rw [r4, hoff1]
        omega
      · rw [r4, hoff1]
        omega
    · intro i hi
      by_cases c : i < left - left0
      · rw [r6 i (Or.inl c)]
        exact hb1 i c
      · have := r5 (i - (left - left0)) (by omega)
        rw [show left - left0 + (i - (left - left0)) = i by omega] at this
        rw [this, sb1.2 _ (by rw [hoff1]; omega), hoff1]
        congr 1
        omega
    · intro i hi
      rw [r6 i (Or.inr (by omega))]
      exact hf1 i (by omega)
    · split_ifs
      · exact (sb1.sb_trans r3).sb_trans
          ⟨rfl, fun x _ => plaintext_byte_with_eof env _ _ true x⟩
      · exact sb1.sb_trans r3
    · split_ifs
      · exact r2.with_eof true
      · exact r2
  by_cases c : pf.offset < MD_USER_DATA_SIZE
  · refine key (left - min left (MD_USER_DATA_SIZE - pf.offset))
      (memcpy out 0 pf.encrypted_part_plain.data pf.offset
        (min left (MD_USER_DATA_SIZE - pf.offset)))
      { pf with offset := pf.offset + min left (MD_USER_DATA_SIZE - pf.offset) }
      (by rw [if_pos c]) (by omega) ?_ ?_ (w.with_offset _)
      ⟨rfl, fun x _ => plaintext_byte_with_offset env pf h _ x⟩ ?_ ?_
    · show pf.offset + min left (MD_USER_DATA_SIZE - pf.offset) = _
      omega
    · show _ ∨ MD_USER_DATA_SIZE ≤ pf.offset + min left (MD_USER_DATA_SIZE - pf.offset)
      omega
    · intro i hi
      unfold memcpy plaintext_byte
      rw [if_pos ⟨by omega, by omega⟩, if_pos (by omega)]
      congr 1
    · intro i hi
      unfold memcpy
      rw [if_neg (by omega)]
  · refine key left out pf (by rw [if_neg c]) (le_refl _) (by omega) (Or.inr (by omega)) w
      (SameBytes.sb_refl env pf h) (fun i hi => absurd hi (by omega)) (fun _ _ => rfl)

/-- The example callbacks decrypt what they encrypted. -/
theorem example_env_aead_inverse : AeadInverse example_env := by
  intro key plain _
  show (if key + example_checksum plain = key + example_checksum plain then
    (SUCCESS, plain) else (MAC_MISMATCH, plain)) = _
  rw [if_pos rfl]

/-- A context with an empty cache and a clean root MHT numbered 0 satisfies the
representation invariant. -/
theorem WellFormed.of_empty (env : Env) (pf : pf_context_t) (h : Host)
    (hc : pf.cache.length = 0) (hs : pf.encrypted_part_plain.size ≤ NO_WRAP)
    (hn : pf.root_mht.node_number = 0) (ht : pf.root_mht.type = FILE_MHT_NODE_TYPE)
    (hd : pf.root_mht.need_writing = false) : WellFormed env pf h := by
  have e : pf.cache = [] := List.eq_nil_of_length_eq_zero hc
  have nf : ∀ k n, lruc_find pf.cache k = some n → False := by
    intro k n hf
    rw [e] at hf
    cases hf
  refine ⟨⟨hs, ?_, hn, ht, fun k n hf => (nf k n hf).elim, fun k n hf => (nf k n hf).elim,
    fun k n hf => (nf k n hf).elim, ?_, fun k n hf => (nf k n hf).elim,
    fun k n hf => (nf k n hf).elim⟩, ?_, fun k n hf => (nf k n hf).elim⟩
  · rw [e]
    exact List.nodup_nil
  · intro c
    rw [hd] at c
    cases c
  · unfold Ordered OrdExcept
    rw [e]
    exact List.Pairwise.nil

/-- C24 (read count): on a readable context with `file_status` SUCCESS that satisfies the
representation invariant, with `end_of_file` clear, offset `o` below the plaintext size `s`,
a buffer and `n > 0`, when every node fetch returns a node `ipf_read` returns
`min n (s - o)`, advances the offset by that amount, leaves in the buffer the plaintext bytes
at the logical offsets from `o` on, in order, and the rest of the buffer as it was, changes
no plaintext byte of the file nor its size, and keeps the representation invariant. -/
theorem read_returns_file_bytes (env : Env) (hinv : AeadInverse env)
    (hcap : 10 ≤ env.MAX_PAGES_IN_CACHE) (pf : pf_context_t) (h : Host) (out : Nat → Byte)
    (n : Nat) (w : WellFormed env pf h)
    (hmode : mode_has pf.mode PF_FILE_MODE_READ = true) (hst : pf.file_status = SUCCESS)
    (heof : pf.end_of_file = false) (ho : pf.offset < pf.encrypted_part_plain.size)
    (hn : 0 < n) (hfetch : ipf_read_fetches env pf h n = true) :
    (ipf_read env pf h (some out) n).1 = min n (pf.encrypted_part_plain.size - pf.offset) ∧
    (ipf_read env pf h (some out) n).2.2.1.offset
      = pf.offset + min n (pf.encrypted_part_plain.size - pf.offset) ∧
    (∃ out2, (ipf_read env pf h (some out) n).2.1 = some out2 ∧
      (∀ i, i < min n (pf.encrypted_part_plain.size - pf.offset) →
        out2 i = plaintext_byte env pf h (pf.offset + i)) ∧
      (∀ i, min n (pf.encrypted_part_plain.size - pf.offset) ≤ i → out2 i = out i)) ∧
    SameBytes env pf h (ipf_read env pf h (some out) n).2.2.1
      (ipf_read env pf h (some out) n).2.2.2 ∧
    WellFormed env (ipf_read env pf h (some out) n).2.2.1
      (ipf_read env pf h (some out) n).2.2.2 :=
  ipf_read_reads env hinv hcap pf h out n w hmode hst heof ho hn hfetch

/-- The one-node file reopened, read for 4000 bytes from offset 0 into a buffer of
zeros: the size is `MD_USER_DATA_SIZE + 10`, data node 0 is fetched from the disk, and the
read returns all `MD_USER_DATA_SIZE + 10` bytes. -/
theorem read_returns_file_bytes_witness :
    example_one_node_reopened.1.encrypted_part_plain.size = MD_USER_DATA_SIZE + 10 ∧
    example_one_node_reopened.1.offset = 0 ∧
    ipf_read_fetches example_env example_one_node_reopened.1 example_one_node_reopened.2 4000
      = true ∧
    (ipf_read example_env example_one_node_reopened.1 example_one_node_reopened.2
      (some (fun _ => 0)) 4000).1
      = min 4000 (example_one_node_reopened.1.encrypted_part_plain.size
          - example_one_node_reopened.1.offset) :=
  ⟨by decide!, by decide!, by decide!,
    (read_returns_file_bytes example_env example_env_aead_inverse (by decide)
      example_one_node_reopened.1 example_one_node_reopened.2 (fun _ => 0) 4000
      (WellFormed.of_empty _ _ _ (by decide!) (by decide!) (by decide!) (by decide!)
        (by decide!))
      (by decide!) (by decide!) (by decide!) (by decide!) (by decide) (by decide!)).1⟩

theorem Good.tree {env : Env} {pf : pf_context_t} {h : Host} (g : Good env pf h) : Tree pf :=
  { root_number := g.root_number
    shape := fun k n hn =>
      ⟨(g.shape k n hn).1, (g.shape k n hn).2.1, (g.shape k n hn).2.2.1, (g.number_lt k n hn).1⟩
    pinned := g.pinned }

theorem Tree.t_find_mht {pf : pf_context_t} (t : Tree pf)
    (m : Nat) (hm : m < 2 ^ 50) (n : file_node_t)
    (hn : lruc_find pf.cache (mht_physical_node_number m) = some n) :
    n.type = FILE_MHT_NODE_TYPE ∧ n.node_number = m := by
  have hk := lruc_find_key _ _ _ hn
  have hs := (t.shape _ n hn).1
  have hb := (t.shape _ n hn).2.2.2
  unfold file_node_t.numbered at hs
  cases ht : n.type
  · rw [ht] at hs
    dsimp only at hs
    refine ⟨rfl, ?_⟩
    exact mht_physical_inj _ _ hb hm (hs.symm.trans hk)
  · rw [ht] at hs
    dsimp only at hs
    exact absurd (hs.symm.trans hk) (data_physical_ne_mht _ _ hm)

theorem Tree.t_find_data {pf : pf_context_t} (t : Tree pf) (d : Nat) (n : file_node_t)
    (hn : lruc_find pf.cache (data_physical_node_number d) = some n) :
    n.type = FILE_DATA_NODE_TYPE ∧ n.node_number = d := by
  have hk := lruc_find_key _ _ _ hn
  have hs := (t.shape _ n hn).1
  have hb := (t.shape _ n hn).2.2.2
  unfold file_node_t.numbered at hs
  cases ht : n.type
  · rw [ht] at hs
    dsimp only at hs
    exact absurd (hk.symm.trans hs) (data_physical_ne_mht _ _ hb)
  · rw [ht] at hs
    dsimp only at hs
    refine ⟨rfl, ?_⟩
    exact data_physical_inj _ _ (hs.symm.trans hk)

theorem map_modify_keys (c : List file_node_t) (K : Nat) (f : file_node_t → file_node_t)
    (hf : ∀ n, (f n).physical_node_number = n.physical_node_number) :
    (c.map (fun n => if n.physical_node_number = K then f n else n)).map
      (fun n => n.physical_node_number) = c.map (fun n => n.physical_node_number) := by
  rw [List.map_map]
  apply List.map_congr_left
  intro n _
  dsimp only [Function.comp]
  split_ifs
  · exact hf n
  · rfl

/-- Changing flags and buffers of the node under one key keeps the tree shape. -/
theorem Tree.modify {pf : pf_context_t} (t : Tree pf) (K : Nat)
    (f : file_node_t → file_node_t)
    (hf : ∀ n, (f n).physical_node_number = n.physical_node_number ∧ (f n).type = n.type ∧
      (f n).node_number = n.node_number ∧ (f n).parent = n.parent) :
    Tree (pf.modify (.cached K) f) := by
  have hfind : ∀ k, lruc_find (pf.modify (.cached K) f).cache k
      = (lruc_find pf.cache k).map (fun n => if n.physical_node_number = K then f n else n) :=
    fun k => lruc_find_modify pf.cache K k f (fun n => (hf n).1)
  have hsame : ∀ n : file_node_t, ∀ n1, n1 = (if n.physical_node_number = K then f n else n) →
      n1.physical_node_number = n.physical_node_number ∧ n1.type = n.type ∧
      n1.node_number = n.node_number ∧ n1.parent = n.parent := by
    intro n n1 e
    rw [e]
    split_ifs
    · exact hf n
    · exact ⟨rfl, rfl, rfl, rfl⟩
  refine ⟨t.root_number, ?_, ?_⟩
  · intro k n1 hn1
    rw [hfind] at hn1
    rcases ho : lruc_find pf.cache k with _ | n
    · rw [ho] at hn1
      cases hn1
    · rw [ho] at hn1
      obtain ⟨e1, e2, e3, e4⟩ := hsame n n1 (Option.some.inj hn1).symm
      obtain ⟨s1, s2, s3, s4⟩ := t.shape k n ho
      unfold file_node_t.numbered file_node_t.parent_ptr file_node_t.parent_number at *
      rw [e1, e2, e3, e4]
      exact ⟨s1, s2, s3, s4⟩
  · intro k n1 hn1
    rw [hfind] at hn1
    rcases ho : lruc_find pf.cache k with _ | n
    · rw [ho] at hn1
      cases hn1
    · rw [ho] at hn1
      obtain ⟨-, -, -, e4⟩ := hsame n n1 (Option.some.inj hn1).symm
      rw [e4, resident_modify pf _ f (fun n => (hf n).1)]
      exact t.pinned k n ho

theorem on_path_zero (k : Nat) : ¬ OnPath 0 k := by
  rintro ⟨j, hj, -⟩
  exact hj (mht_up_zero j)

theorem on_path_iff (m k : Nat) (hm : m ≠ 0) :
    OnPath m k ↔ k = mht_physical_node_number m ∨ OnPath ((m - 1) / CHILD_MHT_NODES_COUNT) k := by
  constructor
  · rintro ⟨j, hj, e⟩
    cases j with
    | zero => exact Or.inl e
    | succ j =>
      rw [← mht_up_step] at hj e
      exact Or.inr ⟨j, hj, e⟩
  · rintro (e | ⟨j, hj, e⟩)
    · exact ⟨0, hm, e⟩
    · rw [mht_up_step] at hj e
      exact ⟨j + 1, hj, e⟩

/-- What `mark_parents` does from MHT node `m` up: it sets `need_writing` on the cached MHT
nodes on the way to the root and changes nothing else. -/
theorem mark_parents_spec (fuel : Nat) :
    ∀ (pf : pf_context_t) (m : Nat), m ≤ fuel → m < 2 ^ 50 → Tree pf →
    pf.resident (mht_ptr m) = true →
    ∃ c, mark_parents fuel pf (mht_ptr m) = { pf with cache := c } ∧
      c.map (fun n => n.physical_node_number) = pf.cache.map (fun n => n.physical_node_number) ∧
      ∀ k n, lruc_find pf.cache k = some n →
        (OnPath m k → lruc_find c k = some { n with need_writing := true }) ∧
        (¬ OnPath m k → lruc_find c k = some n) := by
  induction fuel with
  | zero =>
    intro pf m hm _ t _
    have h0 : m = 0 := by omega
    subst h0
    have hb : mark_parents 0 pf (mht_ptr 0) = pf := by
      unfold mark_parents
      rw [mht_ptr_zero]
      show (if pf.root_mht.node_number = 0 then pf else _) = pf
      rw [if_pos t.root_number]
    rw [hb]
    exact ⟨pf.cache, rfl, rfl, fun k n hn => ⟨fun c => absurd c (on_path_zero k), fun _ => hn⟩⟩
  | succ fuel ih =>
    intro pf m hm hm50 t hres
    by_cases h0 : m = 0
    · subst h0
      have hb : mark_parents (fuel + 1) pf (mht_ptr 0) = pf := by
        unfold mark_parents
        rw [mht_ptr_zero]
        show (if pf.root_mht.node_number = 0 then pf else _) = pf
        rw [if_pos t.root_number]
      rw [hb]
      exact ⟨pf.cache, rfl, rfl,
        fun k n hn => ⟨fun c => absurd c (on_path_zero k), fun _ => hn⟩⟩
    · rw [mht_ptr_pos m h0] at hres ⊢
      have hfn := find_of_resident pf _ hres
      obtain ⟨nd, hnd⟩ : ∃ nd, nd = pf.deref (.cached (mht_physical_node_number m)) := ⟨_, rfl⟩
      rw [← hnd] at hfn
      obtain ⟨ht, hnum⟩ := t.t_find_mht m hm50 nd hfn
      have hpar : nd.parent = mht_ptr ((m - 1) / CHILD_MHT_NODES_COUNT) := by
        have := (t.shape _ nd hfn).2.1
        unfold file_node_t.parent_ptr file_node_t.parent_number at this
        rw [ht, hnum] at this
        exact this
      have hff : ∀ n : file_node_t,
          ({ n with need_writing := true } : file_node_t).physical_node_number
            = n.physical_node_number ∧
          ({ n with need_writing := true } : file_node_t).type = n.type ∧
          ({ n with need_writing := true } : file_node_t).node_number = n.node_number ∧
          ({ n with need_writing := true } : file_node_t).parent = n.parent :=
        fun _ => ⟨rfl, rfl, rfl, rfl⟩
      obtain ⟨pf1, hpf1⟩ : ∃ pf1, pf1 = pf.modify (.cached (mht_physical_node_number m))
          (fun n => { n with need_writing := true }) := ⟨_, rfl⟩
      have hb : mark_parents (fuel + 1) pf (.cached (mht_physical_node_number m))
          = mark_parents fuel pf1 (mht_ptr ((m - 1) / CHILD_MHT_NODES_COUNT)) := by
        rw [mark_parents]
        rw [← hnd, hnum, if_neg h0, hpar, hpf1]
      have t1 : Tree pf1 := by
        rw [hpf1]
        exact t.modify _ _ hff
      have hres1 : pf1.resident (mht_ptr ((m - 1) / CHILD_MHT_NODES_COUNT)) = true := by
        rw [hpf1, resident_modify pf _ _ (fun n => (hff n).1), ← hpar]
        exact t.pinned _ nd hfn
      have hlt : (m - 1) / CHILD_MHT_NODES_COUNT < m := by
        unfold CHILD_MHT_NODES_COUNT
        omega
      obtain ⟨c, r1, r2, r3⟩ := ih pf1 _ (by omega) (by omega) t1 hres1
      have hfind1 : ∀ k, lruc_find pf1.cache k
          = (lruc_find pf.cache k).map
              (fun n => if n.physical_node_number = mht_physical_node_number m
                then { n with need_writing := true } else n) := by
        intro k
        rw [hpf1]
        exact lruc_find_modify pf.cache _ k _ (fun n => (hff n).1)
      rw [hb, r1]
      refine ⟨c, ?_, ?_, ?_⟩
      · rw [hpf1]
        rfl
      · rw [r2, hpf1]
        exact map_modify_keys pf.cache _ _ (fun n => (hff n).1)
      · intro k n hn
        have hk := lruc_find_key _ _ _ hn
        have hn1 := hfind1 k
        rw [hn, Option.map_some'] at hn1
        obtain ⟨q1, q2⟩ := r3 k _ hn1
        rw [on_path_iff m k h0]
        constructor
        · rintro (e | e)
          · rw [if_pos (hk.trans e)] at q1 q2
            by_cases c1 : OnPath ((m - 1) / CHILD_MHT_NODES_COUNT) k
            · exact q1 c1
            · exact q2 c1
          · have := q1 e
            rw [this]
            split_ifs <;> rfl
        · intro hno
          have a1 : ¬ k = mht_physical_node_number m := fun e => hno (Or.inl e)
          have a2 : ¬ OnPath ((m - 1) / CHILD_MHT_NODES_COUNT) k := fun e => hno (Or.inr e)
          rw [if_neg (fun e => a1 (hk.symm.trans e))] at q2
          exact q2 a2

/-- The function `write_to_data_node` is its three steps, one after the other. -/
theorem write_to_data_node_steps (ptr : Option (Nat → Byte)) (pf1 : pf_context_t)
    (p : NodePtr) (written left : Nat) :
    write_to_data_node ptr pf1 p written left
      = (write_mark_step
          (write_grow_step (write_copy_step ptr pf1 p written left)
            (min left (PF_NODE_SIZE - (pf1.offset - MD_USER_DATA_SIZE) % PF_NODE_SIZE))) p,
         min left (PF_NODE_SIZE - (pf1.offset - MD_USER_DATA_SIZE) % PF_NODE_SIZE)) := by
  cases p <;> rfl

theorem Tree.of_eq {pf : pf_context_t} (t : Tree pf) (pf1 : pf_context_t)
    (hc : pf1.cache = pf.cache) (hr : pf1.root_mht = pf.root_mht) : Tree pf1 := by
  refine ⟨by rw [hr]; exact t.root_number, ?_, ?_⟩
  · intro k n hn
    rw [hc] at hn
    exact t.shape k n hn
  · intro k n hn
    rw [hc] at hn
    rw [resident_congr pf1 pf hc]
    exact t.pinned k n hn

theorem mht_up_le (j m : Nat) : mht_up j m ≤ m := by
  induction j with
  | zero => exact le_refl _
  | succ j ih =>
    show (mht_up j m - 1) / CHILD_MHT_NODES_COUNT ≤ m
    unfold CHILD_MHT_NODES_COUNT
    omega

theorem on_path_ne_data (m d k : Nat) (hm : m < 2 ^ 50) (hp : OnPath m k) :
    k ≠ data_physical_node_number d := by
  obtain ⟨j, -, e⟩ := hp
  rw [e]
  exact (data_physical_ne_mht d _ (lt_of_le_of_lt (mht_up_le j m) hm)).symm

theorem write_grow_step_eq (pf2 : pf_context_t) (stw : Nat) :
    write_grow_step pf2 stw
      = { pf2 with offset := pf2.offset + stw,
                   encrypted_part_plain :=
                     { pf2.encrypted_part_plain with
                         size := max pf2.encrypted_part_plain.size (pf2.offset + stw) } } := by
  unfold write_grow_step
  dsimp only
  split_ifs with c
  · rw [max_eq_right (le_of_lt c)]
  · rw [max_eq_left (not_lt.mp c)]

theorem set_flag_fields (n : file_node_t) :
    ({ n with need_writing := true } : file_node_t).physical_node_number
      = n.physical_node_number ∧
    ({ n with need_writing := true } : file_node_t).type = n.type ∧
    ({ n with need_writing := true } : file_node_t).node_number = n.node_number ∧
    ({ n with need_writing := true } : file_node_t).parent = n.parent :=
  ⟨rfl, rfl, rfl, rfl⟩

theorem Tree.data_parent {pf : pf_context_t} (t : Tree pf) (d : Nat) (nd : file_node_t)
    (hf : lruc_find pf.cache (data_physical_node_number d) = some nd) :
    nd.parent = mht_ptr (d / ATTACHED_DATA_NODES_COUNT) := by
  obtain ⟨htype, hnum⟩ := t.t_find_data d nd hf
  have := (t.shape _ nd hf).2.1
  unfold file_node_t.parent_ptr file_node_t.parent_number at this
  rw [htype, hnum] at this
  exact this

/-- The marking step on a data node that is not marked yet: the node and the cached MHT nodes
on the way from its parent to the root get `need_writing`, and so do the root MHT and the
context; nothing else changes. -/
theorem write_mark_step_clean (pf4 : pf_context_t) (d : Nat) (nd : file_node_t) (t : Tree pf4)
    (hm50 : d / ATTACHED_DATA_NODES_COUNT < 2 ^ 50)
    (hf : lruc_find pf4.cache (data_physical_node_number d) = some nd)
    (hc : nd.need_writing = false) :
    ∃ c, write_mark_step pf4 (.cached (data_physical_node_number d))
        = { pf4 with cache := c, root_mht := { pf4.root_mht with need_writing := true },
                     need_writing := true } ∧
      c.map (fun n => n.physical_node_number)
        = pf4.cache.map (fun n => n.physical_node_number) ∧
      lruc_find c (data_physical_node_number d) = some { nd with need_writing := true } ∧
      ∀ k n, k ≠ data_physical_node_number d → lruc_find pf4.cache k = some n →
        (OnPath (d / ATTACHED_DATA_NODES_COUNT) k →
          lruc_find c k = some { n with need_writing := true }) ∧
        (¬ OnPath (d / ATTACHED_DATA_NODES_COUNT) k → lruc_find c k = some n) := by
  obtain ⟨hres, hder⟩ := resident_of_find pf4 _ nd hf
  have hpar := t.data_parent d nd hf
  obtain ⟨pf6, hpf6⟩ : ∃ pf6, pf6 = pf4.modify (.cached (data_physical_node_number d))
      (fun n => { n with need_writing := true }) := ⟨_, rfl⟩
  have t6 : Tree pf6 := by
    rw [hpf6]
    exact t.modify _ _ set_flag_fields
  have hder6 : pf6.deref (.cached (data_physical_node_number d))
      = { nd with need_writing := true } := by
    rw [hpf6, deref_modify_self pf4 _ (fun n => { n with need_writing := true })
      (fun n => rfl) hres, hder]
  have hres6 : pf6.resident (mht_ptr (d / ATTACHED_DATA_NODES_COUNT)) = true := by
    rw [hpf6, resident_modify pf4 _ (fun n => { n with need_writing := true })
      (fun n => rfl), ← hpar]
    exact t.pinned _ nd hf
  have hnum6 : (pf6.deref (mht_ptr (d / ATTACHED_DATA_NODES_COUNT))).node_number
      = d / ATTACHED_DATA_NODES_COUNT := by
    by_cases h0 : d / ATTACHED_DATA_NODES_COUNT = 0
    · rw [h0, mht_ptr_zero]
      exact t6.root_number
    · rw [mht_ptr_pos _ h0] at hres6 ⊢
      exact (t6.t_find_mht _ hm50 _ (find_of_resident pf6 _ hres6)).2
  obtain ⟨c, r1, r2, r3⟩ := mark_parents_spec (d / ATTACHED_DATA_NODES_COUNT) pf6 _ (le_refl _)
    hm50 t6 hres6
  have hstep : write_mark_step pf4 (.cached (data_physical_node_number d))
      = { pf4 with cache := c, root_mht := { pf4.root_mht with need_writing := true },
                   need_writing := true } := by
    unfold write_mark_step
    rw [hder, hc, if_pos (show (!false) = true from rfl)]
    dsimp only
    rw [← hpf6, hder6]
    dsimp only
    rw [hpar, hnum6, r1, hpf6]
    rfl
  have hfind6 : ∀ k, lruc_find pf6.cache k
      = (lruc_find pf4.cache k).map
          (fun n => if n.physical_node_number = data_physical_node_number d
            then { n with need_writing := true } else n) := by
    intro k
    rw [hpf6]
    exact lruc_find_modify pf4.cache _ k (fun n => { n with need_writing := true })
      (fun n => rfl)
  refine ⟨c, hstep, ?_, ?_, ?_⟩
  · rw [r2, hpf6]
    exact map_modify_keys pf4.cache _ (fun n => { n with need_writing := true })
      (fun n => rfl)
  · have h6 := hfind6 (data_physical_node_number d)
    rw [hf, Option.map_some', if_pos (lruc_find_key _ _ _ hf)] at h6
    exact (r3 _ _ h6).2 (fun hp => on_path_ne_data _ d _ hm50 hp rfl)
  · intro k n hk hn
    have h6 := hfind6 k
    rw [hn, Option.map_some', if_neg (fun e => hk ((lruc_find_key _ _ _ hn).symm.trans e))] at h6
    exact r3 k n h6

theorem set_flag_of_dirty (n : file_node_t) (hn : n.need_writing = true) :
    ({ n with need_writing := true } : file_node_t) = n := by
  cases n
  simp only at hn
  subst hn
  rfl

/-- Under the invariant, the MHT nodes on the way from the parent of a dirty data node to the
root are dirty. -/
theorem Good.path_dirty {env : Env} {pf : pf_context_t} {h : Host} (g : Good env pf h)
    (d : Nat) (nd : file_node_t)
    (hf : lruc_find pf.cache (data_physical_node_number d) = some nd)
    (hd : nd.need_writing = true) (j : Nat) :
    mht_up j (d / ATTACHED_DATA_NODES_COUNT) ≠ 0 →
    ∃ n, lruc_find pf.cache (mht_physical_node_number (mht_up j (d / ATTACHED_DATA_NODES_COUNT)))
        = some n ∧ n.need_writing = true := by
  have hpar := g.tree.data_parent d nd hf
  induction j with
  | zero =>
    intro h0
    have h0' : d / ATTACHED_DATA_NODES_COUNT ≠ 0 := h0
    have hp := g.pinned _ nd hf
    have hdu := (g.dirty_up _ nd hf hd).1
    rw [hpar, mht_ptr_pos _ h0'] at hp hdu
    exact ⟨_, find_of_resident pf _ hp, hdu⟩
  | succ j ih =>
    intro h0
    have hj : mht_up j (d / ATTACHED_DATA_NODES_COUNT) ≠ 0 := by
      intro c
      apply h0
      show (mht_up j (d / ATTACHED_DATA_NODES_COUNT) - 1) / CHILD_MHT_NODES_COUNT = 0
      rw [c]
      rfl
    obtain ⟨n, hn, hnd⟩ := ih hj
    have hb : mht_up j (d / ATTACHED_DATA_NODES_COUNT) < 2 ^ 50 := by
      have := (g.number_lt _ nd hf).2
      have e := mht_up_le j (d / ATTACHED_DATA_NODES_COUNT)
      obtain ⟨ht, hnum⟩ := g.find_data d nd hf
      unfold file_node_t.parent_number at this
      rw [ht, hnum] at this
      dsimp only at this
      omega
    obtain ⟨ht, hnum⟩ := g.find_mht _ hb n hn
    have hpn : n.parent = mht_ptr (mht_up (j + 1) (d / ATTACHED_DATA_NODES_COUNT)) := by
      have := (g.shape _ n hn).2.1
      unfold file_node_t.parent_ptr file_node_t.parent_number at this
      rw [ht, hnum] at this
      exact this
    have hp := g.pinned _ n hn
    have hdu := (g.dirty_up _ n hn hnd).1
    rw [hpn, mht_ptr_pos _ h0] at hp hdu
    exact ⟨_, find_of_resident pf _ hp, hdu⟩

/-- What `write_to_data_node` does to a context under the invariant whose cache holds the
data node `d` it is given. -/
theorem write_to_data_node_stored (env : Env) (ptr : Option (Nat → Byte)) (pf1 : pf_context_t)
    (h1 : Host) (d written left : Nat) (nd : file_node_t) (g : Good env pf1 h1)
    (hf : lruc_find pf1.cache (data_physical_node_number d) = some nd) :
    Stored pf1 d
      (fun x => memcpy_or_zero_initialize x ((pf1.offset - MD_USER_DATA_SIZE) % PF_NODE_SIZE)
        ptr written (min left (PF_NODE_SIZE - (pf1.offset - MD_USER_DATA_SIZE) % PF_NODE_SIZE)))
      (min left (PF_NODE_SIZE - (pf1.offset - MD_USER_DATA_SIZE) % PF_NODE_SIZE))
      (write_to_data_node ptr pf1 (.cached (data_physical_node_number d)) written left).1 := by
  rw [write_to_data_node_steps]
  dsimp only
  obtain ⟨stw, hstw⟩ : ∃ stw,
      stw = min left (PF_NODE_SIZE - (pf1.offset - MD_USER_DATA_SIZE) % PF_NODE_SIZE) := ⟨_, rfl⟩
  rw [← hstw]
  obtain ⟨fd, hfd⟩ : ∃ fd : file_node_t → file_node_t, fd = (fun n =>
      { n with decrypted := Buf.data ( memcpy_or_zero_initialize n.decrypted.as_data
          ((pf1.offset - MD_USER_DATA_SIZE) % PF_NODE_SIZE) ptr written stw) }) := ⟨_, rfl⟩
  have hfdf : ∀ n, (fd n).physical_node_number = n.physical_node_number ∧
      (fd n).type = n.type ∧ (fd n).node_number = n.node_number ∧ (fd n).parent = n.parent := by
    intro n
    rw [hfd]
    exact ⟨rfl, rfl, rfl, rfl⟩
  have hcopy : write_copy_step ptr pf1 (.cached (data_physical_node_number d)) written left
      = pf1.modify (.cached (data_physical_node_number d)) fd := by
    unfold write_copy_step
    rw [hfd, hstw]
  rw [hcopy, write_grow_step_eq]
  obtain ⟨pf2, hpf2⟩ : ∃ pf2, pf2 = pf1.modify (.cached (data_physical_node_number d)) fd :=
    ⟨_, rfl⟩
  rw [← hpf2]
  have hfind2 : ∀ k, lruc_find pf2.cache k
      = (lruc_find pf1.cache k).map
          (fun n => if n.physical_node_number = data_physical_node_number d then fd n else n) := by
    intro k
    rw [hpf2]
    exact lruc_find_modify pf1.cache _ k fd (fun n => (hfdf n).1)
  have hkeys2 : pf2.cache.map (fun n => n.physical_node_number)
      = pf1.cache.map (fun n => n.physical_node_number) := by
    rw [hpf2]
    exact map_modify_keys pf1.cache _ fd (fun n => (hfdf n).1)
  have t2 : Tree pf2 := by
    rw [hpf2]
    exact g.tree.modify _ fd hfdf
  have hf2 : lruc_find pf2.cache (data_physical_node_number d) = some (fd nd) := by
    rw [hfind2, hf, Option.map_some', if_pos (lruc_find_key _ _ _ hf)]
  have ho2 : ∀ k n, k ≠ data_physical_node_number d → lruc_find pf1.cache k = some n →
      lruc_find pf2.cache k = some n := by
    intro k n hk hn
    rw [hfind2, hn, Option.map_some',
      if_neg (fun e => hk ((lruc_find_key _ _ _ hn).symm.trans e))]
  have hoff2 : pf2.offset = pf1.offset := by rw [hpf2]; rfl
  have hepp2 : pf2.encrypted_part_plain = pf1.encrypted_part_plain := by rw [hpf2]; rfl
  have hroot2 : pf2.root_mht = pf1.root_mht := by rw [hpf2]; rfl
  obtain ⟨S, hS⟩ : ∃ S, S = max pf2.encrypted_part_plain.size (pf2.offset + stw) := ⟨_, rfl⟩
  rw [← hS]
  obtain ⟨pf4, hpf4⟩ : ∃ pf4, pf4 = { pf2 with
      offset := pf2.offset + stw,
      encrypted_part_plain := { pf2.encrypted_part_plain with size := S } } := ⟨_, rfl⟩
  rw [← hpf4]
  have hc4 : pf4.cache = pf2.cache := by rw [hpf4]
  have t4 : Tree pf4 := t2.of_eq pf4 hc4 (by rw [hpf4])
  have hm50 : d / ATTACHED_DATA_NODES_COUNT < 2 ^ 50 := by
    have := (g.number_lt _ nd hf).2
    obtain ⟨ht, hnum⟩ := g.find_data d nd hf
    unfold file_node_t.parent_number at this
    rw [ht, hnum] at this
    exact this
  have hfdnw : (fd nd).need_writing = nd.need_writing := by rw [hfd]
  have hfddec : fd nd = { nd with decrypted := Buf.data ( memcpy_or_zero_initialize
      nd.decrypted.as_data ((pf1.offset - MD_USER_DATA_SIZE) % PF_NODE_SIZE) ptr written
      stw) } := by rw [hfd]
  by_cases hc : nd.need_writing = true
  · -- marked already
    have hstep : write_mark_step pf4 (.cached (data_physical_node_number d)) = pf4 := by
      unfold write_mark_step
      rw [(resident_of_find pf4 _ (fd nd) (by rw [hc4]; exact hf2)).2, hfdnw, hc]
      rfl
    rw [hstep]
    have hrd := (g.dirty_up _ nd hf hc).2
    have hnw := (g.root_dirty hrd).1
    refine ⟨?_, ?_, ?_, ?_⟩
    · rw [hpf4, hS, hoff2, hepp2]
      rw [hpf2]
      have e1 : ({ pf1.root_mht with need_writing := true } : file_node_t) = pf1.root_mht :=
        set_flag_of_dirty _ hrd
      rw [e1]
      cases pf1
      simp only at hnw
      subst hnw
      rfl
    · rw [hc4]
      exact hkeys2
    · intro n hn
      rw [hf] at hn
      cases hn
      rw [hc4, hf2, hfddec]
      cases nd
      simp only at hc
      subst hc
      rfl
    · intro k n hk hn
      rw [hc4, ho2 k n hk hn]
      refine ⟨fun hp => ?_, fun _ => rfl⟩
      obtain ⟨j, hj, e⟩ := hp
      obtain ⟨n', hn', hd'⟩ := g.path_dirty d nd hf hc j hj
      rw [← e, hn] at hn'
      cases hn'
      rw [set_flag_of_dirty _ hd']
  · have hcl : nd.need_writing = false := by
      cases hq : nd.need_writing
      · rfl
      · exact absurd hq hc
    obtain ⟨c, r1, r2, r3, r4⟩ := write_mark_step_clean pf4 d (fd nd) t4 hm50
      (by rw [hc4]; exact hf2) (by rw [hfdnw]; exact hcl)
    rw [r1]
    refine ⟨?_, ?_, ?_, ?_⟩
    · rw [hpf4, hS, hoff2, hepp2, hroot2, hpf2]
      rfl
    · show c.map _ = _
      rw [r2, hc4]
      exact hkeys2
    · intro n hn
      rw [hf] at hn
      cases hn
      show lruc_find c _ = _
      rw [r3, hfddec]
    · intro k n hk hn
      show (_ → lruc_find c k = _) ∧ (_ → lruc_find c k = _)
      exact r4 k n hk (by rw [hc4]; exact ho2 k n hk hn)

theorem Stored.root {pf1 : pf_context_t} {d : Nat} {f : (Nat → Byte) → (Nat → Byte)}
    {stw : Nat} {pf5 : pf_context_t} (S : Stored pf1 d f stw pf5) :
    pf5.root_mht = { pf1.root_mht with need_writing := true } :=
  congrArg pf_context_t.root_mht S.frame

theorem Stored.size {pf1 : pf_context_t} {d : Nat} {f : (Nat → Byte) → (Nat → Byte)}
    {stw : Nat} {pf5 : pf_context_t} (S : Stored pf1 d f stw pf5) :
    pf5.encrypted_part_plain.size = max pf1.encrypted_part_plain.size (pf1.offset + stw) :=
  congrArg (fun p => p.encrypted_part_plain.size) S.frame

theorem Stored.inline {pf1 : pf_context_t} {d : Nat} {f : (Nat → Byte) → (Nat → Byte)}
    {stw : Nat} {pf5 : pf_context_t} (S : Stored pf1 d f stw pf5) :
    pf5.encrypted_part_plain.data = pf1.encrypted_part_plain.data :=
  congrArg (fun p => p.encrypted_part_plain.data) S.frame

theorem Stored.offset {pf1 : pf_context_t} {d : Nat} {f : (Nat → Byte) → (Nat → Byte)}
    {stw : Nat} {pf5 : pf_context_t} (S : Stored pf1 d f stw pf5) :
    pf5.offset = pf1.offset + stw :=
  congrArg pf_context_t.offset S.frame

theorem Stored.dirty {pf1 : pf_context_t} {d : Nat} {f : (Nat → Byte) → (Nat → Byte)}
    {stw : Nat} {pf5 : pf_context_t} (S : Stored pf1 d f stw pf5) :
    pf5.need_writing = true :=
  congrArg pf_context_t.need_writing S.frame

/-- Every node of the cache before the write is in the cache after it, with the same shape. -/
theorem Stored.fwd {pf1 : pf_context_t} {d : Nat} {f : (Nat → Byte) → (Nat → Byte)}
    {stw : Nat} {pf5 : pf_context_t} (S : Stored pf1 d f stw pf5) (k : Nat) (n : file_node_t)
    (hn : lruc_find pf1.cache k = some n) :
    ∃ n5, lruc_find pf5.cache k = some n5 ∧ n5.type = n.type ∧
      n5.node_number = n.node_number ∧ n5.parent = n.parent ∧
      n5.physical_node_number = n.physical_node_number ∧ n5.new_node = n.new_node ∧
      n5.encrypted = n.encrypted ∧ (n.need_writing = true → n5.need_writing = true) ∧
      (k ≠ data_physical_node_number d → n5.decrypted = n.decrypted) ∧
      (n5.need_writing = false → n5 = n ∧ k ≠ data_physical_node_number d ∧
        ¬ OnPath (d / ATTACHED_DATA_NODES_COUNT) k) ∧
      (k = data_physical_node_number d →
        n5.need_writing = true ∧ n5.decrypted = Buf.data (f n.decrypted.as_data)) := by
  by_cases hk : k = data_physical_node_number d
  · subst hk
    refine ⟨_, S.node n hn, rfl, rfl, rfl, rfl, rfl, rfl, fun _ => rfl, fun c => absurd rfl c,
      fun c => ?_, fun _ => ⟨rfl, rfl⟩⟩
    cases c
  · by_cases hp : OnPath (d / ATTACHED_DATA_NODES_COUNT) k
    · refine ⟨_, (S.other k n hk hn).1 hp, rfl, rfl, rfl, rfl, rfl, rfl, fun _ => rfl,
        fun _ => rfl, fun c => ?_, fun c => absurd c hk⟩
      cases c
    · exact ⟨_, (S.other k n hk hn).2 hp, rfl, rfl, rfl, rfl, rfl, rfl, fun c => c,
        fun _ => rfl, fun _ => ⟨rfl, hk, hp⟩, fun c => absurd c hk⟩

/-- Every node of the cache after the write was in the cache before it. -/
theorem Stored.back {pf1 : pf_context_t} {d : Nat} {f : (Nat → Byte) → (Nat → Byte)}
    {stw : Nat} {pf5 : pf_context_t} (S : Stored pf1 d f stw pf5) (k : Nat) (n5 : file_node_t)
    (hn : lruc_find pf5.cache k = some n5) : ∃ n, lruc_find pf1.cache k = some n := by
  rcases ho : lruc_find pf1.cache k with _ | n
  · rw [lruc_find_none_iff, ← S.keys, ← lruc_find_none_iff, hn] at ho
    cases ho
  · exact ⟨n, rfl⟩

theorem Stored.none {pf1 : pf_context_t} {d : Nat} {f : (Nat → Byte) → (Nat → Byte)}
    {stw : Nat} {pf5 : pf_context_t} (S : Stored pf1 d f stw pf5) (k : Nat)
    (hn : lruc_find pf1.cache k = none) : lruc_find pf5.cache k = none := by
  rw [lruc_find_none_iff, S.keys, ← lruc_find_none_iff]
  exact hn

theorem Stored.resident {pf1 : pf_context_t} {d : Nat} {f : (Nat → Byte) → (Nat → Byte)}
    {stw : Nat} {pf5 : pf_context_t} (S : Stored pf1 d f stw pf5) (q : NodePtr) :
    pf5.resident q = pf1.resident q := by
  cases q with
  | root => rfl
  | cached k =>
    show (lruc_find pf5.cache k).isSome = (lruc_find pf1.cache k).isSome
    rcases ho : lruc_find pf1.cache k with _ | n
    · rw [S.none k ho]
    · obtain ⟨n5, h5, -⟩ := S.fwd k n ho
      rw [h5]
      rfl

/-- The write keeps the order of the cache. -/
theorem Stored.s_ordered {pf1 : pf_context_t} {d : Nat} {f : (Nat → Byte) → (Nat → Byte)}
    {stw : Nat} {pf5 : pf_context_t} (S : Stored pf1 d f stw pf5)
    (hk : (pf1.cache.map (fun n => n.physical_node_number)).Nodup) (o : Ordered pf1.cache) :
    Ordered pf5.cache := by
  rw [ordered_iff_map] at o ⊢
  rw [map_eq_of_find (fun n => (n.parent, n.physical_node_number)) pf5.cache pf1.cache S.keys
    hk]
  · exact o
  · intro k
    rcases ho : lruc_find pf1.cache k with _ | n
    · rw [S.none k ho]
    · obtain ⟨n5, h5, -, -, t3, t4, -⟩ := S.fwd k n ho
      rw [h5]
      simp [t3, t4]

theorem Stored.deref_decrypted {pf1 : pf_context_t} {d : Nat} {f : (Nat → Byte) → (Nat → Byte)}
    {stw : Nat} {pf5 : pf_context_t} (S : Stored pf1 d f stw pf5) (q : NodePtr)
    (hq : q ≠ .cached (data_physical_node_number d)) :
    (pf5.deref q).decrypted = (pf1.deref q).decrypted := by
  cases q with
  | root =>
    show pf5.root_mht.decrypted = pf1.root_mht.decrypted
    rw [S.root]
  | cached k =>
    show ((lruc_find pf5.cache k).getD calloc_node).decrypted
      = ((lruc_find pf1.cache k).getD calloc_node).decrypted
    rcases ho : lruc_find pf1.cache k with _ | n
    · rw [S.none k ho]
    · obtain ⟨n5, h5, -, -, -, -, -, -, -, t, -⟩ := S.fwd k n ho
      rw [h5]
      exact t (fun e => hq (by rw [e]))

theorem Stored.deref_dirty {pf1 : pf_context_t} {d : Nat} {f : (Nat → Byte) → (Nat → Byte)}
    {stw : Nat} {pf5 : pf_context_t} (S : Stored pf1 d f stw pf5) (q : NodePtr)
    (hres : pf1.resident q = true) (hd : (pf1.deref q).need_writing = true) :
    (pf5.deref q).need_writing = true := by
  cases q with
  | root =>
    show pf5.root_mht.need_writing = true
    rw [S.root]
  | cached k =>
    have ho := find_of_resident pf1 k hres
    obtain ⟨n5, h5, -, -, -, -, -, -, t, -⟩ := S.fwd k _ ho
    rw [(resident_of_find pf5 k n5 h5).2]
    exact t hd

/-- After the write, an MHT node on the way from the parent of the data node to the root is
marked, and so is the root. -/
theorem Stored.marked {pf1 : pf_context_t} {d : Nat} {f : (Nat → Byte) → (Nat → Byte)}
    {stw : Nat} {pf5 : pf_context_t} (S : Stored pf1 d f stw pf5)
    (hm50 : d / ATTACHED_DATA_NODES_COUNT < 2 ^ 50) (m1 : Nat)
    (hon : m1 = 0 ∨ OnPath (d / ATTACHED_DATA_NODES_COUNT) (mht_physical_node_number m1))
    (hres : pf1.resident (mht_ptr m1) = true) :
    (pf5.deref (mht_ptr m1)).need_writing = true := by
  by_cases h0 : m1 = 0
  · rw [h0, mht_ptr_zero]
    show pf5.root_mht.need_writing = true
    rw [S.root]
  · have hp := hon.resolve_left h0
    rw [mht_ptr_pos _ h0] at hres ⊢
    have ho := find_of_resident pf1 _ hres
    have := (S.other _ _ (on_path_ne_data _ d _ hm50 hp) ho).1 hp
    rw [(resident_of_find pf5 _ _ this).2]

/-- The write keeps the representation invariant: the data node written is the node of the
offset, the write is not empty, and no other cached node but the MHT node of the data node
starts at the end of the file. -/
theorem Stored.s_good {env : Env} {pf1 : pf_context_t} {h1 : Host} {d : Nat}
    {f : (Nat → Byte) → (Nat → Byte)} {stw : Nat} {pf5 : pf_context_t}
    (S : Stored pf1 d f stw pf5) (g : Good env pf1 h1) (nd : file_node_t)
    (hf : lruc_find pf1.cache (data_physical_node_number d) = some nd)
    (hlo : MD_USER_DATA_SIZE ≤ pf1.offset) (hstw : 0 < stw)
    (hbound : pf1.offset + stw ≤ NO_WRAP)
    (hset : ∀ k n, lruc_find pf1.cache k = some n →
      n.start < pf1.encrypted_part_plain.size ∨ k = data_physical_node_number d ∨
        k = mht_physical_node_number (d / ATTACHED_DATA_NODES_COUNT)) :
    Good env pf5 h1 := by
  have hm50 : d / ATTACHED_DATA_NODES_COUNT < 2 ^ 50 := by
    have := (g.number_lt _ nd hf).2
    obtain ⟨ht, hnum⟩ := g.find_data d nd hf
    unfold file_node_t.parent_number at this
    rw [ht, hnum] at this
    exact this
  have hsz := S.size
  have hparent_ne : ∀ k n, lruc_find pf1.cache k = some n →
      n.parent ≠ .cached (data_physical_node_number d) := by
    intro k n hn e
    have hp := (g.parent_facts k n hn).1
    rw [hp] at e
    by_cases h0 : n.parent_number = 0
    · rw [h0, mht_ptr_zero] at e
      cases e
    · rw [mht_ptr_pos _ h0] at e
      exact data_physical_ne_mht d _ (g.number_lt k n hn).2 (NodePtr.cached.inj e).symm
  refine
    { size_le := ?_, keys := ?_, root_number := ?_, root_type := ?_, shape := ?_, pinned := ?_,
      dirty_up := ?_, root_dirty := ?_, pending := ?_, clean := ?_ }
  · rw [hsz]
    exact max_le g.size_le hbound
  · rw [S.keys]
    exact g.keys
  · rw [S.root]
    exact g.root_number
  · rw [S.root]
    exact g.root_type
  · intro k n5 h5
    obtain ⟨n, hn⟩ := S.back k n5 h5
    obtain ⟨n5', h5', e1, e2, e3, e4, -⟩ := S.fwd k n hn
    rw [h5] at h5'
    cases h5'
    obtain ⟨s1, s2, s3, s4⟩ := g.shape k n hn
    unfold file_node_t.numbered file_node_t.parent_ptr file_node_t.parent_number
      file_node_t.start at *
    rw [e1, e2, e3, e4, hsz]
    exact ⟨s1, s2, s3, le_trans s4 (le_max_left _ _)⟩
  · intro k n5 h5
    obtain ⟨n, hn⟩ := S.back k n5 h5
    obtain ⟨n5', h5', -, -, e3, -⟩ := S.fwd k n hn
    rw [h5] at h5'
    cases h5'
    rw [e3, S.resident]
    exact g.pinned k n hn
  · intro k n5 h5 hd5
    refine ⟨?_, by rw [S.root]⟩
    obtain ⟨n, hn⟩ := S.back k n5 h5
    obtain ⟨n5', h5', e1, e2, e3, e4, -, -, -, -, t, -⟩ := S.fwd k n hn
    rw [h5] at h5'
    cases h5'
    rw [e3]
    have hpin := g.pinned k n hn
    by_cases hk : k = data_physical_node_number d
    · subst hk
      rw [hf] at hn
      cases hn
      rw [g.tree.data_parent d nd hf] at hpin ⊢
      refine S.marked hm50 _ ?_ hpin
      by_cases h0 : d / ATTACHED_DATA_NODES_COUNT = 0
      · exact Or.inl h0
      · exact Or.inr ⟨0, h0, rfl⟩
    · by_cases hp : OnPath (d / ATTACHED_DATA_NODES_COUNT) k
      · obtain ⟨j, hj, e⟩ := hp
        have hb : mht_up j (d / ATTACHED_DATA_NODES_COUNT) < 2 ^ 50 :=
          lt_of_le_of_lt (mht_up_le j _) hm50
        rw [e] at hn
        obtain ⟨ht, hnum⟩ := g.find_mht _ hb n hn
        have hpn : n.parent = mht_ptr (mht_up (j + 1) (d / ATTACHED_DATA_NODES_COUNT)) := by
          have := (g.shape _ n hn).2.1
          unfold file_node_t.parent_ptr file_node_t.parent_number at this
          rw [ht, hnum] at this
          exact this
        rw [hpn] at hpin ⊢
        refine S.marked hm50 _ ?_ hpin
        by_cases h0 : mht_up (j + 1) (d / ATTACHED_DATA_NODES_COUNT) = 0
        · exact Or.inl h0
        · exact Or.inr ⟨j + 1, h0, rfl⟩
      · have hnn : n5.need_writing = true → n.need_writing = true := by
          intro c
          cases hq : n.need_writing
          · have h5n := (S.other k n hk hn).2 hp
            rw [h5] at h5n
            cases h5n
            rw [hq] at c
            exact c
          · rfl
        exact S.deref_dirty _ hpin (g.dirty_up k n hn (hnn hd5)).1
  · intro _
    refine ⟨S.dirty, ?_⟩
    rw [hsz]
    exact lt_of_lt_of_le (by omega) (le_max_right _ _)
  · intro k n5 h5 hc5 hnew
    obtain ⟨n, hn⟩ := S.back k n5 h5
    obtain ⟨n5', h5', -, -, -, -, -, -, -, -, t, -⟩ := S.fwd k n hn
    rw [h5] at h5'
    cases h5'
    obtain ⟨e, hk, hp⟩ := t hc5
    subst e
    have hpend := g.pending k n5 hn hc5 hnew
    rcases hset k n5 hn with c | c | c
    · omega
    · exact absurd c hk
    · by_cases h0 : d / ATTACHED_DATA_NODES_COUNT = 0
      · rw [h0] at c
        have := (g.key_bounds k n5 hn).1
        rw [c] at this
        unfold mht_physical_node_number ATTACHED_DATA_NODES_COUNT U64 at this
        omega
      · exact absurd ⟨0, h0, c⟩ hp
  · intro k n5 h5 hc5 hnew
    obtain ⟨n, hn⟩ := S.back k n5 h5
    obtain ⟨n5', h5', -, -, -, -, -, -, -, -, t, -⟩ := S.fwd k n hn
    rw [h5] at h5'
    cases h5'
    obtain ⟨e, hk, hp⟩ := t hc5
    subst e
    rw [S.deref_decrypted _ (hparent_ne k n5 hn)]
    exact g.clean k n5 hn hc5 hnew

/-- After the write every cached node starts below the end of the file. -/
theorem Stored.settled {env : Env} {pf1 : pf_context_t} {h1 : Host} {d : Nat}
    {f : (Nat → Byte) → (Nat → Byte)} {stw : Nat} {pf5 : pf_context_t}
    (S : Stored pf1 d f stw pf5) (g : Good env pf1 h1) (nd : file_node_t)
    (hf : lruc_find pf1.cache (data_physical_node_number d) = some nd)
    (hlo : MD_USER_DATA_SIZE ≤ pf1.offset)
    (hd : d = (pf1.offset - MD_USER_DATA_SIZE) / PF_NODE_SIZE) (hstw : 0 < stw)
    (hset : ∀ k n, lruc_find pf1.cache k = some n →
      n.start < pf1.encrypted_part_plain.size ∨ k = data_physical_node_number d ∨
        k = mht_physical_node_number (d / ATTACHED_DATA_NODES_COUNT)) :
    Settled pf5 := by
  have hm50 : d / ATTACHED_DATA_NODES_COUNT < 2 ^ 50 := by
    have := (g.number_lt _ nd hf).2
    obtain ⟨ht, hnum⟩ := g.find_data d nd hf
    unfold file_node_t.parent_number at this
    rw [ht, hnum] at this
    exact this
  intro k n5 h5
  obtain ⟨n, hn⟩ := S.back k n5 h5
  obtain ⟨n5', h5', e1, e2, -⟩ := S.fwd k n hn
  rw [h5] at h5'
  cases h5'
  have hst : n5.start = n.start := by
    unfold file_node_t.start
    rw [e1, e2]
  rw [hst, S.size]
  have hdd : MD_USER_DATA_SIZE + d * PF_NODE_SIZE ≤ pf1.offset := by
    rw [hd]
    have := Nat.div_mul_le_self (pf1.offset - MD_USER_DATA_SIZE) PF_NODE_SIZE
    omega
  rcases hset k n hn with c | c | c
  · exact lt_of_lt_of_le c (le_max_left _ _)
  · subst c
    obtain ⟨ht, hnum⟩ := g.find_data d n hn
    unfold file_node_t.start
    rw [ht, hnum]
    dsimp only
    exact lt_of_lt_of_le (by omega) (le_max_right _ _)
  · subst c
    obtain ⟨ht, hnum⟩ := g.find_mht _ hm50 n hn
    unfold file_node_t.start
    rw [ht, hnum]
    dsimp only
    have : d / ATTACHED_DATA_NODES_COUNT * ATTACHED_DATA_NODES_COUNT ≤ d :=
      Nat.div_mul_le_self d ATTACHED_DATA_NODES_COUNT
    have h2 : d / ATTACHED_DATA_NODES_COUNT * ATTACHED_DATA_NODES_COUNT * PF_NODE_SIZE
        ≤ d * PF_NODE_SIZE := Nat.mul_le_mul_right _ this
    exact lt_of_lt_of_le (by omega) (le_max_right _ _)

/-- The write changes the plaintext of no MHT node. -/
theorem Stored.mht_plain_eq {pf1 : pf_context_t} {d : Nat} {f : (Nat → Byte) → (Nat → Byte)}
    {stw : Nat} {pf5 : pf_context_t} (S : Stored pf1 d f stw pf5) (env : Env) (h : Host)
    (m : Nat) (hm : m < 2 ^ 50) : mht_plain env pf5 h m = mht_plain env pf1 h m := by
  induction m using Nat.strong_induction_on with
  | _ m ih =>
    by_cases h0 : m = 0
    · subst h0
      rw [mht_plain_zero, mht_plain_zero, S.root]
    · have hpar : (m - 1) / CHILD_MHT_NODES_COUNT < m := by
        unfold CHILD_MHT_NODES_COUNT
        omega
      rcases hc : lruc_find pf1.cache (mht_physical_node_number m) with _ | n
      · rw [mht_plain_disk env pf1 h m h0 hc, mht_plain_disk env pf5 h m h0 (S.none _ hc),
          ih _ hpar (by omega)]
      · obtain ⟨n5, h5, -, -, -, -, -, -, -, t, -⟩ := S.fwd _ n hc
        rw [mht_plain_cached env pf1 h m h0 n hc, mht_plain_cached env pf5 h m h0 n5 h5,
          t (fun e => data_physical_ne_mht d m hm e.symm)]

/-- The write changes the plaintext of the data node written as the copy says, and of no
other data node. -/
theorem Stored.data_plain_eq {pf1 : pf_context_t} {d : Nat} {f : (Nat → Byte) → (Nat → Byte)}
    {stw : Nat} {pf5 : pf_context_t} (S : Stored pf1 d f stw pf5) (env : Env) (h : Host)
    (nd : file_node_t) (hf : lruc_find pf1.cache (data_physical_node_number d) = some nd)
    (d1 : Nat) (hd1 : d1 / ATTACHED_DATA_NODES_COUNT < 2 ^ 50) :
    data_plain env pf5 h d1 = if d1 = d then f (data_plain env pf1 h d)
      else data_plain env pf1 h d1 := by
  by_cases hdd : d1 = d
  · subst hdd
    rw [if_pos rfl]
    unfold data_plain
    rw [S.node nd hf, hf]
    rfl
  · rw [if_neg hdd]
    have hk : data_physical_node_number d1 ≠ data_physical_node_number d :=
      fun e => hdd (data_physical_inj _ _ e)
    unfold data_plain
    rcases hc : lruc_find pf1.cache (data_physical_node_number d1) with _ | n
    · rw [S.none _ hc, S.mht_plain_eq env h _ hd1]
    · obtain ⟨n5, h5, -, -, -, -, -, -, -, t, -⟩ := S.fwd _ n hc
      rw [h5]
      dsimp only
      rw [t hk]

/-- The plaintext after the write: the bytes of the data node written are what the copy left,
every other byte is as before. -/
theorem Stored.byte {pf1 : pf_context_t} {d : Nat} {f : (Nat → Byte) → (Nat → Byte)}
    {stw : Nat} {pf5 : pf_context_t} (S : Stored pf1 d f stw pf5) (env : Env) (h : Host)
    (nd : file_node_t) (hf : lruc_find pf1.cache (data_physical_node_number d) = some nd)
    (x : Nat) (hx : x ≤ NO_WRAP) :
    plaintext_byte env pf5 h x =
      if MD_USER_DATA_SIZE ≤ x ∧ (x - MD_USER_DATA_SIZE) / PF_NODE_SIZE = d then
        f (data_plain env pf1 h d) ((x - MD_USER_DATA_SIZE) % PF_NODE_SIZE)
      else plaintext_byte env pf1 h x := by
  unfold plaintext_byte
  by_cases c : x < MD_USER_DATA_SIZE
  · rw [if_pos c, if_pos c, if_neg (by omega), S.inline]
  · rw [if_neg c, if_neg c]
    rw [S.data_plain_eq env h nd hf]
    · by_cases e : (x - MD_USER_DATA_SIZE) / PF_NODE_SIZE = d
      · rw [if_pos e, if_pos ⟨by omega, e⟩]
      · rw [if_neg e, if_neg (fun q => e q.2)]
    · unfold NO_WRAP at hx
      unfold ATTACHED_DATA_NODES_COUNT PF_NODE_SIZE MD_USER_DATA_SIZE
      omega

theorem memcpy_or_zero_initialize_apply (dest : Nat → Byte) (o : Nat)
    (ptr : Option (Nat → Byte)) (w n i : Nat) :
    memcpy_or_zero_initialize dest o ptr w n i
      = if o ≤ i ∧ i < o + n then input_byte ptr (w + (i - o)) else dest i := by
  unfold memcpy_or_zero_initialize input_byte
  cases ptr <;> rfl

theorem node_arith (o x stw : Nat) (hlo : MD_USER_DATA_SIZE ≤ o)
    (hfit : (o - MD_USER_DATA_SIZE) % PF_NODE_SIZE + stw ≤ PF_NODE_SIZE) :
    ((o ≤ x ∧ x < o + stw) →
      MD_USER_DATA_SIZE ≤ x ∧
      (x - MD_USER_DATA_SIZE) / PF_NODE_SIZE = (o - MD_USER_DATA_SIZE) / PF_NODE_SIZE ∧
      (o - MD_USER_DATA_SIZE) % PF_NODE_SIZE ≤ (x - MD_USER_DATA_SIZE) % PF_NODE_SIZE ∧
      (x - MD_USER_DATA_SIZE) % PF_NODE_SIZE < (o - MD_USER_DATA_SIZE) % PF_NODE_SIZE + stw) ∧
    ((MD_USER_DATA_SIZE ≤ x ∧
      (x - MD_USER_DATA_SIZE) / PF_NODE_SIZE = (o - MD_USER_DATA_SIZE) / PF_NODE_SIZE ∧
      (o - MD_USER_DATA_SIZE) % PF_NODE_SIZE ≤ (x - MD_USER_DATA_SIZE) % PF_NODE_SIZE ∧
      (x - MD_USER_DATA_SIZE) % PF_NODE_SIZE < (o - MD_USER_DATA_SIZE) % PF_NODE_SIZE + stw) →
      (o ≤ x ∧ x < o + stw)) ∧
    ((o ≤ x ∧ x < o + stw) →
      (x - MD_USER_DATA_SIZE) % PF_NODE_SIZE - (o - MD_USER_DATA_SIZE) % PF_NODE_SIZE = x - o) := by
  unfold MD_USER_DATA_SIZE PF_NODE_SIZE at *
  omega

/-- One turn of the data-node loop of `ipf_write` after a successful fetch: the invariant is
kept, the offset advances by the bytes written and the size grows to it, these bytes are those
of the input, and every other byte of the file is as before. -/
theorem write_step (env : Env) (hinv : AeadInverse env) (hcap : 10 ≤ env.MAX_PAGES_IN_CACHE)
    (ptr : Option (Nat → Byte)) (pf : pf_context_t) (h : Host) (w : WellFormed env pf h)
    (hlo : MD_USER_DATA_SIZE ≤ pf.offset) (hhi : pf.offset ≤ pf.encrypted_part_plain.size)
    (written left : Nat) (hl : 0 < left) (hb : pf.offset + left ≤ NO_WRAP)
    (p : NodePtr) (pf1 : pf_context_t) (h1 : Host)
    (hg : ipf_get_data_node env pf h = (some p, pf1, h1)) (stw : Nat)
    (hstw : stw = min left (PF_NODE_SIZE - (pf.offset - MD_USER_DATA_SIZE) % PF_NODE_SIZE)) :
    (write_to_data_node ptr pf1 p written left).2 = stw ∧
    WellFormed env (write_to_data_node ptr pf1 p written left).1 h1 ∧
    (write_to_data_node ptr pf1 p written left).1.offset = pf.offset + stw ∧
    (write_to_data_node ptr pf1 p written left).1.encrypted_part_plain.size
      = max pf.encrypted_part_plain.size (pf.offset + stw) ∧
    ∀ x, x < max pf.encrypted_part_plain.size (pf.offset + stw) →
      plaintext_byte env (write_to_data_node ptr pf1 p written left).1 h1 x
        = if pf.offset ≤ x ∧ x < pf.offset + stw then input_byte ptr (written + (x - pf.offset))
          else plaintext_byte env pf h x := by
  obtain ⟨d, hd⟩ : ∃ d, d = (pf.offset - MD_USER_DATA_SIZE) / PF_NODE_SIZE := ⟨_, rfl⟩
  obtain ⟨hp, G⟩ := ipf_get_data_node_got env hinv hcap pf h w.good w.ord w.settled hlo hhi d hd
    p pf1 h1 hg
  have hoff : pf1.offset = pf.offset := offset_of_stable G.stable
  have hsz : pf1.encrypted_part_plain.size = pf.encrypted_part_plain.size := G.same.1
  obtain ⟨nd, hnd⟩ := G.node
  have S := write_to_data_node_stored env ptr pf1 h1 d written left nd G.good hnd
  rw [hoff, ← hstw, ← hp] at S
  have hmod : (pf.offset - MD_USER_DATA_SIZE) % PF_NODE_SIZE < PF_NODE_SIZE :=
    Nat.mod_lt _ (by unfold PF_NODE_SIZE; omega)
  have hstw1 : 0 < stw ∧ stw ≤ left ∧
      (pf.offset - MD_USER_DATA_SIZE) % PF_NODE_SIZE + stw ≤ PF_NODE_SIZE := by omega
  have hdm := Nat.div_add_mod (pf.offset - MD_USER_DATA_SIZE) PF_NODE_SIZE
  rw [← hd] at hdm
  refine ⟨?_, ⟨?_, ?_, ?_⟩, ?_, ?_, ?_⟩
  · rw [(write_to_data_node_size ptr pf1 p written left).1, hoff, hstw]
  · exact S.s_good G.good nd hnd (by rw [hoff]; exact hlo) hstw1.1 (by rw [hoff]; omega) G.settled
  · exact S.s_ordered G.good.keys G.ord
  · exact S.settled G.good nd hnd (by rw [hoff]; exact hlo) (by rw [hoff]; exact hd) hstw1.1
      G.settled
  · rw [S.offset, hoff]
  · rw [S.size, hoff, hsz]
  · intro x hx
    have hxw : x ≤ NO_WRAP := by
      have := w.good.size_le
      have : max pf.encrypted_part_plain.size (pf.offset + stw) ≤ NO_WRAP :=
        max_le this (by omega)
      omega
    have hxs : ¬ (pf.offset ≤ x ∧ x < pf.offset + stw) → x < pf.encrypted_part_plain.size := by
      intro c
      by_contra q
      rw [max_def] at hx
      split_ifs at hx <;> omega
    obtain ⟨k1, k2, k3⟩ := node_arith pf.offset x stw hlo hstw1.2.2
    rw [← hd] at k1 k2
    rw [S.byte env h1 nd hnd x hxw, memcpy_or_zero_initialize_apply]
    by_cases c2 : pf.offset ≤ x ∧ x < pf.offset + stw
    · obtain ⟨a1, a2, a3, a4⟩ := k1 c2
      rw [if_pos c2, if_pos ⟨a1, a2⟩, if_pos ⟨a3, a4⟩, k3 c2]
    · rw [if_neg c2]
      by_cases c1 : MD_USER_DATA_SIZE ≤ x ∧ (x - MD_USER_DATA_SIZE) / PF_NODE_SIZE = d
      · rw [if_pos c1, if_neg (fun q => c2 (k2 ⟨c1.1, c1.2, q.1, q.2⟩))]
        rw [← G.same.2 x (hxs c2)]
        unfold plaintext_byte
        rw [if_neg (not_lt.mpr c1.1), c1.2]
      · rw [if_neg c1]
        exact G.same.2 x (hxs c2)

theorem write_data_nodes_step (env : Env) (ptr : Option (Nat → Byte)) (fuel : Nat)
    (pf : pf_context_t) (h : Host) (written left : Nat) (p : NodePtr) (pf1 : pf_context_t)
    (h1 : Host) (hl : left > 0) (hg : ipf_get_data_node env pf h = (some p, pf1, h1)) :
    write_data_nodes env ptr (fuel + 1) pf h written left
      = write_data_nodes env ptr fuel (write_to_data_node ptr pf1 p written left).1 h1
          (written + (write_to_data_node ptr pf1 p written left).2)
          (left - (write_to_data_node ptr pf1 p written left).2) := by
  rw [write_data_nodes]
  simp only [hl, if_true, hg]

theorem write_fetches_step (env : Env) (ptr : Option (Nat → Byte)) (fuel : Nat)
    (pf : pf_context_t) (h : Host) (written left : Nat) (p : NodePtr) (pf1 : pf_context_t)
    (h1 : Host) (hl : left > 0) (hg : ipf_get_data_node env pf h = (some p, pf1, h1)) :
    write_fetches env ptr (fuel + 1) pf h written left
      = write_fetches env ptr fuel (write_to_data_node ptr pf1 p written left).1 h1
          (written + (write_to_data_node ptr pf1 p written left).2)
          (left - (write_to_data_node ptr pf1 p written left).2) := by
  rw [write_fetches]
  simp only [hl, if_true, hg]

theorem write_fetches_none (env : Env) (ptr : Option (Nat → Byte)) (fuel : Nat)
    (pf : pf_context_t) (h : Host) (written left : Nat) (pf1 : pf_context_t) (h1 : Host)
    (hl : left > 0) (hg : ipf_get_data_node env pf h = (none, pf1, h1)) :
    write_fetches env ptr (fuel + 1) pf h written left = false := by
  rw [write_fetches]
  simp only [hl, if_true, hg]

theorem write_data_nodes_done (env : Env) (ptr : Option (Nat → Byte)) (fuel : Nat)
    (pf : pf_context_t) (h : Host) (written : Nat) :
    write_data_nodes env ptr fuel pf h written 0 = (0, pf, h) := by
  cases fuel <;> (rw [write_data_nodes]; simp)

/-- The data-node loop of `ipf_write`, when every fetch returns a node: it writes everything
it was given, keeps the representation invariant, advances the offset by the bytes written and
grows the size to it; these bytes are those of the input in order, and every other byte of the
file is as before. -/
theorem write_data_nodes_writes (env : Env) (hinv : AeadInverse env)
    (hcap : 10 ≤ env.MAX_PAGES_IN_CACHE) (ptr : Option (Nat → Byte)) (fuel : Nat) :
    ∀ (pf : pf_context_t) (h : Host) (written left : Nat),
    WellFormed env pf h → MD_USER_DATA_SIZE ≤ pf.offset →
    pf.offset ≤ pf.encrypted_part_plain.size → pf.offset + left ≤ NO_WRAP → left ≤ fuel →
    write_fetches env ptr fuel pf h written left = true →
    (write_data_nodes env ptr fuel pf h written left).1 = 0 ∧
    WellFormed env (write_data_nodes env ptr fuel pf h written left).2.1
      (write_data_nodes env ptr fuel pf h written left).2.2 ∧
    (write_data_nodes env ptr fuel pf h written left).2.1.offset = pf.offset + left ∧
    (write_data_nodes env ptr fuel pf h written left).2.1.encrypted_part_plain.size
      = max pf.encrypted_part_plain.size (pf.offset + left) ∧
    ∀ x, x < max pf.encrypted_part_plain.size (pf.offset + left) →
      plaintext_byte env (write_data_nodes env ptr fuel pf h written left).2.1
          (write_data_nodes env ptr fuel pf h written left).2.2 x
        = if pf.offset ≤ x ∧ x < pf.offset + left then
            input_byte ptr (written + (x - pf.offset))
          else plaintext_byte env pf h x := by
  induction fuel with
  | zero =>
    intro pf h written left w _ hhi _ hf _
    have h0 : left = 0 := by omega
    subst h0
    rw [write_data_nodes_done]
    refine ⟨rfl, w, rfl, ?_, ?_⟩
    · show pf.encrypted_part_plain.size = _
      rw [max_eq_left (by omega)]
    · intro x _
      rw [if_neg (by omega)]
  | succ fuel ih =>
    intro pf h written left w hlo hhi hb hf hfetch
    by_cases hl : left > 0
    · rcases hg : ipf_get_data_node env pf h with ⟨o, pf1, h1⟩
      cases o with
      | none =>
        rw [write_fetches_none env ptr fuel pf h written left pf1 h1 hl hg] at hfetch
        cases hfetch
      | some p =>
        obtain ⟨stw, hstw⟩ : ∃ stw, stw = min left
            (PF_NODE_SIZE - (pf.offset - MD_USER_DATA_SIZE) % PF_NODE_SIZE) := ⟨_, rfl⟩
        obtain ⟨s1, s2, s3, s4, s5⟩ := write_step env hinv hcap ptr pf h w hlo hhi written left
          hl hb p pf1 h1 hg stw hstw
        rw [write_fetches_step env ptr fuel pf h written left p pf1 h1 hl hg] at hfetch
        rw [write_data_nodes_step env ptr fuel pf h written left p pf1 h1 hl hg]
        rw [s1] at hfetch ⊢
        have hmod : (pf.offset - MD_USER_DATA_SIZE) % PF_NODE_SIZE < PF_NODE_SIZE :=
          Nat.mod_lt _ (by unfold PF_NODE_SIZE; omega)
        have hstw1 : 0 < stw ∧ stw ≤ left := by omega
        obtain ⟨r1, r2, r3, r4, r5⟩ := ih (write_to_data_node ptr pf1 p written left).1 h1
          (written + stw) (left - stw) s2 (by rw [s3]; omega)
          (by rw [s3, s4]; exact le_max_right _ _) (by rw [s3]; omega) (by omega) hfetch
        have hmax : max (max pf.encrypted_part_plain.size (pf.offset + stw))
            (pf.offset + stw + (left - stw))
            = max pf.encrypted_part_plain.size (pf.offset + left) := by
          rw [show pf.offset + stw + (left - stw) = pf.offset + left by omega]
          rw [max_assoc, max_eq_right (show pf.offset + stw ≤ pf.offset + left by omega)]
        rw [s3, s4, hmax] at r4 r5
        rw [s3] at r3
        refine ⟨r1, r2, ?_, r4, ?_⟩
        · rw [r3]
          omega
        · intro x hx
          rw [r5 x hx]
          by_cases c1 : pf.offset + stw ≤ x ∧ x < pf.offset + stw + (left - stw)
          · rw [if_pos c1, if_pos ⟨by omega, by omega⟩]
            congr 1
            omega
          · rw [if_neg c1]
            have hx2 : x < max pf.encrypted_part_plain.size (pf.offset + stw) := by
              rw [max_def] at hx ⊢
              split_ifs at hx ⊢ <;> omega
            rw [s5 x hx2]
            by_cases c2 : pf.offset ≤ x ∧ x < pf.offset + stw
            · rw [if_pos c2, if_pos ⟨by omega, by omega⟩]
            · rw [if_neg c2, if_neg (by omega)]
    · have h0 : left = 0 := by omega
      subst h0
      rw [write_data_nodes_done]
      refine ⟨rfl, w, rfl, ?_, ?_⟩
      · show pf.encrypted_part_plain.size = _
        rw [max_eq_left (by omega)]
      · intro x _
        rw [if_neg (by omega)]

/-- `ipf_write` past its guards, in terms of the data-node loop. -/
theorem ipf_write_eq (env : Env) (pf : pf_context_t) (h : Host) (ptr : Option (Nat → Byte))
    (n : Nat) (hn : n ≠ 0) (hst : pf.file_status = SUCCESS)
    (hmode : mode_has pf.mode PF_FILE_MODE_WRITE = true) (md : Nat × pf_context_t)
    (hmd : md = if pf.offset < MD_USER_DATA_SIZE then write_to_md ptr pf n else (n, pf)) :
    ipf_write env pf h ptr n
      = (n - (write_data_nodes env ptr md.1 md.2 h (n - md.1) md.1).1,
         (write_data_nodes env ptr md.1 md.2 h (n - md.1) md.1).2.1,
         (write_data_nodes env ptr md.1 md.2 h (n - md.1) md.1).2.2) ∧
    ipf_write_fetches env pf h ptr n = write_fetches env ptr md.1 md.2 h (n - md.1) md.1 := by
  constructor
  · unfold ipf_write
    have f0 : PF_FAILURE pf.file_status = false := by rw [hst]; rfl
    have m0 : (!mode_has pf.mode PF_FILE_MODE_WRITE) = false := by rw [hmode]; rfl
    rw [if_neg hn, f0, m0]
    simp only [Bool.false_eq_true, if_false]
    rw [← hmd]
  · unfold ipf_write_fetches
    dsimp only
    rw [← hmd]

theorem write_to_md_data (ptr : Option (Nat → Byte)) (pf : pf_context_t) (size : Nat) :
    (write_to_md ptr pf size).2.encrypted_part_plain.data
      = memcpy_or_zero_initialize pf.encrypted_part_plain.data pf.offset ptr 0
          (min size (MD_USER_DATA_SIZE - pf.offset)) ∧
    (write_to_md ptr pf size).2.need_writing = true := by
  unfold write_to_md
  dsimp only
  constructor
  · split_ifs <;> rfl
  · rfl

/-- A context with the same cache and root MHT, a size that is not smaller and `need_writing`
at least kept satisfies the representation invariant on the same disk. -/
theorem WellFormed.grow {env : Env} {pf : pf_context_t} {h : Host} (w : WellFormed env pf h)
    (pf1 : pf_context_t) (hc : pf1.cache = pf.cache) (hr : pf1.root_mht = pf.root_mht)
    (hs : pf.encrypted_part_plain.size ≤ pf1.encrypted_part_plain.size)
    (hs1 : pf1.encrypted_part_plain.size ≤ NO_WRAP)
    (hnw : pf.need_writing = true → pf1.need_writing = true) : WellFormed env pf1 h := by
  have g := w.good
  have hd : ∀ q, pf1.deref q = pf.deref q := deref_congr pf1 pf hc hr
  have hres : ∀ q, pf1.resident q = pf.resident q := resident_congr pf1 pf hc
  refine ⟨?_, by rw [hc]; exact w.ord, ?_⟩
  · refine
      { size_le := hs1
        keys := by rw [hc]; exact g.keys
        root_number := by rw [hr]; exact g.root_number
        root_type := by rw [hr]; exact g.root_type
        shape := ?_
        pinned := ?_
        dirty_up := ?_
        root_dirty := ?_
        pending := ?_
        clean := ?_ }
    · intro k n hn
      rw [hc] at hn
      obtain ⟨s1, s2, s3, s4⟩ := g.shape k n hn
      exact ⟨s1, s2, s3, le_trans s4 hs⟩
    · intro k n hn
      rw [hc] at hn
      rw [hres]
      exact g.pinned k n hn
    · intro k n hn hd1
      rw [hc] at hn
      rw [hd, hr]
      exact g.dirty_up k n hn hd1
    · intro hrd
      rw [hr] at hrd
      obtain ⟨a, b⟩ := g.root_dirty hrd
      exact ⟨hnw a, lt_of_lt_of_le b hs⟩
    · intro k n hn hcl hnew
      rw [hc] at hn
      have := g.pending k n hn hcl hnew
      have := w.settled k n hn
      omega
    · intro k n hn hcl hnew
      rw [hc] at hn
      rw [hd]
      exact g.clean k n hn hcl hnew
  · intro k n hn
    rw [hc] at hn
    exact lt_of_lt_of_le (w.settled k n hn) hs

/-- What `ipf_write` does on a writable context that satisfies the representation invariant,
at an offset within the size, when every node fetch returns a node. -/
theorem ipf_write_writes (env : Env) (hinv : AeadInverse env)
    (hcap : 10 ≤ env.MAX_PAGES_IN_CACHE) (pf : pf_context_t) (h : Host)
    (ptr : Option (Nat → Byte)) (n : Nat) (w : WellFormed env pf h)
    (hmode : mode_has pf.mode PF_FILE_MODE_WRITE = true) (hst : pf.file_status = SUCCESS)
    (ho : pf.offset ≤ pf.encrypted_part_plain.size) (hn : 0 < n)
    (hb : pf.offset + n ≤ NO_WRAP) (hfetch : ipf_write_fetches env pf h ptr n = true) :
    (ipf_write env pf h ptr n).1 = n ∧
    (ipf_write env pf h ptr n).2.1.offset = pf.offset + n ∧
    (ipf_write env pf h ptr n).2.1.encrypted_part_plain.size
      = max pf.encrypted_part_plain.size (pf.offset + n) ∧
    (∀ x, x < max pf.encrypted_part_plain.size (pf.offset + n) →
      plaintext_byte env (ipf_write env pf h ptr n).2.1 (ipf_write env pf h ptr n).2.2 x
        = if pf.offset ≤ x ∧ x < pf.offset + n then input_byte ptr (x - pf.offset)
          else plaintext_byte env pf h x) ∧
    WellFormed env (ipf_write env pf h ptr n).2.1 (ipf_write env pf h ptr n).2.2 := by
  by_cases c : pf.offset < MD_USER_DATA_SIZE
  · obtain ⟨e, ef⟩ := ipf_write_eq env pf h ptr n (by omega) hst hmode (write_to_md ptr pf n)
      (by rw [if_pos c])
    rw [ef] at hfetch
    rw [e]
    dsimp only
    obtain ⟨z1, z2, z3, -, z5, z6⟩ := write_to_md_spec ptr pf n
    obtain ⟨z7, z8⟩ := write_to_md_data ptr pf n
    obtain ⟨m, hm⟩ : ∃ m, m = min n (MD_USER_DATA_SIZE - pf.offset) := ⟨_, rfl⟩
    rw [← hm] at z1 z2 z3 z7
    rcases hmd : write_to_md ptr pf n with ⟨l0, pfm⟩
    rw [hmd] at z1 z2 z3 z5 z6 z7 z8 hfetch
    dsimp only at z1 z2 z3 z5 z6 z7 z8 hfetch ⊢
    have hm1 : 0 < m ∧ m ≤ n ∧ pf.offset + m ≤ MD_USER_DATA_SIZE := by omega
    have wm : WellFormed env pfm h := by
      refine w.grow pfm z5 z6 (by rw [z3]; exact le_max_left _ _) ?_ (fun _ => z8)
      rw [z3]
      exact max_le w.good.size_le (by omega)
    have hbm : ∀ x, plaintext_byte env pfm h x
        = if pf.offset ≤ x ∧ x < pf.offset + m then input_byte ptr (x - pf.offset)
          else plaintext_byte env pf h x := by
      intro x
      unfold plaintext_byte
      by_cases cx : x < MD_USER_DATA_SIZE
      · rw [if_pos cx, if_pos cx, z7, memcpy_or_zero_initialize_apply, Nat.zero_add]
      · rw [if_neg cx, if_neg cx, if_neg (by omega)]
        rw [data_plain_congr env pf pfm h h (fun k => by rw [z5]) (by rw [z6]) rfl]
    by_cases cl : l0 = 0
    · subst cl
      rw [write_data_nodes_done]
      dsimp only
      have hmn : m = n := by omega
      rw [hmn] at z2 z3 hbm
      exact ⟨by omega, z2, z3, fun x _ => hbm x, wm⟩
    · have hoffm : pfm.offset = MD_USER_DATA_SIZE := by omega
      obtain ⟨r1, r2, r3, r4, r5⟩ := write_data_nodes_writes env hinv hcap ptr l0 pfm h
        (n - l0) l0 wm (by omega) (by rw [z2, z3]; exact le_max_right _ _) (by omega)
        (le_refl _) hfetch
      have hmax : max pfm.encrypted_part_plain.size (pfm.offset + l0)
          = max pf.encrypted_part_plain.size (pf.offset + n) := by
        rw [z3, z2, show pf.offset + m + l0 = pf.offset + n by omega, max_assoc,
          max_eq_right (show pf.offset + m ≤ pf.offset + n by omega)]
      rw [hmax] at r4 r5
      refine ⟨by omega, by omega, r4, ?_, r2⟩
      intro x hx
      rw [r5 x hx, hbm x]
      by_cases c1 : pfm.offset ≤ x ∧ x < pfm.offset + l0
      · rw [if_pos c1, if_pos ⟨by omega, by omega⟩]
        congr 1
        omega
      · rw [if_neg c1]
        by_cases c2 : pf.offset ≤ x ∧ x < pf.offset + m
        · rw [if_pos c2, if_pos ⟨by omega, by omega⟩]
        · rw [if_neg c2, if_neg (by omega)]
  · obtain ⟨e, ef⟩ := ipf_write_eq env pf h ptr n (by omega) hst hmode (n, pf)
      (by rw [if_neg c])
    rw [ef] at hfetch
    rw [e]
    dsimp only at hfetch ⊢
    obtain ⟨r1, r2, r3, r4, r5⟩ := write_data_nodes_writes env hinv hcap ptr n pf h
      (n - n) n w (by omega) ho hb (le_refl _) hfetch
    refine ⟨by omega, r3, r4, ?_, r2⟩
    intro x hx
    rw [r5 x hx, Nat.sub_self, Nat.zero_add]

/-- The result of `pf_set_size` to a size beyond the plaintext size of a writable file, by the
result of `ipf_write` of zeros at the old end. -/
theorem pf_set_size_beyond (env : Env) (pf : pf_context_t) (h : Host) (n : Nat)
    (hinit : env.g_initialized = true) (hmode : mode_has pf.mode PF_FILE_MODE_WRITE = true)
    (hs : pf.encrypted_part_plain.size < n) :
    pf_set_size env pf h n =
      if (ipf_write env { pf with offset := pf.encrypted_part_plain.size } h none
          (n - pf.encrypted_part_plain.size)).1 ≠ n - pf.encrypted_part_plain.size then
        ((ipf_write env { pf with offset := pf.encrypted_part_plain.size } h none
            (n - pf.encrypted_part_plain.size)).2.1.last_error,
          (ipf_write env { pf with offset := pf.encrypted_part_plain.size } h none
            (n - pf.encrypted_part_plain.size)).2.1,
          (ipf_write env { pf with offset := pf.encrypted_part_plain.size } h none
            (n - pf.encrypted_part_plain.size)).2.2)
      else
        (SUCCESS,
          (ipf_write env { pf with offset := pf.encrypted_part_plain.size } h none
            (n - pf.encrypted_part_plain.size)).2.1,
          (ipf_write env { pf with offset := pf.encrypted_part_plain.size } h none
            (n - pf.encrypted_part_plain.size)).2.2) := by
  unfold pf_set_size
  have g0 : ¬ (!env.g_initialized) = true := by rw [hinit]; simp
  have g1 : ¬ (!mode_has pf.mode PF_FILE_MODE_WRITE) = true := by rw [hmode]; simp
  have g2 : ¬ n = pf.encrypted_part_plain.size := by omega
  rw [if_neg g0, if_neg g1, if_neg g2, if_pos hs]

/-- Zeros written at the end of a file that satisfies the representation invariant, when
every node fetch returns a node: the write is complete, the new bytes are zero and the old ones
are as before. -/
theorem ipf_write_zeros (env : Env) (hinv : AeadInverse env)
    (hcap : 10 ≤ env.MAX_PAGES_IN_CACHE) (pf : pf_context_t) (h : Host) (n : Nat)
    (w : WellFormed env pf h) (hmode : mode_has pf.mode PF_FILE_MODE_WRITE = true)
    (hst : pf.file_status = SUCCESS) (hs : pf.encrypted_part_plain.size < n)
    (hb : n ≤ NO_WRAP)
    (hfetch : ipf_write_fetches env { pf with offset := pf.encrypted_part_plain.size } h none
      (n - pf.encrypted_part_plain.size) = true) :
    (ipf_write env { pf with offset := pf.encrypted_part_plain.size } h none
      (n - pf.encrypted_part_plain.size)).1 = n - pf.encrypted_part_plain.size ∧
    (ipf_write env { pf with offset := pf.encrypted_part_plain.size } h none
      (n - pf.encrypted_part_plain.size)).2.1.offset = n ∧
    (ipf_write env { pf with offset := pf.encrypted_part_plain.size } h none
      (n - pf.encrypted_part_plain.size)).2.1.encrypted_part_plain.size = n ∧
    (∀ x, pf.encrypted_part_plain.size ≤ x → x < n →
      plaintext_byte env
        (ipf_write env { pf with offset := pf.encrypted_part_plain.size } h none
          (n - pf.encrypted_part_plain.size)).2.1
        (ipf_write env { pf with offset := pf.encrypted_part_plain.size } h none
          (n - pf.encrypted_part_plain.size)).2.2 x = 0) ∧
    (∀ x, x < pf.encrypted_part_plain.size →
      plaintext_byte env
        (ipf_write env { pf with offset := pf.encrypted_part_plain.size } h none
          (n - pf.encrypted_part_plain.size)).2.1
        (ipf_write env { pf with offset := pf.encrypted_part_plain.size } h none
          (n - pf.encrypted_part_plain.size)).2.2 x = plaintext_byte env pf h x) ∧
    WellFormed env
      (ipf_write env { pf with offset := pf.encrypted_part_plain.size } h none
        (n - pf.encrypted_part_plain.size)).2.1
      (ipf_write env { pf with offset := pf.encrypted_part_plain.size } h none
        (n - pf.encrypted_part_plain.size)).2.2 := by
  obtain ⟨r1, r2, r3, r4, r5⟩ := ipf_write_writes env hinv hcap
    { pf with offset := pf.encrypted_part_plain.size } h none (n - pf.encrypted_part_plain.size)
    (w.with_offset _) hmode hst (le_refl _) (by omega)
    (by show pf.encrypted_part_plain.size + (n - pf.encrypted_part_plain.size) ≤ NO_WRAP; omega)
    hfetch
  have e : pf.encrypted_part_plain.size + (n - pf.encrypted_part_plain.size) = n := by omega
  dsimp only at r2 r3 r4
  rw [e] at r2 r3 r4
  rw [max_eq_right (le_of_lt hs)] at r3 r4
  refine ⟨r1, r2, r3, ?_, ?_, r5⟩
  · intro x hx1 hx2
    rw [r4 x hx2, if_pos ⟨hx1, hx2⟩]
    rfl
  · intro x hx
    rw [r4 x (by omega), if_neg (by omega), plaintext_byte_with_offset]

/-- What `pf_read` does on a readable context that satisfies the representation invariant,
for a range within the plaintext size, when every node fetch returns a node: it returns
`SUCCESS` and the plaintext bytes of the range, and keeps the plaintext and the invariant. -/
theorem pf_read_reads (env : Env) (hinv : AeadInverse env) (hcap : 10 ≤ env.MAX_PAGES_IN_CACHE)
    (hinit : env.g_initialized = true) (pf : pf_context_t) (h : Host) (o k : Nat)
    (out : Nat → Byte) (w : WellFormed env pf h)
    (hmode : mode_has pf.mode PF_FILE_MODE_READ = true) (hst : pf.file_status = SUCCESS)
    (hk : 0 < k) (hok : o + k ≤ pf.encrypted_part_plain.size)
    (hfetch : ipf_read_fetches env { pf with offset := o, end_of_file := false } h k = true) :
    (pf_read env pf h o k (some out)).1 = SUCCESS ∧
    (∃ out2, (pf_read env pf h o k (some out)).2.1 = some out2 ∧
      (∀ i, i < k → out2 i = plaintext_byte env pf h (o + i)) ∧
      (∀ i, k ≤ i → out2 i = out i)) ∧
    SameBytes env pf h (pf_read env pf h o k (some out)).2.2.1
      (pf_read env pf h o k (some out)).2.2.2 ∧
    WellFormed env (pf_read env pf h o k (some out)).2.2.1
      (pf_read env pf h o k (some out)).2.2.2 := by
  have w1 : WellFormed env { pf with offset := o, end_of_file := false } h :=
    (w.with_offset o).with_eof false
  have sb1 : SameBytes env pf h { pf with offset := o, end_of_file := false } h :=
    ⟨rfl, fun x _ => plaintext_byte_congr env pf { pf with offset := o, end_of_file := false }
      h h (fun _ => rfl) rfl rfl rfl x⟩
  obtain ⟨r1, r2, ⟨out2, r3, r4, r5⟩, r6, r7⟩ := ipf_read_reads env hinv hcap
    { pf with offset := o, end_of_file := false } h out k w1 hmode hst rfl
    (by show o < pf.encrypted_part_plain.size; omega) hk hfetch
  have hmin : min k (pf.encrypted_part_plain.size - o) = k := by omega
  dsimp only at r1 r2 r4 r5
  rw [hmin] at r1 r4 r5
  have g0 : ¬ (!env.g_initialized) = true := by rw [hinit]; simp
  have hpr : pf_read env pf h o k (some out)
      = (SUCCESS,
          (ipf_read env { pf with offset := o, end_of_file := false } h (some out) k).2.1,
          (ipf_read env { pf with offset := o, end_of_file := false } h (some out) k).2.2.1,
          (ipf_read env { pf with offset := o, end_of_file := false } h (some out) k).2.2.2) := by
    unfold pf_read
    rw [if_neg g0, ipf_seek_within env pf h o hst (by omega)]
    dsimp only
    rw [if_neg (by rw [r1]; simp)]
  rw [hpr]
  refine ⟨rfl, ⟨out2, r3, ?_, r5⟩, sb1.sb_trans r6, r7⟩
  intro i hi
  rw [r4 i hi]
  exact sb1.2 _ (by omega)

theorem settings_of_stable {a b : pf_context_t} (e : a.stable = b.stable) :
    a.settings = b.settings := by
  unfold pf_context_t.stable at e
  simp only [Stable.mk.injEq] at e
  obtain ⟨-, -, e3, e4, -, e6, e7, e8, -, e10⟩ := e
  unfold pf_context_t.settings
  rw [e3, e4, e6, e7, e8, e10]

theorem write_to_data_node_settings (ptr : Option (Nat → Byte)) (pf1 : pf_context_t)
    (p : NodePtr) (written left : Nat) :
    (write_to_data_node ptr pf1 p written left).1.settings = pf1.settings := by
  rw [write_to_data_node_steps]
  dsimp only
  have e1 : (write_copy_step ptr pf1 p written left).settings = pf1.settings :=
    settings_of_stable (modify_stable _ _ _)
  have e2 : ∀ pf2 stw, (write_grow_step pf2 stw).settings = pf2.settings := by
    intro pf2 stw
    rw [write_grow_step_eq]
    rfl
  have e3 : ∀ pf4, (write_mark_step pf4 p).settings = pf4.settings := by
    intro pf4
    unfold write_mark_step
    split_ifs
    · dsimp only
      show (mark_parents _ _ _).settings = _
      rw [settings_of_stable (mark_parents_stable _ _ _),
        settings_of_stable (modify_stable _ _ _)]
    · rfl
  rw [e3, e2, e1]

theorem write_data_nodes_settings (env : Env) (ptr : Option (Nat → Byte)) (fuel : Nat) :
    ∀ (pf : pf_context_t) (h : Host) (written left : Nat),
    (write_data_nodes env ptr fuel pf h written left).2.1.settings = pf.settings := by
  induction fuel with
  | zero =>
    intro pf h written left
    rw [write_data_nodes]
    split_ifs <;> rfl
  | succ fuel ih =>
    intro pf h written left
    by_cases hl : left > 0
    · have st := ipf_get_data_node_stable env pf h
      rcases hg : ipf_get_data_node env pf h with ⟨o, pf1, h1⟩
      rw [hg] at st
      cases o with
      | none =>
        rw [write_data_nodes]
        simp only [hl, if_true, hg]
        exact settings_of_stable st
      | some p =>
        rw [write_data_nodes_step env ptr fuel pf h written left p pf1 h1 hl hg, ih,
          write_to_data_node_settings]
        exact settings_of_stable st
    · have h0 : left = 0 := by omega
      subst h0
      rw [write_data_nodes_done]

theorem ipf_write_settings (env : Env) (pf : pf_context_t) (h : Host)
    (ptr : Option (Nat → Byte)) (n : Nat) :
    (ipf_write env pf h ptr n).2.1.settings = pf.settings := by
  unfold ipf_write
  split_ifs
  · rfl
  · rfl
  · rfl
  · dsimp only
    rw [write_data_nodes_settings]
    unfold write_to_md
    dsimp only
    split_ifs <;> rfl
  · dsimp only
    rw [write_data_nodes_settings]

theorem ipf_write_status (env : Env) (pf : pf_context_t) (h : Host)
    (ptr : Option (Nat → Byte)) (n : Nat)
    (hw : (ipf_write env pf h ptr n).1 = n) :
    (ipf_write env pf h ptr n).2.1.file_status = pf.file_status := by
  rcases (ipf_write_verdict env pf h ptr n).2 with c | c
  · exact c.2.1
  · exact absurd hw c.1

/-- A seek beyond the end of a writable file that satisfies the representation invariant, when
every node fetch of the zero fill returns a node: the seek succeeds, size and offset are the
offset asked for, the bytes from the old size on are zero and the bytes below it are as before,
and the invariant is kept. -/
theorem ipf_seek_zero_fills (env : Env) (hinv : AeadInverse env)
    (hcap : 10 ≤ env.MAX_PAGES_IN_CACHE) (hinit : env.g_initialized = true)
    (pf : pf_context_t) (h : Host) (off : Nat)
    (w : WellFormed env pf h) (hmode : mode_has pf.mode PF_FILE_MODE_WRITE = true)
    (hst : pf.file_status = SUCCESS) (hs : pf.encrypted_part_plain.size < off)
    (hb : off ≤ NO_WRAP)
    (hfetch : ipf_write_fetches env { pf with offset := pf.encrypted_part_plain.size } h none
      (off - pf.encrypted_part_plain.size) = true) :
    (ipf_seek env pf h off).1 = true ∧
    (ipf_seek env pf h off).2.1.encrypted_part_plain.size = off ∧
    (ipf_seek env pf h off).2.1.offset = off ∧
    (∀ x, pf.encrypted_part_plain.size ≤ x → x < off →
      plaintext_byte env (ipf_seek env pf h off).2.1 (ipf_seek env pf h off).2.2 x = 0) ∧
    (∀ x, x < pf.encrypted_part_plain.size →
      plaintext_byte env (ipf_seek env pf h off).2.1 (ipf_seek env pf h off).2.2 x
        = plaintext_byte env pf h x) ∧
    WellFormed env (ipf_seek env pf h off).2.1 (ipf_seek env pf h off).2.2 := by
  obtain ⟨r1, r2, r3, r4, r5, r6⟩ := ipf_write_zeros env hinv hcap pf h off w hmode hst hs hb
    hfetch
  have e := ipf_seek_beyond env pf h off hst hs hmode
  rw [if_pos hinit, if_pos (Or.inl r1)] at e
  rw [e]
  refine ⟨rfl, r3, r2, ?_, ?_, r6.with_eof false⟩
  · intro x hx1 hx2
    exact (plaintext_byte_with_eof env _ _ false x).trans (r4 x hx1 hx2)
  · intro x hx
    exact (plaintext_byte_with_eof env _ _ false x).trans (r5 x hx)

/-- What `pf_set_size` to a larger size does on a writable context that satisfies the
representation invariant, when every node fetch returns a node. -/
theorem pf_set_size_grows (env : Env) (hinv : AeadInverse env)
    (hcap : 10 ≤ env.MAX_PAGES_IN_CACHE) (hinit : env.g_initialized = true)
    (pf : pf_context_t) (h : Host) (n : Nat)
    (w : WellFormed env pf h) (hmode : mode_has pf.mode PF_FILE_MODE_WRITE = true)
    (hst : pf.file_status = SUCCESS) (hs : pf.encrypted_part_plain.size < n)
    (hb : n ≤ NO_WRAP)
    (hfetch : ipf_write_fetches env { pf with offset := pf.encrypted_part_plain.size } h none
      (n - pf.encrypted_part_plain.size) = true) :
    (pf_set_size env pf h n).1 = SUCCESS ∧
    pf_get_size env (pf_set_size env pf h n).2.1 = (SUCCESS, n) ∧
    (∀ x, pf.encrypted_part_plain.size ≤ x → x < n →
      plaintext_byte env (pf_set_size env pf h n).2.1 (pf_set_size env pf h n).2.2 x = 0) ∧
    (∀ x, x < pf.encrypted_part_plain.size →
      plaintext_byte env (pf_set_size env pf h n).2.1 (pf_set_size env pf h n).2.2 x
        = plaintext_byte env pf h x) ∧
    WellFormed env (pf_set_size env pf h n).2.1 (pf_set_size env pf h n).2.2 ∧
    (pf_set_size env pf h n).2.1.file_status = SUCCESS ∧
    (pf_set_size env pf h n).2.1.mode = pf.mode := by
  obtain ⟨r1, r2, r3, r4, r5, r6⟩ := ipf_write_zeros env hinv hcap pf h n w hmode hst hs hb
    hfetch
  have e := pf_set_size_beyond env pf h n hinit hmode hs
  rw [if_neg (by rw [r1]; simp)] at e
  rw [e]
  dsimp only
  refine ⟨rfl, ?_, r4, r5, r6, ?_, ?_⟩
  · unfold pf_get_size
    rw [if_neg (by rw [hinit]; simp), r3]
  · rw [ipf_write_status env _ h none _ r1]
    exact hst
  · have := ipf_write_settings env { pf with offset := pf.encrypted_part_plain.size } h none
      (n - pf.encrypted_part_plain.size)
    exact congrArg Prod.fst this

/-- C22 (write postcondition and frame): on a writable context with `file_status` SUCCESS that
satisfies the representation invariant, at an offset `o` within the plaintext size `s`, for
`n > 0` bytes that end within the bound of the numbering, when every node fetch returns a node
`ipf_write` returns `n`, leaves the offset `o + n` and the plaintext size `max s (o + n)`,
stores the input bytes (zeros for a `NULL` input) at the logical offsets from `o` to `o + n`,
byte `x` of the inline region or of the data node that holds `x`, changes no other plaintext
byte, and keeps the representation invariant. -/
theorem write_stores_input_bytes (env : Env) (hinv : AeadInverse env)
    (hcap : 10 ≤ env.MAX_PAGES_IN_CACHE) (pf : pf_context_t) (h : Host)
    (ptr : Option (Nat → Byte)) (n : Nat) (w : WellFormed env pf h)
    (hmode : mode_has pf.mode PF_FILE_MODE_WRITE = true) (hst : pf.file_status = SUCCESS)
    (ho : pf.offset ≤ pf.encrypted_part_plain.size) (hn : 0 < n)
    (hb : pf.offset + n ≤ NO_WRAP) (hfetch : ipf_write_fetches env pf h ptr n = true) :
    (ipf_write env pf h ptr n).1 = n ∧
    (ipf_write env pf h ptr n).2.1.offset = pf.offset + n ∧
    (ipf_write env pf h ptr n).2.1.encrypted_part_plain.size
      = max pf.encrypted_part_plain.size (pf.offset + n) ∧
    (∀ x, x < max pf.encrypted_part_plain.size (pf.offset + n) →
      plaintext_byte env (ipf_write env pf h ptr n).2.1 (ipf_write env pf h ptr n).2.2 x
        = if pf.offset ≤ x ∧ x < pf.offset + n then input_byte ptr (x - pf.offset)
          else plaintext_byte env pf h x) ∧
    WellFormed env (ipf_write env pf h ptr n).2.1 (ipf_write env pf h ptr n).2.2 :=
  ipf_write_writes env hinv hcap pf h ptr n w hmode hst ho hn hb hfetch

/-- The new file `a`, written with `MD_USER_DATA_SIZE + 10` bytes `Z` at offset 0: the write
fills the inline region, appends data node 0, and returns the count. -/
theorem write_stores_input_bytes_witness :
    example_created.1.offset = 0 ∧ example_created.1.encrypted_part_plain.size = 0 ∧
    ipf_write_fetches example_env example_created.1 example_created.2 (some (fun _ => 90))
      (MD_USER_DATA_SIZE + 10) = true ∧
    (ipf_write example_env example_created.1 example_created.2 (some (fun _ => 90))
      (MD_USER_DATA_SIZE + 10)).1 = MD_USER_DATA_SIZE + 10 :=
  ⟨by decide!, by decide!, by decide!,
    (write_stores_input_bytes example_env example_env_aead_inverse (by decide)
      example_created.1 example_created.2 (some (fun _ => 90)) (MD_USER_DATA_SIZE + 10)
      (WellFormed.of_empty _ _ _ (by decide!) (by decide!) (by decide!) (by decide!)
        (by decide!))
      (by decide!) (by decide!) (by decide!) (by decide) (by decide!) (by decide!)).1⟩

/-- C6 (grow semantics): on a writable context with `file_status` SUCCESS that satisfies the
representation invariant, for a size `n` greater than the plaintext size `s` and within the
bound of the numbering, when every node fetch returns a node `pf_set_size n` returns
`SUCCESS`, `pf_get_size` then reports `n`, every plaintext byte at a logical offset from `s` to
`n` is zero and every byte below `s` is as before; and a following `pf_read` of a range within
`n` whose node fetches return their nodes returns `SUCCESS` and these bytes: zero from `s` on,
the old bytes below. -/
theorem grow_extends_with_zeros (env : Env) (hinv : AeadInverse env)
    (hcap : 10 ≤ env.MAX_PAGES_IN_CACHE) (hinit : env.g_initialized = true)
    (pf : pf_context_t) (h : Host) (n : Nat)
    (w : WellFormed env pf h) (hmode : mode_has pf.mode PF_FILE_MODE_WRITE = true)
    (hst : pf.file_status = SUCCESS) (hs : pf.encrypted_part_plain.size < n)
    (hb : n ≤ NO_WRAP)
    (hfetch : ipf_write_fetches env { pf with offset := pf.encrypted_part_plain.size } h none
      (n - pf.encrypted_part_plain.size) = true) :
    (pf_set_size env pf h n).1 = SUCCESS ∧
    pf_get_size env (pf_set_size env pf h n).2.1 = (SUCCESS, n) ∧
    (∀ x, pf.encrypted_part_plain.size ≤ x → x < n →
      plaintext_byte env (pf_set_size env pf h n).2.1 (pf_set_size env pf h n).2.2 x = 0) ∧
    (∀ x, x < pf.encrypted_part_plain.size →
      plaintext_byte env (pf_set_size env pf h n).2.1 (pf_set_size env pf h n).2.2 x
        = plaintext_byte env pf h x) ∧
    (∀ (o k : Nat) (out : Nat → Byte), 0 < k → o + k ≤ n →
      mode_has pf.mode PF_FILE_MODE_READ = true →
      ipf_read_fetches env
        { (pf_set_size env pf h n).2.1 with offset := o, end_of_file := false }
        (pf_set_size env pf h n).2.2 k = true →
      (pf_read env (pf_set_size env pf h n).2.1 (pf_set_size env pf h n).2.2 o k
        (some out)).1 = SUCCESS ∧
      ∃ out2, (pf_read env (pf_set_size env pf h n).2.1 (pf_set_size env pf h n).2.2 o k
          (some out)).2.1 = some out2 ∧
        ∀ i, i < k → out2 i =
          if o + i < pf.encrypted_part_plain.size then plaintext_byte env pf h (o + i)
          else 0) ∧
    WellFormed env (pf_set_size env pf h n).2.1 (pf_set_size env pf h n).2.2 := by
  obtain ⟨r1, r2, r3, r4, r5, r6, r7⟩ := pf_set_size_grows env hinv hcap hinit pf h n w hmode
    hst hs hb hfetch
  have hsz : (pf_set_size env pf h n).2.1.encrypted_part_plain.size = n := by
    have := r2
    unfold pf_get_size at this
    rw [if_neg (by rw [hinit]; simp)] at this
    exact congrArg Prod.snd this
  refine ⟨r1, r2, r3, r4, ?_, r5⟩
  intro o k out hk hok hread hrf
  obtain ⟨q1, ⟨out2, q2, q3, -⟩, -, -⟩ := pf_read_reads env hinv hcap hinit
    (pf_set_size env pf h n).2.1 (pf_set_size env pf h n).2.2 o k out r5
    (by rw [r7]; exact hread) r6 hk (by rw [hsz]; exact hok) hrf
  refine ⟨q1, out2, q2, ?_⟩
  intro i hi
  rw [q3 i hi]
  by_cases c : o + i < pf.encrypted_part_plain.size
  · rw [if_pos c]
    exact r4 _ c
  · rw [if_neg c]
    exact r3 _ (by omega) (by omega)

/-- The new file `a` set to the size `MD_USER_DATA_SIZE + 3 * PF_NODE_SIZE`: the call
returns `SUCCESS`, and the plaintext bytes up to the new size are zero. -/
theorem grow_extends_with_zeros_witness :
    example_created.1.encrypted_part_plain.size = 0 ∧
    ipf_write_fetches example_env
      { example_created.1 with offset := example_created.1.encrypted_part_plain.size }
      example_created.2 none
      (MD_USER_DATA_SIZE + 3 * PF_NODE_SIZE - example_created.1.encrypted_part_plain.size)
      = true ∧
    (pf_set_size example_env example_created.1 example_created.2
      (MD_USER_DATA_SIZE + 3 * PF_NODE_SIZE)).1 = SUCCESS ∧
    ∀ x, example_created.1.encrypted_part_plain.size ≤ x →
      x < MD_USER_DATA_SIZE + 3 * PF_NODE_SIZE →
      plaintext_byte example_env
        (pf_set_size example_env example_created.1 example_created.2
          (MD_USER_DATA_SIZE + 3 * PF_NODE_SIZE)).2.1
        (pf_set_size example_env example_created.1 example_created.2
          (MD_USER_DATA_SIZE + 3 * PF_NODE_SIZE)).2.2 x = 0 :=
  have t := grow_extends_with_zeros example_env example_env_aead_inverse (by decide) rfl
    example_created.1 example_created.2 (MD_USER_DATA_SIZE + 3 * PF_NODE_SIZE)
    (WellFormed.of_empty _ _ _ (by decide!) (by decide!) (by decide!) (by decide!)
      (by decide!))
    (by decide!) (by decide!) (by decide!) (by decide) (by decide!)
  ⟨by decide!, by decide!, t.1, t.2.2.1⟩

/-- C21: a seek on a context with `file_status` `SUCCESS`.

(a) To an offset within the plaintext size: it succeeds and sets the offset
(and clears the end-of-file flag); nothing else changes, so neither size nor
data.

(b) Beyond the size of a writable file: the context and host left are those of
`ipf_write` with a null input (zeros) of `off - size` bytes at the old end of
the file; when that writes all of them the seek returns true with
`plaintext_size = off` and `offset = off`; and a seek that returns true
(`hang = false`: no loop of the model ran out of fuel) has written all of
them.  The zero fill: when the context satisfies the representation invariant,
the offset is within the bound of the numbering and every node fetch of the
write returns a node, the seek returns true, every plaintext byte at a logical
offset from the old size up to `off` is zero, every plaintext byte below the
old size is as before, and the invariant is kept.

(c) Beyond the size of a file that is not writable: it fails with `last_error`
`INVALID_PARAMETER` and changes nothing else, so neither offset nor size.

`pf_read` seeks first: when its seek beyond the end succeeds, the size after
`pf_read` is the offset it was given. -/
theorem seek_semantics (env : Env) (pf : pf_context_t) (h : Host) (off : Nat)
    (hst : pf.file_status = SUCCESS) :
    (off ≤ pf.encrypted_part_plain.size →
      ipf_seek env pf h off = (true, { pf with offset := off, end_of_file := false }, h)) ∧
    (pf.encrypted_part_plain.size < off → mode_has pf.mode PF_FILE_MODE_WRITE = true →
      env.g_initialized = true →
      (ipf_seek env pf h off).2.2 =
        (ipf_write env { pf with offset := pf.encrypted_part_plain.size } h none
          (off - pf.encrypted_part_plain.size)).2.2 ∧
      ((ipf_write env { pf with offset := pf.encrypted_part_plain.size } h none
          (off - pf.encrypted_part_plain.size)).1 = off - pf.encrypted_part_plain.size →
        ipf_seek env pf h off =
          (true,
            { (ipf_write env { pf with offset := pf.encrypted_part_plain.size } h none
                (off - pf.encrypted_part_plain.size)).2.1 with end_of_file := false },
            (ipf_write env { pf with offset := pf.encrypted_part_plain.size } h none
              (off - pf.encrypted_part_plain.size)).2.2) ∧
        (ipf_seek env pf h off).2.1.encrypted_part_plain.size = off ∧
        (ipf_seek env pf h off).2.1.offset = off ∧
        ∀ (n : Nat) (out : Option (Nat → Byte)),
          (pf_read env pf h off n out).2.2.1.encrypted_part_plain.size = off) ∧
      ((ipf_seek env pf h off).1 = true → (ipf_seek env pf h off).2.1.hang = false →
        (ipf_write env { pf with offset := pf.encrypted_part_plain.size } h none
          (off - pf.encrypted_part_plain.size)).1 = off - pf.encrypted_part_plain.size) ∧
      (WellFormed env pf h → AeadInverse env → 10 ≤ env.MAX_PAGES_IN_CACHE →
        off ≤ NO_WRAP →
        ipf_write_fetches env { pf with offset := pf.encrypted_part_plain.size } h none
          (off - pf.encrypted_part_plain.size) = true →
        (ipf_seek env pf h off).1 = true ∧
        (∀ x, pf.encrypted_part_plain.size ≤ x → x < off →
          plaintext_byte env (ipf_seek env pf h off).2.1 (ipf_seek env pf h off).2.2 x = 0) ∧
        (∀ x, x < pf.encrypted_part_plain.size →
          plaintext_byte env (ipf_seek env pf h off).2.1 (ipf_seek env pf h off).2.2 x
            = plaintext_byte env pf h x) ∧
        WellFormed env (ipf_seek env pf h off).2.1 (ipf_seek env pf h off).2.2)) ∧
    (pf.encrypted_part_plain.size < off → mode_has pf.mode PF_FILE_MODE_WRITE = false →
      ipf_seek env pf h off = (false, { pf with last_error := INVALID_PARAMETER }, h)) := by
  refine ⟨fun ho => ipf_seek_within env pf h off hst ho, ?_, ?_⟩
  · intro ho hmode hg
    have eq := ipf_seek_beyond env pf h off hst ho hmode
    rw [if_pos hg] at eq
    have full :
        (ipf_write env { pf with offset := pf.encrypted_part_plain.size } h none
          (off - pf.encrypted_part_plain.size)).1 = off - pf.encrypted_part_plain.size →
        ipf_seek env pf h off =
          (true,
            { (ipf_write env { pf with offset := pf.encrypted_part_plain.size } h none
                (off - pf.encrypted_part_plain.size)).2.1 with end_of_file := false },
            (ipf_write env { pf with offset := pf.encrypted_part_plain.size } h none
              (off - pf.encrypted_part_plain.size)).2.2) ∧
        (ipf_seek env pf h off).2.1.encrypted_part_plain.size = off ∧
        (ipf_seek env pf h off).2.1.offset = off := by
      intro hw
      rw [if_pos (Or.inl hw)] at eq
      obtain ⟨-, a2, a3⟩ := ipf_write_account env
        { pf with offset := pf.encrypted_part_plain.size } h none
        (off - pf.encrypted_part_plain.size) (Nat.sub_ne_zero_of_lt ho) hst hmode (Nat.le_refl _)
      rw [hw] at a2
      dsimp only at a2 a3
      have e : pf.encrypted_part_plain.size + (off - pf.encrypted_part_plain.size) = off :=
        Nat.add_sub_cancel' (Nat.le_of_lt ho)
      rw [e] at a2
      rw [a2] at a3
      refine ⟨eq, ?_, ?_⟩
      · rw [eq]
        show (ipf_write env { pf with offset := pf.encrypted_part_plain.size } h none
          (off - pf.encrypted_part_plain.size)).2.1.encrypted_part_plain.size = off
        rw [a3]
        exact max_eq_right (Nat.le_of_lt ho)
      · rw [eq]
        exact a2
    refine ⟨?_, ?_, ?_, ?_⟩
    · rw [eq]
      split_ifs <;> rfl
    · intro hw
      obtain ⟨e1, e2, e3⟩ := full hw
      refine ⟨e1, e2, e3, ?_⟩
      intro n out
      unfold pf_read
      have g0 : (!env.g_initialized) = false := by rw [hg]; rfl
      rw [g0]
      simp only [Bool.false_eq_true, if_false]
      rw [e1]
      dsimp only
      rw [e1] at e2
      dsimp only at e2
      have := ipf_read_size env
        { (ipf_write env { pf with offset := pf.encrypted_part_plain.size } h none
            (off - pf.encrypted_part_plain.size)).2.1 with end_of_file := false }
        (ipf_write env { pf with offset := pf.encrypted_part_plain.size } h none
          (off - pf.encrypted_part_plain.size)).2.2 out n
      split_ifs <;> exact this.trans e2
    · intro hs hh
      by_contra hne
      obtain ⟨-, w2⟩ := ipf_write_verdict env { pf with offset := pf.encrypted_part_plain.size }
        h none (off - pf.encrypted_part_plain.size)
      rcases w2 with ⟨e, -⟩ | ⟨-, k⟩
      · exact hne e
      · by_cases e : (ipf_write env { pf with offset := pf.encrypted_part_plain.size } h none
            (off - pf.encrypted_part_plain.size)).2.1.last_error = SUCCESS
        · rw [if_pos (Or.inr e)] at eq
          rw [eq] at hh
          dsimp only at hh
          rcases k.2.1 with k1 | k1
          · exact k1 e
          · rw [hh] at k1
            exact absurd k1 (by decide)
        · rw [if_neg (fun x => x.elim hne e)] at eq
          rw [eq] at hs
          simp at hs
    · intro w hinv hcap hb hf
      obtain ⟨r1, -, -, r4, r5, r6⟩ := ipf_seek_zero_fills env hinv hcap hg pf h off w hmode
        hst ho hb hf
      exact ⟨r1, r4, r5, r6⟩
  · intro ho hmode
    unfold ipf_seek
    have f0 : PF_FAILURE pf.file_status = false := by rw [hst]; rfl
    rw [f0]
    simp only [Bool.false_eq_true, if_false]
    rw [if_neg (Nat.not_le.mpr ho), hmode]
    simp

/-- On the five-byte file: a seek to offset 2 succeeds and keeps the size; a
seek to offset 10 grows the file to 10 bytes.  On the new file `a`, of size 0: a seek to
`MD_USER_DATA_SIZE + PF_NODE_SIZE + 5` succeeds and every plaintext byte below that offset,
in the inline region and in data nodes 0 and 1, is zero. -/
theorem seek_semantics_witness :
    example_five_bytes.1.file_status = SUCCESS ∧
    example_five_bytes.1.encrypted_part_plain.size = 5 ∧
    (ipf_seek example_env example_five_bytes.1 example_five_bytes.2 2).1 = true ∧
    (ipf_seek example_env example_five_bytes.1 example_five_bytes.2 10).1 = true ∧
    (ipf_seek example_env example_five_bytes.1
      example_five_bytes.2 10).2.1.encrypted_part_plain.size = 10 ∧
    (ipf_seek example_env example_five_bytes.1 example_five_bytes.2 10).2.1.offset = 10 ∧
    example_created.1.encrypted_part_plain.size = 0 ∧
    (ipf_seek example_env example_created.1 example_created.2
      (MD_USER_DATA_SIZE + PF_NODE_SIZE + 5)).1 = true ∧
    ∀ x, example_created.1.encrypted_part_plain.size ≤ x →
      x < MD_USER_DATA_SIZE + PF_NODE_SIZE + 5 →
      plaintext_byte example_env
        (ipf_seek example_env example_created.1 example_created.2
          (MD_USER_DATA_SIZE + PF_NODE_SIZE + 5)).2.1
        (ipf_seek example_env example_created.1 example_created.2
          (MD_USER_DATA_SIZE + PF_NODE_SIZE + 5)).2.2 x = 0 :=
  have w := (seek_semantics example_env example_five_bytes.1 example_five_bytes.2 10
    (by decide!)).2.1 (by decide!) (by decide!) rfl
  have v := w.2.1 (by decide!)
  have z := ((seek_semantics example_env example_created.1 example_created.2
    (MD_USER_DATA_SIZE + PF_NODE_SIZE + 5) (by decide!)).2.1 (by decide!) (by decide!)
    rfl).2.2.2
    (WellFormed.of_empty _ _ _ (by decide!) (by decide!) (by decide!) (by decide!)
      (by decide!))
    example_env_aead_inverse (by decide) (by decide) (by decide!)
  ⟨by decide!, by decide!, by decide!, by rw [v.1], v.2.1, v.2.2.1, by decide!, z.1, z.2.1⟩

/-- A context with the same cache, root MHT and metadata node is in step with the same
disk. -/
theorem Imaged.i_congr {pf : pf_context_t} {h : Host} (m : Imaged pf h) (pf1 : pf_context_t)
    (hc : pf1.cache = pf.cache) (hr : pf1.root_mht = pf.root_mht)
    (hm : pf1.file_meta_data = pf.file_meta_data) : Imaged pf1 h :=
  { nodes := fun k n hn hnew => m.nodes k n (by rw [← hc]; exact hn) hnew
    root_key := by rw [hr]; exact m.root_key
    root := fun c => by
      rw [hr] at c ⊢
      exact m.root c
    flag := by rw [hm]; exact m.flag
    typed := m.typed }

theorem Mirror.m_congr {pf : pf_context_t} {h : Host} (m : Mirror pf h) (pf1 : pf_context_t)
    (hc : pf1.cache = pf.cache) (hr : pf1.root_mht = pf.root_mht)
    (hm : pf1.file_meta_data = pf.file_meta_data) : Mirror pf1 h :=
  ⟨m.imaged.i_congr pf1 hc hr hm, by rw [hm]; exact m.header⟩

/-- The function `write_to_data_node` changes no ciphertext and no `new_node` flag, so it
keeps the nodes in step with the disk. -/
theorem Stored.s_imaged {pf1 : pf_context_t} {d : Nat} {f : (Nat → Byte) → (Nat → Byte)}
    {stw : Nat} {pf5 : pf_context_t} (S : Stored pf1 d f stw pf5) (h : Host)
    (m : Imaged pf1 h) : Imaged pf5 h := by
  have hm : pf5.file_meta_data = pf1.file_meta_data :=
    congrArg (fun p => p.file_meta_data) S.frame
  refine
    { nodes := fun k n5 hn5 hnew => ?_
      root_key := by rw [S.root]; exact m.root_key
      root := fun c => by
        rw [S.root] at c ⊢
        exact m.root c
      flag := by rw [hm]; exact m.flag
      typed := m.typed }
  obtain ⟨n, hn⟩ := S.back k n5 hn5
  obtain ⟨n5', h5, -, -, -, -, e1, e2, -⟩ := S.fwd k n hn
  rw [hn5] at h5
  cases h5
  rw [e2]
  exact m.nodes k n hn (e1.symm.trans hnew)

theorem Stored.s_mirror {pf1 : pf_context_t} {d : Nat} {f : (Nat → Byte) → (Nat → Byte)}
    {stw : Nat} {pf5 : pf_context_t} (S : Stored pf1 d f stw pf5) (h : Host)
    (m : Mirror pf1 h) : Mirror pf5 h :=
  ⟨S.s_imaged h m.imaged, by
    rw [show pf5.file_meta_data = pf1.file_meta_data from
      congrArg (fun p => p.file_meta_data) S.frame]
    exact m.header⟩

/-- One turn of the data-node loop of `ipf_write` after a successful fetch keeps the nodes in
step with the disk, and the context a mirror of the disk when it is one. -/
theorem write_step_mirror (env : Env) (hinv : AeadInverse env)
    (hcap : 10 ≤ env.MAX_PAGES_IN_CACHE) (ptr : Option (Nat → Byte)) (pf : pf_context_t)
    (h : Host) (w : WellFormed env pf h) (hlo : MD_USER_DATA_SIZE ≤ pf.offset)
    (hhi : pf.offset ≤ pf.encrypted_part_plain.size) (written left : Nat)
    (p : NodePtr) (pf1 : pf_context_t) (h1 : Host)
    (hg : ipf_get_data_node env pf h = (some p, pf1, h1)) :
    (Imaged pf h → Imaged (write_to_data_node ptr pf1 p written left).1 h1) ∧
    (Mirror pf h → Mirror (write_to_data_node ptr pf1 p written left).1 h1) := by
  obtain ⟨d, hd⟩ : ∃ d, d = (pf.offset - MD_USER_DATA_SIZE) / PF_NODE_SIZE := ⟨_, rfl⟩
  obtain ⟨hp, G⟩ := ipf_get_data_node_got env hinv hcap pf h w.good w.ord w.settled hlo hhi d hd
    p pf1 h1 hg
  obtain ⟨nd, hnd⟩ := G.node
  have S := write_to_data_node_stored env ptr pf1 h1 d written left nd G.good hnd
  rw [← hp] at S
  exact ⟨fun m => S.s_imaged h1 (G.imaged m), fun m => S.s_mirror h1 (G.mirror m)⟩

/-- The data-node loop of `ipf_write`, when every fetch returns a node, keeps the nodes in step
with the disk, and the context a mirror of the disk when it is one. -/
theorem write_data_nodes_mirror (env : Env) (hinv : AeadInverse env)
    (hcap : 10 ≤ env.MAX_PAGES_IN_CACHE) (ptr : Option (Nat → Byte)) (fuel : Nat) :
    ∀ (pf : pf_context_t) (h : Host) (written left : Nat),
    WellFormed env pf h → MD_USER_DATA_SIZE ≤ pf.offset →
    pf.offset ≤ pf.encrypted_part_plain.size → pf.offset + left ≤ NO_WRAP → left ≤ fuel →
    write_fetches env ptr fuel pf h written left = true →
    (Imaged pf h → Imaged (write_data_nodes env ptr fuel pf h written left).2.1
      (write_data_nodes env ptr fuel pf h written left).2.2) ∧
    (Mirror pf h → Mirror (write_data_nodes env ptr fuel pf h written left).2.1
      (write_data_nodes env ptr fuel pf h written left).2.2) := by
  induction fuel with
  | zero =>
    intro pf h written left _ _ _ _ hf _
    have h0 : left = 0 := by omega
    subst h0
    rw [write_data_nodes_done]
    exact ⟨fun m => m, fun m => m⟩
  | succ fuel ih =>
    intro pf h written left w hlo hhi hb hf hfetch
    by_cases hl : left > 0
    · rcases hg : ipf_get_data_node env pf h with ⟨o, pf1, h1⟩
      cases o with
      | none =>
        rw [write_fetches_none env ptr fuel pf h written left pf1 h1 hl hg] at hfetch
        cases hfetch
      | some p =>
        obtain ⟨stw, hstw⟩ : ∃ stw, stw = min left
            (PF_NODE_SIZE - (pf.offset - MD_USER_DATA_SIZE) % PF_NODE_SIZE) := ⟨_, rfl⟩
        obtain ⟨s1, s2, s3, s4, -⟩ := write_step env hinv hcap ptr pf h w hlo hhi written left
          hl hb p pf1 h1 hg stw hstw
        obtain ⟨m1, m2⟩ := write_step_mirror env hinv hcap ptr pf h w hlo hhi written left
          p pf1 h1 hg
        rw [write_fetches_step env ptr fuel pf h written left p pf1 h1 hl hg] at hfetch
        rw [write_data_nodes_step env ptr fuel pf h written left p pf1 h1 hl hg]
        rw [s1] at hfetch ⊢
        have hmod : (pf.offset - MD_USER_DATA_SIZE) % PF_NODE_SIZE < PF_NODE_SIZE :=
          Nat.mod_lt _ (by unfold PF_NODE_SIZE; omega)
        have hstw1 : 0 < stw ∧ stw ≤ left := by omega
        obtain ⟨r1, r2⟩ := ih (write_to_data_node ptr pf1 p written left).1 h1
          (written + stw) (left - stw) s2 (by rw [s3]; omega)
          (by rw [s3, s4]; exact le_max_right _ _) (by rw [s3]; omega) (by omega) hfetch
        exact ⟨fun m => r1 (m1 m), fun m => r2 (m2 m)⟩
    · have h0 : left = 0 := by omega
      subst h0
      rw [write_data_nodes_done]
      exact ⟨fun m => m, fun m => m⟩

/-- The function `ipf_write`, when every fetch returns a node, keeps the nodes in step with the
disk, and the context a mirror of the disk when it is one. -/
theorem ipf_write_mirror (env : Env) (hinv : AeadInverse env)
    (hcap : 10 ≤ env.MAX_PAGES_IN_CACHE) (pf : pf_context_t) (h : Host)
    (ptr : Option (Nat → Byte)) (n : Nat) (w : WellFormed env pf h)
    (hmode : mode_has pf.mode PF_FILE_MODE_WRITE = true) (hst : pf.file_status = SUCCESS)
    (ho : pf.offset ≤ pf.encrypted_part_plain.size) (hn : 0 < n)
    (hb : pf.offset + n ≤ NO_WRAP) (hfetch : ipf_write_fetches env pf h ptr n = true) :
    (Imaged pf h → Imaged (ipf_write env pf h ptr n).2.1 (ipf_write env pf h ptr n).2.2) ∧
    (Mirror pf h → Mirror (ipf_write env pf h ptr n).2.1 (ipf_write env pf h ptr n).2.2) := by
  by_cases c : pf.offset < MD_USER_DATA_SIZE
  · obtain ⟨e, ef⟩ := ipf_write_eq env pf h ptr n (by omega) hst hmode (write_to_md ptr pf n)
      (by rw [if_pos c])
    rw [ef] at hfetch
    rw [e]
    dsimp only
    obtain ⟨z1, z2, z3, z4, z5, z6⟩ := write_to_md_spec ptr pf n
    obtain ⟨-, z8⟩ := write_to_md_data ptr pf n
    obtain ⟨m, hm⟩ : ∃ m, m = min n (MD_USER_DATA_SIZE - pf.offset) := ⟨_, rfl⟩
    rw [← hm] at z1 z2 z3
    rcases hmd : write_to_md ptr pf n with ⟨l0, pfm⟩
    rw [hmd] at z1 z2 z3 z4 z5 z6 z8 hfetch
    dsimp only at z1 z2 z3 z4 z5 z6 z8 hfetch ⊢
    have hm1 : 0 < m ∧ m ≤ n ∧ pf.offset + m ≤ MD_USER_DATA_SIZE := by omega
    have wm : WellFormed env pfm h := by
      refine w.grow pfm z5 z6 (by rw [z3]; exact le_max_left _ _) ?_ (fun _ => z8)
      rw [z3]
      exact max_le w.good.size_le (by omega)
    by_cases cl : l0 = 0
    · subst cl
      rw [write_data_nodes_done]
      exact ⟨fun i => i.i_congr pfm z5 z6 z4, fun i => i.m_congr pfm z5 z6 z4⟩
    · obtain ⟨r1, r2⟩ := write_data_nodes_mirror env hinv hcap ptr l0 pfm h
        (n - l0) l0 wm (by omega) (by rw [z2, z3]; exact le_max_right _ _) (by omega)
        (le_refl _) hfetch
      exact ⟨fun i => r1 (i.i_congr pfm z5 z6 z4), fun i => r2 (i.m_congr pfm z5 z6 z4)⟩
  · obtain ⟨e, ef⟩ := ipf_write_eq env pf h ptr n (by omega) hst hmode (n, pf)
      (by rw [if_neg c])
    rw [ef] at hfetch
    rw [e]
    dsimp only at hfetch ⊢
    exact write_data_nodes_mirror env hinv hcap ptr n pf h (n - n) n w (by omega) ho hb
      (le_refl _) hfetch

/-- A successful flush keeps the representation invariant and the nodes in step with the disk,
and leaves a mirror of the disk when there was something to write or the context was a mirror
before: it stores the ciphertext of every node it writes in the block of that node, and the
metadata node in block 0. -/
theorem ipf_internal_flush_mirrors (env : Env) (hinv : AeadInverse env) (pf : pf_context_t)
    (h : Host) (w : WellFormed env pf h) (hok : (ipf_internal_flush env pf h).1 = true) :
    WellFormed env (ipf_internal_flush env pf h).2.1 (ipf_internal_flush env pf h).2.2 ∧
    (Imaged pf h →
      Imaged (ipf_internal_flush env pf h).2.1 (ipf_internal_flush env pf h).2.2) ∧
    (Imaged pf h → (pf.need_writing = true ∨ h.file 0 = .meta pf.file_meta_data) →
      Mirror (ipf_internal_flush env pf h).2.1 (ipf_internal_flush env pf h).2.2) := by
  obtain ⟨pfT, F⟩ := ipf_internal_flush_flushed env pf h w.good hok
  have hst := ipf_internal_flush_stable env pf h
  have hsz := size_of_stable_eq _ _ hst
  refine ⟨⟨F.good w.good hinv hsz, F.ordered w.good w.ord, ?_⟩, fun m => F.fl_imaged w.good m,
    fun m hh => F.fl_mirror w.good m hh⟩
  intro k n1 hn1
  obtain ⟨n, hn, -, -, -, t1, t2, -⟩ := F.find k n1 hn1
  have s := w.settled k n hn
  unfold file_node_t.start at s ⊢
  rw [t1, t2, hsz]
  exact s

/-- The data-node loop of `ipf_read`, when every fetch returns a node, keeps the nodes in step
with the disk, and the context a mirror of the disk when it is one. -/
theorem read_data_nodes_mirror (env : Env) (hinv : AeadInverse env)
    (hcap : 10 ≤ env.MAX_PAGES_IN_CACHE) (fuel : Nat) :
    ∀ (pf : pf_context_t) (h : Host) (out : Nat → Byte) (done left : Nat),
    WellFormed env pf h → MD_USER_DATA_SIZE ≤ pf.offset →
    pf.offset + left ≤ pf.encrypted_part_plain.size → left ≤ fuel →
    read_fetches env fuel pf h left = true →
    (Imaged pf h → Imaged (read_data_nodes env fuel pf h out done left).2.2.1
      (read_data_nodes env fuel pf h out done left).2.2.2) ∧
    (Mirror pf h → Mirror (read_data_nodes env fuel pf h out done left).2.2.1
      (read_data_nodes env fuel pf h out done left).2.2.2) := by
  induction fuel with
  | zero =>
    intro pf h out done left _ _ _ hf _
    have h0 : left = 0 := by omega
    subst h0
    rw [read_data_nodes_done]
    exact ⟨fun m => m, fun m => m⟩
  | succ fuel ih =>
    intro pf h out done left w hlo hhi hf hfetch
    by_cases hl : left > 0
    · rcases hg : ipf_get_data_node env pf h with ⟨o, pf1, h1⟩
      cases o with
      | none =>
        rw [read_fetches_none env fuel pf h left pf1 h1 hl hg] at hfetch
        cases hfetch
      | some p =>
        obtain ⟨w1, sb1, st1, -⟩ := ipf_get_data_node_reads env hinv hcap pf h w hlo
          (by omega) p pf1 h1 hg
        obtain ⟨-, G⟩ := ipf_get_data_node_got env hinv hcap pf h w.good w.ord w.settled hlo
          (by omega) _ rfl p pf1 h1 hg
        have hoff : pf1.offset = pf.offset := offset_of_stable st1
        have hsz : pf1.encrypted_part_plain.size = pf.encrypted_part_plain.size := sb1.1
        obtain ⟨str, hstr⟩ : ∃ str, str = min left
            (PF_NODE_SIZE - (pf.offset - MD_USER_DATA_SIZE) % PF_NODE_SIZE) := ⟨_, rfl⟩
        rw [read_fetches_step env fuel pf h left p pf1 h1 hl hg str (by rw [hoff]; exact hstr)]
          at hfetch
        rw [read_data_nodes_step env fuel pf h out done left p pf1 h1 hl hg str
          (by rw [hoff]; exact hstr)]
        rw [hoff] at hfetch ⊢
        have hstr1 : 0 < str ∧ str ≤ left ∧
            (pf.offset - MD_USER_DATA_SIZE) % PF_NODE_SIZE + str ≤ PF_NODE_SIZE := by
          have : (pf.offset - MD_USER_DATA_SIZE) % PF_NODE_SIZE < PF_NODE_SIZE :=
            Nat.mod_lt _ (by unfold PF_NODE_SIZE; omega)
          omega
        have w2 : WellFormed env { pf1 with offset := pf.offset + str } h1 :=
          w1.with_offset _
        obtain ⟨r1, r2⟩ := ih { pf1 with offset := pf.offset + str } h1
          (memcpy out done (pf1.deref p).decrypted.as_data
            ((pf.offset - MD_USER_DATA_SIZE) % PF_NODE_SIZE) str)
          (done + str) (left - str) w2
          (by show MD_USER_DATA_SIZE ≤ pf.offset + str; omega)
          (by
            show pf.offset + str + (left - str) ≤ pf1.encrypted_part_plain.size
            rw [hsz]
            omega)
          (by omega) hfetch
        exact ⟨fun m => r1 ((G.imaged m).i_congr _ rfl rfl rfl),
          fun m => r2 ((G.mirror m).m_congr _ rfl rfl rfl)⟩
    · have h0 : left = 0 := by omega
      subst h0
      rw [read_data_nodes_done]
      exact ⟨fun m => m, fun m => m⟩

/-- The function `ipf_read`, when every fetch returns a node, keeps the nodes in step with the
disk, and the context a mirror of the disk when it is one. -/
theorem ipf_read_mirror (env : Env) (hinv : AeadInverse env)
    (hcap : 10 ≤ env.MAX_PAGES_IN_CACHE) (pf : pf_context_t) (h : Host) (out : Nat → Byte)
    (n : Nat) (w : WellFormed env pf h)
    (hmode : mode_has pf.mode PF_FILE_MODE_READ = true) (hst : pf.file_status = SUCCESS)
    (heof : pf.end_of_file = false) (ho : pf.offset < pf.encrypted_part_plain.size)
    (hn : 0 < n) (hfetch : ipf_read_fetches env pf h n = true) :
    (Imaged pf h → Imaged (ipf_read env pf h (some out) n).2.2.1
      (ipf_read env pf h (some out) n).2.2.2) ∧
    (Mirror pf h → Mirror (ipf_read env pf h (some out) n).2.2.1
      (ipf_read env pf h (some out) n).2.2.2) := by
  obtain ⟨left, hleft⟩ : ∃ left, left = min n (pf.encrypted_part_plain.size - pf.offset) :=
    ⟨_, rfl⟩
  have hleft1 : 0 < left ∧ pf.offset + left ≤ pf.encrypted_part_plain.size := by omega
  have key : ∀ (left0 : Nat) (out1 : Nat → Byte) (pf1 : pf_context_t),
      (left0, out1, pf1) =
        (if pf.offset < MD_USER_DATA_SIZE then
          (left - min left (MD_USER_DATA_SIZE - pf.offset),
            memcpy out 0 pf.encrypted_part_plain.data pf.offset
              (min left (MD_USER_DATA_SIZE - pf.offset)),
            { pf with offset := pf.offset + min left (MD_USER_DATA_SIZE - pf.offset) })
        else (left, out, pf)) →
      left0 ≤ left → pf1.offset = pf.offset + (left - left0) →
      (left0 = 0 ∨ MD_USER_DATA_SIZE ≤ pf1.offset) → WellFormed env pf1 h →
      pf1.encrypted_part_plain.size = pf.encrypted_part_plain.size →
      (Imaged pf h → Imaged pf1 h) → (Mirror pf h → Mirror pf1 h) →
      (Imaged pf h → Imaged (ipf_read env pf h (some out) n).2.2.1
        (ipf_read env pf h (some out) n).2.2.2) ∧
      (Mirror pf h → Mirror (ipf_read env pf h (some out) n).2.2.1
        (ipf_read env pf h (some out) n).2.2.2) := by
    intro left0 out1 pf1 hmd hle hoff1 hlo1 w1 hsz1 i1 m1
    obtain ⟨e, ef⟩ := ipf_read_eq env pf h out n hmode hst heof ho w.good.size_le hn left hleft
      left0 out1 pf1 hmd
    rw [ef] at hfetch
    have L : (Imaged pf1 h →
          Imaged (read_data_nodes env left0 pf1 h out1 (left - left0) left0).2.2.1
            (read_data_nodes env left0 pf1 h out1 (left - left0) left0).2.2.2) ∧
        (Mirror pf1 h →
          Mirror (read_data_nodes env left0 pf1 h out1 (left - left0) left0).2.2.1
            (read_data_nodes env left0 pf1 h out1 (left - left0) left0).2.2.2) := by
      rcases hlo1 with c | c
      · subst c
        rw [read_data_nodes_done]
        exact ⟨fun m => m, fun m => m⟩
      · exact read_data_nodes_mirror env hinv hcap left0 pf1 h out1 (left - left0) left0 w1 c
          (by rw [hoff1, hsz1]; omega) (le_refl _) hfetch
    obtain ⟨r1, r2⟩ := L
    rw [e]
    dsimp only
    constructor
    · intro m
      split_ifs
      · exact (r1 (i1 m)).i_congr _ rfl rfl rfl
      · exact r1 (i1 m)
    · intro m
      split_ifs
      · exact (r2 (m1 m)).m_congr _ rfl rfl rfl
      · exact r2 (m1 m)
  by_cases c : pf.offset < MD_USER_DATA_SIZE
  · refine key (left - min left (MD_USER_DATA_SIZE - pf.offset))
      (memcpy out 0 pf.encrypted_part_plain.data pf.offset
        (min left (MD_USER_DATA_SIZE - pf.offset)))
      { pf with offset := pf.offset + min left (MD_USER_DATA_SIZE - pf.offset) }
      (by rw [if_pos c]) (by omega) ?_ ?_ (w.with_offset _) rfl
      (fun m => m.i_congr _ rfl rfl rfl) (fun m => m.m_congr _ rfl rfl rfl)
    · show pf.offset + min left (MD_USER_DATA_SIZE - pf.offset) = _
      omega
    · show _ ∨ MD_USER_DATA_SIZE ≤ pf.offset + min left (MD_USER_DATA_SIZE - pf.offset)
      omega
  · exact key left out pf (by rw [if_neg c]) (le_refl _) (by omega) (Or.inr (by omega)) w
      rfl (fun m => m) (fun m => m)

/-- A `pf_read` of a range within the file, when every node fetch returns a node, keeps the
nodes in step with the disk, and the context a mirror of the disk when it is one. -/
theorem pf_read_mirrors (env : Env) (hinv : AeadInverse env)
    (hcap : 10 ≤ env.MAX_PAGES_IN_CACHE) (hinit : env.g_initialized = true)
    (pf : pf_context_t) (h : Host) (o k : Nat) (out : Nat → Byte) (w : WellFormed env pf h)
    (hmode : mode_has pf.mode PF_FILE_MODE_READ = true) (hst : pf.file_status = SUCCESS)
    (hk : 0 < k) (hok : o + k ≤ pf.encrypted_part_plain.size)
    (hfetch : ipf_read_fetches env { pf with offset := o, end_of_file := false } h k = true) :
    (Imaged pf h → Imaged (pf_read env pf h o k (some out)).2.2.1
      (pf_read env pf h o k (some out)).2.2.2) ∧
    (Mirror pf h → Mirror (pf_read env pf h o k (some out)).2.2.1
      (pf_read env pf h o k (some out)).2.2.2) := by
  have w1 : WellFormed env { pf with offset := o, end_of_file := false } h :=
    (w.with_offset o).with_eof false
  obtain ⟨r1, -⟩ := ipf_read_reads env hinv hcap
    { pf with offset := o, end_of_file := false } h out k w1 hmode hst rfl
    (by show o < pf.encrypted_part_plain.size; omega) hk hfetch
  obtain ⟨m1, m2⟩ := ipf_read_mirror env hinv hcap
    { pf with offset := o, end_of_file := false } h out k w1 hmode hst rfl
    (by show o < pf.encrypted_part_plain.size; omega) hk hfetch
  have hmin : min k (pf.encrypted_part_plain.size - o) = k := by omega
  dsimp only at r1
  rw [hmin] at r1
  have g0 : ¬ (!env.g_initialized) = true := by rw [hinit]; simp
  have hpr : pf_read env pf h o k (some out)
      = (SUCCESS,
          (ipf_read env { pf with offset := o, end_of_file := false } h (some out) k).2.1,
          (ipf_read env { pf with offset := o, end_of_file := false } h (some out) k).2.2.1,
          (ipf_read env { pf with offset := o, end_of_file := false } h (some out) k).2.2.2) := by
    unfold pf_read
    rw [if_neg g0, ipf_seek_within env pf h o hst (by omega)]
    dsimp only
    rw [if_neg (by rw [r1]; simp)]
  rw [hpr]
  exact ⟨fun m => m1 (m.i_congr _ rfl rfl rfl), fun m => m2 (m.m_congr _ rfl rfl rfl)⟩

/-- A `pf_set_size` to a larger size, when every node fetch returns a node, keeps the nodes in
step with the disk, and the context a mirror of the disk when it is one. -/
theorem pf_set_size_mirrors (env : Env) (hinv : AeadInverse env)
    (hcap : 10 ≤ env.MAX_PAGES_IN_CACHE) (hinit : env.g_initialized = true)
    (pf : pf_context_t) (h : Host) (n : Nat)
    (w : WellFormed env pf h) (hmode : mode_has pf.mode PF_FILE_MODE_WRITE = true)
    (hst : pf.file_status = SUCCESS) (hs : pf.encrypted_part_plain.size < n)
    (hb : n ≤ NO_WRAP)
    (hfetch : ipf_write_fetches env { pf with offset := pf.encrypted_part_plain.size } h none
      (n - pf.encrypted_part_plain.size) = true) :
    (Imaged pf h → Imaged (pf_set_size env pf h n).2.1 (pf_set_size env pf h n).2.2) ∧
    (Mirror pf h → Mirror (pf_set_size env pf h n).2.1 (pf_set_size env pf h n).2.2) := by
  obtain ⟨r1, -⟩ := ipf_write_zeros env hinv hcap pf h n w hmode hst hs hb hfetch
  obtain ⟨m1, m2⟩ := ipf_write_mirror env hinv hcap
    { pf with offset := pf.encrypted_part_plain.size } h none (n - pf.encrypted_part_plain.size)
    (w.with_offset _) hmode hst (le_refl _) (by omega)
    (by show pf.encrypted_part_plain.size + (n - pf.encrypted_part_plain.size) ≤ NO_WRAP; omega)
    hfetch
  have e := pf_set_size_beyond env pf h n hinit hmode hs
  rw [if_neg (by rw [r1]; simp)] at e
  rw [e]
  exact ⟨fun m => m1 (m.i_congr _ rfl rfl rfl), fun m => m2 (m.m_congr _ rfl rfl rfl)⟩

/-- Restoring the metadata key leaves the metadata node in memory as it is. -/
theorem ipf_restore_current_meta_data_key_meta (env : Env) (pf : pf_context_t) (h : Host) :
    (ipf_restore_current_meta_data_key env pf h).2.1.file_meta_data = pf.file_meta_data := by
  unfold ipf_restore_current_meta_data_key ipf_generate_secure_blob_from_user_kdk
  dsimp only
  simp only [Bool.not_true, Bool.false_eq_true, if_false]
  split_ifs <;> rfl

/-- A context with an empty cache whose root MHT, if not new, holds block 1, and whose
metadata node is block 0, mirrors the disk. -/
theorem Mirror.of_opened (pf : pf_context_t) (h : Host) (hc : pf.cache = [])
    (hk : pf.root_mht.physical_node_number = 1)
    (hr : pf.root_mht.new_node = false → h.file 1 = .node pf.root_mht.encrypted)
    (hf : pf.file_meta_data.plain_part.update_flag = 0)
    (ht : ∀ k, k ≠ 0 → h.file k = .node (h.file k).as_node)
    (hh : h.file 0 = .meta pf.file_meta_data) : Mirror pf h :=
  ⟨{ nodes := fun k n hn => by
       rw [hc] at hn
       cases hn
     root_key := hk
     root := hr
     flag := hf
     typed := ht }, hh⟩

/-- A successful `ipf_init_existing_file` on a context with an empty cache and the root MHT of
`ipf_init_fields`, of a file whose block 0 is a metadata block with a clear `update_flag` and
whose other blocks are node blocks, leaves a mirror of the disk: the metadata node in memory is
block 0, and the root MHT, when the file has one, holds block 1. -/
theorem ipf_init_existing_file_mirror (env : Env) (pf : pf_context_t) (h : Host)
    (path : Option Path) (hc : pf.cache = [])
    (hroot : pf.root_mht = ipf_init_fields.root_mht)
    (h0 : h.file 0 = .meta (h.file 0).as_meta)
    (hf : (h.file 0).as_meta.plain_part.update_flag = 0)
    (ht : ∀ k, k ≠ 0 → h.file k = .node (h.file k).as_node)
    (hok : (ipf_init_existing_file env pf h path).1 = true) :
    Mirror (ipf_init_existing_file env pf h path).2.1
      (ipf_init_existing_file env pf h path).2.2 ∧
    (ipf_init_existing_file env pf h path).2.1.cache = [] ∧
    (ipf_init_existing_file env pf h path).2.1.root_mht.need_writing = false ∧
    (ipf_init_existing_file env pf h path).2.1.root_mht.node_number = 0 ∧
    (ipf_init_existing_file env pf h path).2.1.root_mht.type = FILE_MHT_NODE_TYPE := by
  unfold ipf_init_existing_file at hok ⊢
  rcases hr : ipf_read_node env pf h 0 with ⟨b, pf0, h1⟩
  try rw [hr] at hok
  try rw [hr]
  cases b with
  | none => cases hok
  | some block =>
    obtain ⟨e1, e2, e3⟩ := ipf_read_node_some env pf h 0 block pf0 h1 hr
    have hb : block = h.file 0 := by
      rw [e2]
      simp
    subst e1
    try dsimp only at hok
    try dsimp only
    by_cases c1 : block.as_meta.plain_part.file_id ≠ env.PF_FILE_ID
    · rw [if_pos c1] at hok
      cases hok
    rw [if_neg c1] at hok ⊢
    by_cases c2 : block.as_meta.plain_part.major_version ≠ env.PF_MAJOR_VERSION
    · rw [if_pos c2] at hok
      cases hok
    rw [if_neg c2] at hok ⊢
    have c3 : ¬ block.as_meta.plain_part.update_flag = 1 := by
      rw [hb, hf]
      decide
    rw [if_neg c3] at hok ⊢
    try dsimp only at hok
    try dsimp only
    have k1 := ipf_generate_secure_blob_from_user_kdk_cache env
      { pf0 with file_meta_data := block.as_meta } h1 true
    have k2 := ipf_generate_secure_blob_from_user_kdk_root_mht env
      { pf0 with file_meta_data := block.as_meta } h1 true
    have k3 := ipf_restore_current_meta_data_key_meta env
      { pf0 with file_meta_data := block.as_meta } h1
    have k5 : (ipf_generate_secure_blob_from_user_kdk env
        { pf0 with file_meta_data := block.as_meta } h1 true).2.2.file = h1.file :=
      ipf_generate_secure_blob_from_user_kdk_same_file env
        { pf0 with file_meta_data := block.as_meta } h1 true
    unfold ipf_restore_current_meta_data_key at hok k3 ⊢
    rcases hk : ipf_generate_secure_blob_from_user_kdk env
      { pf0 with file_meta_data := block.as_meta } h1 true with ⟨bk, pf3, h3⟩
    try rw [hk] at hok
    try rw [hk] at k1
    try rw [hk] at k2
    try rw [hk] at k3
    try rw [hk] at k5
    try rw [hk]
    have k1' : pf3.cache = pf0.cache := k1
    have k2' : pf3.root_mht = pf0.root_mht := k2
    have k3' : pf3.file_meta_data = block.as_meta := k3
    have k5' : h3.file = h1.file := k5
    cases bk with
    | false => cases hok
    | true =>
      try dsimp only at hok
      try dsimp only
      have hcache : pf3.cache = [] := k1'.trans hc
      have hroot3 : pf3.root_mht = ipf_init_fields.root_mht := k2'.trans hroot
      have hfile3 : h3.file = h.file := k5'.trans e3
      have hflag3 : pf3.file_meta_data.plain_part.update_flag = 0 := by
        rw [k3', hb]
        exact hf
      have hhead3 : h3.file 0 = .meta pf3.file_meta_data := by
        rw [hfile3, k3', hb]
        exact h0
      have htyped3 : ∀ k, k ≠ 0 → h3.file k = .node (h3.file k).as_node := by
        intro k hk0
        rw [hfile3]
        exact ht k hk0
      have hkey3 : pf3.root_mht.physical_node_number = 1 := by
        rw [hroot3]
        rfl
      have hnw3 : pf3.root_mht.need_writing = false := by
        rw [hroot3]
        rfl
      have hnum3 : pf3.root_mht.node_number = 0 := by
        rw [hroot3]
        rfl
      have htype3 : pf3.root_mht.type = FILE_MHT_NODE_TYPE := by
        rw [hroot3]
        rfl
      have hnew3 : pf3.root_mht.new_node = false → False := by
        intro c
        rw [hroot3] at c
        cases c
      split_ifs at hok ⊢
      all_goals first
        | exact Bool.noConfusion hok
        | exact ⟨Mirror.of_opened _ _ hcache hkey3 (fun c => (hnew3 c).elim) hflag3 htyped3
            hhead3, hcache, hnw3, hnum3, htype3⟩
        | (rcases hr1 : ipf_read_node env _ h3 1 with ⟨b1, pf5, h5⟩
           try rw [hr1] at hok
           try rw [hr1]
           cases b1 with
           | none => exact Bool.noConfusion hok
           | some block1 =>
             obtain ⟨f1, f2, f3⟩ := ipf_read_node_some env _ h3 1 block1 pf5 h5 hr1
             have hb1 : block1 = h3.file 1 := by
               rw [f2]
               have : 1 * PF_NODE_SIZE % U64 / PF_NODE_SIZE = 1 := by
                 unfold PF_NODE_SIZE U64
                 norm_num
               rw [this]
             subst f1
             try dsimp only at hok
             try dsimp only
             split_ifs at hok ⊢
             all_goals first
               | exact Bool.noConfusion hok
               | exact ⟨Mirror.of_opened _ _ hcache hkey3
                 (fun _ => by
                   show h5.file 1 = .node block1.as_node
                   rw [f3, hb1]
                   exact htyped3 1 (by norm_num))
                 hflag3
                 (fun k hk0 => by
                   show h5.file k = .node (h5.file k).as_node
                   rw [f3]
                   exact htyped3 k hk0)
                 (by
                   show h5.file 0 = .meta pf3.file_meta_data
                   rw [f3]
                   exact hhead3), hcache, hnw3, hnum3, htype3⟩)

theorem ipf_open_out_fail (status : pf_status_t) (pf : pf_context_t) (h : Host)
    (hf : PF_FAILURE pf.last_error = true) : ipf_open_out status pf h = (none, status, h) := by
  unfold ipf_open_out
  rw [if_pos hf]

theorem ipf_open_out_some_ok {status : pf_status_t} {pf : pf_context_t} {h : Host}
    {st : pf_status_t} {pf1 : pf_context_t} {h1 : Host}
    (e : ipf_open_out status pf h = (some pf1, st, h1)) : PF_FAILURE pf.last_error = false := by
  cases hb : PF_FAILURE pf.last_error
  · rfl
  · rw [ipf_open_out_fail status pf h hb] at e
    cases e

theorem ipf_open_out_some_success {status : pf_status_t} {pf : pf_context_t} {h : Host}
    {st : pf_status_t} {pf1 : pf_context_t} {h1 : Host}
    (e : ipf_open_out status pf h = (some pf1, st, h1)) : pf.last_error = SUCCESS := by
  have := ipf_open_out_some_ok e
  unfold PF_FAILURE at this
  simpa using this

/-- The end of `ipf_open` for an existing file: what a context that is returned satisfies. -/
theorem ipf_open_existing_tail (env : Env) (pf4 : pf_context_t) (h1 : Host)
    (path : Option Path) (status : pf_status_t) (pf : pf_context_t) (st : pf_status_t)
    (h2 : Host) (hc : pf4.cache = []) (hroot : pf4.root_mht = ipf_init_fields.root_mht)
    (h0 : h1.file 0 = .meta (h1.file 0).as_meta)
    (hf : (h1.file 0).as_meta.plain_part.update_flag = 0)
    (ht : ∀ k, k ≠ 0 → h1.file k = .node (h1.file k).as_node)
    (e : (match ipf_init_existing_file env pf4 h1 path with
          | (false, pf5, h5) => ipf_open_out status pf5 h5
          | (true, pf5, h5) =>
            ipf_open_out status { pf5 with last_error := SUCCESS, file_status := SUCCESS } h5)
        = (some pf, st, h2)) :
    Mirror pf h2 ∧ pf.cache = [] ∧ pf.root_mht.need_writing = false ∧
    pf.root_mht.node_number = 0 ∧ pf.root_mht.type = FILE_MHT_NODE_TYPE := by
  have M := ipf_init_existing_file_mirror env pf4 h1 path hc hroot h0 hf ht
  have F := ipf_init_existing_file_false_fail env pf4 h1 path
  rcases hi : ipf_init_existing_file env pf4 h1 path with ⟨bi, pf5, h5⟩
  rw [hi] at M F
  try rw [hi] at e
  cases bi with
  | false =>
    dsimp only at e F
    rw [ipf_open_out_fail _ _ _ (F rfl)] at e
    cases e
  | true =>
    dsimp only at e M
    obtain ⟨rfl, rfl⟩ := ipf_open_out_some e
    obtain ⟨m, m1, m2, m3, m4⟩ := M rfl
    exact ⟨m.m_congr _ rfl rfl rfl, m1, m2, m3, m4⟩

/-- What `ipf_open` of an existing file leaves when it returns a context, for a file whose
block 0 is a metadata block with a clear `update_flag` and whose other blocks are node
blocks: a mirror of the disk with an empty cache and a clean root MHT. -/
theorem ipf_open_existing_mirror (env : Env) (h0 : Host) (path : Option Path)
    (mode : pf_file_mode_t) (file : Option pf_handle_t) (real_size : Nat)
    (kdk_key : Option pf_key_t) (enable_recovery : Bool)
    (pf : pf_context_t) (st : pf_status_t) (h1 : Host)
    (hb0 : h0.file 0 = .meta (h0.file 0).as_meta)
    (hf : (h0.file 0).as_meta.plain_part.update_flag = 0)
    (ht : ∀ k, k ≠ 0 → h0.file k = .node (h0.file k).as_node)
    (e : ipf_open env h0 path mode false file real_size kdk_key enable_recovery
      = (some pf, st, h1)) :
    Mirror pf h1 ∧ pf.cache = [] ∧ pf.root_mht.need_writing = false ∧
    pf.root_mht.node_number = 0 ∧ pf.root_mht.type = FILE_MHT_NODE_TYPE := by
  unfold ipf_open at e
  try dsimp only at e
  unfold alloc at e
  try dsimp only at e
  cases ha : env.alloc_ok h0.allocs
  · rw [ha] at e
    simp at e
  · rw [ha] at e
    try dsimp only at e
    cases kdk_key with
    | none =>
      try dsimp only at e
      exact absurd (ipf_open_out_some_success e) (fun hx => pf_status_t.noConfusion hx)
    | some kdk =>
      try dsimp only at e
      have k1 := ipf_init_session_master_key_cache env ipf_init_fields
        { h0 with allocs := h0.allocs + 1 }
      have k2 := ipf_init_session_master_key_root_mht env ipf_init_fields
        { h0 with allocs := h0.allocs + 1 }
      have k5 : (ipf_init_session_master_key env ipf_init_fields
          { h0 with allocs := h0.allocs + 1 }).2.2.file = h0.file :=
        ipf_init_session_master_key_same_file env ipf_init_fields
          { h0 with allocs := h0.allocs + 1 }
      have k6 := ipf_init_session_master_key_false_fail env ipf_init_fields
        { h0 with allocs := h0.allocs + 1 }
      split_ifs at e
      all_goals first
        | exact absurd rfl ‹¬(!false) = true›
        | exact absurd (ipf_open_out_some_success e) (fun hx => pf_status_t.noConfusion hx)
        | (rcases hk : ipf_init_session_master_key env ipf_init_fields
             { h0 with allocs := h0.allocs + 1 } with ⟨b, pf1, hh1⟩
           try rw [hk] at e
           rw [hk] at k1 k2 k5 k6
           have k1' : pf1.cache = [] := k1
           have k2' : pf1.root_mht = ipf_init_fields.root_mht := k2
           have k5' : hh1.file = h0.file := k5
           cases b with
           | false =>
             try dsimp only at e
             exact absurd (ipf_open_out_some_ok e) (by
               rw [show PF_FAILURE pf1.last_error = true from k6 rfl]
               decide)
           | true =>
             try dsimp only at e
             cases file with
             | none =>
               try dsimp only at e
               exact absurd (ipf_open_out_some_success e) (fun hx => pf_status_t.noConfusion hx)
             | some handle =>
               try dsimp only at e
               first
                 | exact absurd (ipf_open_out_some_success e) (fun hx => pf_status_t.noConfusion hx)
                 | (refine ipf_open_existing_tail env _ hh1 path _ pf st h1 ?_ ?_
                      (by rw [k5']; exact hb0) (by rw [k5']; exact hf)
                      (fun k hk0 => by rw [k5']; exact ht k hk0) e
                    · cases path with
                      | none => exact k1'
                      | some p =>
                        cases enable_recovery
                        · exact k1'
                        · exact k1'
                    · cases path with
                      | none => exact k2'
                      | some p =>
                        cases enable_recovery
                        · exact k2'
                        · exact k2'))

/-- A context that `pf_open` returns for an existing file whose block 0 is a metadata block
with a clear `update_flag` and whose other blocks are node blocks mirrors the disk, and
satisfies the representation invariant when its plaintext size is within the bound of the
numbering. -/
theorem pf_open_existing_state (env : Env) (h : Host) (handle : Option pf_handle_t)
    (path : Option Path) (underlying_size : Nat) (mode : pf_file_mode_t)
    (enable_recovery : Bool) (key : Option pf_key_t) (st : pf_status_t) (pf : pf_context_t)
    (h1 : Host)
    (hopen : pf_open env h handle path underlying_size mode false enable_recovery key
      = (st, some pf, h1))
    (hb0 : h.file 0 = .meta (h.file 0).as_meta)
    (hf : (h.file 0).as_meta.plain_part.update_flag = 0)
    (ht : ∀ k, k ≠ 0 → h.file k = .node (h.file k).as_node) :
    Mirror pf h1 ∧ (pf.encrypted_part_plain.size ≤ NO_WRAP → WellFormed env pf h1) := by
  unfold pf_open at hopen
  split_ifs at hopen
  · cases hopen
  · rcases ho : ipf_open env h path mode false handle underlying_size key enable_recovery
      with ⟨c, s, hh⟩
    rw [ho] at hopen
    cases hopen
    obtain ⟨m, e1, e2, e3, e4⟩ := ipf_open_existing_mirror env h path mode handle
      underlying_size key enable_recovery pf st h1 hb0 hf ht ho
    exact ⟨m, fun hs => WellFormed.of_empty env pf h1 (by rw [e1]; rfl) hs e3 e4 e2⟩

theorem ipf_generate_secure_blob_some (env : Env) (hcb : CallbacksSucceed env)
    (pf : pf_context_t) (h : Host) (key : pf_key_t) (label : List Char) (n : Nat)
    (hl : label.length ≤ MAX_LABEL_SIZE - 1) :
    ∃ k h1, ipf_generate_secure_blob env pf h key label n = (some k, pf, h1) := by
  unfold ipf_generate_secure_blob cb_random
  rw [if_neg (by omega)]
  simp [hcb.random, hcb.encrypt, PF_FAILURE]

theorem ipf_init_session_master_key_ok (env : Env) (hcb : CallbacksSucceed env)
    (pf : pf_context_t) (h : Host) : (ipf_init_session_master_key env pf h).1 = true := by
  unfold ipf_init_session_master_key
  obtain ⟨k, h1, e⟩ := ipf_generate_secure_blob_some env hcb pf h 0 MASTER_KEY_NAME 0
    (by decide)
  rw [e]

theorem ipf_derive_random_node_key_ok (env : Env) (hcb : CallbacksSucceed env)
    (pf : pf_context_t) (h : Host) (n : Nat) :
    (ipf_derive_random_node_key env pf h n).1 = true := by
  unfold ipf_derive_random_node_key
  dsimp only
  have key : ∀ (pf1 : pf_context_t) (h1 : Host),
      (match ipf_generate_secure_blob env pf1 h1 pf1.session_master_key RANDOM_KEY_NAME n with
        | (none, pf2, h2) => (false, pf2, h2)
        | (some k, pf2, h2) => (true, { pf2 with cur_key := k }, h2)).1 = true := by
    intro pf1 h1
    obtain ⟨k, h2, e⟩ := ipf_generate_secure_blob_some env hcb pf1 h1 pf1.session_master_key
      RANDOM_KEY_NAME n (by decide)
    rw [e]
  split_ifs with c
  · have hm := ipf_init_session_master_key_ok env hcb
      { pf with master_key_count := pf.master_key_count + 1 } h
    rcases hi : ipf_init_session_master_key env
      { pf with master_key_count := pf.master_key_count + 1 } h with ⟨b, pf1, h1⟩
    rw [hi] at hm
    cases b with
    | false => cases hm
    | true => exact key pf1 h1
  · exact key _ _

theorem update_data_nodes_ok (env : Env) (hcb : CallbacksSucceed env) (l : List NodePtr) :
    ∀ (pf : pf_context_t) (h : Host), (update_data_nodes env l pf h).1 = true := by
  induction l with
  | nil =>
    intro pf h
    rfl
  | cons p rest ih =>
    intro pf h
    unfold update_data_nodes
    dsimp only
    split_ifs with c
    · have hk := ipf_derive_random_node_key_ok env hcb pf h (pf.deref p).physical_node_number
      rcases hd : ipf_derive_random_node_key env pf h (pf.deref p).physical_node_number
        with ⟨b, pf1, h1⟩
      rw [hd] at hk
      cases b with
      | false => cases hk
      | true =>
        dsimp only
        have he := hcb.encrypt pf1.cur_key none (some (.data (pf.deref p).decrypted.as_data))
        rw [he]
        simp only [PF_FAILURE, ne_eq, not_true_eq_false, decide_False, Bool.false_eq_true,
          if_false]
        exact ih _ _
    · exact ih _ _

theorem update_mht_nodes_ok (env : Env) (hcb : CallbacksSucceed env) (l : List NodePtr) :
    ∀ (pf : pf_context_t) (h : Host), (update_mht_nodes env l pf h).1 = true := by
  induction l with
  | nil =>
    intro pf h
    rfl
  | cons p rest ih =>
    intro pf h
    unfold update_mht_nodes
    dsimp only
    have hk := ipf_derive_random_node_key_ok env hcb pf h (pf.deref p).physical_node_number
    rcases hd : ipf_derive_random_node_key env pf h (pf.deref p).physical_node_number
      with ⟨b, pf1, h1⟩
    rw [hd] at hk
    cases b with
    | false => cases hk
    | true =>
      dsimp only
      have he := hcb.encrypt pf1.cur_key none (some (.mht (pf.deref p).decrypted.as_mht))
      rw [he]
      simp only [PF_FAILURE, ne_eq, not_true_eq_false, decide_False, Bool.false_eq_true,
        if_false]
      exact ih _ _

theorem ipf_update_all_data_and_mht_nodes_ok (env : Env) (hcb : CallbacksSucceed env)
    (pf : pf_context_t) (h : Host) :
    (ipf_update_all_data_and_mht_nodes env pf h).1 = true := by
  unfold ipf_update_all_data_and_mht_nodes
  have h1 := update_data_nodes_ok env hcb (cache_ptrs pf) pf h
  rcases hd : update_data_nodes env (cache_ptrs pf) pf h with ⟨b, pf1, h1'⟩
  rw [hd] at h1
  cases b with
  | false => cases h1
  | true =>
    dsimp only
    have h2 := update_mht_nodes_ok env hcb
      (LISTP_SORT (fun a b => mht_sort (pf1.deref a) (pf1.deref b))
        (collect_mht_list pf1 (cache_ptrs pf1) [])) pf1 h1'
    rcases hm : update_mht_nodes env
      (LISTP_SORT (fun a b => mht_sort (pf1.deref a) (pf1.deref b))
        (collect_mht_list pf1 (cache_ptrs pf1) [])) pf1 h1' with ⟨b, pf2, h2'⟩
    rw [hm] at h2
    cases b with
    | false => cases h2
    | true =>
      dsimp only
      have hk := ipf_derive_random_node_key_ok env hcb pf2 h2' pf2.root_mht.physical_node_number
      rcases hr : ipf_derive_random_node_key env pf2 h2' pf2.root_mht.physical_node_number
        with ⟨b, pf3, h3⟩
      rw [hr] at hk
      cases b with
      | false => cases hk
      | true =>
        dsimp only
        have he := hcb.encrypt pf3.cur_key none (some (.mht pf3.root_mht.decrypted.as_mht))
        rw [he]
        simp only [PF_FAILURE, ne_eq, not_true_eq_false, decide_False, Bool.false_eq_true,
          if_false]

theorem ipf_update_meta_data_node_ok (env : Env) (hcb : CallbacksSucceed env)
    (pf : pf_context_t) (h : Host) : (ipf_update_meta_data_node env pf h).1 = true := by
  unfold ipf_update_meta_data_node ipf_generate_random_meta_data_key
    ipf_generate_secure_blob_from_user_kdk cb_random
  simp [hcb.random, hcb.encrypt, PF_FAILURE]

theorem write_dirty_nodes_ok (env : Env) (hcb : CallbacksSucceed env) (l : List NodePtr) :
    ∀ (pf : pf_context_t) (h : Host), (write_dirty_nodes env l pf h).1 = true := by
  induction l with
  | nil =>
    intro pf h
    rfl
  | cons p rest ih =>
    intro pf h
    unfold write_dirty_nodes
    dsimp only
    split_ifs with c
    · exact ih _ _
    · have hw := (ipf_write_node_ok env pf h (pf.deref p).physical_node_number
        (.node (pf.deref p).encrypted) hcb.io).1
      rcases hd : ipf_write_node env pf h (pf.deref p).physical_node_number
        (.node (pf.deref p).encrypted) with ⟨b, pf1, h1⟩
      rw [hd] at hw
      cases b with
      | false => cases hw
      | true => exact ih _ _

theorem ipf_write_all_changes_to_disk_ok (env : Env) (hcb : CallbacksSucceed env)
    (pf : pf_context_t) (h : Host) : (ipf_write_all_changes_to_disk env pf h).1 = true := by
  unfold ipf_write_all_changes_to_disk
  dsimp only
  split_ifs with c
  · have h1 := write_dirty_nodes_ok env hcb (cache_ptrs pf) pf h
    rcases hd : write_dirty_nodes env (cache_ptrs pf) pf h with ⟨b, pf1, h1'⟩
    rw [hd] at h1
    cases b with
    | false => cases h1
    | true =>
      dsimp only
      have hw := (ipf_write_node_ok env pf1 h1' 1 (.node pf1.root_mht.encrypted) hcb.io).1
      rcases hr : ipf_write_node env pf1 h1' 1 (.node pf1.root_mht.encrypted) with ⟨b, pf2, h2⟩
      rw [hr] at hw
      cases b with
      | false => cases hw
      | true => exact (ipf_write_node_ok env _ h2 0 _ hcb.io).1
  · exact (ipf_write_node_ok env pf h 0 _ hcb.io).1

theorem ipf_set_update_flag_ok (env : Env) (hcb : CallbacksSucceed env)
    (pf : pf_context_t) (h : Host) : (ipf_set_update_flag env pf h).1 = true := by
  unfold ipf_set_update_flag
  dsimp only
  have hw := (ipf_write_node_ok env (pf.with_update_flag 1) h 0
    (.meta (pf.with_update_flag 1).file_meta_data) hcb.io).1
  rcases hr : ipf_write_node env (pf.with_update_flag 1) h 0
    (.meta (pf.with_update_flag 1).file_meta_data) with ⟨b, pf2, h2⟩
  rw [hr] at hw
  cases b with
  | false => cases hw
  | true => rfl

/-- With succeeding callbacks a flush of a context whose cached nodes have distinct physical
numbers succeeds. -/
theorem ipf_internal_flush_ok (env : Env) (hcb : CallbacksSucceed env)
    (pf : pf_context_t) (h : Host)
    (hk : (pf.cache.map (fun m => m.physical_node_number)).Nodup) :
    (ipf_internal_flush env pf h).1 = true := by
  have tail : ∀ (pf1 : pf_context_t) (h1 : Host),
      (match ipf_update_meta_data_node env pf1 h1 with
        | (false, pf2, h2) =>
          match ipf_clear_update_flag env pf2 h2 with
          | (pf3, h3) => (false, { pf3 with file_status := CRYPTO_ERROR }, h3)
        | (true, pf2, h2) =>
          match ipf_write_all_changes_to_disk env pf2 h2 with
          | (false, pf3, h3) => (false, { pf3 with file_status := WRITE_TO_DISK_FAILED }, h3)
          | (true, pf3, h3) => (true, { pf3 with need_writing := false }, h3)).1 = true := by
    intro pf1 h1
    have hm := ipf_update_meta_data_node_ok env hcb pf1 h1
    rcases hd : ipf_update_meta_data_node env pf1 h1 with ⟨b, pf2, h2⟩
    rw [hd] at hm
    cases b with
    | false => cases hm
    | true =>
      dsimp only
      have hw := ipf_write_all_changes_to_disk_ok env hcb pf2 h2
      rcases hd2 : ipf_write_all_changes_to_disk env pf2 h2 with ⟨b, pf3, h3⟩
      rw [hd2] at hw
      cases b with
      | false => cases hw
      | true => rfl
  have mid : ∀ (pf1 : pf_context_t) (h1 : Host),
      (match
        (match ipf_set_update_flag env pf1 h1 with
          | (false, pf2, h2) => (false, { pf2 with file_status := FLUSH_ERROR }, h2)
          | (true, pf2, h2) =>
            match ipf_update_all_data_and_mht_nodes env pf2 h2 with
            | (false, pf3, h3) =>
              match ipf_clear_update_flag env pf3 h3 with
              | (pf4, h4) => (false, { pf4 with file_status := CRYPTO_ERROR }, h4)
            | (true, pf3, h3) => (true, pf3, h3) : Bool × pf_context_t × Host) with
        | (false, pf1, h1) => (false, pf1, h1)
        | (true, pf1, h1) =>
          match ipf_update_meta_data_node env pf1 h1 with
          | (false, pf2, h2) =>
            match ipf_clear_update_flag env pf2 h2 with
            | (pf3, h3) => (false, { pf3 with file_status := CRYPTO_ERROR }, h3)
          | (true, pf2, h2) =>
            match ipf_write_all_changes_to_disk env pf2 h2 with
            | (false, pf3, h3) => (false, { pf3 with file_status := WRITE_TO_DISK_FAILED }, h3)
            | (true, pf3, h3) => (true, { pf3 with need_writing := false }, h3)).1 = true := by
    intro pf1 h1
    have hs := ipf_set_update_flag_ok env hcb pf1 h1
    rcases hd : ipf_set_update_flag env pf1 h1 with ⟨b, pf2, h2⟩
    rw [hd] at hs
    cases b with
    | false => cases hs
    | true =>
      dsimp only
      have hu := ipf_update_all_data_and_mht_nodes_ok env hcb pf2 h2
      rcases hd2 : ipf_update_all_data_and_mht_nodes env pf2 h2 with ⟨b, pf3, h3⟩
      rw [hd2] at hu
      cases b with
      | false => cases hu
      | true => exact tail pf3 h3
  unfold ipf_internal_flush
  dsimp only
  split_ifs with c1 c2 c3
  · rfl
  · rw [ipf_write_recovery_file_ok env hcb.io pf h c3 hk]
    exact mid _ _
  · exact mid _ _
  · exact tail _ _

/-- With succeeding callbacks the eviction loop succeeds when it is given two iterations for
every node over the capacity of the cache. -/
theorem evict_nodes_ok (env : Env) (hcb : CallbacksSucceed env) (k : Nat) :
    ∀ (pf : pf_context_t) (h : Host) (fuel : Nat),
      lruc_size pf.cache - env.MAX_PAGES_IN_CACHE ≤ k → 2 * k ≤ fuel →
      (∀ n ∈ pf.cache, n.need_writing = true →
        pf.root_mht.need_writing = true ∧ pf.need_writing = true) →
      (pf.root_mht.need_writing = true →
        pf.need_writing = true ∧ pf.encrypted_part_plain.size > MD_USER_DATA_SIZE) →
      (pf.cache.map (fun x => x.physical_node_number)).Nodup →
      (evict_nodes env fuel pf h).1 = true := by
  induction k with
  | zero =>
    intro pf h fuel hk _ _ _ _
    have hle : lruc_size pf.cache ≤ env.MAX_PAGES_IN_CACHE := by omega
    rw [evict_nodes_of_le env fuel pf h hle]
  | succ k ih =>
    intro pf h fuel hk hf hA hJ hK
    by_cases hgt : lruc_size pf.cache > env.MAX_PAGES_IN_CACHE
    · obtain ⟨f1, rfl⟩ : ∃ f1, fuel = f1 + 1 := ⟨fuel - 1, by omega⟩
      have hne : pf.cache ≠ [] := by
        intro e
        rw [e] at hgt
        simp [lruc_size] at hgt
      have hlast : lruc_get_last pf.cache = some (pf.cache.getLast hne) :=
        List.getLast?_eq_getLast _ hne
      have u : evict_nodes env (f1 + 1) pf h
          = (if !(pf.cache.getLast hne).need_writing then
              evict_nodes env f1 { pf with cache := lruc_remove_last pf.cache } h
            else
              match ipf_internal_flush env pf h with
              | (false, pf1, h1) =>
                (false,
                  { pf1 with file_status :=
                      if pf1.file_status = SUCCESS then FLUSH_ERROR else pf1.file_status }, h1)
              | (true, pf1, h1) => evict_nodes env f1 pf1 h1) := by
        conv => lhs; unfold evict_nodes
        rw [if_pos hgt]
        dsimp only
        rw [hlast]
        try rfl
      rw [u]
      cases hnw : (pf.cache.getLast hne).need_writing
      · simp only [Bool.not_false, if_true]
        exact ih { pf with cache := lruc_remove_last pf.cache } h f1
          (by
            unfold lruc_remove_last lruc_size at *
            dsimp only
            rw [List.length_dropLast]
            omega)
          (by omega)
          (fun n hn hd => hA n (List.mem_of_mem_dropLast hn) hd) hJ
          (by
            unfold lruc_remove_last
            dsimp only
            rw [List.dropLast_eq_take, List.map_take]
            exact hK.sublist (List.take_sublist _ _))
      · simp only [Bool.not_true, Bool.false_eq_true, if_false]
        have hok := ipf_internal_flush_ok env hcb pf h hK
        have hcl := ipf_internal_flush_cleans env pf h hA hJ hK
        rcases hc : ipf_internal_flush env pf h with ⟨b, pf1, h1⟩
        rw [hc] at hok hcl
        cases b
        · cases hok
        · dsimp only at hcl ⊢
          obtain ⟨-, -, c3, c4, -⟩ := hcl rfl
          have hlen : lruc_size pf1.cache = lruc_size pf.cache := by
            have := congrArg List.length c4
            unfold pf_context_t.cache_flags at this
            simpa [lruc_size] using this
          rw [evict_nodes_clean env f1 pf1 h1 c3 (by omega)]
    · have hle : lruc_size pf.cache ≤ env.MAX_PAGES_IN_CACHE := by omega
      rw [evict_nodes_of_le env fuel pf h hle]

/-- With succeeding callbacks the eviction loop of `ipf_get_data_node` succeeds on a state
that satisfies the invariant. -/
theorem evict_nodes_good (env : Env) (hcb : CallbacksSucceed env) (pf : pf_context_t)
    (h : Host) (g : Good env pf h) :
    (evict_nodes env (2 * lruc_size pf.cache) pf h).1 = true := by
  refine evict_nodes_ok env hcb (lruc_size pf.cache) pf h _ (by omega) (le_refl _) ?_
    g.root_dirty g.keys
  intro n hn hd
  have hf := lruc_find_of_mem pf.cache n hn g.keys
  have hr := (g.dirty_up _ n hf hd).2
  exact ⟨hr, (g.root_dirty hr).1⟩

theorem failure_ne_success (s : pf_status_t) (hs : PF_FAILURE s = true) : s ≠ SUCCESS := by
  unfold PF_FAILURE at hs
  simpa using hs

/-- With succeeding callbacks, `ipf_read_mht_node` on a node that is not in the cache, after
the fetch of the parent, fails exactly when the block of the node does not authenticate under
the entry in the parent, and then records the status of the decryption. -/
theorem ipf_read_mht_node_miss (env : Env) (hcb : CallbacksSucceed env) (fuel : Nat)
    (pf : pf_context_t) (h : Host) (m : Nat) (hm : m ≠ 0)
    (hf : lruc_find pf.cache (mht_physical_node_number m) = none)
    (pp : NodePtr) (pf1 : pf_context_t) (h1 : Host)
    (hrec : ipf_read_mht_node env fuel pf h ((m - 1) / CHILD_MHT_NODES_COUNT)
      = (some pp, pf1, h1)) :
    (PF_FAILURE (env.aes_gcm_decrypt
        ((pf1.deref pp).decrypted.as_mht.mht_nodes_crypto
          ((m - 1) % CHILD_MHT_NODES_COUNT)).key
        (h1.file (mht_physical_node_number m * PF_NODE_SIZE % U64 / PF_NODE_SIZE)).as_node
        ((pf1.deref pp).decrypted.as_mht.mht_nodes_crypto
          ((m - 1) % CHILD_MHT_NODES_COUNT)).gmac).1 = true →
      ∃ pf2 h2, ipf_read_mht_node env (fuel + 1) pf h m = (none, pf2, h2) ∧
        pf2.last_error ≠ SUCCESS) ∧
    (PF_FAILURE (env.aes_gcm_decrypt
        ((pf1.deref pp).decrypted.as_mht.mht_nodes_crypto
          ((m - 1) % CHILD_MHT_NODES_COUNT)).key
        (h1.file (mht_physical_node_number m * PF_NODE_SIZE % U64 / PF_NODE_SIZE)).as_node
        ((pf1.deref pp).decrypted.as_mht.mht_nodes_crypto
          ((m - 1) % CHILD_MHT_NODES_COUNT)).gmac).1 = false →
      ∃ p pf2 h2, ipf_read_mht_node env (fuel + 1) pf h m = (some p, pf2, h2)) := by
  unfold ipf_read_mht_node
  rw [if_neg hm]
  dsimp only
  rw [hf]
  dsimp only
  rw [hrec]
  dsimp only
  unfold alloc ipf_read_node cb_read
  simp only [hcb.alloc, hcb.io, PF_FAILURE, ne_eq, not_true_eq_false, decide_False,
    Bool.false_eq_true, if_false, Host.tick]
  constructor
  · intro hst
    exact ⟨_, _, if_pos hst, failure_ne_success _ hst⟩
  · intro hst
    exact ⟨_, _, _, if_neg (by rw [hst]; exact Bool.false_ne_true)⟩

theorem ipf_read_mht_node_root (env : Env) (fuel : Nat) (pf : pf_context_t) (h : Host) :
    ipf_read_mht_node env fuel pf h 0 = (some .root, pf, h) := by
  cases fuel <;> (unfold ipf_read_mht_node; rw [if_pos rfl])

theorem ipf_read_mht_node_hit (env : Env) (fuel : Nat) (pf : pf_context_t) (h : Host)
    (m : Nat) (hm : m ≠ 0) (n : file_node_t)
    (hf : lruc_find pf.cache (mht_physical_node_number m) = some n) :
    ipf_read_mht_node env fuel pf h m = (some (.cached (mht_physical_node_number m)), pf, h) := by
  cases fuel <;> (unfold ipf_read_mht_node; rw [if_neg hm]; dsimp only; rw [hf])

theorem ipf_read_mht_node_parent_none (env : Env) (fuel : Nat) (pf : pf_context_t) (h : Host)
    (m : Nat) (hm : m ≠ 0) (hf : lruc_find pf.cache (mht_physical_node_number m) = none)
    (pf1 : pf_context_t) (h1 : Host)
    (hrec : ipf_read_mht_node env fuel pf h ((m - 1) / CHILD_MHT_NODES_COUNT)
      = (none, pf1, h1)) :
    ipf_read_mht_node env (fuel + 1) pf h m = (none, pf1, h1) := by
  unfold ipf_read_mht_node
  rw [if_neg hm]
  dsimp only
  rw [hf]
  dsimp only
  rw [hrec]

/-- With succeeding callbacks, `ipf_read_mht_node` of an MHT node of the file, given at least
as many levels as the number of the node, returns the node, or fails with a failure code
recorded, and then the node or one of the MHT nodes above it is part of the file and not
safe. -/
theorem ipf_read_mht_node_total (env : Env) (hcb : CallbacksSucceed env) (fuel : Nat) :
    ∀ (pf : pf_context_t) (h : Host) (m : Nat) (T : file_node_t → Prop),
    Good env pf h → OrdExcept T pf.cache → (m = 0 ∨ live_mht pf.encrypted_part_plain.size m) →
    m ≤ fuel →
    (∃ p pf2 h2, ipf_read_mht_node env fuel pf h m = (some p, pf2, h2)) ∨
    (∃ pf2 h2, ipf_read_mht_node env fuel pf h m = (none, pf2, h2) ∧
      pf2.last_error ≠ SUCCESS ∧ ∃ j, mht_up j m ≠ 0 ∧
        live_mht pf.encrypted_part_plain.size (mht_up j m) ∧
        ¬ SafeMht env pf h (mht_up j m)) := by
  induction fuel with
  | zero =>
    intro pf h m T _ _ _ hle
    have h0 : m = 0 := by omega
    subst h0
    exact Or.inl ⟨_, _, _, ipf_read_mht_node_root env 0 pf h⟩
  | succ fuel ih =>
    intro pf h m T g o hl hle
    by_cases h0 : m = 0
    · subst h0
      exact Or.inl ⟨_, _, _, ipf_read_mht_node_root env _ pf h⟩
    · rcases hf : lruc_find pf.cache (mht_physical_node_number m) with _ | n
      · have hlive : live_mht pf.encrypted_part_plain.size m := hl.resolve_left h0
        have hm50 := live_mht_lt _ m hlive g.size_le
        have hpl : (m - 1) / CHILD_MHT_NODES_COUNT = 0 ∨
            live_mht pf.encrypted_part_plain.size ((m - 1) / CHILD_MHT_NODES_COUNT) := by
          by_cases c : (m - 1) / CHILD_MHT_NODES_COUNT = 0
          · exact Or.inl c
          · exact Or.inr (live_mht_parent _ m h0 hlive c)
        have hlt : (m - 1) / CHILD_MHT_NODES_COUNT < m := by
          unfold CHILD_MHT_NODES_COUNT
          omega
        rcases ih pf h _ T g o hpl (by omega) with ⟨pp, pf1, h1, hrec⟩ |
            ⟨pf1, h1, hrec, herr, j, hj, hjl, hns⟩
        · obtain ⟨hpp, hres, F⟩ := ipf_read_mht_node_fetch env fuel pf h _ T g o hpl pp pf1 h1
            hrec
          have hx : lruc_find pf1.cache (mht_physical_node_number m) = none := by
            rcases hf1 : lruc_find pf1.cache (mht_physical_node_number m) with _ | n1
            · rfl
            · rcases F.new _ n1 hf1 with c | c
              · rw [hf] at c
                cases c
              · obtain ⟨ht, hnum⟩ := F.good.find_mht m hm50 n1 hf1
                rw [hnum] at c
                omega
          obtain ⟨hfail, hsucc⟩ := ipf_read_mht_node_miss env hcb fuel pf h m h0 hf pp pf1 h1
            hrec
          rw [mht_block_index m (live_mht_lt44 _ m hlive g.size_le)] at hfail hsucc
          cases hst : PF_FAILURE (env.aes_gcm_decrypt
              ((pf1.deref pp).decrypted.as_mht.mht_nodes_crypto
                ((m - 1) % CHILD_MHT_NODES_COUNT)).key
              (h1.file (mht_physical_node_number m)).as_node
              ((pf1.deref pp).decrypted.as_mht.mht_nodes_crypto
                ((m - 1) % CHILD_MHT_NODES_COUNT)).gmac).1
          · exact Or.inl (hsucc hst)
          · obtain ⟨pf2, h2, e, herr⟩ := hfail hst
            refine Or.inr ⟨pf2, h2, e, herr, 0, h0, hlive, fun s => ?_⟩
            have s1 := F.safe_mht m h0 hlive s hx
            have he : mht_entry env pf1 h1 m
                = (pf1.deref pp).decrypted.as_mht.mht_nodes_crypto
                    ((m - 1) % CHILD_MHT_NODES_COUNT) := by
              unfold mht_entry
              rw [mht_plain_deref env pf1 h1 _ (by rw [← hpp]; exact hres), ← hpp]
            rw [he] at s1
            exact failure_ne_success _ hst s1
        · refine Or.inr ⟨pf1, h1,
            ipf_read_mht_node_parent_none env fuel pf h m h0 hf pf1 h1 hrec, herr, j + 1, ?_, ?_,
            ?_⟩
          · rw [← mht_up_step]
            exact hj
          · rw [← mht_up_step]
            exact hjl
          · rw [← mht_up_step]
            exact hns
      · exact Or.inl ⟨_, _, _, ipf_read_mht_node_hit env _ pf h m h0 n hf⟩

theorem ipf_append_mht_node_some (env : Env) (hcb : CallbacksSucceed env) (pf : pf_context_t)
    (h : Host) (m : Nat) (pp : NodePtr) (pf1 : pf_context_t) (h1 : Host)
    (hrec : ipf_read_mht_node env m pf h ((m - 1) / CHILD_MHT_NODES_COUNT)
      = (some pp, pf1, h1)) :
    ∃ p pf2 h2, ipf_append_mht_node env pf h m = (some p, pf2, h2) := by
  unfold ipf_append_mht_node
  rw [hrec]
  dsimp only
  unfold alloc
  simp only [hcb.alloc]
  exact ⟨_, _, _, rfl⟩

theorem ipf_append_mht_node_none (env : Env) (pf : pf_context_t)
    (h : Host) (m : Nat) (pf1 : pf_context_t) (h1 : Host)
    (hrec : ipf_read_mht_node env m pf h ((m - 1) / CHILD_MHT_NODES_COUNT)
      = (none, pf1, h1)) :
    ipf_append_mht_node env pf h m = (none, pf1, h1) := by
  unfold ipf_append_mht_node
  rw [hrec]

/-- With succeeding callbacks, `ipf_get_mht_node` at an offset within the file beyond the
inline region returns the MHT node of the offset, or fails with a failure code recorded, and
then that MHT node or one of the MHT nodes above it is part of the file and not safe. -/
theorem ipf_get_mht_node_total (env : Env) (hcb : CallbacksSucceed env) (pf : pf_context_t)
    (h : Host) (T : file_node_t → Prop) (g : Good env pf h) (o : OrdExcept T pf.cache)
    (hlo : MD_USER_DATA_SIZE ≤ pf.offset) (hhi : pf.offset ≤ pf.encrypted_part_plain.size)
    (m : Nat)
    (hm : m = (pf.offset - MD_USER_DATA_SIZE) / PF_NODE_SIZE / ATTACHED_DATA_NODES_COUNT) :
    (∃ p pf2 h2, ipf_get_mht_node env pf h = (some p, pf2, h2)) ∨
    (∃ pf2 h2, ipf_get_mht_node env pf h = (none, pf2, h2) ∧
      pf2.last_error ≠ SUCCESS ∧ ∃ j, mht_up j m ≠ 0 ∧
        live_mht pf.encrypted_part_plain.size (mht_up j m) ∧
        ¬ SafeMht env pf h (mht_up j m)) := by
  obtain ⟨-, e2, -, -, hm44⟩ := get_node_numbers_eq pf.offset hlo (le_trans hhi g.size_le)
  rw [← hm] at e2 hm44
  unfold ipf_get_mht_node
  rw [if_neg (not_lt.mpr hlo)]
  dsimp only
  rw [e2]
  by_cases h0 : m = 0
  · rw [if_pos h0]
    exact Or.inl ⟨_, _, _, rfl⟩
  · rw [if_neg h0]
    have hlt : (m - 1) / CHILD_MHT_NODES_COUNT < m := by
      unfold CHILD_MHT_NODES_COUNT
      omega
    have hstart : MD_USER_DATA_SIZE + m * ATTACHED_DATA_NODES_COUNT * PF_NODE_SIZE
        ≤ pf.offset := by
      clear e2
      unfold ATTACHED_DATA_NODES_COUNT PF_NODE_SIZE MD_USER_DATA_SIZE at *
      omega
    by_cases happ : (pf.offset - MD_USER_DATA_SIZE) % (ATTACHED_DATA_NODES_COUNT * PF_NODE_SIZE)
        = 0 ∧ pf.offset = pf.encrypted_part_plain.size
    · rw [if_pos happ]
      have hstart_eq : MD_USER_DATA_SIZE + m * ATTACHED_DATA_NODES_COUNT * PF_NODE_SIZE
          = pf.encrypted_part_plain.size := by
        rw [← happ.2]
        have := happ.1
        clear e2
        unfold ATTACHED_DATA_NODES_COUNT PF_NODE_SIZE MD_USER_DATA_SIZE at *
        omega
      have hpl : (m - 1) / CHILD_MHT_NODES_COUNT = 0 ∨
          live_mht pf.encrypted_part_plain.size ((m - 1) / CHILD_MHT_NODES_COUNT) := by
        by_cases c : (m - 1) / CHILD_MHT_NODES_COUNT = 0
        · exact Or.inl c
        · right
          unfold live_mht
          rw [← hstart_eq]
          unfold ATTACHED_DATA_NODES_COUNT PF_NODE_SIZE CHILD_MHT_NODES_COUNT at *
          omega
      rcases ipf_read_mht_node_total env hcb m pf h _ T g o hpl (by omega) with
          ⟨pp, pf1, h1, hrec⟩ | ⟨pf1, h1, hrec, herr, j, hj, hjl, hns⟩
      · exact Or.inl (ipf_append_mht_node_some env hcb pf h m pp pf1 h1 hrec)
      · refine Or.inr ⟨pf1, h1, ipf_append_mht_node_none env pf h m pf1 h1 hrec, herr,
          j + 1, ?_, ?_, ?_⟩
        · rw [← mht_up_step]
          exact hj
        · rw [← mht_up_step]
          exact hjl
        · rw [← mht_up_step]
          exact hns
    · rw [if_neg happ]
      have hlive : live_mht pf.encrypted_part_plain.size m := by
        unfold live_mht
        by_cases c : pf.offset = pf.encrypted_part_plain.size
        · have hne : (pf.offset - MD_USER_DATA_SIZE) % (ATTACHED_DATA_NODES_COUNT * PF_NODE_SIZE)
              ≠ 0 := fun e => happ ⟨e, c⟩
          rw [← c]
          clear e2 happ
          unfold ATTACHED_DATA_NODES_COUNT PF_NODE_SIZE MD_USER_DATA_SIZE at *
          omega
        · omega
      exact ipf_read_mht_node_total env hcb m pf h m T g o (Or.inr hlive) (le_refl _)

theorem lruc_get_none (c : List file_node_t) (k : Nat) (hf : lruc_find c k = none) :
    lruc_get c k = (none, c) := by
  unfold lruc_get
  rw [hf]

theorem lruc_get_some (c : List file_node_t) (k : Nat) (y : file_node_t)
    (hf : lruc_find c k = some y) : ∃ c1, lruc_get c k = (some y, c1) := by
  unfold lruc_get
  rw [hf]
  exact ⟨_, rfl⟩

/-- With succeeding callbacks, `ipf_read_data_node` on a node that is not in the cache, after
the fetch of its MHT node, fails exactly when the block of the node does not authenticate
under the entry in the MHT node, and then records the status of the decryption. -/
theorem ipf_read_data_node_miss (env : Env) (hcb : CallbacksSucceed env)
    (pf : pf_context_t) (h : Host)
    (hf : lruc_find pf.cache (get_node_numbers pf.offset).physical_data_node_number = none)
    (pp : NodePtr) (pf1 : pf_context_t) (h1 : Host)
    (hrec : ipf_get_mht_node env pf h = (some pp, pf1, h1)) :
    (PF_FAILURE (env.aes_gcm_decrypt
        ((pf1.deref pp).decrypted.as_mht.data_nodes_crypto
          ((get_node_numbers pf.offset).data_node_number % ATTACHED_DATA_NODES_COUNT)).key
        (h1.file ((get_node_numbers pf.offset).physical_data_node_number * PF_NODE_SIZE % U64
          / PF_NODE_SIZE)).as_node
        ((pf1.deref pp).decrypted.as_mht.data_nodes_crypto
          ((get_node_numbers pf.offset).data_node_number % ATTACHED_DATA_NODES_COUNT)).gmac).1
        = true →
      ∃ pf2 h2, ipf_read_data_node env pf h = (none, pf2, h2) ∧ pf2.last_error ≠ SUCCESS) ∧
    (PF_FAILURE (env.aes_gcm_decrypt
        ((pf1.deref pp).decrypted.as_mht.data_nodes_crypto
          ((get_node_numbers pf.offset).data_node_number % ATTACHED_DATA_NODES_COUNT)).key
        (h1.file ((get_node_numbers pf.offset).physical_data_node_number * PF_NODE_SIZE % U64
          / PF_NODE_SIZE)).as_node
        ((pf1.deref pp).decrypted.as_mht.data_nodes_crypto
          ((get_node_numbers pf.offset).data_node_number % ATTACHED_DATA_NODES_COUNT)).gmac).1
        = false →
      ∃ p pf2 h2, ipf_read_data_node env pf h = (some p, pf2, h2)) := by
  unfold ipf_read_data_node
  dsimp only
  rw [lruc_get_none _ _ hf]
  dsimp only
  rw [hrec]
  dsimp only
  unfold alloc ipf_read_node cb_read
  simp only [hcb.alloc, hcb.io, PF_FAILURE, ne_eq, not_true_eq_false, decide_False,
    Bool.false_eq_true, if_false, Host.tick]
  constructor
  · intro hst
    exact ⟨_, _, if_pos hst, failure_ne_success _ hst⟩
  · intro hst
    exact ⟨_, _, _, if_neg (by rw [hst]; exact Bool.false_ne_true)⟩

theorem ipf_read_data_node_none (env : Env) (pf : pf_context_t) (h : Host)
    (hf : lruc_find pf.cache (get_node_numbers pf.offset).physical_data_node_number = none)
    (pf1 : pf_context_t) (h1 : Host) (hrec : ipf_get_mht_node env pf h = (none, pf1, h1)) :
    ipf_read_data_node env pf h = (none, pf1, h1) := by
  unfold ipf_read_data_node
  dsimp only
  rw [lruc_get_none _ _ hf]
  dsimp only
  rw [hrec]

theorem ipf_read_data_node_hit (env : Env) (pf : pf_context_t) (h : Host) (y : file_node_t)
    (hf : lruc_find pf.cache (get_node_numbers pf.offset).physical_data_node_number = some y) :
    ∃ p pf2 h2, ipf_read_data_node env pf h = (some p, pf2, h2) := by
  unfold ipf_read_data_node
  dsimp only
  obtain ⟨c1, e⟩ := lruc_get_some _ _ y hf
  rw [e]
  exact ⟨_, _, _, rfl⟩

theorem ipf_append_data_node_some (env : Env) (hcb : CallbacksSucceed env) (pf : pf_context_t)
    (h : Host) (pp : NodePtr) (pf1 : pf_context_t) (h1 : Host)
    (hrec : ipf_get_mht_node env pf h = (some pp, pf1, h1)) :
    ∃ p pf2 h2, ipf_append_data_node env pf h = (some p, pf2, h2) := by
  unfold ipf_append_data_node
  rw [hrec]
  dsimp only
  unfold alloc
  simp only [hcb.alloc]
  exact ⟨_, _, _, rfl⟩

theorem ipf_append_data_node_none (env : Env) (pf : pf_context_t)
    (h : Host) (pf1 : pf_context_t) (h1 : Host)
    (hrec : ipf_get_mht_node env pf h = (none, pf1, h1)) :
    ipf_append_data_node env pf h = (none, pf1, h1) := by
  unfold ipf_append_data_node
  rw [hrec]

/-- The fetch of `ipf_get_data_node`: the reading or the appending of the data node at the
offset. -/
theorem data_fetch_total (env : Env) (hcb : CallbacksSucceed env) (pf : pf_context_t)
    (h : Host) (T : file_node_t → Prop) (g : Good env pf h) (o : OrdExcept T pf.cache)
    (hset : Settled pf) (hlo : MD_USER_DATA_SIZE ≤ pf.offset)
    (hhi : pf.offset ≤ pf.encrypted_part_plain.size)
    (d : Nat) (hd : d = (pf.offset - MD_USER_DATA_SIZE) / PF_NODE_SIZE) :
    (∃ p pf2 h2,
      (if (pf.offset - MD_USER_DATA_SIZE) % PF_NODE_SIZE = 0
          ∧ pf.offset = pf.encrypted_part_plain.size then ipf_append_data_node env pf h
        else ipf_read_data_node env pf h) = (some p, pf2, h2)) ∨
    (∃ pf2 h2,
      (if (pf.offset - MD_USER_DATA_SIZE) % PF_NODE_SIZE = 0
          ∧ pf.offset = pf.encrypted_part_plain.size then ipf_append_data_node env pf h
        else ipf_read_data_node env pf h) = (none, pf2, h2) ∧
      pf2.last_error ≠ SUCCESS ∧ ¬ LiveSafeAt env pf h d) := by
  obtain ⟨e1, e2, e3, hd50, hm44⟩ := get_node_numbers_eq pf.offset hlo (le_trans hhi g.size_le)
  rw [← hd] at e1 e2 e3 hd50 hm44
  have hmt := ipf_get_mht_node_total env hcb pf h T g o hlo hhi
    (d / ATTACHED_DATA_NODES_COUNT) (by rw [hd])
  by_cases happ : (pf.offset - MD_USER_DATA_SIZE) % PF_NODE_SIZE = 0
      ∧ pf.offset = pf.encrypted_part_plain.size
  · rw [if_pos happ]
    rcases hmt with ⟨pp, pf1, h1, hrec⟩ | ⟨pf1, h1, hrec, herr, j, hj, hjl, hns⟩
    · exact Or.inl (ipf_append_data_node_some env hcb pf h pp pf1 h1 hrec)
    · exact Or.inr ⟨pf1, h1, ipf_append_data_node_none env pf h pf1 h1 hrec, herr,
        fun s => hns (s.2 j hj hjl)⟩
  · rw [if_neg happ]
    have hlive : live_data pf.encrypted_part_plain.size d := by
      unfold live_data
      clear e1 e2 e3
      unfold PF_NODE_SIZE MD_USER_DATA_SIZE at *
      omega
    rcases hf : lruc_find pf.cache (data_physical_node_number d) with _ | y
    · have hf' : lruc_find pf.cache (get_node_numbers pf.offset).physical_data_node_number
          = none := by rw [e3]; exact hf
      rcases hmt with ⟨pp, pf1, h1, hrec⟩ | ⟨pf1, h1, hrec, herr, j, hj, hjl, hns⟩
      · obtain ⟨hpp, hres, F⟩ := ipf_get_mht_node_fetch env pf h T g o hset hlo hhi
          (d / ATTACHED_DATA_NODES_COUNT) (by rw [hd]) pp pf1 h1 hrec
        have hx : lruc_find pf1.cache (data_physical_node_number d) = none := by
          rcases hf1 : lruc_find pf1.cache (data_physical_node_number d) with _ | n1
          · rfl
          · obtain ⟨ht, hnum⟩ := F.good.find_data d n1 hf1
            rcases F.new _ n1 hf1 with c | c
            · rw [hf] at c
              cases c
            · rw [c.1] at ht
              cases ht
        obtain ⟨hfail, hsucc⟩ := ipf_read_data_node_miss env hcb pf h hf' pp pf1 h1 hrec
        rw [e1, e3, data_block_index d hd50] at hfail hsucc
        cases hst : PF_FAILURE (env.aes_gcm_decrypt
            ((pf1.deref pp).decrypted.as_mht.data_nodes_crypto
              (d % ATTACHED_DATA_NODES_COUNT)).key
            (h1.file (data_physical_node_number d)).as_node
            ((pf1.deref pp).decrypted.as_mht.data_nodes_crypto
              (d % ATTACHED_DATA_NODES_COUNT)).gmac).1
        · exact Or.inl (hsucc hst)
        · obtain ⟨pf2, h2, e, herr⟩ := hfail hst
          refine Or.inr ⟨pf2, h2, e, herr, fun s => ?_⟩
          have s1 := F.safe_data d hlive (s.1 hlive) hx
          have he : data_entry env pf1 h1 d
              = (pf1.deref pp).decrypted.as_mht.data_nodes_crypto
                  (d % ATTACHED_DATA_NODES_COUNT) := by
            unfold data_entry
            rw [mht_plain_deref env pf1 h1 _ (by rw [← hpp]; exact hres), ← hpp]
          rw [he] at s1
          exact failure_ne_success _ hst s1
      · exact Or.inr ⟨pf1, h1, ipf_read_data_node_none env pf h hf' pf1 h1 hrec, herr,
          fun s => hns (s.2 j hj hjl)⟩
    · exact Or.inl (ipf_read_data_node_hit env pf h y (by rw [e3]; exact hf))

theorem evict_nodes_keeps_error (env : Env) (fuel : Nat) (pf : pf_context_t) (h : Host)
    (he : pf.last_error ≠ SUCCESS) : (evict_nodes env fuel pf h).2.1.last_error ≠ SUCCESS := by
  have v := evict_nodes_verdict env fuel pf h
  unfold EvictVerdict at v
  cases hb : (evict_nodes env fuel pf h).1
  · rw [hb] at v
    simp only [Bool.false_eq_true, if_false] at v
    rcases v.2 with c | c
    · exact c.2
    · rw [c.2.2]
      exact he
  · rw [hb] at v
    simp only [if_true] at v
    rw [v.2.2.1]
    exact he

/-- With succeeding callbacks, `ipf_get_data_node` at an offset within the file beyond the
inline region, on a state that satisfies the representation invariant, returns the data node
of the offset, or fails with a failure code recorded, and then the data node or one of the MHT
nodes above it is part of the file and not safe. -/
theorem ipf_get_data_node_total (env : Env) (hcb : CallbacksSucceed env) (pf : pf_context_t)
    (h : Host) (w : WellFormed env pf h) (hlo : MD_USER_DATA_SIZE ≤ pf.offset)
    (hhi : pf.offset ≤ pf.encrypted_part_plain.size)
    (d : Nat) (hd : d = (pf.offset - MD_USER_DATA_SIZE) / PF_NODE_SIZE) :
    (∃ p pf3 h3, ipf_get_data_node env pf h = (some p, pf3, h3)) ∨
    (∃ pf3 h3, ipf_get_data_node env pf h = (none, pf3, h3) ∧
      pf3.last_error ≠ SUCCESS ∧ ¬ LiveSafeAt env pf h d) := by
  have g := w.good
  have o := w.ord
  have hset := w.settled
  obtain ⟨-, -, -, hd50, hm44⟩ := get_node_numbers_eq pf.offset hlo (le_trans hhi g.size_le)
  rw [← hd] at hd50 hm44
  unfold ipf_get_data_node
  rw [if_neg (not_lt.mpr hlo)]
  dsimp only
  rcases data_fetch_total env hcb pf h (fun _ => False) g o hset hlo hhi d hd with
      ⟨p, pf1, h1, hfetch⟩ | ⟨pf1, h1, hfetch, herr, hns⟩
  · have hF : p = .cached (data_physical_node_number d) ∧
        Fetch env pf h pf1 h1 (fun a => False ∨ ParentOnPath (d / ATTACHED_DATA_NODES_COUNT) a)
          (FetchedNode pf.encrypted_part_plain.size d) ∧
        ∃ x c, pf1.cache = x :: c ∧ x.physical_node_number = data_physical_node_number d := by
      by_cases happ : (pf.offset - MD_USER_DATA_SIZE) % PF_NODE_SIZE = 0
          ∧ pf.offset = pf.encrypted_part_plain.size
      · rw [if_pos happ] at hfetch
        exact ipf_append_data_node_fetch env pf h _ g o hset hlo happ d hd p pf1 h1 hfetch
      · rw [if_neg happ] at hfetch
        exact ipf_read_data_node_fetch env pf h _ g o hset hlo hhi happ d hd p pf1 h1 hfetch
    obtain ⟨hp, F, x, c, hc, hxk⟩ := hF
    have hfx : lruc_find pf1.cache (data_physical_node_number d) = some x := by
      rw [hc]
      exact lruc_find_head x c _ hxk
    obtain ⟨hxt, hxn⟩ := F.good.find_data d x hfx
    have hderef : pf1.deref p = x := by
      rw [hp]
      exact (resident_of_find pf1 _ x hfx).2
    obtain ⟨pp1, pp2, pp3⟩ := F.good.parent_facts _ x hfx
    have hpn : x.parent_number = d / ATTACHED_DATA_NODES_COUNT := by
      unfold file_node_t.parent_number
      rw [hxt, hxn]
    rw [hpn] at pp1 pp3
    have hL : d / ATTACHED_DATA_NODES_COUNT < 32 ^ 9 := by
      have : (32 : Nat) ^ 9 = 2 ^ 45 := by norm_num
      omega
    have hpres : pf1.resident (mht_ptr (d / ATTACHED_DATA_NODES_COUNT)) = true := by
      rw [← pp1]
      exact F.good.pinned _ x hfx
    obtain ⟨⟨c2, b1⟩, b2, b3, -, -, -⟩ := bump_parents_spec env h1
      (d / ATTACHED_DATA_NODES_COUNT) pf1 (d / ATTACHED_DATA_NODES_COUNT) 9 (le_refl _) hL
      (by omega) F.good hpres (F.ord.o_mono (fun a _ ha => ha.resolve_left id))
    rw [b1] at b2 b3
    have b2' : ∀ k, lruc_find c2 k = lruc_find pf1.cache k := b2
    have g2 : Good env { pf1 with cache := c2 } h1 := F.good.congr _ h1 b2' b3 rfl rfl rfl rfl
    have hev := evict_nodes_good env hcb { pf1 with cache := c2 } h1 g2
    rw [hfetch]
    dsimp only
    rw [hderef, pp3, pp1, b1]
    rcases he : evict_nodes env (2 * lruc_size c2) { pf1 with cache := c2 } h1 with ⟨b, pf3, h3⟩
    have he' : evict_nodes env (2 * lruc_size ({ pf1 with cache := c2 } : pf_context_t).cache)
        { pf1 with cache := c2 } h1 = (b, pf3, h3) := he
    rw [he'] at hev
    cases b with
    | false => cases hev
    | true => exact Or.inl ⟨_, _, _, rfl⟩
  · rw [hfetch]
    dsimp only
    have hk := evict_nodes_keeps_error env (2 * lruc_size pf1.cache) pf1 h1 herr
    rcases he : evict_nodes env (2 * lruc_size pf1.cache) pf1 h1 with ⟨b, pf3, h3⟩
    rw [he] at hk
    cases b with
    | false => exact Or.inr ⟨_, _, rfl, hk, hns⟩
    | true => exact Or.inr ⟨_, _, rfl, hk, hns⟩

/-- The MHT nodes below the root on the way up from a cached data node are in the cache. -/
theorem Good.path_cached {env : Env} {pf : pf_context_t} {h : Host} (g : Good env pf h)
    (d : Nat) (nd : file_node_t)
    (hf : lruc_find pf.cache (data_physical_node_number d) = some nd) (j : Nat) :
    mht_up j (d / ATTACHED_DATA_NODES_COUNT) ≠ 0 →
    ∃ n, lruc_find pf.cache (mht_physical_node_number (mht_up j (d / ATTACHED_DATA_NODES_COUNT)))
        = some n := by
  have hpar := g.tree.data_parent d nd hf
  induction j with
  | zero =>
    intro h0
    have h0' : d / ATTACHED_DATA_NODES_COUNT ≠ 0 := h0
    have hp := g.pinned _ nd hf
    rw [hpar, mht_ptr_pos _ h0'] at hp
    exact ⟨_, find_of_resident pf _ hp⟩
  | succ j ih =>
    intro h0
    have hj : mht_up j (d / ATTACHED_DATA_NODES_COUNT) ≠ 0 := by
      intro c
      apply h0
      show (mht_up j (d / ATTACHED_DATA_NODES_COUNT) - 1) / CHILD_MHT_NODES_COUNT = 0
      rw [c]
      rfl
    obtain ⟨n, hn⟩ := ih hj
    have hb : mht_up j (d / ATTACHED_DATA_NODES_COUNT) < 2 ^ 50 := by
      have := (g.number_lt _ nd hf).2
      have e := mht_up_le j (d / ATTACHED_DATA_NODES_COUNT)
      obtain ⟨ht, hnum⟩ := g.find_data d nd hf
      unfold file_node_t.parent_number at this
      rw [ht, hnum] at this
      dsimp only at this
      omega
    obtain ⟨ht, hnum⟩ := g.find_mht _ hb n hn
    have hpn : n.parent = mht_ptr (mht_up (j + 1) (d / ATTACHED_DATA_NODES_COUNT)) := by
      have := (g.shape _ n hn).2.1
      unfold file_node_t.parent_ptr file_node_t.parent_number at this
      rw [ht, hnum] at this
      exact this
    have hp := g.pinned _ n hn
    rw [hpn, mht_ptr_pos _ h0] at hp
    exact ⟨_, find_of_resident pf _ hp⟩

/-- A cached data node is safe, with the MHT nodes above it: they are all in the cache. -/
theorem Good.safe_at_cached {env : Env} {pf : pf_context_t} {h : Host} (g : Good env pf h)
    (d : Nat) (nd : file_node_t)
    (hf : lruc_find pf.cache (data_physical_node_number d) = some nd) : SafeAt env pf h d := by
  refine ⟨fun hn => ?_, fun j hj hn => ?_⟩
  · rw [hf] at hn
    cases hn
  · obtain ⟨n, e⟩ := g.path_cached d nd hf j hj
    rw [e] at hn
    cases hn

/-- The MHT nodes below the root on the way up from a data node of the file are MHT nodes of
the file. -/
theorem live_mht_up (S d : Nat) (hl : live_data S d) (j : Nat) :
    mht_up j (d / ATTACHED_DATA_NODES_COUNT) ≠ 0 →
    live_mht S (mht_up j (d / ATTACHED_DATA_NODES_COUNT)) := by
  induction j with
  | zero =>
    intro h0
    exact live_data_parent S d hl h0
  | succ j ih =>
    intro h0
    have hj : mht_up j (d / ATTACHED_DATA_NODES_COUNT) ≠ 0 := by
      intro c
      apply h0
      show (mht_up j (d / ATTACHED_DATA_NODES_COUNT) - 1) / CHILD_MHT_NODES_COUNT = 0
      rw [c]
      rfl
    exact live_mht_parent S _ hj (ih hj) h0

/-- A successful `ipf_get_data_node` keeps a data node of the file safe, with the MHT nodes
above it. -/
theorem Got.safe_at {env : Env} {pf : pf_context_t} {h : Host} {d0 : Nat}
    {pf1 : pf_context_t} {h1 : Host} (G : Got env pf h d0 pf1 h1) (d : Nat)
    (hl : live_data pf.encrypted_part_plain.size d) (s : SafeAt env pf h d) :
    SafeAt env pf1 h1 d :=
  ⟨G.safe_data d hl s.1, fun j hj => G.safe_mht _ hj (live_mht_up _ d hl j hj) (s.2 j hj)⟩

/-- A state with the same cached nodes, the same root MHT plaintext and the same disk has the
same safe nodes. -/
theorem SafeAt.sa_congr {env : Env} {pf : pf_context_t} {h : Host} {d : Nat}
    (s : SafeAt env pf h d) (pf1 : pf_context_t) (h1 : Host)
    (hf : ∀ k, lruc_find pf1.cache k = lruc_find pf.cache k)
    (hr : pf1.root_mht.decrypted = pf.root_mht.decrypted) (hfile : h1.file = h.file) :
    SafeAt env pf1 h1 d :=
  ⟨s.1.sd_congr pf1 h1 hf hr hfile, fun j hj => (s.2 j hj).sm_congr pf1 h1 hf hr hfile⟩

/-- The function `write_to_data_node` keeps every safe node safe: it leaves the cache with the
same nodes and every entry as it was. -/
theorem Stored.s_safe_at {pf1 : pf_context_t} {d0 : Nat} {f : (Nat → Byte) → (Nat → Byte)}
    {stw : Nat} {pf5 : pf_context_t} (S : Stored pf1 d0 f stw pf5) (env : Env) (h : Host)
    (d : Nat) (hd : d / ATTACHED_DATA_NODES_COUNT < 2 ^ 50) (s : SafeAt env pf1 h d) :
    SafeAt env pf5 h d := by
  have hnone : ∀ k, lruc_find pf5.cache k = Option.none →
      lruc_find pf1.cache k = Option.none := by
    intro k hk
    rcases hf : lruc_find pf1.cache k with _ | n
    · rfl
    · obtain ⟨n5, e, -⟩ := S.fwd k n hf
      rw [hk] at e
      cases e
  refine ⟨fun hn => ?_, fun j hj hn => ?_⟩
  · have := s.1 (hnone _ hn)
    unfold data_entry at this ⊢
    rw [S.mht_plain_eq env h _ hd]
    exact this
  · have := s.2 j hj (hnone _ hn)
    have hb := mht_up_le j (d / ATTACHED_DATA_NODES_COUNT)
    unfold mht_entry at this ⊢
    rw [S.mht_plain_eq env h _ (by unfold CHILD_MHT_NODES_COUNT; omega)]
    exact this

/-- A safe data node is safe as far as it is part of the file. -/
theorem SafeAt.sa_live {env : Env} {pf : pf_context_t} {h : Host} {d : Nat}
    (s : SafeAt env pf h d) : LiveSafeAt env pf h d :=
  ⟨fun _ => s.1, fun j hj _ => s.2 j hj⟩

/-- One turn of the data-node loop of `ipf_write` after a successful fetch leaves the data node
it writes safe, with the MHT nodes above it, and keeps every safe data node of the file
safe. -/
theorem write_step_safe (env : Env) (hinv : AeadInverse env)
    (hcap : 10 ≤ env.MAX_PAGES_IN_CACHE) (ptr : Option (Nat → Byte)) (pf : pf_context_t)
    (h : Host) (w : WellFormed env pf h) (hlo : MD_USER_DATA_SIZE ≤ pf.offset)
    (hhi : pf.offset ≤ pf.encrypted_part_plain.size) (written left : Nat)
    (p : NodePtr) (pf1 : pf_context_t) (h1 : Host)
    (hg : ipf_get_data_node env pf h = (some p, pf1, h1)) :
    SafeAt env (write_to_data_node ptr pf1 p written left).1 h1
      ((pf.offset - MD_USER_DATA_SIZE) / PF_NODE_SIZE) ∧
    ∀ d, live_data pf.encrypted_part_plain.size d → SafeAt env pf h d →
      SafeAt env (write_to_data_node ptr pf1 p written left).1 h1 d := by
  obtain ⟨d, hd⟩ : ∃ d, d = (pf.offset - MD_USER_DATA_SIZE) / PF_NODE_SIZE := ⟨_, rfl⟩
  obtain ⟨-, -, -, hd50, hm44⟩ := get_node_numbers_eq pf.offset hlo
    (le_trans hhi w.good.size_le)
  rw [← hd] at hd50 hm44 ⊢
  obtain ⟨hp, G⟩ := ipf_get_data_node_got env hinv hcap pf h w.good w.ord w.settled hlo hhi d hd
    p pf1 h1 hg
  obtain ⟨nd, hnd⟩ := G.node
  have S := write_to_data_node_stored env ptr pf1 h1 d written left nd G.good hnd
  rw [← hp] at S
  refine ⟨S.s_safe_at env h1 d (by omega) (G.good.safe_at_cached d nd hnd), ?_⟩
  intro d1 hl1 s
  have hb1 : d1 / ATTACHED_DATA_NODES_COUNT < 2 ^ 50 := by
    have := w.good.size_le
    unfold live_data NO_WRAP MD_USER_DATA_SIZE PF_NODE_SIZE ATTACHED_DATA_NODES_COUNT at *
    omega
  exact S.s_safe_at env h1 d1 hb1 (G.safe_at d1 hl1 s)

theorem write_data_nodes_none (env : Env) (ptr : Option (Nat → Byte)) (fuel : Nat)
    (pf : pf_context_t) (h : Host) (written left : Nat) (pf1 : pf_context_t) (h1 : Host)
    (hl : left > 0) (hg : ipf_get_data_node env pf h = (none, pf1, h1)) :
    write_data_nodes env ptr (fuel + 1) pf h written left = (left, pf1, h1) := by
  rw [write_data_nodes]
  simp only [hl, if_true, hg]

/-- With succeeding callbacks, the data-node loop of `ipf_write` fetches every node, or stops
short with a failure code recorded. -/
theorem write_data_nodes_total (env : Env) (hcb : CallbacksSucceed env)
    (hinv : AeadInverse env) (hcap : 10 ≤ env.MAX_PAGES_IN_CACHE)
    (ptr : Option (Nat → Byte)) (fuel : Nat) :
    ∀ (pf : pf_context_t) (h : Host) (written left : Nat),
    WellFormed env pf h → MD_USER_DATA_SIZE ≤ pf.offset →
    pf.offset ≤ pf.encrypted_part_plain.size → pf.offset + left ≤ NO_WRAP → left ≤ fuel →
    write_fetches env ptr fuel pf h written left = true ∨
    ((write_data_nodes env ptr fuel pf h written left).1 ≠ 0 ∧
      (write_data_nodes env ptr fuel pf h written left).2.1.last_error ≠ SUCCESS) := by
  induction fuel with
  | zero =>
    intro pf h written left _ _ _ _ hf
    have h0 : left = 0 := by omega
    subst h0
    left
    unfold write_fetches
    simp
  | succ fuel ih =>
    intro pf h written left w hlo hhi hb hf
    by_cases hl : left > 0
    · rcases ipf_get_data_node_total env hcb pf h w hlo hhi _ rfl with
          ⟨p, pf1, h1, hg⟩ | ⟨pf1, h1, hg, herr, -⟩
      · obtain ⟨stw, hstw⟩ : ∃ stw, stw = min left
            (PF_NODE_SIZE - (pf.offset - MD_USER_DATA_SIZE) % PF_NODE_SIZE) := ⟨_, rfl⟩
        obtain ⟨s1, s2, s3, s4, -⟩ := write_step env hinv hcap ptr pf h w hlo hhi written left
          hl hb p pf1 h1 hg stw hstw
        rw [write_fetches_step env ptr fuel pf h written left p pf1 h1 hl hg]
        rw [write_data_nodes_step env ptr fuel pf h written left p pf1 h1 hl hg]
        rw [s1]
        have hmod : (pf.offset - MD_USER_DATA_SIZE) % PF_NODE_SIZE < PF_NODE_SIZE :=
          Nat.mod_lt _ (by unfold PF_NODE_SIZE; omega)
        have hstw1 : 0 < stw ∧ stw ≤ left := by omega
        exact ih (write_to_data_node ptr pf1 p written left).1 h1
          (written + stw) (left - stw) s2 (by rw [s3]; omega)
          (by rw [s3, s4]; exact le_max_right _ _) (by rw [s3]; omega) (by omega)
      · right
        rw [write_data_nodes_none env ptr fuel pf h written left pf1 h1 hl hg]
        exact ⟨by omega, herr⟩
    · have h0 : left = 0 := by omega
      subst h0
      left
      unfold write_fetches
      simp

/-- The data-node loop of `ipf_write`, when every fetch returns a node, leaves every data node
it writes safe, with the MHT nodes above it, and keeps every safe data node of the file
safe. -/
theorem write_data_nodes_safe (env : Env) (hinv : AeadInverse env)
    (hcap : 10 ≤ env.MAX_PAGES_IN_CACHE) (ptr : Option (Nat → Byte)) (fuel : Nat) :
    ∀ (pf : pf_context_t) (h : Host) (written left : Nat),
    WellFormed env pf h → MD_USER_DATA_SIZE ≤ pf.offset →
    pf.offset ≤ pf.encrypted_part_plain.size → pf.offset + left ≤ NO_WRAP → left ≤ fuel →
    write_fetches env ptr fuel pf h written left = true →
    ∀ d, (live_data pf.encrypted_part_plain.size d ∧ SafeAt env pf h d) ∨
        (0 < left ∧ pf.offset < MD_USER_DATA_SIZE + (d + 1) * PF_NODE_SIZE ∧
          MD_USER_DATA_SIZE + d * PF_NODE_SIZE < pf.offset + left) →
      SafeAt env (write_data_nodes env ptr fuel pf h written left).2.1
        (write_data_nodes env ptr fuel pf h written left).2.2 d := by
  induction fuel with
  | zero =>
    intro pf h written left _ _ _ _ hf _ d hd
    have h0 : left = 0 := by omega
    subst h0
    rw [write_data_nodes_done]
    rcases hd with hd | hd
    · exact hd.2
    · omega
  | succ fuel ih =>
    intro pf h written left w hlo hhi hb hf hfetch d hd
    by_cases hl : left > 0
    · rcases hg : ipf_get_data_node env pf h with ⟨o, pf1, h1⟩
      cases o with
      | none =>
        rw [write_fetches_none env ptr fuel pf h written left pf1 h1 hl hg] at hfetch
        cases hfetch
      | some p =>
        obtain ⟨stw, hstw⟩ : ∃ stw, stw = min left
            (PF_NODE_SIZE - (pf.offset - MD_USER_DATA_SIZE) % PF_NODE_SIZE) := ⟨_, rfl⟩
        obtain ⟨s1, s2, s3, s4, -⟩ := write_step env hinv hcap ptr pf h w hlo hhi written left
          hl hb p pf1 h1 hg stw hstw
        obtain ⟨m1, m2⟩ := write_step_safe env hinv hcap ptr pf h w hlo hhi written left
          p pf1 h1 hg
        rw [write_fetches_step env ptr fuel pf h written left p pf1 h1 hl hg] at hfetch
        rw [write_data_nodes_step env ptr fuel pf h written left p pf1 h1 hl hg]
        rw [s1] at hfetch ⊢
        have hmod : (pf.offset - MD_USER_DATA_SIZE) % PF_NODE_SIZE < PF_NODE_SIZE :=
          Nat.mod_lt _ (by unfold PF_NODE_SIZE; omega)
        have hstw1 : 0 < stw ∧ stw ≤ left := by omega
        refine ih (write_to_data_node ptr pf1 p written left).1 h1
          (written + stw) (left - stw) s2 (by rw [s3]; omega)
          (by rw [s3, s4]; exact le_max_right _ _) (by rw [s3]; omega) (by omega) hfetch d ?_
        rw [s3, s4]
        rcases hd with hd | hd
        · left
          refine ⟨?_, m2 d hd.1 hd.2⟩
          have := hd.1
          unfold live_data at this ⊢
          omega
        · by_cases e : d = (pf.offset - MD_USER_DATA_SIZE) / PF_NODE_SIZE
          · left
            refine ⟨?_, by rw [e]; exact m1⟩
            unfold live_data
            rw [e]
            unfold PF_NODE_SIZE MD_USER_DATA_SIZE at *
            omega
          · right
            unfold PF_NODE_SIZE MD_USER_DATA_SIZE at *
            omega
    · have h0 : left = 0 := by omega
      subst h0
      rw [write_data_nodes_done]
      rcases hd with hd | hd
      · exact hd.2
      · omega

theorem write_fetches_zero (env : Env) (ptr : Option (Nat → Byte)) (fuel : Nat)
    (pf : pf_context_t) (h : Host) (written : Nat) :
    write_fetches env ptr fuel pf h written 0 = true := by
  cases fuel <;> (unfold write_fetches; simp)

/-- With succeeding callbacks, `ipf_write` on a writable context that satisfies the
representation invariant fetches every node, or stops short with a failure code recorded. -/
theorem ipf_write_total (env : Env) (hcb : CallbacksSucceed env) (hinv : AeadInverse env)
    (hcap : 10 ≤ env.MAX_PAGES_IN_CACHE) (pf : pf_context_t) (h : Host)
    (ptr : Option (Nat → Byte)) (n : Nat) (w : WellFormed env pf h)
    (hmode : mode_has pf.mode PF_FILE_MODE_WRITE = true) (hst : pf.file_status = SUCCESS)
    (ho : pf.offset ≤ pf.encrypted_part_plain.size) (hn : 0 < n)
    (hb : pf.offset + n ≤ NO_WRAP) :
    ipf_write_fetches env pf h ptr n = true ∨
    ((ipf_write env pf h ptr n).1 ≠ n ∧ (ipf_write env pf h ptr n).2.1.last_error ≠ SUCCESS) := by
  by_cases c : pf.offset < MD_USER_DATA_SIZE
  · obtain ⟨e, ef⟩ := ipf_write_eq env pf h ptr n (by omega) hst hmode (write_to_md ptr pf n)
      (by rw [if_pos c])
    rw [ef, e]
    dsimp only
    obtain ⟨z1, z2, z3, z4, z5, z6⟩ := write_to_md_spec ptr pf n
    obtain ⟨-, z8⟩ := write_to_md_data ptr pf n
    obtain ⟨m, hm⟩ : ∃ m, m = min n (MD_USER_DATA_SIZE - pf.offset) := ⟨_, rfl⟩
    rw [← hm] at z1 z2 z3
    rcases hmd : write_to_md ptr pf n with ⟨l0, pfm⟩
    rw [hmd] at z1 z2 z3 z4 z5 z6 z8
    dsimp only at z1 z2 z3 z4 z5 z6 z8 ⊢
    have hm1 : 0 < m ∧ m ≤ n ∧ pf.offset + m ≤ MD_USER_DATA_SIZE := by omega
    have wm : WellFormed env pfm h := by
      refine w.grow pfm z5 z6 (by rw [z3]; exact le_max_left _ _) ?_ (fun _ => z8)
      rw [z3]
      exact max_le w.good.size_le (by omega)
    by_cases cl : l0 = 0
    · subst cl
      exact Or.inl (write_fetches_zero env ptr 0 pfm h _)
    · rcases write_data_nodes_total env hcb hinv hcap ptr l0 pfm h (n - l0) l0 wm (by omega)
          (by rw [z2, z3]; exact le_max_right _ _) (by omega) (le_refl _) with r | ⟨r1, r2⟩
      · exact Or.inl r
      · exact Or.inr ⟨by omega, r2⟩
  · obtain ⟨e, ef⟩ := ipf_write_eq env pf h ptr n (by omega) hst hmode (n, pf)
      (by rw [if_neg c])
    rw [ef, e]
    dsimp only
    rcases write_data_nodes_total env hcb hinv hcap ptr n pf h (n - n) n w (by omega) ho hb
        (le_refl _) with r | ⟨r1, r2⟩
    · exact Or.inl r
    · exact Or.inr ⟨by omega, r2⟩

/-- The function `ipf_write`, when every fetch returns a node, leaves every data node it
writes safe, with the MHT nodes above it, and keeps every safe data node of the file safe. -/
theorem ipf_write_safe (env : Env) (hinv : AeadInverse env)
    (hcap : 10 ≤ env.MAX_PAGES_IN_CACHE) (pf : pf_context_t) (h : Host)
    (ptr : Option (Nat → Byte)) (n : Nat) (w : WellFormed env pf h)
    (hmode : mode_has pf.mode PF_FILE_MODE_WRITE = true) (hst : pf.file_status = SUCCESS)
    (ho : pf.offset ≤ pf.encrypted_part_plain.size) (hn : 0 < n)
    (hb : pf.offset + n ≤ NO_WRAP) (hfetch : ipf_write_fetches env pf h ptr n = true) :
    ∀ d, (live_data pf.encrypted_part_plain.size d ∧ SafeAt env pf h d) ∨
        (pf.offset < MD_USER_DATA_SIZE + (d + 1) * PF_NODE_SIZE ∧
          MD_USER_DATA_SIZE + d * PF_NODE_SIZE < pf.offset + n) →
      SafeAt env (ipf_write env pf h ptr n).2.1 (ipf_write env pf h ptr n).2.2 d := by
  intro d hd
  by_cases c : pf.offset < MD_USER_DATA_SIZE
  · obtain ⟨e, ef⟩ := ipf_write_eq env pf h ptr n (by omega) hst hmode (write_to_md ptr pf n)
      (by rw [if_pos c])
    rw [ef] at hfetch
    rw [e]
    dsimp only
    obtain ⟨z1, z2, z3, z4, z5, z6⟩ := write_to_md_spec ptr pf n
    obtain ⟨-, z8⟩ := write_to_md_data ptr pf n
    obtain ⟨m, hm⟩ : ∃ m, m = min n (MD_USER_DATA_SIZE - pf.offset) := ⟨_, rfl⟩
    rw [← hm] at z1 z2 z3
    rcases hmd : write_to_md ptr pf n with ⟨l0, pfm⟩
    rw [hmd] at z1 z2 z3 z4 z5 z6 z8 hfetch
    dsimp only at z1 z2 z3 z4 z5 z6 z8 hfetch ⊢
    have hm1 : 0 < m ∧ m ≤ n ∧ pf.offset + m ≤ MD_USER_DATA_SIZE := by omega
    have wm : WellFormed env pfm h := by
      refine w.grow pfm z5 z6 (by rw [z3]; exact le_max_left _ _) ?_ (fun _ => z8)
      rw [z3]
      exact max_le w.good.size_le (by omega)
    have hkeep : SafeAt env pf h d → SafeAt env pfm h d := fun s =>
      s.sa_congr pfm h (fun k => by rw [z5]) (by rw [z6]) rfl
    by_cases cl : l0 = 0
    · subst cl
      rw [write_data_nodes_done]
      rcases hd with hd | hd
      · exact hkeep hd.2
      · unfold PF_NODE_SIZE MD_USER_DATA_SIZE at *
        omega
    · refine write_data_nodes_safe env hinv hcap ptr l0 pfm h (n - l0) l0 wm (by omega)
        (by rw [z2, z3]; exact le_max_right _ _) (by omega) (le_refl _) hfetch d ?_
      rw [z2, z3]
      rcases hd with hd | hd
      · left
        refine ⟨?_, hkeep hd.2⟩
        have := hd.1
        unfold live_data at this ⊢
        omega
      · right
        unfold PF_NODE_SIZE MD_USER_DATA_SIZE at *
        omega
  · obtain ⟨e, ef⟩ := ipf_write_eq env pf h ptr n (by omega) hst hmode (n, pf)
      (by rw [if_neg c])
    rw [ef] at hfetch
    rw [e]
    dsimp only at hfetch ⊢
    refine write_data_nodes_safe env hinv hcap ptr n pf h (n - n) n w (by omega) ho hb
      (le_refl _) hfetch d ?_
    rcases hd with hd | hd
    · exact Or.inl hd
    · exact Or.inr ⟨hn, hd⟩

theorem read_fetches_zero (env : Env) (fuel : Nat) (pf : pf_context_t) (h : Host) :
    read_fetches env fuel pf h 0 = true := by
  cases fuel <;> (unfold read_fetches; simp)

/-- With succeeding callbacks, the data-node loop of `ipf_read` over a range within the file
fetches every node when the data nodes of the range are safe, with the MHT nodes above
them. -/
theorem read_fetches_ok (env : Env) (hcb : CallbacksSucceed env) (hinv : AeadInverse env)
    (hcap : 10 ≤ env.MAX_PAGES_IN_CACHE) (fuel : Nat) :
    ∀ (pf : pf_context_t) (h : Host) (left : Nat),
    WellFormed env pf h → MD_USER_DATA_SIZE ≤ pf.offset →
    pf.offset + left ≤ pf.encrypted_part_plain.size → left ≤ fuel →
    (∀ d, pf.offset < MD_USER_DATA_SIZE + (d + 1) * PF_NODE_SIZE →
      MD_USER_DATA_SIZE + d * PF_NODE_SIZE < pf.offset + left → SafeAt env pf h d) →
    read_fetches env fuel pf h left = true := by
  induction fuel with
  | zero =>
    intro pf h left _ _ _ hf _
    have h0 : left = 0 := by omega
    subst h0
    exact read_fetches_zero env 0 pf h
  | succ fuel ih =>
    intro pf h left w hlo hhi hf hsafe
    by_cases hl : left > 0
    · have hmod : (pf.offset - MD_USER_DATA_SIZE) % PF_NODE_SIZE < PF_NODE_SIZE :=
        Nat.mod_lt _ (by unfold PF_NODE_SIZE; omega)
      rcases ipf_get_data_node_total env hcb pf h w hlo (by omega) _ rfl with
          ⟨p, pf1, h1, hg⟩ | ⟨pf1, h1, hg, -, hns⟩
      · obtain ⟨w1, sb1, st1, -⟩ := ipf_get_data_node_reads env hinv hcap pf h w hlo
          (by omega) p pf1 h1 hg
        obtain ⟨-, G⟩ := ipf_get_data_node_got env hinv hcap pf h w.good w.ord w.settled hlo
          (by omega) _ rfl p pf1 h1 hg
        have hoff : pf1.offset = pf.offset := offset_of_stable st1
        have hsz : pf1.encrypted_part_plain.size = pf.encrypted_part_plain.size := sb1.1
        obtain ⟨str, hstr⟩ : ∃ str, str = min left
            (PF_NODE_SIZE - (pf.offset - MD_USER_DATA_SIZE) % PF_NODE_SIZE) := ⟨_, rfl⟩
        rw [read_fetches_step env fuel pf h left p pf1 h1 hl hg str (by rw [hoff]; exact hstr)]
        rw [hoff]
        have hstr1 : 0 < str ∧ str ≤ left ∧
            (pf.offset - MD_USER_DATA_SIZE) % PF_NODE_SIZE + str ≤ PF_NODE_SIZE := by omega
        refine ih { pf1 with offset := pf.offset + str } h1 (left - str) (w1.with_offset _)
          (by show MD_USER_DATA_SIZE ≤ pf.offset + str; omega)
          (by
            show pf.offset + str + (left - str) ≤ pf1.encrypted_part_plain.size
            rw [hsz]
            omega)
          (by omega) ?_
        intro d hd1 hd2
        have hd1' : pf.offset + str < MD_USER_DATA_SIZE + (d + 1) * PF_NODE_SIZE := hd1
        have hd2' : MD_USER_DATA_SIZE + d * PF_NODE_SIZE < pf.offset + str + (left - str) := hd2
        have hlive : live_data pf.encrypted_part_plain.size d := by
          unfold live_data
          omega
        exact (G.safe_at d hlive (hsafe d (by omega) (by omega))).sa_congr _ h1
          (fun _ => rfl) rfl rfl
      · exfalso
        apply hns
        apply SafeAt.sa_live
        apply hsafe
        · unfold PF_NODE_SIZE MD_USER_DATA_SIZE at *
          omega
        · unfold PF_NODE_SIZE MD_USER_DATA_SIZE at *
          omega
    · have h0 : left = 0 := by omega
      subst h0
      exact read_fetches_zero env _ pf h

/-- With succeeding callbacks, `ipf_read` of a range within the file fetches every node when
the data nodes of the range are safe, with the MHT nodes above them. -/
theorem ipf_read_fetches_ok (env : Env) (hcb : CallbacksSucceed env) (hinv : AeadInverse env)
    (hcap : 10 ≤ env.MAX_PAGES_IN_CACHE) (pf : pf_context_t) (h : Host) (n : Nat)
    (w : WellFormed env pf h) (hmode : mode_has pf.mode PF_FILE_MODE_READ = true)
    (hst : pf.file_status = SUCCESS) (heof : pf.end_of_file = false) (hn : 0 < n)
    (hhi : pf.offset + n ≤ pf.encrypted_part_plain.size)
    (hsafe : ∀ d, pf.offset < MD_USER_DATA_SIZE + (d + 1) * PF_NODE_SIZE →
      MD_USER_DATA_SIZE + d * PF_NODE_SIZE < pf.offset + n → SafeAt env pf h d) :
    ipf_read_fetches env pf h n = true := by
  have hleft : n = min n (pf.encrypted_part_plain.size - pf.offset) := by omega
  by_cases c : pf.offset < MD_USER_DATA_SIZE
  · obtain ⟨-, ef⟩ := ipf_read_eq env pf h (fun _ => 0) n hmode hst heof (by omega)
      w.good.size_le hn n hleft (n - min n (MD_USER_DATA_SIZE - pf.offset))
      (memcpy (fun _ => 0) 0 pf.encrypted_part_plain.data pf.offset
        (min n (MD_USER_DATA_SIZE - pf.offset)))
      { pf with offset := pf.offset + min n (MD_USER_DATA_SIZE - pf.offset) }
      (by rw [if_pos c])
    rw [ef]
    by_cases cl : n - min n (MD_USER_DATA_SIZE - pf.offset) = 0
    · rw [cl]
      exact read_fetches_zero env 0 _ h
    · refine read_fetches_ok env hcb hinv hcap _ _ h _ (w.with_offset _)
        (by show MD_USER_DATA_SIZE ≤ pf.offset + min n (MD_USER_DATA_SIZE - pf.offset); omega)
        (by
          show pf.offset + min n (MD_USER_DATA_SIZE - pf.offset)
            + (n - min n (MD_USER_DATA_SIZE - pf.offset)) ≤ pf.encrypted_part_plain.size
          omega)
        (le_refl _) ?_
      intro d hd1 hd2
      have hd2' : MD_USER_DATA_SIZE + d * PF_NODE_SIZE
          < pf.offset + min n (MD_USER_DATA_SIZE - pf.offset)
            + (n - min n (MD_USER_DATA_SIZE - pf.offset)) := hd2
      exact (hsafe d (by unfold PF_NODE_SIZE; omega) (by omega)).sa_congr _ h
        (fun _ => rfl) rfl rfl
  · obtain ⟨-, ef⟩ := ipf_read_eq env pf h (fun _ => 0) n hmode hst heof (by omega)
      w.good.size_le hn n hleft n (fun _ => 0) pf (by rw [if_neg c])
    rw [ef]
    exact read_fetches_ok env hcb hinv hcap n pf h n w (by omega) hhi (le_refl _) hsafe

theorem example_env_callbacks : CallbacksSucceed example_env :=
  { io := fun _ => rfl
    alloc := fun _ => rfl
    random := fun _ => rfl
    encrypt := fun _ a _ => by cases a <;> rfl }

theorem example_env_small_callbacks : CallbacksSucceed example_env_small :=
  { io := fun _ => rfl
    alloc := fun _ => rfl
    random := fun _ => rfl
    encrypt := fun _ a _ => by cases a <;> rfl }

theorem example_env_small_aead_inverse : AeadInverse example_env_small :=
  example_env_aead_inverse

/-- With succeeding callbacks, an `ipf_write` on a writable context that satisfies the
representation invariant, at an offset within the file, that returns the count or leaves no
failure code has fetched every node: it returns the count, stores the input, keeps the
invariant, the status and the mode, and leaves the data nodes it wrote safe, with the MHT
nodes above them. -/
theorem ipf_write_at (env : Env) (hcb : CallbacksSucceed env) (hinv : AeadInverse env)
    (hcap : 10 ≤ env.MAX_PAGES_IN_CACHE) (pf : pf_context_t) (h : Host)
    (ptr : Option (Nat → Byte)) (n : Nat) (w : WellFormed env pf h)
    (hmode : mode_has pf.mode PF_FILE_MODE_WRITE = true) (hst : pf.file_status = SUCCESS)
    (ho : pf.offset ≤ pf.encrypted_part_plain.size) (hn : 0 < n)
    (hb : pf.offset + n ≤ NO_WRAP)
    (hok : (ipf_write env pf h ptr n).1 = n ∨
      (ipf_write env pf h ptr n).2.1.last_error = SUCCESS) :
    (ipf_write env pf h ptr n).1 = n ∧
    WellFormed env (ipf_write env pf h ptr n).2.1 (ipf_write env pf h ptr n).2.2 ∧
    (ipf_write env pf h ptr n).2.1.file_status = SUCCESS ∧
    (ipf_write env pf h ptr n).2.1.mode = pf.mode ∧
    (ipf_write env pf h ptr n).2.1.offset = pf.offset + n ∧
    (ipf_write env pf h ptr n).2.1.encrypted_part_plain.size
      = max pf.encrypted_part_plain.size (pf.offset + n) ∧
    (∀ x, pf.offset ≤ x → x < pf.offset + n →
      plaintext_byte env (ipf_write env pf h ptr n).2.1 (ipf_write env pf h ptr n).2.2 x
        = input_byte ptr (x - pf.offset)) ∧
    (∀ d, pf.offset < MD_USER_DATA_SIZE + (d + 1) * PF_NODE_SIZE →
      MD_USER_DATA_SIZE + d * PF_NODE_SIZE < pf.offset + n →
      SafeAt env (ipf_write env pf h ptr n).2.1 (ipf_write env pf h ptr n).2.2 d) := by
  have hfetch : ipf_write_fetches env pf h ptr n = true := by
    rcases ipf_write_total env hcb hinv hcap pf h ptr n w hmode hst ho hn hb with c | ⟨c1, c2⟩
    · exact c
    · rcases hok with c | c
      · exact absurd c c1
      · exact absurd c c2
  obtain ⟨r1, r2, r3, r4, r5⟩ := ipf_write_writes env hinv hcap pf h ptr n w hmode hst ho hn hb
    hfetch
  have hs := ipf_write_safe env hinv hcap pf h ptr n w hmode hst ho hn hb hfetch
  refine ⟨r1, r5, ?_, ?_, r2, r3, ?_, fun d hd1 hd2 => hs d (Or.inr ⟨hd1, hd2⟩)⟩
  · rw [ipf_write_status env pf h ptr n r1]
    exact hst
  · exact congrArg Prod.fst (ipf_write_settings env pf h ptr n)
  · intro x hx1 hx2
    rw [r4 x (lt_of_lt_of_le hx2 (le_max_right _ _)), if_pos ⟨hx1, hx2⟩]

theorem pf_write_after_seek (env : Env) (hinit : env.g_initialized = true)
    (pf : pf_context_t) (h : Host) (o n : Nat) (ptr : Option (Nat → Byte))
    (ps : pf_context_t) (hs : Host) (hseek : ipf_seek env pf h o = (true, ps, hs)) :
    pf_write env pf h o n ptr
      = (if (ipf_write env ps hs ptr n).1 ≠ n then (ipf_write env ps hs ptr n).2.1.last_error
          else SUCCESS,
        (ipf_write env ps hs ptr n).2.1, (ipf_write env ps hs ptr n).2.2) := by
  have g0 : ¬ (!env.g_initialized) = true := by rw [hinit]; simp
  unfold pf_write
  rw [if_neg g0, hseek]
  dsimp only
  split_ifs <;> rfl

theorem pf_write_seek_failed (env : Env) (hinit : env.g_initialized = true)
    (pf : pf_context_t) (h : Host) (o n : Nat) (ptr : Option (Nat → Byte))
    (ps : pf_context_t) (hs : Host) (hseek : ipf_seek env pf h o = (false, ps, hs)) :
    (pf_write env pf h o n ptr).1 = ps.last_error := by
  have g0 : ¬ (!env.g_initialized) = true := by rw [hinit]; simp
  unfold pf_write
  rw [if_neg g0, hseek]

/-- With succeeding callbacks, a `pf_write` that returns `SUCCESS` on a writable context that
satisfies the representation invariant has moved to a state that satisfies the invariant, with
the offset within the file, and has then written every byte from there. -/
theorem pf_write_total (env : Env) (hcb : CallbacksSucceed env) (hinv : AeadInverse env)
    (hcap : 10 ≤ env.MAX_PAGES_IN_CACHE) (hinit : env.g_initialized = true)
    (pf : pf_context_t) (h : Host) (o n : Nat) (ptr : Option (Nat → Byte))
    (w : WellFormed env pf h) (hmode : mode_has pf.mode PF_FILE_MODE_WRITE = true)
    (hst : pf.file_status = SUCCESS) (hn : 0 < n) (hb : o + n ≤ NO_WRAP)
    (hok : (pf_write env pf h o n ptr).1 = SUCCESS) :
    WellFormed env (pf_write env pf h o n ptr).2.1 (pf_write env pf h o n ptr).2.2 ∧
    (pf_write env pf h o n ptr).2.1.file_status = SUCCESS ∧
    (pf_write env pf h o n ptr).2.1.mode = pf.mode ∧
    (pf_write env pf h o n ptr).2.1.encrypted_part_plain.size
      = max pf.encrypted_part_plain.size (o + n) ∧
    (∀ x, o ≤ x → x < o + n →
      plaintext_byte env (pf_write env pf h o n ptr).2.1 (pf_write env pf h o n ptr).2.2 x
        = input_byte ptr (x - o)) ∧
    (∀ d, o < MD_USER_DATA_SIZE + (d + 1) * PF_NODE_SIZE →
      MD_USER_DATA_SIZE + d * PF_NODE_SIZE < o + n →
      SafeAt env (pf_write env pf h o n ptr).2.1 (pf_write env pf h o n ptr).2.2 d) := by
  have key : ∀ (ps : pf_context_t) (hs : Host), ipf_seek env pf h o = (true, ps, hs) →
      WellFormed env ps hs → mode_has ps.mode PF_FILE_MODE_WRITE = true →
      ps.file_status = SUCCESS → ps.offset = o → o ≤ ps.encrypted_part_plain.size →
      ps.mode = pf.mode →
      ps.encrypted_part_plain.size = max pf.encrypted_part_plain.size o →
      WellFormed env (pf_write env pf h o n ptr).2.1 (pf_write env pf h o n ptr).2.2 ∧
      (pf_write env pf h o n ptr).2.1.file_status = SUCCESS ∧
      (pf_write env pf h o n ptr).2.1.mode = pf.mode ∧
      (pf_write env pf h o n ptr).2.1.encrypted_part_plain.size
        = max pf.encrypted_part_plain.size (o + n) ∧
      (∀ x, o ≤ x → x < o + n →
        plaintext_byte env (pf_write env pf h o n ptr).2.1 (pf_write env pf h o n ptr).2.2 x
          = input_byte ptr (x - o)) ∧
      (∀ d, o < MD_USER_DATA_SIZE + (d + 1) * PF_NODE_SIZE →
        MD_USER_DATA_SIZE + d * PF_NODE_SIZE < o + n →
        SafeAt env (pf_write env pf h o n ptr).2.1 (pf_write env pf h o n ptr).2.2 d) := by
    intro ps hs hseek ws hms hss hos hle hmp hsize
    have e := pf_write_after_seek env hinit pf h o n ptr ps hs hseek
    rw [e] at hok ⊢
    dsimp only at hok ⊢
    have hok' : (ipf_write env ps hs ptr n).1 = n ∨
        (ipf_write env ps hs ptr n).2.1.last_error = SUCCESS := by
      by_cases c : (ipf_write env ps hs ptr n).1 = n
      · exact Or.inl c
      · rw [if_pos c] at hok
        exact Or.inr hok
    obtain ⟨-, r2, r3, r4, -, r6, r7, r8⟩ := ipf_write_at env hcb hinv hcap ps hs ptr n ws hms
      hss (by rw [hos]; exact hle) hn (by rw [hos]; exact hb) hok'
    rw [hos] at r6 r7 r8
    refine ⟨r2, r3, r4.trans hmp, ?_, r7, r8⟩
    rw [r6, hsize]
    omega
  by_cases c : o ≤ pf.encrypted_part_plain.size
  · exact key _ _ (ipf_seek_within env pf h o hst c) ((w.with_offset o).with_eof false) hmode
      hst rfl c rfl (by
        show pf.encrypted_part_plain.size = _
        omega)
  · have hs : pf.encrypted_part_plain.size < o := by omega
    have e := ipf_seek_beyond env pf h o hst hs hmode
    rw [if_pos hinit] at e
    by_cases cz : (ipf_write env { pf with offset := pf.encrypted_part_plain.size } h none
        (o - pf.encrypted_part_plain.size)).1 = o - pf.encrypted_part_plain.size ∨
        (ipf_write env { pf with offset := pf.encrypted_part_plain.size } h none
          (o - pf.encrypted_part_plain.size)).2.1.last_error = SUCCESS
    · rw [if_pos cz] at e
      obtain ⟨-, r2, r3, r4, r5, r6, -, -⟩ := ipf_write_at env hcb hinv hcap
        { pf with offset := pf.encrypted_part_plain.size } h none
        (o - pf.encrypted_part_plain.size) (w.with_offset _) hmode hst (le_refl _) (by omega)
        (by
          show pf.encrypted_part_plain.size + (o - pf.encrypted_part_plain.size) ≤ NO_WRAP
          omega)
        cz
      have r5' : (ipf_write env { pf with offset := pf.encrypted_part_plain.size } h none
          (o - pf.encrypted_part_plain.size)).2.1.offset
          = pf.encrypted_part_plain.size + (o - pf.encrypted_part_plain.size) := r5
      have r6' : (ipf_write env { pf with offset := pf.encrypted_part_plain.size } h none
          (o - pf.encrypted_part_plain.size)).2.1.encrypted_part_plain.size
          = max pf.encrypted_part_plain.size
              (pf.encrypted_part_plain.size + (o - pf.encrypted_part_plain.size)) := r6
      exact key _ _ e (r2.with_eof false) (by
          show mode_has (ipf_write env { pf with offset := pf.encrypted_part_plain.size } h none
            (o - pf.encrypted_part_plain.size)).2.1.mode PF_FILE_MODE_WRITE = true
          rw [r4]
          exact hmode) r3
        (by
          show (ipf_write env { pf with offset := pf.encrypted_part_plain.size } h none
            (o - pf.encrypted_part_plain.size)).2.1.offset = o
          omega)
        (by
          show o ≤ (ipf_write env { pf with offset := pf.encrypted_part_plain.size } h none
            (o - pf.encrypted_part_plain.size)).2.1.encrypted_part_plain.size
          omega)
        r4
        (by
          show (ipf_write env { pf with offset := pf.encrypted_part_plain.size } h none
            (o - pf.encrypted_part_plain.size)).2.1.encrypted_part_plain.size = _
          omega)
    · rw [if_neg cz] at e
      have := pf_write_seek_failed env hinit pf h o n ptr _ _ e
      rw [hok] at this
      cases this

/-- C2 (read after write within one session): with callbacks that succeed and a decryption
that inverts the encryption, on a context with `file_status` SUCCESS opened for reading and
writing that satisfies the representation invariant, for every offset `o`, every `n > 0` and
every buffer `B` with `o + n` within the bound of the numbering, if `pf_write(o, n, B)` returns
`SUCCESS` then a `pf_read(o, n)` that follows on the same context, with no flush or close in
between, returns `SUCCESS` and yields exactly the `n` bytes of `B` (and leaves the rest of the
output buffer as it was): every node fetch of the read returns its node, also for the nodes
that the write evicted, which are re-read from the disk and decrypted. -/
theorem read_after_write (env : Env) (hcb : CallbacksSucceed env) (hinv : AeadInverse env)
    (hcap : 10 ≤ env.MAX_PAGES_IN_CACHE) (hinit : env.g_initialized = true)
    (pf : pf_context_t) (h : Host) (o n : Nat) (B out : Nat → Byte)
    (w : WellFormed env pf h) (hr : mode_has pf.mode PF_FILE_MODE_READ = true)
    (hw : mode_has pf.mode PF_FILE_MODE_WRITE = true) (hst : pf.file_status = SUCCESS)
    (hn : 0 < n) (hb : o + n ≤ NO_WRAP)
    (hok : (pf_write env pf h o n (some B)).1 = SUCCESS) :
    (pf_read env (pf_write env pf h o n (some B)).2.1 (pf_write env pf h o n (some B)).2.2
      o n (some out)).1 = SUCCESS ∧
    ∃ out2, (pf_read env (pf_write env pf h o n (some B)).2.1
        (pf_write env pf h o n (some B)).2.2 o n (some out)).2.1 = some out2 ∧
      (∀ i, i < n → out2 i = B i) ∧ (∀ i, n ≤ i → out2 i = out i) := by
  obtain ⟨w1, st1, m1, sz1, by1, sf1⟩ := pf_write_total env hcb hinv hcap hinit pf h o n
    (some B) w hw hst hn hb hok
  have hsz : o + n ≤ (pf_write env pf h o n (some B)).2.1.encrypted_part_plain.size := by
    rw [sz1]
    exact le_max_right _ _
  have hfetch : ipf_read_fetches env
      { (pf_write env pf h o n (some B)).2.1 with offset := o, end_of_file := false }
      (pf_write env pf h o n (some B)).2.2 n = true :=
    ipf_read_fetches_ok env hcb hinv hcap _ _ n ((w1.with_offset o).with_eof false)
      (by rw [← m1] at hr; exact hr) st1 rfl hn hsz
      (fun d hd1 hd2 => (sf1 d hd1 hd2).sa_congr _ _ (fun _ => rfl) rfl rfl)
  obtain ⟨r1, ⟨out2, r2, r3, r4⟩, -, -⟩ := pf_read_reads env hinv hcap hinit _ _ o n out w1
    (by rw [m1]; exact hr) st1 hn hsz hfetch
  refine ⟨r1, out2, r2, fun i hi => ?_, r4⟩
  rw [r3 i hi, by1 (o + i) (by omega) (by omega)]
  show B (o + i - o) = B i
  rw [Nat.add_sub_cancel_left]

/-- The new file `a` with a cache of 10 nodes, written with `MD_USER_DATA_SIZE + 12 * 4096`
bytes `Z` at offset 0: the write returns `SUCCESS` and has evicted data nodes 0 and 1 (the
blocks 2 and 3), which it flushed before; the read of the same range re-reads them. -/
theorem read_after_write_witness :
    (pf_write example_env_small example_created.1 example_created.2 0
      (MD_USER_DATA_SIZE + 12 * PF_NODE_SIZE) (some (fun _ => 90))).1 = SUCCESS ∧
    (pf_write example_env_small example_created.1 example_created.2 0
      (MD_USER_DATA_SIZE + 12 * PF_NODE_SIZE) (some (fun _ => 90))).2.1.cache.map
        (fun n => n.physical_node_number) = [13, 12, 11, 10, 9, 8, 7, 6, 5, 4] ∧
    (pf_read example_env_small
      (pf_write example_env_small example_created.1 example_created.2 0
        (MD_USER_DATA_SIZE + 12 * PF_NODE_SIZE) (some (fun _ => 90))).2.1
      (pf_write example_env_small example_created.1 example_created.2 0
        (MD_USER_DATA_SIZE + 12 * PF_NODE_SIZE) (some (fun _ => 90))).2.2
      0 (MD_USER_DATA_SIZE + 12 * PF_NODE_SIZE) (some (fun _ => 0))).1 = SUCCESS ∧
    ∃ out2, (pf_read example_env_small
        (pf_write example_env_small example_created.1 example_created.2 0
          (MD_USER_DATA_SIZE + 12 * PF_NODE_SIZE) (some (fun _ => 90))).2.1
        (pf_write example_env_small example_created.1 example_created.2 0
          (MD_USER_DATA_SIZE + 12 * PF_NODE_SIZE) (some (fun _ => 90))).2.2
        0 (MD_USER_DATA_SIZE + 12 * PF_NODE_SIZE) (some (fun _ => 0))).2.1 = some out2 ∧
      (∀ i, i < MD_USER_DATA_SIZE + 12 * PF_NODE_SIZE → out2 i = 90) ∧
      (∀ i, MD_USER_DATA_SIZE + 12 * PF_NODE_SIZE ≤ i → out2 i = 0) :=
  ⟨by decide!, by decide!,
    read_after_write example_env_small example_env_small_callbacks
      example_env_small_aead_inverse (by decide) rfl example_created.1 example_created.2 0
      (MD_USER_DATA_SIZE + 12 * PF_NODE_SIZE) (fun _ => 90) (fun _ => 0)
      (WellFormed.of_empty _ _ _ (by decide!) (by decide!) (by decide!) (by decide!)
        (by decide!))
      (by decide!) (by decide!) (by decide!) (by decide) (by decide) (by decide!)⟩

/-- When every data node of the file is safe, every data node, of the file or not, is safe as
far as it is part of the file. -/
theorem AllSafe.live_safe {env : Env} {pf : pf_context_t} {h : Host} (a : AllSafe env pf h)
    (d : Nat) : LiveSafeAt env pf h d := by
  refine ⟨fun hl => (a d hl).1, fun j hj hl => ?_⟩
  have hd : live_data pf.encrypted_part_plain.size
      (mht_up j (d / ATTACHED_DATA_NODES_COUNT) * ATTACHED_DATA_NODES_COUNT) := hl
  have s := (a _ hd).2 0
  rw [Nat.mul_div_cancel _ (by unfold ATTACHED_DATA_NODES_COUNT; omega)] at s
  exact s hj

theorem AllSafe.a_congr {env : Env} {pf : pf_context_t} {h : Host} (a : AllSafe env pf h)
    (pf1 : pf_context_t) (h1 : Host)
    (hf : ∀ k, lruc_find pf1.cache k = lruc_find pf.cache k)
    (hr : pf1.root_mht.decrypted = pf.root_mht.decrypted) (hfile : h1.file = h.file)
    (hs : ∀ d, live_data pf1.encrypted_part_plain.size d →
      live_data pf.encrypted_part_plain.size d) : AllSafe env pf1 h1 :=
  fun d hl => (a d (hs d hl)).sa_congr pf1 h1 hf hr hfile

theorem Session.se_congr {env : Env} {pf : pf_context_t} {h : Host} (s : Session env pf h)
    (pf1 : pf_context_t) (h1 : Host) (hc : pf1.cache = pf.cache)
    (hroot : pf1.root_mht = pf.root_mht)
    (hep : pf1.encrypted_part_plain = pf.encrypted_part_plain)
    (hnw : pf1.need_writing = pf.need_writing) (hst : pf1.file_status = pf.file_status)
    (hmd : pf1.file_meta_data = pf.file_meta_data) (hfile : h1.file = h.file) :
    Session env pf1 h1 :=
  { wf :=
      { good := s.wf.good.congr pf1 h1 (fun _ => by rw [hc]) (by rw [hc]; exact s.wf.good.keys)
          hroot hep hnw hfile
        ord := by rw [hc]; exact s.wf.ord
        settled := by
          have := s.wf.settled
          unfold Settled at this ⊢
          rw [hc, hep]
          exact this }
    status := by rw [hst]; exact s.status
    safe := s.safe.a_congr pf1 h1 (fun _ => by rw [hc]) (by rw [hroot]) hfile
      (fun d hl => by rw [hep] at hl; exact hl)
    dirty := by rw [hnw]; exact s.dirty
    root_dirty := by rw [hep, hroot]; exact s.root_dirty
    flag := by rw [hmd]; exact s.flag }

/-- With succeeding callbacks, the data-node loop of `ipf_write` on a state in which every node
of the file is safe fetches every node, keeps every node of the file safe, the `update_flag`
and the format fields, and leaves the context and the root MHT marked as needing writing when
it has written something. -/
theorem write_data_nodes_session (env : Env) (hcb : CallbacksSucceed env)
    (hinv : AeadInverse env) (hcap : 10 ≤ env.MAX_PAGES_IN_CACHE)
    (ptr : Option (Nat → Byte)) (fuel : Nat) :
    ∀ (pf : pf_context_t) (h : Host) (written left : Nat),
    WellFormed env pf h → AllSafe env pf h →
    pf.file_meta_data.plain_part.update_flag = 0 →
    MD_USER_DATA_SIZE ≤ pf.offset →
    pf.offset ≤ pf.encrypted_part_plain.size → pf.offset + left ≤ NO_WRAP → left ≤ fuel →
    write_fetches env ptr fuel pf h written left = true ∧
    AllSafe env (write_data_nodes env ptr fuel pf h written left).2.1
      (write_data_nodes env ptr fuel pf h written left).2.2 ∧
    (write_data_nodes env ptr fuel pf h written
      left).2.1.file_meta_data.plain_part.update_flag = 0 ∧
    (write_data_nodes env ptr fuel pf h written left).2.1.format = pf.format ∧
    (0 < left →
      (write_data_nodes env ptr fuel pf h written left).2.1.need_writing = true ∧
      (write_data_nodes env ptr fuel pf h written left).2.1.root_mht.need_writing = true) := by
  induction fuel with
  | zero =>
    intro pf h written left _ a hflag _ _ _ hf
    have h0 : left = 0 := by omega
    subst h0
    rw [write_data_nodes_done]
    exact ⟨write_fetches_zero env ptr 0 pf h written, a, hflag, rfl,
      fun c => absurd c (lt_irrefl 0)⟩
  | succ fuel ih =>
    intro pf h written left w a hflag hlo hhi hb hf
    by_cases hl : left > 0
    · rcases ipf_get_data_node_total env hcb pf h w hlo hhi _ rfl with
          ⟨p, pf1, h1, hg⟩ | ⟨pf1, h1, hg, herr, hns⟩
      · obtain ⟨stw, hstw⟩ : ∃ stw, stw = min left
            (PF_NODE_SIZE - (pf.offset - MD_USER_DATA_SIZE) % PF_NODE_SIZE) := ⟨_, rfl⟩
        obtain ⟨s1, s2, s3, s4, -⟩ := write_step env hinv hcap ptr pf h w hlo hhi written left
          hl hb p pf1 h1 hg stw hstw
        obtain ⟨m1, m2⟩ := write_step_safe env hinv hcap ptr pf h w hlo hhi written left
          p pf1 h1 hg
        obtain ⟨hp, G⟩ := ipf_get_data_node_got env hinv hcap pf h w.good w.ord w.settled hlo
          hhi _ rfl p pf1 h1 hg
        obtain ⟨nd, hnd⟩ := G.node
        have S := write_to_data_node_stored env ptr pf1 h1 _ written left nd G.good hnd
        rw [← hp] at S
        have hmeta : (write_to_data_node ptr pf1 p written left).1.file_meta_data
            = pf1.file_meta_data := congrArg (fun x => x.file_meta_data) S.frame
        rw [write_fetches_step env ptr fuel pf h written left p pf1 h1 hl hg]
        rw [write_data_nodes_step env ptr fuel pf h written left p pf1 h1 hl hg]
        rw [s1]
        have hmod : (pf.offset - MD_USER_DATA_SIZE) % PF_NODE_SIZE < PF_NODE_SIZE :=
          Nat.mod_lt _ (by unfold PF_NODE_SIZE; omega)
        have hstw1 : 0 < stw ∧ stw ≤ left := by omega
        have a1 : AllSafe env (write_to_data_node ptr pf1 p written left).1 h1 := by
          intro d hd
          rw [s4] at hd
          by_cases c : live_data pf.encrypted_part_plain.size d
          · exact m2 d c (a d c)
          · have e : d = (pf.offset - MD_USER_DATA_SIZE) / PF_NODE_SIZE := by
              unfold live_data at hd c
              unfold PF_NODE_SIZE MD_USER_DATA_SIZE at *
              omega
            rw [e]
            exact m1
        have f1 : (write_to_data_node ptr pf1 p written
            left).1.file_meta_data.plain_part.update_flag = 0 := by
          rw [hmeta]
          exact G.flag hflag
        have fm1 : (write_to_data_node ptr pf1 p written left).1.format = pf.format :=
          (format_of_file_meta_data hmeta).trans G.format
        obtain ⟨r1, r2, r3, r4, r5⟩ := ih (write_to_data_node ptr pf1 p written left).1 h1
          (written + stw) (left - stw) s2 a1 f1 (by rw [s3]; omega)
          (by rw [s3, s4]; exact le_max_right _ _) (by rw [s3]; omega) (by omega)
        refine ⟨r1, r2, r3, r4.trans fm1, fun _ => ?_⟩
        by_cases cz : 0 < left - stw
        · exact r5 cz
        · have hz : left - stw = 0 := by omega
          rw [hz, write_data_nodes_done]
          exact ⟨S.dirty, by rw [S.root]⟩
      · exact absurd (a.live_safe _) hns
    · have h0 : left = 0 := by omega
      subst h0
      rw [write_data_nodes_done]
      exact ⟨write_fetches_zero env ptr _ pf h written, a, hflag, rfl,
        fun c => absurd c (lt_irrefl 0)⟩

/-- With succeeding callbacks, `ipf_write` of a positive number of bytes at an offset within
the file, on a state in which every node of the file is safe, fetches every node, keeps every
node of the file safe, the `update_flag` and the format fields, and leaves the context marked
as needing writing, and the root MHT when the file reaches beyond the inline region. -/
theorem ipf_write_session (env : Env) (hcb : CallbacksSucceed env) (hinv : AeadInverse env)
    (hcap : 10 ≤ env.MAX_PAGES_IN_CACHE) (pf : pf_context_t) (h : Host)
    (ptr : Option (Nat → Byte)) (n : Nat) (w : WellFormed env pf h) (a : AllSafe env pf h)
    (hflag : pf.file_meta_data.plain_part.update_flag = 0)
    (hroot : MD_USER_DATA_SIZE < pf.encrypted_part_plain.size →
      pf.root_mht.need_writing = true)
    (hmode : mode_has pf.mode PF_FILE_MODE_WRITE = true) (hst : pf.file_status = SUCCESS)
    (ho : pf.offset ≤ pf.encrypted_part_plain.size) (hn : 0 < n)
    (hb : pf.offset + n ≤ NO_WRAP) :
    ipf_write_fetches env pf h ptr n = true ∧
    AllSafe env (ipf_write env pf h ptr n).2.1 (ipf_write env pf h ptr n).2.2 ∧
    (ipf_write env pf h ptr n).2.1.file_meta_data.plain_part.update_flag = 0 ∧
    (ipf_write env pf h ptr n).2.1.format = pf.format ∧
    (ipf_write env pf h ptr n).2.1.need_writing = true ∧
    (MD_USER_DATA_SIZE < max pf.encrypted_part_plain.size (pf.offset + n) →
      (ipf_write env pf h ptr n).2.1.root_mht.need_writing = true) := by
  by_cases c : pf.offset < MD_USER_DATA_SIZE
  · obtain ⟨e, ef⟩ := ipf_write_eq env pf h ptr n (by omega) hst hmode (write_to_md ptr pf n)
      (by rw [if_pos c])
    rw [ef, e]
    dsimp only
    obtain ⟨z1, z2, z3, z4, z5, z6⟩ := write_to_md_spec ptr pf n
    obtain ⟨-, z8⟩ := write_to_md_data ptr pf n
    obtain ⟨m, hm⟩ : ∃ m, m = min n (MD_USER_DATA_SIZE - pf.offset) := ⟨_, rfl⟩
    rw [← hm] at z1 z2 z3
    rcases hmd : write_to_md ptr pf n with ⟨l0, pfm⟩
    rw [hmd] at z1 z2 z3 z4 z5 z6 z8
    dsimp only at z1 z2 z3 z4 z5 z6 z8 ⊢
    have hm1 : 0 < m ∧ m ≤ n ∧ pf.offset + m ≤ MD_USER_DATA_SIZE := by omega
    have wm : WellFormed env pfm h := by
      refine w.grow pfm z5 z6 (by rw [z3]; exact le_max_left _ _) ?_ (fun _ => z8)
      rw [z3]
      exact max_le w.good.size_le (by omega)
    have am : AllSafe env pfm h := a.a_congr pfm h (fun _ => by rw [z5]) (by rw [z6]) rfl
      (fun d hl => by
        rw [z3] at hl
        unfold live_data at hl ⊢
        omega)
    have fm : pfm.file_meta_data.plain_part.update_flag = 0 := by
      rw [z4]
      exact hflag
    by_cases cl : l0 = 0
    · subst cl
      rw [write_data_nodes_done]
      refine ⟨write_fetches_zero env ptr 0 pfm h _, am, fm, format_of_file_meta_data z4, z8,
        fun hlt => ?_⟩
      show pfm.root_mht.need_writing = true
      rw [z6]
      exact hroot (by omega)
    · obtain ⟨r1, r2, r3, r4, r5⟩ := write_data_nodes_session env hcb hinv hcap ptr l0 pfm h
        (n - l0) l0 wm am fm (by omega) (by rw [z2, z3]; exact le_max_right _ _) (by omega)
        (le_refl _)
      exact ⟨r1, r2, r3, r4.trans (format_of_file_meta_data z4), (r5 (by omega)).1,
        fun _ => (r5 (by omega)).2⟩
  · obtain ⟨e, ef⟩ := ipf_write_eq env pf h ptr n (by omega) hst hmode (n, pf)
      (by rw [if_neg c])
    rw [ef, e]
    dsimp only
    obtain ⟨r1, r2, r3, r4, r5⟩ := write_data_nodes_session env hcb hinv hcap ptr n pf h
      (n - n) n w a hflag (by omega) ho hb (le_refl _)
    exact ⟨r1, r2, r3, r4, (r5 hn).1, fun _ => (r5 hn).2⟩

/-- A `pf_write` of no bytes at an offset within the file returns `SUCCESS` and moves the
offset only (it also records a failure code). -/
theorem pf_write_empty (env : Env) (hinit : env.g_initialized = true) (pf : pf_context_t)
    (h : Host) (o : Nat) (ptr : Option (Nat → Byte)) (hst : pf.file_status = SUCCESS)
    (ho : o ≤ pf.encrypted_part_plain.size) :
    pf_write env pf h o 0 ptr
      = (SUCCESS, { pf with offset := o, end_of_file := false,
                            last_error := INVALID_PARAMETER }, h) := by
  rw [pf_write_after_seek env hinit pf h o 0 ptr _ h (ipf_seek_within env pf h o hst ho)]
  unfold ipf_write
  rw [if_pos rfl]
  rfl

/-- With succeeding callbacks, a `pf_write` of a positive number of bytes at an offset within
the file, in a session, returns `SUCCESS`, stores the input and leaves every other byte of
the file as it was, and keeps the session, the settings and the format fields. -/
theorem pf_write_session (env : Env) (hcb : CallbacksSucceed env) (hinv : AeadInverse env)
    (hcap : 10 ≤ env.MAX_PAGES_IN_CACHE) (hinit : env.g_initialized = true)
    (pf : pf_context_t) (h : Host) (o n : Nat) (ptr : Option (Nat → Byte))
    (s : Session env pf h) (hmode : mode_has pf.mode PF_FILE_MODE_WRITE = true)
    (ho : o ≤ pf.encrypted_part_plain.size) (hn : 0 < n) (hb : o + n ≤ NO_WRAP) :
    (pf_write env pf h o n ptr).1 = SUCCESS ∧
    Session env (pf_write env pf h o n ptr).2.1 (pf_write env pf h o n ptr).2.2 ∧
    (pf_write env pf h o n ptr).2.1.settings = pf.settings ∧
    (pf_write env pf h o n ptr).2.1.format = pf.format ∧
    (pf_write env pf h o n ptr).2.1.encrypted_part_plain.size
      = max pf.encrypted_part_plain.size (o + n) ∧
    (∀ x, x < max pf.encrypted_part_plain.size (o + n) →
      plaintext_byte env (pf_write env pf h o n ptr).2.1 (pf_write env pf h o n ptr).2.2 x
        = if o ≤ x ∧ x < o + n then input_byte ptr (x - o) else plaintext_byte env pf h x) := by
  have ws : WellFormed env { pf with offset := o, end_of_file := false } h :=
    (s.wf.with_offset o).with_eof false
  have as : AllSafe env { pf with offset := o, end_of_file := false } h :=
    s.safe.a_congr _ h (fun _ => rfl) rfl rfl (fun _ hl => hl)
  obtain ⟨hfetch, q2, q3, q4, q5, q6⟩ := ipf_write_session env hcb hinv hcap
    { pf with offset := o, end_of_file := false } h ptr n ws as s.flag s.root_dirty hmode
    s.status ho hn hb
  obtain ⟨r1, -, r3, r4, r5⟩ := ipf_write_writes env hinv hcap
    { pf with offset := o, end_of_file := false } h ptr n ws hmode s.status ho hn hb hfetch
  rw [pf_write_after_seek env hinit pf h o n ptr _ h (ipf_seek_within env pf h o s.status ho)]
  dsimp only at r3 r4 q6 ⊢
  refine ⟨by rw [if_neg (not_not.mpr r1)], ?_, ?_, q4, r3, ?_⟩
  · exact
      { wf := r5
        status := by
          rw [ipf_write_status env _ h ptr n r1]
          exact s.status
        safe := q2
        dirty := q5
        root_dirty := fun hlt => q6 (by rw [← r3]; exact hlt)
        flag := q3 }
  · exact ipf_write_settings env { pf with offset := o, end_of_file := false } h ptr n
  · intro x hx
    rw [r4 x hx]
    by_cases cx : o ≤ x ∧ x < o + n
    · rw [if_pos cx, if_pos cx]
    · rw [if_neg cx, if_neg cx]
      exact plaintext_byte_congr env pf { pf with offset := o, end_of_file := false } h h
        (fun _ => rfl) rfl rfl rfl x

theorem write_chunks_cons (env : Env) (pf : pf_context_t) (h : Host) (o : Nat)
    (c : List Byte) (cs : List (List Byte)) :
    write_chunks env pf h o (c :: cs)
      = ((pf_write env pf h o c.length (some (fun i => c.getD i 0))).1 ::
          (write_chunks env (pf_write env pf h o c.length (some (fun i => c.getD i 0))).2.1
            (pf_write env pf h o c.length (some (fun i => c.getD i 0))).2.2
            (o + c.length) cs).1,
        (write_chunks env (pf_write env pf h o c.length (some (fun i => c.getD i 0))).2.1
          (pf_write env pf h o c.length (some (fun i => c.getD i 0))).2.2
          (o + c.length) cs).2) := by
  rw [write_chunks]

/-- With succeeding callbacks, a sequence of chunks written one after the other from the end of
the file on, in a session: every `pf_write` returns `SUCCESS`, the file holds the bytes it held
followed by the chunks, and the session, the settings and the format fields are kept. -/
theorem write_chunks_session (env : Env) (hcb : CallbacksSucceed env) (hinv : AeadInverse env)
    (hcap : 10 ≤ env.MAX_PAGES_IN_CACHE) (hinit : env.g_initialized = true)
    (chunks : List (List Byte)) :
    ∀ (pf : pf_context_t) (h : Host) (o : Nat), Session env pf h →
    mode_has pf.mode PF_FILE_MODE_WRITE = true → pf.encrypted_part_plain.size = o →
    o + chunks.flatten.length ≤ NO_WRAP →
    (∀ st, st ∈ (write_chunks env pf h o chunks).1 → st = SUCCESS) ∧
    Session env (write_chunks env pf h o chunks).2.1 (write_chunks env pf h o chunks).2.2 ∧
    (write_chunks env pf h o chunks).2.1.settings = pf.settings ∧
    (write_chunks env pf h o chunks).2.1.format = pf.format ∧
    (write_chunks env pf h o chunks).2.1.encrypted_part_plain.size
      = o + chunks.flatten.length ∧
    (∀ x, x < o + chunks.flatten.length →
      plaintext_byte env (write_chunks env pf h o chunks).2.1
          (write_chunks env pf h o chunks).2.2 x
        = if x < o then plaintext_byte env pf h x else chunks.flatten.getD (x - o) 0) := by
  induction chunks with
  | nil =>
    intro pf h o s _ hsz _
    refine ⟨fun st hst => ?_, s, rfl, rfl, ?_, fun x hx => ?_⟩
    · cases hst
    · show pf.encrypted_part_plain.size = o + 0
      rw [hsz]
      rfl
    · have hx' : x < o := hx
      rw [if_pos hx']
      rfl
  | cons c cs ih =>
    intro pf h o s hmode hsz hb
    rw [List.flatten_cons, List.length_append] at hb ⊢
    rw [write_chunks_cons]
    dsimp only
    have key : (pf_write env pf h o c.length (some (fun i => c.getD i 0))).1 = SUCCESS ∧
        Session env (pf_write env pf h o c.length (some (fun i => c.getD i 0))).2.1
          (pf_write env pf h o c.length (some (fun i => c.getD i 0))).2.2 ∧
        (pf_write env pf h o c.length (some (fun i => c.getD i 0))).2.1.settings
          = pf.settings ∧
        (pf_write env pf h o c.length (some (fun i => c.getD i 0))).2.1.format = pf.format ∧
        (pf_write env pf h o c.length (some (fun i => c.getD i 0))).2.1.encrypted_part_plain.size
          = o + c.length ∧
        (∀ x, x < o + c.length →
          plaintext_byte env (pf_write env pf h o c.length (some (fun i => c.getD i 0))).2.1
              (pf_write env pf h o c.length (some (fun i => c.getD i 0))).2.2 x
            = if x < o then plaintext_byte env pf h x else c.getD (x - o) 0) := by
      by_cases cl : c.length = 0
      · rw [cl, pf_write_empty env hinit pf h o _ s.status (by rw [hsz])]
        refine ⟨rfl, s.se_congr _ h rfl rfl rfl rfl rfl rfl rfl, rfl, rfl, hsz, fun x hx => ?_⟩
        rw [if_pos (by omega)]
        exact plaintext_byte_congr env pf
          { pf with offset := o, end_of_file := false, last_error := INVALID_PARAMETER } h h
          (fun _ => rfl) rfl rfl rfl x
      · obtain ⟨r1, r2, r3, r4, r5, r6⟩ := pf_write_session env hcb hinv hcap hinit pf h o
          c.length (some (fun i => c.getD i 0)) s hmode (by rw [hsz]) (by omega) (by omega)
        rw [hsz] at r5 r6
        have hmax : max o (o + c.length) = o + c.length := by omega
        rw [hmax] at r5 r6
        refine ⟨r1, r2, r3, r4, r5, fun x hx => ?_⟩
        rw [r6 x hx]
        by_cases cx : x < o
        · rw [if_neg (by omega), if_pos cx]
        · rw [if_pos (by omega), if_neg cx]
          rfl
    obtain ⟨k1, k2, k3, k4, k5, k6⟩ := key
    have hmode1 : mode_has (pf_write env pf h o c.length
        (some (fun i => c.getD i 0))).2.1.mode PF_FILE_MODE_WRITE = true := by
      have := congrArg Prod.fst k3
      unfold pf_context_t.settings at this
      dsimp only at this
      rw [this]
      exact hmode
    obtain ⟨i1, i2, i3, i4, i5, i6⟩ := ih _ _ (o + c.length) k2 hmode1 k5 (by omega)
    refine ⟨fun st hst => ?_, i2, i3.trans k3, i4.trans k4, by rw [i5]; omega, fun x hx => ?_⟩
    · rcases List.mem_cons.mp hst with e | e
      · rw [e]
        exact k1
      · exact i1 st e
    · rw [i6 x (by omega)]
      by_cases c1 : x < o + c.length
      · rw [if_pos c1, k6 x c1]
        by_cases c2 : x < o
        · rw [if_pos c2, if_pos c2]
        · rw [if_neg c2, if_neg c2, List.getD_append _ _ _ _ (by omega)]
      · rw [if_neg c1, if_neg (by omega), List.getD_append_right _ _ _ _ (by omega)]
        congr 1
        omega

/-- The function `ipf_open` with a key, a path and a handle, when the allocation of the context
succeeds and the session key is drawn. -/
theorem ipf_open_some_eq (env : Env) (h : Host) (p : Path) (mode : pf_file_mode_t)
    (create : Bool) (handle : pf_handle_t) (real_size : Nat) (kdk : pf_key_t)
    (enable_recovery : Bool) (ha : env.alloc_ok h.allocs = true)
    (pf1 : pf_context_t) (h1 : Host)
    (hk : ipf_init_session_master_key env ipf_init_fields { h with allocs := h.allocs + 1 }
      = (true, pf1, h1)) :
    ipf_open env h (some p) mode create (some handle) real_size (some kdk) enable_recovery
      = if p.length > env.PATH_MAX_SIZE - 1 then
          ipf_open_out NO_MEMORY { ipf_init_fields with last_error := PATH_TOO_LONG }
            { h with allocs := h.allocs + 1 }
        else if real_size % PF_NODE_SIZE ≠ 0 then
          ipf_open_out NO_MEMORY
            { pf1 with user_kdk_key := kdk, last_error := INVALID_HEADER } h1
        else if create = false then
          match ipf_init_existing_file env
              (ipf_open_fields env pf1 p mode handle real_size kdk enable_recovery) h1
              (some p) with
          | (false, pf5, h5) => ipf_open_out NO_MEMORY pf5 h5
          | (true, pf5, h5) =>
            ipf_open_out NO_MEMORY { pf5 with last_error := SUCCESS, file_status := SUCCESS } h5
        else
          ipf_open_out NO_MEMORY
            { ipf_init_new_file env
                (ipf_open_fields env pf1 p mode handle real_size kdk enable_recovery)
                (some p) with last_error := SUCCESS, file_status := SUCCESS } h1 := by
  unfold ipf_open alloc ipf_open_fields
  simp only [ha, hk, decide_eq_true_eq]
  cases create <;> cases enable_recovery <;> rfl

theorem modify_encrypted_part_plain (pf : pf_context_t) (p : NodePtr) (f : file_node_t → file_node_t) :
    (pf.modify p f).encrypted_part_plain = pf.encrypted_part_plain := by
  cases p <;> rfl

theorem ipf_write_file_encrypted_part_plain (env : Env) (pf : pf_context_t) (h : Host) (o : Nat) (b : Block)
    (n : Nat) : (ipf_write_file env pf h o b n).2.1.encrypted_part_plain = pf.encrypted_part_plain := by
  unfold ipf_write_file
  repeat' (first | split | dsimp only)

theorem ipf_write_node_encrypted_part_plain (env : Env) (pf : pf_context_t) (h : Host) (n : Nat) (b : Block) :
    (ipf_write_node env pf h n b).2.1.encrypted_part_plain = pf.encrypted_part_plain := by
  unfold ipf_write_node
  exact ipf_write_file_encrypted_part_plain ..

theorem write_dirty_nodes_encrypted_part_plain (env : Env) (l : List NodePtr) (pf : pf_context_t) (h : Host) :
    (write_dirty_nodes env l pf h).2.1.encrypted_part_plain = pf.encrypted_part_plain := by
  induction l generalizing pf h with
  | nil => rfl
  | cons p rest ih =>
    unfold write_dirty_nodes
    dsimp only
    split
    · exact ih ..
    · have := ipf_write_node_encrypted_part_plain env pf h (pf.deref p).physical_node_number
        (.node (pf.deref p).encrypted)
      split
      · simp_all
      · rw [ih, modify_encrypted_part_plain]
        simp_all

theorem ipf_write_all_changes_to_disk_encrypted_part_plain (env : Env) (pf : pf_context_t) (h : Host) :
    (ipf_write_all_changes_to_disk env pf h).2.1.encrypted_part_plain = pf.encrypted_part_plain := by
  unfold ipf_write_all_changes_to_disk
  dsimp only
  split_ifs
  · have e1 := write_dirty_nodes_encrypted_part_plain env (cache_ptrs pf) pf h
    rcases hw : write_dirty_nodes env (cache_ptrs pf) pf h with ⟨b, pf2, h2⟩
    rw [hw] at e1
    cases b
    · exact e1
    · dsimp only at e1 ⊢
      have e2 := ipf_write_node_encrypted_part_plain env pf2 h2 1 (.node pf2.root_mht.encrypted)
      rcases hn : ipf_write_node env pf2 h2 1 (.node pf2.root_mht.encrypted) with ⟨b, pf3, h3⟩
      rw [hn] at e2
      cases b
      · exact e2.trans e1
      · dsimp only at e2 ⊢
        rw [ipf_write_node_encrypted_part_plain]
        exact e2.trans e1
  · exact ipf_write_node_encrypted_part_plain ..

theorem ipf_generate_secure_blob_from_user_kdk_encrypted_part_plain (env : Env)
    (pf : pf_context_t) (h : Host) (r : Bool) :
    (ipf_generate_secure_blob_from_user_kdk env pf h r).2.1.encrypted_part_plain
      = pf.encrypted_part_plain := by
  unfold ipf_generate_secure_blob_from_user_kdk
  repeat' (first | split | dsimp only)

theorem ipf_update_meta_data_node_encrypted_part_plain (env : Env) (pf : pf_context_t)
    (h : Host) :
    (ipf_update_meta_data_node env pf h).2.1.encrypted_part_plain = pf.encrypted_part_plain := by
  unfold ipf_update_meta_data_node
  have e1 := ipf_generate_secure_blob_from_user_kdk_encrypted_part_plain env pf h false
  unfold ipf_generate_random_meta_data_key
  split
  · simp_all
  · repeat' (first | split | dsimp only)
    all_goals simp_all

/-- With succeeding callbacks, `ipf_update_meta_data_node` seals the metadata node. -/
theorem ipf_update_meta_data_node_sealed (env : Env) (hcb : CallbacksSucceed env)
    (pf : pf_context_t) (h : Host) :
    MetaSealed env (ipf_update_meta_data_node env pf h).2.1 := by
  unfold MetaSealed metadata_kdf_input ipf_update_meta_data_node
    ipf_generate_random_meta_data_key ipf_generate_secure_blob_from_user_kdk cb_random
  simp [hcb.random, hcb.encrypt, PF_FAILURE]

theorem MetaSealed.ms_congr {env : Env} {pf : pf_context_t} (s : MetaSealed env pf)
    (pf1 : pf_context_t) (hm : pf1.file_meta_data = pf.file_meta_data)
    (he : pf1.encrypted_part_plain = pf.encrypted_part_plain)
    (hk : pf1.user_kdk_key = pf.user_kdk_key) : MetaSealed env pf1 := by
  unfold MetaSealed at s ⊢
  rw [hm, he, hk]
  exact s

theorem RootSealed.rs_congr {env : Env} {pf : pf_context_t} (s : RootSealed env pf)
    (pf1 : pf_context_t) (he : pf1.encrypted_part_plain = pf.encrypted_part_plain)
    (hd : pf1.root_mht.decrypted = pf.root_mht.decrypted)
    (hc : pf1.root_mht.encrypted = pf.root_mht.encrypted) : RootSealed env pf1 := by
  unfold RootSealed at s ⊢
  rw [he, hd, hc]
  exact s

/-- A successful flush that writes the tree leaves the root MHT sealed: the key and the tag in
the metadata are those under which its plaintext encrypts to its ciphertext. -/
theorem ipf_internal_flush_root_sealed (env : Env) (pf : pf_context_t) (h : Host)
    (g : Good env pf h) (hnw : pf.need_writing = true) (hg : flush_writes_tree pf = true)
    (hok : (ipf_internal_flush env pf h).1 = true) :
    RootSealed env (ipf_internal_flush env pf h).2.1 := by
  obtain ⟨st, mok, dok, hres⟩ := flush_success_steps env pf h hnw hok
  obtain ⟨lok, fok, tok⟩ := st hg
  have hfin : (ipf_internal_flush env pf h).2.1
      = { (flush_disk_step env pf h).2.1 with need_writing := false } :=
    congrArg Prod.fst hres
  rw [hfin]
  have cL := flush_log_step_cache env pf h
  have rL := flush_log_step_root_mht env pf h
  have sL := flush_log_step_stable env pf h
  rcases eL : flush_log_step env pf h with ⟨bL, pfL, hL⟩
  rw [eL] at cL rL sL
  dsimp only at cL rL sL
  have eF0 : flush_flag_step env pf h = ipf_set_update_flag env pfL hL := by
    unfold flush_flag_step
    rw [eL]
  have cF := ipf_set_update_flag_cache env pfL hL
  have rF := ipf_set_update_flag_root_mht env pfL hL
  have sF := ipf_set_update_flag_stable env pfL hL
  rcases eF : ipf_set_update_flag env pfL hL with ⟨bF, pfF, hF⟩
  rw [eF] at cF rF sF
  dsimp only at cF rF sF
  have eT0 : flush_tree_step env pf h = ipf_update_all_data_and_mht_nodes env pfF hF := by
    unfold flush_tree_step
    rw [eF0, eF]
  rw [eT0] at tok
  have hcF : pfF.cache = pf.cache := cF.trans cL
  have hrF : pfF.root_mht = pf.root_mht := rF.trans rL
  have shF : SameShape pfF pf := SameShape.s_congr pfF pf hcF hrF
  have hkF : (pfF.cache.map (fun m => m.physical_node_number)).Nodup := by
    rw [hcF]
    exact g.keys
  have hlF : Linked pfF := g.linked.l_transfer shF
  obtain ⟨shT, -, rootT⟩ := ipf_update_all_data_and_mht_nodes_seals env pfF hF hkF hlF tok
  have flT := ipf_update_all_data_and_mht_nodes_cache_flags env pfF hF
  have sT := ipf_update_all_data_and_mht_nodes_stable env pfF hF
  rcases eT : ipf_update_all_data_and_mht_nodes env pfF hF with ⟨bT, pfT, hT⟩
  rw [eT] at shT rootT flT sT
  dsimp only at shT rootT flT sT
  have sealT : RootSealed env pfT := ⟨rootT.2.2.1, rootT.2.2.2⟩
  have eD0 : flush_tree_done env pf h = (pfT, hT) := by
    unfold flush_tree_done
    rw [if_pos hg, eT0, eT]
  have eM0 : flush_meta_step env pf h = ipf_update_meta_data_node env pfT hT := by
    unfold flush_meta_step
    rw [eD0]
  have cM := ipf_update_meta_data_node_cache env pfT hT
  have rM := ipf_update_meta_data_node_root_mht env pfT hT
  have sM := ipf_update_meta_data_node_stable env pfT hT
  have pM := ipf_update_meta_data_node_encrypted_part_plain env pfT hT
  rcases eM : ipf_update_meta_data_node env pfT hT with ⟨bM, pfM, hM⟩
  rw [eM] at cM rM sM pM
  dsimp only at cM rM sM pM
  have eW0 : flush_disk_step env pf h = ipf_write_all_changes_to_disk env pfM hM := by
    unfold flush_disk_step
    rw [eM0, eM]
  rw [eW0] at dok ⊢
  have shTpf : SameShape pfT pf := shT.s_trans shF
  have hkT : pfT.cache.map (fun m => m.physical_node_number)
      = pf.cache.map (fun m => m.physical_node_number) := by
    rw [keys_of_cache_flags pfT pfF flT, hcF]
  have hkM : (pfM.cache.map (fun m => m.physical_node_number)).Nodup := by
    rw [cM, hkT]
    exact g.keys
  have hszM : pfM.encrypted_part_plain.size = pf.encrypted_part_plain.size := by
    rw [size_of_stable_eq _ _ sM, size_of_stable_eq _ _ sT, size_of_stable_eq _ _ sF,
      size_of_stable_eq _ _ sL]
  have hrdM : pfM.root_mht.need_writing = pf.root_mht.need_writing := by
    rw [rM]
    exact (shTpf .root).2.2.2.2.1
  have hgM : flush_writes_tree pfM = true := by
    rw [flush_writes_tree_congr pfM pf hszM hrdM]
    exact hg
  have rW := ipf_write_all_changes_to_disk_root env pfM hM hkM hgM dok
  have pW := ipf_write_all_changes_to_disk_encrypted_part_plain env pfM hM
  have hwf := written_fields pfM.root_mht
  refine sealT.rs_congr _ (pW.trans pM) ?_ ?_
  · show (ipf_write_all_changes_to_disk env pfM hM).2.1.root_mht.decrypted = _
    rw [rW, ← rM]
    exact hwf.2.2.2.2.2.1
  · show (ipf_write_all_changes_to_disk env pfM hM).2.1.root_mht.encrypted = _
    rw [rW, ← rM]
    exact hwf.2.2.2.2.1

/-- With succeeding callbacks and an AEAD whose decryption inverts its encryption,
`ipf_init_existing_file` succeeds on a disk whose block 0 is the sealed metadata node of a
context `pfc` with the format fields of this implementation, a clear `update_flag`, the user
key and the path of the call, and whose block 1 is the sealed root MHT of `pfc` when the file
reaches beyond the inline region: it restores the plaintext of the metadata and of the root
MHT, and leaves the cache, the mode and the shape of the root MHT as they were. -/
theorem ipf_init_existing_file_ok (env : Env) (hcb : CallbacksSucceed env)
    (hinv : AeadInverse env) (pf4 : pf_context_t) (h : Host) (p : Path) (pfc : pf_context_t)
    (hkey : pf4.user_kdk_key = pfc.user_kdk_key)
    (hb0 : h.file 0 = .meta pfc.file_meta_data)
    (hid : pfc.file_meta_data.plain_part.file_id = env.PF_FILE_ID)
    (hver : pfc.file_meta_data.plain_part.major_version = env.PF_MAJOR_VERSION)
    (hflag : pfc.file_meta_data.plain_part.update_flag = 0)
    (hms : MetaSealed env pfc)
    (hname : pfc.encrypted_part_plain.clean_filename = p)
    (hroot : MD_USER_DATA_SIZE < pfc.encrypted_part_plain.size →
      h.file 1 = .node pfc.root_mht.encrypted ∧ RootSealed env pfc) :
    (ipf_init_existing_file env pf4 h (some p)).1 = true ∧
    (ipf_init_existing_file env pf4 h (some p)).2.2.file = h.file ∧
    (ipf_init_existing_file env pf4 h (some p)).2.1.encrypted_part_plain
      = pfc.encrypted_part_plain ∧
    (ipf_init_existing_file env pf4 h (some p)).2.1.cache = pf4.cache ∧
    (ipf_init_existing_file env pf4 h (some p)).2.1.mode = pf4.mode ∧
    (ipf_init_existing_file env pf4 h (some p)).2.1.root_mht.node_number
      = pf4.root_mht.node_number ∧
    (ipf_init_existing_file env pf4 h (some p)).2.1.root_mht.type = pf4.root_mht.type ∧
    (ipf_init_existing_file env pf4 h (some p)).2.1.root_mht.need_writing
      = pf4.root_mht.need_writing ∧
    (MD_USER_DATA_SIZE < pfc.encrypted_part_plain.size →
      (ipf_init_existing_file env pf4 h (some p)).2.1.root_mht.decrypted.as_mht
        = pfc.root_mht.decrypted.as_mht) := by
  have hdec : env.aes_gcm_decrypt
      (env.aes_gcm_encrypt pfc.user_kdk_key
        (some (metadata_kdf_input pfc.file_meta_data.plain_part.meta_data_key_id)) none).2.2
      pfc.file_meta_data.encrypted_part pfc.file_meta_data.plain_part.meta_data_gmac
      = (SUCCESS, .md pfc.encrypted_part_plain) := by
    have := hinv (env.aes_gcm_encrypt pfc.user_kdk_key
        (some (metadata_kdf_input pfc.file_meta_data.plain_part.meta_data_key_id)) none).2.2
      (.md pfc.encrypted_part_plain) (by rw [hcb.encrypt]; rfl)
    rw [hms.1, hms.2] at this
    exact this
  unfold metadata_kdf_input at hdec
  have e1 : 1 * PF_NODE_SIZE % U64 / PF_NODE_SIZE = 1 := by
    unfold PF_NODE_SIZE U64
    norm_num
  have ht : ∀ e, (h.tick e).file = h.file := fun _ => rfl
  by_cases c : MD_USER_DATA_SIZE < pfc.encrypted_part_plain.size
  · obtain ⟨hb1, hrs⟩ := hroot c
    have hrd : env.aes_gcm_decrypt pfc.encrypted_part_plain.mht_key pfc.root_mht.encrypted
        pfc.encrypted_part_plain.mht_gmac = (SUCCESS, .mht pfc.root_mht.decrypted.as_mht) := by
      have := hinv pfc.encrypted_part_plain.mht_key (.mht pfc.root_mht.decrypted.as_mht)
        (by rw [hcb.encrypt]; rfl)
      rw [hrs.1, hrs.2] at this
      exact this
    unfold ipf_init_existing_file ipf_read_node cb_read ipf_restore_current_meta_data_key
      ipf_generate_secure_blob_from_user_kdk
    simp only [hcb.io, PF_FAILURE, Nat.zero_mul, Nat.zero_mod, Nat.zero_div, hb0, Block.as_meta,
      hid, hver, hflag, hcb.encrypt, hkey, ne_eq, not_true_eq_false, if_false, decide_False,
      Bool.false_eq_true, Bool.not_true, reduceCtorEq, hdec, Buf.as_md, hname,
      decide_True, Bool.not_true, gt_iff_lt, c, if_true, e1, ht, hb1, Block.as_node, hrd,
      Buf.as_mht, and_self, implies_true]
    exact ⟨trivial, rfl, trivial⟩
  · unfold ipf_init_existing_file ipf_read_node cb_read ipf_restore_current_meta_data_key
      ipf_generate_secure_blob_from_user_kdk
    simp only [hcb.io, PF_FAILURE, Nat.zero_mul, Nat.zero_mod, Nat.zero_div, hb0, Block.as_meta,
      hid, hver, hflag, hcb.encrypt, hkey, ne_eq, not_true_eq_false, if_false, decide_False,
      Bool.false_eq_true, Bool.not_true, reduceCtorEq, hdec, Buf.as_md, hname,
      decide_True, Bool.not_true, gt_iff_lt, c, if_true, e1, ht, Block.as_node,
      Buf.as_mht, and_self, implies_true, false_implies, and_true]

/-- With succeeding callbacks, a successful flush of a context that needs writing leaves the
metadata node sealed. -/
theorem ipf_internal_flush_meta_sealed (env : Env) (hcb : CallbacksSucceed env)
    (pf : pf_context_t) (h : Host) (hnw : pf.need_writing = true)
    (hok : (ipf_internal_flush env pf h).1 = true) :
    MetaSealed env (ipf_internal_flush env pf h).2.1 := by
  obtain ⟨-, -, -, hres⟩ := flush_success_steps env pf h hnw hok
  have hfin : (ipf_internal_flush env pf h).2.1
      = { (flush_disk_step env pf h).2.1 with need_writing := false } :=
    congrArg Prod.fst hres
  rw [hfin]
  have sM : MetaSealed env (flush_meta_step env pf h).2.1 :=
    ipf_update_meta_data_node_sealed env hcb _ _
  refine sM.ms_congr _ ?_ ?_ ?_
  · exact ipf_write_all_changes_to_disk_file_meta_data env _ _
  · exact ipf_write_all_changes_to_disk_encrypted_part_plain env _ _
  · have := ipf_write_all_changes_to_disk_stable env (flush_meta_step env pf h).2.1
      (flush_meta_step env pf h).2.2
    exact congrArg Stable.user_kdk_key this

theorem ipf_erase_recovery_file_file (env : Env) (pf : pf_context_t) (h : Host) :
    (ipf_erase_recovery_file env pf h).2.2.file = h.file := by
  unfold ipf_erase_recovery_file
  split_ifs
  · rfl
  · have := cb_delete_same_file env h
    unfold SameFile at this
    rcases hd : cb_delete env h with ⟨s, h1⟩
    rw [hd] at this
    dsimp only at this ⊢
    split_ifs <;> exact this

/-- A `pf_close` of a context with status `SUCCESS` whose flush succeeds returns `SUCCESS` and
leaves the protected file as the flush left it. -/
theorem pf_close_flushed (env : Env) (hinit : env.g_initialized = true) (pf : pf_context_t)
    (h : Host) (hst : pf.file_status = SUCCESS)
    (hok : (ipf_internal_flush env pf h).1 = true) :
    (pf_close env pf h).1 = SUCCESS ∧
    (pf_close env pf h).2.file = (ipf_internal_flush env pf h).2.2.file := by
  have g0 : ¬ (!env.g_initialized) = true := by rw [hinit]; simp
  unfold pf_close ipf_close
  rw [if_neg g0, if_neg (not_not.mpr hst)]
  rcases hf : ipf_internal_flush env pf h with ⟨b, pf1, h1⟩
  rw [hf] at hok
  dsimp only at hok ⊢
  subst hok
  dsimp only
  refine ⟨rfl, ?_⟩
  split_ifs
  · exact ipf_erase_recovery_file_file env pf1 h1
  · rfl

theorem ipf_open_fields_facts (env : Env) (pf1 : pf_context_t) (p : Path)
    (mode : pf_file_mode_t) (handle : pf_handle_t) (real_size : Nat) (kdk : pf_key_t)
    (er : Bool) :
    (ipf_open_fields env pf1 p mode handle real_size kdk er).cache = pf1.cache ∧
    (ipf_open_fields env pf1 p mode handle real_size kdk er).root_mht = pf1.root_mht ∧
    (ipf_open_fields env pf1 p mode handle real_size kdk er).file_meta_data
      = pf1.file_meta_data ∧
    (ipf_open_fields env pf1 p mode handle real_size kdk er).encrypted_part_plain
      = pf1.encrypted_part_plain ∧
    (ipf_open_fields env pf1 p mode handle real_size kdk er).mode = mode ∧
    (ipf_open_fields env pf1 p mode handle real_size kdk er).user_kdk_key = kdk ∧
    (ipf_open_fields env pf1 p mode handle real_size kdk er).need_writing
      = pf1.need_writing := by
  unfold ipf_open_fields
  cases er <;> exact ⟨rfl, rfl, rfl, rfl, rfl, rfl, rfl⟩

/-- With succeeding callbacks, a context that `pf_open` has created for a path with a key is in
a session: it holds an empty file that needs writing, with the mode, the key, the path and the
format fields of the call; the path is within the bound from which `pf_open` refuses it. -/
theorem pf_open_create_session (env : Env) (hcb : CallbacksSucceed env) (h0 : Host)
    (handle : pf_handle_t) (p : Path) (size0 : Nat) (mode : pf_file_mode_t) (er : Bool)
    (kdk : pf_key_t) (st : pf_status_t) (pf : pf_context_t) (h1 : Host)
    (hopen : pf_open env h0 (some handle) (some p) size0 mode true er (some kdk)
      = (st, some pf, h1)) :
    env.g_initialized = true ∧ ¬ p.length > env.PATH_MAX_SIZE - 1 ∧ Session env pf h1 ∧
    pf.encrypted_part_plain.size = 0 ∧ pf.mode = mode ∧ pf.user_kdk_key = kdk ∧
    pf.encrypted_part_plain.clean_filename = p ∧
    pf.format = (env.PF_FILE_ID, env.PF_MAJOR_VERSION) := by
  unfold pf_open at hopen
  by_cases gi : env.g_initialized = true
  · have g0 : ¬ (!env.g_initialized) = true := by rw [gi]; simp
    rw [if_neg g0] at hopen
    have hm := ipf_init_session_master_key_ok env hcb ipf_init_fields
      { h0 with allocs := h0.allocs + 1 }
    have k1 := ipf_init_session_master_key_cache env ipf_init_fields
      { h0 with allocs := h0.allocs + 1 }
    have k2 := ipf_init_session_master_key_root_mht env ipf_init_fields
      { h0 with allocs := h0.allocs + 1 }
    have k3 := ipf_init_session_master_key_file_meta_data env ipf_init_fields
      { h0 with allocs := h0.allocs + 1 }
    have k4 := ipf_init_session_master_key_stable env ipf_init_fields
      { h0 with allocs := h0.allocs + 1 }
    rcases hk : ipf_init_session_master_key env ipf_init_fields
      { h0 with allocs := h0.allocs + 1 } with ⟨b, pf1, hh1⟩
    rw [hk] at hm k1 k2 k3 k4
    dsimp only at hm k1 k2 k3 k4
    subst hm
    rw [ipf_open_some_eq env h0 p mode true handle size0 kdk er (hcb.alloc _) pf1 hh1 hk]
      at hopen
    by_cases hp : p.length > env.PATH_MAX_SIZE - 1
    · rw [if_pos hp, ipf_open_out_fail NO_MEMORY
        { ipf_init_fields with last_error := PATH_TOO_LONG } _ rfl] at hopen
      cases hopen
    · rw [if_neg hp] at hopen
      by_cases hs : size0 % PF_NODE_SIZE ≠ 0
      · rw [if_pos hs, ipf_open_out_fail NO_MEMORY
          { pf1 with user_kdk_key := kdk, last_error := INVALID_HEADER } _ rfl] at hopen
        cases hopen
      · rw [if_neg hs, if_neg (by decide)] at hopen
        unfold ipf_open_out at hopen
        rw [if_neg (by show ¬ PF_FAILURE SUCCESS = true; decide)] at hopen
        simp only [Prod.mk.injEq, Option.some.injEq] at hopen
        obtain ⟨-, rfl, rfl⟩ := hopen
        obtain ⟨f1, f2, f3, f4, f5, f6, f7⟩ := ipf_open_fields_facts env pf1 p mode handle
          size0 kdk er
        have hsz : pf1.encrypted_part_plain.size = 0 := size_of_stable_eq _ _ k4
        have hplen : (p.take env.PATH_MAX_SIZE) = p := by
          apply List.take_of_length_le
          omega
        unfold ipf_init_new_file
        dsimp only [Option.getD]
        rw [hplen]
        refine ⟨gi, hp, ?_, ?_, f5, f6, rfl, ?_⟩
        · exact
            { wf := WellFormed.of_empty env _ _ (by
                  show (ipf_open_fields env pf1 p mode handle size0 kdk er).cache.length = 0
                  rw [f1, k1]
                  rfl)
                (by
                  show (ipf_open_fields env pf1 p mode handle size0 kdk er).encrypted_part_plain.size
                    ≤ NO_WRAP
                  rw [f4, hsz]
                  exact Nat.zero_le _)
                (by
                  show (ipf_open_fields env pf1 p mode handle size0 kdk er).root_mht.node_number = 0
                  rw [f2, k2]
                  rfl)
                (by
                  show (ipf_open_fields env pf1 p mode handle size0 kdk er).root_mht.type
                    = FILE_MHT_NODE_TYPE
                  rw [f2, k2]
                  rfl)
                (by
                  show (ipf_open_fields env pf1 p mode handle size0 kdk er).root_mht.need_writing
                    = false
                  rw [f2, k2]
                  rfl)
              status := rfl
              safe := fun d hl => by
                have hl' : MD_USER_DATA_SIZE + d * PF_NODE_SIZE
                    < (ipf_open_fields env pf1 p mode handle size0 kdk
                        er).encrypted_part_plain.size := hl
                rw [f4, hsz] at hl'
                omega
              dirty := rfl
              root_dirty := fun hl => by
                have hl' : MD_USER_DATA_SIZE
                    < (ipf_open_fields env pf1 p mode handle size0 kdk
                        er).encrypted_part_plain.size := hl
                rw [f4, hsz] at hl'
                omega
              flag := by
                show (ipf_open_fields env pf1 p mode handle size0 kdk
                  er).file_meta_data.plain_part.update_flag = 0
                rw [f3, k3]
                rfl }
        · show (ipf_open_fields env pf1 p mode handle size0 kdk er).encrypted_part_plain.size = 0
          rw [f4, hsz]
        · rfl
  · have g0 : (!env.g_initialized) = true := by
      cases hb : env.g_initialized
      · rfl
      · exact absurd hb gi
    rw [if_pos g0] at hopen
    cases hopen

/-- With succeeding callbacks and an AEAD whose decryption inverts its encryption, `pf_open` of
an existing file, with a path within the bound, a size of whole nodes and the key of the
context `pfc`, on a disk that holds the sealed metadata node and the sealed root MHT of `pfc`,
returns `SUCCESS` and a context with an empty cache, the plaintext of the metadata and of the
root MHT of `pfc`, a clean root MHT numbered 0, the status `SUCCESS` and the mode of the
call. -/
theorem pf_open_existing_ok (env : Env) (hcb : CallbacksSucceed env) (hinv : AeadInverse env)
    (hinit : env.g_initialized = true) (h : Host) (handle : pf_handle_t) (p : Path)
    (size2 : Nat) (mode : pf_file_mode_t) (er : Bool) (kdk : pf_key_t) (pfc : pf_context_t)
    (hpath : ¬ p.length > env.PATH_MAX_SIZE - 1) (hsz : size2 % PF_NODE_SIZE = 0)
    (hkey : pfc.user_kdk_key = kdk)
    (hb0 : h.file 0 = .meta pfc.file_meta_data)
    (hfmt : pfc.format = (env.PF_FILE_ID, env.PF_MAJOR_VERSION))
    (hflag : pfc.file_meta_data.plain_part.update_flag = 0)
    (hms : MetaSealed env pfc)
    (hname : pfc.encrypted_part_plain.clean_filename = p)
    (hroot : MD_USER_DATA_SIZE < pfc.encrypted_part_plain.size →
      h.file 1 = .node pfc.root_mht.encrypted ∧ RootSealed env pfc) :
    ∃ pf2 h2, pf_open env h (some handle) (some p) size2 mode false er (some kdk)
        = (SUCCESS, some pf2, h2) ∧
      h2.file = h.file ∧ pf2.encrypted_part_plain = pfc.encrypted_part_plain ∧
      pf2.cache = [] ∧ pf2.mode = mode ∧ pf2.file_status = SUCCESS ∧
      pf2.root_mht.node_number = 0 ∧ pf2.root_mht.type = FILE_MHT_NODE_TYPE ∧
      pf2.root_mht.need_writing = false ∧
      (MD_USER_DATA_SIZE < pfc.encrypted_part_plain.size →
        pf2.root_mht.decrypted.as_mht = pfc.root_mht.decrypted.as_mht) := by
  have g0 : ¬ (!env.g_initialized) = true := by rw [hinit]; simp
  have hid : pfc.file_meta_data.plain_part.file_id = env.PF_FILE_ID :=
    congrArg Prod.fst hfmt
  have hver : pfc.file_meta_data.plain_part.major_version = env.PF_MAJOR_VERSION :=
    congrArg Prod.snd hfmt
  have hm := ipf_init_session_master_key_ok env hcb ipf_init_fields
    { h with allocs := h.allocs + 1 }
  have k1 := ipf_init_session_master_key_cache env ipf_init_fields
    { h with allocs := h.allocs + 1 }
  have k2 := ipf_init_session_master_key_root_mht env ipf_init_fields
    { h with allocs := h.allocs + 1 }
  have k5 : (ipf_init_session_master_key env ipf_init_fields
      { h with allocs := h.allocs + 1 }).2.2.file = h.file :=
    ipf_init_session_master_key_same_file env ipf_init_fields { h with allocs := h.allocs + 1 }
  rcases hk : ipf_init_session_master_key env ipf_init_fields
    { h with allocs := h.allocs + 1 } with ⟨b, pf1, hh1⟩
  rw [hk] at hm k1 k2 k5
  dsimp only at hm k1 k2 k5
  subst hm
  obtain ⟨f1, f2, -, -, f5, f6, -⟩ := ipf_open_fields_facts env pf1 p mode handle size2 kdk er
  obtain ⟨i1, i2, i3, i4, i5, i6, i7, i8, i9⟩ := ipf_init_existing_file_ok env hcb hinv
    (ipf_open_fields env pf1 p mode handle size2 kdk er) hh1 p pfc (by rw [f6, hkey])
    (by rw [k5]; exact hb0) hid hver hflag hms hname (by rw [k5]; exact hroot)
  unfold pf_open
  rw [if_neg g0,
    ipf_open_some_eq env h p mode false handle size2 kdk er (hcb.alloc _) pf1 hh1 hk,
    if_neg hpath, if_neg (not_not.mpr hsz), if_pos rfl]
  rcases hi : ipf_init_existing_file env (ipf_open_fields env pf1 p mode handle size2 kdk er)
    hh1 (some p) with ⟨bi, pf5, h5⟩
  rw [hi] at i1 i2 i3 i4 i5 i6 i7 i8 i9
  dsimp only at i1 i2 i3 i4 i5 i6 i7 i8 i9 ⊢
  subst i1
  dsimp only
  unfold ipf_open_out
  rw [if_neg (by show ¬ PF_FAILURE SUCCESS = true; decide)]
  refine ⟨_, _, rfl, by rw [i2, k5], i3, ?_, ?_, rfl, ?_, ?_, ?_, i9⟩
  · show pf5.cache = []
    rw [i4, f1, k1]
    rfl
  · show pf5.mode = mode
    rw [i5, f5]
  · show pf5.root_mht.node_number = 0
    rw [i6, f2, k2]
    rfl
  · show pf5.root_mht.type = FILE_MHT_NODE_TYPE
    rw [i7, f2, k2]
    rfl
  · show pf5.root_mht.need_writing = false
    rw [i8, f2, k2]
    rfl

/-- With succeeding callbacks and an AEAD whose decryption inverts its encryption, the flush of
a session succeeds and leaves the same file with every node safe and no cached node dirty; the
disk then holds, in block 0, the sealed metadata node of the context, with a clear
`update_flag`, and in block 1 the sealed root MHT when the file reaches beyond the inline
region. -/
theorem Session.s_flush {env : Env} {pf : pf_context_t} {h : Host} (s : Session env pf h)
    (hcb : CallbacksSucceed env) (hinv : AeadInverse env) :
    (ipf_internal_flush env pf h).1 = true ∧
    WellFormed env (ipf_internal_flush env pf h).2.1 (ipf_internal_flush env pf h).2.2 ∧
    SameBytes env pf h (ipf_internal_flush env pf h).2.1 (ipf_internal_flush env pf h).2.2 ∧
    AllSafe env (ipf_internal_flush env pf h).2.1 (ipf_internal_flush env pf h).2.2 ∧
    (ipf_internal_flush env pf h).2.1.stable = pf.stable ∧
    (ipf_internal_flush env pf h).2.1.format = pf.format ∧
    (ipf_internal_flush env pf h).2.1.file_meta_data.plain_part.update_flag = 0 ∧
    (ipf_internal_flush env pf h).2.2.file 0
      = .meta (ipf_internal_flush env pf h).2.1.file_meta_data ∧
    MetaSealed env (ipf_internal_flush env pf h).2.1 ∧
    (MD_USER_DATA_SIZE < pf.encrypted_part_plain.size →
      (ipf_internal_flush env pf h).2.2.file 1
        = .node (ipf_internal_flush env pf h).2.1.root_mht.encrypted ∧
      RootSealed env (ipf_internal_flush env pf h).2.1) ∧
    (∀ k n, lruc_find (ipf_internal_flush env pf h).2.1.cache k = some n →
      n.need_writing = false) := by
  have g := s.wf.good
  have hok := ipf_internal_flush_ok env hcb pf h g.keys
  obtain ⟨pfT, F⟩ := ipf_internal_flush_flushed env pf h g hok
  have hst := ipf_internal_flush_stable env pf h
  have hsz := size_of_stable_eq _ _ hst
  refine ⟨hok, (ipf_internal_flush_mirrors env hinv pf h s.wf hok).1,
    F.same_bytes g hsz (data_of_stable_eq _ _ hst), ?_, hst, ipf_internal_flush_format env pf h,
    F.flag s.flag, F.block0 s.dirty, ipf_internal_flush_meta_sealed env hcb pf h s.dirty hok,
    ?_, ?_⟩
  · intro d hl
    rw [hsz] at hl
    have sa := s.safe d hl
    exact ⟨(F.fl_safe g).2 d hl sa.1,
      fun j hj => (F.fl_safe g).1 _ hj (live_mht_up _ d hl j hj) (sa.2 j hj)⟩
  · intro hl
    have hrd := s.root_dirty hl
    have hg : flush_writes_tree pf = true := by
      unfold flush_writes_tree
      rw [hrd, decide_eq_true hl]
      rfl
    refine ⟨?_, ipf_internal_flush_root_sealed env pf h g s.dirty hg hok⟩
    have b1 := F.block1
    rw [if_pos hrd] at b1
    rw [b1]
    have hn := (F.nodes .root).1
    have hn' : (ipf_internal_flush env pf h).2.1.root_mht = written pfT.root_mht := hn
    rw [hn', (written_fields pfT.root_mht).2.2.2.2.1]
  · intro k n hn
    obtain ⟨n0, -, -, -, -, -, -, -, -, c, -⟩ := F.find k n hn
    exact c

/-- A context with an empty cache that holds the metadata plaintext and the root MHT plaintext
of a state in which no cached node is dirty, over the same disk, holds the same file: the same
plaintext bytes, and every node of the file safe when it was. -/
theorem reopen_agrees (env : Env) (pf1 : pf_context_t) (h1 : Host) (pf2 : pf_context_t)
    (h2 : Host) (w : WellFormed env pf1 h1) (a : AllSafe env pf1 h1)
    (hclean : ∀ k n, lruc_find pf1.cache k = some n → n.need_writing = false)
    (hc : pf2.cache = []) (hep : pf2.encrypted_part_plain = pf1.encrypted_part_plain)
    (hroot : MD_USER_DATA_SIZE < pf1.encrypted_part_plain.size →
      pf2.root_mht.decrypted.as_mht = pf1.root_mht.decrypted.as_mht)
    (hfile : h2.file = h1.file) :
    (∀ x, x < pf1.encrypted_part_plain.size →
      plaintext_byte env pf2 h2 x = plaintext_byte env pf1 h1 x) ∧
    AllSafe env pf2 h2 := by
  have g := w.good
  by_cases c : MD_USER_DATA_SIZE < pf1.encrypted_part_plain.size
  · have e := hroot c
    have hnew : ∀ k n, lruc_find pf1.cache k = some n → n.new_node = false := by
      intro k n hn
      cases hb : n.new_node
      · rfl
      · have p1 := g.pending k n hn (hclean k n hn) hb
        have p2 := w.settled k n hn
        omega
    have hnone : ∀ k, lruc_find pf2.cache k = none := by
      intro k
      rw [hc]
      rfl
    have cm : ∀ m n, live_mht pf1.encrypted_part_plain.size m →
        lruc_find pf1.cache (mht_physical_node_number m) = some n →
        (env.aes_gcm_decrypt (mht_entry env pf1 h1 m).key
          (h2.file (mht_physical_node_number m)).as_node (mht_entry env pf1 h1 m).gmac).1
          = SUCCESS ∧
        n.decrypted.as_mht = (env.aes_gcm_decrypt (mht_entry env pf1 h1 m).key
          (h2.file (mht_physical_node_number m)).as_node
          (mht_entry env pf1 h1 m).gmac).2.as_mht := by
      intro m n hlv hn
      obtain ⟨ht, hnum⟩ := g.find_mht m (live_mht_lt _ m hlv g.size_le) n hn
      have cc := g.clean _ n hn (hclean _ n hn) (hnew _ n hn)
      rw [g.entry_mht _ n hn ht, hnum, lruc_find_key _ _ _ hn] at cc
      unfold file_node_t.payload at cc
      rw [ht] at cc
      dsimp only at cc
      rw [hfile]
      exact ⟨cc.1, (Buf.mht.inj cc.2).symm⟩
    have cd : ∀ d n, lruc_find pf1.cache (data_physical_node_number d) = some n →
        (env.aes_gcm_decrypt (data_entry env pf1 h1 d).key
          (h2.file (data_physical_node_number d)).as_node (data_entry env pf1 h1 d).gmac).1
          = SUCCESS ∧
        n.decrypted.as_data = (env.aes_gcm_decrypt (data_entry env pf1 h1 d).key
          (h2.file (data_physical_node_number d)).as_node
          (data_entry env pf1 h1 d).gmac).2.as_data := by
      intro d n hn
      obtain ⟨ht, hnum⟩ := g.find_data d n hn
      have cc := g.clean _ n hn (hclean _ n hn) (hnew _ n hn)
      rw [g.entry_data _ n hn ht, hnum, lruc_find_key _ _ _ hn] at cc
      unfold file_node_t.payload at cc
      rw [ht] at cc
      dsimp only at cc
      rw [hfile]
      exact ⟨cc.1, (Buf.data.inj cc.2).symm⟩
    have ag : Agree env pf1 h1 pf2 h2 pf1.encrypted_part_plain.size :=
      { root := by
          rw [e]
          exact EntriesAgree.ea_refl _ _ _ _
        mht_both := fun m n n1 _ _ _ b => by
          rw [hnone] at b
          cases b
        mht_none := fun m _ _ _ _ => by rw [hfile]
        mht_out := fun m n _ hlv hn _ => (cm m n hlv hn).2
        mht_in := fun m n1 _ _ _ b => by
          rw [hnone] at b
          cases b
        data_both := fun d n n1 _ _ b => by
          rw [hnone] at b
          cases b
        data_none := fun d _ _ _ => by rw [hfile]
        data_out := fun d n _ hn _ => (cd d n hn).2
        data_in := fun d n1 _ _ b => by
          rw [hnone] at b
          cases b }
    refine ⟨fun x hx => ag.a_byte (by rw [hep]) x hx, ?_⟩
    intro d hl
    rw [hep] at hl
    have sa := a d hl
    exact ⟨sa.1.sd_agree ag hl (fun n hn _ => (cd d n hn).1),
      fun j hj => (sa.2 j hj).sm_agree ag hj (live_mht_up _ d hl j hj)
        (fun n hn _ => (cm _ n (live_mht_up _ d hl j hj) hn).1)⟩
  · refine ⟨fun x hx => ?_, fun d hl => ?_⟩
    · unfold plaintext_byte
      rw [if_pos (by omega), if_pos (by omega), hep]
    · rw [hep] at hl
      unfold live_data at hl
      omega

theorem KeepsWhole.of_size {h h1 : Host} (e : h1.file_size = h.file_size) : KeepsWhole h h1 := by
  refine ⟨fun w => ?_⟩
  unfold Whole at w ⊢
  rw [e]
  exact w

theorem KeepsWhole.kw_refl (h : Host) : KeepsWhole h h := ⟨fun w => w⟩

theorem KeepsWhole.kw_trans {h h1 h2 : Host} (x : KeepsWhole h h1) (y : KeepsWhole h1 h2) :
    KeepsWhole h h2 := ⟨fun w => y.keep (x.keep w)⟩

theorem KeepsWhole.after {h h1 h2 : Host} (y : KeepsWhole h1 h2) (x : KeepsWhole h h1) :
    KeepsWhole h h2 := ⟨fun w => y.keep (x.keep w)⟩

theorem KeepsWhole.kw_tick {h h1 : Host} (e : Event) (t : h1.file_size = h.file_size)
    (_ : block_writes [e] = []) : KeepsWhole h h1 := KeepsWhole.of_size t

theorem cb_open_whole (env : Env) (h : Host) (handle : pf_handle_t) (mode : pf_file_mode_t) :
    KeepsWhole h (cb_open env h handle mode).2.2 := by
  refine KeepsWhole.kw_tick (.open_file handle mode) ?_ rfl
  unfold cb_open
  cases handle
  · rfl
  · dsimp only
    split_ifs <;> rfl

theorem cb_close_whole (env : Env) (h : Host) (handle : pf_handle_t) :
    KeepsWhole h (cb_close env h handle).2 :=
  KeepsWhole.kw_tick (.close handle) rfl rfl

theorem cb_delete_whole (env : Env) (h : Host) : KeepsWhole h (cb_delete env h).2 := by
  refine KeepsWhole.kw_tick (.delete .recovery) ?_ rfl
  unfold cb_delete
  dsimp only
  split_ifs <;> rfl

theorem cb_write_record_whole (env : Env) (h : Host) (r : recovery_node_t) (o : Nat) :
    KeepsWhole h (cb_write_record env h r o).2 := by
  refine KeepsWhole.kw_tick (.write_record o r) ?_ rfl
  unfold cb_write_record
  dsimp only
  split_ifs <;> rfl

theorem cb_random_whole (env : Env) (h : Host) : KeepsWhole h (cb_random env h).2.2 :=
  KeepsWhole.kw_tick .random rfl rfl

theorem ipf_write_recovery_record_whole (env : Env) (pf : pf_context_t) (h : Host) (o : Nat)
    (r : recovery_node_t) : KeepsWhole h (ipf_write_recovery_record env pf h o r).2.2 := by
  unfold ipf_write_recovery_record
  have := cb_write_record_whole env h r o
  rcases hc : cb_write_record env h r o with ⟨s, h1⟩
  rw [hc] at this
  dsimp only at this ⊢
  split_ifs <;> exact this

theorem ipf_generate_secure_blob_whole (env : Env) (pf : pf_context_t) (h : Host)
    (k : pf_key_t) (l : List Char) (n : Nat) :
    KeepsWhole h (ipf_generate_secure_blob env pf h k l n).2.2 := by
  unfold ipf_generate_secure_blob
  have := cb_random_whole env h
  rcases hc : cb_random env h with ⟨s, nonce, h1⟩
  rw [hc] at this
  dsimp only at this ⊢
  split_ifs
  · exact KeepsWhole.kw_refl h
  · exact this
  · exact this
  · exact this

theorem ipf_generate_secure_blob_from_user_kdk_whole (env : Env) (pf : pf_context_t) (h : Host)
    (r : Bool) : KeepsWhole h (ipf_generate_secure_blob_from_user_kdk env pf h r).2.2 := by
  unfold ipf_generate_secure_blob_from_user_kdk
  have := cb_random_whole env h
  rcases hc : cb_random env h with ⟨s, nonce, h1⟩
  rw [hc] at this
  cases r
  · simp only [Bool.not_false, if_true]
    by_cases c : PF_FAILURE s = true
    · rw [if_pos c]
      exact this
    · rw [if_neg c]
      dsimp only
      split_ifs <;> exact this
  · simp only [Bool.not_true, Bool.false_eq_true, if_false]
    split_ifs <;> exact KeepsWhole.kw_refl h

theorem ipf_init_session_master_key_whole (env : Env) (pf : pf_context_t) (h : Host) :
    KeepsWhole h (ipf_init_session_master_key env pf h).2.2 := by
  unfold ipf_init_session_master_key
  have := ipf_generate_secure_blob_whole env pf h 0 MASTER_KEY_NAME 0
  rcases hc : ipf_generate_secure_blob env pf h 0 MASTER_KEY_NAME 0 with ⟨o, pf1, h1⟩
  rw [hc] at this
  cases o <;> exact this

theorem ipf_derive_random_node_key_whole (env : Env) (pf : pf_context_t) (h : Host) (n : Nat) :
    KeepsWhole h (ipf_derive_random_node_key env pf h n).2.2 := by
  unfold ipf_derive_random_node_key
  dsimp only
  have key : ∀ b pf1 h1,
      (if pf.master_key_count ≥ MAX_MASTER_KEY_USAGES then
          ipf_init_session_master_key env { pf with master_key_count := pf.master_key_count + 1 } h
        else (true, { pf with master_key_count := pf.master_key_count + 1 }, h)) = (b, pf1, h1) →
      KeepsWhole h h1 := by
    intro b pf1 h1 heq
    split at heq
    · have := ipf_init_session_master_key_whole env
        { pf with master_key_count := pf.master_key_count + 1 } h
      rw [heq] at this
      exact this
    · simp only [Prod.mk.injEq] at heq
      obtain ⟨-, -, rfl⟩ := heq
      exact KeepsWhole.kw_refl _
  split
  · rename_i heq
    exact key _ _ _ heq
  · rename_i pf1 h1 heq
    have e1 := key _ _ _ heq
    have := ipf_generate_secure_blob_whole env pf1 h1 pf1.session_master_key RANDOM_KEY_NAME n
    rcases hc : ipf_generate_secure_blob env pf1 h1 pf1.session_master_key RANDOM_KEY_NAME n
      with ⟨o, pf2, h2⟩
    rw [hc] at this
    cases o <;> exact e1.kw_trans this

theorem write_recovery_nodes_whole (env : Env) (l : List NodePtr) (pf : pf_context_t) (h : Host)
    (n : Nat) : KeepsWhole h (write_recovery_nodes env l pf h n).2.2 := by
  induction l generalizing pf h n with
  | nil => exact KeepsWhole.kw_refl h
  | cons p rest ih =>
    unfold write_recovery_nodes
    dsimp only
    split
    · exact ih ..
    · have := ipf_write_recovery_record_whole env pf h (n * RECOVERY_NODE_SIZE)
        (pf.deref p).recovery_node
      rcases hc : ipf_write_recovery_record env pf h (n * RECOVERY_NODE_SIZE)
        (pf.deref p).recovery_node with ⟨b, pf1, h1⟩
      rw [hc] at this
      cases b
      · exact (this.kw_trans (cb_close_whole env h1 .recovery)).kw_trans
          (cb_delete_whole env _)
      · exact this.kw_trans (ih ..)

theorem ipf_write_recovery_file_whole (env : Env) (pf : pf_context_t) (h : Host) :
    KeepsWhole h (ipf_write_recovery_file env pf h).2.2 := by
  unfold ipf_write_recovery_file
  split
  · exact KeepsWhole.kw_refl h
  · have e0 := cb_open_whole env h .recovery PF_FILE_MODE_WRITE
    rcases ho : cb_open env h .recovery PF_FILE_MODE_WRITE with ⟨status, fs, h1⟩
    rw [ho] at e0
    dsimp only at e0 ⊢
    split
    · exact e0
    · have e1 := e0.kw_trans (write_recovery_nodes_whole env (cache_ptrs pf) pf h1 0)
      rcases hw : write_recovery_nodes env (cache_ptrs pf) pf h1 0 with ⟨o, pf2, h2⟩
      rw [hw] at e1
      cases o with
      | none => exact e1
      | some n =>
        dsimp only at e1 ⊢
        have key : ∀ o pf3 h3,
            (if (pf2.root_mht.need_writing && !pf2.root_mht.new_node) = true then
                match ipf_write_recovery_record env pf2 h2 (n * RECOVERY_NODE_SIZE)
                    pf2.root_mht.recovery_node with
                | (false, pf3, h3) =>
                  let h4 := (cb_close env h3 .recovery).2
                  let h5 := (cb_delete env h4).2
                  (none, pf3, h5)
                | (true, pf3, h3) => (some (n * RECOVERY_NODE_SIZE + RECOVERY_NODE_SIZE), pf3, h3)
              else (some (n * RECOVERY_NODE_SIZE), pf2, h2)) = (o, pf3, h3) →
            KeepsWhole h2 h3 := by
          intro o pf3 h3 heq3
          split at heq3
          · have := ipf_write_recovery_record_whole env pf2 h2 (n * RECOVERY_NODE_SIZE)
              pf2.root_mht.recovery_node
            rcases hc : ipf_write_recovery_record env pf2 h2 (n * RECOVERY_NODE_SIZE)
              pf2.root_mht.recovery_node with ⟨b, pf4, h4⟩
            rw [hc] at this heq3
            cases b
            · simp only [Prod.mk.injEq] at heq3
              obtain ⟨-, -, rfl⟩ := heq3
              exact (this.kw_trans (cb_close_whole env h4 .recovery)).kw_trans
                (cb_delete_whole env _)
            · simp only [Prod.mk.injEq] at heq3
              obtain ⟨-, -, rfl⟩ := heq3
              exact this
          · simp only [Prod.mk.injEq] at heq3
            obtain ⟨-, -, rfl⟩ := heq3
            exact KeepsWhole.kw_refl _
        split
        · rename_i heq3
          exact e1.kw_trans (key _ _ _ heq3)
        · rename_i o pf3 h3 heq3
          have e3 := e1.kw_trans (key _ _ _ heq3)
          have e4 := e3.kw_trans
            (ipf_write_recovery_record_whole env pf3 h3 o pf3.meta_data_recovery_node)
          rcases hc : ipf_write_recovery_record env pf3 h3 o pf3.meta_data_recovery_node
            with ⟨b, pf4, h4⟩
          rw [hc] at e4
          cases b
          · exact (e4.kw_trans (cb_close_whole env h4 .recovery)).kw_trans
              (cb_delete_whole env _)
          · dsimp only at e4 ⊢
            have e5 := e4.kw_trans (cb_close_whole env h4 .recovery)
            rcases hcl : cb_close env h4 .recovery with ⟨s5, h5⟩
            rw [hcl] at e5
            dsimp only at e5 ⊢
            split_ifs <;> exact e5

theorem update_data_nodes_whole (env : Env) (l : List NodePtr) (pf : pf_context_t) (h : Host) :
    KeepsWhole h (update_data_nodes env l pf h).2.2 := by
  induction l generalizing pf h with
  | nil => exact KeepsWhole.kw_refl h
  | cons p rest ih =>
    unfold update_data_nodes
    dsimp only
    split
    · have := ipf_derive_random_node_key_whole env pf h (pf.deref p).physical_node_number
      rcases hc : ipf_derive_random_node_key env pf h (pf.deref p).physical_node_number
        with ⟨b, pf1, h1⟩
      rw [hc] at this
      cases b
      · exact this
      · dsimp only at this ⊢
        split
        · exact this
        · exact this.kw_trans (ih ..)
    · exact ih ..

theorem update_mht_nodes_whole (env : Env) (l : List NodePtr) (pf : pf_context_t) (h : Host) :
    KeepsWhole h (update_mht_nodes env l pf h).2.2 := by
  induction l generalizing pf h with
  | nil => exact KeepsWhole.kw_refl h
  | cons p rest ih =>
    unfold update_mht_nodes
    dsimp only
    have := ipf_derive_random_node_key_whole env pf h (pf.deref p).physical_node_number
    rcases hc : ipf_derive_random_node_key env pf h (pf.deref p).physical_node_number
      with ⟨b, pf1, h1⟩
    rw [hc] at this
    cases b
    · exact this
    · dsimp only at this ⊢
      split
      · exact this
      · exact this.kw_trans (ih ..)

theorem ipf_update_all_data_and_mht_nodes_whole (env : Env) (pf : pf_context_t) (h : Host) :
    KeepsWhole h (ipf_update_all_data_and_mht_nodes env pf h).2.2 := by
  unfold ipf_update_all_data_and_mht_nodes
  have e1 := update_data_nodes_whole env (cache_ptrs pf) pf h
  rcases h1e : update_data_nodes env (cache_ptrs pf) pf h with ⟨b, pf1, h1⟩
  rw [h1e] at e1
  cases b
  · exact e1
  · dsimp only at e1 ⊢
    have e2 := e1.kw_trans (update_mht_nodes_whole env
      (LISTP_SORT (fun a b => mht_sort (pf1.deref a) (pf1.deref b))
        (collect_mht_list pf1 (cache_ptrs pf1) [])) pf1 h1)
    rcases h2e : update_mht_nodes env
      (LISTP_SORT (fun a b => mht_sort (pf1.deref a) (pf1.deref b))
        (collect_mht_list pf1 (cache_ptrs pf1) [])) pf1 h1 with ⟨b, pf2, h2⟩
    rw [h2e] at e2
    cases b
    · exact e2
    · dsimp only at e2 ⊢
      have e3 := e2.kw_trans
        (ipf_derive_random_node_key_whole env pf2 h2 pf2.root_mht.physical_node_number)
      rcases h3e : ipf_derive_random_node_key env pf2 h2 pf2.root_mht.physical_node_number
        with ⟨b, pf3, h3⟩
      rw [h3e] at e3
      cases b
      · exact e3
      · dsimp only at e3 ⊢
        split_ifs <;> exact e3

theorem ipf_update_meta_data_node_whole (env : Env) (pf : pf_context_t) (h : Host) :
    KeepsWhole h (ipf_update_meta_data_node env pf h).2.2 := by
  unfold ipf_update_meta_data_node ipf_generate_random_meta_data_key
  have e1 := ipf_generate_secure_blob_from_user_kdk_whole env pf h false
  rcases h1e : ipf_generate_secure_blob_from_user_kdk env pf h false with ⟨b, pf1, h1⟩
  rw [h1e] at e1
  cases b
  · exact e1
  · dsimp only at e1 ⊢
    split_ifs <;> exact e1


theorem flush_log_step_whole (env : Env) (pf : pf_context_t) (h : Host) :
    KeepsWhole h (flush_log_step env pf h).2.2 := by
  unfold flush_log_step
  split_ifs
  · exact ipf_write_recovery_file_whole env pf h
  · exact KeepsWhole.kw_refl h

theorem alloc_whole (env : Env) (h : Host) : KeepsWhole h (alloc env h).2 :=
  KeepsWhole.of_size rfl

theorem ipf_read_node_whole (env : Env) (pf : pf_context_t) (h : Host) (n : Nat) :
    KeepsWhole h (ipf_read_node env pf h n).2.2 := by
  unfold ipf_read_node
  repeat' (first | split | dsimp only)
  all_goals exact KeepsWhole.of_size rfl

theorem cb_write_whole (env : Env) (h : Host) (b : Block) (o : Nat)
    (ho : o % PF_NODE_SIZE = 0) : KeepsWhole h (cb_write env h b o PF_NODE_SIZE).2 := by
  refine ⟨fun w => ?_⟩
  unfold Whole at w ⊢
  unfold cb_write
  dsimp only
  split_ifs
  · exact w
  · show max h.file_size (o + PF_NODE_SIZE) % PF_NODE_SIZE = 0
    rcases Nat.le_total h.file_size (o + PF_NODE_SIZE) with c | c
    · rw [Nat.max_eq_right c]
      unfold PF_NODE_SIZE at ho ⊢
      omega
    · rw [Nat.max_eq_left c]
      exact w

theorem ipf_write_node_whole (env : Env) (pf : pf_context_t) (h : Host) (n : Nat) (b : Block) :
    KeepsWhole h (ipf_write_node env pf h n b).2.2 := by
  unfold ipf_write_node ipf_write_file
  have := cb_write_whole env h b (n * PF_NODE_SIZE % U64) (by
    unfold PF_NODE_SIZE U64
    omega)
  rcases hc : cb_write env h b (n * PF_NODE_SIZE % U64) PF_NODE_SIZE with ⟨st, h1⟩
  rw [hc] at this
  dsimp only at this ⊢
  split_ifs <;> exact this

theorem ipf_set_update_flag_whole (env : Env) (pf : pf_context_t) (h : Host) :
    KeepsWhole h (ipf_set_update_flag env pf h).2.2 := by
  unfold ipf_set_update_flag
  dsimp only
  have := ipf_write_node_whole env (pf.with_update_flag 1) h 0
    (.meta (pf.with_update_flag 1).file_meta_data)
  rcases hw : ipf_write_node env (pf.with_update_flag 1) h 0
    (.meta (pf.with_update_flag 1).file_meta_data) with ⟨b, pf2, h2⟩
  rw [hw] at this
  cases b <;> exact this

theorem ipf_clear_update_flag_whole (env : Env) (pf : pf_context_t) (h : Host) :
    KeepsWhole h (ipf_clear_update_flag env pf h).2 := by
  unfold ipf_clear_update_flag
  exact ipf_write_node_whole ..

theorem write_dirty_nodes_whole (env : Env) (l : List NodePtr) (pf : pf_context_t) (h : Host) :
    KeepsWhole h (write_dirty_nodes env l pf h).2.2 := by
  induction l generalizing pf h with
  | nil => exact KeepsWhole.kw_refl h
  | cons p rest ih =>
    unfold write_dirty_nodes
    dsimp only
    split
    · exact ih ..
    · have := ipf_write_node_whole env pf h (pf.deref p).physical_node_number
        (.node (pf.deref p).encrypted)
      rcases hw : ipf_write_node env pf h (pf.deref p).physical_node_number
        (.node (pf.deref p).encrypted) with ⟨b, pf1, h1⟩
      rw [hw] at this
      cases b
      · exact this
      · exact this.kw_trans (ih ..)

theorem ipf_write_all_changes_to_disk_whole (env : Env) (pf : pf_context_t) (h : Host) :
    KeepsWhole h (ipf_write_all_changes_to_disk env pf h).2.2 := by
  unfold ipf_write_all_changes_to_disk
  dsimp only
  split_ifs
  · have e1 := write_dirty_nodes_whole env (cache_ptrs pf) pf h
    rcases hw : write_dirty_nodes env (cache_ptrs pf) pf h with ⟨b, pf2, h2⟩
    rw [hw] at e1
    cases b
    · exact e1
    · dsimp only at e1 ⊢
      have e2 := ipf_write_node_whole env pf2 h2 1 (.node pf2.root_mht.encrypted)
      rcases hn : ipf_write_node env pf2 h2 1 (.node pf2.root_mht.encrypted) with ⟨b, pf3, h3⟩
      rw [hn] at e2
      cases b
      · exact e2.after e1
      · dsimp only at e2 ⊢
        exact (ipf_write_node_whole ..).after (e2.after e1)
  · exact ipf_write_node_whole ..

theorem ipf_internal_flush_whole (env : Env) (pf : pf_context_t) (h : Host) :
    KeepsWhole h (ipf_internal_flush env pf h).2.2 := by
  unfold ipf_internal_flush
  try dsimp only
  have tail : ∀ (pf1 : pf_context_t) (h1 : Host), KeepsWhole h h1 →
      KeepsWhole h (match ipf_update_meta_data_node env pf1 h1 with
        | (false, pf2, h2) =>
          match ipf_clear_update_flag env pf2 h2 with
          | (pf3, h3) => (false, { pf3 with file_status := CRYPTO_ERROR }, h3)
        | (true, pf2, h2) =>
          match ipf_write_all_changes_to_disk env pf2 h2 with
          | (false, pf3, h3) => (false, { pf3 with file_status := WRITE_TO_DISK_FAILED }, h3)
          | (true, pf3, h3) => (true, { pf3 with need_writing := false }, h3)).2.2 := by
    intro pf1 h1 e1
    have e2 := ipf_update_meta_data_node_whole env pf1 h1
    rcases hu : ipf_update_meta_data_node env pf1 h1 with ⟨b, pf2, h2⟩
    rw [hu] at e2
    cases b
    · dsimp only at e2 ⊢
      have e3 := ipf_clear_update_flag_whole env pf2 h2
      exact (e3.after e2).after e1
    · dsimp only at e2 ⊢
      have e3 := ipf_write_all_changes_to_disk_whole env pf2 h2
      rcases hw : ipf_write_all_changes_to_disk env pf2 h2 with ⟨b, pf3, h3⟩
      rw [hw] at e3
      cases b <;> exact (e3.after e2).after e1
  split_ifs with hnw hguard hrec
  · exact KeepsWhole.of_size rfl
  · -- tree step with recovery log
    have e1 := ipf_write_recovery_file_whole env pf h
    rcases hr : ipf_write_recovery_file env pf h with ⟨b, pf1, h1⟩
    rw [hr] at e1
    cases b
    · exact e1
    · dsimp only at e1 ⊢
      have e2 := ipf_set_update_flag_whole env pf1 h1
      rcases hs : ipf_set_update_flag env pf1 h1 with ⟨b, pf2, h2⟩
      rw [hs] at e2
      cases b
      · exact e2.after e1
      · dsimp only at e2 ⊢
        have e3 := ipf_update_all_data_and_mht_nodes_whole env pf2 h2
        rcases hu : ipf_update_all_data_and_mht_nodes env pf2 h2 with ⟨b, pf3, h3⟩
        rw [hu] at e3
        cases b
        · dsimp only at e3 ⊢
          have e4 := ipf_clear_update_flag_whole env pf3 h3
          exact ((e4.after e3).after e2).after e1
        · exact tail pf3 h3 ((e3.after e2).after e1)
  · try dsimp only
    have e2 := ipf_set_update_flag_whole env pf h
    rcases hs : ipf_set_update_flag env pf h with ⟨b, pf2, h2⟩
    rw [hs] at e2
    cases b
    · exact e2
    · dsimp only at e2 ⊢
      have e3 := ipf_update_all_data_and_mht_nodes_whole env pf2 h2
      rcases hu : ipf_update_all_data_and_mht_nodes env pf2 h2 with ⟨b, pf3, h3⟩
      rw [hu] at e3
      cases b
      · dsimp only at e3 ⊢
        have e4 := ipf_clear_update_flag_whole env pf3 h3
        exact (e4.after e3).after e2
      · exact tail pf3 h3 (e3.after e2)
  · exact tail pf h (KeepsWhole.kw_refl h)

theorem alloc_step_whole (env : Env) {h1 h2 : Host} {b : Bool} (ha : alloc env h1 = (b, h2)) :
    KeepsWhole h1 h2 := by
  have := alloc_whole env h1
  rw [ha] at this
  exact this

theorem ipf_read_mht_node_whole (env : Env) (fuel : Nat) (pf : pf_context_t) (h : Host)
    (n : Nat) : KeepsWhole h (ipf_read_mht_node env fuel pf h n).2.2 := by
  induction fuel generalizing pf h n with
  | zero =>
    unfold ipf_read_mht_node
    try dsimp only
    split_ifs
    · exact KeepsWhole.kw_refl h
    · split
      · exact KeepsWhole.kw_refl h
      · exact KeepsWhole.kw_refl h
  | succ fuel ih =>
    unfold ipf_read_mht_node
    try dsimp only
    split_ifs
    · exact KeepsWhole.kw_refl h
    · split
      · exact KeepsWhole.kw_refl h
      · try dsimp only
        have e1 := ih pf h ((n - 1) / CHILD_MHT_NODES_COUNT)
        rcases hp : ipf_read_mht_node env fuel pf h ((n - 1) / CHILD_MHT_NODES_COUNT)
          with ⟨o, pf1, h1⟩
        rw [hp] at e1
        cases o with
        | none => exact e1
        | some parent =>
          try dsimp only at e1 ⊢
          rcases ha : alloc env h1 with ⟨b, h2⟩
          have a2 := alloc_step_whole env ha
          cases b
          · exact a2.after e1
          · try dsimp only
            have e3 := ipf_read_node_whole env pf1 h2 (mht_physical_node_number n)
            rcases hr : ipf_read_node env pf1 h2 (mht_physical_node_number n) with ⟨ob, pf3, h3⟩
            rw [hr] at e3
            cases ob with
            | none => exact e3.after (a2.after e1)
            | some block =>
              try dsimp only at e3 ⊢
              split_ifs
              all_goals first
                | exact e3.after (a2.after e1)
                | (rcases ha2 : alloc env h3 with ⟨b, h4⟩
                   have a4 := alloc_step_whole env ha2
                   cases b <;> exact a4.after (e3.after (a2.after e1)))

theorem ipf_append_mht_node_whole (env : Env) (pf : pf_context_t) (h : Host) (n : Nat) :
    KeepsWhole h (ipf_append_mht_node env pf h n).2.2 := by
  unfold ipf_append_mht_node
  have e1 := ipf_read_mht_node_whole env n pf h ((n - 1) / CHILD_MHT_NODES_COUNT)
  rcases hp : ipf_read_mht_node env n pf h ((n - 1) / CHILD_MHT_NODES_COUNT) with ⟨o, pf1, h1⟩
  rw [hp] at e1
  cases o with
  | none => exact e1
  | some parent =>
    try dsimp only at e1 ⊢
    rcases ha : alloc env h1 with ⟨b, h2⟩
    have a2 := alloc_step_whole env ha
    cases b
    · exact a2.after e1
    · try dsimp only
      rcases ha2 : alloc env h2 with ⟨b, h3⟩
      have a3 := alloc_step_whole env ha2
      cases b <;> exact a3.after (a2.after e1)

theorem ipf_get_mht_node_whole (env : Env) (pf : pf_context_t) (h : Host) :
    KeepsWhole h (ipf_get_mht_node env pf h).2.2 := by
  unfold ipf_get_mht_node
  try dsimp only
  split_ifs
  · exact KeepsWhole.kw_refl h
  · exact KeepsWhole.kw_refl h
  · exact ipf_append_mht_node_whole ..
  · exact ipf_read_mht_node_whole ..

theorem ipf_append_data_node_whole (env : Env) (pf : pf_context_t) (h : Host) :
    KeepsWhole h (ipf_append_data_node env pf h).2.2 := by
  unfold ipf_append_data_node
  have e1 := ipf_get_mht_node_whole env pf h
  rcases hp : ipf_get_mht_node env pf h with ⟨o, pf1, h1⟩
  rw [hp] at e1
  cases o with
  | none => exact e1
  | some parent =>
    try dsimp only at e1 ⊢
    rcases ha : alloc env h1 with ⟨b, h2⟩
    have a2 := alloc_step_whole env ha
    cases b
    · exact a2.after e1
    · try dsimp only
      rcases ha2 : alloc env h2 with ⟨b, h3⟩
      have a3 := alloc_step_whole env ha2
      cases b <;> exact a3.after (a2.after e1)

theorem ipf_read_data_node_whole (env : Env) (pf : pf_context_t) (h : Host) :
    KeepsWhole h (ipf_read_data_node env pf h).2.2 := by
  unfold ipf_read_data_node
  try dsimp only
  rcases hl : lruc_get pf.cache (get_node_numbers pf.offset).physical_data_node_number
    with ⟨o, c1⟩
  cases o with
  | some x => exact KeepsWhole.kw_refl h
  | none =>
    try dsimp only
    have e1 := ipf_get_mht_node_whole env pf h
    rcases hp : ipf_get_mht_node env pf h with ⟨o, pf1, h1⟩
    rw [hp] at e1
    cases o with
    | none => exact e1
    | some parent =>
      try dsimp only at e1 ⊢
      rcases ha : alloc env h1 with ⟨b, h2⟩
      have a2 := alloc_step_whole env ha
      cases b
      · exact a2.after e1
      · try dsimp only
        have e3 := ipf_read_node_whole env pf1 h2
          (get_node_numbers pf.offset).physical_data_node_number
        rcases hr : ipf_read_node env pf1 h2
          (get_node_numbers pf.offset).physical_data_node_number with ⟨ob, pf3, h3⟩
        rw [hr] at e3
        cases ob with
        | none => exact e3.after (a2.after e1)
        | some block =>
          try dsimp only at e3 ⊢
          split_ifs
          all_goals first
            | exact e3.after (a2.after e1)
            | (rcases ha2 : alloc env h3 with ⟨b, h4⟩
               have a4 := alloc_step_whole env ha2
               cases b <;> exact a4.after (e3.after (a2.after e1)))

theorem evict_nodes_whole (env : Env) (fuel : Nat) (pf : pf_context_t) (h : Host) :
    KeepsWhole h (evict_nodes env fuel pf h).2.2 := by
  induction fuel generalizing pf h with
  | zero =>
    unfold evict_nodes
    try dsimp only
    split_ifs <;> exact KeepsWhole.kw_refl h
  | succ fuel ih =>
    unfold evict_nodes
    try dsimp only
    split_ifs
    · split
      · exact KeepsWhole.kw_refl h
      · split_ifs
        · exact ih ..
        · have e1 := ipf_internal_flush_whole env pf h
          rcases hf : ipf_internal_flush env pf h with ⟨b, pf1, h1⟩
          rw [hf] at e1
          cases b
          · exact e1
          · dsimp only at e1 ⊢
            exact e1.kw_trans (ih ..)
    · exact KeepsWhole.kw_refl h

theorem ipf_get_data_node_whole (env : Env) (pf : pf_context_t) (h : Host) :
    KeepsWhole h (ipf_get_data_node env pf h).2.2 := by
  unfold ipf_get_data_node
  try dsimp only
  have tail : ∀ (o : Option NodePtr) (pf1 : pf_context_t) (h1 : Host), KeepsWhole h h1 →
      KeepsWhole h (match
          evict_nodes env
            (2 * lruc_size
              (match o with
                | some p =>
                  bump_parents (pf1.deref (pf1.deref p).parent).node_number pf1 (pf1.deref p).parent
                | none => pf1).cache)
            (match o with
              | some p =>
                bump_parents (pf1.deref (pf1.deref p).parent).node_number pf1 (pf1.deref p).parent
              | none => pf1) h1 with
        | (false, pf3, h3) => (none, pf3, h3)
        | (true, pf3, h3) => (o, pf3, h3)).2.2 := by
    intro o pf1 h1 e1
    generalize (match o with
        | some p =>
          bump_parents (pf1.deref (pf1.deref p).parent).node_number pf1 (pf1.deref p).parent
        | none => pf1) = pf2
    have e3 := evict_nodes_whole env (2 * lruc_size pf2.cache) pf2 h1
    rcases he : evict_nodes env (2 * lruc_size pf2.cache) pf2 h1 with ⟨b, pf3, h3⟩
    rw [he] at e3
    cases b <;> exact e3.after e1
  split_ifs
  · exact KeepsWhole.kw_refl h
  · have e1 := ipf_append_data_node_whole env pf h
    rcases hp : ipf_append_data_node env pf h with ⟨o, pf1, h1⟩
    rw [hp] at e1
    exact tail o pf1 h1 e1
  · have e1 := ipf_read_data_node_whole env pf h
    rcases hp : ipf_read_data_node env pf h with ⟨o, pf1, h1⟩
    rw [hp] at e1
    exact tail o pf1 h1 e1

theorem write_data_nodes_whole (env : Env) (ptr : Option (Nat → Byte)) (fuel : Nat) :
    ∀ (pf : pf_context_t) (h : Host) (written left : Nat),
    KeepsWhole h (write_data_nodes env ptr fuel pf h written left).2.2 := by
  induction fuel with
  | zero =>
    intro pf h written left
    rw [write_data_nodes]
    split_ifs <;> exact KeepsWhole.kw_refl h
  | succ fuel ih =>
    intro pf h written left
    by_cases hl : left > 0
    · have st := ipf_get_data_node_whole env pf h
      rcases hg : ipf_get_data_node env pf h with ⟨o, pf1, h1⟩
      rw [hg] at st
      cases o with
      | none =>
        rw [write_data_nodes]
        simp only [hl, if_true, hg]
        exact st
      | some p =>
        rw [write_data_nodes_step env ptr fuel pf h written left p pf1 h1 hl hg]
        exact st.kw_trans (ih ..)
    · have h0 : left = 0 := by omega
      subst h0
      rw [write_data_nodes_done]
      exact KeepsWhole.kw_refl h

theorem ipf_write_whole (env : Env) (pf : pf_context_t) (h : Host)
    (ptr : Option (Nat → Byte)) (n : Nat) :
    KeepsWhole h (ipf_write env pf h ptr n).2.2 := by
  unfold ipf_write
  split_ifs
  · exact KeepsWhole.kw_refl h
  · exact KeepsWhole.kw_refl h
  · exact KeepsWhole.kw_refl h
  · dsimp only
    exact write_data_nodes_whole ..
  · dsimp only
    exact write_data_nodes_whole ..

theorem pf_set_size_whole (env : Env) (pf : pf_context_t) (h : Host) (size : Nat) :
    KeepsWhole h (pf_set_size env pf h size).2.2 := by
  unfold pf_set_size
  split_ifs
  · exact KeepsWhole.kw_refl h
  · exact KeepsWhole.kw_refl h
  · exact KeepsWhole.kw_refl h
  · dsimp only
    have e := ipf_write_whole env { pf with offset := pf.encrypted_part_plain.size } h none
      (size - pf.encrypted_part_plain.size)
    rcases hw : ipf_write env { pf with offset := pf.encrypted_part_plain.size } h none
      (size - pf.encrypted_part_plain.size) with ⟨written, pf2, h2⟩
    rw [hw] at e
    dsimp only at e ⊢
    split_ifs <;> exact e
  · exact KeepsWhole.kw_refl h

theorem ipf_seek_whole (env : Env) (pf : pf_context_t) (h : Host) (o : Nat) :
    KeepsWhole h (ipf_seek env pf h o).2.2 := by
  unfold ipf_seek
  split_ifs
  · exact KeepsWhole.kw_refl h
  · exact KeepsWhole.kw_refl h
  · dsimp only
    have e := pf_set_size_whole env pf h o
    rcases hs : pf_set_size env pf h o with ⟨st, pf1, h1⟩
    rw [hs] at e
    dsimp only at e ⊢
    cases PF_SUCCESS st <;> exact e
  · exact KeepsWhole.kw_refl h

theorem pf_write_whole (env : Env) (pf : pf_context_t) (h : Host) (offset size : Nat)
    (input : Option (Nat → Byte)) :
    KeepsWhole h (pf_write env pf h offset size input).2.2 := by
  unfold pf_write
  split_ifs
  · exact KeepsWhole.kw_refl h
  · have e1 := ipf_seek_whole env pf h offset
    rcases hs : ipf_seek env pf h offset with ⟨b, pf1, h1⟩
    rw [hs] at e1
    cases b
    · exact e1
    · dsimp only at e1 ⊢
      have e2 := ipf_write_whole env pf1 h1 input size
      rcases hw : ipf_write env pf1 h1 input size with ⟨count, pf2, h2⟩
      rw [hw] at e2
      dsimp only at e2 ⊢
      split_ifs <;> exact e1.kw_trans e2

theorem write_chunks_whole (env : Env) (chunks : List (List Byte)) :
    ∀ (pf : pf_context_t) (h : Host) (o : Nat),
    KeepsWhole h (write_chunks env pf h o chunks).2.2 := by
  induction chunks with
  | nil =>
    intro pf h o
    exact KeepsWhole.kw_refl h
  | cons c cs ih =>
    intro pf h o
    rw [write_chunks_cons]
    exact (pf_write_whole ..).kw_trans (ih ..)

theorem ipf_erase_recovery_file_whole (env : Env) (pf : pf_context_t) (h : Host) :
    KeepsWhole h (ipf_erase_recovery_file env pf h).2.2 := by
  unfold ipf_erase_recovery_file
  split_ifs
  · exact KeepsWhole.kw_refl h
  · have e := cb_delete_whole env h
    rcases hd : cb_delete env h with ⟨st, h1⟩
    rw [hd] at e
    dsimp only at e ⊢
    split_ifs <;> exact e

/-- The file that `pf_close` leaves of a context without a failure status has a whole number
of nodes when the file had one before. -/
theorem pf_close_whole (env : Env) (pf : pf_context_t) (h : Host)
    (hst : pf.file_status = SUCCESS) : KeepsWhole h (pf_close env pf h).2 := by
  unfold pf_close
  split_ifs
  · exact KeepsWhole.kw_refl h
  · have key : KeepsWhole h (ipf_close env pf h).2.2 := by
      unfold ipf_close
      rw [if_neg (not_not.2 hst)]
      have e1 := ipf_internal_flush_whole env pf h
      rcases hf : ipf_internal_flush env pf h with ⟨b, pf1, h1⟩
      rw [hf] at e1
      dsimp only at e1 ⊢
      split_ifs
      · exact e1.kw_trans (ipf_erase_recovery_file_whole env pf1 h1)
      · exact e1
    rcases hc : ipf_close env pf h with ⟨b, pf1, h1⟩
    rw [hc] at key
    cases b <;> exact key

/-- A `pf_open` that has created a file was given a size of whole nodes, and has kept the size
of the file on the host a whole number of nodes. -/
theorem pf_open_create_size (env : Env) (hcb : CallbacksSucceed env) (h0 : Host)
    (handle : pf_handle_t) (p : Path) (size0 : Nat) (mode : pf_file_mode_t) (er : Bool)
    (kdk : pf_key_t) (st : pf_status_t) (pf : pf_context_t) (h1 : Host)
    (hopen : pf_open env h0 (some handle) (some p) size0 mode true er (some kdk)
      = (st, some pf, h1)) :
    size0 % PF_NODE_SIZE = 0 ∧ KeepsWhole h0 h1 := by
  unfold pf_open at hopen
  by_cases gi : env.g_initialized = true
  · have g0 : ¬ (!env.g_initialized) = true := by rw [gi]; simp
    rw [if_neg g0] at hopen
    have hm := ipf_init_session_master_key_ok env hcb ipf_init_fields
      { h0 with allocs := h0.allocs + 1 }
    have k5 := ipf_init_session_master_key_whole env ipf_init_fields
      { h0 with allocs := h0.allocs + 1 }
    rcases hk : ipf_init_session_master_key env ipf_init_fields
      { h0 with allocs := h0.allocs + 1 } with ⟨b, pf1, hh1⟩
    rw [hk] at hm k5
    dsimp only at hm k5
    subst hm
    rw [ipf_open_some_eq env h0 p mode true handle size0 kdk er (hcb.alloc _) pf1 hh1 hk]
      at hopen
    by_cases hp : p.length > env.PATH_MAX_SIZE - 1
    · rw [if_pos hp, ipf_open_out_fail NO_MEMORY
        { ipf_init_fields with last_error := PATH_TOO_LONG } _ rfl] at hopen
      cases hopen
    · rw [if_neg hp] at hopen
      by_cases hs : size0 % PF_NODE_SIZE ≠ 0
      · rw [if_pos hs, ipf_open_out_fail NO_MEMORY
          { pf1 with user_kdk_key := kdk, last_error := INVALID_HEADER } _ rfl] at hopen
        cases hopen
      · rw [if_neg hs, if_neg (by decide)] at hopen
        unfold ipf_open_out at hopen
        rw [if_neg (by show ¬ PF_FAILURE SUCCESS = true; decide)] at hopen
        simp only [Prod.mk.injEq, Option.some.injEq] at hopen
        obtain ⟨-, -, rfl⟩ := hopen
        exact ⟨not_not.1 hs, ⟨fun w => k5.keep w⟩⟩
  · have g1 : (!env.g_initialized) = true := by
      cases hg : env.g_initialized
      · rfl
      · exact absurd hg gi
    rw [if_pos g1] at hopen
    cases hopen

theorem example_created_open :
    pf_open example_env example_host (some .source) (some ['a']) 0
        (PF_FILE_MODE_READ + PF_FILE_MODE_WRITE) true false (some 7)
      = (SUCCESS, some example_created.1, example_created.2) := by
  have hs : (pf_open example_env example_host (some .source) (some ['a']) 0
      (PF_FILE_MODE_READ + PF_FILE_MODE_WRITE) true false (some 7)).2.1.isSome = true := by
    decide!
  have h1 : (pf_open example_env example_host (some .source) (some ['a']) 0
      (PF_FILE_MODE_READ + PF_FILE_MODE_WRITE) true false (some 7)).1 = SUCCESS := by
    decide!
  unfold example_created
  rcases hx : pf_open example_env example_host (some .source) (some ['a']) 0
      (PF_FILE_MODE_READ + PF_FILE_MODE_WRITE) true false (some 7) with ⟨a, _ | b, c⟩
  · rw [hx] at hs
    cases hs
  · rw [hx] at h1
    dsimp only at h1 ⊢
    rw [h1]

/-- A `pf_read` of no bytes at an offset within the file returns `SUCCESS` and leaves the
output buffer as it was. -/
theorem pf_read_empty (env : Env) (hinit : env.g_initialized = true) (pf : pf_context_t)
    (h : Host) (o : Nat) (out : Nat → Byte) (hst : pf.file_status = SUCCESS)
    (ho : o ≤ pf.encrypted_part_plain.size) :
    (pf_read env pf h o 0 (some out)).1 = SUCCESS ∧
    (pf_read env pf h o 0 (some out)).2.1 = some out := by
  have g0 : ¬ (!env.g_initialized) = true := by rw [hinit]; simp
  unfold pf_read
  rw [if_neg g0, ipf_seek_within env pf h o hst ho]
  dsimp only
  unfold ipf_read
  simp

/-- C1 (round trip through disk): with succeeding callbacks and an AEAD whose decryption
inverts its encryption, on a context that `pf_open` has created writable, for every sequence of
chunks of bytes written by `pf_write` one after the other from offset 0 on: every `pf_write`
returns `SUCCESS`, `pf_close` returns `SUCCESS` and leaves a file of a whole number of nodes
if the host file had one when it was created (an empty file has), the `pf_open` of the closed
file as an existing file with the same key and path, readable, with a size of a whole number of
nodes, returns `SUCCESS` and a context, and on that context the `pf_read` of every range
`[o, o + n)` within the bytes written returns `SUCCESS` and the bytes of the range (the output
buffer beyond the range is untouched). -/
theorem round_trip_through_disk (env : Env) (hcb : CallbacksSucceed env)
    (hinv : AeadInverse env) (hcap : 10 ≤ env.MAX_PAGES_IN_CACHE) (h0 : Host)
    (handle : pf_handle_t) (p : Path) (kdk : pf_key_t) (size0 size2 : Nat)
    (mode mode2 : pf_file_mode_t) (er er2 : Bool) (st : pf_status_t) (pf0 : pf_context_t)
    (h1 : Host) (chunks : List (List Byte)) (o n : Nat) (out : Nat → Byte)
    (hopen : pf_open env h0 (some handle) (some p) size0 mode true er (some kdk)
      = (st, some pf0, h1))
    (hw : mode_has mode PF_FILE_MODE_WRITE = true)
    (hr : mode_has mode2 PF_FILE_MODE_READ = true)
    (hsz : size2 % PF_NODE_SIZE = 0)
    (hlen : chunks.flatten.length ≤ NO_WRAP) (hon : o + n ≤ chunks.flatten.length) :
    (∀ s, s ∈ (write_chunks env pf0 h1 0 chunks).1 → s = SUCCESS) ∧
    (pf_close env (write_chunks env pf0 h1 0 chunks).2.1
      (write_chunks env pf0 h1 0 chunks).2.2).1 = SUCCESS ∧
    (h0.file_size % PF_NODE_SIZE = 0 →
      (pf_close env (write_chunks env pf0 h1 0 chunks).2.1
        (write_chunks env pf0 h1 0 chunks).2.2).2.file_size % PF_NODE_SIZE = 0) ∧
    ∃ pf2 h2,
      pf_open env
          (pf_close env (write_chunks env pf0 h1 0 chunks).2.1
            (write_chunks env pf0 h1 0 chunks).2.2).2
          (some handle) (some p) size2 mode2 false er2 (some kdk)
        = (SUCCESS, some pf2, h2) ∧
      (pf_read env pf2 h2 o n (some out)).1 = SUCCESS ∧
      ∃ out2, (pf_read env pf2 h2 o n (some out)).2.1 = some out2 ∧
        (∀ i, i < n → out2 i = chunks.flatten.getD (o + i) 0) ∧
        (∀ i, n ≤ i → out2 i = out i) := by
  obtain ⟨gi, hp, s0, z0, m0, k0, c0, f0⟩ := pf_open_create_session env hcb h0 handle p size0
    mode er kdk st pf0 h1 hopen
  obtain ⟨w1, w2, w3, w4, w5, w6⟩ := write_chunks_session env hcb hinv hcap gi chunks pf0 h1 0
    s0 (by rw [m0]; exact hw) z0 (by omega)
  rw [Nat.zero_add] at w5 w6
  obtain ⟨t1, t2, t3, t4, t5, t6, t7, t8, t9, t10, t11⟩ := w2.s_flush hcb hinv
  obtain ⟨c1, c2⟩ := pf_close_flushed env gi _ _ w2.status t1
  have hset := (settings_of_stable t5).trans w3
  have hkey : (ipf_internal_flush env (write_chunks env pf0 h1 0 chunks).2.1
      (write_chunks env pf0 h1 0 chunks).2.2).2.1.user_kdk_key = kdk := by
    have := congrArg (fun x => x.2.2.1) hset
    unfold pf_context_t.settings at this
    dsimp only at this
    rw [this]
    exact k0
  have hname : (ipf_internal_flush env (write_chunks env pf0 h1 0 chunks).2.1
      (write_chunks env pf0 h1 0 chunks).2.2).2.1.encrypted_part_plain.clean_filename = p := by
    have := congrArg (fun x => x.2.2.2.2.2) hset
    unfold pf_context_t.settings at this
    dsimp only at this
    rw [this]
    exact c0
  have hsize : (ipf_internal_flush env (write_chunks env pf0 h1 0 chunks).2.1
      (write_chunks env pf0 h1 0 chunks).2.2).2.1.encrypted_part_plain.size
      = chunks.flatten.length := t3.1.trans w5
  obtain ⟨pf2, h2, e1, e2, e3, e4, e5, e6, e7, e8, e9, e10⟩ := pf_open_existing_ok env hcb hinv
    gi _ handle p size2 mode2 er2 kdk _ hp hsz hkey (by rw [c2]; exact t8)
    (t6.trans (w4.trans f0)) t7 t9 hname
    (fun hl => by
      rw [c2]
      exact t10 (by rw [← t3.1]; exact hl))
  obtain ⟨b1, b2⟩ := reopen_agrees env _ _ pf2 h2 t2 t4 t11 e4 e3 e10 (e2.trans c2)
  have wf2 : WellFormed env pf2 h2 := WellFormed.of_empty env pf2 h2 (by rw [e4]; rfl)
    (by rw [e3]; exact t2.good.size_le) e7 e8 e9
  have hsize2 : pf2.encrypted_part_plain.size = chunks.flatten.length := by
    rw [e3]
    exact hsize
  have hwhole : h0.file_size % PF_NODE_SIZE = 0 →
      (pf_close env (write_chunks env pf0 h1 0 chunks).2.1
        (write_chunks env pf0 h1 0 chunks).2.2).2.file_size % PF_NODE_SIZE = 0 :=
    fun w0 => (pf_close_whole env _ _ w2.status).keep
      ((write_chunks_whole env chunks pf0 h1 0).keep
        ((pf_open_create_size env hcb h0 handle p size0 mode er kdk st pf0 h1 hopen).2.keep w0))
  refine ⟨w1, c1, hwhole, pf2, h2, e1, ?_⟩
  by_cases hn : n = 0
  · subst hn
    obtain ⟨q1, q2⟩ := pf_read_empty env gi pf2 h2 o out e6 (by omega)
    exact ⟨q1, out, q2, fun i hi => absurd hi (Nat.not_lt_zero i), fun _ _ => rfl⟩
  · have hn0 : 0 < n := Nat.pos_of_ne_zero hn
    have hfetch : ipf_read_fetches env { pf2 with offset := o, end_of_file := false } h2 n
        = true := by
      refine ipf_read_fetches_ok env hcb hinv hcap _ h2 n ((wf2.with_offset o).with_eof false)
        (by rw [← e5] at hr; exact hr) e6 rfl hn0 (by rw [← hsize2] at hon; exact hon) ?_
      intro d _ hd2
      have hl : live_data pf2.encrypted_part_plain.size d := by
        unfold live_data
        have hd2' : MD_USER_DATA_SIZE + d * PF_NODE_SIZE < o + n := hd2
        omega
      exact (b2 d hl).sa_congr _ h2 (fun _ => rfl) rfl rfl
    obtain ⟨r1, ⟨out2, r3, r4, r5⟩, -, -⟩ := pf_read_reads env hinv hcap gi pf2 h2 o n out wf2
      (by rw [← e5] at hr; exact hr) e6 hn0 (by omega) hfetch
    refine ⟨r1, out2, r3, fun i hi => ?_, r5⟩
    rw [r4 i hi, b1 _ (by omega), t3.2 _ (by omega), w6 _ (by omega),
      if_neg (Nat.not_lt_zero _)]
    rfl

/-- Witness for C1 on the example environment: the new file is written with 3000 bytes `A` and
then 200 bytes `B`, which reach into data node 0, and closed; the disk then holds three blocks;
the file is opened again with its size on disk, and the read of the 150 bytes from offset 3000
on returns `SUCCESS`. -/
theorem round_trip_through_disk_witness :
    example_chunks_closed.file_size = 3 * PF_NODE_SIZE ∧
    (∀ s, s ∈ (write_chunks example_env example_created.1 example_created.2 0
        example_chunks).1 → s = SUCCESS) ∧
    (pf_close example_env
      (write_chunks example_env example_created.1 example_created.2 0 example_chunks).2.1
      (write_chunks example_env example_created.1 example_created.2 0
        example_chunks).2.2).1 = SUCCESS ∧
    (example_host.file_size % PF_NODE_SIZE = 0 →
      (pf_close example_env
        (write_chunks example_env example_created.1 example_created.2 0 example_chunks).2.1
        (write_chunks example_env example_created.1 example_created.2 0
          example_chunks).2.2).2.file_size % PF_NODE_SIZE = 0) ∧
    ∃ pf2 h2,
      pf_open example_env
          (pf_close example_env
            (write_chunks example_env example_created.1 example_created.2 0
              example_chunks).2.1
            (write_chunks example_env example_created.1 example_created.2 0
              example_chunks).2.2).2
          (some .source) (some ['a']) (3 * PF_NODE_SIZE) PF_FILE_MODE_READ false false (some 7)
        = (SUCCESS, some pf2, h2) ∧
      (pf_read example_env pf2 h2 3000 150 (some (fun _ => 0))).1 = SUCCESS ∧
      ∃ out2, (pf_read example_env pf2 h2 3000 150 (some (fun _ => 0))).2.1 = some out2 ∧
        (∀ i, i < 150 → out2 i = example_chunks.flatten.getD (3000 + i) 0) ∧
        (∀ i, 150 ≤ i → out2 i = 0) :=
  ⟨by decide!,
    round_trip_through_disk example_env example_env_callbacks example_env_aead_inverse
      (by decide) example_host .source ['a'] 7 0 (3 * PF_NODE_SIZE)
      (PF_FILE_MODE_READ + PF_FILE_MODE_WRITE) PF_FILE_MODE_READ false false SUCCESS
      example_created.1 example_created.2 example_chunks 3000 150 (fun _ => 0)
      example_created_open (by decide) (by decide) (by decide) (by decide!) (by decide!)⟩

end PF
